import Mathlib

/-!
# GJSON: a shallow embedding of the embedded JSON builder and parser

The development follows the C++ headers `gjson_support.h`, `gjson_elements.h`,
`gjson_builders.h`, `gjson_io_buffer.h` and `gjson_parser.h`.

Modelling conventions

* A `char*` is the list of bytes that starts at the pointer.  The C string it
  denotes is the part before the first NUL (`cstr`); reading at or after the end
  of the list yields NUL.
* `uint8_t`, `uint16_t` and `int16_t` assignments are written with the explicit
  wrap functions `wrapU8`, `wrapU16`, `wrapI16`.  Operands of comparisons and of
  sums that are compared are taken after integer promotion (an `int` and a
  `size_t` wider than 16 bits).
* The element chain is the list of nodes in `Next()` order.
* The template parameter `LENGTH` and the sizes `sizeof(JSONArray<LENGTH>)`
  (equal to `sizeof(JSONMap<LENGTH>)`) and `sizeof(JSONString<LENGTH>)` are
  parameters.
-/

namespace GJSON

/-! ## C primitives -/

/-- The NUL byte that ends a C string. -/
def NUL : Char := Char.ofNat 0

/-- The horizontal tab. -/
def TAB : Char := Char.ofNat 9

/-- The double quote. -/
def DQUOTE : Char := Char.ofNat 34

/-- The backslash. -/
def BACKSLASH : Char := Char.ofNat 92

/-- Conversion to `uint8_t`. -/
def wrapU8 (x : Int) : Nat := (x % 256).toNat

/-- Conversion to `uint16_t`. -/
def wrapU16 (x : Int) : Nat := (x % 65536).toNat

/-- Conversion to `int16_t` (two's complement). -/
def wrapI16 (x : Int) : Int := (x + 32768) % 65536 - 32768

/-- The C string at a pointer: the bytes before the first NUL. -/
def cstr (m : List Char) : List Char := m.takeWhile (fun c => c != NUL)

/-- The function `strlen`. -/
def strlen (m : List Char) : Nat := (cstr m).length

/-- The read `p[i]`. -/
def charAt (m : List Char) (i : Nat) : Char := m.getD i NUL

/-- The pointer `&p[i]`. -/
def ptrAt (m : List Char) (i : Int) : List Char := m.drop i.toNat

/-- Stores `bytes` at `m[pos], m[pos+1], ...`, one byte after the other. -/
def writeAt (m : List Char) (pos : Nat) : List Char → List Char
  | [] => m
  | c :: cs => writeAt (m.set pos c) (pos + 1) cs

/-- The `n` bytes read at `m[src], ..., m[src+n-1]`. -/
def readAt (m : List Char) (src : Nat) : Nat → List Char
  | 0 => []
  | n + 1 => charAt m src :: readAt m (src + 1) n

/-- The function `memmove(&m[dst], &m[src], n)`: the source bytes are read before
any byte is stored. -/
def memmove (m : List Char) (dst src n : Nat) : List Char :=
  writeAt m dst (readAt m src n)

/-- The function `memcpy(&m[dst], s, n)`. -/
def memcpy (m : List Char) (dst : Nat) (s : List Char) (n : Nat) : List Char :=
  writeAt m dst (readAt s 0 n)

/-! ## `gjson_support.h`: `JSONSupport` -/

/-- The test of the loop body of `JSONSupport::StrNCmp` at index `i`. -/
def StrNCmp.differs (s1 s2 : List Char) (case_sensitive : Bool) (i : Nat) : Bool :=
  (case_sensitive && charAt s1 i != charAt s2 i) ||
    (!case_sensitive && (charAt s1 i).toNat &&& 223 != (charAt s2 i).toNat &&& 223)

/-- The loop of `JSONSupport::StrNCmp`: `k` indices remain from `i` on. -/
def StrNCmp.scan (s1 s2 : List Char) (case_sensitive : Bool) : Nat → Nat → Int
  | 0, _ => 0
  | k + 1, i =>
    if StrNCmp.differs s1 s2 case_sensitive i then -1
    else StrNCmp.scan s1 s2 case_sensitive k (i + 1)

/-- The function `JSONSupport::StrNCmp`. -/
def StrNCmp (s1 s2 : List Char) (n : Nat) (case_sensitive : Bool := true) : Int :=
  let r := StrNCmp.scan s1 s2 case_sensitive n 0
  if r == 0 then
    if strlen s1 > n then 1 else 0
  else r

/-- The function `JSONSupport::IsNull`. -/
def IsNull (s : List Char) (l : Nat) : Bool :=
  l == 4 && StrNCmp s "null".toList 4 == 0

/-- The function `JSONSupport::IsBoolean`. -/
def IsBoolean (s : List Char) (l : Nat) : Bool :=
  if l == 4 && StrNCmp s "true".toList 4 == 0 then true
  else if l == 5 && StrNCmp s "false".toList 5 == 0 then true
  else false

/-- The test `s[i]>='0' && s[i]<='9'`. -/
def isDigit (c : Char) : Bool := decide ('0'.toNat ≤ c.toNat) && decide (c.toNat ≤ '9'.toNat)

/-- The loop of `JSONSupport::IsInt`: `k` indices remain from `i` on; the result is the
local `f`, and a `break` returns at once. -/
def IsInt.scan (s : List Char) (l st : Nat) (allow_leading : Bool) : Nat → Nat → Bool
  | 0, _ => true
  | k + 1, i =>
    if isDigit (charAt s i) then
      if !allow_leading && i == st && '0' == charAt s i && decide (l > 1 + st) then false
      else IsInt.scan s l st allow_leading k (i + 1)
    else false

/-- The function `JSONSupport::IsInt`. -/
def IsInt (s : List Char) (l : Nat) (allow_leading : Bool := false) : Bool :=
  let neg := decide (l > 1) && charAt s 0 == '-'
  let st := if neg then 1 else 0
  let allow_leading := if neg then false else allow_leading
  IsInt.scan s l st allow_leading (l - st) st

/-- The locals of `JSONSupport::IsDecimal`. -/
structure DecimalState where
  /-- Local `f`. -/
  f : Bool
  /-- Local `en`. -/
  en : Bool
  /-- Local `dpnl`. -/
  dpnl : Bool
  /-- Local `dpnr`. -/
  dpnr : Bool
  /-- Local `e`. -/
  e : Nat
  /-- Local `dp`. -/
  dp : Nat
  deriving DecidableEq, Repr

/-- The loop of `JSONSupport::IsDecimal`: `k` indices remain from `i` on; a `break`
returns at once. -/
def IsDecimal.scan (s : List Char) (st : Nat) : Nat → Nat → DecimalState → DecimalState
  | 0, _, d => d
  | k + 1, i, d =>
    let c := charAt s i
    if d.e == 0 then
      if isDigit c then
        if d.dp == 0 && decide (i > st) && '0' == charAt s st then
          { d with f := false }
        else if d.dp == 0 then
          IsDecimal.scan s st k (i + 1) { d with dpnl := true }
        else
          IsDecimal.scan s st k (i + 1) { d with dpnr := true }
      else
        if '.' == c && d.dp == 0 then
          IsDecimal.scan s st k (i + 1) { d with dp := i }
        else if 'E'.toNat == c.toNat &&& 223
            && ((d.dp == 0 && d.dpnl) || (decide (d.dp > 0) && d.dpnr)) then
          IsDecimal.scan s st k (i + 1) { d with e := i }
        else
          { d with f := false }
    else
      if isDigit c then
        IsDecimal.scan s st k (i + 1) { d with en := true }
      else if '-' == c && i == d.e + 1 then
        IsDecimal.scan s st k (i + 1) d
      else if '+' == c && i == d.e + 1 then
        IsDecimal.scan s st k (i + 1) d
      else
        { d with f := false }

/-- The function `JSONSupport::IsDecimal`. -/
def IsDecimal (s : List Char) (l : Nat) (allow_exponent : Bool := true) : Bool :=
  let st := if l > 1 && charAt s 0 == '-' then 1 else 0
  let d := IsDecimal.scan s st (l - st) st
    { f := true, en := false, dpnl := false, dpnr := false, e := 0, dp := 0 }
  if allow_exponent then
    if d.e != 0 && !d.en then false else d.f
  else
    if d.e != 0 then false else d.f

/-- The function `JSONSupport::IsLiteral`. -/
def IsLiteral (s : List Char) (l : Nat) (allow_exponent : Bool := true) : Bool :=
  IsNull s l || IsBoolean s l || IsDecimal s l allow_exponent

/-- The function `JSONSupport::Replace` on the memory at `d`: the new length and the
memory afterwards. -/
def Replace (d : List Char) (d_length d_max : Nat) (sp ep : Int) (s : List Char)
    (sl : Nat) : Nat × List Char :=
  let dl := wrapU16 (ep - sp)
  if sp ≥ 0 ∧ ep ≥ 0 ∧ sp < d_length ∧ ep ≤ d_length then
    if dl == sl then
      (d_length, memcpy d sp.toNat s sl)
    else if dl > sl then
      let diff := wrapU16 ((dl : Int) - sl)
      let d1 := memmove d (ep - diff).toNat ep.toNat ((d_length : Int) - (ep - diff)).toNat
      (wrapU16 ((d_length : Int) - diff), memcpy d1 sp.toNat s sl)
    else
      let diff := wrapU16 ((sl : Int) - dl)
      if d_max ≥ d_length + diff then
        let d1 := memmove d (ep + diff).toNat ep.toNat ((d_length : Int) - (ep - diff)).toNat
        (wrapU16 ((d_length : Int) + diff), memcpy d1 sp.toNat s sl)
      else (d_length, d)
  else (d_length, d)

/-! ## `gjson_elements.h` -/

/-- The class `JSONString<LENGTH>`: `string_` is the content of the buffer as a C
string. -/
structure JSONString where
  /-- Member `string_`, as a C string. -/
  string_ : List Char
  /-- Member `length_`. -/
  length_ : Nat
  /-- Member `is_value_`. -/
  is_value_ : Bool
  /-- Member `literal_`. -/
  literal_ : Bool
  deriving DecidableEq, Repr

/-- The classes `JSONArray<LENGTH>`, `JSONMap<LENGTH>` and `JSONString<LENGTH>`
behind a `JSONElement<LENGTH>*`, by the tag `Type()`. -/
inductive JSONElement where
  /-- Type `ARRAY` with `is_open_`. -/
  | ARRAY (is_open_ : Bool)
  /-- Type `MAP` with `is_open_`. -/
  | MAP (is_open_ : Bool)
  /-- Type `STRING`. -/
  | STRING (s : JSONString)
  deriving DecidableEq, Repr

/-- The count `l` of bytes that `JSONString::Data(d, prefer_literal, length)` copies;
the terminating NUL is stored at `string_[l]`. -/
def JSONString.DataCount (LENGTH : Nat) (d : List Char) (length : Nat) : Nat :=
  if length == 0 then
    let dl := wrapU8 (strlen d)
    if dl < LENGTH then dl else LENGTH - 1
  else
    wrapU8 (if LENGTH < length then ((LENGTH : Int) - 1) else length)

/-- The function `JSONString::Data(d, prefer_literal, length, allow_exponent)`: the
result and the node afterwards. -/
def JSONString.Data (LENGTH : Nat) (self : JSONString) (d : List Char)
    (prefer_literal : Bool := false) (length : Nat := 0) (allow_exponent : Bool := true) :
    Bool × JSONString :=
  let l := JSONString.DataCount LENGTH d length
  let self := { self with string_ := (cstr d).take l, length_ := l }
  if self.is_value_ then
    if prefer_literal then
      if IsLiteral self.string_ self.length_ allow_exponent then
        (true, { self with literal_ := true })
      else (false, self)
    else (true, { self with literal_ := false })
  else
    (!prefer_literal, { self with literal_ := false })

/-- The constructor `JSONString(is_value, e)`. -/
def JSONString.mkEmpty (is_value : Bool := true) : JSONString :=
  { string_ := [], length_ := 0, is_value_ := is_value, literal_ := false }

/-- The constructors `JSONString(s, is_value, is_literal)` and
`JSONString(s, e, is_value, is_literal)`. -/
def JSONString.mkStr (LENGTH : Nat) (s : List Char) (is_value : Bool := true)
    (is_literal : Bool := false) : JSONString :=
  (JSONString.Data LENGTH
    { string_ := [], length_ := 0, is_value_ := is_value, literal_ := is_literal }
    s is_literal).2

/-- The constructor `JSONString(s, l, e, is_value, is_literal)`. -/
def JSONString.mkStrLen (LENGTH : Nat) (s : List Char) (l : Nat) (is_value : Bool := true)
    (is_literal : Bool := false) : JSONString :=
  (JSONString.Data LENGTH
    { string_ := [], length_ := 0, is_value_ := is_value, literal_ := is_literal }
    s is_literal l).2

/-- The function `JSONString::Length(l)`: the result and the node afterwards. -/
def JSONString.Length (LENGTH : Nat) (self : JSONString) (l : Nat) : Nat × JSONString :=
  if (l : Int) < (LENGTH : Int) - 1 then
    if self.length_ > l then (l, { self with string_ := self.string_.take l, length_ := l })
    else (self.length_, self)
  else (self.length_, self)

/-- The function `JSONString::Value(is_value)`: the result and the node afterwards. -/
def JSONString.Value (self : JSONString) (is_value : Bool) : Bool × JSONString :=
  (is_value, { self with is_value_ := is_value })

/-- The function `JSONString::Null()`. -/
def JSONString.Null (LENGTH : Nat) (self : JSONString) : JSONString :=
  let r := if LENGTH < 5 then JSONString.Data LENGTH self "0".toList true
    else JSONString.Data LENGTH self "null".toList true
  { r.2 with literal_ := true }

/-- The function `JSONString::Boolean(v)`. -/
def JSONString.Boolean (LENGTH : Nat) (self : JSONString) (v : Bool) : JSONString :=
  let r := if LENGTH < 6 then
      if v then JSONString.Data LENGTH self "0".toList true
      else JSONString.Data LENGTH self "1".toList true
    else
      if v then JSONString.Data LENGTH self "true".toList true
      else JSONString.Data LENGTH self "false".toList true
  { r.2 with literal_ := true }

/-! ## `gjson_io_buffer.h`: `UserBuffer` and `Buffer<BL>` -/

/-- The classes `UserBuffer` and `Buffer<BL>` (the same code; `max_length_` is
`sizeof(buffer_)` for `Buffer<BL>`); `buffer_` is the memory at the buffer pointer. -/
structure UserBuffer where
  /-- Member `max_length_`. -/
  max_length_ : Nat
  /-- Member `length_`. -/
  length_ : Nat
  /-- Member `buffer_`. -/
  buffer_ : List Char
  deriving DecidableEq, Repr

/-- The constructor `UserBuffer(s, ml, l)`. -/
def UserBuffer.mk3 (s : List Char) (ml : Nat) (l : Nat := 0) : UserBuffer :=
  { max_length_ := ml, length_ := l, buffer_ := s.set l NUL }

/-- The function `Get()`: the pointer to the buffer. -/
def UserBuffer.Get (b : UserBuffer) : List Char := b.buffer_

/-- The function `GetLength(maximum)`. -/
def UserBuffer.GetLength (b : UserBuffer) (maximum : Bool := false) : Nat :=
  if maximum then b.max_length_ else b.length_

/-- The function `Length(length)`. -/
def UserBuffer.Length (b : UserBuffer) (length : Nat) : UserBuffer :=
  { b with length_ := length }

/-- The function `Append(char v)`: the flag `wr_err` and the buffer afterwards. -/
def UserBuffer.AppendChar (b : UserBuffer) (v : Char) : Bool × UserBuffer :=
  if b.length_ < b.max_length_ then
    (false, { b with buffer_ := b.buffer_.set b.length_ v, length_ := wrapU16 (b.length_ + 1) })
  else (true, b)

/-- The function `Append(const char* s)`: the flag `wr_err` and the buffer
afterwards. -/
def UserBuffer.Append (b : UserBuffer) (s : List Char) : Bool × UserBuffer :=
  let l := wrapU8 (strlen s)
  if b.length_ + l < b.max_length_ then
    (false, { b with buffer_ := writeAt b.buffer_ b.length_ (readAt s 0 l),
                     length_ := wrapU16 (b.length_ + l) })
  else (true, b)

/-- The function `Replace(s, sp, ep)` of `UserBuffer` and `Buffer<BL>`: the flag and the
buffer afterwards.  The indices are `uint16_t` here and `int16_t` in
`JSONSupport::Replace`. -/
def UserBuffer.Replace (b : UserBuffer) (s : List Char) (sp ep : Nat) : Bool × UserBuffer :=
  if sp < b.length_ ∧ ep ≤ b.length_ then
    let r := GJSON.Replace b.buffer_ b.length_ b.max_length_ (wrapI16 sp) (wrapI16 ep) s
      (wrapU16 (strlen s))
    (false, { b with length_ := r.1, buffer_ := r.2 })
  else (true, b)

/-! ## `gjson_parser.h`: `JSONConstant`, `JSONTokenizer`, `JSONParse` -/

/-- The enum `JSONConstant::ERR`. -/
inductive ERR where
  | ERR_NONE
  | ERR_UNEXPECTED_END_OF_ARRAY
  | ERR_UNEXPECTED_END_OF_MAP
  | ERR_BAD_ATTRIBUTE
  | ERR_BAD_VALUE
  | ERR_UNTERMINATED_STRING
  | ERR_UNEXPECTED_DATA
  | ERR_NOT_FOUND
  | ERR_OBJECT_MEMORY_LIMIT
  | ERR_CHAR_MEMORY_LIMIT
  | ERR_CALLBACK_STOP
  deriving DecidableEq, Repr

/-- The enum `JSONConstant::OP`. -/
inductive OP where
  | OP_NONE
  | OP_FROM_STRING
  | OP_FROM_OBJECT
  | OP_FIND_OBJECT
  | OP_RELEASE_OBJECT
  deriving DecidableEq, Repr

/-- The callback interface `JSONTokenizer<LENGTH>` of a subclass whose own members are
a value of `σ`.  A callback sees the current operation, gets the element and the source
text, and returns its `bool`, the members afterwards and the text afterwards. -/
structure JSONTokenizer (σ : Type) where
  /-- Callback `TokenArray(e, s, i)`; `e` is given by `IsOpen()`. -/
  TokenArray : OP → σ → Bool → List Char → Nat → Bool × σ × List Char
  /-- Callback `TokenMap(e, s, i)`; `e` is given by `IsOpen()`. -/
  TokenMap : OP → σ → Bool → List Char → Nat → Bool × σ × List Char
  /-- Callback `TokenString(e, s, si, ei)`. -/
  TokenString : OP → σ → JSONString → List Char → Int → Int → Bool × σ × List Char

/-- The callbacks of `JSONParse` itself: each returns `false`. -/
def JSONParse.tokenizer : JSONTokenizer Unit :=
  { TokenArray := fun _ u _ s _ => (false, u, s)
    TokenMap := fun _ u _ s _ => (false, u, s)
    TokenString := fun _ u _ s _ _ => (false, u, s) }

/-- The class `JSONParse<LENGTH>`: its template parameter, the two element sizes, and
its members. -/
structure JSONParse where
  /-- Template parameter `LENGTH`. -/
  LENGTH : Nat
  /-- The size `sizeof(JSONArray<LENGTH>)`, which is `sizeof(JSONMap<LENGTH>)`. -/
  sizeofArray : Nat
  /-- The size `sizeof(JSONString<LENGTH>)`. -/
  sizeofString : Nat
  /-- Member `limit_memory_`. -/
  limit_memory_ : Nat := 256
  /-- Member `limit_node_level_`. -/
  limit_node_level_ : Bool := true
  /-- Member `callbacks_`. -/
  callbacks_ : Bool := false
  /-- Member `case_sensitive_`. -/
  case_sensitive_ : Bool := true
  /-- Member `last_error_`. -/
  last_error_ : ERR := ERR.ERR_NONE
  /-- Member `operation_`. -/
  operation_ : OP := OP.OP_NONE
  /-- Member `binary_size_`. -/
  binary_size_ : Nat := 0
  /-- Member `like_`: the pattern node it points to, `none` for `NULL`. -/
  like_ : Option JSONElement := none
  deriving DecidableEq, Repr

/-- The constructor `JSONParse(io, memory_limit)` for the template parameter `LENGTH`
on a platform with the two element sizes. -/
def JSONParse.new (LENGTH sizeofArray sizeofString : Nat) (memory_limit : Nat := 256) :
    JSONParse :=
  { LENGTH := LENGTH, sizeofArray := sizeofArray, sizeofString := sizeofString,
    limit_memory_ := memory_limit }

/-- The function `JSONParse::MemoryLimit(limit_memory)`: the result and the parser
afterwards. -/
def JSONParse.MemoryLimit (p : JSONParse) (limit_memory : Nat := 0) : Nat × JSONParse :=
  if limit_memory != 0 then (limit_memory, { p with limit_memory_ := limit_memory })
  else (p.limit_memory_, p)

/-- The function `JSONParse::GetBinarySize`. -/
def JSONParse.GetBinarySize (p : JSONParse) : Nat := p.binary_size_

/-- The function `JSONParse::IsLiteralCharater`: the loop runs over
`sizeof(literals)` bytes, the terminating NUL included. -/
def IsLiteralCharater (c : Char) : Bool :=
  ("0123456789.-+eEnultrfas".toList ++ [NUL]).contains c

/-- The locals of `JSONParse::FromString(char*, JSONElement**, uint16_t)` together
with what the loop changes outside them: the text `s`, the subclass members `user`,
`last_error_`, `binary_size_`, the nodes created so far in `Next()` order (`chain`; its
last node is `e`) and the position in `chain` of the node stored in `*h`. -/
structure ScanState (σ : Type) where
  /-- The text at `s`. -/
  s : List Char
  /-- The members of the subclass. -/
  user : σ
  /-- Local `i`. -/
  i : Nat
  /-- Local `is_literal`. -/
  is_literal : Nat
  /-- Local `ac`. -/
  ac : Int
  /-- Local `mc`. -/
  mc : Int
  /-- Local `str_start`. -/
  str_start : Int
  /-- Local `str_end`. -/
  str_end : Int
  /-- The nodes created so far. -/
  chain : List JSONElement
  /-- The position of `*h` in `chain`, once set. -/
  head : Option Nat
  /-- Local `expect_value`. -/
  expect_value : Bool
  /-- Local `stop`. -/
  stop : Bool
  /-- Local `quoted_processing`. -/
  quoted_processing : Bool
  /-- Local `escape`. -/
  escape : Bool
  /-- Member `last_error_`. -/
  last_error_ : ERR
  /-- Member `binary_size_`. -/
  binary_size_ : Nat
  deriving DecidableEq

section FromString

variable {σ : Type}

/-! The single assignments of the loop body. -/

/-- The assignment `last_error_ = e`. -/
def ScanState.setError (e : ERR) (st : ScanState σ) : ScanState σ :=
  { st with last_error_ := e }

/-- The statements that follow the creation of a node `a` with parent `e`: the node is
linked behind `e` and becomes `e`. -/
def ScanState.link (a : JSONElement) (st : ScanState σ) : ScanState σ :=
  { st with chain := st.chain ++ [a] }

/-- The statement `binary_size_ += n`. -/
def ScanState.addSize (n : Nat) (st : ScanState σ) : ScanState σ :=
  { st with binary_size_ := wrapU16 (st.binary_size_ + n) }

/-- The statement `str_start = str_end = -1`. -/
def ScanState.clearSpan (st : ScanState σ) : ScanState σ :=
  { st with str_start := -1, str_end := -1 }

/-- The statements `ac++`, `ac--` (`isMap = false`) and `mc++`, `mc--`
(`isMap = true`), with `d` the step. -/
def ScanState.bump (isMap : Bool) (d : Int) (st : ScanState σ) : ScanState σ :=
  if isMap then { st with mc := wrapI16 (st.mc + d) } else { st with ac := wrapI16 (st.ac + d) }

/-- The statements `is_literal = 1; expect_value = false;` after a value was taken. -/
def ScanState.valueTaken (st : ScanState σ) : ScanState σ :=
  { st with is_literal := 1, expect_value := false }

/-- The statements `expect_value = true; is_literal = 1;` after a key was taken. -/
def ScanState.keyTaken (st : ScanState σ) : ScanState σ :=
  { st with expect_value := true, is_literal := 1 }

/-- The statement `is_literal = 1`. -/
def ScanState.undetermined (st : ScanState σ) : ScanState σ :=
  { st with is_literal := 1 }

/-- The result of a callback stored: `stop`, the members of the subclass and the
text. -/
def ScanState.called (r : Bool × σ × List Char) (st : ScanState σ) : ScanState σ :=
  { st with stop := r.1, user := r.2.1, s := r.2.2 }

/-- The assignment to `i`. -/
def ScanState.setIndex (i : Nat) (st : ScanState σ) : ScanState σ :=
  { st with i := i }

/-- The call `TokenArray(a, s, i)` (`isMap = false`) or `TokenMap(a, s, i)`
(`isMap = true`) on a marker with `IsOpen() = is_open`. -/
def FromString.tokenMarker (cb : JSONTokenizer σ) (isMap is_open : Bool) (st : ScanState σ) :
    Bool × σ × List Char :=
  if isMap then cb.TokenMap OP.OP_FROM_STRING st.user is_open st.s st.i
  else cb.TokenArray OP.OP_FROM_STRING st.user is_open st.s st.i

/-- The statement `if (callbacks_) stop = TokenArray(a, s, i);` of the opening cases. -/
def FromString.callOpen (p : JSONParse) (cb : JSONTokenizer σ) (isMap : Bool)
    (st : ScanState σ) : ScanState σ :=
  if p.callbacks_ then st.called (FromString.tokenMarker cb isMap true st) else st

/-- The statement `if (!stop && callbacks_) stop = TokenArray(a, s, i);` of the closing
cases. -/
def FromString.callClose (p : JSONParse) (cb : JSONTokenizer σ) (isMap : Bool)
    (st : ScanState σ) : ScanState σ :=
  if !st.stop && p.callbacks_ then st.called (FromString.tokenMarker cb isMap false st) else st

/-- The statement `if (callbacks_) { stop = TokenString(a, s, str_start, str_end);
if (stop) i = str_start-1; }` of the cases `']'`, `'}'` and `':'`. -/
def FromString.callString (p : JSONParse) (cb : JSONTokenizer σ) (a : JSONString)
    (st : ScanState σ) : ScanState σ :=
  if p.callbacks_ then
    let t := cb.TokenString OP.OP_FROM_STRING st.user a st.s st.str_start st.str_end
    if t.1 then (st.called t).setIndex (wrapU16 (st.str_start - 1)) else st.called t
  else st

/-- The statement `if (callbacks_) { stop = TokenString(a, s, str_start, str_end);
if (stop) i = str_start; if (!a->IsValueLiteral()) i--; }` of the case `','`. -/
def FromString.callStringComma (p : JSONParse) (cb : JSONTokenizer σ) (a : JSONString)
    (st : ScanState σ) : ScanState σ :=
  if p.callbacks_ then
    let t := cb.TokenString OP.OP_FROM_STRING st.user a st.s st.str_start st.str_end
    let i1 := if t.1 then wrapU16 st.str_start else st.i
    (st.called t).setIndex (if !a.literal_ then wrapU16 ((i1 : Int) - 1) else i1)
  else st

/-- The start of the loop body (the block `if (quoted_processing)`), on the byte `c`
read at `s[i]`. -/
def FromString.quoted (c : Char) (st : ScanState σ) : ScanState σ :=
  if st.quoted_processing then
    if !st.escape then
      if BACKSLASH == c && !st.escape then
        { st with escape := true }
      else if DQUOTE == c then
        if st.str_start == -1 || st.str_end != -1 then
          if st.expect_value then st.setError ERR.ERR_BAD_VALUE
          else st.setError ERR.ERR_BAD_ATTRIBUTE
        else if st.str_end == -1 then
          { st with str_end := wrapI16 st.i, quoted_processing := false }
        else st
      else st
    else { st with escape := false }
  else st

/-- The node of an opening or closing bracket. -/
def FromString.marker (isMap is_open : Bool) : JSONElement :=
  if isMap then JSONElement.MAP is_open else JSONElement.ARRAY is_open

/-- The cases `'['` (`isMap = false`) and `'{'` (`isMap = true`); they differ in the
node type, the callback and the counter. -/
def FromString.caseOpen (p : JSONParse) (cb : JSONTokenizer σ) (h isMap : Bool)
    (st : ScanState σ) : ScanState σ :=
  if !h || p.limit_memory_ ≥ st.binary_size_ + p.sizeofArray then
    ((FromString.callOpen p cb isMap (st.link (FromString.marker isMap true))).bump isMap 1).addSize
      p.sizeofArray
  else st.setError ERR.ERR_OBJECT_MEMORY_LIMIT

/-- The value node made of the pending string: the result of
`a->Data(&s[str_start], 2 == is_literal, (uint8_t)(str_end - str_start))` on a node
constructed by `JSONString(true, e)`. -/
def FromString.valueNode (p : JSONParse) (st : ScanState σ) : Bool × JSONString :=
  JSONString.Data p.LENGTH (JSONString.mkEmpty true) (ptrAt st.s st.str_start)
    (st.is_literal == 2) (wrapU8 (st.str_end - st.str_start))

/-- The block `if (-1 < str_start)` of the cases `']'` and `'}'`: the pending string
becomes a value node. -/
def FromString.closeValue (p : JSONParse) (cb : JSONTokenizer σ) (st : ScanState σ) :
    ScanState σ :=
  let r := FromString.valueNode p st
  (((FromString.callString p cb r.2
      ((if !r.1 then st.setError ERR.ERR_BAD_VALUE else st.valueTaken).link
        (JSONElement.STRING r.2))).clearSpan).addSize p.sizeofString)

/-- The cases `']'` (`isMap = false`) and `'}'` (`isMap = true`); they differ in the
node type, the callback and the counter. -/
def FromString.caseClose (p : JSONParse) (cb : JSONTokenizer σ) (h isMap : Bool)
    (st : ScanState σ) : ScanState σ :=
  let bsz := wrapU16 (st.binary_size_ +
    (if -1 < st.str_start then p.sizeofString + p.sizeofArray else p.sizeofArray))
  if !h || p.limit_memory_ ≥ bsz then
    ((FromString.callClose p cb isMap
      ((if -1 < st.str_start then FromString.closeValue p cb st else st).link
        (FromString.marker isMap false))).bump isMap (-1)).addSize p.sizeofArray
  else st.setError ERR.ERR_OBJECT_MEMORY_LIMIT

/-- The case `'\"'` of the switch. -/
def FromString.caseQuote (st : ScanState σ) : ScanState σ :=
  if st.is_literal == 2 then
    if st.expect_value then st.setError ERR.ERR_BAD_VALUE
    else st.setError ERR.ERR_BAD_ATTRIBUTE
  else if st.str_start == -1 then
    { st with str_start := wrapI16 (st.i + 1), is_literal := 0, quoted_processing := true }
  else st

/-- The key node made of the pending string by the constructor
`JSONString(&s[str_start], (uint8_t)(str_end - str_start), e, false)`. -/
def FromString.keyNode (p : JSONParse) (st : ScanState σ) : JSONString :=
  JSONString.mkStrLen p.LENGTH (ptrAt st.s st.str_start) (wrapU8 (st.str_end - st.str_start))
    false

/-- The case `':'`. -/
def FromString.caseColon (p : JSONParse) (cb : JSONTokenizer σ) (h : Bool)
    (st : ScanState σ) : ScanState σ :=
  if !h || p.limit_memory_ ≥ st.binary_size_ + p.sizeofString then
    if st.is_literal != 0 || st.str_start == -1 || st.str_end == -1 then
      st.setError ERR.ERR_BAD_ATTRIBUTE
    else
      ((((FromString.callString p cb (FromString.keyNode p st)
        (st.link (JSONElement.STRING (FromString.keyNode p st)))).keyTaken).clearSpan).addSize
          p.sizeofString)
  else st.setError ERR.ERR_OBJECT_MEMORY_LIMIT

/-- The case `','`. -/
def FromString.caseComma (p : JSONParse) (cb : JSONTokenizer σ) (h : Bool)
    (st : ScanState σ) : ScanState σ :=
  if -1 < st.str_start then
    if !h || p.limit_memory_ ≥ st.binary_size_ + p.sizeofString then
      if st.is_literal == 1 || st.str_start == -1 || st.str_end == -1 then
        st.setError ERR.ERR_BAD_VALUE
      else
        let r := FromString.valueNode p st
        (((FromString.callStringComma p cb r.2
          (((if !r.1 then st.setError ERR.ERR_BAD_VALUE else st).undetermined).link
            (JSONElement.STRING r.2))).clearSpan).addSize p.sizeofString)
    else st.setError ERR.ERR_OBJECT_MEMORY_LIMIT
  else st

/-- The case `default` on the byte `c` read at `s[i]`. -/
def FromString.caseDefault (c : Char) (st : ScanState σ) : ScanState σ :=
  if st.mc == 0 && st.ac == 0 then
    st.setError ERR.ERR_UNEXPECTED_DATA
  else if 1 ≤ st.is_literal then
    if st.str_start == -1 then
      if c == TAB || c == ' ' then st
      else if IsLiteralCharater c then
        { st with is_literal := 2, str_start := wrapI16 st.i, str_end := wrapI16 (st.i + 1) }
      else st.setError ERR.ERR_BAD_VALUE
    else
      if c == TAB || c == ' ' then st
      else if IsLiteralCharater c then { st with str_end := wrapI16 (st.i + 1) }
      else st.setError ERR.ERR_BAD_VALUE
  else st

/-- The statement `switch(cc)` with `cc = s[i]`. -/
def FromString.switch (p : JSONParse) (cb : JSONTokenizer σ) (h : Bool) (cc : Char)
    (st : ScanState σ) : ScanState σ :=
  if cc == '[' then FromString.caseOpen p cb h false st
  else if cc == ']' then FromString.caseClose p cb h false st
  else if cc == '{' then FromString.caseOpen p cb h true st
  else if cc == '}' then FromString.caseClose p cb h true st
  else if cc == DQUOTE then FromString.caseQuote st
  else if cc == ':' then FromString.caseColon p cb h st
  else if cc == ',' then FromString.caseComma p cb h st
  else FromString.caseDefault cc st

/-- The statement `if (h && e && !*h) *h = e;`. -/
def FromString.setHead (h : Bool) (st : ScanState σ) : ScanState σ :=
  if h && !st.chain.isEmpty && st.head.isNone then
    { st with head := some (st.chain.length - 1) }
  else st

/-- The statement `if (ERR_NONE == last_error_ && stop) last_error_ = ERR_CALLBACK_STOP;`. -/
def FromString.stopError (st : ScanState σ) : ScanState σ :=
  if st.last_error_ == ERR.ERR_NONE && st.stop then st.setError ERR.ERR_CALLBACK_STOP else st

/-- The statement `if (ac<0) last_error_ = ERR_UNEXPECTED_END_OF_ARRAY;`. -/
def FromString.negativeArray (st : ScanState σ) : ScanState σ :=
  if st.ac < 0 then st.setError ERR.ERR_UNEXPECTED_END_OF_ARRAY else st

/-- The statement `if (mc<0) last_error_ = ERR_UNEXPECTED_END_OF_MAP;`. -/
def FromString.negativeMap (st : ScanState σ) : ScanState σ :=
  if st.mc < 0 then st.setError ERR.ERR_UNEXPECTED_END_OF_MAP else st

/-- The two counter tests of the block `if (limit_node_level_)`. -/
def FromString.depthError (p : JSONParse) (st : ScanState σ) : ScanState σ :=
  if p.limit_node_level_ then
    FromString.negativeMap (FromString.negativeArray st)
  else st

/-- The statements of the loop body between the switch and the tests that leave the
loop: `*h` is set, a callback stop and a negative counter become errors. -/
def FromString.after (p : JSONParse) (h : Bool) (st : ScanState σ) : ScanState σ :=
  FromString.depthError p (FromString.stopError (FromString.setHead h st))

/-- The switch, entered when no error is set and no quoted span is open. -/
def FromString.dispatch (p : JSONParse) (cb : JSONTokenizer σ) (h : Bool) (cc : Char)
    (st : ScanState σ) : ScanState σ :=
  if st.last_error_ == ERR.ERR_NONE && !st.quoted_processing then FromString.switch p cb h cc st
  else st

/-- One pass through the loop body up to the tests that leave the loop. -/
def FromString.body (p : JSONParse) (cb : JSONTokenizer σ) (h : Bool) (st : ScanState σ) :
    ScanState σ :=
  FromString.after p h
    (FromString.dispatch p cb h (charAt st.s st.i) (FromString.quoted (charAt st.s st.i) st))

/-- The two `break` tests at the end of the loop body. -/
def FromString.leaves (p : JSONParse) (st : ScanState σ) : Bool :=
  (p.limit_node_level_ && (st.mc == 0 && st.ac == 0)) || st.last_error_ != ERR.ERR_NONE

/-- The step `i++` of the loop. -/
def ScanState.next (st : ScanState σ) : ScanState σ :=
  { st with i := wrapU16 (st.i + 1) }

/-- The loop `for(i=psi; i<l; i++)`, with a bound on the number of passes. -/
def FromString.loop (p : JSONParse) (cb : JSONTokenizer σ) (h : Bool) (l : Nat) :
    Nat → ScanState σ → ScanState σ
  | 0, st => st
  | fuel + 1, st =>
    if st.i < l then
      if FromString.leaves p (FromString.body p cb h st) then FromString.body p cb h st
      else FromString.loop p cb h l fuel (FromString.body p cb h st).next
    else st

/-- The test `if (!last_error_ && (-1 != str_start) && (-1 == str_end))` after the
loop. -/
def FromString.unterminated (st : ScanState σ) : ScanState σ :=
  if st.last_error_ == ERR.ERR_NONE && st.str_start != -1 && st.str_end == -1 then
    st.setError ERR.ERR_UNTERMINATED_STRING
  else st

/-- The statement `if (0!=ac) last_error_ = ERR_UNEXPECTED_END_OF_ARRAY;`. -/
def FromString.openArray (st : ScanState σ) : ScanState σ :=
  if st.ac != 0 then st.setError ERR.ERR_UNEXPECTED_END_OF_ARRAY else st

/-- The statement `if (0!=mc) last_error_ = ERR_UNEXPECTED_END_OF_MAP;`. -/
def FromString.openMap (st : ScanState σ) : ScanState σ :=
  if st.mc != 0 then st.setError ERR.ERR_UNEXPECTED_END_OF_MAP else st

/-- The final counter test `if (!last_error_ && limit_node_level_)` after the loop. -/
def FromString.unbalanced (p : JSONParse) (st : ScanState σ) : ScanState σ :=
  if st.last_error_ == ERR.ERR_NONE && p.limit_node_level_ then
    FromString.openMap (FromString.openArray st)
  else st

/-- The statements after the loop. -/
def FromString.finish (p : JSONParse) (st : ScanState σ) : ScanState σ :=
  FromString.unbalanced p (FromString.unterminated st)

/-- The locals and members at the start of the loop. -/
def FromString.init (user : σ) (s : List Char) (psi : Nat) : ScanState σ :=
  { s := s, user := user, i := psi, is_literal := 1, ac := 0, mc := 0,
    str_start := -1, str_end := -1, chain := [], head := none,
    expect_value := false, stop := false, quoted_processing := false, escape := false,
    last_error_ := ERR.ERR_NONE, binary_size_ := 0 }

/-- The state in which the loop of `FromString` ends.  A byte is scanned at most twice
(the case `','` steps back once), so `2 * l + 1` passes are enough. -/
def FromString.scan (p : JSONParse) (cb : JSONTokenizer σ) (user : σ) (s : List Char)
    (h : Bool) (psi : Nat) : ScanState σ :=
  FromString.loop p cb h (wrapU16 (strlen s)) (2 * wrapU16 (strlen s) + 1)
    (FromString.init user s psi)

/-- What a call of `FromString` leaves behind. -/
structure FromStringResult (σ : Type) where
  /-- The returned index `i`. -/
  index : Nat
  /-- The parser afterwards. -/
  parser : JSONParse
  /-- The chain at `*h` (empty for `h = NULL`, and when no node was created). -/
  head : List JSONElement
  /-- The text afterwards. -/
  s : List Char
  /-- The members of the subclass afterwards. -/
  user : σ

/-- The chain at `*h`: the created nodes from the stored position on. -/
def ScanState.headChain (st : ScanState σ) : List JSONElement :=
  match st.head with
  | some k => st.chain.drop k
  | none => []

/-- The function `JSONParse::FromString(char* s, JSONElement** h, uint16_t psi)`;
`h` tells whether a chain is asked for (`*h` is `NULL` at the call). -/
def FromString (p : JSONParse) (cb : JSONTokenizer σ) (user : σ) (s : List Char)
    (h : Bool := false) (psi : Nat := 0) : FromStringResult σ :=
  let st := FromString.finish p (FromString.scan p cb user s h psi)
  { index := st.i
    parser := { p with last_error_ := st.last_error_, operation_ := OP.OP_FROM_STRING,
                       binary_size_ := st.binary_size_ }
    head := st.headChain
    s := st.s
    user := st.user }

end FromString

section FromObject

variable {σ : Type}

/-- The locals of `JSONParse::FromObject` together with what the loop changes outside
them: the buffer behind `io_`, the subclass members and `last_error_`. -/
structure ObjectState (σ : Type) where
  /-- The buffer behind `io_`. -/
  buf : UserBuffer
  /-- The members of the subclass. -/
  user : σ
  /-- Local `wr_err`. -/
  wr_err : Bool
  /-- Local `stop`. -/
  stop : Bool
  /-- Local `ac`. -/
  ac : Int
  /-- Local `mc`. -/
  mc : Int
  /-- Member `last_error_`. -/
  last_error_ : ERR

/-- The statement `wr_err |= io_->Append(s)`. -/
def FromObject.append (s : List Char) (st : ObjectState σ) : ObjectState σ :=
  let r := st.buf.Append s
  { st with wr_err := st.wr_err || r.1, buf := r.2 }

/-- The test `last_e_ && STRING == last_e_->Type()` followed by `ls->IsValue()`. -/
def FromObject.afterValue : Option JSONElement → Bool
  | some (JSONElement.STRING ls) => ls.is_value_
  | _ => false

/-- The test on `s->Next()` of a closing marker: the next node exists and is an open
array or map, or a string. -/
def FromObject.nextOpens : Option JSONElement → Bool
  | some (JSONElement.ARRAY o) => o
  | some (JSONElement.MAP o) => o
  | some (JSONElement.STRING _) => true
  | none => false

/-- The cases `ARRAY` (`isMap = false`) and `MAP` (`isMap = true`) of the switch; they
differ in the callback, the bracket and the counter. -/
def FromObject.caseMarker (p : JSONParse) (cb : JSONTokenizer σ) (isMap is_open : Bool)
    (last_e_ next : Option JSONElement) (st : ObjectState σ) : ObjectState σ :=
  let st :=
    if p.callbacks_ then
      let r := if isMap then cb.TokenMap OP.OP_FROM_OBJECT st.user is_open [] 0
               else cb.TokenArray OP.OP_FROM_OBJECT st.user is_open [] 0
      { st with stop := r.1, user := r.2.1 }
    else st
  if is_open then
    let st :=
      if !p.callbacks_ then
        let st := if FromObject.afterValue last_e_ then FromObject.append ", ".toList st else st
        FromObject.append (if isMap then "\x7b ".toList else "[ ".toList) st
      else st
    if isMap then { st with mc := wrapI16 (st.mc + 1) } else { st with ac := wrapI16 (st.ac + 1) }
  else
    let st :=
      if !p.callbacks_ then
        if FromObject.nextOpens next then
          FromObject.append (if isMap then " \x7d, ".toList else " ], ".toList) st
        else
          FromObject.append (if isMap then " \x7d".toList else " ]".toList) st
      else st
    if isMap then { st with mc := wrapI16 (st.mc - 1) } else { st with ac := wrapI16 (st.ac - 1) }

/-- The block `if (s->Length() > 0)` of the case `STRING`. -/
def FromObject.emitString (s : JSONString) (st : ObjectState σ) : ObjectState σ :=
  if s.length_ > 0 then
    if !s.is_value_ then
      let st := FromObject.append [DQUOTE] st
      let st := FromObject.append s.string_ st
      if s.is_value_ then FromObject.append [DQUOTE, ',', ' '] st
      else FromObject.append [DQUOTE, ':'] st
    else
      if s.literal_ then FromObject.append s.string_ st
      else
        let st := FromObject.append [DQUOTE] st
        let st := FromObject.append s.string_ st
        FromObject.append [DQUOTE] st
  else st

/-- The case `STRING` of the switch. -/
def FromObject.caseString (p : JSONParse) (cb : JSONTokenizer σ) (s : JSONString)
    (last_e_ : Option JSONElement) (st : ObjectState σ) : ObjectState σ :=
  if p.callbacks_ then
    let r := cb.TokenString OP.OP_FROM_OBJECT st.user s [] 0 0
    { st with stop := r.1, user := r.2.1 }
  else
    let st := if FromObject.afterValue last_e_ then FromObject.append ", ".toList st else st
    FromObject.emitString s st

/-- The statement `switch(e->Type())`. -/
def FromObject.switch (p : JSONParse) (cb : JSONTokenizer σ) (e : JSONElement)
    (last_e_ next : Option JSONElement) (st : ObjectState σ) : ObjectState σ :=
  match e with
  | JSONElement.ARRAY o => FromObject.caseMarker p cb false o last_e_ next st
  | JSONElement.MAP o => FromObject.caseMarker p cb true o last_e_ next st
  | JSONElement.STRING s => FromObject.caseString p cb s last_e_ st

/-- The loop `while(e)` over the chain that starts at `e`; `last_e_` is the node
visited before.  The result is the state in which the loop ends. -/
def FromObject.loop (p : JSONParse) (cb : JSONTokenizer σ) :
    Option JSONElement → List JSONElement → ObjectState σ → ObjectState σ
  | _, [], st => st
  | last_e_, e :: rest, st =>
    let st := FromObject.switch p cb e last_e_ rest.head? st
    let st := if st.stop then { st with last_error_ := ERR.ERR_CALLBACK_STOP } else st
    if st.last_error_ != ERR.ERR_NONE then st
    else if st.wr_err then { st with last_error_ := ERR.ERR_CHAR_MEMORY_LIMIT }
    else if p.limit_node_level_ && decide (st.ac < 0) then
      { st with last_error_ := ERR.ERR_UNEXPECTED_END_OF_ARRAY }
    else if p.limit_node_level_ && decide (st.mc < 0) then
      { st with last_error_ := ERR.ERR_UNEXPECTED_END_OF_MAP }
    else if p.limit_node_level_ && (st.mc == 0 && st.ac == 0) then st
    else FromObject.loop p cb (some e) rest st

/-- The locals and members at the start of the loop: `io_->Length(0)` has emptied the
buffer. -/
def FromObject.init (user : σ) (buf : UserBuffer) : ObjectState σ :=
  { buf := buf.Length 0, user := user, wr_err := false, stop := false, ac := 0, mc := 0,
    last_error_ := ERR.ERR_NONE }

/-- What a call of `FromObject` leaves behind. -/
structure FromObjectResult (σ : Type) where
  /-- The returned `bool`. -/
  ok : Bool
  /-- The parser afterwards. -/
  parser : JSONParse
  /-- The buffer behind `io_` afterwards. -/
  buf : UserBuffer
  /-- The members of the subclass afterwards. -/
  user : σ

/-- The function `JSONParse::FromObject(e)` on the chain that starts at `e`, writing to
the buffer `buf` behind `io_`. -/
def FromObject (p : JSONParse) (cb : JSONTokenizer σ) (user : σ) (buf : UserBuffer)
    (e : List JSONElement) : FromObjectResult σ :=
  let st := FromObject.loop p cb none e (FromObject.init user buf)
  { ok := st.last_error_ == ERR.ERR_NONE
    parser := { p with last_error_ := st.last_error_, operation_ := OP.OP_FROM_OBJECT }
    buf := (st.buf.AppendChar NUL).2
    user := st.user }

/-- The text that `Get()` shows after `FromObject`. -/
def FromObjectResult.text (r : FromObjectResult σ) : List Char := cstr r.buf.Get

end FromObject

/-! ## `gjson_parser.h`: `JSONParse::FindObject` and the typed helpers

A `JSONElement<LENGTH>*` is the chain from that node on in `Next()` order; `NULL` is the
empty chain. -/

section FindObject

variable {σ : Type}

/-- The function `JSONParse::Like(like, case_sensitive)`. -/
def JSONParse.Like (p : JSONParse) (like : Option JSONElement)
    (case_sensitive : Bool := true) : JSONParse :=
  { p with like_ := like, case_sensitive_ := case_sensitive }

/-- The function `JSONParse::CaseSensitive(case_sensitive)`. -/
def JSONParse.CaseSensitive (p : JSONParse) (case_sensitive : Bool) : JSONParse :=
  { p with case_sensitive_ := case_sensitive }

/-- The test of the cases `ARRAY` (`isMap = false`) and `MAP` (`isMap = true`) with
callbacks off: `like_ && e->Type() == like_->Type()` and then
`s->IsOpen() == l->IsOpen()`. -/
def FindObject.likeMarker (p : JSONParse) (isMap is_open : Bool) : Bool :=
  match p.like_ with
  | some (JSONElement.ARRAY o) => !isMap && is_open == o
  | some (JSONElement.MAP o) => isMap && is_open == o
  | _ => false

/-- The test of the case `STRING` with callbacks off. -/
def FindObject.likeString (p : JSONParse) (s : JSONString) : Bool :=
  match p.like_ with
  | some (JSONElement.STRING l) =>
    if s.is_value_ == l.is_value_ then
      if l.length_ == 0 then true
      else if p.case_sensitive_ then
        decide (StrNCmp l.string_ s.string_ l.length_ true ≥ 0)
      else
        decide (StrNCmp l.string_ s.string_ l.length_ false ≥ 0)
    else false
  | _ => false

/-- The counter `ac` (`isMap = false`) or `mc` (`isMap = true`) after the switch on the
node `e`. -/
def FindObject.count (isMap : Bool) (e : JSONElement) (c : Int) : Int :=
  match e with
  | JSONElement.ARRAY o => if isMap then c else wrapI16 (c + (if o then 1 else -1))
  | JSONElement.MAP o => if isMap then wrapI16 (c + (if o then 1 else -1)) else c
  | JSONElement.STRING _ => c

/-- The statement `switch(e->Type())`: whether `f = e` is executed, and the members of
the subclass afterwards. -/
def FindObject.switch (p : JSONParse) (cb : JSONTokenizer σ) (e : JSONElement) (user : σ) :
    Bool × σ :=
  match e with
  | JSONElement.ARRAY o =>
    if p.callbacks_ then
      let r := cb.TokenArray OP.OP_FIND_OBJECT user o [] 0
      (r.1, r.2.1)
    else (FindObject.likeMarker p false o, user)
  | JSONElement.MAP o =>
    if p.callbacks_ then
      let r := cb.TokenMap OP.OP_FIND_OBJECT user o [] 0
      (r.1, r.2.1)
    else (FindObject.likeMarker p true o, user)
  | JSONElement.STRING s =>
    if p.callbacks_ then
      let r := cb.TokenString OP.OP_FIND_OBJECT user s [] 0 0
      (r.1, r.2.1)
    else (FindObject.likeString p s, user)

/-- The loop `while(e)` over the chain that starts at `e`, with the counters `ac` and
`mc`: the pointer `f`, `last_error_` and the members of the subclass when it ends. -/
def FindObject.loop (p : JSONParse) (cb : JSONTokenizer σ) :
    List JSONElement → σ → Int → Int → List JSONElement × ERR × σ
  | [], user, _, _ => ([], ERR.ERR_NONE, user)
  | e :: rest, user, ac, mc =>
    let r := FindObject.switch p cb e user
    if r.1 then (e :: rest, ERR.ERR_NONE, r.2)
    else if p.limit_node_level_ && decide (FindObject.count false e ac < 0) then
      ([], ERR.ERR_UNEXPECTED_END_OF_ARRAY, r.2)
    else if p.limit_node_level_ && decide (FindObject.count true e mc < 0) then
      ([], ERR.ERR_UNEXPECTED_END_OF_MAP, r.2)
    else FindObject.loop p cb rest r.2 (FindObject.count false e ac) (FindObject.count true e mc)

/-- What a call of `FindObject` or of a typed helper leaves behind. -/
structure FindObjectResult (σ : Type) where
  /-- The returned pointer. -/
  found : List JSONElement
  /-- The parser afterwards. -/
  parser : JSONParse
  /-- The members of the subclass afterwards. -/
  user : σ

/-- The function `JSONParse::FindObject(e)`. -/
def FindObject (p : JSONParse) (cb : JSONTokenizer σ) (user : σ) (e : List JSONElement) :
    FindObjectResult σ :=
  let r := FindObject.loop p cb e user 0 0
  { found := r.1
    parser := { p with
      last_error_ :=
        if r.1.isEmpty && r.2.1 == ERR.ERR_NONE then ERR.ERR_NOT_FOUND else r.2.1
      operation_ := OP.OP_FIND_OBJECT
      like_ := none }
    user := r.2.2 }

/-- The statements `operation_ = OP_FIND_OBJECT; last_error_ = ERR_NOT_FOUND;` at the
start of the typed helpers. -/
def JSONParse.findStart (p : JSONParse) : JSONParse :=
  { p with operation_ := OP.OP_FIND_OBJECT, last_error_ := ERR.ERR_NOT_FOUND }

/-- The function `JSONParse::NextArray(e, is_open)`. -/
def NextArray (p : JSONParse) (cb : JSONTokenizer σ) (user : σ) (e : List JSONElement)
    (is_open : Bool := true) : FindObjectResult σ :=
  match e with
  | [] => { found := [], parser := p.findStart, user := user }
  | _ :: next =>
    FindObject (p.findStart.Like (some (JSONElement.ARRAY is_open))) cb user next

/-- The function `JSONParse::NextMap(e, is_open)`. -/
def NextMap (p : JSONParse) (cb : JSONTokenizer σ) (user : σ) (e : List JSONElement)
    (is_open : Bool := true) : FindObjectResult σ :=
  match e with
  | [] => { found := [], parser := p.findStart, user := user }
  | _ :: next =>
    FindObject (p.findStart.Like (some (JSONElement.MAP is_open))) cb user next

/-- The function `JSONParse::NextString(e, is_value)`. -/
def NextString (p : JSONParse) (cb : JSONTokenizer σ) (user : σ) (e : List JSONElement)
    (is_value : Bool := true) : FindObjectResult σ :=
  match e with
  | [] => { found := [], parser := p.findStart, user := user }
  | _ :: next =>
    FindObject (p.findStart.Like (some (JSONElement.STRING (JSONString.mkEmpty is_value))))
      cb user next

/-- The function `JSONParse::FindString(e, s, is_value, case_sensitive)`. -/
def FindString (p : JSONParse) (cb : JSONTokenizer σ) (user : σ) (e : List JSONElement)
    (s : List Char) (is_value : Bool := true) (case_sensitive : Bool := false) :
    FindObjectResult σ :=
  match e with
  | [] => { found := [], parser := p.findStart, user := user }
  | _ :: _ =>
    FindObject
      (p.findStart.Like (some (JSONElement.STRING (JSONString.mkStr p.LENGTH s is_value)))
        case_sensitive) cb user e

end FindObject

/-! ## `gjson_builders.h` and the element constructors used as builders

A builder object is given by the nodes it links behind its parent `e`, in `Next()`
order; a chain built by handing each object the one before as parent is the
concatenation of these lists. -/

/-- The constructors `JSONArray(e, is_open)` and `JSONArray(is_open)`. -/
def JSONArray (is_open : Bool := true) : List JSONElement := [JSONElement.ARRAY is_open]

/-- The constructors `JSONMap(e, is_open)` and `JSONMap(is_open)`. -/
def JSONMap (is_open : Bool := true) : List JSONElement := [JSONElement.MAP is_open]

/-- The constructor `JSONString(s, e, is_value, is_literal)` as a builder. -/
def JSONStringNode (LENGTH : Nat) (s : List Char) (is_value : Bool := true)
    (is_literal : Bool := false) : List JSONElement :=
  [JSONElement.STRING (JSONString.mkStr LENGTH s is_value is_literal)]

/-- The constructor `JSONMapTuple(p, v, e, is_literal)`: the member `p_` and then the
object itself. -/
def JSONMapTuple (LENGTH : Nat) (p v : List Char) (is_literal : Bool := false) :
    List JSONElement :=
  [JSONElement.STRING (JSONString.mkStr LENGTH p false),
   JSONElement.STRING (JSONString.mkStr LENGTH v true is_literal)]

/-- The constructor `JSONMapTupleMap(p, e)`. -/
def JSONMapTupleMap (LENGTH : Nat) (p : List Char) : List JSONElement :=
  [JSONElement.STRING (JSONString.mkStr LENGTH p false), JSONElement.MAP true]

/-- The constructor `JSONMapTupleArray(p, e)`. -/
def JSONMapTupleArray (LENGTH : Nat) (p : List Char) : List JSONElement :=
  [JSONElement.STRING (JSONString.mkStr LENGTH p false), JSONElement.ARRAY true]

/-! ## `gjson_parser.h`: `JSONSimpleStringParseAttr` -/

/-- The class `JSONSimpleStringParseAttr<LENGTH>`: the base class, the buffer behind
`io_`, and its own members. -/
structure JSONSimpleStringParseAttr where
  /-- The base class `JSONParse<LENGTH>`. -/
  base : JSONParse
  /-- The buffer behind `io_`. -/
  io_ : UserBuffer
  /-- Member `value_`, as a C string. -/
  value_ : List Char
  /-- Member `attr_`. -/
  attr_ : List Char
  /-- Member `attr_length_`. -/
  attr_length_ : Nat
  /-- Member `adj_i_`. -/
  adj_i_ : Int
  /-- Member `take_next_`. -/
  take_next_ : Bool
  /-- Member `replace_`. -/
  replace_ : Bool
  /-- Member `rename_`. -/
  rename_ : Bool
  deriving DecidableEq, Repr

namespace JSONSimpleStringParseAttr

/-- The constructor `JSONSimpleStringParseAttr(io)`. -/
def new (LENGTH sizeofArray sizeofString : Nat) (buf : UserBuffer) :
    JSONSimpleStringParseAttr :=
  { base := { LENGTH := LENGTH, sizeofArray := sizeofArray, sizeofString := sizeofString,
              limit_memory_ := 0, callbacks_ := true }
    io_ := buf, value_ := [], attr_ := [], attr_length_ := 0, adj_i_ := 0,
    take_next_ := false, replace_ := false, rename_ := false }

/-- The callbacks `TokenArray` and `TokenMap` (the same code). -/
def TokenArray (op : OP) (self : JSONSimpleStringParseAttr) (_e : Bool) (s : List Char)
    (_i : Nat) : Bool × JSONSimpleStringParseAttr × List Char :=
  if op == OP.OP_FROM_STRING then
    if self.take_next_ then (false, { self with take_next_ := false }, s)
    else (false, self, s)
  else (false, self, s)

/-- The replace block of `TokenString`: `JSONSupport::Replace` on the text, the length
stored only when it is `0`, and `adj_i_`. -/
def replaceToken (self : JSONSimpleStringParseAttr) (e : JSONString) (s : List Char)
    (si ei : Int) : JSONSimpleStringParseAttr × List Char :=
  let val_length := wrapU16 (strlen self.value_)
  let r := Replace s self.io_.GetLength (self.io_.GetLength true) si ei self.value_ val_length
  let adj_length := r.1
  let self := if adj_length == 0 then { self with io_ := self.io_.Length adj_length } else self
  ({ self with adj_i_ := wrapI16 ((val_length : Int) - e.length_) }, r.2)

/-- The callback `TokenString`. -/
def TokenString (op : OP) (self : JSONSimpleStringParseAttr) (e : JSONString)
    (s : List Char) (si ei : Int) : Bool × JSONSimpleStringParseAttr × List Char :=
  if op == OP.OP_FROM_STRING then
    if e.is_value_ then
      if self.take_next_ then
        let r :=
          if self.replace_ && si != ei && decide (si < ei) then replaceToken self e s si ei
          else ({ self with value_ := e.string_ }, s)
        (true, { r.1 with take_next_ := false }, r.2)
      else (false, self, s)
    else
      if !self.take_next_ && self.attr_length_ != 0 then
        let self :=
          if StrNCmp e.string_ self.attr_ self.attr_length_ self.base.case_sensitive_ == 0 then
            { self with take_next_ := true }
          else self
        if self.rename_ && self.take_next_ && si != ei && decide (si < ei) then
          let r := replaceToken self e s si ei
          (true, { r.1 with take_next_ := false }, r.2)
        else (false, self, s)
      else (false, self, s)
  else (false, self, s)

/-- The callbacks of the class. -/
def tokenizer : JSONTokenizer JSONSimpleStringParseAttr :=
  { TokenArray := TokenArray, TokenMap := TokenArray, TokenString := TokenString }

/-- The function `JSONParse::FromString(psi, h)` with `h = NULL`, as the class calls
it: the text is the buffer behind `io_`. -/
def FromStringPsi (self : JSONSimpleStringParseAttr) (psi : Nat) :
    Nat × JSONSimpleStringParseAttr :=
  let ci := self.io_.GetLength
  if ci != 0 && psi < ci then
    let r := FromString self.base tokenizer self self.io_.Get false psi
    (r.index, { r.user with base := r.parser, io_ := { r.user.io_ with buffer_ := r.s } })
  else (ci, self)

/-- The end of the three search functions: no error becomes `ERR_NOT_FOUND`, a
callback stop becomes `ERR_NONE`. -/
def mapError (self : JSONSimpleStringParseAttr) : JSONSimpleStringParseAttr :=
  if self.base.last_error_ == ERR.ERR_NONE then
    { self with base := { self.base with last_error_ := ERR.ERR_NOT_FOUND } }
  else if self.base.last_error_ == ERR.ERR_CALLBACK_STOP then
    { self with base := { self.base with last_error_ := ERR.ERR_NONE } }
  else self

/-- The length kept of a search or replacement string: `strlen`, cut to `LENGTH-1`. -/
def cutLength (LENGTH : Nat) (a : List Char) : Nat :=
  let l := wrapU16 (strlen a)
  if l ≥ LENGTH then LENGTH - 1 else l

/-- The function `FromStringSearch(psi, a, case_sensitive)`. -/
def FromStringSearch (self : JSONSimpleStringParseAttr) (psi : Nat) (a : List Char)
    (case_sensitive : Bool := true) : Nat × JSONSimpleStringParseAttr :=
  let self := { self with
    take_next_ := false, attr_ := a, attr_length_ := cutLength self.base.LENGTH a,
    value_ := [], base := { self.base with case_sensitive_ := case_sensitive },
    rename_ := false, replace_ := false }
  let r := FromStringPsi self psi
  (r.1, mapError r.2)

/-- The function `FromStringReplace(psi, a, v, case_sensitive)`. -/
def FromStringReplace (self : JSONSimpleStringParseAttr) (psi : Nat) (a v : List Char)
    (case_sensitive : Bool := true) : Nat × JSONSimpleStringParseAttr :=
  let self := { self with
    take_next_ := false, attr_ := a, attr_length_ := cutLength self.base.LENGTH a,
    value_ := (cstr v).take (cutLength self.base.LENGTH v),
    base := { self.base with case_sensitive_ := case_sensitive },
    rename_ := false, replace_ := true, adj_i_ := 0 }
  let r := FromStringPsi self psi
  (r.1, mapError r.2)

/-- The function `LimitNodeLevel(limit_node_level)`. -/
def LimitNodeLevel (self : JSONSimpleStringParseAttr) (limit_node_level : Bool := true) :
    JSONSimpleStringParseAttr :=
  { self with base := { self.base with limit_node_level_ := limit_node_level } }

/-- The function `GetLastError()`. -/
def GetLastError (self : JSONSimpleStringParseAttr) : ERR := self.base.last_error_

/-- The function `GetAttrValue()`. -/
def GetAttrValue (self : JSONSimpleStringParseAttr) : List Char := self.value_

/-- The function `FromStringRename(psi, a, ra, case_sensitive)`. -/
def FromStringRename (self : JSONSimpleStringParseAttr) (psi : Nat) (a ra : List Char)
    (case_sensitive : Bool := true) : Nat × JSONSimpleStringParseAttr :=
  let self := { self with
    take_next_ := false, attr_ := a, attr_length_ := cutLength self.base.LENGTH a,
    value_ := (cstr ra).take (cutLength self.base.LENGTH ra),
    base := { self.base with case_sensitive_ := case_sensitive },
    rename_ := true, replace_ := false, adj_i_ := 0 }
  let r := FromStringPsi self psi
  if r.2.base.last_error_ == ERR.ERR_CALLBACK_STOP then
    (wrapU16 ((r.1 : Int) + r.2.adj_i_), mapError r.2)
  else (r.1, mapError r.2)

end JSONSimpleStringParseAttr

/-! ## `gjson_parser.h`: `JSONSimpleStringParse` -/

/-- The class `JSONSimpleStringParse<LENGTH>`: the base class, the buffer behind `io_`,
and its own members. -/
structure JSONSimpleStringParse where
  /-- The base class `JSONParse<LENGTH>`. -/
  base : JSONParse
  /-- The buffer behind `io_`. -/
  io_ : UserBuffer
  /-- Member `value_`, as a C string. -/
  value_ : List Char
  /-- Member `str_`. -/
  str_ : List Char
  /-- Member `str_length_`. -/
  str_length_ : Nat
  /-- Member `adj_i_`. -/
  adj_i_ : Int
  /-- Member `replace_`. -/
  replace_ : Bool
  deriving DecidableEq, Repr

namespace JSONSimpleStringParse

/-- The constructor `JSONSimpleStringParse(io)`. -/
def new (LENGTH sizeofArray sizeofString : Nat) (buf : UserBuffer) : JSONSimpleStringParse :=
  { base := { LENGTH := LENGTH, sizeofArray := sizeofArray, sizeofString := sizeofString,
              limit_memory_ := 0, callbacks_ := true }
    io_ := buf, value_ := [], str_ := [], str_length_ := 0, adj_i_ := 0, replace_ := false }

/-- The callbacks `TokenArray` and `TokenMap`, those of `JSONParse`: each returns
`false`. -/
def TokenArray (_op : OP) (self : JSONSimpleStringParse) (_e : Bool) (s : List Char)
    (_i : Nat) : Bool × JSONSimpleStringParse × List Char :=
  (false, self, s)

/-- The replace block of `TokenString`: `JSONSupport::Replace` on the text, the length
stored only when it is `0`, and `adj_i_`. -/
def replaceToken (self : JSONSimpleStringParse) (e : JSONString) (s : List Char)
    (si ei : Int) : JSONSimpleStringParse × List Char :=
  let val_length := wrapU16 (strlen self.value_)
  let r := Replace s self.io_.GetLength (self.io_.GetLength true) si ei self.value_ val_length
  let adj_length := r.1
  let self := if adj_length == 0 then { self with io_ := self.io_.Length adj_length } else self
  ({ self with adj_i_ := wrapI16 ((val_length : Int) - e.length_) }, r.2)

/-- The callback `TokenString`. -/
def TokenString (op : OP) (self : JSONSimpleStringParse) (e : JSONString)
    (s : List Char) (si ei : Int) : Bool × JSONSimpleStringParse × List Char :=
  if op == OP.OP_FROM_STRING then
    if self.str_length_ != 0 then
      let found :=
        if self.base.case_sensitive_ then
          StrNCmp e.string_ self.str_ self.str_length_ true == 0
        else StrNCmp e.string_ self.str_ self.str_length_ false == 0
      if found then
        if self.replace_ && si != ei && decide (si < ei) then
          let r := replaceToken self e s si ei
          (true, r.1, r.2)
        else (true, self, s)
      else (false, self, s)
    else (false, self, s)
  else (false, self, s)

/-- The callbacks of the class. -/
def tokenizer : JSONTokenizer JSONSimpleStringParse :=
  { TokenArray := TokenArray, TokenMap := TokenArray, TokenString := TokenString }

/-- The function `JSONParse::FromString(psi, h)` with `h = NULL`, as the class calls
it: the text is the buffer behind `io_`. -/
def FromStringPsi (self : JSONSimpleStringParse) (psi : Nat) :
    Nat × JSONSimpleStringParse :=
  let ci := self.io_.GetLength
  if ci != 0 && psi < ci then
    let r := FromString self.base tokenizer self self.io_.Get false psi
    (r.index, { r.user with base := r.parser, io_ := { r.user.io_ with buffer_ := r.s } })
  else (ci, self)

/-- The end of the search functions: no error becomes `ERR_NOT_FOUND`, a callback stop
becomes `ERR_NONE`. -/
def mapError (self : JSONSimpleStringParse) : JSONSimpleStringParse :=
  if self.base.last_error_ == ERR.ERR_NONE then
    { self with base := { self.base with last_error_ := ERR.ERR_NOT_FOUND } }
  else if self.base.last_error_ == ERR.ERR_CALLBACK_STOP then
    { self with base := { self.base with last_error_ := ERR.ERR_NONE } }
  else self

/-- The length kept of a search or replacement string: `strlen`, cut to `LENGTH-1`. -/
def cutLength (LENGTH : Nat) (a : List Char) : Nat :=
  let l := wrapU16 (strlen a)
  if l ≥ LENGTH then LENGTH - 1 else l

/-- The function `FromStringSearch(psi, s, case_sensitive)`. -/
def FromStringSearch (self : JSONSimpleStringParse) (psi : Nat) (s : List Char)
    (case_sensitive : Bool := true) : Nat × JSONSimpleStringParse :=
  let self := { self with
    str_ := s, str_length_ := cutLength self.base.LENGTH s, value_ := [], replace_ := false,
    base := self.base.CaseSensitive case_sensitive, adj_i_ := 0 }
  let r := FromStringPsi self psi
  (r.1, mapError r.2)

/-- The function `FromStringReplace(psi, s, rs, case_sensitive)`. -/
def FromStringReplace (self : JSONSimpleStringParse) (psi : Nat) (s rs : List Char)
    (case_sensitive : Bool := true) : Nat × JSONSimpleStringParse :=
  let self := { self with
    str_ := s, str_length_ := cutLength self.base.LENGTH s,
    value_ := (cstr rs).take (cutLength self.base.LENGTH rs), replace_ := true,
    base := self.base.CaseSensitive case_sensitive, adj_i_ := 0 }
  let r := FromStringPsi self psi
  (r.1, mapError r.2)

/-- The function `LimitNodeLevel(limit_node_level)`. -/
def LimitNodeLevel (self : JSONSimpleStringParse) (limit_node_level : Bool := true) :
    JSONSimpleStringParse :=
  { self with base := { self.base with limit_node_level_ := limit_node_level } }

/-- The function `GetLastError()`. -/
def GetLastError (self : JSONSimpleStringParse) : ERR := self.base.last_error_

end JSONSimpleStringParse

/-! ## Auxiliary definitions for the proofs -/

/-- The size of a node in bytes, as `FromString` adds it to `binary_size_`. -/
def JSONElement.sizeof (p : JSONParse) : JSONElement → Nat
  | JSONElement.STRING _ => p.sizeofString
  | _ => p.sizeofArray

/-- The size of a chain in bytes. -/
def chainSize (p : JSONParse) (c : List JSONElement) : Nat :=
  (c.map (JSONElement.sizeof p)).sum

/-- The parser `p` on a platform where a node costs nothing, with a budget of `0`: no
memory test fails and `binary_size_` stays `0`. -/
def JSONParse.free (p : JSONParse) : JSONParse :=
  { p with sizeofArray := 0, sizeofString := 0, limit_memory_ := 0 }

/-- The scan state with `binary_size_` set to `b`. -/
def ScanState.setSize {σ : Type} (b : Nat) (st : ScanState σ) : ScanState σ :=
  { st with binary_size_ := b }

/-- The scan state with `binary_size_` set to the size of the nodes created so far. -/
def ScanState.charge {σ : Type} (p : JSONParse) (st : ScanState σ) : ScanState σ :=
  st.setSize (chainSize p st.chain)

/-! ## The texts and chains of the tests -/

/-- A parser `JSONParse<12> pr(io, 512)` as the tests construct it, on a platform where
a marker takes 16 bytes and a string node 32. -/
def testParser : JSONParse :=
  { LENGTH := 12, sizeofArray := 16, sizeofString := 32, limit_memory_ := 512 }

/-- The parser of the tests after `LimitNodeLevel(false)`. -/
def fragmentParser : JSONParse := { testParser with limit_node_level_ := false }

/-- The text of the test "String parsing containing code characters". -/
def codeCharacters : List Char :=
  ("\x7b \"\x7btest\x7d\":\x7b \"date\": \"25Oct19\" \x7d, \"time\" : \"12:45,34\", " ++
    "\"date\" : \"29Oct19\", \"c[o]de\" : 1.3E-24 \x7d").toList

/-- The array `char js[128]` of that test behind `UserBuffer ubjio(js, sizeof(js),
strlen(js))`. -/
def codeCharactersBuffer : UserBuffer :=
  UserBuffer.mk3 (codeCharacters ++ List.replicate (128 - codeCharacters.length) NUL) 128
    (strlen codeCharacters)

/-! ## The passes of the loop of `FromString` -/

section Passes

variable {σ : Type}

/-- The states in which the passes of the loop `for(i=psi; i<l; i++)` begin, in the
order of the passes. -/
def FromString.passes (p : JSONParse) (cb : JSONTokenizer σ) (h : Bool) (l : Nat) :
    Nat → ScanState σ → List (ScanState σ)
  | 0, _ => []
  | fuel + 1, st =>
    if st.i < l then
      st :: (if FromString.leaves p (FromString.body p cb h st) then []
             else FromString.passes p cb h l fuel (FromString.body p cb h st).next)
    else []

/-- The states in which the passes of the loop of `FromString` begin. -/
def FromString.scanPasses (p : JSONParse) (cb : JSONTokenizer σ) (user : σ) (s : List Char)
    (h : Bool) (psi : Nat) : List (ScanState σ) :=
  FromString.passes p cb h (wrapU16 (strlen s)) (2 * wrapU16 (strlen s) + 1)
    (FromString.init user s psi)

/-- The invariant of the pending span: `str_end` is set only when `str_start` is, and
inside a quoted span `str_start` is set and `str_end` is not. -/
def ScanState.spanInv (st : ScanState σ) : Prop :=
  (st.str_start = -1 → st.str_end = -1) ∧
  (st.quoted_processing = true → st.str_start ≠ -1 ∧ st.str_end = -1)

end Passes

/-- The text `[`, then `n` spaces, then `"`. -/
def openQuoteText (n : Nat) : List Char := '[' :: (List.replicate n ' ' ++ [DQUOTE])

/-- A text of 65535 bytes: `[`, then 65533 spaces, then `"`. -/
def longOpenQuote : List Char := openQuoteText 65533

/-! ## The text of the serializer, rule by rule

The definitions of `Spec` follow the wording of the specification of the serializer;
they are compared with `FromObject`. -/

/-- The bytes written so far: the first `length_` bytes of the buffer. -/
def UserBuffer.written (b : UserBuffer) : List Char := b.buffer_.take b.length_

/-- The buffer has room for the terminating NUL, its memory has at least `max_length_`
bytes, and `max_length_` is a `uint16_t`. -/
def UserBuffer.inBounds (b : UserBuffer) : Bool :=
  decide (b.length_ < b.max_length_) && decide (b.max_length_ ≤ b.buffer_.length) &&
    decide (b.max_length_ ≤ 65535)

/-- The content of the string node is a C string of fewer than 256 bytes (the buffer of a
`JSONString<LENGTH>` has `LENGTH` bytes, and `LENGTH` is a `uint8_t`). -/
def JSONString.isCString (s : JSONString) : Bool :=
  s.string_.all (fun c => c != NUL) && decide (s.string_.length < 256)

/-- The node is a marker or a string node whose content is a C string. -/
def JSONElement.isCString : JSONElement → Bool
  | JSONElement.STRING s => s.isCString
  | _ => true

namespace Spec

/-- Rule (a): `, ` when the node visited before is a string node with `is_value = true`. -/
def separator : Option JSONElement → List Char
  | some (JSONElement.STRING s) => if s.is_value_ then ", ".toList else []
  | _ => []

/-- The quoting rule: a key is `"` + content + `":`, a literal value is its bare content,
any other value is `"` + content + `"`. -/
def quoting (s : JSONString) : List Char :=
  if !s.is_value_ then [DQUOTE] ++ s.string_ ++ [DQUOTE, ':']
  else if s.literal_ then s.string_
  else [DQUOTE] ++ s.string_ ++ [DQUOTE]

/-- The text of a string node: nothing for a node of length 0, the quoting rule
otherwise. -/
def stringText (s : JSONString) : List Char :=
  if 0 < s.length_ then quoting s else []

/-- Rule (c), the look ahead of a closing marker: `, ` when the next node exists and is an
open marker or any string node. -/
def lookAhead : Option JSONElement → List Char
  | some (JSONElement.ARRAY true) => ", ".toList
  | some (JSONElement.MAP true) => ", ".toList
  | some (JSONElement.STRING _) => ", ".toList
  | _ => []

/-- The text of one node, given the node visited before and the next node. -/
def nodeText (prev : Option JSONElement) (e : JSONElement) (next : Option JSONElement) :
    List Char :=
  match e with
  | JSONElement.ARRAY true => separator prev ++ "[ ".toList
  | JSONElement.MAP true => separator prev ++ "\x7b ".toList
  | JSONElement.ARRAY false => " ]".toList ++ lookAhead next
  | JSONElement.MAP false => " \x7d".toList ++ lookAhead next
  | JSONElement.STRING s => separator prev ++ stringText s

/-- The array depth after a node. -/
def arrayDepth (ac : Int) : JSONElement → Int
  | JSONElement.ARRAY true => ac + 1
  | JSONElement.ARRAY false => ac - 1
  | _ => ac

/-- The map depth after a node. -/
def mapDepth (mc : Int) : JSONElement → Int
  | JSONElement.MAP true => mc + 1
  | JSONElement.MAP false => mc - 1
  | _ => mc

/-- The concatenation of the texts of the nodes, node by node; with `stopAtLevel` it
ends with the first node after which both depths are 0. -/
def serialize (stopAtLevel : Bool) :
    Option JSONElement → Int → Int → List JSONElement → List Char
  | _, _, _, [] => []
  | prev, ac, mc, e :: rest =>
    nodeText prev e rest.head? ++
      (if stopAtLevel && (arrayDepth ac e == 0 && mapDepth mc e == 0) then []
       else serialize stopAtLevel (some e) (arrayDepth ac e) (mapDepth mc e) rest)

/-- The concatenation as the specification words it: always up to the node where both
depths return to 0. -/
def serializeToLevel (e : List JSONElement) : List Char := serialize true none 0 0 e

end Spec

/-- The serializer state `st'` comes from `st` by writing the bytes `t` without a write
error; the other locals and members are the same. -/
def ObjectState.Wrote {σ : Type} (st st' : ObjectState σ) (t : List Char) : Prop :=
  st'.buf.written = st.buf.written ++ t ∧ st'.buf.inBounds = true ∧ st'.wr_err = false ∧
  st'.user = st.user ∧ st'.stop = st.stop ∧ st'.ac = st.ac ∧ st'.mc = st.mc ∧
  st'.last_error_ = st.last_error_

/-! ## The chains and buffers of the serializer tests -/

/-- The buffer `Buffer<256> jio` of the tests, a global object. -/
def jio : UserBuffer :=
  { max_length_ := 256, length_ := 0, buffer_ := List.replicate 256 NUL }

/-- A parser `JSONParse<5> pr(&jio)` as the serializer tests construct it, on a platform
where a marker takes 16 bytes and a string node 24. -/
def parser5 : JSONParse := { LENGTH := 5, sizeofArray := 16, sizeofString := 24 }

/-- The chain of the test with the text `[ { "a":[ [ [ "b", { "c":"d" } ] ] ] } ]`, built
by the objects `a` to `n` of the test. -/
def nestedChain : List JSONElement :=
  JSONArray ++ JSONMap ++ JSONMapTupleArray 5 "a".toList ++ JSONArray ++ JSONArray ++
    JSONStringNode 5 "b".toList ++ JSONMap ++ JSONMapTuple 5 "c".toList "d".toList ++
    JSONMap false ++ JSONArray false ++ JSONArray false ++ JSONArray false ++ JSONMap false ++
    JSONArray false

/-- Two empty arrays in a row. -/
def twoArrays : List JSONElement :=
  JSONArray ++ JSONArray false ++ JSONArray ++ JSONArray false

/-- An array with one value, the empty string. -/
def emptyValueChain : List JSONElement :=
  JSONArray ++ JSONStringNode 5 [] ++ JSONArray false

/-! ## Scenario 1 -/

/-- The input of scenario 1. -/
def scenario1Text : List Char := "\x7b\"name\":\"dave\",\"id\":345\x7d".toList

/-- The chain of the test "Object to string, map test", built by the objects `a` to `d`
of the test. -/
def scenario1Built : List JSONElement :=
  JSONMap ++ JSONMapTuple 16 "name".toList "dave".toList ++
    JSONMapTuple 16 "id".toList "345".toList true ++ JSONMap false

/-- The expected output of scenario 1. -/
def scenario1Output : List Char := "\x7b \"name\":\"dave\", \"id\":345 \x7d".toList

/-- A parser `JSONParse<16>` on a platform where a marker takes `sA` bytes and a string
node `sS` bytes, with the memory limit `limit`. -/
def parser16 (sA sS limit : Nat) : JSONParse :=
  { LENGTH := 16, sizeofArray := sA, sizeofString := sS, limit_memory_ := limit }

/-! ## Auxiliary definitions for the round trip -/

section RoundTrip

variable {σ : Type}

/-- The text `t` stands in the memory `s` at index `i`. -/
def TextAt (s : List Char) (i : Nat) (t : List Char) : Prop := t <+: s.drop i

/-- The content of a quoted string can be scanned back: starting with the escape flag
`esc`, no `"` is met outside an escape and the content does not end inside an escape. -/
def escSafe : Bool → List Char → Bool
  | esc, [] => !esc
  | true, _ :: cs => escSafe false cs
  | false, c :: cs =>
    if c == BACKSLASH then escSafe true cs
    else if c == DQUOTE then false
    else escSafe false cs

/-- A string node that the serializer writes and the parser reads back: the content is a
non-empty C string of bytes that fits in `LENGTH`, `length_` is its length, a key has no
literal flag, the content of a literal is a literal, and the content of a quoted string
can be scanned back. -/
def JSONString.readable (LENGTH : Nat) (s : JSONString) : Bool :=
  decide (0 < s.length_) && decide (s.length_ = s.string_.length) &&
  decide (s.string_.length < LENGTH) && decide (s.string_.length < 256) &&
  s.string_.all (fun c => c != NUL && decide (c.toNat < 256)) &&
  (if s.literal_ then s.is_value_ && IsLiteral s.string_ s.length_
   else escSafe false s.string_)

/-- A marker, or a string node that is `readable`. -/
def JSONElement.readable (LENGTH : Nat) : JSONElement → Bool
  | JSONElement.STRING s => s.readable LENGTH
  | _ => true

/-- The node is an opening marker. -/
def JSONElement.opens : JSONElement → Bool
  | JSONElement.ARRAY o => o
  | JSONElement.MAP o => o
  | JSONElement.STRING _ => false

namespace Spec

/-- From the depths `ac`, `mc` on, no depth of the chain becomes negative or reaches
32767, the largest `int16_t`, and both depths are 0 after the last node and after no
node before. -/
def closesAtEnd : Int → Int → List JSONElement → Bool
  | _, _, [] => false
  | ac, mc, e :: rest =>
    decide (0 ≤ arrayDepth ac e) && decide (arrayDepth ac e < 32767) &&
    decide (0 ≤ mapDepth mc e) && decide (mapDepth mc e < 32767) &&
    (if arrayDepth ac e == 0 && mapDepth mc e == 0 then rest.isEmpty
     else closesAtEnd (arrayDepth ac e) (mapDepth mc e) rest)

/-- A chain that the parser reads back from its text: it begins with an opening marker,
every string node is `readable`, and the depths return to 0 with the last node and not
before. -/
def wellFormed (LENGTH : Nat) (c : List JSONElement) : Bool :=
  (match c.head? with
   | some e => e.opens
   | none => false) &&
  c.all (JSONElement.readable LENGTH) && closesAtEnd 0 0 c

end Spec

/-- The scan state of a scan with the chain asked for, after the first node was linked:
no stop, no error, `binary_size_` 0 (a platform where a node costs nothing). -/
def ScanState.mkAt (s : List Char) (user : σ) (i : Nat) (lit : Nat) (ac mc : Int)
    (a b : Int) (chain : List JSONElement) (ev qp esc : Bool) : ScanState σ :=
  { s := s, user := user, i := i, is_literal := lit, ac := ac, mc := mc, str_start := a,
    str_end := b, chain := chain, head := some 0, expect_value := ev, stop := false,
    quoted_processing := qp, escape := esc, last_error_ := ERR.ERR_NONE, binary_size_ := 0 }

/-- The state `mkAt` with nothing pending. -/
def ScanState.idle (s : List Char) (user : σ) (i : Nat) (ac mc : Int)
    (chain : List JSONElement) (ev : Bool) : ScanState σ :=
  ScanState.mkAt s user i 1 ac mc (-1) (-1) chain ev false false

/-- As many passes of the loop as the count says, none of which leaves the loop. -/
def FromString.advance (p : JSONParse) (cb : JSONTokenizer σ) (h : Bool) (l : Nat) :
    Nat → ScanState σ → Option (ScanState σ)
  | 0, st => some st
  | n + 1, st =>
    if st.i < l ∧ FromString.leaves p (FromString.body p cb h st) = false then
      FromString.advance p cb h l n (FromString.body p cb h st).next
    else none

end RoundTrip

/-- The bytes of a literal: the array `literals` of `IsLiteralCharater` without its
terminating NUL. -/
def literalAlphabet : List Char := "0123456789.-+eEnultrfas".toList

section RoundTrip2

variable {σ : Type}

/-- The value string that is pending after the node `prev`: the parser links a value
string only when it meets the comma or the closing bracket after it. -/
def pendingValue : Option JSONElement → List JSONElement
  | some (JSONElement.STRING v) => if v.is_value_ then [JSONElement.STRING v] else []
  | _ => []

/-- The scan state `st` at index `i`, right after the text of the node `prev`: a value
string `prev` is pending, with its content standing in the memory at `str_start`; any
other node is linked and nothing is pending.  The linked nodes are `ch`. -/
def ScanState.Ready (L : Nat) (s : List Char) (user : σ) (i : Nat) (ac mc : Int)
    (ch : List JSONElement) (prev : Option JSONElement) (st : ScanState σ) : Prop :=
  match prev with
  | some (JSONElement.STRING v) =>
    if v.is_value_ then
      v.readable L = true ∧
      ∃ (k : Nat) (ev : Bool), TextAt s k v.string_ ∧
        st = ScanState.mkAt s user i (if v.literal_ then 2 else 0) ac mc k
          ((k + v.string_.length : Nat) : Int) ch ev false false
    else ∃ ev, st = ScanState.idle s user i ac mc ch ev
  | _ => ∃ ev, st = ScanState.idle s user i ac mc ch ev

end RoundTrip2

/-- The node as the parser has linked it right after its text: a value string is not
linked yet. -/
def linkedNode : JSONElement → List JSONElement
  | JSONElement.STRING v => if v.is_value_ then [] else [JSONElement.STRING v]
  | e => [e]

/-- Two serializer states that differ at most in the bytes of the buffer and in the
members of the subclass. -/
def ObjectState.Alike {σ : Type} (st st' : ObjectState σ) : Prop :=
  st.buf.max_length_ = st'.buf.max_length_ ∧ st.buf.length_ = st'.buf.length_ ∧
  st.buf.buffer_.length = st'.buf.buffer_.length ∧ st.wr_err = st'.wr_err ∧
  st.stop = st'.stop ∧ st.ac = st'.ac ∧ st.mc = st'.mc ∧ st.last_error_ = st'.last_error_

/-! ## The chains and texts of the round trip -/

/-- An array with the value `a` and then the empty string as a value. -/
def danglingComma : List JSONElement :=
  JSONArray ++ JSONStringNode 5 "a".toList ++ JSONStringNode 5 [] ++ JSONArray false

/-- The text of the test "String to object, global buffer". -/
def roundTripText : List Char :=
  ("[ \x7b \"a\":\x7b \"b\":-1.458e-20, \"d\":\"e\" \x7d, \"f\":\"g\", \"h\":\x7b \"i\":\"j\" \x7d, " ++
    "\"k\":[ \"l\" ] \x7d, \x7b \"ff\":\"g\" \x7d ]").toList

/-- A parser `JSONParse<12>` on a platform where a marker takes `sA` bytes and a string
node `sS` bytes, with the memory limit `limit`. -/
def parser12 (sA sS limit : Nat) : JSONParse :=
  { LENGTH := 12, sizeofArray := sA, sizeofString := sS, limit_memory_ := limit }

/-! ## The documentation tables of `JSONSupport::IsInt` and `JSONSupport::IsDecimal` -/

/-- The table in the documentation of `JSONSupport::IsInt`: the string, the result
documented for `IsInt(s, l)` and the result documented for `IsInt(s, l, true)`. -/
def IsIntTable : List (String × Bool × Bool) :=
  [("00.12", false, false),
   ("-00.12", false, false),
   ("-012", false, false),
   ("-00", false, false),
   ("0.0", false, false),
   ("-0.0", false, false),
   ("0.1234", false, false),
   ("1.455", false, false),
   ("3455.455", false, false),
   ("-0.1234", false, false),
   ("-1.455", false, false),
   ("-3455.455", false, false),
   ("-1.2", false, false),
   ("-012000009", false, false),
   ("000455", false, true),
   ("00", false, true),
   ("00000", false, true),
   ("000001", false, true),
   ("100000", true, true),
   ("0", true, true),
   ("-0", true, true),
   ("-12000000", true, true),
   ("-12000009", true, true)]

/-- The table in the documentation of `JSONSupport::IsDecimal`: the string, the result
documented for `IsDecimal(s, l)` and the result documented for
`IsDecimal(s, l, false)`. -/
def IsDecimalTable : List (String × Bool × Bool) :=
  [("1.e-10", false, false),
   ("01.0e-10", false, false),
   ("0.000000e", false, false),
   ("1.0e-", false, false),
   ("1.0e+", false, false),
   ("1e10", true, false),
   ("0.000000e0", true, false),
   ("-0.000000e-0", true, false),
   ("1.0e-10", true, false),
   ("1.0e+10", true, false),
   ("1.0e0", true, false),
   ("1.0e+0", true, false),
   ("0.0e-1", true, false),
   ("0.0e+1", true, false),
   ("0.0e0", true, false),
   ("0.0e+0", true, false),
   ("0.1e345", true, false),
   ("0.1e+345", true, false),
   ("0.1e-345", true, false),
   ("0", true, true),
   ("-0", true, true),
   ("0.0", true, true),
   ("-0.0", true, true),
   ("0.1234", true, true),
   ("-0.1234", true, true),
   ("1.455", true, true),
   ("-1.455", true, true),
   ("3455.455", true, true),
   ("-3455.455", true, true),
   ("3455", true, true),
   ("-3455", true, true),
   ("-1.2", true, true),
   ("1.2", true, true),
   ("-0.012", true, true),
   ("-0.000000", true, true),
   ("0.000000", true, true)]

/-- The results of `IsInt(s, strlen(s))` and `IsInt(s, strlen(s), true)` on the strings
of a table. -/
def IsIntTable.results (t : List (String × Bool × Bool)) : List (String × Bool × Bool) :=
  t.map (fun r => (r.1, IsInt r.1.toList r.1.length false, IsInt r.1.toList r.1.length true))

/-- The results of `IsDecimal(s, strlen(s))` and `IsDecimal(s, strlen(s), false)` on the
strings of a table. -/
def IsDecimalTable.results (t : List (String × Bool × Bool)) :
    List (String × Bool × Bool) :=
  t.map (fun r =>
    (r.1, IsDecimal r.1.toList r.1.length true, IsDecimal r.1.toList r.1.length false))

/-! ## The memory budget -/

section Accounting

variable {σ : Type}

/-- The size that the memory test of the case of the byte `c` compares with the limit on
top of `binary_size_`: the sizes of the nodes that the case creates. -/
def FromString.eventCost (p : JSONParse) (st : ScanState σ) (c : Char) : Nat :=
  if c = '[' ∨ c = '\x7b' then p.sizeofArray
  else if c = ']' ∨ c = '\x7d' then
    if -1 < st.str_start then p.sizeofString + p.sizeofArray else p.sizeofArray
  else if c = ':' then p.sizeofString
  else if c = ',' then
    if -1 < st.str_start then p.sizeofString else 0
  else 0

/-- The binary size is the sum of the sizes of the nodes created, and within the
limit. -/
def ScanState.accounted (p : JSONParse) (st : ScanState σ) : Prop :=
  st.binary_size_ = chainSize p st.chain ∧ st.binary_size_ ≤ p.limit_memory_

/-- The state with `*h` replaced. -/
def ScanState.withHead (x : Option Nat) (st : ScanState σ) : ScanState σ :=
  { st with head := x }

end Accounting

/-- The text `[1,1,` ... `,1]` with 234 values `1`. -/
def overflowText : List Char :=
  '[' :: ((List.replicate 233 ['1', ',']).flatten ++ ['1', ']'])

/-- A parser `JSONParse<255> pr(io, 65535)` on a platform where a marker takes 16 bytes
and a string node 280. -/
def overflowParser : JSONParse := JSONParse.new 255 16 280 65535

/-! ## The chains and texts of the find and replace tests -/

/-- The buffer `Buffer<256> jio` after the test "IO put" has stored the text and its
length. -/
def putBuffer : UserBuffer :=
  { max_length_ := 256, length_ := roundTripText.length,
    buffer_ := roundTripText ++ List.replicate (256 - roundTripText.length) NUL }

/-- The replacement of the test "IO string replace". -/
def coolFooBar : List Char := "\"cool foo bar\"".toList

/-- The chain of the scenario `["apple","orange","pineapple","pear"]` for
`JSONParse<12>`. -/
def fruitChain : List JSONElement :=
  JSONArray ++ JSONStringNode 12 "apple".toList ++ JSONStringNode 12 "orange".toList ++
    JSONStringNode 12 "pineapple".toList ++ JSONStringNode 12 "pear".toList ++ JSONArray false

/-- The chain of the test "Attribute find, iterate over values". -/
def jamChain : List JSONElement :=
  JSONMap ++ JSONMapTupleArray 12 "jam".toList ++ JSONStringNode 12 "raspberry".toList ++
    JSONStringNode 12 "strawberry".toList ++ JSONArray false ++
    JSONMapTupleArray 12 "marmalade".toList ++ JSONStringNode 12 "orange".toList ++
    JSONStringNode 12 "lemon".toList ++ JSONStringNode 12 "lime".toList ++ JSONArray false ++
    JSONMap false

/-- The chain of the test "Object find, twice, same characteristics". -/
def findTwiceChain : List JSONElement :=
  JSONArray ++ JSONStringNode 12 "apple".toList ++ JSONStringNode 12 "orange".toList ++
    JSONStringNode 12 "pineapple".toList ++ JSONMapTupleArray 12 "another".toList ++
    JSONStringNode 12 "ORAnge".toList ++ JSONArray false ++ JSONStringNode 12 "pear".toList ++
    JSONArray false

/-- A parser `JSONParse<12> pr(&jio)` as the find tests construct it, on a platform where
a marker takes 16 bytes and a string node 32. -/
def findParser : JSONParse := JSONParse.new 12 16 32

namespace Spec

/-- The pattern `l` compared as a prefix of the content `s` over `n` bytes: byte for byte
in case-sensitive mode, with the bit `0x20` cleared otherwise; a byte behind the end of a
content is its NUL. -/
def prefixOver (case_sensitive : Bool) (l s : List Char) (n : Nat) : Bool :=
  (List.range n).all (fun i =>
    if case_sensitive then charAt l i == charAt s i
    else (charAt l i).toNat &&& 223 == (charAt s i).toNat &&& 223)

/-- The match of a node against the installed pattern as the specification words it: the
pattern's type and, for markers, the pattern's `is_open`, or, for strings, the pattern's
`is_value` and, when the pattern string is not empty, the pattern's content as a prefix
compared over the pattern's length. -/
def likeMatch (like : Option JSONElement) (case_sensitive : Bool) (n : JSONElement) : Bool :=
  match like, n with
  | some (JSONElement.ARRAY o), JSONElement.ARRAY is_open => is_open == o
  | some (JSONElement.MAP o), JSONElement.MAP is_open => is_open == o
  | some (JSONElement.STRING l), JSONElement.STRING s =>
    s.is_value_ == l.is_value_ &&
      (l.length_ == 0 || prefixOver case_sensitive l.string_ s.string_ l.length_)
  | _, _ => false

/-- Counted from the depths `ac`, `mc`, no node of the chain drives a depth negative, and
no depth leaves the range of an `int16_t`. -/
def staysLevel : Int → Int → List JSONElement → Bool
  | _, _, [] => true
  | ac, mc, e :: rest =>
    decide (0 ≤ arrayDepth ac e) && decide (arrayDepth ac e ≤ 32767) &&
    decide (0 ≤ mapDepth mc e) && decide (mapDepth mc e ≤ 32767) &&
    staysLevel (arrayDepth ac e) (mapDepth mc e) rest

end Spec

namespace Spec

/-- The node is a string node with `is_value = v`: a value string for `v = true`, a key
for `v = false`. -/
def isString (v : Bool) : JSONElement → Bool
  | JSONElement.STRING s => s.is_value_ == v
  | _ => false

end Spec


/-! ## Searches: scans with callbacks on

The definitions of this section are read by the theorems on `JSONSimpleStringParse` and
`JSONSimpleStringParseAttr`. -/

section Searching

variable {σ : Type}

/-- A tokenizer of a search, on the members that satisfy `good`: during a scan a marker
never stops it, a string node stops it exactly when `hit` holds, and a callback that does
not stop leaves the text as it was and changes the members by `next`. -/
structure JSONTokenizer.Searching (cb : JSONTokenizer σ) (good : σ → Prop)
    (hit : σ → JSONString → Bool) (next : σ → JSONElement → σ) : Prop where
  /-- The callback `TokenArray` does not stop the scan. -/
  array : ∀ (u : σ) (o : Bool) (s : List Char) (i : Nat), good u →
    cb.TokenArray OP.OP_FROM_STRING u o s i = (false, next u (JSONElement.ARRAY o), s)
  /-- The callback `TokenMap` does not stop the scan. -/
  map : ∀ (u : σ) (o : Bool) (s : List Char) (i : Nat), good u →
    cb.TokenMap OP.OP_FROM_STRING u o s i = (false, next u (JSONElement.MAP o), s)
  /-- The callback `TokenString` stops the scan exactly on a hit. -/
  string_hit : ∀ (u : σ) (a : JSONString) (s : List Char) (si ei : Int), good u →
    (cb.TokenString OP.OP_FROM_STRING u a s si ei).1 = hit u a
  /-- Without a hit the callback `TokenString` keeps the text. -/
  string_miss : ∀ (u : σ) (a : JSONString) (s : List Char) (si ei : Int), good u →
    hit u a = false →
    (cb.TokenString OP.OP_FROM_STRING u a s si ei).2 = (next u (JSONElement.STRING a), s)
  /-- The condition on the members is kept. -/
  keeps : ∀ (u : σ) (n : JSONElement), good u → good (next u n)

/-- No string node of the chain is a hit for the search that starts with the members
`u`. -/
def quietOn (hit : σ → JSONString → Bool) (next : σ → JSONElement → σ) :
    σ → List JSONElement → Bool
  | _, [] => true
  | u, n :: r =>
    (match n with
     | JSONElement.STRING a => !hit u a
     | _ => true) && quietOn hit next (next u n) r

/-- The scan state of a search that started with the members `u0` on the text `s0` and
has not been stopped: the text is as it was, the members are those that the callbacks of
the nodes created so far leave, none of them a hit, and no content of a node has a
NUL. -/
def ScanState.Quiet (good : σ → Prop) (hit : σ → JSONString → Bool)
    (next : σ → JSONElement → σ) (u0 : σ) (s0 : List Char) (st : ScanState σ) : Prop :=
  st.stop = false ∧ st.s = s0 ∧ good st.user ∧ st.user = st.chain.foldl next u0 ∧
    quietOn hit next u0 st.chain = true ∧
    (∀ a, JSONElement.STRING a ∈ st.chain → ∀ c ∈ a.string_, c ≠ NUL)

/-- The string node `a` is made of the span `[si, ei)` of the text `s`, as
`JSONString::Data` copies it. -/
def JSONString.ofSpan (LENGTH : Nat) (s : List Char) (si ei : Int) (a : JSONString) : Prop :=
  a.string_ = (cstr (ptrAt s si)).take
    (JSONString.DataCount LENGTH (ptrAt s si) (wrapU8 (ei - si))) ∧
  a.length_ = JSONString.DataCount LENGTH (ptrAt s si) (wrapU8 (ei - si))

/-- The scan state in which a search that started with the members `u0` on the text `s0`
was stopped: behind the nodes `pre`, none of them a hit, the string node `a` made of the
span `[si, ei)` was a hit, at most a closing marker was linked behind it, and the members
and the text are those that its callback left.  The error is `ERR_CALLBACK_STOP` unless
the pass has set an error itself. -/
def ScanState.Stopped (p : JSONParse) (cb : JSONTokenizer σ) (hit : σ → JSONString → Bool)
    (next : σ → JSONElement → σ) (u0 : σ) (s0 : List Char) (pre : List JSONElement)
    (a : JSONString) (si ei : Int) (st : ScanState σ) : Prop :=
  st.stop = true ∧
  (∃ tail, st.chain = pre ++ JSONElement.STRING a :: tail ∧ tail.length ≤ 1) ∧
  quietOn hit next u0 pre = true ∧ hit (pre.foldl next u0) a = true ∧
  st.user = (cb.TokenString OP.OP_FROM_STRING (pre.foldl next u0) a s0 si ei).2.1 ∧
  st.s = (cb.TokenString OP.OP_FROM_STRING (pre.foldl next u0) a s0 si ei).2.2 ∧
  JSONString.ofSpan p.LENGTH s0 si ei a ∧
  (st.last_error_ = ERR.ERR_CALLBACK_STOP ∨
    (st.last_error_ = ERR.ERR_BAD_VALUE ∧ a.is_value_ = true ∧
      IsLiteral a.string_ a.length_ = false) ∨
    (p.limit_node_level_ = true ∧
      (st.last_error_ = ERR.ERR_UNEXPECTED_END_OF_ARRAY ∨
        st.last_error_ = ERR.ERR_UNEXPECTED_END_OF_MAP))) ∧
  (∀ b, JSONElement.STRING b ∈ pre → ∀ c ∈ b.string_, c ≠ NUL) ∧
  si ≠ -1

end Searching

section Searching2

variable {σ : Type}

/-- The state `x` after the switch of a pass that began in the state `st` and created the
string node `a` of the pending span, whose callback was a hit: the scan is stopped, at
most a closing marker is linked behind `a`, and the members and the text are those that
the callback left. -/
def ScanState.HitBy (p : JSONParse) (cb : JSONTokenizer σ) (hit : σ → JSONString → Bool)
    (st : ScanState σ) (a : JSONString) (x : ScanState σ) : Prop :=
  x.stop = true ∧
  (∃ tail, x.chain = st.chain ++ JSONElement.STRING a :: tail ∧ tail.length ≤ 1) ∧
  hit st.user a = true ∧
  x.user = (cb.TokenString OP.OP_FROM_STRING st.user a st.s st.str_start st.str_end).2.1 ∧
  x.s = (cb.TokenString OP.OP_FROM_STRING st.user a st.s st.str_start st.str_end).2.2 ∧
  JSONString.ofSpan p.LENGTH st.s st.str_start st.str_end a ∧
  (x.last_error_ = ERR.ERR_NONE ∨
    (x.last_error_ = ERR.ERR_BAD_VALUE ∧ a.is_value_ = true ∧
      IsLiteral a.string_ a.length_ = false)) ∧
  st.str_start ≠ -1

end Searching2

section Searching3

variable {σ : Type}

/-- What the switch of a pass of a search that began in the state `st` leaves: a quiet
state without a callback stop, or a hit. -/
def ScanState.Outcome (p : JSONParse) (cb : JSONTokenizer σ) (good : σ → Prop)
    (hit : σ → JSONString → Bool) (next : σ → JSONElement → σ) (u0 : σ) (s0 : List Char)
    (st x : ScanState σ) : Prop :=
  (ScanState.Quiet good hit next u0 s0 x ∧ x.last_error_ ≠ ERR.ERR_CALLBACK_STOP) ∨
  (∃ a, ScanState.HitBy p cb hit st a x)

end Searching3


/-! ## The searches of `JSONSimpleStringParse` and `JSONSimpleStringParseAttr` -/

/-- The last error that a search function leaves, given the one that `FromString` left:
no error becomes `ERR_NOT_FOUND`, a callback stop becomes `ERR_NONE`. -/
def searchError (e : ERR) : ERR :=
  if e == ERR.ERR_NONE then ERR.ERR_NOT_FOUND
  else if e == ERR.ERR_CALLBACK_STOP then ERR.ERR_NONE
  else e

namespace JSONSimpleStringParse

/-- The members at the call of `FromString` in `FromStringSearch(psi, s,
case_sensitive)`. -/
def searchStart (self : JSONSimpleStringParse) (s : List Char) (case_sensitive : Bool := true) :
    JSONSimpleStringParse :=
  { self with
    str_ := s, str_length_ := cutLength self.base.LENGTH s, value_ := [], replace_ := false,
    base := self.base.CaseSensitive case_sensitive, adj_i_ := 0 }

/-- The nodes that the scan of `FromString(psi)` creates, in the order of their
creation. -/
def nodes (self : JSONSimpleStringParse) (psi : Nat) : List JSONElement :=
  (FromString.scan self.base tokenizer self self.io_.Get false psi).chain

/-- The test `found` of `TokenString` on the node `a`. -/
def hit (self : JSONSimpleStringParse) (a : JSONString) : Bool :=
  self.str_length_ != 0 &&
    (StrNCmp a.string_ self.str_ self.str_length_ self.base.case_sensitive_ == 0)

end JSONSimpleStringParse

/-- The text of the test "Searching for strings". -/
def searchText : List Char :=
  "[100,200,300,\x7b\"value\":\"1000\"\x7d,2000,\"5\",10,20]".toList

/-- The object `JSONSimpleStringParse<8> pr(&ubjio)` of that test over its text, on a
platform where a marker takes 16 bytes and a string node 24. -/
def searchParse : JSONSimpleStringParse :=
  JSONSimpleStringParse.new 8 16 24
    (UserBuffer.mk3 (searchText ++ [NUL]) (searchText.length + 1) searchText.length)

/-- An object `JSONSimpleStringParse<8>` over the text `[100000000]`. -/
def longTokenParse : JSONSimpleStringParse :=
  JSONSimpleStringParse.new 8 16 24 (UserBuffer.mk3 ("[100000000]".toList ++ [NUL]) 12 11)


namespace JSONSimpleStringParseAttr

/-- The members at the call of `FromString` in `FromStringSearch(psi, a,
case_sensitive)`. -/
def searchStart (self : JSONSimpleStringParseAttr) (a : List Char)
    (case_sensitive : Bool := true) : JSONSimpleStringParseAttr :=
  { self with
    take_next_ := false, attr_ := a, attr_length_ := cutLength self.base.LENGTH a,
    value_ := [], base := { self.base with case_sensitive_ := case_sensitive },
    rename_ := false, replace_ := false }

/-- The members at the call of `FromString` in `FromStringReplace(psi, a, v,
case_sensitive)`. -/
def replaceStart (self : JSONSimpleStringParseAttr) (a v : List Char)
    (case_sensitive : Bool := true) : JSONSimpleStringParseAttr :=
  { self with
    take_next_ := false, attr_ := a, attr_length_ := cutLength self.base.LENGTH a,
    value_ := (cstr v).take (cutLength self.base.LENGTH v),
    base := { self.base with case_sensitive_ := case_sensitive },
    rename_ := false, replace_ := true, adj_i_ := 0 }

/-- The nodes that the scan of `FromString(psi)` creates, in the order of their
creation. -/
def nodes (self : JSONSimpleStringParseAttr) (psi : Nat) : List JSONElement :=
  (FromString.scan self.base tokenizer self self.io_.Get false psi).chain

/-- The test of `TokenString` on a key: it compares equal with the attribute looked
for. -/
def keyMatch (self : JSONSimpleStringParseAttr) (k : JSONString) : Bool :=
  StrNCmp k.string_ self.attr_ self.attr_length_ self.base.case_sensitive_ == 0

/-- The string node stops the scan: it is a value, and `take_next_` is set. -/
def hit (self : JSONSimpleStringParseAttr) (a : JSONString) : Bool :=
  a.is_value_ && self.take_next_

/-- The members after the callback of a node that does not stop the scan (no rename): a
marker clears `take_next_`, a key that compares equal sets it. -/
def next (self : JSONSimpleStringParseAttr) (n : JSONElement) : JSONSimpleStringParseAttr :=
  match n with
  | JSONElement.STRING a =>
    if a.is_value_ then self
    else if !self.take_next_ && self.attr_length_ != 0 then
      if self.keyMatch a then { self with take_next_ := true } else self
    else self
  | _ => if self.take_next_ then { self with take_next_ := false } else self

/-- The members with `take_next_` set to `t`. -/
def setTake (self : JSONSimpleStringParseAttr) (t : Bool) : JSONSimpleStringParseAttr :=
  { self with take_next_ := t }

/-- The flag `take_next_` after the callback of a node that does not stop the scan, for
an attribute that is not empty. -/
def takeAfter (self : JSONSimpleStringParseAttr) (t : Bool) : JSONElement → Bool
  | JSONElement.STRING x => if x.is_value_ then t else t || self.keyMatch x
  | _ => false

end JSONSimpleStringParseAttr

namespace Spec

/-- The first value string node of the chain that directly follows a key node with the
content `a`; `pending` tells whether the node before the chain is such a key. -/
def attrAfter (a : List Char) : Bool → List JSONElement → Option JSONString
  | _, [] => none
  | pending, JSONElement.STRING x :: rest =>
    if x.is_value_ then
      if pending then some x else attrAfter a false rest
    else attrAfter a (x.string_ == a) rest
  | _, _ :: rest => attrAfter a false rest

/-- The string value that directly follows the first key exactly equal to `a`; a key
whose value is an array or a map is passed over. -/
def attrValue (a : List Char) (c : List JSONElement) : Option JSONString :=
  attrAfter a false c

/-- No key node of the chain directly follows a key node; `prev` tells whether the node
before the chain is a key. -/
def keysApartFrom : Bool → List JSONElement → Bool
  | _, [] => true
  | prev, JSONElement.STRING x :: rest =>
    if x.is_value_ then keysApartFrom false rest
    else !prev && keysApartFrom true rest
  | _, _ :: rest => keysApartFrom false rest

/-- No key node of the chain directly follows a key node, as in a well-formed text. -/
def keysApart (c : List JSONElement) : Bool := keysApartFrom false c

end Spec

/-- The text of the test "Attribute parse". -/
def attrText : List Char :=
  ("[ \x7b \"a\":\x7b \"number\":0, \"test\":\"e\" \x7d, \"f\":\"g\", " ++
    "\"h\":\x7b \"nothing\":\"something\" \x7d, \"k\":[ \"l\" ] \x7d, \x7b \"ff\":\"g\" \x7d ]").toList

/-- The object `JSONSimpleStringParseAttr<12> pr(&ubjio)` of that test over the array
`char js[128]`, on a platform where a marker takes 16 bytes and a string node 32. -/
def attrParse : JSONSimpleStringParseAttr :=
  JSONSimpleStringParseAttr.new 12 16 32
    (UserBuffer.mk3 (attrText ++ List.replicate (128 - attrText.length) NUL) 128
      (strlen attrText))

/-- An object `JSONSimpleStringParseAttr<12>` over the text `\x7b"a":""\x7d` in an array
of 16 bytes. -/
def emptyValueParse : JSONSimpleStringParseAttr :=
  JSONSimpleStringParseAttr.new 12 16 32
    (UserBuffer.mk3 ("\x7b\"a\":\"\"\x7d".toList ++ List.replicate 8 NUL) 16 8)

/-- The text of the test "Replace both value and attribute". -/
def replaceText : List Char :=
  ("[\x7b\"start\":\x7b\"number\":0,\"test\":\"string\"\x7d,\"fall\":\"good\"," ++
    "\"FALL\":[\"out\",\"item\"]\x7d,\x7b\"FALL2\":\"now\"\x7d]").toList

/-- The object `JSONSimpleStringParseAttr<12> pr(&ubjio)` of that test over the array
`char js[192]`. -/
def replaceParse : JSONSimpleStringParseAttr :=
  JSONSimpleStringParseAttr.new 12 16 32
    (UserBuffer.mk3 (replaceText ++ List.replicate (192 - replaceText.length) NUL) 192
      (strlen replaceText))


section KeepsDef

variable {σ : Type}

/-- A property of the members of the subclass that the three callbacks keep during a
scan. -/
structure JSONTokenizer.Keeps (cb : JSONTokenizer σ) (P : σ → Prop) : Prop where
  /-- The callback `TokenArray` keeps the property. -/
  array : ∀ (u : σ) (o : Bool) (s : List Char) (i : Nat), P u →
    P (cb.TokenArray OP.OP_FROM_STRING u o s i).2.1
  /-- The callback `TokenMap` keeps the property. -/
  map : ∀ (u : σ) (o : Bool) (s : List Char) (i : Nat), P u →
    P (cb.TokenMap OP.OP_FROM_STRING u o s i).2.1
  /-- The callback `TokenString` keeps the property. -/
  string : ∀ (u : σ) (a : JSONString) (s : List Char) (si ei : Int), P u →
    P (cb.TokenString OP.OP_FROM_STRING u a s si ei).2.1

end KeepsDef

/-- An object `JSONSimpleStringParseAttr<12>` over the text
`\x7b"a":"x","b":"y"\x7d` of 17 bytes in an array of 64 bytes. -/
def staleParse : JSONSimpleStringParseAttr :=
  JSONSimpleStringParseAttr.new 12 16 32
    (UserBuffer.mk3 ("\x7b\"a\":\"x\",\"b\":\"y\"\x7d".toList ++ List.replicate 47 NUL) 64 17)

namespace JSONSimpleStringParseAttr

/-- The members at the call of `FromString` in `FromStringRename(psi, a, ra,
case_sensitive)`. -/
def renameStart (self : JSONSimpleStringParseAttr) (a ra : List Char)
    (case_sensitive : Bool := true) : JSONSimpleStringParseAttr :=
  { self with
    take_next_ := false, attr_ := a, attr_length_ := cutLength self.base.LENGTH a,
    value_ := (cstr ra).take (cutLength self.base.LENGTH ra),
    base := { self.base with case_sensitive_ := case_sensitive },
    rename_ := true, replace_ := false, adj_i_ := 0 }

end JSONSimpleStringParseAttr

namespace JSONSimpleStringParse

/-- The members at the call of `FromString` in `FromStringReplace(psi, s, rs,
case_sensitive)`. -/
def replaceStart (self : JSONSimpleStringParse) (s rs : List Char)
    (case_sensitive : Bool := true) : JSONSimpleStringParse :=
  { self with
    str_ := s, str_length_ := cutLength self.base.LENGTH s,
    value_ := (cstr rs).take (cutLength self.base.LENGTH rs), replace_ := true,
    base := self.base.CaseSensitive case_sensitive, adj_i_ := 0 }

end JSONSimpleStringParse

/-- An object `JSONSimpleStringParseAttr<12>` over the text
`\x7b"a":"0123456789abcdef"\x7d` of 24 bytes, with a value of 16 bytes, in an array of 64
bytes. -/
def longValueParse : JSONSimpleStringParseAttr :=
  JSONSimpleStringParseAttr.new 12 16 32
    (UserBuffer.mk3 ("\x7b\"a\":\"0123456789abcdef\"\x7d".toList ++ List.replicate 40 NUL) 64 24)

namespace Spec

/-- The array depth and the map depth after one more byte, each bracket counted for its
own kind. -/
def bracketStep (d : Int × Int) (c : Char) : Int × Int :=
  if c = '[' then (d.1 + 1, d.2)
  else if c = ']' then (d.1 - 1, d.2)
  else if c = '\x7b' then (d.1, d.2 + 1)
  else if c = '\x7d' then (d.1, d.2 - 1)
  else d

/-- The array depth and the map depth after the brackets of a text. -/
def bracketDepth (s : List Char) : Int × Int := s.foldl bracketStep (0, 0)

/-- The brackets of the text are balanced per kind: after no prefix a depth is negative,
and after the whole text both depths are 0. -/
def balancedPerKind (s : List Char) : Bool :=
  (List.range (s.length + 1)).all (fun k =>
    decide (0 ≤ (bracketDepth (s.take k)).1) && decide (0 ≤ (bracketDepth (s.take k)).2)) &&
  bracketDepth s == (0, 0)

end Spec

section Bare

variable {σ : Type}

/-- The scan state of a scan without chain in which nothing is pending: no token, no
quoted span, no stop, no error. -/
def ScanState.bare (s : List Char) (user : σ) (i : Nat) (ac mc : Int)
    (chain : List JSONElement) (bsz : Nat) : ScanState σ :=
  { s := s, user := user, i := i, is_literal := 1, ac := ac, mc := mc, str_start := -1,
    str_end := -1, chain := chain, head := none, expect_value := false, stop := false,
    quoted_processing := false, escape := false, last_error_ := ERR.ERR_NONE,
    binary_size_ := bsz }

end Bare

section Measure

variable {σ : Type}

/-- The measure of the loop of `FromString` over `l` bytes: twice the number of bytes from
`i` on, plus one while a token is pending. -/
def ScanState.measure (l : Nat) (st : ScanState σ) : Nat :=
  2 * (l - st.i) + (if st.str_start = -1 then 0 else 1)

end Measure

namespace Spec

/-- The text behind an optional sign `+` or `-`. -/
def dropSign : List Char → List Char
  | [] => []
  | c :: u => if c == '+' || c == '-' then u else c :: u

/-- The part `[[e|E][S]<n>]` of the format of `IsDecimal`: nothing, or `e` or `E`, an
optional `+` or `-`, and at least one digit. -/
def exponentPart : List Char → Bool
  | [] => true
  | c :: t => (c == 'e' || c == 'E') && !(dropSign t).isEmpty && (dropSign t).all isDigit

/-- The part `[[dp]<N>]` of the format, followed by the exponent part: nothing, or `.` and
at least one digit. -/
def fractionPart : List Char → Bool
  | [] => true
  | c :: t =>
    if c == '.' then !(t.takeWhile isDigit).isEmpty && exponentPart (t.dropWhile isDigit)
    else exponentPart (c :: t)

/-- The part `<n>` of the format, followed by the rest: the digit `0`, or a string of
digits that is not empty and has no leading zero. -/
def integerPart (r : List Char) : Bool :=
  (r.takeWhile isDigit == ['0'] ||
    (!(r.takeWhile isDigit).isEmpty && (r.takeWhile isDigit).head? != some '0')) &&
  fractionPart (r.dropWhile isDigit)

/-- The documented format `[s]<n>[[dp]<N>][[e|E][S]<n>]` of `IsDecimal`: an optional `-`,
an integer part, an optional fraction and an optional exponent. -/
def decimalFormat : List Char → Bool
  | [] => false
  | c :: r => if c == '-' then integerPart r else integerPart (c :: r)

/-- Every `.` of the text stands between two digits; `prev` is the byte before the
text. -/
def dotsFrom : Option Char → List Char → Bool
  | _, [] => true
  | prev, c :: r =>
    (c != '.' || (prev.any isDigit && r.head?.any isDigit)) && dotsFrom (some c) r

/-- Every `.` of the text stands between two digits. -/
def dotsBetweenDigits (s : List Char) : Bool := dotsFrom none s

end Spec

/-- The loop of `IsDecimal` behind the exponent mark, as a function of the bytes that
remain: `en` as in the source, `afterE` for `i == e + 1`; the result is that of
`IsDecimal` with exponents allowed. -/
def IsDecimal.exponent : List Char → Bool → Bool → Bool
  | [], en, _ => en
  | c :: r, en, afterE =>
    if isDigit c then IsDecimal.exponent r true false
    else if '-' == c && afterE then IsDecimal.exponent r en false
    else if '+' == c && afterE then IsDecimal.exponent r en false
    else false

/-- The loop of `IsDecimal` before an exponent mark, as a function of the bytes that
remain: `zero` for `'0' == s[st]`, `neg` for `st == 1`, `first` for `i == st`, `dot` for
`dp != 0`, `dpnl` and `dpnr` as in the source. -/
def IsDecimal.mantissa (neg zero : Bool) : List Char → Bool → Bool → Bool → Bool → Bool
  | [], _, _, _, _ => true
  | c :: r, first, dot, dpnl, dpnr =>
    if isDigit c then
      if !dot && !first && zero then false
      else if !dot then IsDecimal.mantissa neg zero r false dot true dpnr
      else IsDecimal.mantissa neg zero r false dot dpnl true
    else
      if '.' == c && !dot then IsDecimal.mantissa neg zero r false (!(first && !neg)) dpnl dpnr
      else if 'E'.toNat == c.toNat &&& 223 && ((!dot && dpnl) || (dot && dpnr)) then
        IsDecimal.exponent r false true
      else false

/-- An object `JSONSimpleStringParseAttr<12>` over the text
`\x7b"0123456789abcdef":"v"\x7d` of 24 bytes, with a key of 16 bytes, in an array of 64
bytes. -/
def longKeyParse : JSONSimpleStringParseAttr :=
  JSONSimpleStringParseAttr.new 12 16 32
    (UserBuffer.mk3 ("\x7b\"0123456789abcdef\":\"v\"\x7d".toList ++ List.replicate 40 NUL) 64 24)

/-! ## Theorems -/

section Wrap

theorem wrapU16_of_le {n : Nat} (h : n ≤ 65535) : wrapU16 (n : Int) = n := by
  unfold wrapU16; omega

theorem wrapU16_add_of_le {a b : Nat} (h : a + b ≤ 65535) : wrapU16 ((a : Int) + b) = a + b := by
  unfold wrapU16; omega

theorem wrapU8_of_lt {n : Nat} (h : n < 256) : wrapU8 (n : Int) = n := by
  unfold wrapU8; omega

end Wrap
section Projections

variable {σ : Type}

@[simp] theorem callOpen_i (p : JSONParse) (cb : JSONTokenizer σ) (isMap : Bool) (st : ScanState σ) :
    (FromString.callOpen p cb isMap st).i = st.i := by
  unfold FromString.callOpen; split <;> rfl

@[simp] theorem callOpen_is_literal (p : JSONParse) (cb : JSONTokenizer σ) (isMap : Bool) (st : ScanState σ) :
    (FromString.callOpen p cb isMap st).is_literal = st.is_literal := by
  unfold FromString.callOpen; split <;> rfl

@[simp] theorem callOpen_ac (p : JSONParse) (cb : JSONTokenizer σ) (isMap : Bool) (st : ScanState σ) :
    (FromString.callOpen p cb isMap st).ac = st.ac := by
  unfold FromString.callOpen; split <;> rfl

@[simp] theorem callOpen_mc (p : JSONParse) (cb : JSONTokenizer σ) (isMap : Bool) (st : ScanState σ) :
    (FromString.callOpen p cb isMap st).mc = st.mc := by
  unfold FromString.callOpen; split <;> rfl

@[simp] theorem callOpen_str_start (p : JSONParse) (cb : JSONTokenizer σ) (isMap : Bool) (st : ScanState σ) :
    (FromString.callOpen p cb isMap st).str_start = st.str_start := by
  unfold FromString.callOpen; split <;> rfl

@[simp] theorem callOpen_str_end (p : JSONParse) (cb : JSONTokenizer σ) (isMap : Bool) (st : ScanState σ) :
    (FromString.callOpen p cb isMap st).str_end = st.str_end := by
  unfold FromString.callOpen; split <;> rfl

@[simp] theorem callOpen_chain (p : JSONParse) (cb : JSONTokenizer σ) (isMap : Bool) (st : ScanState σ) :
    (FromString.callOpen p cb isMap st).chain = st.chain := by
  unfold FromString.callOpen; split <;> rfl

@[simp] theorem callOpen_head (p : JSONParse) (cb : JSONTokenizer σ) (isMap : Bool) (st : ScanState σ) :
    (FromString.callOpen p cb isMap st).head = st.head := by
  unfold FromString.callOpen; split <;> rfl

@[simp] theorem callOpen_expect_value (p : JSONParse) (cb : JSONTokenizer σ) (isMap : Bool) (st : ScanState σ) :
    (FromString.callOpen p cb isMap st).expect_value = st.expect_value := by
  unfold FromString.callOpen; split <;> rfl

@[simp] theorem callOpen_quoted_processing (p : JSONParse) (cb : JSONTokenizer σ) (isMap : Bool) (st : ScanState σ) :
    (FromString.callOpen p cb isMap st).quoted_processing = st.quoted_processing := by
  unfold FromString.callOpen; split <;> rfl

@[simp] theorem callOpen_escape (p : JSONParse) (cb : JSONTokenizer σ) (isMap : Bool) (st : ScanState σ) :
    (FromString.callOpen p cb isMap st).escape = st.escape := by
  unfold FromString.callOpen; split <;> rfl

@[simp] theorem callOpen_last_error (p : JSONParse) (cb : JSONTokenizer σ) (isMap : Bool) (st : ScanState σ) :
    (FromString.callOpen p cb isMap st).last_error_ = st.last_error_ := by
  unfold FromString.callOpen; split <;> rfl

@[simp] theorem callOpen_binary_size (p : JSONParse) (cb : JSONTokenizer σ) (isMap : Bool) (st : ScanState σ) :
    (FromString.callOpen p cb isMap st).binary_size_ = st.binary_size_ := by
  unfold FromString.callOpen; split <;> rfl

@[simp] theorem callClose_i (p : JSONParse) (cb : JSONTokenizer σ) (isMap : Bool) (st : ScanState σ) :
    (FromString.callClose p cb isMap st).i = st.i := by
  unfold FromString.callClose; split <;> rfl

@[simp] theorem callClose_is_literal (p : JSONParse) (cb : JSONTokenizer σ) (isMap : Bool) (st : ScanState σ) :
    (FromString.callClose p cb isMap st).is_literal = st.is_literal := by
  unfold FromString.callClose; split <;> rfl

@[simp] theorem callClose_ac (p : JSONParse) (cb : JSONTokenizer σ) (isMap : Bool) (st : ScanState σ) :
    (FromString.callClose p cb isMap st).ac = st.ac := by
  unfold FromString.callClose; split <;> rfl

@[simp] theorem callClose_mc (p : JSONParse) (cb : JSONTokenizer σ) (isMap : Bool) (st : ScanState σ) :
    (FromString.callClose p cb isMap st).mc = st.mc := by
  unfold FromString.callClose; split <;> rfl

@[simp] theorem callClose_str_start (p : JSONParse) (cb : JSONTokenizer σ) (isMap : Bool) (st : ScanState σ) :
    (FromString.callClose p cb isMap st).str_start = st.str_start := by
  unfold FromString.callClose; split <;> rfl

@[simp] theorem callClose_str_end (p : JSONParse) (cb : JSONTokenizer σ) (isMap : Bool) (st : ScanState σ) :
    (FromString.callClose p cb isMap st).str_end = st.str_end := by
  unfold FromString.callClose; split <;> rfl

@[simp] theorem callClose_chain (p : JSONParse) (cb : JSONTokenizer σ) (isMap : Bool) (st : ScanState σ) :
    (FromString.callClose p cb isMap st).chain = st.chain := by
  unfold FromString.callClose; split <;> rfl

@[simp] theorem callClose_head (p : JSONParse) (cb : JSONTokenizer σ) (isMap : Bool) (st : ScanState σ) :
    (FromString.callClose p cb isMap st).head = st.head := by
  unfold FromString.callClose; split <;> rfl

@[simp] theorem callClose_expect_value (p : JSONParse) (cb : JSONTokenizer σ) (isMap : Bool) (st : ScanState σ) :
    (FromString.callClose p cb isMap st).expect_value = st.expect_value := by
  unfold FromString.callClose; split <;> rfl

@[simp] theorem callClose_quoted_processing (p : JSONParse) (cb : JSONTokenizer σ) (isMap : Bool) (st : ScanState σ) :
    (FromString.callClose p cb isMap st).quoted_processing = st.quoted_processing := by
  unfold FromString.callClose; split <;> rfl

@[simp] theorem callClose_escape (p : JSONParse) (cb : JSONTokenizer σ) (isMap : Bool) (st : ScanState σ) :
    (FromString.callClose p cb isMap st).escape = st.escape := by
  unfold FromString.callClose; split <;> rfl

@[simp] theorem callClose_last_error (p : JSONParse) (cb : JSONTokenizer σ) (isMap : Bool) (st : ScanState σ) :
    (FromString.callClose p cb isMap st).last_error_ = st.last_error_ := by
  unfold FromString.callClose; split <;> rfl

@[simp] theorem callClose_binary_size (p : JSONParse) (cb : JSONTokenizer σ) (isMap : Bool) (st : ScanState σ) :
    (FromString.callClose p cb isMap st).binary_size_ = st.binary_size_ := by
  unfold FromString.callClose; split <;> rfl

@[simp] theorem callString_is_literal (p : JSONParse) (cb : JSONTokenizer σ) (a : JSONString) (st : ScanState σ) :
    (FromString.callString p cb a st).is_literal = st.is_literal := by
  unfold FromString.callString; split
  · dsimp only; split <;> rfl
  · rfl

@[simp] theorem callString_ac (p : JSONParse) (cb : JSONTokenizer σ) (a : JSONString) (st : ScanState σ) :
    (FromString.callString p cb a st).ac = st.ac := by
  unfold FromString.callString; split
  · dsimp only; split <;> rfl
  · rfl

@[simp] theorem callString_mc (p : JSONParse) (cb : JSONTokenizer σ) (a : JSONString) (st : ScanState σ) :
    (FromString.callString p cb a st).mc = st.mc := by
  unfold FromString.callString; split
  · dsimp only; split <;> rfl
  · rfl

@[simp] theorem callString_str_start (p : JSONParse) (cb : JSONTokenizer σ) (a : JSONString) (st : ScanState σ) :
    (FromString.callString p cb a st).str_start = st.str_start := by
  unfold FromString.callString; split
  · dsimp only; split <;> rfl
  · rfl

@[simp] theorem callString_str_end (p : JSONParse) (cb : JSONTokenizer σ) (a : JSONString) (st : ScanState σ) :
    (FromString.callString p cb a st).str_end = st.str_end := by
  unfold FromString.callString; split
  · dsimp only; split <;> rfl
  · rfl

@[simp] theorem callString_chain (p : JSONParse) (cb : JSONTokenizer σ) (a : JSONString) (st : ScanState σ) :
    (FromString.callString p cb a st).chain = st.chain := by
  unfold FromString.callString; split
  · dsimp only; split <;> rfl
  · rfl

@[simp] theorem callString_head (p : JSONParse) (cb : JSONTokenizer σ) (a : JSONString) (st : ScanState σ) :
    (FromString.callString p cb a st).head = st.head := by
  unfold FromString.callString; split
  · dsimp only; split <;> rfl
  · rfl

@[simp] theorem callString_expect_value (p : JSONParse) (cb : JSONTokenizer σ) (a : JSONString) (st : ScanState σ) :
    (FromString.callString p cb a st).expect_value = st.expect_value := by
  unfold FromString.callString; split
  · dsimp only; split <;> rfl
  · rfl

@[simp] theorem callString_quoted_processing (p : JSONParse) (cb : JSONTokenizer σ) (a : JSONString) (st : ScanState σ) :
    (FromString.callString p cb a st).quoted_processing = st.quoted_processing := by
  unfold FromString.callString; split
  · dsimp only; split <;> rfl
  · rfl

@[simp] theorem callString_escape (p : JSONParse) (cb : JSONTokenizer σ) (a : JSONString) (st : ScanState σ) :
    (FromString.callString p cb a st).escape = st.escape := by
  unfold FromString.callString; split
  · dsimp only; split <;> rfl
  · rfl

@[simp] theorem callString_last_error (p : JSONParse) (cb : JSONTokenizer σ) (a : JSONString) (st : ScanState σ) :
    (FromString.callString p cb a st).last_error_ = st.last_error_ := by
  unfold FromString.callString; split
  · dsimp only; split <;> rfl
  · rfl

@[simp] theorem callString_binary_size (p : JSONParse) (cb : JSONTokenizer σ) (a : JSONString) (st : ScanState σ) :
    (FromString.callString p cb a st).binary_size_ = st.binary_size_ := by
  unfold FromString.callString; split
  · dsimp only; split <;> rfl
  · rfl

@[simp] theorem callStringComma_is_literal (p : JSONParse) (cb : JSONTokenizer σ) (a : JSONString) (st : ScanState σ) :
    (FromString.callStringComma p cb a st).is_literal = st.is_literal := by
  unfold FromString.callStringComma; split <;> rfl

@[simp] theorem callStringComma_ac (p : JSONParse) (cb : JSONTokenizer σ) (a : JSONString) (st : ScanState σ) :
    (FromString.callStringComma p cb a st).ac = st.ac := by
  unfold FromString.callStringComma; split <;> rfl

@[simp] theorem callStringComma_mc (p : JSONParse) (cb : JSONTokenizer σ) (a : JSONString) (st : ScanState σ) :
    (FromString.callStringComma p cb a st).mc = st.mc := by
  unfold FromString.callStringComma; split <;> rfl

@[simp] theorem callStringComma_str_start (p : JSONParse) (cb : JSONTokenizer σ) (a : JSONString) (st : ScanState σ) :
    (FromString.callStringComma p cb a st).str_start = st.str_start := by
  unfold FromString.callStringComma; split <;> rfl

@[simp] theorem callStringComma_str_end (p : JSONParse) (cb : JSONTokenizer σ) (a : JSONString) (st : ScanState σ) :
    (FromString.callStringComma p cb a st).str_end = st.str_end := by
  unfold FromString.callStringComma; split <;> rfl

@[simp] theorem callStringComma_chain (p : JSONParse) (cb : JSONTokenizer σ) (a : JSONString) (st : ScanState σ) :
    (FromString.callStringComma p cb a st).chain = st.chain := by
  unfold FromString.callStringComma; split <;> rfl

@[simp] theorem callStringComma_head (p : JSONParse) (cb : JSONTokenizer σ) (a : JSONString) (st : ScanState σ) :
    (FromString.callStringComma p cb a st).head = st.head := by
  unfold FromString.callStringComma; split <;> rfl

@[simp] theorem callStringComma_expect_value (p : JSONParse) (cb : JSONTokenizer σ) (a : JSONString) (st : ScanState σ) :
    (FromString.callStringComma p cb a st).expect_value = st.expect_value := by
  unfold FromString.callStringComma; split <;> rfl

@[simp] theorem callStringComma_quoted_processing (p : JSONParse) (cb : JSONTokenizer σ) (a : JSONString) (st : ScanState σ) :
    (FromString.callStringComma p cb a st).quoted_processing = st.quoted_processing := by
  unfold FromString.callStringComma; split <;> rfl

@[simp] theorem callStringComma_escape (p : JSONParse) (cb : JSONTokenizer σ) (a : JSONString) (st : ScanState σ) :
    (FromString.callStringComma p cb a st).escape = st.escape := by
  unfold FromString.callStringComma; split <;> rfl

@[simp] theorem callStringComma_last_error (p : JSONParse) (cb : JSONTokenizer σ) (a : JSONString) (st : ScanState σ) :
    (FromString.callStringComma p cb a st).last_error_ = st.last_error_ := by
  unfold FromString.callStringComma; split <;> rfl

@[simp] theorem callStringComma_binary_size (p : JSONParse) (cb : JSONTokenizer σ) (a : JSONString) (st : ScanState σ) :
    (FromString.callStringComma p cb a st).binary_size_ = st.binary_size_ := by
  unfold FromString.callStringComma; split <;> rfl

@[simp] theorem bump_s (isMap : Bool) (d : Int) (st : ScanState σ) :
    (st.bump isMap d).s = st.s := by
  cases isMap <;> rfl

@[simp] theorem bump_user (isMap : Bool) (d : Int) (st : ScanState σ) :
    (st.bump isMap d).user = st.user := by
  cases isMap <;> rfl

@[simp] theorem bump_i (isMap : Bool) (d : Int) (st : ScanState σ) :
    (st.bump isMap d).i = st.i := by
  cases isMap <;> rfl

@[simp] theorem bump_is_literal (isMap : Bool) (d : Int) (st : ScanState σ) :
    (st.bump isMap d).is_literal = st.is_literal := by
  cases isMap <;> rfl

@[simp] theorem bump_str_start (isMap : Bool) (d : Int) (st : ScanState σ) :
    (st.bump isMap d).str_start = st.str_start := by
  cases isMap <;> rfl

@[simp] theorem bump_str_end (isMap : Bool) (d : Int) (st : ScanState σ) :
    (st.bump isMap d).str_end = st.str_end := by
  cases isMap <;> rfl

@[simp] theorem bump_chain (isMap : Bool) (d : Int) (st : ScanState σ) :
    (st.bump isMap d).chain = st.chain := by
  cases isMap <;> rfl

@[simp] theorem bump_head (isMap : Bool) (d : Int) (st : ScanState σ) :
    (st.bump isMap d).head = st.head := by
  cases isMap <;> rfl

@[simp] theorem bump_expect_value (isMap : Bool) (d : Int) (st : ScanState σ) :
    (st.bump isMap d).expect_value = st.expect_value := by
  cases isMap <;> rfl

@[simp] theorem bump_stop (isMap : Bool) (d : Int) (st : ScanState σ) :
    (st.bump isMap d).stop = st.stop := by
  cases isMap <;> rfl

@[simp] theorem bump_quoted_processing (isMap : Bool) (d : Int) (st : ScanState σ) :
    (st.bump isMap d).quoted_processing = st.quoted_processing := by
  cases isMap <;> rfl

@[simp] theorem bump_escape (isMap : Bool) (d : Int) (st : ScanState σ) :
    (st.bump isMap d).escape = st.escape := by
  cases isMap <;> rfl

@[simp] theorem bump_last_error (isMap : Bool) (d : Int) (st : ScanState σ) :
    (st.bump isMap d).last_error_ = st.last_error_ := by
  cases isMap <;> rfl

@[simp] theorem bump_binary_size (isMap : Bool) (d : Int) (st : ScanState σ) :
    (st.bump isMap d).binary_size_ = st.binary_size_ := by
  cases isMap <;> rfl

end Projections
section Budget

variable {σ : Type}

@[simp] theorem chainSize_nil (p : JSONParse) : chainSize p [] = 0 := rfl

@[simp] theorem chainSize_append (p : JSONParse) (a b : List JSONElement) :
    chainSize p (a ++ b) = chainSize p a + chainSize p b := by
  simp [chainSize]

@[simp] theorem chainSize_cons (p : JSONParse) (a : JSONElement) (b : List JSONElement) :
    chainSize p (a :: b) = JSONElement.sizeof p a + chainSize p b := by
  simp [chainSize]

@[simp] theorem sizeof_string (p : JSONParse) (a : JSONString) :
    JSONElement.sizeof p (JSONElement.STRING a) = p.sizeofString := rfl

@[simp] theorem sizeof_marker (p : JSONParse) (isMap o : Bool) :
    JSONElement.sizeof p (FromString.marker isMap o) = p.sizeofArray := by
  cases isMap <;> rfl

/-! ### `setSize` moves outwards through the statements of the loop body -/

theorem setError_setSize (e : ERR) (b : Nat) (st : ScanState σ) :
    (st.setSize b).setError e = (st.setError e).setSize b := rfl

theorem link_setSize (a : JSONElement) (b : Nat) (st : ScanState σ) :
    (st.setSize b).link a = (st.link a).setSize b := rfl

theorem clearSpan_setSize (b : Nat) (st : ScanState σ) :
    (st.setSize b).clearSpan = st.clearSpan.setSize b := rfl

theorem bump_setSize (isMap : Bool) (d : Int) (b : Nat) (st : ScanState σ) :
    (st.setSize b).bump isMap d = (st.bump isMap d).setSize b := by
  cases isMap <;> rfl

theorem valueTaken_setSize (b : Nat) (st : ScanState σ) :
    (st.setSize b).valueTaken = st.valueTaken.setSize b := rfl

theorem keyTaken_setSize (b : Nat) (st : ScanState σ) :
    (st.setSize b).keyTaken = st.keyTaken.setSize b := rfl

theorem undetermined_setSize (b : Nat) (st : ScanState σ) :
    (st.setSize b).undetermined = st.undetermined.setSize b := rfl

theorem called_setSize (r : Bool × σ × List Char) (b : Nat) (st : ScanState σ) :
    (st.setSize b).called r = (st.called r).setSize b := rfl

theorem setIndex_setSize (i : Nat) (b : Nat) (st : ScanState σ) :
    (st.setSize b).setIndex i = (st.setIndex i).setSize b := rfl

theorem next_setSize (b : Nat) (st : ScanState σ) :
    (st.setSize b).next = st.next.setSize b := rfl

theorem addSize_setSize (n b : Nat) (st : ScanState σ) :
    (st.setSize b).addSize n = st.setSize (wrapU16 (b + n)) := rfl

theorem setSize_setSize (a b : Nat) (st : ScanState σ) :
    (st.setSize b).setSize a = st.setSize a := rfl

theorem setSize_self (st : ScanState σ) : st.setSize st.binary_size_ = st := rfl

theorem tokenMarker_setSize (cb : JSONTokenizer σ) (isMap o : Bool) (b : Nat)
    (st : ScanState σ) :
    FromString.tokenMarker cb isMap o (st.setSize b) = FromString.tokenMarker cb isMap o st := by
  cases isMap <;> rfl

theorem callOpen_setSize (p q : JSONParse) (hq : q.callbacks_ = p.callbacks_)
    (cb : JSONTokenizer σ) (isMap : Bool) (b : Nat) (st : ScanState σ) :
    FromString.callOpen p cb isMap (st.setSize b)
      = (FromString.callOpen q cb isMap st).setSize b := by
  unfold FromString.callOpen
  rw [hq, tokenMarker_setSize]
  cases p.callbacks_ <;> rfl

theorem callClose_setSize (p q : JSONParse) (hq : q.callbacks_ = p.callbacks_)
    (cb : JSONTokenizer σ) (isMap : Bool) (b : Nat) (st : ScanState σ) :
    FromString.callClose p cb isMap (st.setSize b)
      = (FromString.callClose q cb isMap st).setSize b := by
  unfold FromString.callClose
  rw [hq, tokenMarker_setSize]
  have : (st.setSize b).stop = st.stop := rfl
  rw [this]
  cases p.callbacks_ <;> cases st.stop <;> rfl

theorem callString_setSize (p q : JSONParse) (hq : q.callbacks_ = p.callbacks_)
    (cb : JSONTokenizer σ) (a : JSONString) (b : Nat) (st : ScanState σ) :
    FromString.callString p cb a (st.setSize b)
      = (FromString.callString q cb a st).setSize b := by
  unfold FromString.callString
  rw [hq]
  cases p.callbacks_
  · rfl
  · dsimp only [ScanState.setSize, if_true]
    split_ifs <;> rfl

theorem callStringComma_setSize (p q : JSONParse) (hq : q.callbacks_ = p.callbacks_)
    (cb : JSONTokenizer σ) (a : JSONString) (b : Nat) (st : ScanState σ) :
    FromString.callStringComma p cb a (st.setSize b)
      = (FromString.callStringComma q cb a st).setSize b := by
  unfold FromString.callStringComma
  rw [hq]
  cases p.callbacks_ <;> rfl

end Budget

section Budget2
variable {σ : Type}

theorem setSize_addSize (n a : Nat) (st : ScanState σ) :
    (st.addSize n).setSize a = st.setSize a := rfl

theorem setSize_congr {a b : Nat} (st : ScanState σ) (h : a = b) :
    st.setSize a = st.setSize b := by rw [h]

theorem valueNode_setSize (p : JSONParse) (b : Nat) (st : ScanState σ) :
    FromString.valueNode p (st.setSize b) = FromString.valueNode p.free st := rfl

theorem keyNode_setSize (p : JSONParse) (b : Nat) (st : ScanState σ) :
    FromString.keyNode p (st.setSize b) = FromString.keyNode p.free st := rfl

theorem free_check_array (p : JSONParse) (h : Bool) (st : ScanState σ)
    (hb : st.binary_size_ = 0) :
    (!h || decide (p.free.limit_memory_ ≥ st.binary_size_ + p.free.sizeofArray)) = true := by
  simp [hb, JSONParse.free]

theorem free_check_string (p : JSONParse) (h : Bool) (st : ScanState σ)
    (hb : st.binary_size_ = 0) :
    (!h || decide (p.free.limit_memory_ ≥ st.binary_size_ + p.free.sizeofString)) = true := by
  simp [hb, JSONParse.free]

theorem caseOpen_setSize (p : JSONParse) (cb : JSONTokenizer σ) (h isMap : Bool) (b : Nat)
    (st : ScanState σ) (hb : st.binary_size_ = 0) (hfit : b + p.sizeofArray ≤ p.limit_memory_) :
    FromString.caseOpen p cb h isMap (st.setSize b)
      = (FromString.caseOpen p.free cb h isMap st).setSize (wrapU16 (b + p.sizeofArray)) := by
  unfold FromString.caseOpen
  have h1 : (!h || decide (p.limit_memory_ ≥ (st.setSize b).binary_size_ + p.sizeofArray)) = true := by
    have : (st.setSize b).binary_size_ = b := rfl
    rw [this]; simp [hfit]
  rw [if_pos h1, if_pos (free_check_array p h st hb)]
  simp only [link_setSize, callOpen_setSize p p.free rfl, bump_setSize, addSize_setSize,
    setSize_addSize]

theorem caseOpen_free_chain (p : JSONParse) (cb : JSONTokenizer σ) (h isMap : Bool)
    (st : ScanState σ) (hb : st.binary_size_ = 0) :
    (FromString.caseOpen p.free cb h isMap st).chain = st.chain ++ [FromString.marker isMap true] ∧
    (FromString.caseOpen p.free cb h isMap st).binary_size_ = 0 := by
  unfold FromString.caseOpen
  rw [if_pos (free_check_array p h st hb)]
  simp [ScanState.addSize, ScanState.link, hb, JSONParse.free, wrapU16]

end Budget2

section Budget3
variable {σ : Type}

theorem ite_setSize (c : Prop) [Decidable c] (b : Nat) (x y : ScanState σ) :
    (if c then x.setSize b else y.setSize b) = (if c then x else y).setSize b := by
  split <;> rfl

theorem closeValue_setSize (p : JSONParse) (cb : JSONTokenizer σ) (b : Nat)
    (st : ScanState σ) :
    FromString.closeValue p cb (st.setSize b)
      = (FromString.closeValue p.free cb st).setSize (wrapU16 (b + p.sizeofString)) := by
  unfold FromString.closeValue
  simp only [valueNode_setSize, setError_setSize, valueTaken_setSize, ite_setSize, link_setSize,
    callString_setSize p p.free rfl, clearSpan_setSize, addSize_setSize, setSize_addSize]

theorem closeValue_free_chain (p : JSONParse) (cb : JSONTokenizer σ)
    (st : ScanState σ) (hb : st.binary_size_ = 0) :
    (FromString.closeValue p.free cb st).chain
      = st.chain ++ [JSONElement.STRING (FromString.valueNode p.free st).2] ∧
    (FromString.closeValue p.free cb st).binary_size_ = 0 := by
  unfold FromString.closeValue
  constructor
  · simp only [ScanState.addSize, ScanState.clearSpan, callString_chain, ScanState.link]
    split_ifs <;> rfl
  · simp only [ScanState.addSize, ScanState.clearSpan, callString_binary_size, ScanState.link]
    split_ifs <;> simp [ScanState.setError, ScanState.valueTaken, hb, JSONParse.free, wrapU16]

theorem closeValue_str_start (p : JSONParse) (cb : JSONTokenizer σ) (st : ScanState σ) :
    (FromString.closeValue p cb st).str_start = -1 := rfl

theorem caseClose_setSize (p : JSONParse) (cb : JSONTokenizer σ) (h isMap : Bool) (b : Nat)
    (st : ScanState σ) (hb : st.binary_size_ = 0)
    (hfit : b + (if -1 < st.str_start then p.sizeofString + p.sizeofArray else p.sizeofArray)
      ≤ p.limit_memory_) (hlim : p.limit_memory_ ≤ 65535) :
    FromString.caseClose p cb h isMap (st.setSize b)
      = (FromString.caseClose p.free cb h isMap st).setSize
          (b + (if -1 < st.str_start then p.sizeofString + p.sizeofArray else p.sizeofArray)) := by
  have h0 : (!h || decide (p.free.limit_memory_ ≥ wrapU16 (st.binary_size_ +
      (if -1 < st.str_start then p.free.sizeofString + p.free.sizeofArray
       else p.free.sizeofArray)))) = true := by
    simp [hb, JSONParse.free, wrapU16]
  have e1 : (st.setSize b).binary_size_ = b := rfl
  have e2 : (st.setSize b).str_start = st.str_start := rfl
  have h1 : (!h || decide (p.limit_memory_ ≥ wrapU16 ((st.setSize b).binary_size_ +
      (if -1 < (st.setSize b).str_start then p.sizeofString + p.sizeofArray
       else p.sizeofArray)))) = true := by
    rw [e1, e2]
    have : wrapU16 ((b : Int) + ((if -1 < st.str_start then p.sizeofString + p.sizeofArray
        else p.sizeofArray : Nat) : Int))
        = b + (if -1 < st.str_start then p.sizeofString + p.sizeofArray else p.sizeofArray) :=
      wrapU16_add_of_le (by omega)
    rw [this]; simp [hfit]
  unfold FromString.caseClose
  simp only []
  rw [if_pos h0, if_pos h1, e2]
  by_cases hs : -1 < st.str_start
  · simp only [hs, if_true] at hfit ⊢
    have w1 : wrapU16 ((b : Int) + p.sizeofString) = b + p.sizeofString :=
      wrapU16_add_of_le (by omega)
    have w2 : wrapU16 (((b + p.sizeofString : Nat) : Int) + p.sizeofArray)
        = b + p.sizeofString + p.sizeofArray := wrapU16_add_of_le (by omega)
    simp only [closeValue_setSize, link_setSize, callClose_setSize p p.free rfl, bump_setSize,
      addSize_setSize, setSize_addSize, w1, w2, Nat.add_assoc]
  · simp only [hs, if_false] at hfit ⊢
    have w2 : wrapU16 ((b : Int) + p.sizeofArray) = b + p.sizeofArray :=
      wrapU16_add_of_le (by omega)
    simp only [link_setSize, callClose_setSize p p.free rfl, bump_setSize,
      addSize_setSize, setSize_addSize, w2]

theorem caseClose_free_chain (p : JSONParse) (cb : JSONTokenizer σ) (h isMap : Bool)
    (st : ScanState σ) (hb : st.binary_size_ = 0) :
    chainSize p (FromString.caseClose p.free cb h isMap st).chain
      = chainSize p st.chain +
        (if -1 < st.str_start then p.sizeofString + p.sizeofArray else p.sizeofArray) ∧
    (FromString.caseClose p.free cb h isMap st).binary_size_ = 0 := by
  have h0 : (!h || decide (p.free.limit_memory_ ≥ wrapU16 (st.binary_size_ +
      (if -1 < st.str_start then p.free.sizeofString + p.free.sizeofArray
       else p.free.sizeofArray)))) = true := by
    simp [hb, JSONParse.free, wrapU16]
  unfold FromString.caseClose
  simp only []
  rw [if_pos h0]
  obtain ⟨hv1, hv2⟩ := closeValue_free_chain p cb st hb
  by_cases hs : -1 < st.str_start
  · simp only [hs, if_true]
    generalize FromString.closeValue p.free cb st = st1 at hv1 hv2 ⊢
    simp [ScanState.addSize, ScanState.link, hv1, hv2, wrapU16, JSONParse.free, Nat.add_assoc]
  · simp only [hs, if_false]
    simp [ScanState.addSize, ScanState.link, hb, wrapU16, JSONParse.free]

end Budget3

section Budget4
variable {σ : Type}

theorem caseColon_setSize (p : JSONParse) (cb : JSONTokenizer σ) (h : Bool) (b : Nat)
    (st : ScanState σ) (hb : st.binary_size_ = 0) (hfit : b + p.sizeofString ≤ p.limit_memory_)
    (hc : (st.is_literal != 0 || st.str_start == -1 || st.str_end == -1) = false) :
    FromString.caseColon p cb h (st.setSize b)
      = (FromString.caseColon p.free cb h st).setSize (wrapU16 (b + p.sizeofString)) := by
  have e1 : (st.setSize b).binary_size_ = b := rfl
  have e2 : (st.setSize b).str_start = st.str_start := rfl
  have e3 : (st.setSize b).str_end = st.str_end := rfl
  have e4 : (st.setSize b).is_literal = st.is_literal := rfl
  have h1 : (!h || decide (p.limit_memory_ ≥ (st.setSize b).binary_size_ + p.sizeofString)) = true := by
    rw [e1]; simp [hfit]
  unfold FromString.caseColon
  rw [if_pos h1, if_pos (free_check_string p h st hb), e2, e3, e4, hc]
  simp only [Bool.false_eq_true, if_false, keyNode_setSize, link_setSize,
    callString_setSize p p.free rfl, keyTaken_setSize, clearSpan_setSize, addSize_setSize,
    setSize_addSize]

theorem caseColon_free_chain (p : JSONParse) (cb : JSONTokenizer σ) (h : Bool)
    (st : ScanState σ) (hb : st.binary_size_ = 0)
    (hc : (st.is_literal != 0 || st.str_start == -1 || st.str_end == -1) = false) :
    (FromString.caseColon p.free cb h st).chain
      = st.chain ++ [JSONElement.STRING (FromString.keyNode p.free st)] ∧
    (FromString.caseColon p.free cb h st).binary_size_ = 0 := by
  unfold FromString.caseColon
  rw [if_pos (free_check_string p h st hb), hc]
  simp [ScanState.addSize, ScanState.clearSpan, ScanState.keyTaken, ScanState.link, hb, wrapU16,
    JSONParse.free]

theorem caseColon_error (p : JSONParse) (cb : JSONTokenizer σ) (h : Bool)
    (st : ScanState σ)
    (hc : (st.is_literal != 0 || st.str_start == -1 || st.str_end == -1) = true) :
    (FromString.caseColon p cb h st).last_error_ ≠ ERR.ERR_NONE := by
  unfold FromString.caseColon
  rw [hc]
  split <;> simp [ScanState.setError]

theorem caseComma_setSize (p : JSONParse) (cb : JSONTokenizer σ) (h : Bool) (b : Nat)
    (st : ScanState σ) (hb : st.binary_size_ = 0) (hfit : b + p.sizeofString ≤ p.limit_memory_)
    (hs : -1 < st.str_start)
    (hc : (st.is_literal == 1 || st.str_start == -1 || st.str_end == -1) = false) :
    FromString.caseComma p cb h (st.setSize b)
      = (FromString.caseComma p.free cb h st).setSize (wrapU16 (b + p.sizeofString)) := by
  have e1 : (st.setSize b).binary_size_ = b := rfl
  have e2 : (st.setSize b).str_start = st.str_start := rfl
  have e3 : (st.setSize b).str_end = st.str_end := rfl
  have e4 : (st.setSize b).is_literal = st.is_literal := rfl
  have h1 : (!h || decide (p.limit_memory_ ≥ (st.setSize b).binary_size_ + p.sizeofString)) = true := by
    rw [e1]; simp [hfit]
  unfold FromString.caseComma
  rw [if_pos h1, if_pos (free_check_string p h st hb), e2, e3, e4, hc, if_pos hs, if_pos hs]
  simp only [Bool.false_eq_true, if_false, valueNode_setSize, setError_setSize, ite_setSize,
    undetermined_setSize, link_setSize,
    callStringComma_setSize p p.free rfl, clearSpan_setSize, addSize_setSize,
    setSize_addSize]

theorem caseComma_skip (p : JSONParse) (cb : JSONTokenizer σ) (h : Bool)
    (st : ScanState σ) (hs : ¬ -1 < st.str_start) :
    FromString.caseComma p cb h st = st := by
  unfold FromString.caseComma
  rw [if_neg hs]

theorem caseComma_free_chain (p : JSONParse) (cb : JSONTokenizer σ) (h : Bool)
    (st : ScanState σ) (hb : st.binary_size_ = 0) (hs : -1 < st.str_start)
    (hc : (st.is_literal == 1 || st.str_start == -1 || st.str_end == -1) = false) :
    (FromString.caseComma p.free cb h st).chain
      = st.chain ++ [JSONElement.STRING (FromString.valueNode p.free st).2] ∧
    (FromString.caseComma p.free cb h st).binary_size_ = 0 := by
  unfold FromString.caseComma
  rw [if_pos hs, if_pos (free_check_string p h st hb), hc]
  constructor
  · simp only [Bool.false_eq_true, if_false, ScanState.addSize, ScanState.clearSpan,
      callStringComma_chain, ScanState.link, ScanState.undetermined]
    split_ifs <;> rfl
  · simp only [Bool.false_eq_true, if_false, ScanState.addSize, ScanState.clearSpan,
      callStringComma_binary_size, ScanState.link, ScanState.undetermined]
    split_ifs <;> simp [ScanState.setError, hb, JSONParse.free, wrapU16]

theorem caseComma_error (p : JSONParse) (cb : JSONTokenizer σ) (h : Bool)
    (st : ScanState σ) (hs : -1 < st.str_start)
    (hc : (st.is_literal == 1 || st.str_start == -1 || st.str_end == -1) = true) :
    (FromString.caseComma p cb h st).last_error_ ≠ ERR.ERR_NONE := by
  unfold FromString.caseComma
  rw [if_pos hs, hc]
  split <;> simp [ScanState.setError]

end Budget4

section Budget5
variable {σ : Type}

theorem quoted_setSize (c : Char) (b : Nat) (st : ScanState σ) :
    FromString.quoted c (st.setSize b) = (FromString.quoted c st).setSize b := by
  simp only [FromString.quoted, ScanState.setSize, ScanState.setError]
  split_ifs <;> with_reducible rfl

theorem caseQuote_setSize (b : Nat) (st : ScanState σ) :
    FromString.caseQuote (st.setSize b) = (FromString.caseQuote st).setSize b := by
  simp only [FromString.caseQuote, ScanState.setSize, ScanState.setError]
  split_ifs <;> with_reducible rfl

theorem caseDefault_setSize (c : Char) (b : Nat) (st : ScanState σ) :
    FromString.caseDefault c (st.setSize b) = (FromString.caseDefault c st).setSize b := by
  simp only [FromString.caseDefault, ScanState.setSize, ScanState.setError]
  split_ifs <;> with_reducible rfl

theorem setHead_setSize (h : Bool) (b : Nat) (st : ScanState σ) :
    FromString.setHead h (st.setSize b) = (FromString.setHead h st).setSize b := by
  simp only [FromString.setHead, ScanState.setSize, ScanState.setError]
  split_ifs <;> rfl

theorem stopError_setSize (b : Nat) (st : ScanState σ) :
    FromString.stopError (st.setSize b) = (FromString.stopError st).setSize b := by
  simp only [FromString.stopError, ScanState.setSize, ScanState.setError]
  split_ifs <;> rfl

theorem negativeArray_setSize (b : Nat) (st : ScanState σ) :
    FromString.negativeArray (st.setSize b) = (FromString.negativeArray st).setSize b := by
  simp only [FromString.negativeArray, ScanState.setSize, ScanState.setError]
  split_ifs <;> rfl

theorem negativeMap_setSize (b : Nat) (st : ScanState σ) :
    FromString.negativeMap (st.setSize b) = (FromString.negativeMap st).setSize b := by
  simp only [FromString.negativeMap, ScanState.setSize, ScanState.setError]
  split_ifs <;> rfl

theorem after_setSize (p : JSONParse) (h : Bool) (b : Nat) (st : ScanState σ) :
    FromString.after p h (st.setSize b) = (FromString.after p.free h st).setSize b := by
  unfold FromString.after FromString.depthError
  rw [setHead_setSize, stopError_setSize, negativeArray_setSize, negativeMap_setSize]
  have : p.free.limit_node_level_ = p.limit_node_level_ := rfl
  rw [this]
  cases p.limit_node_level_ <;> rfl

theorem quoted_frame (c : Char) (st : ScanState σ) :
    (FromString.quoted c st).binary_size_ = st.binary_size_ ∧
    (FromString.quoted c st).chain = st.chain := by
  simp only [FromString.quoted, ScanState.setError]
  split_ifs <;> exact ⟨rfl, rfl⟩

theorem caseQuote_frame (st : ScanState σ) :
    (FromString.caseQuote st).binary_size_ = st.binary_size_ ∧
    (FromString.caseQuote st).chain = st.chain := by
  simp only [FromString.caseQuote, ScanState.setError]
  split_ifs <;> exact ⟨rfl, rfl⟩

theorem caseDefault_frame (c : Char) (st : ScanState σ) :
    (FromString.caseDefault c st).binary_size_ = st.binary_size_ ∧
    (FromString.caseDefault c st).chain = st.chain := by
  simp only [FromString.caseDefault, ScanState.setError]
  split_ifs <;> exact ⟨rfl, rfl⟩

theorem setHead_frame (h : Bool) (st : ScanState σ) :
    (FromString.setHead h st).binary_size_ = st.binary_size_ ∧
    (FromString.setHead h st).chain = st.chain ∧
    (FromString.setHead h st).last_error_ = st.last_error_ := by
  unfold FromString.setHead
  split <;> exact ⟨rfl, rfl, rfl⟩

theorem stopError_frame (st : ScanState σ) :
    (FromString.stopError st).binary_size_ = st.binary_size_ ∧
    (FromString.stopError st).chain = st.chain ∧
    ((FromString.stopError st).last_error_ = ERR.ERR_NONE → st.last_error_ = ERR.ERR_NONE) := by
  unfold FromString.stopError
  split
  · exact ⟨rfl, rfl, fun h => by simp [ScanState.setError] at h⟩
  · exact ⟨rfl, rfl, id⟩

theorem negativeArray_frame (st : ScanState σ) :
    (FromString.negativeArray st).binary_size_ = st.binary_size_ ∧
    (FromString.negativeArray st).chain = st.chain ∧
    ((FromString.negativeArray st).last_error_ = ERR.ERR_NONE → st.last_error_ = ERR.ERR_NONE) := by
  unfold FromString.negativeArray
  split
  · exact ⟨rfl, rfl, fun h => by simp [ScanState.setError] at h⟩
  · exact ⟨rfl, rfl, id⟩

theorem negativeMap_frame (st : ScanState σ) :
    (FromString.negativeMap st).binary_size_ = st.binary_size_ ∧
    (FromString.negativeMap st).chain = st.chain ∧
    ((FromString.negativeMap st).last_error_ = ERR.ERR_NONE → st.last_error_ = ERR.ERR_NONE) := by
  unfold FromString.negativeMap
  split
  · exact ⟨rfl, rfl, fun h => by simp [ScanState.setError] at h⟩
  · exact ⟨rfl, rfl, id⟩

theorem depthError_frame (p : JSONParse) (st : ScanState σ) :
    (FromString.depthError p st).binary_size_ = st.binary_size_ ∧
    (FromString.depthError p st).chain = st.chain ∧
    ((FromString.depthError p st).last_error_ = ERR.ERR_NONE → st.last_error_ = ERR.ERR_NONE) := by
  unfold FromString.depthError
  split
  · obtain ⟨a1, a2, a3⟩ := negativeArray_frame st
    obtain ⟨b1, b2, b3⟩ := negativeMap_frame (FromString.negativeArray st)
    exact ⟨b1.trans a1, b2.trans a2, fun h => a3 (b3 h)⟩
  · exact ⟨rfl, rfl, id⟩

theorem after_frame (p : JSONParse) (h : Bool) (st : ScanState σ) :
    (FromString.after p h st).binary_size_ = st.binary_size_ ∧
    (FromString.after p h st).chain = st.chain := by
  unfold FromString.after
  obtain ⟨a1, a2, _⟩ := setHead_frame h st
  obtain ⟨b1, b2, _⟩ := stopError_frame (FromString.setHead h st)
  obtain ⟨c1, c2, _⟩ := depthError_frame p (FromString.stopError (FromString.setHead h st))
  exact ⟨c1.trans (b1.trans a1), c2.trans (b2.trans a2)⟩

theorem after_error_none (p : JSONParse) (h : Bool) (st : ScanState σ)
    (he : (FromString.after p h st).last_error_ = ERR.ERR_NONE) :
    st.last_error_ = ERR.ERR_NONE := by
  unfold FromString.after at he
  obtain ⟨_, _, a3⟩ := setHead_frame h st
  obtain ⟨_, _, b3⟩ := stopError_frame (FromString.setHead h st)
  obtain ⟨_, _, c3⟩ := depthError_frame p (FromString.stopError (FromString.setHead h st))
  rw [← a3]; exact b3 (c3 he)

theorem charge_eq (p : JSONParse) (st : ScanState σ) (hb : st.binary_size_ = chainSize p st.chain) :
    st.charge p = st := by
  unfold ScanState.charge; rw [← hb]; rfl

/-- The switch under a budget that the created nodes do not exceed, against the switch
on the free platform. -/
theorem switch_charge (p : JSONParse) (cb : JSONTokenizer σ) (h : Bool) (c : Char)
    (st : ScanState σ) (hb : st.binary_size_ = 0)
    (hfit : chainSize p (FromString.switch p.free cb h c st).chain ≤ p.limit_memory_)
    (hlim : p.limit_memory_ ≤ 65535)
    (herr : (FromString.switch p.free cb h c st).last_error_ = ERR.ERR_NONE) :
    FromString.switch p cb h c (st.charge p) = (FromString.switch p.free cb h c st).charge p ∧
    (FromString.switch p.free cb h c st).binary_size_ = 0 := by
  unfold ScanState.charge
  by_cases c1 : (c == '[') = true
  on_goal 2 => by_cases c2 : (c == ']') = true
  on_goal 3 => by_cases c3 : (c == '{') = true
  on_goal 4 => by_cases c4 : (c == '}') = true
  on_goal 5 => by_cases c5 : (c == DQUOTE) = true
  on_goal 6 => by_cases c6 : (c == ':') = true
  on_goal 7 => by_cases c7 : (c == ',') = true
  all_goals simp only [FromString.switch, *, if_true, if_false, Bool.false_eq_true] at hfit herr ⊢
  · obtain ⟨h1, h2⟩ := caseOpen_free_chain p cb h false st hb
    rw [h1, chainSize_append] at hfit
    simp only [chainSize_cons, sizeof_marker, chainSize_nil, Nat.add_zero] at hfit
    rw [caseOpen_setSize p cb h false _ st hb hfit, h1, wrapU16_add_of_le (by omega)]
    exact ⟨by simp, h2⟩
  · obtain ⟨h1, h2⟩ := caseClose_free_chain p cb h false st hb
    rw [h1] at hfit
    rw [caseClose_setSize p cb h false _ st hb hfit hlim, h1]
    exact ⟨rfl, h2⟩
  · obtain ⟨h1, h2⟩ := caseOpen_free_chain p cb h true st hb
    rw [h1, chainSize_append] at hfit
    simp only [chainSize_cons, sizeof_marker, chainSize_nil, Nat.add_zero] at hfit
    rw [caseOpen_setSize p cb h true _ st hb hfit, h1, wrapU16_add_of_le (by omega)]
    exact ⟨by simp, h2⟩
  · obtain ⟨h1, h2⟩ := caseClose_free_chain p cb h true st hb
    rw [h1] at hfit
    rw [caseClose_setSize p cb h true _ st hb hfit hlim, h1]
    exact ⟨rfl, h2⟩
  · rw [caseQuote_setSize, (caseQuote_frame st).2, (caseQuote_frame st).1]
    exact ⟨rfl, hb⟩
  · cases hc : (st.is_literal != 0 || st.str_start == -1 || st.str_end == -1)
    · obtain ⟨h1, h2⟩ := caseColon_free_chain p cb h st hb hc
      rw [h1, chainSize_append] at hfit
      simp only [chainSize_cons, sizeof_string, chainSize_nil, Nat.add_zero] at hfit
      rw [caseColon_setSize p cb h _ st hb hfit hc, h1, wrapU16_add_of_le (by omega)]
      exact ⟨by simp, h2⟩
    · exact absurd herr (caseColon_error p.free cb h st hc)
  · by_cases hs : -1 < st.str_start
    · cases hc : (st.is_literal == 1 || st.str_start == -1 || st.str_end == -1)
      · obtain ⟨h1, h2⟩ := caseComma_free_chain p cb h st hb hs hc
        rw [h1, chainSize_append] at hfit
        simp only [chainSize_cons, sizeof_string, chainSize_nil, Nat.add_zero] at hfit
        rw [caseComma_setSize p cb h _ st hb hfit hs hc, h1, wrapU16_add_of_le (by omega)]
        exact ⟨by simp, h2⟩
      · exact absurd herr (caseComma_error p.free cb h st hs hc)
    · rw [caseComma_skip _ _ _ _ hs, caseComma_skip _ _ _ _ (by exact hs)]
      exact ⟨rfl, hb⟩
  · rw [caseDefault_setSize, (caseDefault_frame c st).2, (caseDefault_frame c st).1]
    exact ⟨rfl, hb⟩

end Budget5

section Budget6
variable {σ : Type}

/-! ### The created nodes only grow -/

theorem closeValue_chain (p : JSONParse) (cb : JSONTokenizer σ) (st : ScanState σ) :
    (FromString.closeValue p cb st).chain
      = st.chain ++ [JSONElement.STRING (FromString.valueNode p st).2] := by
  unfold FromString.closeValue
  simp only [ScanState.addSize, ScanState.clearSpan, callString_chain, ScanState.link]
  split_ifs <;> rfl

theorem caseOpen_grows (p : JSONParse) (cb : JSONTokenizer σ) (h isMap : Bool)
    (st : ScanState σ) : ∃ ext, (FromString.caseOpen p cb h isMap st).chain = st.chain ++ ext := by
  unfold FromString.caseOpen
  split
  · exact ⟨[FromString.marker isMap true], by simp [ScanState.addSize, ScanState.link]⟩
  · exact ⟨[], by simp [ScanState.setError]⟩

theorem caseClose_grows (p : JSONParse) (cb : JSONTokenizer σ) (h isMap : Bool)
    (st : ScanState σ) : ∃ ext, (FromString.caseClose p cb h isMap st).chain = st.chain ++ ext := by
  unfold FromString.caseClose
  by_cases hs : -1 < st.str_start
  · simp only [hs, if_true]
    split
    · exact ⟨[JSONElement.STRING (FromString.valueNode p st).2, FromString.marker isMap false],
        by simp [ScanState.addSize, ScanState.link, closeValue_chain]⟩
    · exact ⟨[], by simp [ScanState.setError]⟩
  · simp only [hs, if_false]
    split
    · exact ⟨[FromString.marker isMap false], by simp [ScanState.addSize, ScanState.link]⟩
    · exact ⟨[], by simp [ScanState.setError]⟩

theorem caseColon_grows (p : JSONParse) (cb : JSONTokenizer σ) (h : Bool)
    (st : ScanState σ) : ∃ ext, (FromString.caseColon p cb h st).chain = st.chain ++ ext := by
  unfold FromString.caseColon
  split
  · split
    · exact ⟨[], by simp [ScanState.setError]⟩
    · exact ⟨[JSONElement.STRING (FromString.keyNode p st)],
        by simp [ScanState.addSize, ScanState.clearSpan, ScanState.keyTaken, ScanState.link]⟩
  · exact ⟨[], by simp [ScanState.setError]⟩

theorem caseComma_grows (p : JSONParse) (cb : JSONTokenizer σ) (h : Bool)
    (st : ScanState σ) : ∃ ext, (FromString.caseComma p cb h st).chain = st.chain ++ ext := by
  unfold FromString.caseComma
  split
  · split
    · split
      · exact ⟨[], by simp [ScanState.setError]⟩
      · refine ⟨[JSONElement.STRING (FromString.valueNode p st).2], ?_⟩
        simp only [ScanState.addSize, ScanState.clearSpan, callStringComma_chain, ScanState.link,
          ScanState.undetermined]
        split_ifs <;> rfl
    · exact ⟨[], by simp [ScanState.setError]⟩
  · exact ⟨[], by simp⟩

theorem switch_grows (p : JSONParse) (cb : JSONTokenizer σ) (h : Bool) (c : Char)
    (st : ScanState σ) : ∃ ext, (FromString.switch p cb h c st).chain = st.chain ++ ext := by
  unfold FromString.switch
  split_ifs
  · exact caseOpen_grows p cb h false st
  · exact caseClose_grows p cb h false st
  · exact caseOpen_grows p cb h true st
  · exact caseClose_grows p cb h true st
  · exact ⟨[], by simp [(caseQuote_frame st).2]⟩
  · exact caseColon_grows p cb h st
  · exact caseComma_grows p cb h st
  · exact ⟨[], by simp [(caseDefault_frame c st).2]⟩

theorem dispatch_grows (p : JSONParse) (cb : JSONTokenizer σ) (h : Bool) (c : Char)
    (st : ScanState σ) : ∃ ext, (FromString.dispatch p cb h c st).chain = st.chain ++ ext := by
  unfold FromString.dispatch
  split
  · exact switch_grows p cb h c st
  · exact ⟨[], by simp⟩

theorem body_grows (p : JSONParse) (cb : JSONTokenizer σ) (h : Bool)
    (st : ScanState σ) : ∃ ext, (FromString.body p cb h st).chain = st.chain ++ ext := by
  unfold FromString.body
  obtain ⟨ext, he⟩ := dispatch_grows p cb h (charAt st.s st.i)
    (FromString.quoted (charAt st.s st.i) st)
  exact ⟨ext, by rw [(after_frame p h _).2, he, (quoted_frame _ st).2]⟩

theorem loop_zero (p : JSONParse) (cb : JSONTokenizer σ) (h : Bool) (l : Nat)
    (st : ScanState σ) : FromString.loop p cb h l 0 st = st := rfl

theorem loop_succ_pos (p : JSONParse) (cb : JSONTokenizer σ) (h : Bool) (l n : Nat)
    (st : ScanState σ) (hi : st.i < l) :
    FromString.loop p cb h l (n + 1) st
      = if FromString.leaves p (FromString.body p cb h st) then FromString.body p cb h st
        else FromString.loop p cb h l n (FromString.body p cb h st).next := by
  rw [FromString.loop, if_pos hi]

theorem loop_succ_neg (p : JSONParse) (cb : JSONTokenizer σ) (h : Bool) (l n : Nat)
    (st : ScanState σ) (hi : ¬ st.i < l) :
    FromString.loop p cb h l (n + 1) st = st := by
  rw [FromString.loop, if_neg hi]

theorem loop_grows (p : JSONParse) (cb : JSONTokenizer σ) (h : Bool) (l : Nat) :
    ∀ (fuel : Nat) (st : ScanState σ),
      ∃ ext, (FromString.loop p cb h l fuel st).chain = st.chain ++ ext := by
  intro fuel
  induction fuel with
  | zero => intro st; exact ⟨[], by simp [FromString.loop]⟩
  | succ n ih =>
    intro st
    by_cases hi : st.i < l
    · rw [loop_succ_pos p cb h l n st hi]
      split
      · exact body_grows p cb h st
      · obtain ⟨e1, h1⟩ := body_grows p cb h st
        obtain ⟨e2, h2⟩ := ih (FromString.body p cb h st).next
        refine ⟨e1 ++ e2, ?_⟩
        rw [h2]
        have : (FromString.body p cb h st).next.chain = (FromString.body p cb h st).chain := rfl
        rw [this, h1, List.append_assoc]
    · rw [loop_succ_neg p cb h l n st hi]
      exact ⟨[], by simp⟩

/-! ### The loop under a budget that the created nodes do not exceed -/

theorem dispatch_charge (p : JSONParse) (cb : JSONTokenizer σ) (h : Bool) (c : Char)
    (st : ScanState σ) (hb : st.binary_size_ = 0)
    (hfit : chainSize p (FromString.dispatch p.free cb h c st).chain ≤ p.limit_memory_)
    (hlim : p.limit_memory_ ≤ 65535)
    (herr : (FromString.dispatch p.free cb h c st).last_error_ = ERR.ERR_NONE) :
    FromString.dispatch p cb h c (st.charge p) = (FromString.dispatch p.free cb h c st).charge p ∧
    (FromString.dispatch p.free cb h c st).binary_size_ = 0 := by
  unfold FromString.dispatch at hfit herr ⊢
  have e1 : (st.charge p).last_error_ = st.last_error_ := rfl
  have e2 : (st.charge p).quoted_processing = st.quoted_processing := rfl
  rw [e1, e2]
  split_ifs at hfit herr ⊢
  · exact switch_charge p cb h c st hb hfit hlim herr
  · exact ⟨rfl, hb⟩

theorem body_charge (p : JSONParse) (cb : JSONTokenizer σ) (h : Bool)
    (st : ScanState σ) (hb : st.binary_size_ = 0)
    (hfit : chainSize p (FromString.body p.free cb h st).chain ≤ p.limit_memory_)
    (hlim : p.limit_memory_ ≤ 65535)
    (herr : (FromString.body p.free cb h st).last_error_ = ERR.ERR_NONE) :
    FromString.body p cb h (st.charge p) = (FromString.body p.free cb h st).charge p ∧
    (FromString.body p.free cb h st).binary_size_ = 0 := by
  unfold FromString.body at hfit herr ⊢
  have e1 : (st.charge p).s = st.s := rfl
  have e2 : (st.charge p).i = st.i := rfl
  rw [e1, e2]
  have hq := quoted_frame (charAt st.s st.i) st
  have hqb : (FromString.quoted (charAt st.s st.i) st).binary_size_ = 0 := by rw [hq.1, hb]
  rw [(after_frame _ _ _).2] at hfit
  have herr2 := after_error_none _ _ _ herr
  obtain ⟨d1, d2⟩ := dispatch_charge p cb h (charAt st.s st.i)
    (FromString.quoted (charAt st.s st.i) st) hqb hfit hlim herr2
  have e3 : FromString.quoted (charAt st.s st.i) (st.charge p)
      = (FromString.quoted (charAt st.s st.i) st).charge p := by
    unfold ScanState.charge
    rw [quoted_setSize, hq.2]
  rw [e3, d1]
  unfold ScanState.charge
  rw [after_setSize, (after_frame _ _ _).2, (after_frame _ _ _).1]
  exact ⟨rfl, d2⟩

theorem leaves_charge (p : JSONParse) (st : ScanState σ) :
    FromString.leaves p (st.charge p) = FromString.leaves p.free st := rfl

theorem loop_error_none (p : JSONParse) (cb : JSONTokenizer σ) (h : Bool) (l n : Nat)
    (st : ScanState σ) (hi : st.i < l)
    (he : (FromString.loop p cb h l (n + 1) st).last_error_ = ERR.ERR_NONE) :
    (FromString.body p cb h st).last_error_ = ERR.ERR_NONE := by
  rw [loop_succ_pos p cb h l n st hi] at he
  split at he
  · exact he
  · rename_i hl
    unfold FromString.leaves at hl
    simp at hl
    exact hl.2

theorem loop_charge (p : JSONParse) (cb : JSONTokenizer σ) (h : Bool) (l : Nat)
    (hlim : p.limit_memory_ ≤ 65535) :
    ∀ (fuel : Nat) (st : ScanState σ), st.binary_size_ = 0 →
      chainSize p (FromString.loop p.free cb h l fuel st).chain ≤ p.limit_memory_ →
      (FromString.loop p.free cb h l fuel st).last_error_ = ERR.ERR_NONE →
      FromString.loop p cb h l fuel (st.charge p)
        = (FromString.loop p.free cb h l fuel st).charge p := by
  intro fuel
  induction fuel with
  | zero => intro st _ _ _; rfl
  | succ n ih =>
    intro st hb hfit herr
    have e2 : (st.charge p).i = st.i := rfl
    by_cases hi : st.i < l
    · have hbe := loop_error_none p.free cb h l n st hi herr
      rw [loop_succ_pos p.free cb h l n st hi] at hfit herr ⊢
      rw [loop_succ_pos p cb h l n (st.charge p) (by rw [e2]; exact hi)]
      have hbf : chainSize p (FromString.body p.free cb h st).chain ≤ p.limit_memory_ := by
        split at hfit
        · exact hfit
        · obtain ⟨ext, he⟩ := loop_grows p.free cb h l n (FromString.body p.free cb h st).next
          rw [he] at hfit
          have : (FromString.body p.free cb h st).next.chain
              = (FromString.body p.free cb h st).chain := rfl
          rw [this, chainSize_append] at hfit
          omega
      obtain ⟨b1, b2⟩ := body_charge p cb h st hb hbf hlim hbe
      rw [b1, leaves_charge]
      by_cases hl : FromString.leaves p.free (FromString.body p.free cb h st) = true
      · rw [if_pos hl, if_pos hl]
      · rw [if_neg hl] at hfit herr ⊢
        rw [if_neg hl]
        have e3 : ((FromString.body p.free cb h st).charge p).next
            = (FromString.body p.free cb h st).next.charge p := rfl
        rw [e3]
        exact ih _ b2 hfit herr
    · rw [loop_succ_neg p.free cb h l n st hi]
      rw [loop_succ_neg p cb h l n (st.charge p) (by rw [e2]; exact hi)]

end Budget6

section Budget7
variable {σ : Type}

theorem unterminated_setSize (b : Nat) (st : ScanState σ) :
    FromString.unterminated (st.setSize b) = (FromString.unterminated st).setSize b := by
  simp only [FromString.unterminated, ScanState.setSize, ScanState.setError]
  split_ifs <;> rfl

theorem openArray_setSize (b : Nat) (st : ScanState σ) :
    FromString.openArray (st.setSize b) = (FromString.openArray st).setSize b := by
  simp only [FromString.openArray, ScanState.setSize, ScanState.setError]
  split_ifs <;> rfl

theorem openMap_setSize (b : Nat) (st : ScanState σ) :
    FromString.openMap (st.setSize b) = (FromString.openMap st).setSize b := by
  simp only [FromString.openMap, ScanState.setSize, ScanState.setError]
  split_ifs <;> rfl

theorem unbalanced_setSize (p : JSONParse) (b : Nat) (st : ScanState σ) :
    FromString.unbalanced p (st.setSize b) = (FromString.unbalanced p.free st).setSize b := by
  unfold FromString.unbalanced
  rw [openArray_setSize, openMap_setSize]
  have e1 : p.free.limit_node_level_ = p.limit_node_level_ := rfl
  have e2 : (st.setSize b).last_error_ = st.last_error_ := rfl
  rw [e1, e2]
  split <;> rfl

theorem finish_setSize (p : JSONParse) (b : Nat) (st : ScanState σ) :
    FromString.finish p (st.setSize b) = (FromString.finish p.free st).setSize b := by
  unfold FromString.finish
  rw [unterminated_setSize, unbalanced_setSize]

theorem unterminated_error_none (st : ScanState σ)
    (he : (FromString.unterminated st).last_error_ = ERR.ERR_NONE) :
    st.last_error_ = ERR.ERR_NONE := by
  unfold FromString.unterminated at he
  split at he
  · simp [ScanState.setError] at he
  · exact he

theorem unbalanced_error_none (p : JSONParse) (st : ScanState σ)
    (he : (FromString.unbalanced p st).last_error_ = ERR.ERR_NONE) :
    st.last_error_ = ERR.ERR_NONE := by
  unfold FromString.unbalanced at he
  split at he
  · rename_i hc
    simp at hc
    exact hc.1
  · exact he

theorem finish_error_none (p : JSONParse) (st : ScanState σ)
    (he : (FromString.finish p st).last_error_ = ERR.ERR_NONE) :
    st.last_error_ = ERR.ERR_NONE :=
  unterminated_error_none st (unbalanced_error_none p _ he)

/-- The scan under a budget that the created nodes do not exceed is the scan on the
free platform, with `binary_size_` the size of the created nodes. -/
theorem scan_budget (p : JSONParse) (cb : JSONTokenizer σ) (user : σ) (s : List Char)
    (h : Bool) (psi : Nat) (hlim : p.limit_memory_ ≤ 65535)
    (hfit : chainSize p (FromString.scan p.free cb user s h psi).chain ≤ p.limit_memory_)
    (herr : (FromString.scan p.free cb user s h psi).last_error_ = ERR.ERR_NONE) :
    FromString.scan p cb user s h psi = (FromString.scan p.free cb user s h psi).charge p := by
  unfold FromString.scan at hfit herr ⊢
  have e0 : FromString.init user s psi = (FromString.init user s psi).charge p := rfl
  rw [e0]
  exact loop_charge p cb h _ hlim _ _ rfl hfit herr

/-- The result of `FromString` under a budget that the created nodes do not exceed,
from its result on the free platform. -/
theorem FromString_budget (p : JSONParse) (cb : JSONTokenizer σ) (user : σ) (s : List Char)
    (h : Bool) (psi : Nat) (hlim : p.limit_memory_ ≤ 65535)
    (hfit : chainSize p (FromString.scan p.free cb user s h psi).chain ≤ p.limit_memory_)
    (herr : (FromString p.free cb user s h psi).parser.last_error_ = ERR.ERR_NONE) :
    (FromString p cb user s h psi).index = (FromString p.free cb user s h psi).index ∧
    (FromString p cb user s h psi).head = (FromString p.free cb user s h psi).head ∧
    (FromString p cb user s h psi).s = (FromString p.free cb user s h psi).s ∧
    (FromString p cb user s h psi).user = (FromString p.free cb user s h psi).user ∧
    (FromString p cb user s h psi).parser.last_error_ = ERR.ERR_NONE ∧
    (FromString p cb user s h psi).parser.binary_size_
      = chainSize p (FromString.scan p.free cb user s h psi).chain := by
  have herr2 : (FromString.scan p.free cb user s h psi).last_error_ = ERR.ERR_NONE :=
    finish_error_none p.free _ herr
  have hs := scan_budget p cb user s h psi hlim hfit herr2
  have hf : FromString.finish p (FromString.scan p cb user s h psi)
      = (FromString.finish p.free (FromString.scan p.free cb user s h psi)).setSize
          (chainSize p (FromString.scan p.free cb user s h psi).chain) := by
    rw [hs]; unfold ScanState.charge; rw [finish_setSize]
  unfold FromString
  simp only [hf]
  refine ⟨rfl, rfl, rfl, rfl, ?_, rfl⟩
  exact herr

end Budget7

section Passes
variable {σ : Type}

theorem passes_leaves (p : JSONParse) (cb : JSONTokenizer σ) (h : Bool) (l : Nat) :
    ∀ (fuel : Nat) (st0 st : ScanState σ), st ∈ FromString.passes p cb h l fuel st0 →
      FromString.leaves p (FromString.body p cb h st) = true →
      FromString.loop p cb h l fuel st0 = FromString.body p cb h st := by
  intro fuel
  induction fuel with
  | zero => intro st0 st hm; simp [FromString.passes] at hm
  | succ n ih =>
    intro st0 st hm hl
    unfold FromString.passes at hm
    by_cases hi : st0.i < l
    · rw [if_pos hi] at hm
      by_cases hl0 : FromString.leaves p (FromString.body p cb h st0) = true
      · rw [if_pos hl0] at hm
        have e : st = st0 := by simpa using hm
        subst e
        rw [loop_succ_pos p cb h l n st hi, if_pos hl0]
      · rw [if_neg hl0] at hm
        rcases List.mem_cons.1 hm with e | hm2
        · subst e; exact absurd hl hl0
        · rw [loop_succ_pos p cb h l n st0 hi, if_neg hl0]
          exact ih _ _ hm2 hl
    · rw [if_neg hi] at hm; simp at hm

theorem leaves_of_error (p : JSONParse) (st : ScanState σ)
    (he : st.last_error_ ≠ ERR.ERR_NONE) : FromString.leaves p st = true := by
  unfold FromString.leaves
  simp [he]

theorem passes_error_none (p : JSONParse) (cb : JSONTokenizer σ) (h : Bool) (l : Nat) :
    ∀ (fuel : Nat) (st0 st : ScanState σ), st0.last_error_ = ERR.ERR_NONE →
      st ∈ FromString.passes p cb h l fuel st0 → st.last_error_ = ERR.ERR_NONE := by
  intro fuel
  induction fuel with
  | zero => intro st0 st _ hm; simp [FromString.passes] at hm
  | succ n ih =>
    intro st0 st h0 hm
    unfold FromString.passes at hm
    by_cases hi : st0.i < l
    · rw [if_pos hi] at hm
      rcases List.mem_cons.1 hm with e | hm2
      · subst e; exact h0
      · by_cases hl0 : FromString.leaves p (FromString.body p cb h st0) = true
        · rw [if_pos hl0] at hm2; simp at hm2
        · rw [if_neg hl0] at hm2
          refine ih _ _ ?_ hm2
          by_contra hne
          exact hl0 (leaves_of_error p _ hne)
    · rw [if_neg hi] at hm; simp at hm

end Passes

section Unexpected
variable {σ : Type}

theorem finish_of_error (p : JSONParse) (st : ScanState σ)
    (he : st.last_error_ ≠ ERR.ERR_NONE) : FromString.finish p st = st := by
  have e1 : FromString.unterminated st = st := by
    unfold FromString.unterminated
    simp [he]
  unfold FromString.finish
  rw [e1]
  unfold FromString.unbalanced
  simp [he]

theorem quoted_off (c : Char) (st : ScanState σ) (hq : st.quoted_processing = false) :
    FromString.quoted c st = st := by
  unfold FromString.quoted
  simp [hq]

theorem after_i (p : JSONParse) (h : Bool) (st : ScanState σ) :
    (FromString.after p h st).i = st.i ∧ (FromString.after p h st).ac = st.ac ∧
    (FromString.after p h st).mc = st.mc := by
  simp only [FromString.after, FromString.depthError, FromString.negativeMap,
    FromString.negativeArray, FromString.stopError, FromString.setHead, ScanState.setError]
  split_ifs <;> exact ⟨rfl, rfl, rfl⟩

theorem depthError_keeps (p : JSONParse) (st : ScanState σ) (ha : 0 ≤ st.ac) (hm : 0 ≤ st.mc) :
    FromString.depthError p st = st := by
  simp only [FromString.depthError, FromString.negativeMap, FromString.negativeArray,
    ScanState.setError]
  have h1 : ¬ st.ac < 0 := by omega
  have h2 : ¬ st.mc < 0 := by omega
  simp [h1, h2]

theorem stopError_of_error (st : ScanState σ) (he : st.last_error_ ≠ ERR.ERR_NONE) :
    FromString.stopError st = st := by
  unfold FromString.stopError
  simp [he]

theorem setHead_fields (h : Bool) (st : ScanState σ) :
    (FromString.setHead h st).last_error_ = st.last_error_ ∧
    (FromString.setHead h st).ac = st.ac ∧ (FromString.setHead h st).mc = st.mc ∧
    (FromString.setHead h st).i = st.i := by
  unfold FromString.setHead
  split <;> exact ⟨rfl, rfl, rfl, rfl⟩

/-- A pass at depth 0 outside a quoted span on a byte that is no bracket, quote, colon
or comma sets `ERR_UNEXPECTED_DATA` and keeps `i`. -/
theorem body_unexpected (p : JSONParse) (cb : JSONTokenizer σ) (h : Bool) (st : ScanState σ)
    (he : st.last_error_ = ERR.ERR_NONE) (hq : st.quoted_processing = false)
    (hac : st.ac = 0) (hmc : st.mc = 0)
    (hc : charAt st.s st.i ∉ ['[', ']', '\x7b', '\x7d', DQUOTE, ':', ',']) :
    (FromString.body p cb h st).last_error_ = ERR.ERR_UNEXPECTED_DATA ∧
    (FromString.body p cb h st).i = st.i := by
  simp only [List.mem_cons, List.mem_singleton, List.not_mem_nil, or_false, not_or] at hc
  obtain ⟨c1, c2, c3, c4, c5, c6, c7⟩ := hc
  have hd : FromString.dispatch p cb h (charAt st.s st.i) (FromString.quoted (charAt st.s st.i) st)
      = st.setError ERR.ERR_UNEXPECTED_DATA := by
    rw [quoted_off _ _ hq]
    unfold FromString.dispatch
    rw [he, hq]
    simp only [beq_self_eq_true, Bool.not_false, Bool.and_self, if_true]
    unfold FromString.switch
    simp only [beq_iff_eq, c1, c2, c3, c4, c5, c6, c7, if_false]
    unfold FromString.caseDefault
    simp [hac, hmc]
  unfold FromString.body
  rw [hd]
  unfold FromString.after
  have e1 := setHead_fields h (st.setError ERR.ERR_UNEXPECTED_DATA)
  have e2 : FromString.stopError (FromString.setHead h (st.setError ERR.ERR_UNEXPECTED_DATA))
      = FromString.setHead h (st.setError ERR.ERR_UNEXPECTED_DATA) := by
    apply stopError_of_error
    rw [e1.1]
    simp [ScanState.setError]
  rw [e2, depthError_keeps]
  · exact ⟨e1.1, e1.2.2.2⟩
  · rw [e1.2.1]; show (0 : Int) ≤ st.ac; omega
  · rw [e1.2.2.1]; show (0 : Int) ≤ st.mc; omega

theorem scan_of_pass_leaves (p : JSONParse) (cb : JSONTokenizer σ) (user : σ) (s : List Char)
    (h : Bool) (psi : Nat) (st : ScanState σ)
    (hst : st ∈ FromString.scanPasses p cb user s h psi)
    (hl : FromString.leaves p (FromString.body p cb h st) = true) :
    FromString.scan p cb user s h psi = FromString.body p cb h st :=
  passes_leaves p cb h _ _ _ _ hst hl

theorem scanPasses_error_none (p : JSONParse) (cb : JSONTokenizer σ) (user : σ) (s : List Char)
    (h : Bool) (psi : Nat) (st : ScanState σ)
    (hst : st ∈ FromString.scanPasses p cb user s h psi) : st.last_error_ = ERR.ERR_NONE :=
  passes_error_none p cb h _ _ _ _ rfl hst

/-- A pass that sets an error ends the scan: `FromString` returns the index of that
pass with that error. -/
theorem FromString_of_pass_error (p : JSONParse) (cb : JSONTokenizer σ) (user : σ)
    (s : List Char) (h : Bool) (psi : Nat) (st : ScanState σ)
    (hst : st ∈ FromString.scanPasses p cb user s h psi)
    (he : (FromString.body p cb h st).last_error_ ≠ ERR.ERR_NONE) :
    (FromString p cb user s h psi).parser.last_error_ = (FromString.body p cb h st).last_error_ ∧
    (FromString p cb user s h psi).index = (FromString.body p cb h st).i := by
  have hs := scan_of_pass_leaves p cb user s h psi st hst (leaves_of_error p _ he)
  unfold FromString
  simp only []
  rw [hs, finish_of_error p _ he]
  exact ⟨rfl, rfl⟩

end Unexpected

section Balance
variable {σ : Type}

/-- With balance enforcement on, a pass after which a counter is negative has set the
error of that counter; the map counter wins. -/
theorem body_depth_error (p : JSONParse) (cb : JSONTokenizer σ) (h : Bool) (st : ScanState σ)
    (hl : p.limit_node_level_ = true) :
    ((FromString.body p cb h st).mc < 0 →
      (FromString.body p cb h st).last_error_ = ERR.ERR_UNEXPECTED_END_OF_MAP) ∧
    ((FromString.body p cb h st).ac < 0 → ¬ (FromString.body p cb h st).mc < 0 →
      (FromString.body p cb h st).last_error_ = ERR.ERR_UNEXPECTED_END_OF_ARRAY) := by
  unfold FromString.body
  generalize FromString.dispatch p cb h (charAt st.s st.i)
    (FromString.quoted (charAt st.s st.i) st) = x
  simp only [FromString.after, FromString.depthError, hl, if_true, FromString.negativeMap,
    FromString.negativeArray, FromString.stopError, FromString.setHead, ScanState.setError]
  split_ifs <;> simp_all

theorem unterminated_depth (st : ScanState σ) :
    (FromString.unterminated st).ac = st.ac ∧ (FromString.unterminated st).mc = st.mc ∧
    (FromString.unterminated st).i = st.i := by
  unfold FromString.unterminated
  split <;> exact ⟨rfl, rfl, rfl⟩

/-- The final counter test with balance enforcement on. -/
theorem unbalanced_on (p : JSONParse) (st : ScanState σ) (hl : p.limit_node_level_ = true)
    (he : st.last_error_ = ERR.ERR_NONE) :
    (st.mc ≠ 0 → (FromString.unbalanced p st).last_error_ = ERR.ERR_UNEXPECTED_END_OF_MAP) ∧
    (st.mc = 0 → st.ac ≠ 0 →
      (FromString.unbalanced p st).last_error_ = ERR.ERR_UNEXPECTED_END_OF_ARRAY) ∧
    (st.mc = 0 → st.ac = 0 → (FromString.unbalanced p st).last_error_ = ERR.ERR_NONE) := by
  simp only [FromString.unbalanced, hl, he, FromString.openMap, FromString.openArray,
    ScanState.setError]
  refine ⟨fun h1 => ?_, fun h1 h2 => ?_, fun h1 h2 => ?_⟩
  · by_cases h2 : st.ac = 0 <;> simp [h1, h2]
  · simp [h1, h2]
  · simp [h1, h2, he]

theorem finish_depth (p : JSONParse) (st : ScanState σ) :
    (FromString.finish p st).ac = st.ac ∧ (FromString.finish p st).mc = st.mc ∧
    (FromString.finish p st).i = st.i := by
  simp only [FromString.finish, FromString.unbalanced, FromString.openMap, FromString.openArray,
    FromString.unterminated, ScanState.setError]
  split_ifs <;> exact ⟨rfl, rfl, rfl⟩

end Balance

section Fields
variable {σ : Type}

@[simp] theorem setError_s (e : ERR) (st : ScanState σ) :
    (st.setError e).s = st.s := rfl
@[simp] theorem setError_user (e : ERR) (st : ScanState σ) :
    (st.setError e).user = st.user := rfl
@[simp] theorem setError_i (e : ERR) (st : ScanState σ) :
    (st.setError e).i = st.i := rfl
@[simp] theorem setError_is_literal (e : ERR) (st : ScanState σ) :
    (st.setError e).is_literal = st.is_literal := rfl
@[simp] theorem setError_ac (e : ERR) (st : ScanState σ) :
    (st.setError e).ac = st.ac := rfl
@[simp] theorem setError_mc (e : ERR) (st : ScanState σ) :
    (st.setError e).mc = st.mc := rfl
@[simp] theorem setError_str_start (e : ERR) (st : ScanState σ) :
    (st.setError e).str_start = st.str_start := rfl
@[simp] theorem setError_str_end (e : ERR) (st : ScanState σ) :
    (st.setError e).str_end = st.str_end := rfl
@[simp] theorem setError_chain (e : ERR) (st : ScanState σ) :
    (st.setError e).chain = st.chain := rfl
@[simp] theorem setError_head (e : ERR) (st : ScanState σ) :
    (st.setError e).head = st.head := rfl
@[simp] theorem setError_expect_value (e : ERR) (st : ScanState σ) :
    (st.setError e).expect_value = st.expect_value := rfl
@[simp] theorem setError_stop (e : ERR) (st : ScanState σ) :
    (st.setError e).stop = st.stop := rfl
@[simp] theorem setError_quoted_processing (e : ERR) (st : ScanState σ) :
    (st.setError e).quoted_processing = st.quoted_processing := rfl
@[simp] theorem setError_escape (e : ERR) (st : ScanState σ) :
    (st.setError e).escape = st.escape := rfl
@[simp] theorem setError_last_error (e : ERR) (st : ScanState σ) :
    (st.setError e).last_error_ = e := rfl
@[simp] theorem setError_binary_size (e : ERR) (st : ScanState σ) :
    (st.setError e).binary_size_ = st.binary_size_ := rfl

@[simp] theorem link_s (a : JSONElement) (st : ScanState σ) :
    (st.link a).s = st.s := rfl
@[simp] theorem link_user (a : JSONElement) (st : ScanState σ) :
    (st.link a).user = st.user := rfl
@[simp] theorem link_i (a : JSONElement) (st : ScanState σ) :
    (st.link a).i = st.i := rfl
@[simp] theorem link_is_literal (a : JSONElement) (st : ScanState σ) :
    (st.link a).is_literal = st.is_literal := rfl
@[simp] theorem link_ac (a : JSONElement) (st : ScanState σ) :
    (st.link a).ac = st.ac := rfl
@[simp] theorem link_mc (a : JSONElement) (st : ScanState σ) :
    (st.link a).mc = st.mc := rfl
@[simp] theorem link_str_start (a : JSONElement) (st : ScanState σ) :
    (st.link a).str_start = st.str_start := rfl
@[simp] theorem link_str_end (a : JSONElement) (st : ScanState σ) :
    (st.link a).str_end = st.str_end := rfl
@[simp] theorem link_chain (a : JSONElement) (st : ScanState σ) :
    (st.link a).chain = st.chain ++ [a] := rfl
@[simp] theorem link_head (a : JSONElement) (st : ScanState σ) :
    (st.link a).head = st.head := rfl
@[simp] theorem link_expect_value (a : JSONElement) (st : ScanState σ) :
    (st.link a).expect_value = st.expect_value := rfl
@[simp] theorem link_stop (a : JSONElement) (st : ScanState σ) :
    (st.link a).stop = st.stop := rfl
@[simp] theorem link_quoted_processing (a : JSONElement) (st : ScanState σ) :
    (st.link a).quoted_processing = st.quoted_processing := rfl
@[simp] theorem link_escape (a : JSONElement) (st : ScanState σ) :
    (st.link a).escape = st.escape := rfl
@[simp] theorem link_last_error (a : JSONElement) (st : ScanState σ) :
    (st.link a).last_error_ = st.last_error_ := rfl
@[simp] theorem link_binary_size (a : JSONElement) (st : ScanState σ) :
    (st.link a).binary_size_ = st.binary_size_ := rfl

@[simp] theorem addSize_s (n : Nat) (st : ScanState σ) :
    (st.addSize n).s = st.s := rfl
@[simp] theorem addSize_user (n : Nat) (st : ScanState σ) :
    (st.addSize n).user = st.user := rfl
@[simp] theorem addSize_i (n : Nat) (st : ScanState σ) :
    (st.addSize n).i = st.i := rfl
@[simp] theorem addSize_is_literal (n : Nat) (st : ScanState σ) :
    (st.addSize n).is_literal = st.is_literal := rfl
@[simp] theorem addSize_ac (n : Nat) (st : ScanState σ) :
    (st.addSize n).ac = st.ac := rfl
@[simp] theorem addSize_mc (n : Nat) (st : ScanState σ) :
    (st.addSize n).mc = st.mc := rfl
@[simp] theorem addSize_str_start (n : Nat) (st : ScanState σ) :
    (st.addSize n).str_start = st.str_start := rfl
@[simp] theorem addSize_str_end (n : Nat) (st : ScanState σ) :
    (st.addSize n).str_end = st.str_end := rfl
@[simp] theorem addSize_chain (n : Nat) (st : ScanState σ) :
    (st.addSize n).chain = st.chain := rfl
@[simp] theorem addSize_head (n : Nat) (st : ScanState σ) :
    (st.addSize n).head = st.head := rfl
@[simp] theorem addSize_expect_value (n : Nat) (st : ScanState σ) :
    (st.addSize n).expect_value = st.expect_value := rfl
@[simp] theorem addSize_stop (n : Nat) (st : ScanState σ) :
    (st.addSize n).stop = st.stop := rfl
@[simp] theorem addSize_quoted_processing (n : Nat) (st : ScanState σ) :
    (st.addSize n).quoted_processing = st.quoted_processing := rfl
@[simp] theorem addSize_escape (n : Nat) (st : ScanState σ) :
    (st.addSize n).escape = st.escape := rfl
@[simp] theorem addSize_last_error (n : Nat) (st : ScanState σ) :
    (st.addSize n).last_error_ = st.last_error_ := rfl
@[simp] theorem addSize_binary_size (n : Nat) (st : ScanState σ) :
    (st.addSize n).binary_size_ = wrapU16 (st.binary_size_ + n) := rfl

@[simp] theorem clearSpan_s (st : ScanState σ) :
    (st.clearSpan).s = st.s := rfl
@[simp] theorem clearSpan_user (st : ScanState σ) :
    (st.clearSpan).user = st.user := rfl
@[simp] theorem clearSpan_i (st : ScanState σ) :
    (st.clearSpan).i = st.i := rfl
@[simp] theorem clearSpan_is_literal (st : ScanState σ) :
    (st.clearSpan).is_literal = st.is_literal := rfl
@[simp] theorem clearSpan_ac (st : ScanState σ) :
    (st.clearSpan).ac = st.ac := rfl
@[simp] theorem clearSpan_mc (st : ScanState σ) :
    (st.clearSpan).mc = st.mc := rfl
@[simp] theorem clearSpan_str_start (st : ScanState σ) :
    (st.clearSpan).str_start = -1 := rfl
@[simp] theorem clearSpan_str_end (st : ScanState σ) :
    (st.clearSpan).str_end = -1 := rfl
@[simp] theorem clearSpan_chain (st : ScanState σ) :
    (st.clearSpan).chain = st.chain := rfl
@[simp] theorem clearSpan_head (st : ScanState σ) :
    (st.clearSpan).head = st.head := rfl
@[simp] theorem clearSpan_expect_value (st : ScanState σ) :
    (st.clearSpan).expect_value = st.expect_value := rfl
@[simp] theorem clearSpan_stop (st : ScanState σ) :
    (st.clearSpan).stop = st.stop := rfl
@[simp] theorem clearSpan_quoted_processing (st : ScanState σ) :
    (st.clearSpan).quoted_processing = st.quoted_processing := rfl
@[simp] theorem clearSpan_escape (st : ScanState σ) :
    (st.clearSpan).escape = st.escape := rfl
@[simp] theorem clearSpan_last_error (st : ScanState σ) :
    (st.clearSpan).last_error_ = st.last_error_ := rfl
@[simp] theorem clearSpan_binary_size (st : ScanState σ) :
    (st.clearSpan).binary_size_ = st.binary_size_ := rfl

@[simp] theorem valueTaken_s (st : ScanState σ) :
    (st.valueTaken).s = st.s := rfl
@[simp] theorem valueTaken_user (st : ScanState σ) :
    (st.valueTaken).user = st.user := rfl
@[simp] theorem valueTaken_i (st : ScanState σ) :
    (st.valueTaken).i = st.i := rfl
@[simp] theorem valueTaken_is_literal (st : ScanState σ) :
    (st.valueTaken).is_literal = 1 := rfl
@[simp] theorem valueTaken_ac (st : ScanState σ) :
    (st.valueTaken).ac = st.ac := rfl
@[simp] theorem valueTaken_mc (st : ScanState σ) :
    (st.valueTaken).mc = st.mc := rfl
@[simp] theorem valueTaken_str_start (st : ScanState σ) :
    (st.valueTaken).str_start = st.str_start := rfl
@[simp] theorem valueTaken_str_end (st : ScanState σ) :
    (st.valueTaken).str_end = st.str_end := rfl
@[simp] theorem valueTaken_chain (st : ScanState σ) :
    (st.valueTaken).chain = st.chain := rfl
@[simp] theorem valueTaken_head (st : ScanState σ) :
    (st.valueTaken).head = st.head := rfl
@[simp] theorem valueTaken_expect_value (st : ScanState σ) :
    (st.valueTaken).expect_value = false := rfl
@[simp] theorem valueTaken_stop (st : ScanState σ) :
    (st.valueTaken).stop = st.stop := rfl
@[simp] theorem valueTaken_quoted_processing (st : ScanState σ) :
    (st.valueTaken).quoted_processing = st.quoted_processing := rfl
@[simp] theorem valueTaken_escape (st : ScanState σ) :
    (st.valueTaken).escape = st.escape := rfl
@[simp] theorem valueTaken_last_error (st : ScanState σ) :
    (st.valueTaken).last_error_ = st.last_error_ := rfl
@[simp] theorem valueTaken_binary_size (st : ScanState σ) :
    (st.valueTaken).binary_size_ = st.binary_size_ := rfl

@[simp] theorem keyTaken_s (st : ScanState σ) :
    (st.keyTaken).s = st.s := rfl
@[simp] theorem keyTaken_user (st : ScanState σ) :
    (st.keyTaken).user = st.user := rfl
@[simp] theorem keyTaken_i (st : ScanState σ) :
    (st.keyTaken).i = st.i := rfl
@[simp] theorem keyTaken_is_literal (st : ScanState σ) :
    (st.keyTaken).is_literal = 1 := rfl
@[simp] theorem keyTaken_ac (st : ScanState σ) :
    (st.keyTaken).ac = st.ac := rfl
@[simp] theorem keyTaken_mc (st : ScanState σ) :
    (st.keyTaken).mc = st.mc := rfl
@[simp] theorem keyTaken_str_start (st : ScanState σ) :
    (st.keyTaken).str_start = st.str_start := rfl
@[simp] theorem keyTaken_str_end (st : ScanState σ) :
    (st.keyTaken).str_end = st.str_end := rfl
@[simp] theorem keyTaken_chain (st : ScanState σ) :
    (st.keyTaken).chain = st.chain := rfl
@[simp] theorem keyTaken_head (st : ScanState σ) :
    (st.keyTaken).head = st.head := rfl
@[simp] theorem keyTaken_expect_value (st : ScanState σ) :
    (st.keyTaken).expect_value = true := rfl
@[simp] theorem keyTaken_stop (st : ScanState σ) :
    (st.keyTaken).stop = st.stop := rfl
@[simp] theorem keyTaken_quoted_processing (st : ScanState σ) :
    (st.keyTaken).quoted_processing = st.quoted_processing := rfl
@[simp] theorem keyTaken_escape (st : ScanState σ) :
    (st.keyTaken).escape = st.escape := rfl
@[simp] theorem keyTaken_last_error (st : ScanState σ) :
    (st.keyTaken).last_error_ = st.last_error_ := rfl
@[simp] theorem keyTaken_binary_size (st : ScanState σ) :
    (st.keyTaken).binary_size_ = st.binary_size_ := rfl

@[simp] theorem undetermined_s (st : ScanState σ) :
    (st.undetermined).s = st.s := rfl
@[simp] theorem undetermined_user (st : ScanState σ) :
    (st.undetermined).user = st.user := rfl
@[simp] theorem undetermined_i (st : ScanState σ) :
    (st.undetermined).i = st.i := rfl
@[simp] theorem undetermined_is_literal (st : ScanState σ) :
    (st.undetermined).is_literal = 1 := rfl
@[simp] theorem undetermined_ac (st : ScanState σ) :
    (st.undetermined).ac = st.ac := rfl
@[simp] theorem undetermined_mc (st : ScanState σ) :
    (st.undetermined).mc = st.mc := rfl
@[simp] theorem undetermined_str_start (st : ScanState σ) :
    (st.undetermined).str_start = st.str_start := rfl
@[simp] theorem undetermined_str_end (st : ScanState σ) :
    (st.undetermined).str_end = st.str_end := rfl
@[simp] theorem undetermined_chain (st : ScanState σ) :
    (st.undetermined).chain = st.chain := rfl
@[simp] theorem undetermined_head (st : ScanState σ) :
    (st.undetermined).head = st.head := rfl
@[simp] theorem undetermined_expect_value (st : ScanState σ) :
    (st.undetermined).expect_value = st.expect_value := rfl
@[simp] theorem undetermined_stop (st : ScanState σ) :
    (st.undetermined).stop = st.stop := rfl
@[simp] theorem undetermined_quoted_processing (st : ScanState σ) :
    (st.undetermined).quoted_processing = st.quoted_processing := rfl
@[simp] theorem undetermined_escape (st : ScanState σ) :
    (st.undetermined).escape = st.escape := rfl
@[simp] theorem undetermined_last_error (st : ScanState σ) :
    (st.undetermined).last_error_ = st.last_error_ := rfl
@[simp] theorem undetermined_binary_size (st : ScanState σ) :
    (st.undetermined).binary_size_ = st.binary_size_ := rfl

@[simp] theorem called_s (r : Bool × σ × List Char) (st : ScanState σ) :
    (st.called r).s = r.2.2 := rfl
@[simp] theorem called_user (r : Bool × σ × List Char) (st : ScanState σ) :
    (st.called r).user = r.2.1 := rfl
@[simp] theorem called_i (r : Bool × σ × List Char) (st : ScanState σ) :
    (st.called r).i = st.i := rfl
@[simp] theorem called_is_literal (r : Bool × σ × List Char) (st : ScanState σ) :
    (st.called r).is_literal = st.is_literal := rfl
@[simp] theorem called_ac (r : Bool × σ × List Char) (st : ScanState σ) :
    (st.called r).ac = st.ac := rfl
@[simp] theorem called_mc (r : Bool × σ × List Char) (st : ScanState σ) :
    (st.called r).mc = st.mc := rfl
@[simp] theorem called_str_start (r : Bool × σ × List Char) (st : ScanState σ) :
    (st.called r).str_start = st.str_start := rfl
@[simp] theorem called_str_end (r : Bool × σ × List Char) (st : ScanState σ) :
    (st.called r).str_end = st.str_end := rfl
@[simp] theorem called_chain (r : Bool × σ × List Char) (st : ScanState σ) :
    (st.called r).chain = st.chain := rfl
@[simp] theorem called_head (r : Bool × σ × List Char) (st : ScanState σ) :
    (st.called r).head = st.head := rfl
@[simp] theorem called_expect_value (r : Bool × σ × List Char) (st : ScanState σ) :
    (st.called r).expect_value = st.expect_value := rfl
@[simp] theorem called_stop (r : Bool × σ × List Char) (st : ScanState σ) :
    (st.called r).stop = r.1 := rfl
@[simp] theorem called_quoted_processing (r : Bool × σ × List Char) (st : ScanState σ) :
    (st.called r).quoted_processing = st.quoted_processing := rfl
@[simp] theorem called_escape (r : Bool × σ × List Char) (st : ScanState σ) :
    (st.called r).escape = st.escape := rfl
@[simp] theorem called_last_error (r : Bool × σ × List Char) (st : ScanState σ) :
    (st.called r).last_error_ = st.last_error_ := rfl
@[simp] theorem called_binary_size (r : Bool × σ × List Char) (st : ScanState σ) :
    (st.called r).binary_size_ = st.binary_size_ := rfl

@[simp] theorem setIndex_s (k : Nat) (st : ScanState σ) :
    (st.setIndex k).s = st.s := rfl
@[simp] theorem setIndex_user (k : Nat) (st : ScanState σ) :
    (st.setIndex k).user = st.user := rfl
@[simp] theorem setIndex_i (k : Nat) (st : ScanState σ) :
    (st.setIndex k).i = k := rfl
@[simp] theorem setIndex_is_literal (k : Nat) (st : ScanState σ) :
    (st.setIndex k).is_literal = st.is_literal := rfl
@[simp] theorem setIndex_ac (k : Nat) (st : ScanState σ) :
    (st.setIndex k).ac = st.ac := rfl
@[simp] theorem setIndex_mc (k : Nat) (st : ScanState σ) :
    (st.setIndex k).mc = st.mc := rfl
@[simp] theorem setIndex_str_start (k : Nat) (st : ScanState σ) :
    (st.setIndex k).str_start = st.str_start := rfl
@[simp] theorem setIndex_str_end (k : Nat) (st : ScanState σ) :
    (st.setIndex k).str_end = st.str_end := rfl
@[simp] theorem setIndex_chain (k : Nat) (st : ScanState σ) :
    (st.setIndex k).chain = st.chain := rfl
@[simp] theorem setIndex_head (k : Nat) (st : ScanState σ) :
    (st.setIndex k).head = st.head := rfl
@[simp] theorem setIndex_expect_value (k : Nat) (st : ScanState σ) :
    (st.setIndex k).expect_value = st.expect_value := rfl
@[simp] theorem setIndex_stop (k : Nat) (st : ScanState σ) :
    (st.setIndex k).stop = st.stop := rfl
@[simp] theorem setIndex_quoted_processing (k : Nat) (st : ScanState σ) :
    (st.setIndex k).quoted_processing = st.quoted_processing := rfl
@[simp] theorem setIndex_escape (k : Nat) (st : ScanState σ) :
    (st.setIndex k).escape = st.escape := rfl
@[simp] theorem setIndex_last_error (k : Nat) (st : ScanState σ) :
    (st.setIndex k).last_error_ = st.last_error_ := rfl
@[simp] theorem setIndex_binary_size (k : Nat) (st : ScanState σ) :
    (st.setIndex k).binary_size_ = st.binary_size_ := rfl

@[simp] theorem next_s (st : ScanState σ) :
    (st.next).s = st.s := rfl
@[simp] theorem next_user (st : ScanState σ) :
    (st.next).user = st.user := rfl
@[simp] theorem next_i (st : ScanState σ) :
    (st.next).i = wrapU16 (st.i + 1) := rfl
@[simp] theorem next_is_literal (st : ScanState σ) :
    (st.next).is_literal = st.is_literal := rfl
@[simp] theorem next_ac (st : ScanState σ) :
    (st.next).ac = st.ac := rfl
@[simp] theorem next_mc (st : ScanState σ) :
    (st.next).mc = st.mc := rfl
@[simp] theorem next_str_start (st : ScanState σ) :
    (st.next).str_start = st.str_start := rfl
@[simp] theorem next_chain (st : ScanState σ) :
    (st.next).chain = st.chain := rfl
@[simp] theorem next_head (st : ScanState σ) :
    (st.next).head = st.head := rfl
@[simp] theorem next_expect_value (st : ScanState σ) :
    (st.next).expect_value = st.expect_value := rfl
@[simp] theorem next_stop (st : ScanState σ) :
    (st.next).stop = st.stop := rfl
@[simp] theorem next_escape (st : ScanState σ) :
    (st.next).escape = st.escape := rfl
@[simp] theorem next_last_error (st : ScanState σ) :
    (st.next).last_error_ = st.last_error_ := rfl
@[simp] theorem next_binary_size (st : ScanState σ) :
    (st.next).binary_size_ = st.binary_size_ := rfl

@[simp] theorem setSize_s (b : Nat) (st : ScanState σ) :
    (st.setSize b).s = st.s := rfl
@[simp] theorem setSize_user (b : Nat) (st : ScanState σ) :
    (st.setSize b).user = st.user := rfl
@[simp] theorem setSize_i (b : Nat) (st : ScanState σ) :
    (st.setSize b).i = st.i := rfl
@[simp] theorem setSize_is_literal (b : Nat) (st : ScanState σ) :
    (st.setSize b).is_literal = st.is_literal := rfl
@[simp] theorem setSize_ac (b : Nat) (st : ScanState σ) :
    (st.setSize b).ac = st.ac := rfl
@[simp] theorem setSize_mc (b : Nat) (st : ScanState σ) :
    (st.setSize b).mc = st.mc := rfl
@[simp] theorem setSize_str_start (b : Nat) (st : ScanState σ) :
    (st.setSize b).str_start = st.str_start := rfl
@[simp] theorem setSize_str_end (b : Nat) (st : ScanState σ) :
    (st.setSize b).str_end = st.str_end := rfl
@[simp] theorem setSize_chain (b : Nat) (st : ScanState σ) :
    (st.setSize b).chain = st.chain := rfl
@[simp] theorem setSize_head (b : Nat) (st : ScanState σ) :
    (st.setSize b).head = st.head := rfl
@[simp] theorem setSize_expect_value (b : Nat) (st : ScanState σ) :
    (st.setSize b).expect_value = st.expect_value := rfl
@[simp] theorem setSize_stop (b : Nat) (st : ScanState σ) :
    (st.setSize b).stop = st.stop := rfl
@[simp] theorem setSize_quoted_processing (b : Nat) (st : ScanState σ) :
    (st.setSize b).quoted_processing = st.quoted_processing := rfl
@[simp] theorem setSize_escape (b : Nat) (st : ScanState σ) :
    (st.setSize b).escape = st.escape := rfl
@[simp] theorem setSize_last_error (b : Nat) (st : ScanState σ) :
    (st.setSize b).last_error_ = st.last_error_ := rfl
@[simp] theorem setSize_binary_size (b : Nat) (st : ScanState σ) :
    (st.setSize b).binary_size_ = b := rfl

end Fields

section Span
variable {σ : Type}

theorem wrapI16_ne_neg_one {x : Int} (h0 : 0 ≤ x) (h1 : x ≤ 65534) : wrapI16 x ≠ -1 := by
  unfold wrapI16; omega

theorem caseOpen_span (p : JSONParse) (cb : JSONTokenizer σ) (h isMap : Bool)
    (st : ScanState σ) :
    (FromString.caseOpen p cb h isMap st).str_start = st.str_start ∧
    (FromString.caseOpen p cb h isMap st).str_end = st.str_end ∧
    (FromString.caseOpen p cb h isMap st).quoted_processing = st.quoted_processing := by
  unfold FromString.caseOpen
  split
  · simp
  · exact ⟨rfl, rfl, rfl⟩

theorem closeValue_span (p : JSONParse) (cb : JSONTokenizer σ) (st : ScanState σ) :
    (FromString.closeValue p cb st).str_start = -1 ∧
    (FromString.closeValue p cb st).str_end = -1 ∧
    (FromString.closeValue p cb st).quoted_processing = st.quoted_processing := by
  unfold FromString.closeValue
  refine ⟨rfl, rfl, ?_⟩
  simp only [addSize_quoted_processing, clearSpan_quoted_processing,
    callString_quoted_processing, link_quoted_processing]
  split <;> rfl

theorem caseClose_span (p : JSONParse) (cb : JSONTokenizer σ) (h isMap : Bool)
    (st : ScanState σ) (hi : ScanState.spanInv st) (hq0 : st.quoted_processing = false) :
    ScanState.spanInv (FromString.caseClose p cb h isMap st) := by
  unfold FromString.caseClose
  by_cases hs : -1 < st.str_start
  · simp only [if_pos hs]
    split
    · obtain ⟨a1, a2, a3⟩ := closeValue_span p cb st
      simp only [ScanState.spanInv, addSize_str_start, addSize_str_end,
        addSize_quoted_processing, bump_str_start, bump_str_end,
        bump_quoted_processing, callClose_str_start, callClose_str_end,
        callClose_quoted_processing, link_str_start, link_str_end, link_quoted_processing,
        a1, a2, a3]
      refine ⟨fun _ => trivial, fun hq => ?_⟩
      rw [hq0] at hq
      exact (Bool.false_ne_true hq).elim
    · exact hi
  · simp only [if_neg hs]
    split
    · simp only [ScanState.spanInv, addSize_str_start, addSize_str_end,
        addSize_quoted_processing, bump_str_start, bump_str_end,
        bump_quoted_processing, callClose_str_start, callClose_str_end,
        callClose_quoted_processing, link_str_start, link_str_end, link_quoted_processing]
      exact hi
    · exact hi

theorem caseQuote_span (st : ScanState σ) (hi : ScanState.spanInv st)
    (hb : st.i ≤ 65533) : ScanState.spanInv (FromString.caseQuote st) := by
  unfold FromString.caseQuote
  split
  · split <;> exact hi
  · split
    · rename_i h1 h2
      have h3 : st.str_start = -1 := by simpa using h2
      refine ⟨fun hs => hi.1 h3, fun _ => ⟨?_, hi.1 h3⟩⟩
      exact wrapI16_ne_neg_one (by omega) (by omega)
    · exact hi

theorem caseColon_span (p : JSONParse) (cb : JSONTokenizer σ) (h : Bool)
    (st : ScanState σ) (hi : ScanState.spanInv st) (hq : st.quoted_processing = false) :
    ScanState.spanInv (FromString.caseColon p cb h st) := by
  unfold FromString.caseColon
  split
  · split
    · exact hi
    · simp [ScanState.spanInv, hq]
  · exact hi

theorem caseComma_span (p : JSONParse) (cb : JSONTokenizer σ) (h : Bool)
    (st : ScanState σ) (hi : ScanState.spanInv st) (hq : st.quoted_processing = false) :
    ScanState.spanInv (FromString.caseComma p cb h st) := by
  unfold FromString.caseComma
  split
  · split
    · split
      · exact hi
      · simp only [ScanState.spanInv, addSize_str_start, addSize_str_end,
          addSize_quoted_processing, clearSpan_str_start, clearSpan_str_end,
          clearSpan_quoted_processing, callStringComma_quoted_processing,
          link_quoted_processing, undetermined_quoted_processing]
        refine ⟨fun _ => trivial, fun hf => ?_⟩
        exfalso
        revert hf
        split <;> simp [hq]
    · exact hi
  · exact hi

theorem caseDefault_span (c : Char) (st : ScanState σ) (hi : ScanState.spanInv st)
    (hq : st.quoted_processing = false) (hb : st.i ≤ 65533) :
    ScanState.spanInv (FromString.caseDefault c st) := by
  unfold FromString.caseDefault
  split
  · exact hi
  · split
    · split
      · split
        · exact hi
        · split
          · refine ⟨fun hs => ?_, fun hf => ?_⟩
            · exact absurd hs (wrapI16_ne_neg_one (by omega) (by omega))
            · exact absurd (hq ▸ hf) (by decide)
          · exact hi
      · rename_i h1 h2 h3
        have h4 : st.str_start ≠ -1 := by simpa using h3
        split
        · exact hi
        · split
          · refine ⟨fun hs => absurd hs h4, fun hf => ?_⟩
            exact absurd (hq ▸ hf) (by decide)
          · exact hi
    · exact hi

theorem quoted_span (c : Char) (st : ScanState σ) (hi : ScanState.spanInv st) :
    ScanState.spanInv (FromString.quoted c st) := by
  unfold FromString.quoted
  split
  · rename_i hq
    split
    · split
      · exact hi
      · split
        · split
          · split <;> exact hi
          · split
            · exact ⟨fun hs => absurd hs (hi.2 hq).1, fun hf => (Bool.false_ne_true hf).elim⟩
            · exact hi
        · exact hi
    · exact hi
  · exact hi

end Span

section Span2
variable {σ : Type}

theorem switch_span (p : JSONParse) (cb : JSONTokenizer σ) (h : Bool) (c : Char)
    (st : ScanState σ) (hi : ScanState.spanInv st) (hq : st.quoted_processing = false)
    (hb : st.i ≤ 65533) : ScanState.spanInv (FromString.switch p cb h c st) := by
  unfold FromString.switch
  split_ifs
  · obtain ⟨a1, a2, a3⟩ := caseOpen_span p cb h false st
    unfold ScanState.spanInv
    rw [a1, a2, a3]; exact hi
  · exact caseClose_span p cb h false st hi hq
  · obtain ⟨a1, a2, a3⟩ := caseOpen_span p cb h true st
    unfold ScanState.spanInv
    rw [a1, a2, a3]; exact hi
  · exact caseClose_span p cb h true st hi hq
  · exact caseQuote_span st hi hb
  · exact caseColon_span p cb h st hi hq
  · exact caseComma_span p cb h st hi hq
  · exact caseDefault_span c st hi hq hb

theorem quoted_i (c : Char) (st : ScanState σ) : (FromString.quoted c st).i = st.i := by
  simp only [FromString.quoted, ScanState.setError]
  split_ifs <;> rfl

theorem after_span (p : JSONParse) (h : Bool) (st : ScanState σ) (hi : ScanState.spanInv st) :
    ScanState.spanInv (FromString.after p h st) := by
  simp only [FromString.after, FromString.depthError, FromString.negativeMap,
    FromString.negativeArray, FromString.stopError, FromString.setHead, ScanState.setError]
  split_ifs <;> exact hi

theorem body_span (p : JSONParse) (cb : JSONTokenizer σ) (h : Bool) (st : ScanState σ)
    (hi : ScanState.spanInv st) (hb : st.i ≤ 65533) :
    ScanState.spanInv (FromString.body p cb h st) := by
  unfold FromString.body
  apply after_span
  unfold FromString.dispatch
  split
  · rename_i hc
    simp only [Bool.and_eq_true, Bool.not_eq_true', beq_iff_eq] at hc
    exact switch_span p cb h _ _ (quoted_span _ st hi) hc.2 (by rw [quoted_i]; exact hb)
  · exact quoted_span _ st hi

theorem loop_span (p : JSONParse) (cb : JSONTokenizer σ) (h : Bool) (l : Nat)
    (hl : l ≤ 65534) :
    ∀ (fuel : Nat) (st : ScanState σ), ScanState.spanInv st →
      ScanState.spanInv (FromString.loop p cb h l fuel st) := by
  intro fuel
  induction fuel with
  | zero => intro st hi; exact hi
  | succ n ih =>
    intro st hi
    by_cases hlt : st.i < l
    · rw [loop_succ_pos p cb h l n st hlt]
      have hb := body_span p cb h st hi (by omega)
      split
      · exact hb
      · exact ih _ hb
    · rw [loop_succ_neg p cb h l n st hlt]; exact hi

theorem scan_span (p : JSONParse) (cb : JSONTokenizer σ) (user : σ) (s : List Char)
    (h : Bool) (psi : Nat) (hl : wrapU16 (strlen s) < 65535) :
    ScanState.spanInv (FromString.scan p cb user s h psi) :=
  loop_span p cb h _ (by omega) _ _ ⟨fun _ => rfl, fun hq => (Bool.false_ne_true hq).elim⟩

/-- The test after the loop sets `ERR_UNTERMINATED_STRING` on a state with an open quoted
span that satisfies the span invariant. -/
theorem finish_unterminated (p : JSONParse) (st : ScanState σ) (hi : ScanState.spanInv st)
    (hq : st.quoted_processing = true) (he : st.last_error_ = ERR.ERR_NONE) :
    (FromString.finish p st).last_error_ = ERR.ERR_UNTERMINATED_STRING := by
  obtain ⟨h1, h2⟩ := hi.2 hq
  have e1 : FromString.unterminated st = st.setError ERR.ERR_UNTERMINATED_STRING := by
    unfold FromString.unterminated
    simp [he, h1, h2]
  unfold FromString.finish
  rw [e1]
  unfold FromString.unbalanced
  simp

end Span2


section Spaces
variable {σ : Type}

theorem cstr_of_nul_free (m : List Char) (hm : ∀ c ∈ m, c ≠ NUL) : cstr m = m := by
  unfold cstr
  rw [List.takeWhile_eq_self_iff]
  intro c hc
  simpa using hm c hc

theorem strlen_of_nul_free (m : List Char) (hm : ∀ c ∈ m, c ≠ NUL) : strlen m = m.length := by
  unfold strlen; rw [cstr_of_nul_free m hm]

/-- A pass on a space below depth 0 with nothing pending changes nothing. -/
theorem body_space (p : JSONParse) (cb : JSONTokenizer σ) (st : ScanState σ)
    (he : st.last_error_ = ERR.ERR_NONE) (hq : st.quoted_processing = false)
    (hstop : st.stop = false) (hc : charAt st.s st.i = ' ') (hac : 0 < st.ac)
    (hmc : 0 ≤ st.mc) (hlit : st.is_literal = 1) (hs : st.str_start = -1) :
    FromString.body p cb false st = st := by
  have hd : FromString.dispatch p cb false (charAt st.s st.i)
      (FromString.quoted (charAt st.s st.i) st) = st := by
    rw [quoted_off _ _ hq, hc]
    unfold FromString.dispatch
    rw [he, hq]
    simp only [beq_self_eq_true, Bool.not_false, Bool.and_self, if_true]
    have q : (' ' == DQUOTE) = false := by decide
    have t : (' ' == TAB) = false := by decide
    have a0 : ¬ st.ac = 0 := by omega
    simp [FromString.switch, FromString.caseDefault, q, t, hlit, hs, a0]
  unfold FromString.body
  rw [hd]
  unfold FromString.after
  have e1 : FromString.setHead false st = st := by simp [FromString.setHead]
  have e2 : FromString.stopError st = st := by simp [FromString.stopError, hstop]
  rw [e1, e2, depthError_keeps p st (by omega) hmc]

theorem setIndex_self (st : ScanState σ) : st.setIndex st.i = st := rfl

theorem loop_spaces (p : JSONParse) (cb : JSONTokenizer σ) (l : Nat) (hl : l ≤ 65535) :
    ∀ (k fuel : Nat) (st : ScanState σ), st.i + k ≤ l →
      (∀ j, st.i ≤ j → j < st.i + k → charAt st.s j = ' ') →
      st.last_error_ = ERR.ERR_NONE → st.quoted_processing = false → st.stop = false →
      0 < st.ac → 0 ≤ st.mc → st.is_literal = 1 → st.str_start = -1 →
      FromString.loop p cb false l (fuel + k) st
        = FromString.loop p cb false l fuel (st.setIndex (st.i + k)) := by
  intro k
  induction k with
  | zero => intro fuel st _ _ _ _ _ _ _ _ _; rfl
  | succ n ih =>
    intro fuel st hk hsp he hq hstop hac hmc hlit hs
    have hb := body_space p cb st he hq hstop (hsp st.i (le_refl _) (by omega)) hac hmc hlit hs
    have hi : st.i < l := by omega
    have hnl : FromString.leaves p st = false := by
      unfold FromString.leaves
      have a0 : ¬ st.ac = 0 := by omega
      simp [he, a0]
    have e : fuel + (n + 1) = (fuel + n) + 1 := by omega
    rw [e, loop_succ_pos p cb false l (fuel + n) st hi, hb, hnl]
    simp only [Bool.false_eq_true, if_false]
    have hn : st.next = st.setIndex (st.i + 1) := by
      have hw : wrapU16 ((st.i : Int) + 1) = st.i + 1 := by unfold wrapU16; omega
      unfold ScanState.next ScanState.setIndex
      rw [hw]
    rw [hn, ih fuel (st.setIndex (st.i + 1)) (by simp; omega)
      (fun j h1 h2 => hsp j (by simp at h1; omega) (by simp at h2; omega)) he hq hstop hac hmc hlit hs]
    have e3 : (st.setIndex (st.i + 1)).setIndex ((st.setIndex (st.i + 1)).i + n)
        = st.setIndex (st.i + (n + 1)) := by
      simp only [ScanState.setIndex]
      congr 1
      omega
    rw [e3]

end Spaces

section LongText
variable {σ : Type}

/-- The statements between the switch and the tests that leave the loop change nothing
when no chain is asked for, no callback stopped and no counter is negative. -/
theorem after_keeps (p : JSONParse) (x : ScanState σ) (hstop : x.stop = false)
    (hac : 0 ≤ x.ac) (hmc : 0 ≤ x.mc) : FromString.after p false x = x := by
  unfold FromString.after
  have e1 : FromString.setHead false x = x := by simp [FromString.setHead]
  have e2 : FromString.stopError x = x := by simp [FromString.stopError, hstop]
  rw [e1, e2, depthError_keeps p x hac hmc]

/-- A pass on `[` without callbacks and without a chain asked for. -/
theorem body_open_array (p : JSONParse) (cb : JSONTokenizer σ) (st : ScanState σ)
    (hcb : p.callbacks_ = false)
    (he : st.last_error_ = ERR.ERR_NONE) (hq : st.quoted_processing = false)
    (hstop : st.stop = false) (hc : charAt st.s st.i = '[')
    (hac : 0 ≤ wrapI16 (st.ac + 1)) (hmc : 0 ≤ st.mc) :
    FromString.body p cb false st
      = ((st.link (JSONElement.ARRAY true)).bump false 1).addSize p.sizeofArray := by
  have hd : FromString.dispatch p cb false (charAt st.s st.i)
      (FromString.quoted (charAt st.s st.i) st)
      = ((st.link (JSONElement.ARRAY true)).bump false 1).addSize p.sizeofArray := by
    rw [quoted_off _ _ hq, hc]
    unfold FromString.dispatch
    rw [he, hq]
    simp only [beq_self_eq_true, Bool.not_false, Bool.and_self, if_true]
    simp [FromString.switch, FromString.caseOpen, FromString.callOpen, hcb, FromString.marker]
  unfold FromString.body
  rw [hd]
  apply after_keeps
  · simpa using hstop
  · simpa [ScanState.bump] using hac
  · simpa [ScanState.bump] using hmc

/-- A pass on an opening `"` with nothing pending, without a chain asked for. -/
theorem body_open_quote (p : JSONParse) (cb : JSONTokenizer σ) (st : ScanState σ)
    (he : st.last_error_ = ERR.ERR_NONE) (hq : st.quoted_processing = false)
    (hstop : st.stop = false) (hc : charAt st.s st.i = DQUOTE)
    (hlit : st.is_literal = 1) (hs : st.str_start = -1)
    (hac : 0 ≤ st.ac) (hmc : 0 ≤ st.mc) :
    FromString.body p cb false st
      = { st with str_start := wrapI16 (st.i + 1), is_literal := 0,
                  quoted_processing := true } := by
  have hd : FromString.dispatch p cb false (charAt st.s st.i)
      (FromString.quoted (charAt st.s st.i) st)
      = { st with str_start := wrapI16 (st.i + 1), is_literal := 0,
                  quoted_processing := true } := by
    rw [quoted_off _ _ hq, hc]
    have q1 : (DQUOTE == '[') = false := by decide
    have q2 : (DQUOTE == ']') = false := by decide
    have q3 : (DQUOTE == '\x7b') = false := by decide
    have q4 : (DQUOTE == '\x7d') = false := by decide
    simp [FromString.dispatch, FromString.switch, FromString.caseQuote, q1, q2, q3, q4, hlit,
      hs, he, hq]
  unfold FromString.body
  rw [hd]
  exact after_keeps p _ hstop hac hmc

theorem openQuoteText_strlen (n : Nat) : strlen (openQuoteText n) = n + 2 := by
  rw [strlen_of_nul_free]
  · simp [openQuoteText]
  · intro c hc
    simp only [openQuoteText, List.mem_cons, List.mem_append, List.mem_replicate,
      List.mem_singleton, List.not_mem_nil, or_false] at hc
    rcases hc with h | h | h
    · rw [h]; decide
    · rw [h.2]; decide
    · rw [h]; decide

theorem openQuoteText_space (n j : Nat) (h1 : 1 ≤ j) (h2 : j < n + 1) :
    charAt (openQuoteText n) j = ' ' := by
  obtain ⟨k, rfl⟩ : ∃ k, j = k + 1 := ⟨j - 1, by omega⟩
  unfold charAt openQuoteText
  rw [List.getD_cons_succ, List.getD_append _ _ _ _ (by simp; omega),
    List.getD_eq_getElem _ _ (by simp; omega)]
  simp

theorem openQuoteText_quote (n : Nat) : charAt (openQuoteText n) (n + 1) = DQUOTE := by
  unfold charAt openQuoteText
  rw [List.getD_cons_succ, List.getD_append_right _ _ _ _ (by simp)]
  simp

end LongText

section LongText2
variable {σ : Type}

@[simp] theorem bump_false_ac (d : Int) (st : ScanState σ) :
    (st.bump false d).ac = wrapI16 (st.ac + d) := rfl

@[simp] theorem bump_false_mc (d : Int) (st : ScanState σ) :
    (st.bump false d).mc = st.mc := rfl

@[simp] theorem bump_true_ac (d : Int) (st : ScanState σ) :
    (st.bump true d).ac = st.ac := rfl

@[simp] theorem bump_true_mc (d : Int) (st : ScanState σ) :
    (st.bump true d).mc = wrapI16 (st.mc + d) := rfl

theorem leaves_false (p : JSONParse) (st : ScanState σ) (he : st.last_error_ = ERR.ERR_NONE)
    (hac : st.ac ≠ 0) : FromString.leaves p st = false := by
  unfold FromString.leaves
  simp [he, hac]

theorem FromString_last_error (p : JSONParse) (cb : JSONTokenizer σ) (user : σ)
    (s : List Char) (h : Bool) (psi : Nat) :
    (FromString p cb user s h psi).parser.last_error_
      = (FromString.finish p (FromString.scan p cb user s h psi)).last_error_ := rfl

/-- The scan of `[`, `n` spaces and `"`, without callbacks and without a chain asked
for: it ends after the last byte, inside the quoted span, with `str_start` the wrapped
index after the quote. -/
theorem scan_openQuoteText (p : JSONParse) (cb : JSONTokenizer σ) (user : σ) (n : Nat)
    (hcb : p.callbacks_ = false) (hn : n + 2 ≤ 65535) :
    (FromString.scan p cb user (openQuoteText n) false 0).quoted_processing = true ∧
    (FromString.scan p cb user (openQuoteText n) false 0).last_error_ = ERR.ERR_NONE ∧
    (FromString.scan p cb user (openQuoteText n) false 0).i = n + 2 ∧
    (FromString.scan p cb user (openQuoteText n) false 0).str_start = wrapI16 (n + 2) ∧
    (FromString.scan p cb user (openQuoteText n) false 0).str_end = -1 ∧
    (FromString.scan p cb user (openQuoteText n) false 0).ac = 1 ∧
    (FromString.scan p cb user (openQuoteText n) false 0).mc = 0 := by
  have hl : wrapU16 (strlen (openQuoteText n)) = n + 2 := by
    rw [openQuoteText_strlen]; unfold wrapU16; omega
  unfold FromString.scan
  rw [hl]
  generalize hst0 : FromString.init user (openQuoteText n) 0 = st0
  have s0 : st0.s = openQuoteText n := by rw [← hst0]; rfl
  have i0 : st0.i = 0 := by rw [← hst0]; rfl
  -- the pass on the bracket
  have hb0 := body_open_array p cb st0 hcb (by rw [← hst0]; rfl) (by rw [← hst0]; rfl)
    (by rw [← hst0]; rfl) (by rw [s0, i0]; rfl)
    (by rw [← hst0]; show (0 : Int) ≤ wrapI16 (0 + 1); decide)
    (by rw [← hst0]; show (0 : Int) ≤ 0; decide)
  generalize hx0 : ((st0.link (JSONElement.ARRAY true)).bump false 1).addSize p.sizeofArray
    = b0 at hb0
  have b0s : b0.s = openQuoteText n := by rw [← hx0]; simpa using s0
  have b0i : b0.i = 0 := by rw [← hx0]; simpa using i0
  have b0e : b0.last_error_ = ERR.ERR_NONE := by rw [← hx0, ← hst0]; rfl
  have b0q : b0.quoted_processing = false := by rw [← hx0, ← hst0]; rfl
  have b0stop : b0.stop = false := by rw [← hx0, ← hst0]; rfl
  have b0ac : b0.ac = 1 := by rw [← hx0, ← hst0]; rfl
  have b0mc : b0.mc = 0 := by rw [← hx0, ← hst0]; rfl
  have b0lit : b0.is_literal = 1 := by rw [← hx0, ← hst0]; rfl
  have b0ss : b0.str_start = -1 := by rw [← hx0, ← hst0]; rfl
  have b0se : b0.str_end = -1 := by rw [← hx0, ← hst0]; rfl
  have f1 : 2 * (n + 2) + 1 = ((n + 4) + n) + 1 := by omega
  rw [f1, loop_succ_pos p cb false (n + 2) _ st0 (by rw [i0]; omega), hb0,
    leaves_false p b0 b0e (by rw [b0ac]; decide)]
  simp only [Bool.false_eq_true, if_false]
  -- the passes on the spaces
  have n1 : b0.next.i = 1 := by
    show wrapU16 ((b0.i : Int) + 1) = 1
    rw [b0i]; decide
  rw [loop_spaces p cb (n + 2) (by omega) n (n + 4) b0.next (by rw [n1]; omega)
    (fun j h1 h2 => by
      rw [n1] at h1 h2
      show charAt b0.s j = ' '
      rw [b0s]; exact openQuoteText_space n j h1 (by omega))
    b0e b0q b0stop (by show (0 : Int) < b0.ac; rw [b0ac]; decide)
    (by show (0 : Int) ≤ b0.mc; rw [b0mc]) b0lit b0ss]
  rw [n1]
  generalize hx1 : b0.next.setIndex (1 + n) = st2
  have s2 : st2.s = openQuoteText n := by rw [← hx1]; exact b0s
  have i2 : st2.i = 1 + n := by rw [← hx1]; rfl
  have e2 : st2.last_error_ = ERR.ERR_NONE := by rw [← hx1]; exact b0e
  have q2 : st2.quoted_processing = false := by rw [← hx1]; exact b0q
  have stop2 : st2.stop = false := by rw [← hx1]; exact b0stop
  have ac2 : st2.ac = 1 := by rw [← hx1]; exact b0ac
  have mc2 : st2.mc = 0 := by rw [← hx1]; exact b0mc
  have lit2 : st2.is_literal = 1 := by rw [← hx1]; exact b0lit
  have ss2 : st2.str_start = -1 := by rw [← hx1]; exact b0ss
  have se2 : st2.str_end = -1 := by rw [← hx1]; exact b0se
  -- the pass on the quote
  have hb2 := body_open_quote p cb st2 e2 q2 stop2
    (by rw [s2, i2, Nat.add_comm]; exact openQuoteText_quote n) lit2 ss2
    (by rw [ac2]; decide) (by rw [mc2])
  have hleave2 : FromString.leaves p (FromString.body p cb false st2) = false := by
    rw [hb2]; exact leaves_false p _ e2 (by show st2.ac ≠ 0; rw [ac2]; decide)
  have f2 : n + 4 = ((n + 2) + 1) + 1 := by omega
  rw [f2, loop_succ_pos p cb false (n + 2) _ st2 (by rw [i2]; omega), hleave2]
  simp only [Bool.false_eq_true, if_false]
  rw [hb2]
  have hw : wrapU16 ((st2.i : Int) + 1) = n + 2 := by rw [i2]; unfold wrapU16; omega
  rw [loop_succ_neg p cb false (n + 2) _ _ (by show ¬ wrapU16 ((st2.i : Int) + 1) < n + 2; omega)]
  refine ⟨rfl, e2, hw, ?_, se2, ac2, mc2⟩
  show wrapI16 ((st2.i : Int) + 1) = wrapI16 ((n : Int) + 2)
  rw [i2]; congr 1; push_cast; omega

end LongText2


section Memory

theorem writeAt_length (bs : List Char) : ∀ (m : List Char) (pos : Nat),
    (writeAt m pos bs).length = m.length := by
  induction bs with
  | nil => intro m pos; rfl
  | cons c cs ih => intro m pos; simp [writeAt, ih]

theorem take_set_succ (m : List Char) (pos : Nat) (c : Char) (h : pos < m.length) :
    (m.set pos c).take (pos + 1) = m.take pos ++ [c] := by
  induction m generalizing pos with
  | nil => simp at h
  | cons a as ih =>
    cases pos with
    | zero => simp
    | succ k =>
      simp only [List.set_cons_succ, List.take_succ_cons, List.cons_append]
      rw [ih k (by simpa using h)]

theorem writeAt_take (bs : List Char) : ∀ (m : List Char) (pos : Nat),
    pos + bs.length ≤ m.length →
    (writeAt m pos bs).take (pos + bs.length) = m.take pos ++ bs := by
  induction bs with
  | nil => intro m pos _; simp [writeAt]
  | cons c cs ih =>
    intro m pos h
    simp only [List.length_cons] at h
    have e : pos + (c :: cs).length = (pos + 1) + cs.length := by simp; omega
    rw [e]
    show (writeAt (m.set pos c) (pos + 1) cs).take (pos + 1 + cs.length) = _
    rw [ih (m.set pos c) (pos + 1) (by simp; omega), take_set_succ m pos c (by omega)]
    simp

theorem readAt_drop : ∀ (n : Nat) (s : List Char) (src : Nat), src + n ≤ s.length →
    readAt s src n = (s.drop src).take n := by
  intro n
  induction n with
  | zero => intro s src _; simp [readAt]
  | succ k ih =>
    intro s src h
    have hlt : src < s.length := by omega
    rw [readAt, ih s (src + 1) (by omega)]
    unfold charAt
    rw [List.getD_eq_getElem _ _ hlt]
    rw [List.drop_eq_getElem_cons hlt, List.take_succ_cons]

theorem readAt_self (s : List Char) : readAt s 0 s.length = s := by
  rw [readAt_drop _ s 0 (by simp)]; simp

theorem cstr_append_nul (w r : List Char) (hw : ∀ c ∈ w, c ≠ NUL) :
    cstr (w ++ NUL :: r) = w := by
  unfold cstr
  rw [List.takeWhile_append_of_pos]
  · simp
  · intro c hc; simpa using hw c hc

theorem set_eq_take_append (m : List Char) (k : Nat) (c : Char) (h : k < m.length) :
    m.set k c = m.take k ++ c :: m.drop (k + 1) := by
  induction m generalizing k with
  | nil => simp at h
  | cons a as ih =>
    cases k with
    | zero => simp
    | succ j => simp [ih j (by simpa using h)]

end Memory

section Append
variable {σ : Type}

theorem inBounds_iff (b : UserBuffer) :
    b.inBounds = true ↔
      b.length_ < b.max_length_ ∧ b.max_length_ ≤ b.buffer_.length ∧ b.max_length_ ≤ 65535 := by
  simp [UserBuffer.inBounds, and_assoc]

theorem isCString_iff (s : JSONString) :
    s.isCString = true ↔ (∀ c ∈ s.string_, c ≠ NUL) ∧ s.string_.length < 256 := by
  simp [JSONString.isCString]

theorem Append_ok (b : UserBuffer) (s : List Char) (hb : b.inBounds = true)
    (hs : ∀ c ∈ s, c ≠ NUL) (hl : s.length < 256) (hok : (b.Append s).1 = false) :
    (b.Append s).2.written = b.written ++ s ∧ (b.Append s).2.inBounds = true := by
  obtain ⟨h1, h2, h3⟩ := (inBounds_iff b).1 hb
  have hw : wrapU8 (strlen s) = s.length := by
    rw [strlen_of_nul_free s hs]; exact wrapU8_of_lt hl
  unfold UserBuffer.Append at hok ⊢
  simp only [hw] at hok ⊢
  by_cases hfit : b.length_ + s.length < b.max_length_
  · simp only [if_pos hfit]
    have hw2 : wrapU16 ((b.length_ : Int) + s.length) = b.length_ + s.length :=
      wrapU16_add_of_le (by omega)
    constructor
    · unfold UserBuffer.written
      simp only [hw2, readAt_self]
      exact writeAt_take s b.buffer_ b.length_ (by omega)
    · rw [inBounds_iff]
      simp only [hw2, writeAt_length]
      exact ⟨hfit, h2, h3⟩
  · simp [if_neg hfit] at hok

theorem append_sticky (t : List Char) (st : ObjectState σ)
    (hok : (FromObject.append t st).wr_err = false) :
    st.wr_err = false ∧ (st.buf.Append t).1 = false := by
  unfold FromObject.append at hok
  simpa using hok

theorem wrote_append (t : List Char) (st : ObjectState σ) (hb : st.buf.inBounds = true)
    (hs : ∀ c ∈ t, c ≠ NUL) (hl : t.length < 256)
    (hok : (FromObject.append t st).wr_err = false) :
    ObjectState.Wrote st (FromObject.append t st) t := by
  obtain ⟨h1, h2⟩ := append_sticky t st hok
  obtain ⟨a1, a2⟩ := Append_ok st.buf t hb hs hl h2
  exact ⟨a1, a2, hok, rfl, rfl, rfl, rfl, rfl⟩

theorem wrote_refl (st : ObjectState σ) (hb : st.buf.inBounds = true)
    (hw : st.wr_err = false) : ObjectState.Wrote st st [] :=
  ⟨by simp, hb, hw, rfl, rfl, rfl, rfl, rfl⟩

theorem wrote_trans {a b c : ObjectState σ} {t u : List Char}
    (h1 : ObjectState.Wrote a b t) (h2 : ObjectState.Wrote b c u) :
    ObjectState.Wrote a c (t ++ u) := by
  obtain ⟨a1, a2, a3, a4, a5, a6, a7, a8⟩ := h1
  obtain ⟨b1, b2, b3, b4, b5, b6, b7, b8⟩ := h2
  exact ⟨by rw [b1, a1, List.append_assoc], b2, b3, b4.trans a4, b5.trans a5, b6.trans a6,
    b7.trans a7, b8.trans a8⟩

/-- Two writes in a row. -/
theorem wrote_append2 (t u : List Char) (st : ObjectState σ) (hb : st.buf.inBounds = true)
    (ht : ∀ c ∈ t, c ≠ NUL) (htl : t.length < 256)
    (hu : ∀ c ∈ u, c ≠ NUL) (hul : u.length < 256)
    (hok : (FromObject.append u (FromObject.append t st)).wr_err = false) :
    ObjectState.Wrote st (FromObject.append u (FromObject.append t st)) (t ++ u) := by
  have h1 := wrote_append t st hb ht htl (append_sticky u _ hok).1
  exact wrote_trans h1 (wrote_append u _ h1.2.1 hu hul hok)

/-- Three writes in a row. -/
theorem wrote_append3 (t u v : List Char) (st : ObjectState σ) (hb : st.buf.inBounds = true)
    (ht : ∀ c ∈ t, c ≠ NUL) (htl : t.length < 256)
    (hu : ∀ c ∈ u, c ≠ NUL) (hul : u.length < 256)
    (hv : ∀ c ∈ v, c ≠ NUL) (hvl : v.length < 256)
    (hok : (FromObject.append v (FromObject.append u (FromObject.append t st))).wr_err = false) :
    ObjectState.Wrote st (FromObject.append v (FromObject.append u (FromObject.append t st)))
      (t ++ u ++ v) := by
  have h1 := wrote_append2 t u st hb ht htl hu hul (append_sticky v _ hok).1
  exact wrote_trans h1 (wrote_append v _ h1.2.1 hv hvl hok)

end Append

section NodeText
variable {σ : Type}

theorem nul_free_comma : ∀ c ∈ ", ".toList, c ≠ NUL := by decide

theorem wrote_separator (prev : Option JSONElement) (st : ObjectState σ)
    (hb : st.buf.inBounds = true)
    (hok : (if FromObject.afterValue prev then FromObject.append ", ".toList st
      else st).wr_err = false) :
    ObjectState.Wrote st
      (if FromObject.afterValue prev then FromObject.append ", ".toList st else st)
      (Spec.separator prev) := by
  by_cases ha : FromObject.afterValue prev = true
  · rw [if_pos ha] at hok ⊢
    have e : Spec.separator prev = ", ".toList := by
      match prev, ha with
      | some (JSONElement.STRING ls), ha =>
        have : ls.is_value_ = true := ha
        simp [Spec.separator, this]
    rw [e]
    exact wrote_append _ st hb nul_free_comma (by decide) hok
  · rw [if_neg ha] at hok ⊢
    have e : Spec.separator prev = [] := by
      match prev, ha with
      | none, _ => rfl
      | some (JSONElement.ARRAY _), _ => rfl
      | some (JSONElement.MAP _), _ => rfl
      | some (JSONElement.STRING ls), ha =>
        have : ls.is_value_ = false := by simpa [FromObject.afterValue] using ha
        simp [Spec.separator, this]
    rw [e]
    exact wrote_refl st hb hok

theorem emitString_wrote (s : JSONString) (st : ObjectState σ) (hb : st.buf.inBounds = true)
    (hs : s.isCString = true) (hok : (FromObject.emitString s st).wr_err = false) :
    ObjectState.Wrote st (FromObject.emitString s st) (Spec.stringText s) := by
  obtain ⟨s1, s2⟩ := (isCString_iff s).1 hs
  have hq : ∀ c ∈ [DQUOTE], c ≠ NUL := by decide
  have hqc : ∀ c ∈ [DQUOTE, ':'], c ≠ NUL := by decide
  unfold FromObject.emitString at hok ⊢
  unfold Spec.stringText Spec.quoting
  by_cases hlen : s.length_ > 0
  · have hlen2 : 0 < s.length_ := hlen
    rw [if_pos hlen] at hok ⊢
    rw [if_pos hlen2]
    cases hv : s.is_value_
    · simp only [hv, Bool.not_false, if_true, Bool.false_eq_true, if_false] at hok ⊢
      exact wrote_append3 _ _ _ st hb hq (by decide) s1 s2 hqc (by decide) hok
    · simp only [hv, Bool.not_true, Bool.false_eq_true, if_false] at hok ⊢
      cases hlit : s.literal_
      · simp only [hlit, Bool.false_eq_true, if_false] at hok ⊢
        exact wrote_append3 _ _ _ st hb hq (by decide) s1 s2 hq (by decide) hok
      · simp only [hlit, if_true] at hok ⊢
        exact wrote_append _ st hb s1 s2 hok
  · have hlen2 : ¬ 0 < s.length_ := hlen
    rw [if_neg hlen] at hok ⊢
    rw [if_neg hlen2]
    exact wrote_refl st hb hok

theorem emitString_sticky (s : JSONString) (st : ObjectState σ)
    (hok : (FromObject.emitString s st).wr_err = false) : st.wr_err = false := by
  unfold FromObject.emitString at hok
  split at hok
  · split at hok
    · split at hok
      · exact (append_sticky _ _ (append_sticky _ _ (append_sticky _ _ hok).1).1).1
      · exact (append_sticky _ _ (append_sticky _ _ (append_sticky _ _ hok).1).1).1
    · split at hok
      · exact (append_sticky _ _ hok).1
      · exact (append_sticky _ _ (append_sticky _ _ (append_sticky _ _ hok).1).1).1
  · exact hok

theorem caseString_wrote (p : JSONParse) (cb : JSONTokenizer σ) (s : JSONString)
    (prev : Option JSONElement) (st : ObjectState σ) (hcb : p.callbacks_ = false)
    (hb : st.buf.inBounds = true) (hs : s.isCString = true)
    (hok : (FromObject.caseString p cb s prev st).wr_err = false) :
    ObjectState.Wrote st (FromObject.caseString p cb s prev st)
      (Spec.separator prev ++ Spec.stringText s) := by
  unfold FromObject.caseString at hok ⊢
  simp only [hcb, Bool.false_eq_true, if_false] at hok ⊢
  have h1 := wrote_separator prev st hb (emitString_sticky s _ hok)
  exact wrote_trans h1 (emitString_wrote s _ h1.2.1 hs hok)

end NodeText

section Marker
variable {σ : Type}

theorem lookAhead_of_opens (next : Option JSONElement) (h : FromObject.nextOpens next = true) :
    Spec.lookAhead next = ", ".toList := by
  match next, h with
  | some (JSONElement.ARRAY true), _ => rfl
  | some (JSONElement.MAP true), _ => rfl
  | some (JSONElement.STRING _), _ => rfl

theorem lookAhead_of_not_opens (next : Option JSONElement)
    (h : ¬ FromObject.nextOpens next = true) : Spec.lookAhead next = [] := by
  match next, h with
  | none, _ => rfl
  | some (JSONElement.ARRAY false), _ => rfl
  | some (JSONElement.MAP false), _ => rfl
  | some (JSONElement.ARRAY true), h => exact absurd rfl h
  | some (JSONElement.MAP true), h => exact absurd rfl h
  | some (JSONElement.STRING _), h => exact absurd rfl h

/-- The state after the writes of an opening marker. -/
theorem open_wrote (isMap : Bool) (prev : Option JSONElement) (st : ObjectState σ)
    (hb : st.buf.inBounds = true)
    (hok : (FromObject.append (if isMap then "\x7b ".toList else "[ ".toList)
      (if FromObject.afterValue prev then FromObject.append ", ".toList st
        else st)).wr_err = false) :
    ObjectState.Wrote st
      (FromObject.append (if isMap then "\x7b ".toList else "[ ".toList)
        (if FromObject.afterValue prev then FromObject.append ", ".toList st else st))
      (Spec.separator prev ++ (if isMap then "\x7b ".toList else "[ ".toList)) := by
  have h1 := wrote_separator prev st hb (append_sticky _ _ hok).1
  refine wrote_trans h1 (wrote_append _ _ h1.2.1 ?_ ?_ hok)
  · cases isMap <;> decide
  · cases isMap <;> decide

/-- The state after the write of a closing marker. -/
theorem close_wrote (isMap : Bool) (next : Option JSONElement) (st : ObjectState σ)
    (hb : st.buf.inBounds = true)
    (hok : (if FromObject.nextOpens next then
        FromObject.append (if isMap then " \x7d, ".toList else " ], ".toList) st
      else FromObject.append (if isMap then " \x7d".toList else " ]".toList) st).wr_err = false) :
    ObjectState.Wrote st
      (if FromObject.nextOpens next then
        FromObject.append (if isMap then " \x7d, ".toList else " ], ".toList) st
      else FromObject.append (if isMap then " \x7d".toList else " ]".toList) st)
      ((if isMap then " \x7d".toList else " ]".toList) ++ Spec.lookAhead next) := by
  by_cases hn : FromObject.nextOpens next = true
  · rw [if_pos hn] at hok ⊢
    rw [lookAhead_of_opens next hn]
    have e : (if isMap then " \x7d".toList else " ]".toList) ++ ", ".toList
        = (if isMap then " \x7d, ".toList else " ], ".toList) := by cases isMap <;> rfl
    rw [e]
    refine wrote_append _ st hb ?_ ?_ hok
    · cases isMap <;> decide
    · cases isMap <;> decide
  · rw [if_neg hn] at hok ⊢
    rw [lookAhead_of_not_opens next hn, List.append_nil]
    refine wrote_append _ st hb ?_ ?_ hok
    · cases isMap <;> decide
    · cases isMap <;> decide

/-- What the switch of `FromObject` writes for a node, without callbacks. -/
theorem switch_wrote (p : JSONParse) (cb : JSONTokenizer σ) (e : JSONElement)
    (prev next : Option JSONElement) (st : ObjectState σ) (hcb : p.callbacks_ = false)
    (hb : st.buf.inBounds = true) (he : e.isCString = true)
    (hok : (FromObject.switch p cb e prev next st).wr_err = false) :
    (FromObject.switch p cb e prev next st).buf.written
      = st.buf.written ++ Spec.nodeText prev e next ∧
    (FromObject.switch p cb e prev next st).buf.inBounds = true ∧
    (FromObject.switch p cb e prev next st).stop = st.stop ∧
    (FromObject.switch p cb e prev next st).last_error_ = st.last_error_ := by
  cases e with
  | STRING s =>
    have h := caseString_wrote p cb s prev st hcb hb he hok
    exact ⟨h.1, h.2.1, h.2.2.2.2.1, h.2.2.2.2.2.2.2⟩
  | ARRAY o =>
    cases o
    · have hok2 := hok
      simp only [FromObject.switch, FromObject.caseMarker, hcb, Bool.false_eq_true, if_false,
        Bool.not_false, if_true] at hok2 ⊢
      have h := close_wrote false next st hb hok2
      exact ⟨h.1, h.2.1, h.2.2.2.2.1, h.2.2.2.2.2.2.2⟩
    · have hok2 := hok
      simp only [FromObject.switch, FromObject.caseMarker, hcb, Bool.false_eq_true, if_false,
        Bool.not_false, if_true] at hok2 ⊢
      have h := open_wrote false prev st hb hok2
      exact ⟨h.1, h.2.1, h.2.2.2.2.1, h.2.2.2.2.2.2.2⟩
  | MAP o =>
    cases o
    · have hok2 := hok
      simp only [FromObject.switch, FromObject.caseMarker, hcb, Bool.false_eq_true, if_false,
        Bool.not_false, if_true] at hok2 ⊢
      have h := close_wrote true next st hb hok2
      exact ⟨h.1, h.2.1, h.2.2.2.2.1, h.2.2.2.2.2.2.2⟩
    · have hok2 := hok
      simp only [FromObject.switch, FromObject.caseMarker, hcb, Bool.false_eq_true, if_false,
        Bool.not_false, if_true] at hok2 ⊢
      have h := open_wrote true prev st hb hok2
      exact ⟨h.1, h.2.1, h.2.2.2.2.1, h.2.2.2.2.2.2.2⟩

/-- The counters after the switch of `FromObject`, without callbacks. -/
theorem switch_depth (p : JSONParse) (cb : JSONTokenizer σ) (e : JSONElement)
    (prev next : Option JSONElement) (st : ObjectState σ) (hcb : p.callbacks_ = false)
    (ha : wrapI16 st.ac = st.ac) (hm : wrapI16 st.mc = st.mc) :
    (FromObject.switch p cb e prev next st).ac = wrapI16 (Spec.arrayDepth st.ac e) ∧
    (FromObject.switch p cb e prev next st).mc = wrapI16 (Spec.mapDepth st.mc e) := by
  cases e with
  | STRING s =>
    simp only [FromObject.switch, Spec.arrayDepth, Spec.mapDepth, ha, hm]
    have h : ∀ t (x : ObjectState σ), (FromObject.append t x).ac = x.ac ∧
        (FromObject.append t x).mc = x.mc := fun _ _ => ⟨rfl, rfl⟩
    simp only [FromObject.caseString, hcb, Bool.false_eq_true, if_false,
      FromObject.emitString]
    split_ifs <;> simp [h]
  | ARRAY o =>
    cases o <;>
    · simp only [FromObject.switch, FromObject.caseMarker, hcb, Bool.false_eq_true, if_false,
        Bool.not_false, if_true, Spec.arrayDepth, Spec.mapDepth, hm]
      split_ifs <;> exact ⟨rfl, rfl⟩
  | MAP o =>
    cases o <;>
    · simp only [FromObject.switch, FromObject.caseMarker, hcb, Bool.false_eq_true, if_false,
        Bool.not_false, if_true, Spec.arrayDepth, Spec.mapDepth, ha]
      split_ifs <;> exact ⟨rfl, rfl⟩

end Marker

section ObjectLoop
variable {σ : Type}

theorem serialize_false_depth : ∀ (e : List JSONElement) (prev : Option JSONElement)
    (ac mc ac' mc' : Int),
    Spec.serialize false prev ac mc e = Spec.serialize false prev ac' mc' e := by
  intro e
  induction e with
  | nil => intro _ _ _ _ _; rfl
  | cons x rest ih =>
    intro prev ac mc ac' mc'
    simp only [Spec.serialize, Bool.false_and, Bool.false_eq_true, if_false]
    rw [ih (some x) (Spec.arrayDepth ac x) (Spec.mapDepth mc x) (Spec.arrayDepth ac' x)
      (Spec.mapDepth mc' x)]

theorem wrapI16_idem (x : Int) : wrapI16 (wrapI16 x) = wrapI16 x := by
  unfold wrapI16; omega

theorem switch_stop (p : JSONParse) (cb : JSONTokenizer σ) (e : JSONElement)
    (prev next : Option JSONElement) (st : ObjectState σ) (hcb : p.callbacks_ = false) :
    (FromObject.switch p cb e prev next st).stop = st.stop ∧
    (FromObject.switch p cb e prev next st).last_error_ = st.last_error_ := by
  have h : ∀ t (x : ObjectState σ), (FromObject.append t x).stop = x.stop ∧
      (FromObject.append t x).last_error_ = x.last_error_ := fun _ _ => ⟨rfl, rfl⟩
  cases e with
  | STRING s =>
    simp only [FromObject.switch, FromObject.caseString, hcb, Bool.false_eq_true, if_false,
      FromObject.emitString]
    split_ifs <;> simp [h]
  | ARRAY o =>
    cases o <;>
    · simp only [FromObject.switch, FromObject.caseMarker, hcb, Bool.false_eq_true, if_false,
        Bool.not_false, if_true]
      split_ifs <;> simp [h]
  | MAP o =>
    cases o <;>
    · simp only [FromObject.switch, FromObject.caseMarker, hcb, Bool.false_eq_true, if_false,
        Bool.not_false, if_true]
      split_ifs <;> simp [h]

/-- The loop body of `FromObject` after the switch, when neither a callback stopped nor
an error is set. -/
theorem loop_cons (p : JSONParse) (cb : JSONTokenizer σ) (prev : Option JSONElement)
    (x : JSONElement) (rest : List JSONElement) (st : ObjectState σ)
    (hstop : (FromObject.switch p cb x prev rest.head? st).stop = false)
    (herr : (FromObject.switch p cb x prev rest.head? st).last_error_ = ERR.ERR_NONE) :
    FromObject.loop p cb prev (x :: rest) st =
      if (FromObject.switch p cb x prev rest.head? st).wr_err then
        { FromObject.switch p cb x prev rest.head? st with
          last_error_ := ERR.ERR_CHAR_MEMORY_LIMIT }
      else if p.limit_node_level_ &&
          decide ((FromObject.switch p cb x prev rest.head? st).ac < 0) then
        { FromObject.switch p cb x prev rest.head? st with
          last_error_ := ERR.ERR_UNEXPECTED_END_OF_ARRAY }
      else if p.limit_node_level_ &&
          decide ((FromObject.switch p cb x prev rest.head? st).mc < 0) then
        { FromObject.switch p cb x prev rest.head? st with
          last_error_ := ERR.ERR_UNEXPECTED_END_OF_MAP }
      else if p.limit_node_level_ &&
          ((FromObject.switch p cb x prev rest.head? st).mc == 0 &&
            (FromObject.switch p cb x prev rest.head? st).ac == 0) then
        FromObject.switch p cb x prev rest.head? st
      else FromObject.loop p cb (some x) rest (FromObject.switch p cb x prev rest.head? st) := by
  rw [FromObject.loop]
  simp only [hstop, herr, Bool.false_eq_true, if_false, bne_self_eq_false]

end ObjectLoop

section ObjectLoop2
variable {σ : Type}

theorem isCString_of_all {x : JSONElement} {rest : List JSONElement}
    (h : (x :: rest).all JSONElement.isCString = true) :
    x.isCString = true ∧ rest.all JSONElement.isCString = true := by
  simpa using h

/-- The text that the loop of `FromObject` writes, without callbacks, when it ends
without error. -/
theorem loop_wrote (p : JSONParse) (cb : JSONTokenizer σ) (hcb : p.callbacks_ = false) :
    ∀ (e : List JSONElement) (prev : Option JSONElement) (st : ObjectState σ),
      e.all JSONElement.isCString = true → st.buf.inBounds = true → st.stop = false →
      st.last_error_ = ERR.ERR_NONE → wrapI16 st.ac = st.ac → wrapI16 st.mc = st.mc →
      (p.limit_node_level_ = true → 0 ≤ st.ac ∧ 0 ≤ st.mc) →
      (FromObject.loop p cb prev e st).last_error_ = ERR.ERR_NONE →
      (FromObject.loop p cb prev e st).buf.written
        = st.buf.written ++ Spec.serialize p.limit_node_level_ prev st.ac st.mc e ∧
      (FromObject.loop p cb prev e st).buf.inBounds = true := by
  intro e
  induction e with
  | nil =>
    intro prev st _ hb _ _ _ _ _ _
    exact ⟨by simp [FromObject.loop, Spec.serialize], hb⟩
  | cons x rest ih =>
    intro prev st hall hb hstop herr hac hmc hlim hfin
    obtain ⟨hx, hrest⟩ := isCString_of_all hall
    obtain ⟨s1, s2⟩ := switch_stop p cb x prev rest.head? st hcb
    rw [loop_cons p cb prev x rest st (s1.trans hstop) (s2.trans herr)] at hfin ⊢
    generalize hst1 : FromObject.switch p cb x prev rest.head? st = st1 at hfin s1 s2 ⊢
    by_cases hw : st1.wr_err = true
    · rw [if_pos hw] at hfin
      exact absurd hfin (by simp)
    · rw [if_neg hw] at hfin ⊢
      have hw2 : st1.wr_err = false := by simpa using hw
      obtain ⟨w1, w2, _, _⟩ := switch_wrote p cb x prev rest.head? st hcb hb hx
        (by rw [hst1]; exact hw2)
      obtain ⟨d1, d2⟩ := switch_depth p cb x prev rest.head? st hcb hac hmc
      rw [hst1] at w1 w2 d1 d2
      have r1 : wrapI16 st1.ac = st1.ac := by rw [d1, wrapI16_idem]
      have r2 : wrapI16 st1.mc = st1.mc := by rw [d2, wrapI16_idem]
      cases hl : p.limit_node_level_
      · simp only [hl, Bool.false_and, Bool.false_eq_true, if_false] at hfin ⊢
        obtain ⟨i1, i2⟩ := ih (some x) st1 hrest w2 (s1.trans hstop) (s2.trans herr) r1 r2
          (fun h => by rw [hl] at h; exact absurd h (by decide)) hfin
        rw [hl] at i1
        refine ⟨?_, i2⟩
        rw [i1, w1, List.append_assoc, Spec.serialize]
        simp only [Bool.false_and, Bool.false_eq_true, if_false]
        rw [serialize_false_depth rest (some x) st1.ac st1.mc]
      · obtain ⟨p1, p2⟩ := hlim hl
        simp only [hl, Bool.true_and] at hfin ⊢
        by_cases ha : st1.ac < 0
        · simp only [ha, decide_True, if_true] at hfin
          exact absurd hfin (by simp)
        · simp only [ha, decide_False, Bool.false_eq_true, if_false] at hfin ⊢
          by_cases hm : st1.mc < 0
          · simp only [hm, decide_True, if_true] at hfin
            exact absurd hfin (by simp)
          · simp only [hm, decide_False, Bool.false_eq_true, if_false] at hfin ⊢
            have ea : st1.ac = Spec.arrayDepth st.ac x := by
              rw [d1] at ha ⊢
              unfold wrapI16 at hac
              cases x with
              | STRING s => simp only [Spec.arrayDepth] at ha ⊢; unfold wrapI16 at ha ⊢; omega
              | MAP o => simp only [Spec.arrayDepth] at ha ⊢; unfold wrapI16 at ha ⊢; omega
              | ARRAY o =>
                cases o <;>
                · simp only [Spec.arrayDepth] at ha ⊢; unfold wrapI16 at ha ⊢; omega
            have em : st1.mc = Spec.mapDepth st.mc x := by
              rw [d2] at hm ⊢
              unfold wrapI16 at hmc
              cases x with
              | STRING s => simp only [Spec.mapDepth] at hm ⊢; unfold wrapI16 at hm ⊢; omega
              | ARRAY o => simp only [Spec.mapDepth] at hm ⊢; unfold wrapI16 at hm ⊢; omega
              | MAP o =>
                cases o <;>
                · simp only [Spec.mapDepth] at hm ⊢; unfold wrapI16 at hm ⊢; omega
            by_cases hz : (st1.mc == 0 && st1.ac == 0) = true
            · rw [if_pos hz]
              refine ⟨?_, w2⟩
              rw [w1, Spec.serialize]
              have hz2 : (Spec.arrayDepth st.ac x == 0 && Spec.mapDepth st.mc x == 0) = true := by
                rw [← ea, ← em]
                simp only [Bool.and_eq_true] at hz ⊢
                exact ⟨hz.2, hz.1⟩
              simp only [Bool.true_and, hz2, if_true, List.append_nil]
            · rw [if_neg hz] at hfin ⊢
              obtain ⟨i1, i2⟩ := ih (some x) st1 hrest w2 (s1.trans hstop) (s2.trans herr) r1 r2
                (fun _ => ⟨by omega, by omega⟩) hfin
              rw [hl] at i1
              refine ⟨?_, i2⟩
              rw [i1, w1, List.append_assoc, Spec.serialize]
              have hz2 : ¬ (Spec.arrayDepth st.ac x == 0 && Spec.mapDepth st.mc x == 0) = true := by
                rw [← ea, ← em]
                simp only [Bool.and_eq_true] at hz ⊢
                exact fun h => hz ⟨h.2, h.1⟩
              simp only [Bool.true_and, hz2, Bool.false_eq_true, if_false, ea, em]

end ObjectLoop2

section ObjectText
variable {σ : Type}

theorem separator_nul_free (prev : Option JSONElement) :
    ∀ c ∈ Spec.separator prev, c ≠ NUL := by
  match prev with
  | none => simp [Spec.separator]
  | some (JSONElement.ARRAY _) => simp [Spec.separator]
  | some (JSONElement.MAP _) => simp [Spec.separator]
  | some (JSONElement.STRING s) =>
    cases hv : s.is_value_
    · simp [Spec.separator, hv]
    · simp only [Spec.separator, hv, if_true]
      decide

theorem lookAhead_nul_free (next : Option JSONElement) :
    ∀ c ∈ Spec.lookAhead next, c ≠ NUL := by
  by_cases h : FromObject.nextOpens next = true
  · rw [lookAhead_of_opens next h]; decide
  · rw [lookAhead_of_not_opens next h]; simp

theorem stringText_nul_free (s : JSONString) (hs : s.isCString = true) :
    ∀ c ∈ Spec.stringText s, c ≠ NUL := by
  obtain ⟨s1, _⟩ := (isCString_iff s).1 hs
  have hq : DQUOTE ≠ NUL := by decide
  have hc : ':' ≠ NUL := by decide
  unfold Spec.stringText Spec.quoting
  intro c hc
  split_ifs at hc
  · simp only [List.mem_append, List.mem_cons, List.mem_singleton, List.not_mem_nil,
      or_false] at hc
    rcases hc with (h | h) | h | h
    · rw [h]; exact hq
    · exact s1 c h
    · rw [h]; exact hq
    · rw [h]; assumption
  · exact s1 c hc
  · simp only [List.mem_append, List.mem_cons, List.mem_singleton, List.not_mem_nil,
      or_false] at hc
    rcases hc with (h | h) | h
    · rw [h]; exact hq
    · exact s1 c h
    · rw [h]; exact hq
  · simp at hc

theorem nodeText_nul_free (prev : Option JSONElement) (e : JSONElement)
    (next : Option JSONElement) (he : e.isCString = true) :
    ∀ c ∈ Spec.nodeText prev e next, c ≠ NUL := by
  intro c hc
  cases e with
  | STRING s =>
    simp only [Spec.nodeText, List.mem_append] at hc
    rcases hc with h | h
    · exact separator_nul_free prev c h
    · exact stringText_nul_free s he c h
  | ARRAY o =>
    cases o
    · simp only [Spec.nodeText, List.mem_append] at hc
      rcases hc with h | h
      · revert c; decide
      · exact lookAhead_nul_free next c h
    · simp only [Spec.nodeText, List.mem_append] at hc
      rcases hc with h | h
      · exact separator_nul_free prev c h
      · revert c; decide
  | MAP o =>
    cases o
    · simp only [Spec.nodeText, List.mem_append] at hc
      rcases hc with h | h
      · revert c; decide
      · exact lookAhead_nul_free next c h
    · simp only [Spec.nodeText, List.mem_append] at hc
      rcases hc with h | h
      · exact separator_nul_free prev c h
      · revert c; decide

theorem serialize_nul_free (stop : Bool) : ∀ (e : List JSONElement)
    (prev : Option JSONElement) (ac mc : Int), e.all JSONElement.isCString = true →
    ∀ c ∈ Spec.serialize stop prev ac mc e, c ≠ NUL := by
  intro e
  induction e with
  | nil => intro _ _ _ _ c hc; simp [Spec.serialize] at hc
  | cons x rest ih =>
    intro prev ac mc hall c hc
    obtain ⟨hx, hrest⟩ := isCString_of_all hall
    rw [Spec.serialize, List.mem_append] at hc
    rcases hc with h | h
    · exact nodeText_nul_free prev x rest.head? hx c h
    · split at h
      · simp at h
      · exact ih _ _ _ hrest c h

theorem cstr_set_nul (m : List Char) (k : Nat) (hk : k < m.length)
    (hw : ∀ c ∈ m.take k, c ≠ NUL) : cstr (m.set k NUL) = m.take k := by
  rw [set_eq_take_append m k NUL hk]
  exact cstr_append_nul _ _ hw

/-- The text of `FromObject`, without callbacks, when it returns `true`: the
concatenation of the node texts. -/
theorem FromObject_text (p : JSONParse) (cb : JSONTokenizer σ) (user : σ) (buf : UserBuffer)
    (e : List JSONElement) (hcb : p.callbacks_ = false)
    (h1 : 0 < buf.max_length_) (h2 : buf.max_length_ ≤ buf.buffer_.length)
    (h3 : buf.max_length_ ≤ 65535) (hall : e.all JSONElement.isCString = true)
    (hok : (FromObject p cb user buf e).ok = true) :
    (FromObject p cb user buf e).text = Spec.serialize p.limit_node_level_ none 0 0 e ∧
    (Spec.serialize p.limit_node_level_ none 0 0 e).length < 65535 := by
  unfold FromObject at hok
  unfold FromObjectResult.text FromObject UserBuffer.Get
  simp only [] at hok ⊢
  generalize hst0 : (FromObject.init user buf : ObjectState σ) = st0 at hok ⊢
  have hb0 : st0.buf.inBounds = true := by
    rw [← hst0, inBounds_iff]; exact ⟨h1, h2, h3⟩
  have hfin : (FromObject.loop p cb none e st0).last_error_ = ERR.ERR_NONE := by
    simpa using hok
  obtain ⟨w1, w2⟩ := loop_wrote p cb hcb e none st0 hall hb0 (by rw [← hst0]; rfl)
    (by rw [← hst0]; rfl) (by rw [← hst0]; show wrapI16 0 = 0; decide)
    (by rw [← hst0]; show wrapI16 0 = 0; decide)
    (fun _ => by rw [← hst0]; exact ⟨le_refl _, le_refl _⟩) hfin
  have ew : st0.buf.written = [] := by
    rw [← hst0]; simp [UserBuffer.written, UserBuffer.Length, FromObject.init]
  have ea : st0.ac = 0 := by rw [← hst0]; rfl
  have em : st0.mc = 0 := by rw [← hst0]; rfl
  rw [ew, ea, em, List.nil_append] at w1
  generalize (FromObject.loop p cb none e st0).buf = b at w1 w2 ⊢
  obtain ⟨b1, b2, b3⟩ := (inBounds_iff b).1 w2
  unfold UserBuffer.AppendChar
  rw [if_pos b1]
  simp only []
  unfold UserBuffer.written at w1
  constructor
  · rw [cstr_set_nul b.buffer_ b.length_ (by omega), w1]
    rw [w1]
    exact serialize_nul_free _ e none 0 0 hall
  · have hlen : (b.buffer_.take b.length_).length = b.length_ := by
      rw [List.length_take]; omega
    rw [← w1, hlen]; omega

end ObjectText

section ObjectParser
variable {σ : Type}

theorem switch_of_flags (p q : JSONParse) (cb : JSONTokenizer σ) (e : JSONElement)
    (prev next : Option JSONElement) (st : ObjectState σ)
    (h1 : p.callbacks_ = q.callbacks_) :
    FromObject.switch p cb e prev next st = FromObject.switch q cb e prev next st := by
  cases e <;> simp only [FromObject.switch, FromObject.caseMarker, FromObject.caseString, h1]

theorem loop_of_flags (p q : JSONParse) (cb : JSONTokenizer σ)
    (h1 : p.callbacks_ = q.callbacks_) (h2 : p.limit_node_level_ = q.limit_node_level_) :
    ∀ (e : List JSONElement) (prev : Option JSONElement) (st : ObjectState σ),
      FromObject.loop p cb prev e st = FromObject.loop q cb prev e st := by
  intro e
  induction e with
  | nil => intro prev st; rfl
  | cons x rest ih =>
    intro prev st
    rw [FromObject.loop, FromObject.loop, switch_of_flags p q cb x prev rest.head? st h1, h2]
    simp only [ih]

/-- The result of `FromObject` depends on the parser only through `callbacks_` and
`limit_node_level_`. -/
theorem FromObject_of_flags (p q : JSONParse) (cb : JSONTokenizer σ) (user : σ)
    (buf : UserBuffer) (e : List JSONElement)
    (h1 : p.callbacks_ = q.callbacks_) (h2 : p.limit_node_level_ = q.limit_node_level_) :
    (FromObject p cb user buf e).ok = (FromObject q cb user buf e).ok ∧
    (FromObject p cb user buf e).text = (FromObject q cb user buf e).text ∧
    (FromObject p cb user buf e).buf = (FromObject q cb user buf e).buf := by
  unfold FromObjectResult.text FromObject
  simp only [loop_of_flags p q cb h1 h2, and_self]

end ObjectParser
section RT1
variable {σ : Type}

theorem advance_loop (p : JSONParse) (cb : JSONTokenizer σ) (h : Bool) (l : Nat) :
    ∀ (n fuel : Nat) (st st' : ScanState σ), FromString.advance p cb h l n st = some st' →
      FromString.loop p cb h l (fuel + n) st = FromString.loop p cb h l fuel st' := by
  intro n
  induction n with
  | zero =>
    intro fuel st st' ha
    simp only [FromString.advance, Option.some.injEq] at ha
    rw [ha]; rfl
  | succ k ih =>
    intro fuel st st' ha
    rw [FromString.advance] at ha
    split at ha
    · rename_i hc
      have e : fuel + (k + 1) = (fuel + k) + 1 := by omega
      rw [e, loop_succ_pos p cb h l _ st hc.1, hc.2]
      simp only [Bool.false_eq_true, if_false]
      exact ih fuel _ _ ha
    · exact absurd ha (by simp)

theorem advance_add (p : JSONParse) (cb : JSONTokenizer σ) (h : Bool) (l : Nat) :
    ∀ (n m : Nat) (st st' st'' : ScanState σ), FromString.advance p cb h l n st = some st' →
      FromString.advance p cb h l m st' = some st'' →
      FromString.advance p cb h l (n + m) st = some st'' := by
  intro n
  induction n with
  | zero =>
    intro m st st' st'' h1 h2
    simp only [FromString.advance, Option.some.injEq] at h1
    rw [h1, Nat.zero_add]; exact h2
  | succ k ih =>
    intro m st st' st'' h1 h2
    rw [FromString.advance] at h1
    split at h1
    · rename_i hc
      have e : k + 1 + m = (k + m) + 1 := by omega
      rw [e, FromString.advance, if_pos hc]
      exact ih m _ _ _ h1 h2
    · exact absurd h1 (by simp)

theorem advance_one (p : JSONParse) (cb : JSONTokenizer σ) (h : Bool) (l : Nat)
    (st : ScanState σ) (hi : st.i < l)
    (hl : FromString.leaves p (FromString.body p cb h st) = false) :
    FromString.advance p cb h l 1 st = some (FromString.body p cb h st).next := by
  rw [FromString.advance, if_pos ⟨hi, hl⟩]; rfl

/-- The statements after the switch change nothing in a state `mkAt` whose counters are
not negative. -/
theorem after_mkAt (p : JSONParse) (s : List Char) (user : σ) (i lit : Nat) (ac mc a b : Int)
    (ch : List JSONElement) (ev qp esc : Bool) (hac : 0 ≤ ac) (hmc : 0 ≤ mc) :
    FromString.after p true (ScanState.mkAt s user i lit ac mc a b ch ev qp esc)
      = ScanState.mkAt s user i lit ac mc a b ch ev qp esc := by
  have n1 : ¬ ac < 0 := by omega
  have n2 : ¬ mc < 0 := by omega
  simp [FromString.after, FromString.setHead, FromString.stopError, FromString.depthError,
    FromString.negativeArray, FromString.negativeMap, ScanState.mkAt, n1, n2]

/-- A pass on `[` or `{` from a state with nothing pending. -/
theorem body_idle_open (p : JSONParse) (cb : JSONTokenizer σ) (s : List Char) (user : σ)
    (i : Nat) (ac mc : Int) (ch : List JSONElement) (ev isMap : Bool)
    (hcb : p.callbacks_ = false) (hsa : p.sizeofArray = 0)
    (hc : charAt s i = if isMap then '\x7b' else '[')
    (hac : 0 ≤ ac) (hac2 : ac < 32767) (hmc : 0 ≤ mc) (hmc2 : mc < 32767) :
    FromString.body p cb true (ScanState.idle s user i ac mc ch ev)
      = ScanState.idle s user i (if isMap then ac else ac + 1) (if isMap then mc + 1 else mc)
          (ch ++ [FromString.marker isMap true]) ev := by
  have w1 : wrapI16 (ac + 1) = ac + 1 := by unfold wrapI16; omega
  have w2 : wrapI16 (mc + 1) = mc + 1 := by unfold wrapI16; omega
  have hd : FromString.dispatch p cb true (charAt s i)
      (FromString.quoted (charAt s i) (ScanState.idle s user i ac mc ch ev))
      = ScanState.idle s user i (if isMap then ac else ac + 1) (if isMap then mc + 1 else mc)
          (ch ++ [FromString.marker isMap true]) ev := by
    cases isMap
    · simp only [Bool.false_eq_true, if_false] at hc ⊢
      simp [FromString.quoted, FromString.dispatch, FromString.switch,
        FromString.caseOpen, FromString.callOpen, ScanState.idle, ScanState.mkAt, hc, hcb, hsa,
        ScanState.link, ScanState.bump, ScanState.addSize, w1, wrapU16, FromString.marker]
    · simp only [if_true] at hc ⊢
      simp [FromString.quoted, FromString.dispatch, FromString.switch,
        FromString.caseOpen, FromString.callOpen, ScanState.idle, ScanState.mkAt, hc, hcb, hsa,
        ScanState.link, ScanState.bump, ScanState.addSize, w2, wrapU16, FromString.marker]
  show FromString.after p true (FromString.dispatch p cb true (charAt s i)
      (FromString.quoted (charAt s i) (ScanState.idle s user i ac mc ch ev))) = _
  rw [hd]
  exact after_mkAt p s user i 1 _ _ _ _ _ _ _ _ (by cases isMap <;> simp <;> omega)
    (by cases isMap <;> simp <;> omega)

end RT1
section RT2
variable {σ : Type}

theorem body_eq_after (p : JSONParse) (cb : JSONTokenizer σ) (st x : ScanState σ)
    (hd : FromString.dispatch p cb true (charAt st.s st.i)
      (FromString.quoted (charAt st.s st.i) st) = x)
    (hx : FromString.after p true x = x) : FromString.body p cb true st = x := by
  unfold FromString.body
  rw [hd, hx]

theorem leaves_mkAt (p : JSONParse) (s : List Char) (user : σ) (i lit : Nat) (ac mc a b : Int)
    (ch : List JSONElement) (ev qp esc : Bool) (hd : ¬ (mc = 0 ∧ ac = 0)) :
    FromString.leaves p (ScanState.mkAt s user i lit ac mc a b ch ev qp esc) = false := by
  simp only [FromString.leaves, ScanState.mkAt, bne_self_eq_false, Bool.or_false,
    Bool.and_eq_false_imp, Bool.and_eq_false_iff, beq_eq_false_iff_ne, ne_eq]
  intro _ h1 h2
  exact hd ⟨by simpa using h1, h2⟩

theorem next_mkAt (s : List Char) (user : σ) (i lit : Nat) (ac mc a b : Int)
    (ch : List JSONElement) (ev qp esc : Bool) (hi : i < 65535) :
    (ScanState.mkAt s user i lit ac mc a b ch ev qp esc).next
      = ScanState.mkAt s user (i + 1) lit ac mc a b ch ev qp esc := by
  have hw : wrapU16 ((i : Int) + 1) = i + 1 := by unfold wrapU16; omega
  simp [ScanState.next, ScanState.mkAt, hw]

/-- A pass on `]` or `}` from a state with nothing pending. -/
theorem body_idle_close (p : JSONParse) (cb : JSONTokenizer σ) (s : List Char) (user : σ)
    (i : Nat) (ac mc : Int) (ch : List JSONElement) (ev isMap : Bool)
    (hcb : p.callbacks_ = false) (hsa : p.sizeofArray = 0)
    (hc : charAt s i = if isMap then '\x7d' else ']')
    (hac : 0 ≤ (if isMap then ac else ac - 1)) (hac2 : ac ≤ 32767)
    (hmc : 0 ≤ (if isMap then mc - 1 else mc)) (hmc2 : mc ≤ 32767) :
    FromString.body p cb true (ScanState.idle s user i ac mc ch ev)
      = ScanState.idle s user i (if isMap then ac else ac - 1) (if isMap then mc - 1 else mc)
          (ch ++ [FromString.marker isMap false]) ev := by
  refine body_eq_after p cb _ _ ?_ (after_mkAt p s user i 1 _ _ _ _ _ _ _ _ hac hmc)
  cases isMap
  · simp only [Bool.false_eq_true, if_false] at hc hac hmc ⊢
    have w1 : wrapI16 (ac + -1) = ac - 1 := by unfold wrapI16; omega
    simp [FromString.quoted, FromString.dispatch, FromString.switch,
      FromString.caseClose, FromString.callClose, ScanState.idle, ScanState.mkAt, hc, hcb, hsa,
      ScanState.link, ScanState.bump, ScanState.addSize, w1, wrapU16, FromString.marker]
  · simp only [if_true] at hc hac hmc ⊢
    have w2 : wrapI16 (mc + -1) = mc - 1 := by unfold wrapI16; omega
    simp [FromString.quoted, FromString.dispatch, FromString.switch,
      FromString.caseClose, FromString.callClose, ScanState.idle, ScanState.mkAt, hc, hcb, hsa,
      ScanState.link, ScanState.bump, ScanState.addSize, w2, wrapU16, FromString.marker]

/-- A pass on `]` or `}` from a state with a pending string: the string becomes a value
node, then the marker is linked. -/
theorem body_pending_close (p : JSONParse) (cb : JSONTokenizer σ) (s : List Char) (user : σ)
    (i lit : Nat) (ac mc a b : Int) (ch : List JSONElement) (ev isMap : Bool) (v : JSONString)
    (hcb : p.callbacks_ = false) (hsa : p.sizeofArray = 0) (hss : p.sizeofString = 0)
    (hc : charAt s i = if isMap then '\x7d' else ']')
    (ha : -1 < a)
    (hv : JSONString.Data p.LENGTH (JSONString.mkEmpty true) (ptrAt s a) (lit == 2)
      (wrapU8 (b - a)) = (true, v))
    (hac : 0 ≤ (if isMap then ac else ac - 1)) (hac2 : ac ≤ 32767)
    (hmc : 0 ≤ (if isMap then mc - 1 else mc)) (hmc2 : mc ≤ 32767) :
    FromString.body p cb true (ScanState.mkAt s user i lit ac mc a b ch ev false false)
      = ScanState.idle s user i (if isMap then ac else ac - 1) (if isMap then mc - 1 else mc)
          (ch ++ [JSONElement.STRING v] ++ [FromString.marker isMap false]) false := by
  refine body_eq_after p cb _ _ ?_ (after_mkAt p s user i 1 _ _ _ _ _ _ _ _ hac hmc)
  cases isMap
  · simp only [Bool.false_eq_true, if_false] at hc hac hmc ⊢
    have w1 : wrapI16 (ac + -1) = ac - 1 := by unfold wrapI16; omega
    simp [FromString.quoted, FromString.dispatch, FromString.switch,
      FromString.caseClose, FromString.callClose, FromString.closeValue, FromString.valueNode,
      FromString.callString, ScanState.idle, ScanState.mkAt, hc, hcb, hsa, hss, ha, hv,
      ScanState.link, ScanState.bump, ScanState.addSize, ScanState.valueTaken,
      ScanState.clearSpan, w1, wrapU16, FromString.marker]
  · simp only [if_true] at hc hac hmc ⊢
    have w2 : wrapI16 (mc + -1) = mc - 1 := by unfold wrapI16; omega
    simp [FromString.quoted, FromString.dispatch, FromString.switch,
      FromString.caseClose, FromString.callClose, FromString.closeValue, FromString.valueNode,
      FromString.callString, ScanState.idle, ScanState.mkAt, hc, hcb, hsa, hss, ha, hv,
      ScanState.link, ScanState.bump, ScanState.addSize, ScanState.valueTaken,
      ScanState.clearSpan, w2, wrapU16, FromString.marker]

end RT2
section RT3
variable {σ : Type}

/-- A pass on an opening `"` from a state with nothing pending. -/
theorem body_idle_quote (p : JSONParse) (cb : JSONTokenizer σ) (s : List Char) (user : σ)
    (i : Nat) (ac mc : Int) (ch : List JSONElement) (ev : Bool)
    (hc : charAt s i = DQUOTE) (hi : i < 32767) (hac : 0 ≤ ac) (hmc : 0 ≤ mc) :
    FromString.body p cb true (ScanState.idle s user i ac mc ch ev)
      = ScanState.mkAt s user i 0 ac mc (i + 1) (-1) ch ev true false := by
  refine body_eq_after p cb _ _ ?_ (after_mkAt p s user i 0 _ _ _ _ _ _ _ _ hac hmc)
  have w1 : wrapI16 ((i : Int) + 1) = i + 1 := by unfold wrapI16; omega
  have q1 : (DQUOTE == '[') = false := by decide
  have q2 : (DQUOTE == ']') = false := by decide
  have q3 : (DQUOTE == '\x7b') = false := by decide
  have q4 : (DQUOTE == '\x7d') = false := by decide
  simp [FromString.quoted, FromString.dispatch, FromString.switch, FromString.caseQuote,
    ScanState.idle, ScanState.mkAt, hc, w1, q1, q2, q3, q4]

/-- A pass inside a quoted span after a backslash: the byte is skipped. -/
theorem body_quote_escaped (p : JSONParse) (cb : JSONTokenizer σ) (s : List Char) (user : σ)
    (i : Nat) (ac mc a : Int) (ch : List JSONElement) (ev : Bool)
    (hac : 0 ≤ ac) (hmc : 0 ≤ mc) :
    FromString.body p cb true (ScanState.mkAt s user i 0 ac mc a (-1) ch ev true true)
      = ScanState.mkAt s user i 0 ac mc a (-1) ch ev true false := by
  refine body_eq_after p cb _ _ ?_ (after_mkAt p s user i 0 _ _ _ _ _ _ _ _ hac hmc)
  simp [FromString.quoted, FromString.dispatch, ScanState.mkAt]

/-- A pass inside a quoted span on a backslash. -/
theorem body_quote_backslash (p : JSONParse) (cb : JSONTokenizer σ) (s : List Char) (user : σ)
    (i : Nat) (ac mc a : Int) (ch : List JSONElement) (ev : Bool)
    (hc : charAt s i = BACKSLASH) (hac : 0 ≤ ac) (hmc : 0 ≤ mc) :
    FromString.body p cb true (ScanState.mkAt s user i 0 ac mc a (-1) ch ev true false)
      = ScanState.mkAt s user i 0 ac mc a (-1) ch ev true true := by
  refine body_eq_after p cb _ _ ?_ (after_mkAt p s user i 0 _ _ _ _ _ _ _ _ hac hmc)
  simp [FromString.quoted, FromString.dispatch, ScanState.mkAt, hc]

/-- A pass inside a quoted span on a byte that is neither a backslash nor `"`. -/
theorem body_quote_plain (p : JSONParse) (cb : JSONTokenizer σ) (s : List Char) (user : σ)
    (i : Nat) (ac mc a : Int) (ch : List JSONElement) (ev : Bool)
    (hc1 : charAt s i ≠ BACKSLASH) (hc2 : charAt s i ≠ DQUOTE) (hac : 0 ≤ ac) (hmc : 0 ≤ mc) :
    FromString.body p cb true (ScanState.mkAt s user i 0 ac mc a (-1) ch ev true false)
      = ScanState.mkAt s user i 0 ac mc a (-1) ch ev true false := by
  refine body_eq_after p cb _ _ ?_ (after_mkAt p s user i 0 _ _ _ _ _ _ _ _ hac hmc)
  have h1 : (BACKSLASH == charAt s i) = false := by
    simp only [beq_eq_false_iff_ne, ne_eq]; exact fun h => hc1 h.symm
  have h2 : (DQUOTE == charAt s i) = false := by
    simp only [beq_eq_false_iff_ne, ne_eq]; exact fun h => hc2 h.symm
  simp [FromString.quoted, FromString.dispatch, ScanState.mkAt, h1, h2]

/-- A pass inside a quoted span on the closing `"`. -/
theorem body_quote_close (p : JSONParse) (cb : JSONTokenizer σ) (s : List Char) (user : σ)
    (i : Nat) (ac mc a : Int) (ch : List JSONElement) (ev : Bool)
    (hc : charAt s i = DQUOTE) (ha : a ≠ -1) (hi : i ≤ 32767) (hac : 0 ≤ ac) (hmc : 0 ≤ mc) :
    FromString.body p cb true (ScanState.mkAt s user i 0 ac mc a (-1) ch ev true false)
      = ScanState.mkAt s user i 0 ac mc a i ch ev false false := by
  refine body_eq_after p cb _ _ ?_ (after_mkAt p s user i 0 _ _ _ _ _ _ _ _ hac hmc)
  have w1 : wrapI16 (i : Int) = i := by unfold wrapI16; omega
  have q0 : (BACKSLASH == DQUOTE) = false := by decide
  have q1 : (DQUOTE == '[') = false := by decide
  have q2 : (DQUOTE == ']') = false := by decide
  have q3 : (DQUOTE == '\x7b') = false := by decide
  have q4 : (DQUOTE == '\x7d') = false := by decide
  simp [FromString.quoted, FromString.dispatch, FromString.switch, FromString.caseQuote,
    ScanState.mkAt, hc, w1, q0, q1, q2, q3, q4, ha]

/-- A pass on `:` with a pending quoted string: the string becomes a key node. -/
theorem body_pending_colon (p : JSONParse) (cb : JSONTokenizer σ) (s : List Char) (user : σ)
    (i : Nat) (ac mc a b : Int) (ch : List JSONElement) (ev : Bool)
    (hcb : p.callbacks_ = false) (hss : p.sizeofString = 0)
    (hc : charAt s i = ':') (ha : a ≠ -1) (hb : b ≠ -1) (hac : 0 ≤ ac) (hmc : 0 ≤ mc) :
    FromString.body p cb true (ScanState.mkAt s user i 0 ac mc a b ch ev false false)
      = ScanState.idle s user i ac mc
          (ch ++ [JSONElement.STRING
            (JSONString.mkStrLen p.LENGTH (ptrAt s a) (wrapU8 (b - a)) false)]) true := by
  refine body_eq_after p cb _ _ ?_ (after_mkAt p s user i 1 _ _ _ _ _ _ _ _ hac hmc)
  have q1 : (':' == DQUOTE) = false := by decide
  simp [FromString.quoted, FromString.dispatch, FromString.switch, FromString.caseColon,
    FromString.keyNode, FromString.callString, ScanState.idle, ScanState.mkAt, hc, hcb, hss,
    q1, ha, hb, ScanState.link, ScanState.keyTaken, ScanState.clearSpan, ScanState.addSize,
    wrapU16]

/-- A pass on `,` with a pending string: the string becomes a value node. -/
theorem body_pending_comma (p : JSONParse) (cb : JSONTokenizer σ) (s : List Char) (user : σ)
    (i lit : Nat) (ac mc a b : Int) (ch : List JSONElement) (ev : Bool) (v : JSONString)
    (hcb : p.callbacks_ = false) (hss : p.sizeofString = 0)
    (hc : charAt s i = ',') (hlit : lit ≠ 1) (ha : -1 < a) (hb : b ≠ -1)
    (hv : JSONString.Data p.LENGTH (JSONString.mkEmpty true) (ptrAt s a) (lit == 2)
      (wrapU8 (b - a)) = (true, v))
    (hac : 0 ≤ ac) (hmc : 0 ≤ mc) :
    FromString.body p cb true (ScanState.mkAt s user i lit ac mc a b ch ev false false)
      = ScanState.idle s user i ac mc (ch ++ [JSONElement.STRING v]) ev := by
  refine body_eq_after p cb _ _ ?_ (after_mkAt p s user i 1 _ _ _ _ _ _ _ _ hac hmc)
  have q1 : (',' == DQUOTE) = false := by decide
  have ha2 : a ≠ -1 := by omega
  simp [FromString.quoted, FromString.dispatch, FromString.switch, FromString.caseComma,
    FromString.valueNode, FromString.callStringComma, ScanState.idle, ScanState.mkAt, hc, hcb,
    hss, q1, ha, ha2, hb, hlit, hv, ScanState.link, ScanState.undetermined,
    ScanState.clearSpan, ScanState.addSize, wrapU16]

/-- A pass on `,` with nothing pending. -/
theorem body_idle_comma (p : JSONParse) (cb : JSONTokenizer σ) (s : List Char) (user : σ)
    (i : Nat) (ac mc : Int) (ch : List JSONElement) (ev : Bool)
    (hc : charAt s i = ',') (hac : 0 ≤ ac) (hmc : 0 ≤ mc) :
    FromString.body p cb true (ScanState.idle s user i ac mc ch ev)
      = ScanState.idle s user i ac mc ch ev := by
  refine body_eq_after p cb _ _ ?_ (after_mkAt p s user i 1 _ _ _ _ _ _ _ _ hac hmc)
  have q1 : (',' == DQUOTE) = false := by decide
  simp [FromString.quoted, FromString.dispatch, FromString.switch, FromString.caseComma,
    ScanState.idle, ScanState.mkAt, hc, q1]

/-- A pass on a space below depth 0, outside a quoted span: nothing changes. -/
theorem body_mkAt_space (p : JSONParse) (cb : JSONTokenizer σ) (s : List Char) (user : σ)
    (i lit : Nat) (ac mc a b : Int) (ch : List JSONElement) (ev : Bool)
    (hc : charAt s i = ' ') (hd : ¬ (mc = 0 ∧ ac = 0)) (hac : 0 ≤ ac) (hmc : 0 ≤ mc) :
    FromString.body p cb true (ScanState.mkAt s user i lit ac mc a b ch ev false false)
      = ScanState.mkAt s user i lit ac mc a b ch ev false false := by
  refine body_eq_after p cb _ _ ?_ (after_mkAt p s user i lit _ _ _ _ _ _ _ _ hac hmc)
  have q1 : (' ' == DQUOTE) = false := by decide
  have q2 : (' ' == TAB) = false := by decide
  by_cases hm0 : mc = 0
  · have ha0 : ¬ ac = 0 := fun h => hd ⟨hm0, h⟩
    by_cases h1 : 1 ≤ lit <;> by_cases h2 : a = -1 <;>
      simp [FromString.quoted, FromString.dispatch, FromString.switch, FromString.caseDefault,
        ScanState.mkAt, hc, q1, q2, hm0, ha0, h1, h2]
  · by_cases h1 : 1 ≤ lit <;> by_cases h2 : a = -1 <;>
      simp [FromString.quoted, FromString.dispatch, FromString.switch, FromString.caseDefault,
        ScanState.mkAt, hc, q1, q2, hm0, h1, h2]

end RT3
section RT4
variable {σ : Type}

theorem literalAlphabet_facts : ∀ c ∈ literalAlphabet,
    IsLiteralCharater c = true ∧ c ≠ TAB ∧ c ≠ ' ' ∧ c ≠ '[' ∧ c ≠ ']' ∧ c ≠ '\x7b' ∧
    c ≠ '\x7d' ∧ c ≠ DQUOTE ∧ c ≠ ':' ∧ c ≠ ',' ∧ c ≠ NUL := by
  decide

/-- A pass on the first byte of a literal. -/
theorem body_idle_literal (p : JSONParse) (cb : JSONTokenizer σ) (s : List Char) (user : σ)
    (i : Nat) (ac mc : Int) (ch : List JSONElement) (ev : Bool)
    (hc : charAt s i ∈ literalAlphabet) (hi : i < 32767) (hd : ¬ (mc = 0 ∧ ac = 0))
    (hac : 0 ≤ ac) (hmc : 0 ≤ mc) :
    FromString.body p cb true (ScanState.idle s user i ac mc ch ev)
      = ScanState.mkAt s user i 2 ac mc i (i + 1) ch ev false false := by
  refine body_eq_after p cb _ _ ?_ (after_mkAt p s user i 2 _ _ _ _ _ _ _ _ hac hmc)
  obtain ⟨f1, f2, f3, f4, f5, f6, f7, f8, f9, f10, _⟩ := literalAlphabet_facts _ hc
  have w1 : wrapI16 ((i : Int) + 1) = i + 1 := by unfold wrapI16; omega
  have w2 : wrapI16 (i : Int) = i := by unfold wrapI16; omega
  by_cases hm0 : mc = 0
  · have ha0 : ¬ ac = 0 := fun h => hd ⟨hm0, h⟩
    simp [FromString.quoted, FromString.dispatch, FromString.switch, FromString.caseDefault,
      ScanState.idle, ScanState.mkAt, f1, f2, f3, f4, f5, f6, f7, f8, f9, f10, w1, w2, hm0, ha0]
  · simp [FromString.quoted, FromString.dispatch, FromString.switch, FromString.caseDefault,
      ScanState.idle, ScanState.mkAt, f1, f2, f3, f4, f5, f6, f7, f8, f9, f10, w1, w2, hm0]

/-- A pass on a further byte of a literal. -/
theorem body_literal_more (p : JSONParse) (cb : JSONTokenizer σ) (s : List Char) (user : σ)
    (i : Nat) (ac mc a b : Int) (ch : List JSONElement) (ev : Bool)
    (hc : charAt s i ∈ literalAlphabet) (ha : a ≠ -1) (hi : i < 32767)
    (hd : ¬ (mc = 0 ∧ ac = 0)) (hac : 0 ≤ ac) (hmc : 0 ≤ mc) :
    FromString.body p cb true (ScanState.mkAt s user i 2 ac mc a b ch ev false false)
      = ScanState.mkAt s user i 2 ac mc a (i + 1) ch ev false false := by
  refine body_eq_after p cb _ _ ?_ (after_mkAt p s user i 2 _ _ _ _ _ _ _ _ hac hmc)
  obtain ⟨f1, f2, f3, f4, f5, f6, f7, f8, f9, f10, _⟩ := literalAlphabet_facts _ hc
  have w1 : wrapI16 ((i : Int) + 1) = i + 1 := by unfold wrapI16; omega
  by_cases hm0 : mc = 0
  · have ha0 : ¬ ac = 0 := fun h => hd ⟨hm0, h⟩
    simp [FromString.quoted, FromString.dispatch, FromString.switch, FromString.caseDefault,
      ScanState.mkAt, f1, f2, f3, f4, f5, f6, f7, f8, f9, f10, w1, hm0, ha0, ha]
  · simp [FromString.quoted, FromString.dispatch, FromString.switch, FromString.caseDefault,
      ScanState.mkAt, f1, f2, f3, f4, f5, f6, f7, f8, f9, f10, w1, hm0, ha]

/-! The text in the memory. -/

theorem textAt_cons {s : List Char} {i : Nat} {c : Char} {t : List Char}
    (h : TextAt s i (c :: t)) : charAt s i = c ∧ TextAt s (i + 1) t := by
  obtain ⟨r, hr⟩ := h
  constructor
  · unfold charAt
    have e : s.getD i NUL = (s.drop i).getD 0 NUL := by simp
    rw [e, ← hr]; rfl
  · refine ⟨r, ?_⟩
    have e : s.drop (i + 1) = (s.drop i).drop 1 := by simp [Nat.add_comm]
    rw [e, ← hr]; rfl

theorem textAt_append {s : List Char} {i : Nat} {t u : List Char}
    (h : TextAt s i (t ++ u)) : TextAt s i t ∧ TextAt s (i + t.length) u := by
  obtain ⟨r, hr⟩ := h
  constructor
  · exact ⟨u ++ r, by rw [← hr, List.append_assoc]⟩
  · refine ⟨r, ?_⟩
    have e : s.drop (i + t.length) = (s.drop i).drop t.length := by
      rw [List.drop_drop, Nat.add_comm]
    rw [e, ← hr, List.append_assoc, List.drop_left]

theorem textAt_nil (s : List Char) (i : Nat) : TextAt s i [] := List.nil_prefix

/-- The bytes that `Data` copies from a text that stands in the memory. -/
theorem cstr_take_of_textAt {s : List Char} {k : Nat} {t : List Char}
    (h : TextAt s k t) (ht : ∀ c ∈ t, c ≠ NUL) : (cstr (s.drop k)).take t.length = t := by
  obtain ⟨r, hr⟩ := h
  unfold cstr
  rw [← hr, List.takeWhile_append_of_pos (by intro c hc; simpa using ht c hc)]
  simp

end RT4
section RT5
variable {σ : Type}

/-- The value node that `Data` makes of a text that stands in the memory. -/
theorem data_value (L : Nat) (s : List Char) (k n : Nat) (t : List Char) (prefer : Bool)
    (hT : TextAt s k t) (hn : n = t.length) (h0 : 0 < n) (hL : n < L) (h256 : n < 256)
    (hnul : ∀ c ∈ t, c ≠ NUL) (hlit : prefer = true → IsLiteral t n = true) :
    JSONString.Data L (JSONString.mkEmpty true) (s.drop k) prefer (wrapU8 n)
      = (true, { string_ := t, length_ := n, is_value_ := true, literal_ := prefer }) := by
  have hw : wrapU8 (n : Int) = n := wrapU8_of_lt h256
  have hc : JSONString.DataCount L (s.drop k) n = n := by
    unfold JSONString.DataCount
    have h1 : (n == 0) = false := by simp; omega
    have h2 : ¬ L < n := by omega
    simp only [h1, Bool.false_eq_true, if_false, h2]
    exact hw
  have ht : (cstr (s.drop k)).take n = t := by rw [hn]; exact cstr_take_of_textAt hT hnul
  unfold JSONString.Data
  simp only [hw, hc, ht, JSONString.mkEmpty]
  cases prefer
  · simp
  · simp [hlit rfl]

/-- The key node that the constructor makes of a text that stands in the memory. -/
theorem data_key (L : Nat) (s : List Char) (k n : Nat) (t : List Char)
    (hT : TextAt s k t) (hn : n = t.length) (h0 : 0 < n) (hL : n < L) (h256 : n < 256)
    (hnul : ∀ c ∈ t, c ≠ NUL) :
    JSONString.mkStrLen L (s.drop k) (wrapU8 n) false
      = { string_ := t, length_ := n, is_value_ := false, literal_ := false } := by
  have hw : wrapU8 (n : Int) = n := wrapU8_of_lt h256
  have hc : JSONString.DataCount L (s.drop k) n = n := by
    unfold JSONString.DataCount
    have h1 : (n == 0) = false := by simp; omega
    have h2 : ¬ L < n := by omega
    simp only [h1, Bool.false_eq_true, if_false, h2]
    exact hw
  have ht : (cstr (s.drop k)).take n = t := by rw [hn]; exact cstr_take_of_textAt hT hnul
  unfold JSONString.mkStrLen JSONString.Data
  simp [hw, hc, ht]

theorem advance_step (p : JSONParse) (cb : JSONTokenizer σ) (l : Nat) (st x : ScanState σ)
    (hi : st.i < l) (hb : FromString.body p cb true st = x)
    (hl : FromString.leaves p x = false) :
    FromString.advance p cb true l 1 st = some x.next := by
  rw [advance_one p cb true l st hi (by rw [hb]; exact hl), hb]

/-- One more pass before `n` passes. -/
theorem advance_cons (p : JSONParse) (cb : JSONTokenizer σ) (l n : Nat)
    (st x y : ScanState σ)
    (hi : st.i < l) (hb : FromString.body p cb true st = x)
    (hl : FromString.leaves p x = false)
    (hn : FromString.advance p cb true l n x.next = some y) :
    FromString.advance p cb true l (n + 1) st = some y := by
  rw [FromString.advance, if_pos ⟨hi, by rw [hb]; exact hl⟩, hb]
  exact hn

/-- The scan of the content of a quoted string up to and including the closing `"`. -/
theorem advance_quoted (p : JSONParse) (cb : JSONTokenizer σ) (l : Nat) (s : List Char)
    (user : σ) (ac mc a : Int) (ch : List JSONElement) (ev : Bool)
    (hl : l ≤ 32767) (ha : a ≠ -1) (hd : ¬ (mc = 0 ∧ ac = 0)) (hac : 0 ≤ ac) (hmc : 0 ≤ mc) :
    ∀ (content : List Char) (esc : Bool) (i : Nat), escSafe esc content = true →
      TextAt s i (content ++ [DQUOTE]) → i + content.length < l →
      FromString.advance p cb true l (content.length + 1)
        (ScanState.mkAt s user i 0 ac mc a (-1) ch ev true esc)
        = some (ScanState.mkAt s user (i + content.length + 1) 0 ac mc a
            ((i + content.length : Nat) : Int) ch ev false false) := by
  intro content
  induction content with
  | nil =>
    intro esc i hs hT hi
    have he : esc = false := by cases esc <;> simp_all [escSafe]
    subst he
    obtain ⟨hc, _⟩ := textAt_cons hT
    simp only [List.length_nil, Nat.add_zero, Nat.zero_add] at hi ⊢
    rw [advance_step p cb l _ _ hi
      (body_quote_close p cb s user i ac mc a ch ev hc ha (by omega) hac hmc)
      (leaves_mkAt p _ _ _ _ _ _ _ _ _ _ _ _ hd), next_mkAt _ _ _ _ _ _ _ _ _ _ _ _ (by omega)]
  | cons c cs ih =>
    intro esc i hs hT hi
    obtain ⟨hc, hT2⟩ := textAt_cons hT
    simp only [List.length_cons] at hi ⊢
    have e1 : i + (cs.length + 1) + 1 = (i + 1) + cs.length + 1 := by omega
    have e2 : ((i + (cs.length + 1) : Nat) : Int) = ((i + 1 + cs.length : Nat) : Int) := by
      congr 1; omega
    rw [e1, e2]
    cases esc
    · by_cases hb : c = BACKSLASH
      · have hs2 : escSafe true cs = true := by
          rw [hb] at hs; simpa [escSafe] using hs
        refine advance_cons p cb l _ _ _ _ (by show i < l; omega)
          (body_quote_backslash p cb s user i ac mc a ch ev (hc.trans hb) hac hmc)
          (leaves_mkAt p _ _ _ _ _ _ _ _ _ _ _ _ hd) ?_
        rw [next_mkAt _ _ _ _ _ _ _ _ _ _ _ _ (by omega)]
        exact ih true (i + 1) hs2 hT2 (by omega)
      · by_cases hq : c = DQUOTE
        · rw [hq] at hs
          have : (DQUOTE == BACKSLASH) = false := by decide
          simp [escSafe, this] at hs
        · have hs2 : escSafe false cs = true := by
            have h1 : (c == BACKSLASH) = false := by simpa using hb
            have h2 : (c == DQUOTE) = false := by simpa using hq
            simpa [escSafe, h1, h2] using hs
          refine advance_cons p cb l _ _ _ _ (by show i < l; omega)
            (body_quote_plain p cb s user i ac mc a ch ev (by rw [hc]; exact hb)
              (by rw [hc]; exact hq) hac hmc)
            (leaves_mkAt p _ _ _ _ _ _ _ _ _ _ _ _ hd) ?_
          rw [next_mkAt _ _ _ _ _ _ _ _ _ _ _ _ (by omega)]
          exact ih false (i + 1) hs2 hT2 (by omega)
    · have hs2 : escSafe false cs = true := by simpa [escSafe] using hs
      refine advance_cons p cb l _ _ _ _ (by show i < l; omega)
        (body_quote_escaped p cb s user i ac mc a ch ev hac hmc)
        (leaves_mkAt p _ _ _ _ _ _ _ _ _ _ _ _ hd) ?_
      rw [next_mkAt _ _ _ _ _ _ _ _ _ _ _ _ (by omega)]
      exact ih false (i + 1) hs2 hT2 (by omega)

end RT5
section RT6
variable {σ : Type}

/-- The scan of the bytes of a literal after its first byte. -/
theorem advance_literal_more (p : JSONParse) (cb : JSONTokenizer σ) (l : Nat) (s : List Char)
    (user : σ) (ac mc a : Int) (ch : List JSONElement) (ev : Bool)
    (hl : l ≤ 32767) (ha : a ≠ -1) (hd : ¬ (mc = 0 ∧ ac = 0)) (hac : 0 ≤ ac) (hmc : 0 ≤ mc) :
    ∀ (content : List Char) (i : Nat), (∀ c ∈ content, c ∈ literalAlphabet) →
      TextAt s i content → i + content.length ≤ l →
      FromString.advance p cb true l content.length
        (ScanState.mkAt s user i 2 ac mc a (i : Int) ch ev false false)
        = some (ScanState.mkAt s user (i + content.length) 2 ac mc a
            ((i + content.length : Nat) : Int) ch ev false false) := by
  intro content
  induction content with
  | nil => intro i _ _ _; rfl
  | cons c cs ih =>
    intro i hall hT hi
    obtain ⟨hc, hT2⟩ := textAt_cons hT
    simp only [List.length_cons] at hi ⊢
    have e1 : i + (cs.length + 1) = (i + 1) + cs.length := by omega
    rw [e1]
    refine advance_cons p cb l _ _ _ _ (by show i < l; omega)
      (body_literal_more p cb s user i ac mc a i ch ev
        (by rw [hc]; exact hall c (List.mem_cons_self _ _)) ha (by omega) hd hac hmc)
      (leaves_mkAt p _ _ _ _ _ _ _ _ _ _ _ _ hd) ?_
    rw [next_mkAt _ _ _ _ _ _ _ _ _ _ _ _ (by omega)]
    have e2 : ((i : Int) + 1) = ((i + 1 : Nat) : Int) := by push_cast; rfl
    rw [e2]
    exact ih (i + 1) (fun c hc => hall c (List.mem_cons_of_mem _ hc)) hT2 (by omega)

/-- The scan of a literal from a state with nothing pending. -/
theorem advance_literal (p : JSONParse) (cb : JSONTokenizer σ) (l : Nat) (s : List Char)
    (user : σ) (ac mc : Int) (ch : List JSONElement) (ev : Bool) (content : List Char)
    (i : Nat) (hl : l ≤ 32767) (hd : ¬ (mc = 0 ∧ ac = 0)) (hac : 0 ≤ ac) (hmc : 0 ≤ mc)
    (hne : content ≠ []) (hall : ∀ c ∈ content, c ∈ literalAlphabet)
    (hT : TextAt s i content) (hi : i + content.length ≤ l) :
    FromString.advance p cb true l content.length (ScanState.idle s user i ac mc ch ev)
      = some (ScanState.mkAt s user (i + content.length) 2 ac mc (i : Int)
          ((i + content.length : Nat) : Int) ch ev false false) := by
  match content, hne with
  | c :: cs, _ =>
    obtain ⟨hc, hT2⟩ := textAt_cons hT
    simp only [List.length_cons] at hi ⊢
    have e1 : i + (cs.length + 1) = (i + 1) + cs.length := by omega
    rw [e1]
    refine advance_cons p cb l _ _ _ _ (by show i < l; omega)
      (body_idle_literal p cb s user i ac mc ch ev
        (by rw [hc]; exact hall c (List.mem_cons_self _ _)) (by omega) hd hac hmc)
      (leaves_mkAt p _ _ _ _ _ _ _ _ _ _ _ _ hd) ?_
    rw [next_mkAt _ _ _ _ _ _ _ _ _ _ _ _ (by omega)]
    have e2 : ((i : Int) + 1) = ((i + 1 : Nat) : Int) := by push_cast; rfl
    rw [e2]
    exact advance_literal_more p cb l s user ac mc i ch ev hl (by omega) hd hac hmc cs (i + 1)
      (fun c hc => hall c (List.mem_cons_of_mem _ hc)) hT2 (by omega)

/-- The scan of a quoted string from a state with nothing pending. -/
theorem advance_string (p : JSONParse) (cb : JSONTokenizer σ) (l : Nat) (s : List Char)
    (user : σ) (ac mc : Int) (ch : List JSONElement) (ev : Bool) (content : List Char)
    (i : Nat) (hl : l ≤ 32767) (hd : ¬ (mc = 0 ∧ ac = 0)) (hac : 0 ≤ ac) (hmc : 0 ≤ mc)
    (hs : escSafe false content = true)
    (hT : TextAt s i ([DQUOTE] ++ content ++ [DQUOTE])) (hi : i + content.length + 2 ≤ l) :
    FromString.advance p cb true l (content.length + 2) (ScanState.idle s user i ac mc ch ev)
      = some (ScanState.mkAt s user (i + content.length + 2) 0 ac mc ((i + 1 : Nat) : Int)
          ((i + 1 + content.length : Nat) : Int) ch ev false false) := by
  rw [List.append_assoc] at hT
  obtain ⟨hc, hT2⟩ := textAt_cons hT
  refine advance_cons p cb l _ _ _ _ (by show i < l; omega)
    (body_idle_quote p cb s user i ac mc ch ev hc (by omega) hac hmc)
    (leaves_mkAt p _ _ _ _ _ _ _ _ _ _ _ _ hd) ?_
  rw [next_mkAt _ _ _ _ _ _ _ _ _ _ _ _ (by omega)]
  have e2 : ((i : Int) + 1) = ((i + 1 : Nat) : Int) := by push_cast; rfl
  have e3 : i + content.length + 2 = i + 1 + content.length + 1 := by omega
  rw [e2, e3]
  exact advance_quoted p cb l s user ac mc _ ch ev hl (by omega) hd hac hmc content false (i + 1)
    hs hT2 (by omega)

/-- A pass on a space. -/
theorem advance_space (p : JSONParse) (cb : JSONTokenizer σ) (l : Nat) (s : List Char)
    (user : σ) (i lit : Nat) (ac mc a b : Int) (ch : List JSONElement) (ev : Bool)
    (hl : l ≤ 32767) (hd : ¬ (mc = 0 ∧ ac = 0)) (hac : 0 ≤ ac) (hmc : 0 ≤ mc)
    (hc : charAt s i = ' ') (hi : i < l) :
    FromString.advance p cb true l 1 (ScanState.mkAt s user i lit ac mc a b ch ev false false)
      = some (ScanState.mkAt s user (i + 1) lit ac mc a b ch ev false false) := by
  rw [advance_step p cb l _ _ hi (body_mkAt_space p cb s user i lit ac mc a b ch ev hc hd hac hmc)
    (leaves_mkAt p _ _ _ _ _ _ _ _ _ _ _ _ hd), next_mkAt _ _ _ _ _ _ _ _ _ _ _ _ (by omega)]

/-- The scan of `, ` from a state with nothing pending. -/
theorem advance_comma_idle (p : JSONParse) (cb : JSONTokenizer σ) (l : Nat) (s : List Char)
    (user : σ) (i : Nat) (ac mc : Int) (ch : List JSONElement) (ev : Bool)
    (hl : l ≤ 32767) (hd : ¬ (mc = 0 ∧ ac = 0)) (hac : 0 ≤ ac) (hmc : 0 ≤ mc)
    (hT : TextAt s i ", ".toList) (hi : i + 2 ≤ l) :
    FromString.advance p cb true l 2 (ScanState.idle s user i ac mc ch ev)
      = some (ScanState.idle s user (i + 2) ac mc ch ev) := by
  obtain ⟨hc, hT2⟩ := textAt_cons hT
  obtain ⟨hc2, _⟩ := textAt_cons hT2
  refine advance_cons p cb l _ _ _ _ (by show i < l; omega)
    (body_idle_comma p cb s user i ac mc ch ev hc hac hmc)
    (leaves_mkAt p _ _ _ _ _ _ _ _ _ _ _ _ hd) ?_
  unfold ScanState.idle
  rw [next_mkAt _ _ _ _ _ _ _ _ _ _ _ _ (by omega)]
  exact advance_space p cb l s user (i + 1) 1 ac mc _ _ ch ev hl hd hac hmc hc2 (by omega)

/-- The scan of `, ` from a state with a pending string: the string becomes a value
node. -/
theorem advance_comma_pending (p : JSONParse) (cb : JSONTokenizer σ) (l : Nat) (s : List Char)
    (user : σ) (i lit : Nat) (ac mc a b : Int) (ch : List JSONElement) (ev : Bool)
    (v : JSONString)
    (hcb : p.callbacks_ = false) (hss : p.sizeofString = 0)
    (hl : l ≤ 32767) (hd : ¬ (mc = 0 ∧ ac = 0)) (hac : 0 ≤ ac) (hmc : 0 ≤ mc)
    (hlit : lit ≠ 1) (ha : -1 < a) (hb : b ≠ -1)
    (hv : JSONString.Data p.LENGTH (JSONString.mkEmpty true) (ptrAt s a) (lit == 2)
      (wrapU8 (b - a)) = (true, v))
    (hT : TextAt s i ", ".toList) (hi : i + 2 ≤ l) :
    FromString.advance p cb true l 2
      (ScanState.mkAt s user i lit ac mc a b ch ev false false)
      = some (ScanState.idle s user (i + 2) ac mc (ch ++ [JSONElement.STRING v]) ev) := by
  obtain ⟨hc, hT2⟩ := textAt_cons hT
  obtain ⟨hc2, _⟩ := textAt_cons hT2
  refine advance_cons p cb l _ _ _ _ (by show i < l; omega)
    (body_pending_comma p cb s user i lit ac mc a b ch ev v hcb hss hc hlit ha hb hv hac hmc)
    (leaves_mkAt p _ _ _ _ _ _ _ _ _ _ _ _ hd) ?_
  unfold ScanState.idle
  rw [next_mkAt _ _ _ _ _ _ _ _ _ _ _ _ (by omega)]
  exact advance_space p cb l s user (i + 1) 1 ac mc _ _ _ ev hl hd hac hmc hc2 (by omega)

end RT6
section RT7
variable {σ : Type}

/-- The scan of `[ ` or `{ ` from a state with nothing pending. -/
theorem advance_open (p : JSONParse) (cb : JSONTokenizer σ) (l : Nat) (s : List Char)
    (user : σ) (i : Nat) (ac mc : Int) (ch : List JSONElement) (ev isMap : Bool)
    (hcb : p.callbacks_ = false) (hsa : p.sizeofArray = 0)
    (hl : l ≤ 32767) (hac : 0 ≤ ac) (hac2 : ac < 32767) (hmc : 0 ≤ mc) (hmc2 : mc < 32767)
    (hT : TextAt s i (if isMap then "\x7b ".toList else "[ ".toList)) (hi : i + 2 ≤ l) :
    FromString.advance p cb true l 2 (ScanState.idle s user i ac mc ch ev)
      = some (ScanState.idle s user (i + 2) (if isMap then ac else ac + 1)
          (if isMap then mc + 1 else mc) (ch ++ [FromString.marker isMap true]) ev) := by
  have hT' : TextAt s i [if isMap then '\x7b' else '[', ' '] := by
    cases isMap <;> exact hT
  obtain ⟨hc, hT2⟩ := textAt_cons hT'
  obtain ⟨hc2, _⟩ := textAt_cons hT2
  have hd : ¬ ((if isMap then mc + 1 else mc) = 0 ∧ (if isMap then ac else ac + 1) = 0) := by
    cases isMap <;> simp <;> omega
  have h0a : 0 ≤ (if isMap then ac else ac + 1) := by cases isMap <;> simp <;> omega
  have h0m : 0 ≤ (if isMap then mc + 1 else mc) := by cases isMap <;> simp <;> omega
  refine advance_cons p cb l _ _ _ _ (by show i < l; omega)
    (body_idle_open p cb s user i ac mc ch ev isMap hcb hsa hc hac hac2 hmc hmc2)
    (leaves_mkAt p _ _ _ _ _ _ _ _ _ _ _ _ hd) ?_
  unfold ScanState.idle
  rw [next_mkAt _ _ _ _ _ _ _ _ _ _ _ _ (by omega)]
  exact advance_space p cb l s user (i + 1) 1 _ _ _ _ _ ev hl hd h0a h0m hc2 (by omega)

/-- The scan of a key, `"` + content + `":`, from a state with nothing pending. -/
theorem advance_key (p : JSONParse) (cb : JSONTokenizer σ) (l : Nat) (s : List Char)
    (user : σ) (ac mc : Int) (ch : List JSONElement) (ev : Bool) (content : List Char)
    (i : Nat) (hcb : p.callbacks_ = false) (hss : p.sizeofString = 0)
    (hl : l ≤ 32767) (hd : ¬ (mc = 0 ∧ ac = 0)) (hac : 0 ≤ ac) (hmc : 0 ≤ mc)
    (hs : escSafe false content = true) (h0 : 0 < content.length)
    (hL : content.length < p.LENGTH) (h256 : content.length < 256)
    (hnul : ∀ c ∈ content, c ≠ NUL)
    (hT : TextAt s i ([DQUOTE] ++ content ++ [DQUOTE, ':'])) (hi : i + content.length + 3 ≤ l) :
    FromString.advance p cb true l (content.length + 3) (ScanState.idle s user i ac mc ch ev)
      = some (ScanState.idle s user (i + content.length + 3) ac mc
          (ch ++ [JSONElement.STRING
            { string_ := content, length_ := content.length, is_value_ := false,
              literal_ := false }]) true) := by
  have hT1 : TextAt s i (([DQUOTE] ++ content ++ [DQUOTE]) ++ [':']) := by
    simpa [List.append_assoc] using hT
  obtain ⟨hTa, hTb⟩ := textAt_append hT1
  have hcontent : TextAt s (i + 1) content := by
    have h2 : TextAt s i (DQUOTE :: (content ++ [DQUOTE])) := by
      simpa [List.append_assoc] using hTa
    exact (textAt_append (textAt_cons h2).2).1
  have hlen : ([DQUOTE] ++ content ++ [DQUOTE]).length = content.length + 2 := by
    simp
  rw [hlen] at hTb
  obtain ⟨hc, _⟩ := textAt_cons hTb
  have h1 := advance_string p cb l s user ac mc ch ev content i hl hd hac hmc hs hTa (by omega)
  have e : content.length + 3 = (content.length + 2) + 1 := by omega
  rw [e]
  refine advance_add p cb true l _ 1 _ _ _ h1 ?_
  have hk : JSONString.mkStrLen p.LENGTH (ptrAt s ((i + 1 : Nat) : Int))
      (wrapU8 (((i + 1 + content.length : Nat) : Int) - ((i + 1 : Nat) : Int)))
      false = { string_ := content, length_ := content.length, is_value_ := false,
                literal_ := false } := by
    have e1 : ptrAt s ((i + 1 : Nat) : Int) = s.drop (i + 1) := by simp [ptrAt]
    have e2 : ((i + 1 + content.length : Nat) : Int) - ((i + 1 : Nat) : Int)
        = (content.length : Int) := by push_cast; omega
    rw [e1, e2]
    exact data_key p.LENGTH s (i + 1) content.length content hcontent rfl h0 hL h256 hnul
  have hb := body_pending_colon p cb s user (i + content.length + 2) ac mc
    ((i + 1 : Nat) : Int) ((i + 1 + content.length : Nat) : Int) ch ev hcb hss hc
    (by omega) (by omega) hac hmc
  rw [hk] at hb
  rw [advance_step p cb l _ _ (by show i + content.length + 2 < l; omega) hb
    (leaves_mkAt p _ _ _ _ _ _ _ _ _ _ _ _ hd)]
  unfold ScanState.idle
  rw [next_mkAt _ _ _ _ _ _ _ _ _ _ _ _ (by omega)]

end RT7
section RT8

theorem char_of_toNat (c : Char) (n : Nat) (h : c.toNat = n) : c = Char.ofNat n := by
  rw [← h]; exact (Char.ofNat_toNat c).symm

theorem isDigit_mem (c : Char) (h : isDigit c = true) : c ∈ literalAlphabet := by
  simp only [isDigit, Bool.and_eq_true, decide_eq_true_eq] at h
  obtain ⟨h1, h2⟩ := h
  have h1' : 48 ≤ c.toNat := h1
  have h2' : c.toNat ≤ 57 := h2
  generalize hn : c.toNat = n at h1' h2'
  have hc := char_of_toNat c n hn
  interval_cases n <;> (rw [hc]; decide)

set_option maxRecDepth 100000 in
theorem exponent_byte : ∀ n < 256, (69 == n &&& 223) = true → n = 69 ∨ n = 101 := by
  decide

theorem exponent_mem (c : Char) (hb : c.toNat < 256)
    (h : ('E'.toNat == c.toNat &&& 223) = true) : c ∈ literalAlphabet := by
  rcases exponent_byte c.toNat hb h with h1 | h1
  · rw [char_of_toNat c _ h1]; decide
  · rw [char_of_toNat c _ h1]; decide

theorem decimal_scan_chars (s : List Char) (st : Nat) :
    ∀ (k i : Nat) (d : DecimalState), (IsDecimal.scan s st k i d).f = true →
      (∀ j, i ≤ j → j < i + k → (charAt s j).toNat < 256) →
      ∀ j, i ≤ j → j < i + k → charAt s j ∈ literalAlphabet := by
  intro k
  induction k with
  | zero => intro i d _ _ j h1 h2; omega
  | succ n ih =>
    intro i d hf hb j h1 h2
    have hb' : ∀ j, i + 1 ≤ j → j < i + 1 + n → (charAt s j).toNat < 256 :=
      fun j a b => hb j (by omega) (by omega)
    have step : ∀ d', (IsDecimal.scan s st n (i + 1) d').f = true →
        charAt s i ∈ literalAlphabet → charAt s j ∈ literalAlphabet := by
      intro d' hf' hi
      by_cases hji : j = i
      · rw [hji]; exact hi
      · exact ih (i + 1) d' hf' hb' j (by omega) (by omega)
    have hbi := hb i (le_refl _) (by omega)
    rw [IsDecimal.scan] at hf
    split at hf
    · split at hf
      · rename_i hdig
        split at hf
        · exact absurd hf (by simp)
        · split at hf
          · exact step _ hf (isDigit_mem _ hdig)
          · exact step _ hf (isDigit_mem _ hdig)
      · split at hf
        · rename_i hdot
          refine step _ hf ?_
          have : charAt s i = '.' := by
            simp only [Bool.and_eq_true, beq_iff_eq] at hdot
            exact hdot.1.symm
          rw [this]; decide
        · split at hf
          · rename_i he
            simp only [Bool.and_eq_true] at he
            exact step _ hf (exponent_mem _ hbi he.1)
          · exact absurd hf (by simp)
    · split at hf
      · rename_i hdig
        exact step _ hf (isDigit_mem _ hdig)
      · split at hf
        · rename_i hm
          refine step _ hf ?_
          have : charAt s i = '-' := by
            simp only [Bool.and_eq_true, beq_iff_eq] at hm
            exact hm.1.symm
          rw [this]; decide
        · split at hf
          · rename_i hp
            refine step _ hf ?_
            have : charAt s i = '+' := by
              simp only [Bool.and_eq_true, beq_iff_eq] at hp
              exact hp.1.symm
            rw [this]; decide
          · exact absurd hf (by simp)

end RT8
section RT9

theorem strncmp_scan_eq (s1 s2 : List Char) :
    ∀ (k i : Nat), StrNCmp.scan s1 s2 true k i = 0 →
      ∀ j, i ≤ j → j < i + k → charAt s1 j = charAt s2 j := by
  intro k
  induction k with
  | zero => intro i _ j h1 h2; omega
  | succ n ih =>
    intro i h j h1 h2
    rw [StrNCmp.scan] at h
    split at h
    · exact absurd h (by decide)
    · rename_i hd
      by_cases hji : j = i
      · rw [hji]
        simpa [StrNCmp.differs] using hd
      · exact ih (i + 1) h j (by omega) (by omega)

theorem strncmp_zero (s1 s2 : List Char) (n : Nat) (h : (StrNCmp s1 s2 n == 0) = true) :
    StrNCmp.scan s1 s2 true n 0 = 0 := by
  unfold StrNCmp at h
  simp only [beq_iff_eq] at h
  by_contra hne
  rw [if_neg hne] at h
  exact hne h

theorem mem_charAt {t : List Char} {c : Char} (hc : c ∈ t) :
    ∃ j, j < t.length ∧ charAt t j = c := by
  obtain ⟨j, hj, e⟩ := List.getElem_of_mem hc
  refine ⟨j, hj, ?_⟩
  unfold charAt
  rw [List.getD_eq_getElem _ _ hj, e]

/-- A string that compares equal with a word of the literal alphabet is made of bytes
of the alphabet. -/
theorem word_alphabet (t w : List Char) (n : Nat) (hlen : t.length = n)
    (hw : ∀ j, j < n → charAt w j ∈ literalAlphabet)
    (h : (StrNCmp t w n == 0) = true) : ∀ c ∈ t, c ∈ literalAlphabet := by
  intro c hc
  obtain ⟨j, hj, e⟩ := mem_charAt hc
  have := strncmp_scan_eq t w n 0 (strncmp_zero t w n h) j (Nat.zero_le _) (by omega)
  rw [← e, this]
  exact hw j (by omega)

theorem decimal_alphabet (t : List Char) (hb : ∀ c ∈ t, c.toNat < 256)
    (h : IsDecimal t t.length = true) : ∀ c ∈ t, c ∈ literalAlphabet := by
  intro c hc
  obtain ⟨j, hj, e⟩ := mem_charAt hc
  have hbytes : ∀ j, j < t.length → (charAt t j).toNat < 256 := by
    intro j hj
    unfold charAt
    rw [List.getD_eq_getElem _ _ hj]
    exact hb _ (List.getElem_mem _)
  unfold IsDecimal at h
  simp only [if_true] at h
  generalize hst : (if (decide (t.length > 1) && charAt t 0 == '-') = true then 1 else 0) = st
    at h
  have hf : (IsDecimal.scan t st (t.length - st) st
      { f := true, en := false, dpnl := false, dpnr := false, e := 0, dp := 0 }).f = true := by
    split at h
    · exact absurd h (by simp)
    · exact h
  rw [← e]
  by_cases hjs : st ≤ j
  · exact decimal_scan_chars t st (t.length - st) st _ hf
      (fun j h1 h2 => hbytes j (by omega)) j hjs (by omega)
  · have hst1 : st = 1 ∧ charAt t 0 = '-' := by
      split at hst
      · rename_i hc1
        simp only [Bool.and_eq_true, beq_iff_eq] at hc1
        exact ⟨hst.symm, hc1.2⟩
      · omega
    have hj0 : j = 0 := by omega
    rw [hj0, hst1.2]; decide

/-- The content of a literal is made of bytes of the literal alphabet. -/
theorem isLiteral_alphabet (t : List Char) (hb : ∀ c ∈ t, c.toNat < 256)
    (h : IsLiteral t t.length = true) : ∀ c ∈ t, c ∈ literalAlphabet := by
  unfold IsLiteral at h
  simp only [Bool.or_eq_true] at h
  rcases h with (h | h) | h
  · unfold IsNull at h
    simp only [Bool.and_eq_true, beq_iff_eq] at h
    exact word_alphabet t "null".toList 4 h.1 (by decide) (by simpa using h.2)
  · unfold IsBoolean at h
    split at h
    · rename_i h1
      simp only [Bool.and_eq_true, beq_iff_eq] at h1
      exact word_alphabet t "true".toList 4 h1.1 (by decide) (by simpa using h1.2)
    · split at h
      · rename_i h1
        simp only [Bool.and_eq_true, beq_iff_eq] at h1
        exact word_alphabet t "false".toList 5 h1.1 (by decide) (by simpa using h1.2)
      · exact absurd h (by simp)
  · exact decimal_alphabet t hb h

end RT9
section RT10
variable {σ : Type}

theorem readable_facts (L : Nat) (v : JSONString) (h : v.readable L = true) :
    0 < v.string_.length ∧ v.length_ = v.string_.length ∧ v.string_.length < L ∧
    v.string_.length < 256 ∧ (∀ c ∈ v.string_, c ≠ NUL) ∧ (∀ c ∈ v.string_, c.toNat < 256) ∧
    (v.literal_ = true → v.is_value_ = true ∧ IsLiteral v.string_ v.string_.length = true) ∧
    (v.literal_ = false → escSafe false v.string_ = true) := by
  unfold JSONString.readable at h
  simp only [Bool.and_eq_true, decide_eq_true_eq, List.all_eq_true, bne_iff_ne, ne_eq] at h
  obtain ⟨⟨⟨⟨⟨h1, h2⟩, h3⟩, h4⟩, h5⟩, h6⟩ := h
  refine ⟨by omega, h2, h3, h4, fun c hc => (h5 c hc).1, fun c hc => (h5 c hc).2, ?_, ?_⟩
  · intro hl
    rw [hl] at h6
    simp only [if_true, Bool.and_eq_true] at h6
    rw [h2] at h6
    exact h6
  · intro hl
    rw [hl] at h6
    simpa using h6

/-- The value node that the parser makes of a pending readable value string is the
string node itself. -/
theorem ready_data (L : Nat) (s : List Char) (k : Nat) (v : JSONString)
    (hr : v.readable L = true) (hv : v.is_value_ = true) (hT : TextAt s k v.string_) :
    JSONString.Data L (JSONString.mkEmpty true) (ptrAt s (k : Int))
      ((if v.literal_ then 2 else 0) == 2)
      (wrapU8 (((k + v.string_.length : Nat) : Int) - (k : Int))) = (true, v) := by
  obtain ⟨r1, r2, r3, r4, r5, r6, r7, r8⟩ := readable_facts L v hr
  have e1 : ptrAt s (k : Int) = s.drop k := by simp [ptrAt]
  have e2 : ((k + v.string_.length : Nat) : Int) - (k : Int) = (v.string_.length : Int) := by
    push_cast; omega
  have e3 : ((if v.literal_ then 2 else 0) == 2) = v.literal_ := by
    cases v.literal_ <;> rfl
  rw [e1, e2, e3, data_value L s k v.string_.length v.string_ v.literal_ hT rfl r1 r3 r4 r5
    (fun h => (r7 h).2)]
  cases v
  simp only [Prod.mk.injEq, true_and, JSONString.mk.injEq] at r2 hv ⊢
  exact ⟨r2.symm, hv.symm, trivial⟩

/-- The scan of the separator: a pending value string is linked by the comma. -/
theorem separator_step (p : JSONParse) (cb : JSONTokenizer σ) (l : Nat) (s : List Char)
    (user : σ) (i : Nat) (ac mc : Int) (ch : List JSONElement) (prev : Option JSONElement)
    (st : ScanState σ) (x : List Char)
    (hcb : p.callbacks_ = false) (hss : p.sizeofString = 0)
    (hl : l ≤ 32767) (hd : ¬ (mc = 0 ∧ ac = 0)) (hac : 0 ≤ ac) (hmc : 0 ≤ mc)
    (hr : ScanState.Ready p.LENGTH s user i ac mc ch prev st)
    (hT : TextAt s i (Spec.separator prev ++ x))
    (hi : i + (Spec.separator prev).length ≤ l) :
    ∃ ev, FromString.advance p cb true l (Spec.separator prev).length st
      = some (ScanState.idle s user (i + (Spec.separator prev).length) ac mc
          (ch ++ pendingValue prev) ev) := by
  have hidle : ∀ ev, st = ScanState.idle s user i ac mc ch ev →
      Spec.separator prev = [] → pendingValue prev = [] →
      ∃ ev, FromString.advance p cb true l (Spec.separator prev).length st
        = some (ScanState.idle s user (i + (Spec.separator prev).length) ac mc
            (ch ++ pendingValue prev) ev) := by
    intro ev he h1 h2
    refine ⟨ev, ?_⟩
    rw [h1, h2, he]
    simp [FromString.advance]
  match prev, hr with
  | none, hr =>
    obtain ⟨ev, he⟩ := hr
    exact hidle ev he rfl rfl
  | some (JSONElement.ARRAY _), hr =>
    obtain ⟨ev, he⟩ := hr
    exact hidle ev he rfl rfl
  | some (JSONElement.MAP _), hr =>
    obtain ⟨ev, he⟩ := hr
    exact hidle ev he rfl rfl
  | some (JSONElement.STRING v), hr =>
    cases hv : v.is_value_
    · simp only [ScanState.Ready, hv, Bool.false_eq_true, if_false] at hr
      obtain ⟨ev, he⟩ := hr
      exact hidle ev he (by simp [Spec.separator, hv]) (by simp [pendingValue, hv])
    · simp only [ScanState.Ready, hv, if_true] at hr
      obtain ⟨hrd, k, ev, hTk, he⟩ := hr
      have hsep : Spec.separator (some (JSONElement.STRING v)) = ", ".toList := by
        simp [Spec.separator, hv]
      have hpend : pendingValue (some (JSONElement.STRING v)) = [JSONElement.STRING v] := by
        simp [pendingValue, hv]
      rw [hsep] at hT hi ⊢
      rw [hpend, he]
      obtain ⟨r1, _⟩ := readable_facts _ v hrd
      refine ⟨ev, ?_⟩
      exact advance_comma_pending p cb l s user i _ ac mc _ _ ch ev v hcb hss hl hd hac hmc
        (by cases v.literal_ <;> simp) (by omega) (by omega)
        (ready_data p.LENGTH s k v hrd hv hTk) (textAt_append hT).1 hi

end RT10
section RT11
variable {σ : Type}

theorem ready_idle (L : Nat) (s : List Char) (user : σ) (i : Nat) (ac mc : Int)
    (ch : List JSONElement) (e : JSONElement) (ev : Bool) (he : pendingValue (some e) = []) :
    ScanState.Ready L s user i ac mc ch (some e) (ScanState.idle s user i ac mc ch ev) := by
  cases e with
  | ARRAY o => exact ⟨ev, rfl⟩
  | MAP o => exact ⟨ev, rfl⟩
  | STRING v =>
    cases hv : v.is_value_
    · simp only [ScanState.Ready, hv, Bool.false_eq_true, if_false]
      exact ⟨ev, rfl⟩
    · simp [pendingValue, hv] at he

/-- The scan of the text of an opening marker. -/
theorem node_open (p : JSONParse) (cb : JSONTokenizer σ) (l : Nat) (s : List Char)
    (user : σ) (i : Nat) (ac mc : Int) (ch : List JSONElement) (prev : Option JSONElement)
    (st : ScanState σ) (x : List Char) (isMap : Bool) (next : Option JSONElement)
    (hcb : p.callbacks_ = false) (hsa : p.sizeofArray = 0) (hss : p.sizeofString = 0)
    (hl : l ≤ 32767) (hd : ¬ (mc = 0 ∧ ac = 0)) (hac : 0 ≤ ac) (hac2 : ac < 32767)
    (hmc : 0 ≤ mc) (hmc2 : mc < 32767)
    (hr : ScanState.Ready p.LENGTH s user i ac mc ch prev st)
    (hT : TextAt s i (Spec.nodeText prev (FromString.marker isMap true) next ++ x))
    (hi : i + (Spec.nodeText prev (FromString.marker isMap true) next).length ≤ l) :
    ∃ st', FromString.advance p cb true l
        (Spec.nodeText prev (FromString.marker isMap true) next).length st = some st' ∧
      ScanState.Ready p.LENGTH s user
        (i + (Spec.nodeText prev (FromString.marker isMap true) next).length)
        (Spec.arrayDepth ac (FromString.marker isMap true))
        (Spec.mapDepth mc (FromString.marker isMap true))
        (ch ++ pendingValue prev ++ linkedNode (FromString.marker isMap true))
        (some (FromString.marker isMap true)) st' := by
  have hnt : Spec.nodeText prev (FromString.marker isMap true) next
      = Spec.separator prev ++ (if isMap then "\x7b ".toList else "[ ".toList) := by
    cases isMap <;> rfl
  have hlen : (Spec.nodeText prev (FromString.marker isMap true) next).length
      = (Spec.separator prev).length + 2 := by
    rw [hnt]; cases isMap <;> simp
  have hda : Spec.arrayDepth ac (FromString.marker isMap true) = if isMap then ac else ac + 1 := by
    cases isMap <;> rfl
  have hdm : Spec.mapDepth mc (FromString.marker isMap true) = if isMap then mc + 1 else mc := by
    cases isMap <;> rfl
  have hlk : linkedNode (FromString.marker isMap true) = [FromString.marker isMap true] := by
    cases isMap <;> rfl
  rw [hlen] at hi
  rw [hlen, hda, hdm, hlk]
  rw [hnt, List.append_assoc] at hT
  obtain ⟨ev, h1⟩ := separator_step p cb l s user i ac mc ch prev st _ hcb hss hl hd hac hmc hr
    hT (by omega)
  have h2 := advance_open p cb l s user (i + (Spec.separator prev).length) ac mc
    (ch ++ pendingValue prev) ev isMap hcb hsa hl hac hac2 hmc hmc2
    (textAt_append (textAt_append hT).2).1 (by omega)
  refine ⟨_, advance_add p cb true l _ _ _ _ _ h1 h2, ?_⟩
  rw [← Nat.add_assoc]
  exact ready_idle _ _ _ _ _ _ _ _ _ (by cases isMap <;> rfl)

/-- The scan of the text of a key. -/
theorem node_key (p : JSONParse) (cb : JSONTokenizer σ) (l : Nat) (s : List Char)
    (user : σ) (i : Nat) (ac mc : Int) (ch : List JSONElement) (prev : Option JSONElement)
    (st : ScanState σ) (x : List Char) (k : JSONString) (next : Option JSONElement)
    (hcb : p.callbacks_ = false) (hss : p.sizeofString = 0)
    (hl : l ≤ 32767) (hd : ¬ (mc = 0 ∧ ac = 0)) (hac : 0 ≤ ac) (hmc : 0 ≤ mc)
    (hk : k.is_value_ = false) (hrd : k.readable p.LENGTH = true)
    (hr : ScanState.Ready p.LENGTH s user i ac mc ch prev st)
    (hT : TextAt s i (Spec.nodeText prev (JSONElement.STRING k) next ++ x))
    (hi : i + (Spec.nodeText prev (JSONElement.STRING k) next).length ≤ l) :
    ∃ st', FromString.advance p cb true l
        (Spec.nodeText prev (JSONElement.STRING k) next).length st = some st' ∧
      ScanState.Ready p.LENGTH s user
        (i + (Spec.nodeText prev (JSONElement.STRING k) next).length)
        (Spec.arrayDepth ac (JSONElement.STRING k)) (Spec.mapDepth mc (JSONElement.STRING k))
        (ch ++ pendingValue prev ++ linkedNode (JSONElement.STRING k))
        (some (JSONElement.STRING k)) st' := by
  obtain ⟨r1, r2, r3, r4, r5, r6, r7, r8⟩ := readable_facts _ k hrd
  have hlit : k.literal_ = false := by
    cases hl' : k.literal_
    · rfl
    · have := (r7 hl').1; rw [hk] at this; exact absurd this (by decide)
  have hnt : Spec.nodeText prev (JSONElement.STRING k) next
      = Spec.separator prev ++ ([DQUOTE] ++ k.string_ ++ [DQUOTE, ':']) := by
    simp [Spec.nodeText, Spec.stringText, Spec.quoting, hk, r2, r1]
  have hlen : (Spec.nodeText prev (JSONElement.STRING k) next).length
      = (Spec.separator prev).length + (k.string_.length + 3) := by
    rw [hnt]; simp
  have hlk : linkedNode (JSONElement.STRING k) = [JSONElement.STRING k] := by
    simp [linkedNode, hk]
  rw [hlen] at hi
  rw [hlen, hlk]
  rw [hnt, List.append_assoc] at hT
  simp only [Spec.arrayDepth, Spec.mapDepth]
  obtain ⟨ev, h1⟩ := separator_step p cb l s user i ac mc ch prev st _ hcb hss hl hd hac hmc hr
    hT (by omega)
  have h2 := advance_key p cb l s user ac mc (ch ++ pendingValue prev) ev k.string_
    (i + (Spec.separator prev).length) hcb hss hl hd hac hmc (r8 hlit) r1 r3 r4 r5
    (textAt_append (textAt_append hT).2).1 (by omega)
  have hnode : JSONString.mk k.string_ k.string_.length false false = k := by
    cases k
    simp only [JSONString.mk.injEq, true_and] at r2 hk hlit ⊢
    exact ⟨r2.symm, hk.symm, hlit.symm⟩
  rw [hnode] at h2
  refine ⟨_, advance_add p cb true l _ _ _ _ _ h1 h2, ?_⟩
  have e : i + ((Spec.separator prev).length + (k.string_.length + 3))
      = i + (Spec.separator prev).length + k.string_.length + 3 := by omega
  rw [e]
  exact ready_idle _ _ _ _ _ _ _ _ _ (by simp [pendingValue, hk])

end RT11
section RT12
variable {σ : Type}

/-- The scan of the text of a value string: the string is pending afterwards. -/
theorem node_value (p : JSONParse) (cb : JSONTokenizer σ) (l : Nat) (s : List Char)
    (user : σ) (i : Nat) (ac mc : Int) (ch : List JSONElement) (prev : Option JSONElement)
    (st : ScanState σ) (x : List Char) (v : JSONString) (next : Option JSONElement)
    (hcb : p.callbacks_ = false) (hss : p.sizeofString = 0)
    (hl : l ≤ 32767) (hd : ¬ (mc = 0 ∧ ac = 0)) (hac : 0 ≤ ac) (hmc : 0 ≤ mc)
    (hv : v.is_value_ = true) (hrd : v.readable p.LENGTH = true)
    (hr : ScanState.Ready p.LENGTH s user i ac mc ch prev st)
    (hT : TextAt s i (Spec.nodeText prev (JSONElement.STRING v) next ++ x))
    (hi : i + (Spec.nodeText prev (JSONElement.STRING v) next).length ≤ l) :
    ∃ st', FromString.advance p cb true l
        (Spec.nodeText prev (JSONElement.STRING v) next).length st = some st' ∧
      ScanState.Ready p.LENGTH s user
        (i + (Spec.nodeText prev (JSONElement.STRING v) next).length)
        (Spec.arrayDepth ac (JSONElement.STRING v)) (Spec.mapDepth mc (JSONElement.STRING v))
        (ch ++ pendingValue prev ++ linkedNode (JSONElement.STRING v))
        (some (JSONElement.STRING v)) st' := by
  obtain ⟨r1, r2, r3, r4, r5, r6, r7, r8⟩ := readable_facts _ v hrd
  have hlk : linkedNode (JSONElement.STRING v) = [] := by simp [linkedNode, hv]
  rw [hlk, List.append_nil]
  simp only [Spec.arrayDepth, Spec.mapDepth]
  cases hlit : v.literal_
  · have hnt : Spec.nodeText prev (JSONElement.STRING v) next
        = Spec.separator prev ++ ([DQUOTE] ++ v.string_ ++ [DQUOTE]) := by
      simp [Spec.nodeText, Spec.stringText, Spec.quoting, hv, hlit, r2, r1]
    have hlen : (Spec.nodeText prev (JSONElement.STRING v) next).length
        = (Spec.separator prev).length + (v.string_.length + 2) := by
      rw [hnt]; simp
    rw [hlen] at hi
    rw [hlen]
    rw [hnt, List.append_assoc] at hT
    obtain ⟨ev, h1⟩ := separator_step p cb l s user i ac mc ch prev st _ hcb hss hl hd hac hmc
      hr hT (by omega)
    have hT2 := (textAt_append (textAt_append hT).2).1
    have h2 := advance_string p cb l s user ac mc (ch ++ pendingValue prev) ev v.string_
      (i + (Spec.separator prev).length) hl hd hac hmc (r8 hlit) hT2 (by omega)
    refine ⟨_, advance_add p cb true l _ _ _ _ _ h1 h2, ?_⟩
    have hcontent : TextAt s (i + (Spec.separator prev).length + 1) v.string_ := by
      have h3 : TextAt s (i + (Spec.separator prev).length) (DQUOTE :: (v.string_ ++ [DQUOTE])) := by
        simpa [List.append_assoc] using hT2
      exact (textAt_append (textAt_cons h3).2).1
    simp only [ScanState.Ready, hv, if_true]
    refine ⟨hrd, i + (Spec.separator prev).length + 1, ev, hcontent, ?_⟩
    rw [hlit]
    have e : i + ((Spec.separator prev).length + (v.string_.length + 2))
        = i + (Spec.separator prev).length + v.string_.length + 2 := by omega
    rw [e]
    rfl
  · have hnt : Spec.nodeText prev (JSONElement.STRING v) next
        = Spec.separator prev ++ v.string_ := by
      simp [Spec.nodeText, Spec.stringText, Spec.quoting, hv, hlit, r2, r1]
    have hlen : (Spec.nodeText prev (JSONElement.STRING v) next).length
        = (Spec.separator prev).length + v.string_.length := by
      rw [hnt]; simp
    rw [hlen] at hi
    rw [hlen]
    rw [hnt, List.append_assoc] at hT
    obtain ⟨ev, h1⟩ := separator_step p cb l s user i ac mc ch prev st _ hcb hss hl hd hac hmc
      hr hT (by omega)
    have hT2 := (textAt_append (textAt_append hT).2).1
    have h2 := advance_literal p cb l s user ac mc (ch ++ pendingValue prev) ev v.string_
      (i + (Spec.separator prev).length) hl hd hac hmc
      (by intro h; rw [h] at r1; simp at r1)
      (isLiteral_alphabet v.string_ r6 (r7 hlit).2) hT2 (by omega)
    refine ⟨_, advance_add p cb true l _ _ _ _ _ h1 h2, ?_⟩
    simp only [ScanState.Ready, hv, if_true]
    refine ⟨hrd, i + (Spec.separator prev).length, ev, hT2, ?_⟩
    rw [hlit]
    have e : i + ((Spec.separator prev).length + v.string_.length)
        = i + (Spec.separator prev).length + v.string_.length := by omega
    rw [e]
    rfl

/-- The two passes on ` ]` or ` }`: after the space, the pass on the bracket links a
pending value string and then the closing marker. -/
theorem close_step (p : JSONParse) (cb : JSONTokenizer σ) (l : Nat) (s : List Char)
    (user : σ) (i : Nat) (ac mc : Int) (ch : List JSONElement) (prev : Option JSONElement)
    (st : ScanState σ) (x : List Char) (isMap : Bool)
    (hcb : p.callbacks_ = false) (hsa : p.sizeofArray = 0) (hss : p.sizeofString = 0)
    (hl : l ≤ 32767) (hd : ¬ (mc = 0 ∧ ac = 0)) (hac : 0 ≤ ac) (hac2 : ac ≤ 32767)
    (hmc : 0 ≤ mc) (hmc2 : mc ≤ 32767)
    (hda : 0 ≤ (if isMap then ac else ac - 1)) (hdm : 0 ≤ (if isMap then mc - 1 else mc))
    (hr : ScanState.Ready p.LENGTH s user i ac mc ch prev st)
    (hT : TextAt s i ((if isMap then " \x7d".toList else " ]".toList) ++ x))
    (hi : i + 2 ≤ l) :
    ∃ (st1 : ScanState σ) (ev : Bool),
      FromString.advance p cb true l 1 st = some st1 ∧ st1.i = i + 1 ∧
      FromString.body p cb true st1
        = ScanState.idle s user (i + 1) (if isMap then ac else ac - 1)
            (if isMap then mc - 1 else mc)
            (ch ++ pendingValue prev ++ [FromString.marker isMap false]) ev := by
  have hT' : TextAt s i ([' ', if isMap then '\x7d' else ']'] ++ x) := by
    cases isMap <;> exact hT
  obtain ⟨hc, hT2⟩ := textAt_cons hT'
  obtain ⟨hc2, _⟩ := textAt_cons hT2
  have hidle : ∀ ev, st = ScanState.idle s user i ac mc ch ev → pendingValue prev = [] →
      ∃ (st1 : ScanState σ) (ev : Bool),
        FromString.advance p cb true l 1 st = some st1 ∧ st1.i = i + 1 ∧
        FromString.body p cb true st1
          = ScanState.idle s user (i + 1) (if isMap then ac else ac - 1)
              (if isMap then mc - 1 else mc)
              (ch ++ pendingValue prev ++ [FromString.marker isMap false]) ev := by
    intro ev he hp
    refine ⟨ScanState.idle s user (i + 1) ac mc ch ev, ev, ?_, rfl, ?_⟩
    · rw [he]
      exact advance_space p cb l s user i 1 ac mc _ _ ch ev hl hd hac hmc hc (by omega)
    · rw [hp, List.append_nil]
      exact body_idle_close p cb s user (i + 1) ac mc ch ev isMap hcb hsa hc2 hda hac2 hdm hmc2
  match prev, hr with
  | none, hr =>
    obtain ⟨ev, he⟩ := hr
    exact hidle ev he rfl
  | some (JSONElement.ARRAY _), hr =>
    obtain ⟨ev, he⟩ := hr
    exact hidle ev he rfl
  | some (JSONElement.MAP _), hr =>
    obtain ⟨ev, he⟩ := hr
    exact hidle ev he rfl
  | some (JSONElement.STRING v), hr =>
    cases hv : v.is_value_
    · simp only [ScanState.Ready, hv, Bool.false_eq_true, if_false] at hr
      obtain ⟨ev, he⟩ := hr
      exact hidle ev he (by simp [pendingValue, hv])
    · simp only [ScanState.Ready, hv, if_true] at hr
      obtain ⟨hrd, k, ev, hTk, he⟩ := hr
      have hpend : pendingValue (some (JSONElement.STRING v)) = [JSONElement.STRING v] := by
        simp [pendingValue, hv]
      rw [hpend, he]
      refine ⟨_, false, advance_space p cb l s user i _ ac mc _ _ ch ev hl hd hac hmc hc
        (by omega), rfl, ?_⟩
      exact body_pending_close p cb s user (i + 1) _ ac mc _ _ ch ev isMap v hcb hsa hss hc2
        (by omega) (ready_data p.LENGTH s k v hrd hv hTk) hda hac2 hdm hmc2

end RT12
section RT13
variable {σ : Type}

theorem lookAhead_cases (next : Option JSONElement) :
    Spec.lookAhead next = ", ".toList ∨ Spec.lookAhead next = [] := by
  by_cases h : FromObject.nextOpens next = true
  · exact Or.inl (lookAhead_of_opens next h)
  · exact Or.inr (lookAhead_of_not_opens next h)

/-- The scan of the text of a closing marker after which a depth is still positive. -/
theorem node_close (p : JSONParse) (cb : JSONTokenizer σ) (l : Nat) (s : List Char)
    (user : σ) (i : Nat) (ac mc : Int) (ch : List JSONElement) (prev : Option JSONElement)
    (st : ScanState σ) (x : List Char) (isMap : Bool) (next : Option JSONElement)
    (hcb : p.callbacks_ = false) (hsa : p.sizeofArray = 0) (hss : p.sizeofString = 0)
    (hl : l ≤ 32767) (hd : ¬ (mc = 0 ∧ ac = 0)) (hac : 0 ≤ ac) (hac2 : ac ≤ 32767)
    (hmc : 0 ≤ mc) (hmc2 : mc ≤ 32767)
    (hda : 0 ≤ Spec.arrayDepth ac (FromString.marker isMap false))
    (hdm : 0 ≤ Spec.mapDepth mc (FromString.marker isMap false))
    (hdn : ¬ (Spec.mapDepth mc (FromString.marker isMap false) = 0 ∧
      Spec.arrayDepth ac (FromString.marker isMap false) = 0))
    (hr : ScanState.Ready p.LENGTH s user i ac mc ch prev st)
    (hT : TextAt s i (Spec.nodeText prev (FromString.marker isMap false) next ++ x))
    (hi : i + (Spec.nodeText prev (FromString.marker isMap false) next).length ≤ l) :
    ∃ st', FromString.advance p cb true l
        (Spec.nodeText prev (FromString.marker isMap false) next).length st = some st' ∧
      ScanState.Ready p.LENGTH s user
        (i + (Spec.nodeText prev (FromString.marker isMap false) next).length)
        (Spec.arrayDepth ac (FromString.marker isMap false))
        (Spec.mapDepth mc (FromString.marker isMap false))
        (ch ++ pendingValue prev ++ linkedNode (FromString.marker isMap false))
        (some (FromString.marker isMap false)) st' := by
  have hnt : Spec.nodeText prev (FromString.marker isMap false) next
      = (if isMap then " \x7d".toList else " ]".toList) ++ Spec.lookAhead next := by
    cases isMap <;> rfl
  have e1 : Spec.arrayDepth ac (FromString.marker isMap false)
      = if isMap then ac else ac - 1 := by cases isMap <;> rfl
  have e2 : Spec.mapDepth mc (FromString.marker isMap false)
      = if isMap then mc - 1 else mc := by cases isMap <;> rfl
  have hlk : linkedNode (FromString.marker isMap false) = [FromString.marker isMap false] := by
    cases isMap <;> rfl
  have hlen2 : (if isMap then " \x7d".toList else " ]".toList).length = 2 := by
    cases isMap <;> rfl
  have hlen : (Spec.nodeText prev (FromString.marker isMap false) next).length
      = 2 + (Spec.lookAhead next).length := by
    rw [hnt, List.length_append, hlen2]
  rw [hlen] at hi
  rw [hlen, hlk]
  rw [e1] at hda hdn
  rw [e2] at hdm hdn
  rw [e1, e2]
  rw [hnt, List.append_assoc] at hT
  obtain ⟨st1, ev, a1, a2, a3⟩ := close_step p cb l s user i ac mc ch prev st _ isMap hcb hsa
    hss hl hd hac hac2 hmc hmc2 hda hdm hr hT (by omega)
  have a4 : FromString.advance p cb true l 1 st1
      = some (ScanState.idle s user (i + 2) (if isMap then ac else ac - 1)
          (if isMap then mc - 1 else mc)
          (ch ++ pendingValue prev ++ [FromString.marker isMap false]) ev) := by
    rw [advance_step p cb l st1 _ (by rw [a2]; omega) a3
      (leaves_mkAt p _ _ _ _ _ _ _ _ _ _ _ _ hdn)]
    unfold ScanState.idle
    rw [next_mkAt _ _ _ _ _ _ _ _ _ _ _ _ (by omega)]
  have a5 := advance_add p cb true l 1 1 _ _ _ a1 a4
  have hT2 : TextAt s (i + 2) (Spec.lookAhead next) := by
    have := (textAt_append (textAt_append hT).2).1
    rw [hlen2] at this
    exact this
  rcases lookAhead_cases next with hla | hla
  · rw [hla] at hT2 hi ⊢
    have a6 := advance_comma_idle p cb l s user (i + 2) _ _
      (ch ++ pendingValue prev ++ [FromString.marker isMap false]) ev hl hdn hda hdm hT2
      (by simp at hi; omega)
    refine ⟨_, advance_add p cb true l _ _ _ _ _ a5 a6, ?_⟩
    exact ready_idle _ _ _ _ _ _ _ _ _ (by cases isMap <;> rfl)
  · rw [hla]
    refine ⟨_, a5, ?_⟩
    exact ready_idle _ _ _ _ _ _ _ _ _ (by cases isMap <;> rfl)

end RT13
section RT14
variable {σ : Type}

theorem readable_of_all {L : Nat} {x : JSONElement} {rest : List JSONElement}
    (h : (x :: rest).all (JSONElement.readable L) = true) :
    x.readable L = true ∧ rest.all (JSONElement.readable L) = true := by
  simpa using h

theorem marker_array (o : Bool) : JSONElement.ARRAY o = FromString.marker false o := rfl

theorem marker_map (o : Bool) : JSONElement.MAP o = FromString.marker true o := rfl

/-- The scan of the text of a node after which a depth is still positive. -/
theorem node_step (p : JSONParse) (cb : JSONTokenizer σ) (l : Nat) (s : List Char)
    (user : σ) (i : Nat) (ac mc : Int) (ch : List JSONElement) (prev : Option JSONElement)
    (st : ScanState σ) (x : List Char) (e : JSONElement) (next : Option JSONElement)
    (hcb : p.callbacks_ = false) (hsa : p.sizeofArray = 0) (hss : p.sizeofString = 0)
    (hl : l ≤ 32767) (hd : ¬ (mc = 0 ∧ ac = 0)) (hac : 0 ≤ ac) (hac2 : ac < 32767)
    (hmc : 0 ≤ mc) (hmc2 : mc < 32767) (hre : e.readable p.LENGTH = true)
    (hda : 0 ≤ Spec.arrayDepth ac e) (hdm : 0 ≤ Spec.mapDepth mc e)
    (hdn : ¬ (Spec.mapDepth mc e = 0 ∧ Spec.arrayDepth ac e = 0))
    (hr : ScanState.Ready p.LENGTH s user i ac mc ch prev st)
    (hT : TextAt s i (Spec.nodeText prev e next ++ x))
    (hi : i + (Spec.nodeText prev e next).length ≤ l) :
    ∃ st', FromString.advance p cb true l (Spec.nodeText prev e next).length st = some st' ∧
      ScanState.Ready p.LENGTH s user (i + (Spec.nodeText prev e next).length)
        (Spec.arrayDepth ac e) (Spec.mapDepth mc e)
        (ch ++ pendingValue prev ++ linkedNode e) (some e) st' := by
  cases e with
  | STRING v =>
    cases hv : v.is_value_
    · exact node_key p cb l s user i ac mc ch prev st x v next hcb hss hl hd hac hmc hv hre hr
        hT hi
    · exact node_value p cb l s user i ac mc ch prev st x v next hcb hss hl hd hac hmc hv hre
        hr hT hi
  | ARRAY o =>
    rw [marker_array] at hda hdm hdn hT hi ⊢
    cases o
    · exact node_close p cb l s user i ac mc ch prev st x false next hcb hsa hss hl hd hac
        (by omega) hmc (by omega) hda hdm hdn hr hT hi
    · exact node_open p cb l s user i ac mc ch prev st x false next hcb hsa hss hl hd hac hac2
        hmc hmc2 hr hT hi
  | MAP o =>
    rw [marker_map] at hda hdm hdn hT hi ⊢
    cases o
    · exact node_close p cb l s user i ac mc ch prev st x true next hcb hsa hss hl hd hac
        (by omega) hmc (by omega) hda hdm hdn hr hT hi
    · exact node_open p cb l s user i ac mc ch prev st x true next hcb hsa hss hl hd hac hac2
        hmc hmc2 hr hT hi

theorem pending_linked (e : JSONElement) :
    linkedNode e ++ pendingValue (some e) = [e] := by
  cases e with
  | ARRAY o => rfl
  | MAP o => rfl
  | STRING v => cases hv : v.is_value_ <;> simp [linkedNode, pendingValue, hv]

/-- A node after which both depths are 0, from depths that are not both 0, is a closing
marker. -/
theorem closing_of_zero (ac mc : Int) (e : JSONElement) (hac : 0 ≤ ac) (hmc : 0 ≤ mc)
    (hd : ¬ (mc = 0 ∧ ac = 0))
    (hz : Spec.mapDepth mc e = 0 ∧ Spec.arrayDepth ac e = 0) :
    ∃ isMap, e = FromString.marker isMap false := by
  cases e with
  | STRING v => exact absurd hz hd
  | ARRAY o =>
    cases o
    · exact ⟨false, rfl⟩
    · simp only [Spec.mapDepth, Spec.arrayDepth] at hz; omega
  | MAP o =>
    cases o
    · exact ⟨true, rfl⟩
    · simp only [Spec.mapDepth, Spec.arrayDepth] at hz; omega

end RT14
section RT15
variable {σ : Type}

theorem leaves_idle_zero (p : JSONParse) (s : List Char) (user : σ) (i : Nat)
    (ch : List JSONElement) (ev : Bool) (hlim : p.limit_node_level_ = true) :
    FromString.leaves p (ScanState.idle s user i 0 0 ch ev) = true := by
  simp [FromString.leaves, ScanState.idle, ScanState.mkAt, hlim]

/-- The scan of the texts of the nodes `rest` from the state right after the node
`prev`: it ends with the pass on the closing bracket that brings both depths to 0, and
the chain is then complete. -/
theorem parse_nodes (p : JSONParse) (cb : JSONTokenizer σ) (l : Nat) (s : List Char)
    (user : σ) (hcb : p.callbacks_ = false) (hsa : p.sizeofArray = 0)
    (hss : p.sizeofString = 0) (hlim : p.limit_node_level_ = true) (hl : l ≤ 32767) :
    ∀ (rest : List JSONElement) (prev : Option JSONElement) (st : ScanState σ) (i : Nat)
      (ac mc : Int) (ch : List JSONElement) (fuel : Nat),
      ScanState.Ready p.LENGTH s user i ac mc ch prev st →
      rest.all (JSONElement.readable p.LENGTH) = true →
      Spec.closesAtEnd ac mc rest = true →
      ¬ (mc = 0 ∧ ac = 0) → 0 ≤ ac → ac < 32767 → 0 ≤ mc → mc < 32767 →
      TextAt s i (Spec.serialize true prev ac mc rest) →
      i + (Spec.serialize true prev ac mc rest).length ≤ l →
      (Spec.serialize true prev ac mc rest).length ≤ fuel →
      ∃ (iF : Nat) (ev : Bool), FromString.loop p cb true l fuel st
        = ScanState.idle s user iF 0 0 (ch ++ pendingValue prev ++ rest) ev := by
  intro rest
  induction rest with
  | nil =>
    intro prev st i ac mc ch fuel _ _ hclose
    simp [Spec.closesAtEnd] at hclose
  | cons e rest' ih =>
    intro prev st i ac mc ch fuel hr hall hclose hd hac hac2 hmc hmc2 hT hi hfuel
    obtain ⟨hre, hall'⟩ := readable_of_all hall
    rw [Spec.closesAtEnd] at hclose
    simp only [Bool.and_eq_true, decide_eq_true_eq] at hclose
    obtain ⟨⟨⟨⟨b1, b2⟩, b3⟩, b4⟩, hrest⟩ := hclose
    rw [Spec.serialize] at hT hi hfuel
    by_cases hz : Spec.mapDepth mc e = 0 ∧ Spec.arrayDepth ac e = 0
    · have hzb : (Spec.arrayDepth ac e == 0 && Spec.mapDepth mc e == 0) = true := by
        simp [hz.1, hz.2]
      rw [if_pos ⟨by simp [hz.2], by simp [hz.1]⟩] at hrest
      have hnil : rest' = [] := by simpa using hrest
      subst hnil
      obtain ⟨isMap, he⟩ := closing_of_zero ac mc e hac hmc hd hz
      subst he
      have hnt : Spec.nodeText prev (FromString.marker isMap false) ([] : List JSONElement).head?
          = (if isMap then " \x7d".toList else " ]".toList) := by
        cases isMap <;> rfl
      have hlen2 : (if isMap then " \x7d".toList else " ]".toList).length = 2 := by
        cases isMap <;> rfl
      have e1 : Spec.arrayDepth ac (FromString.marker isMap false)
          = if isMap then ac else ac - 1 := by cases isMap <;> rfl
      have e2 : Spec.mapDepth mc (FromString.marker isMap false)
          = if isMap then mc - 1 else mc := by cases isMap <;> rfl
      simp only [hzb, Bool.true_and, if_true, List.append_nil] at hT hi hfuel
      rw [hnt] at hT hi hfuel
      rw [hlen2] at hi hfuel
      rw [e1] at hz b1
      rw [e2] at hz b3
      obtain ⟨st1, ev, a1, a2, a3⟩ := close_step p cb l s user i ac mc ch prev st [] isMap hcb
        hsa hss hl hd hac (by omega) hmc (by omega) b1 b3 hr (by simpa using hT) (by omega)
      rw [hz.1, hz.2] at a3
      obtain ⟨f, hf⟩ : ∃ f, fuel = (f + 1) + 1 := ⟨fuel - 2, by omega⟩
      refine ⟨i + 1, ev, ?_⟩
      rw [hf, advance_loop p cb true l 1 (f + 1) st st1 a1,
        loop_succ_pos p cb true l f st1 (by rw [a2]; omega), a3,
        leaves_idle_zero p s user (i + 1) _ ev hlim]
      simp
    · have hzb : (Spec.arrayDepth ac e == 0 && Spec.mapDepth mc e == 0) = false := by
        simp only [Bool.and_eq_false_imp, beq_iff_eq, beq_eq_false_iff_ne, ne_eq]
        exact fun h1 h2 => hz ⟨h2, h1⟩
      rw [if_neg (by
        simp only [beq_iff_eq, not_and]
        exact fun h1 h2 => hz ⟨h2, h1⟩)] at hrest
      simp only [hzb, Bool.and_false, Bool.false_eq_true, if_false] at hT hi hfuel
      rw [List.length_append] at hi hfuel
      obtain ⟨st', s1, s2⟩ := node_step p cb l s user i ac mc ch prev st _ e rest'.head? hcb hsa
        hss hl hd hac hac2 hmc hmc2 hre b1 b3 hz hr hT (by omega)
      obtain ⟨f, hf⟩ : ∃ f, fuel = f + (Spec.nodeText prev e rest'.head?).length :=
        ⟨fuel - (Spec.nodeText prev e rest'.head?).length, by omega⟩
      obtain ⟨iF, ev, hfin⟩ := ih (some e) st' (i + (Spec.nodeText prev e rest'.head?).length)
        (Spec.arrayDepth ac e) (Spec.mapDepth mc e) (ch ++ pendingValue prev ++ linkedNode e) f
        s2 hall' hrest hz b1 b2 b3 b4 (textAt_append hT).2 (by omega) (by omega)
      refine ⟨iF, ev, ?_⟩
      rw [hf, advance_loop p cb true l _ f st st' s1, hfin]
      congr 1
      rw [List.append_assoc, List.append_assoc, List.append_assoc,
        ← List.append_assoc (linkedNode e), pending_linked e]
      simp

end RT15
section RT16
variable {σ : Type}

/-- The first pass of a scan with the chain asked for, on `[` or `{`: the marker is
linked and `*h` is set. -/
theorem body_init_open (p : JSONParse) (cb : JSONTokenizer σ) (s : List Char) (user : σ)
    (isMap : Bool) (hcb : p.callbacks_ = false) (hsa : p.sizeofArray = 0)
    (hc : charAt s 0 = if isMap then '\x7b' else '[') :
    FromString.body p cb true (FromString.init user s 0)
      = ScanState.idle s user 0 (if isMap then 0 else 1) (if isMap then 1 else 0)
          [FromString.marker isMap true] false := by
  have w1 : wrapI16 1 = 1 := by decide
  cases isMap
  · simp only [Bool.false_eq_true, if_false] at hc ⊢
    simp [FromString.body, FromString.quoted, FromString.dispatch, FromString.switch,
      FromString.caseOpen, FromString.callOpen, FromString.init, ScanState.idle, ScanState.mkAt,
      hc, hcb, hsa, ScanState.link, ScanState.bump, ScanState.addSize, w1, wrapU16,
      FromString.marker, FromString.after, FromString.setHead, FromString.stopError,
      FromString.depthError, FromString.negativeArray, FromString.negativeMap]
  · simp only [if_true] at hc ⊢
    simp [FromString.body, FromString.quoted, FromString.dispatch, FromString.switch,
      FromString.caseOpen, FromString.callOpen, FromString.init, ScanState.idle, ScanState.mkAt,
      hc, hcb, hsa, ScanState.link, ScanState.bump, ScanState.addSize, w1, wrapU16,
      FromString.marker, FromString.after, FromString.setHead, FromString.stopError,
      FromString.depthError, FromString.negativeArray, FromString.negativeMap]

theorem opens_marker (e : JSONElement) (h : e.opens = true) :
    ∃ isMap, e = FromString.marker isMap true := by
  cases e with
  | STRING v => simp [JSONElement.opens] at h
  | ARRAY o =>
    simp only [JSONElement.opens] at h
    exact ⟨false, by rw [h]; rfl⟩
  | MAP o =>
    simp only [JSONElement.opens] at h
    exact ⟨true, by rw [h]; rfl⟩

/-- The scan of the text of a well-formed chain, on a platform where a node costs
nothing: it ends with the complete chain linked, nothing pending and both depths 0. -/
theorem scan_wellFormed (p : JSONParse) (cb : JSONTokenizer σ) (s : List Char) (user : σ)
    (c : List JSONElement)
    (hcb : p.callbacks_ = false) (hsa : p.sizeofArray = 0) (hss : p.sizeofString = 0)
    (hlim : p.limit_node_level_ = true)
    (hwf : Spec.wellFormed p.LENGTH c = true)
    (hs : cstr s = Spec.serialize true none 0 0 c)
    (hlen : (Spec.serialize true none 0 0 c).length ≤ 32767) :
    ∃ (iF : Nat) (ev : Bool),
      FromString.scan p cb user s true 0 = ScanState.idle s user iF 0 0 c ev := by
  unfold Spec.wellFormed at hwf
  simp only [Bool.and_eq_true] at hwf
  obtain ⟨⟨hopen, hall⟩, hclose⟩ := hwf
  match c, hopen with
  | e :: rest, hopen =>
    simp only [List.head?_cons] at hopen
    obtain ⟨isMap, he⟩ := opens_marker e hopen
    subst he
    obtain ⟨_, hall'⟩ := readable_of_all hall
    have hT0 : TextAt s 0 (Spec.serialize true none 0 0 (FromString.marker isMap true :: rest)) := by
      unfold TextAt
      rw [List.drop_zero, ← hs]
      exact List.takeWhile_prefix _
    have hl : wrapU16 (strlen s) = (Spec.serialize true none 0 0
        (FromString.marker isMap true :: rest)).length := by
      unfold strlen; rw [hs]; unfold wrapU16; omega
    have e1 : Spec.arrayDepth 0 (FromString.marker isMap true) = if isMap then 0 else 1 := by
      cases isMap <;> rfl
    have e2 : Spec.mapDepth 0 (FromString.marker isMap true) = if isMap then 1 else 0 := by
      cases isMap <;> rfl
    have hdn : ¬ ((if isMap then (1 : Int) else 0) = 0 ∧ (if isMap then (0 : Int) else 1) = 0) := by
      cases isMap <;> simp
    have hnt : Spec.nodeText none (FromString.marker isMap true) rest.head?
        = [if isMap then '\x7b' else '[', ' '] := by
      cases isMap <;> rfl
    rw [Spec.closesAtEnd] at hclose
    simp only [Bool.and_eq_true, decide_eq_true_eq] at hclose
    obtain ⟨_, hrest⟩ := hclose
    rw [e1, e2] at hrest
    rw [if_neg (by
      simp only [beq_iff_eq, not_and]
      exact fun h1 h2 => hdn ⟨h2, h1⟩)] at hrest
    have hzb : ((if isMap then (0 : Int) else 1) == 0 && (if isMap then (1 : Int) else 0) == 0)
        = false := by cases isMap <;> rfl
    rw [Spec.serialize, e1, e2, hnt] at hT0 hl hlen
    simp only [hzb, Bool.and_false, Bool.false_eq_true, if_false] at hT0 hl hlen
    obtain ⟨hc0, hT1⟩ := textAt_cons hT0
    obtain ⟨hc1, hT2⟩ := textAt_cons hT1
    simp only [List.cons_append, List.nil_append, List.length_cons] at hl hlen
    generalize hL : wrapU16 (strlen s) = l at hl
    have h0a : (0 : Int) ≤ (if isMap then 0 else 1) := by cases isMap <;> simp
    have h0m : (0 : Int) ≤ (if isMap then 1 else 0) := by cases isMap <;> simp
    have h1a : (if isMap then (0 : Int) else 1) < 32767 := by cases isMap <;> simp
    have h1m : (if isMap then (1 : Int) else 0) < 32767 := by cases isMap <;> simp
    obtain ⟨iF, ev, hfin⟩ := parse_nodes p cb l s user hcb hsa hss hlim (by omega) rest
      (some (FromString.marker isMap true))
      (ScanState.idle s user 2 (if isMap then 0 else 1) (if isMap then 1 else 0)
        [FromString.marker isMap true] false) 2 _ _ [FromString.marker isMap true]
      (2 * l - 1)
      (ready_idle _ _ _ _ _ _ _ _ _ (by cases isMap <;> rfl)) hall' hrest hdn h0a h1a h0m h1m
      hT2 (by omega) (by omega)
    refine ⟨iF, ev, ?_⟩
    unfold FromString.scan
    rw [hL]
    have hf : 2 * l + 1 = ((2 * l - 1) + 1) + 1 := by omega
    have hb0 := body_init_open p cb s user isMap hcb hsa hc0
    have hi0 : (FromString.init user s 0).i < l := by
      show 0 < l; omega
    rw [hf, loop_succ_pos p cb true l _ _ hi0, hb0]
    unfold ScanState.idle at hfin ⊢
    rw [leaves_mkAt p _ _ _ _ _ _ _ _ _ _ _ _ hdn]
    simp only [Bool.false_eq_true, if_false]
    rw [next_mkAt _ _ _ _ _ _ _ _ _ _ _ _ (by omega),
      advance_loop p cb true l 1 (2 * l - 1) _ _
        (advance_space p cb l s user 1 1 _ _ _ _ _ false (by omega) hdn h0a h0m hc1 (by omega)),
      hfin]
    cases isMap <;> simp [pendingValue, FromString.marker]

end RT16
section RT17
variable {σ : Type}

theorem finish_idle_zero (p : JSONParse) (s : List Char) (user : σ) (i : Nat)
    (ch : List JSONElement) (ev : Bool) :
    FromString.finish p (ScanState.idle s user i 0 0 ch ev)
      = ScanState.idle s user i 0 0 ch ev := by
  simp [FromString.finish, FromString.unterminated, FromString.unbalanced, FromString.openMap,
    FromString.openArray, ScanState.idle, ScanState.mkAt]

/-- The parse of the text of a well-formed chain under a memory limit that the chain
fits in: no error, and the chain at `*h` is the chain. -/
theorem FromString_wellFormed (p : JSONParse) (cb : JSONTokenizer σ) (s : List Char)
    (user : σ) (c : List JSONElement)
    (hcb : p.callbacks_ = false) (hlim : p.limit_node_level_ = true)
    (hwf : Spec.wellFormed p.LENGTH c = true)
    (hs : cstr s = Spec.serialize true none 0 0 c)
    (hlen : (Spec.serialize true none 0 0 c).length ≤ 32767)
    (hmem : chainSize p c ≤ p.limit_memory_) (hmax : p.limit_memory_ ≤ 65535) :
    (FromString p cb user s true).parser.last_error_ = ERR.ERR_NONE ∧
    (FromString p cb user s true).head = c := by
  obtain ⟨iF, ev, hscan⟩ := scan_wellFormed p.free cb s user c hcb rfl rfl hlim hwf hs hlen
  have hfree : (FromString p.free cb user s true).parser.last_error_ = ERR.ERR_NONE ∧
      (FromString p.free cb user s true).head = c := by
    unfold FromString
    simp only []
    rw [hscan, finish_idle_zero]
    exact ⟨rfl, by simp [ScanState.headChain, ScanState.idle, ScanState.mkAt]⟩
  obtain ⟨_, b2, _, _, b5, _⟩ := FromString_budget p cb user s true 0 hmax
    (by rw [hscan]; exact hmem) hfree.1
  exact ⟨b5, b2.trans hfree.2⟩

theorem isCString_of_readable (L : Nat) (c : List JSONElement)
    (h : c.all (JSONElement.readable L) = true) : c.all JSONElement.isCString = true := by
  rw [List.all_eq_true] at h ⊢
  intro e he
  have hr := h e he
  cases e with
  | ARRAY o => rfl
  | MAP o => rfl
  | STRING v =>
    obtain ⟨_, _, _, r4, r5, _⟩ := readable_facts L v hr
    exact (isCString_iff v).2 ⟨r5, r4⟩

/-- Serializing a well-formed chain and parsing the text gives the chain back. -/
theorem parse_serialized (p : JSONParse) (cb : JSONTokenizer σ) (user : σ) (buf : UserBuffer)
    (c : List JSONElement)
    (hcb : p.callbacks_ = false) (hlim : p.limit_node_level_ = true)
    (h1 : 0 < buf.max_length_) (h2 : buf.max_length_ ≤ buf.buffer_.length)
    (h3 : buf.max_length_ ≤ 65535)
    (hwf : Spec.wellFormed p.LENGTH c = true)
    (hok : (FromObject p cb user buf c).ok = true)
    (hlen : (FromObject p cb user buf c).text.length ≤ 32767)
    (hmem : chainSize p c ≤ p.limit_memory_) (hmax : p.limit_memory_ ≤ 65535) :
    (FromString p cb user (FromObject p cb user buf c).buf.Get true).parser.last_error_
      = ERR.ERR_NONE ∧
    (FromString p cb user (FromObject p cb user buf c).buf.Get true).head = c := by
  have hall : c.all (JSONElement.readable p.LENGTH) = true := by
    unfold Spec.wellFormed at hwf
    simp only [Bool.and_eq_true] at hwf
    exact hwf.1.2
  obtain ⟨t1, _⟩ := FromObject_text p cb user buf c hcb h1 h2 h3
    (isCString_of_readable _ c hall) hok
  rw [hlim] at t1
  rw [t1] at hlen
  exact FromString_wellFormed p cb _ user c hcb hlim hwf t1 hlen hmem hmax

end RT17
section Alike
variable {σ : Type}

theorem alike_append (t : List Char) {st st' : ObjectState σ} (h : ObjectState.Alike st st') :
    ObjectState.Alike (FromObject.append t st) (FromObject.append t st') := by
  obtain ⟨a1, a2, a3, a4, a5, a6, a7, a8⟩ := h
  unfold FromObject.append UserBuffer.Append
  simp only [a1, a2, a4]
  by_cases hfit : st'.buf.length_ + wrapU8 (strlen t) < st'.buf.max_length_
  · simp only [if_pos hfit]
    exact ⟨rfl, rfl, by simp only [writeAt_length]; exact a3, rfl, a5, a6, a7, a8⟩
  · simp only [if_neg hfit]
    exact ⟨a1, a2, a3, rfl, a5, a6, a7, a8⟩

theorem alike_ac (f : Int → Int) {st st' : ObjectState σ} (h : ObjectState.Alike st st') :
    ObjectState.Alike { st with ac := f st.ac } { st' with ac := f st'.ac } := by
  obtain ⟨a1, a2, a3, a4, a5, a6, a7, a8⟩ := h
  exact ⟨a1, a2, a3, a4, a5, by show f st.ac = f st'.ac; rw [a6], a7, a8⟩

theorem alike_mc (f : Int → Int) {st st' : ObjectState σ} (h : ObjectState.Alike st st') :
    ObjectState.Alike { st with mc := f st.mc } { st' with mc := f st'.mc } := by
  obtain ⟨a1, a2, a3, a4, a5, a6, a7, a8⟩ := h
  exact ⟨a1, a2, a3, a4, a5, a6, by show f st.mc = f st'.mc; rw [a7], a8⟩

theorem alike_error (e : ERR) {st st' : ObjectState σ} (h : ObjectState.Alike st st') :
    ObjectState.Alike { st with last_error_ := e } { st' with last_error_ := e } := by
  obtain ⟨a1, a2, a3, a4, a5, a6, a7, a8⟩ := h
  exact ⟨a1, a2, a3, a4, a5, a6, a7, rfl⟩

theorem alike_ite (c : Prop) [Decidable c] {a a' b b' : ObjectState σ}
    (h1 : ObjectState.Alike a a') (h2 : ObjectState.Alike b b') :
    ObjectState.Alike (if c then a else b) (if c then a' else b') := by
  split
  · exact h1
  · exact h2

theorem alike_ite2 (c c' : Prop) [Decidable c] [Decidable c'] (hc : c ↔ c')
    {a a' b b' : ObjectState σ}
    (h1 : ObjectState.Alike a a') (h2 : ObjectState.Alike b b') :
    ObjectState.Alike (if c then a else b) (if c' then a' else b') := by
  by_cases h : c
  · rw [if_pos h, if_pos (hc.1 h)]; exact h1
  · rw [if_neg h, if_neg (fun h' => h (hc.2 h'))]; exact h2

theorem alike_emitString (s : JSONString) {st st' : ObjectState σ}
    (h : ObjectState.Alike st st') :
    ObjectState.Alike (FromObject.emitString s st) (FromObject.emitString s st') := by
  unfold FromObject.emitString
  refine alike_ite _ (alike_ite _ (alike_ite _ ?_ ?_) (alike_ite _ ?_ ?_)) h
  · exact alike_append _ (alike_append _ (alike_append _ h))
  · exact alike_append _ (alike_append _ (alike_append _ h))
  · exact alike_append _ h
  · exact alike_append _ (alike_append _ (alike_append _ h))

theorem alike_switch (p : JSONParse) (cb : JSONTokenizer σ) (e : JSONElement)
    (prev next : Option JSONElement) {st st' : ObjectState σ} (hcb : p.callbacks_ = false)
    (h : ObjectState.Alike st st') :
    ObjectState.Alike (FromObject.switch p cb e prev next st)
      (FromObject.switch p cb e prev next st') := by
  have hsep : ObjectState.Alike
      (if FromObject.afterValue prev then FromObject.append ", ".toList st else st)
      (if FromObject.afterValue prev then FromObject.append ", ".toList st' else st') :=
    alike_ite _ (alike_append _ h) h
  cases e with
  | STRING s =>
    simp only [FromObject.switch, FromObject.caseString, hcb, Bool.false_eq_true, if_false]
    exact alike_emitString s hsep
  | ARRAY o =>
    cases o
    · simp only [FromObject.switch, FromObject.caseMarker, hcb, Bool.false_eq_true, if_false,
        Bool.not_false, if_true]
      exact alike_ac (fun a => wrapI16 (a - 1))
        (alike_ite _ (alike_append _ h) (alike_append _ h))
    · simp only [FromObject.switch, FromObject.caseMarker, hcb, Bool.false_eq_true, if_false,
        Bool.not_false, if_true]
      exact alike_ac (fun a => wrapI16 (a + 1)) (alike_append _ hsep)
  | MAP o =>
    cases o
    · simp only [FromObject.switch, FromObject.caseMarker, hcb, Bool.false_eq_true, if_false,
        Bool.not_false, if_true]
      exact alike_mc (fun a => wrapI16 (a - 1))
        (alike_ite _ (alike_append _ h) (alike_append _ h))
    · simp only [FromObject.switch, FromObject.caseMarker, hcb, Bool.false_eq_true, if_false,
        Bool.not_false, if_true]
      exact alike_mc (fun a => wrapI16 (a + 1)) (alike_append _ hsep)

theorem alike_loop (p : JSONParse) (cb : JSONTokenizer σ) (hcb : p.callbacks_ = false) :
    ∀ (e : List JSONElement) (prev : Option JSONElement) (st st' : ObjectState σ),
      ObjectState.Alike st st' →
      ObjectState.Alike (FromObject.loop p cb prev e st) (FromObject.loop p cb prev e st') := by
  intro e
  induction e with
  | nil => intro prev st st' h; exact h
  | cons x rest ih =>
    intro prev st st' h
    have h1 := alike_switch p cb x prev rest.head? hcb h
    rw [FromObject.loop, FromObject.loop]
    generalize FromObject.switch p cb x prev rest.head? st = a at h1 ⊢
    generalize FromObject.switch p cb x prev rest.head? st' = a' at h1 ⊢
    have h2 : ObjectState.Alike
        (if a.stop then { a with last_error_ := ERR.ERR_CALLBACK_STOP } else a)
        (if a'.stop then { a' with last_error_ := ERR.ERR_CALLBACK_STOP } else a') :=
      alike_ite2 _ _ (by rw [h1.2.2.2.2.1]) (alike_error _ h1) h1
    generalize (if a.stop then { a with last_error_ := ERR.ERR_CALLBACK_STOP } else a) = b
      at h2 ⊢
    generalize (if a'.stop then { a' with last_error_ := ERR.ERR_CALLBACK_STOP } else a') = b'
      at h2 ⊢
    obtain ⟨a1, a2, a3, a4, a5, a6, a7, a8⟩ := id h2
    refine alike_ite2 _ _ (by rw [a8]) h2 (alike_ite2 _ _ (by rw [a4]) (alike_error _ h2)
      (alike_ite2 _ _ (by rw [a6]) (alike_error _ h2) (alike_ite2 _ _ (by rw [a7])
        (alike_error _ h2) (alike_ite2 _ _ (by rw [a6, a7]) h2 (ih _ _ _ h2)))))

/-- The result `ok` of `FromObject` without callbacks depends on the buffer only through
its capacity and the size of its memory. -/
theorem FromObject_ok_of_shape (p : JSONParse) (cb : JSONTokenizer σ) (user : σ)
    (buf buf2 : UserBuffer) (c : List JSONElement) (hcb : p.callbacks_ = false)
    (hm : buf2.max_length_ = buf.max_length_)
    (hl : buf2.buffer_.length = buf.buffer_.length) :
    (FromObject p cb user buf2 c).ok = (FromObject p cb user buf c).ok := by
  have h0 : ObjectState.Alike (FromObject.init user buf2) (FromObject.init user buf) :=
    ⟨hm, rfl, hl, rfl, rfl, rfl, rfl, rfl⟩
  have h := alike_loop p cb hcb c none _ _ h0
  unfold FromObject
  simp only [h.2.2.2.2.2.2.2]

end Alike

section ChainSize

/-- The size of a chain is its number of markers times the size of a marker plus its
number of strings times the size of a string node. -/
theorem chainSize_linear (p : JSONParse) (c : List JSONElement) :
    chainSize p c
      = chainSize (parser12 1 0 0) c * p.sizeofArray
        + chainSize (parser12 0 1 0) c * p.sizeofString := by
  induction c with
  | nil => simp [chainSize]
  | cons e t ih =>
    have hc : ∀ q : JSONParse, chainSize q (e :: t) = e.sizeof q + chainSize q t := by
      intro q; simp [chainSize]
    rw [hc, hc, hc, ih]
    cases e <;> simp only [JSONElement.sizeof, parser12] <;> ring

end ChainSize
section PassInv
variable {σ : Type}

/-- Induction over the passes of the loop: a property of the state in which the first
pass begins that every pass that does not leave the loop hands on to the next pass holds
at the beginning of every pass. -/
theorem passes_induction (p : JSONParse) (cb : JSONTokenizer σ) (h : Bool) (l : Nat)
    (P : ScanState σ → Prop)
    (hstep : ∀ st, P st → st.i < l → FromString.leaves p (FromString.body p cb h st) = false →
      P (FromString.body p cb h st).next) :
    ∀ (fuel : Nat) (st0 : ScanState σ), P st0 →
      ∀ st ∈ FromString.passes p cb h l fuel st0, P st := by
  intro fuel
  induction fuel with
  | zero => intro st0 _ st hst; simp [FromString.passes] at hst
  | succ n ih =>
    intro st0 h0 st hst
    unfold FromString.passes at hst
    by_cases hlt : st0.i < l
    · rw [if_pos hlt] at hst
      rcases List.mem_cons.1 hst with rfl | hst
      · exact h0
      · by_cases hlv : FromString.leaves p (FromString.body p cb h st0) = true
        · rw [if_pos hlv] at hst; simp at hst
        · rw [if_neg hlv] at hst
          exact ih _ (hstep st0 h0 hlt (by simpa using hlv)) st hst
    · rw [if_neg hlt] at hst; simp at hst

/-- A pass begins at an index below the length. -/
theorem passes_index (p : JSONParse) (cb : JSONTokenizer σ) (h : Bool) (l : Nat) :
    ∀ (fuel : Nat) (st0 st : ScanState σ), st ∈ FromString.passes p cb h l fuel st0 →
      st.i < l := by
  intro fuel
  induction fuel with
  | zero => intro st0 st hst; simp [FromString.passes] at hst
  | succ n ih =>
    intro st0 st hst
    unfold FromString.passes at hst
    by_cases hlt : st0.i < l
    · rw [if_pos hlt] at hst
      rcases List.mem_cons.1 hst with rfl | hst
      · exact hlt
      · by_cases hlv : FromString.leaves p (FromString.body p cb h st0) = true
        · rw [if_pos hlv] at hst; simp at hst
        · rw [if_neg hlv] at hst
          exact ih _ st hst
    · rw [if_neg hlt] at hst; simp at hst

/-- A state that does not leave the loop has no error. -/
theorem error_none_of_stays (p : JSONParse) (st : ScanState σ)
    (hl : FromString.leaves p st = false) : st.last_error_ = ERR.ERR_NONE := by
  unfold FromString.leaves at hl
  simp only [Bool.or_eq_false_iff, bne_eq_false_iff_eq] at hl
  exact hl.2

/-- With balance enforcement on, no depth is negative when a pass begins. -/
theorem passes_depth (p : JSONParse) (cb : JSONTokenizer σ) (user : σ) (s : List Char)
    (h : Bool) (psi : Nat) (st : ScanState σ)
    (hst : st ∈ FromString.scanPasses p cb user s h psi)
    (hl : p.limit_node_level_ = true) : 0 ≤ st.ac ∧ 0 ≤ st.mc := by
  refine passes_induction p cb h _ (fun st => 0 ≤ st.ac ∧ 0 ≤ st.mc) ?_ _ _ ?_ st hst
  · intro x _ _ hlv
    have he := error_none_of_stays p _ hlv
    have hb := body_depth_error p cb h x hl
    show 0 ≤ (FromString.body p cb h x).ac ∧ 0 ≤ (FromString.body p cb h x).mc
    constructor
    · by_contra hneg
      by_cases hm : (FromString.body p cb h x).mc < 0
      · rw [hb.1 hm] at he; exact absurd he (by decide)
      · rw [hb.2 (by omega) hm] at he; exact absurd he (by decide)
    · by_contra hneg
      rw [hb.1 (by omega)] at he; exact absurd he (by decide)
  · exact ⟨le_refl _, le_refl _⟩

/-- The test of the depths changes nothing when balance enforcement is off or no depth
is negative. -/
theorem depthError_id (p : JSONParse) (st : ScanState σ)
    (hd : p.limit_node_level_ = true → 0 ≤ st.ac ∧ 0 ≤ st.mc) :
    FromString.depthError p st = st := by
  by_cases hl : p.limit_node_level_ = true
  · exact depthError_keeps p st (hd hl).1 (hd hl).2
  · unfold FromString.depthError
    simp [hl]

/-- The statements after the switch on a state with an error and no negative depth: only
`*h` can change. -/
theorem after_of_error (p : JSONParse) (h : Bool) (st : ScanState σ)
    (he : st.last_error_ ≠ ERR.ERR_NONE)
    (hd : p.limit_node_level_ = true → 0 ≤ st.ac ∧ 0 ≤ st.mc) :
    FromString.after p h st = FromString.setHead h st := by
  have e1 := setHead_fields h st
  unfold FromString.after
  rw [stopError_of_error _ (by rw [e1.1]; exact he), depthError_id]
  rw [e1.2.1, e1.2.2.1]; exact hd

theorem setHead_frame2 (h : Bool) (st : ScanState σ) :
    (FromString.setHead h st).chain = st.chain ∧
    (FromString.setHead h st).binary_size_ = st.binary_size_ ∧
    (FromString.setHead h st).str_start = st.str_start ∧
    (FromString.setHead h st).str_end = st.str_end ∧
    (FromString.setHead h st).is_literal = st.is_literal ∧
    (FromString.setHead h st).quoted_processing = st.quoted_processing ∧
    (FromString.setHead h st).escape = st.escape ∧
    (FromString.setHead h st).stop = st.stop := by
  unfold FromString.setHead
  split <;> exact ⟨rfl, rfl, rfl, rfl, rfl, rfl, rfl, rfl⟩

/-- The switch is entered on the state itself when no error is set and no quoted span is
open. -/
theorem dispatch_switch (p : JSONParse) (cb : JSONTokenizer σ) (h : Bool) (st : ScanState σ)
    (he : st.last_error_ = ERR.ERR_NONE) (hq : st.quoted_processing = false) :
    FromString.dispatch p cb h (charAt st.s st.i) (FromString.quoted (charAt st.s st.i) st)
      = FromString.switch p cb h (charAt st.s st.i) st := by
  rw [quoted_off _ _ hq]
  unfold FromString.dispatch
  rw [he, hq]
  simp

end PassInv
section BadValue
variable {σ : Type}

/-- The helper `IsLiteralCharater` is true for the bytes of the alphabet and for NUL. -/
theorem isLiteralCharater_iff (c : Char) :
    IsLiteralCharater c = true ↔ c ∈ literalAlphabet ∨ c = NUL := by
  unfold IsLiteralCharater literalAlphabet
  rw [List.contains_iff_exists_mem_beq]
  constructor
  · rintro ⟨a, ha, hb⟩
    have hca : c = a := by simpa using hb
    subst hca
    rcases List.mem_append.1 ha with h1 | h1
    · exact Or.inl h1
    · exact Or.inr (by simpa using h1)
  · rintro (h1 | h1)
    · exact ⟨c, List.mem_append_left _ h1, by simp⟩
    · exact ⟨c, List.mem_append_right _ (by simp [h1]), by simp⟩

/-- The default case inside a bracket, with a token undetermined or a literal sampled, on
a byte that is no white space and no literal byte. -/
theorem body_bad_value (p : JSONParse) (cb : JSONTokenizer σ) (h : Bool) (st : ScanState σ)
    (he : st.last_error_ = ERR.ERR_NONE) (hq : st.quoted_processing = false)
    (hin : ¬ (st.mc = 0 ∧ st.ac = 0)) (hl : 1 ≤ st.is_literal)
    (hd : p.limit_node_level_ = true → 0 ≤ st.ac ∧ 0 ≤ st.mc)
    (hc : charAt st.s st.i ∉ ['[', ']', '\x7b', '\x7d', DQUOTE, ':', ','])
    (hsp : charAt st.s st.i ≠ ' ') (htab : charAt st.s st.i ≠ TAB)
    (hlc : IsLiteralCharater (charAt st.s st.i) = false) :
    FromString.body p cb h st = FromString.setHead h (st.setError ERR.ERR_BAD_VALUE) := by
  simp only [List.mem_cons, List.mem_singleton, List.not_mem_nil, or_false, not_or] at hc
  obtain ⟨c1, c2, c3, c4, c5, c6, c7⟩ := hc
  have hsw : FromString.switch p cb h (charAt st.s st.i) st
      = st.setError ERR.ERR_BAD_VALUE := by
    unfold FromString.switch
    simp only [beq_iff_eq, c1, c2, c3, c4, c5, c6, c7, if_false]
    unfold FromString.caseDefault
    have h0 : ¬ (st.mc = 0 ∧ st.ac = 0) := hin
    by_cases hs : st.str_start = -1
    · simp [h0, hl, hs, hsp, htab, hlc]
    · simp [h0, hl, hs, hsp, htab, hlc]
  unfold FromString.body
  rw [dispatch_switch p cb h st he hq, hsw]
  exact after_of_error p h _ (by simp [ScanState.setError]) hd

end BadValue
section Colon
variable {σ : Type}

/-- A key node is no value and no literal. -/
theorem keyNode_flags (p : JSONParse) (st : ScanState σ) :
    (FromString.keyNode p st).is_value_ = false ∧ (FromString.keyNode p st).literal_ = false := by
  simp [FromString.keyNode, JSONString.mkStrLen, JSONString.Data]

/-- The case `':'` within the memory budget when no closed quoted span is pending. -/
theorem body_colon_bad (p : JSONParse) (cb : JSONTokenizer σ) (h : Bool) (st : ScanState σ)
    (he : st.last_error_ = ERR.ERR_NONE) (hq : st.quoted_processing = false)
    (hc : charAt st.s st.i = ':')
    (hm : h = false ∨ st.binary_size_ + p.sizeofString ≤ p.limit_memory_)
    (hd : p.limit_node_level_ = true → 0 ≤ st.ac ∧ 0 ≤ st.mc)
    (hk : ¬ (st.is_literal = 0 ∧ st.str_start ≠ -1 ∧ st.str_end ≠ -1)) :
    FromString.body p cb h st = FromString.setHead h (st.setError ERR.ERR_BAD_ATTRIBUTE) := by
  have hsw : FromString.switch p cb h (charAt st.s st.i) st
      = st.setError ERR.ERR_BAD_ATTRIBUTE := by
    rw [hc]
    have e : FromString.switch p cb h ':' st = FromString.caseColon p cb h st := by
      unfold FromString.switch
      simp [DQUOTE]
    rw [e]
    unfold FromString.caseColon
    have h1 : (!h || decide (p.limit_memory_ ≥ st.binary_size_ + p.sizeofString)) = true := by
      rcases hm with hm | hm
      · simp [hm]
      · simp [hm]
    have h2 : (st.is_literal != 0 || st.str_start == -1 || st.str_end == -1) = true := by
      simp only [Bool.or_eq_true, bne_iff_ne, beq_iff_eq]
      by_contra hcon
      simp only [not_or, not_not] at hcon
      exact hk ⟨hcon.1.1, hcon.1.2, hcon.2⟩
    rw [if_pos h1, if_pos h2]
  unfold FromString.body
  rw [dispatch_switch p cb h st he hq, hsw]
  exact after_of_error p h _ (by simp [ScanState.setError]) hd

/-- The case `':'` within the memory budget after a closed quoted span: one key node is
linked. -/
theorem body_colon_key (p : JSONParse) (cb : JSONTokenizer σ) (h : Bool) (st : ScanState σ)
    (he : st.last_error_ = ERR.ERR_NONE) (hq : st.quoted_processing = false)
    (hc : charAt st.s st.i = ':')
    (hm : h = false ∨ st.binary_size_ + p.sizeofString ≤ p.limit_memory_)
    (hk : st.is_literal = 0 ∧ st.str_start ≠ -1 ∧ st.str_end ≠ -1) :
    (FromString.body p cb h st).chain
      = st.chain ++ [JSONElement.STRING (FromString.keyNode p st)] := by
  have hsw : (FromString.switch p cb h (charAt st.s st.i) st).chain
      = st.chain ++ [JSONElement.STRING (FromString.keyNode p st)] := by
    rw [hc]
    have e : FromString.switch p cb h ':' st = FromString.caseColon p cb h st := by
      unfold FromString.switch
      simp [DQUOTE]
    rw [e]
    unfold FromString.caseColon
    have h1 : (!h || decide (p.limit_memory_ ≥ st.binary_size_ + p.sizeofString)) = true := by
      rcases hm with hm | hm
      · simp [hm]
      · simp [hm]
    have h2 : (st.is_literal != 0 || st.str_start == -1 || st.str_end == -1) = false := by
      simp [hk.1, hk.2.1, hk.2.2]
    rw [if_pos h1, h2]
    simp
  unfold FromString.body
  rw [dispatch_switch p cb h st he hq, (after_frame p h _).2, hsw]

end Colon
section PassSpan
variable {σ : Type}

theorem caseDefault_span_last (c : Char) (st : ScanState σ) (hi : ScanState.spanInv st)
    (hq : st.quoted_processing = false) (hb : st.i ≤ 65534) :
    ScanState.spanInv (FromString.caseDefault c st) := by
  unfold FromString.caseDefault
  split
  · exact hi
  · split
    · split
      · split
        · exact hi
        · split
          · refine ⟨fun hs => ?_, fun hf => ?_⟩
            · exact absurd hs (wrapI16_ne_neg_one (by omega) (by omega))
            · exact absurd (hq ▸ hf) (by decide)
          · exact hi
      · rename_i h1 h2 h3
        have h4 : st.str_start ≠ -1 := by simpa using h3
        split
        · exact hi
        · split
          · refine ⟨fun hs => absurd hs h4, fun hf => ?_⟩
            exact absurd (hq ▸ hf) (by decide)
          · exact hi
    · exact hi

theorem caseQuote_i (st : ScanState σ) : (FromString.caseQuote st).i = st.i := by
  simp only [FromString.caseQuote, ScanState.setError]
  split_ifs <;> rfl

/-- The switch keeps the span invariant, except that the quote read at index 65534
opens a span that starts at index 65535, which an `int16_t` holds as `-1`. -/
theorem switch_span_last (p : JSONParse) (cb : JSONTokenizer σ) (h : Bool) (c : Char)
    (st : ScanState σ) (hi : ScanState.spanInv st) (hq : st.quoted_processing = false)
    (hb : st.i ≤ 65534) :
    ScanState.spanInv (FromString.switch p cb h c st) ∨
      (FromString.switch p cb h c st).i = 65534 := by
  by_cases h3 : st.i ≤ 65533
  · exact Or.inl (switch_span p cb h c st hi hq h3)
  · have h4 : st.i = 65534 := by omega
    unfold FromString.switch
    split_ifs
    · obtain ⟨a1, a2, a3⟩ := caseOpen_span p cb h false st
      left
      unfold ScanState.spanInv
      rw [a1, a2, a3]; exact hi
    · exact Or.inl (caseClose_span p cb h false st hi hq)
    · obtain ⟨a1, a2, a3⟩ := caseOpen_span p cb h true st
      left
      unfold ScanState.spanInv
      rw [a1, a2, a3]; exact hi
    · exact Or.inl (caseClose_span p cb h true st hi hq)
    · right
      rw [caseQuote_i, h4]
    · exact Or.inl (caseColon_span p cb h st hi hq)
    · exact Or.inl (caseComma_span p cb h st hi hq)
    · exact Or.inl (caseDefault_span_last c st hi hq hb)

theorem body_span_last (p : JSONParse) (cb : JSONTokenizer σ) (h : Bool) (st : ScanState σ)
    (hi : ScanState.spanInv st) (hb : st.i ≤ 65534) :
    ScanState.spanInv (FromString.body p cb h st) ∨ (FromString.body p cb h st).i = 65534 := by
  unfold FromString.body
  unfold FromString.dispatch
  split
  · rename_i hc
    simp only [Bool.and_eq_true, Bool.not_eq_true', beq_iff_eq] at hc
    rcases switch_span_last p cb h (charAt st.s st.i) _ (quoted_span (charAt st.s st.i) st hi)
      hc.2 (by rw [quoted_i]; exact hb) with h1 | h1
    · exact Or.inl (after_span p h _ h1)
    · right
      rw [(after_i p h _).1, h1]
  · exact Or.inl (after_span p h _ (quoted_span _ st hi))

theorem wrapU16_le (x : Int) : wrapU16 x ≤ 65535 := by
  unfold wrapU16; omega

/-- The span invariant holds whenever a pass begins. -/
theorem passes_span (p : JSONParse) (cb : JSONTokenizer σ) (user : σ) (s : List Char)
    (h : Bool) (psi : Nat) (st : ScanState σ)
    (hst : st ∈ FromString.scanPasses p cb user s h psi) : ScanState.spanInv st := by
  have hl : wrapU16 (strlen s) ≤ 65535 := wrapU16_le _
  have hi := passes_index p cb h _ _ _ _ hst
  refine passes_induction p cb h (wrapU16 (strlen s))
    (fun st => st.i < wrapU16 (strlen s) → ScanState.spanInv st) ?_ _ _ ?_ st hst hi
  · intro x hx hlt _ hn
    rcases body_span_last p cb h x (hx hlt) (by omega) with h1 | h1
    · exact h1
    · exfalso
      have : (FromString.body p cb h x).next.i = 65535 := by
        show wrapU16 (((FromString.body p cb h x).i : Int) + 1) = 65535
        rw [h1]; decide
      omega
  · intro _
    exact ⟨fun _ => rfl, fun hq => (Bool.false_ne_true hq).elim⟩

/-- The fields that the statements after the switch leave alone. -/
theorem after_fields (p : JSONParse) (h : Bool) (st : ScanState σ) :
    (FromString.after p h st).str_start = st.str_start ∧
    (FromString.after p h st).str_end = st.str_end ∧
    (FromString.after p h st).is_literal = st.is_literal ∧
    (FromString.after p h st).quoted_processing = st.quoted_processing ∧
    (FromString.after p h st).escape = st.escape ∧
    (FromString.after p h st).stop = st.stop ∧
    (FromString.after p h st).expect_value = st.expect_value ∧
    (FromString.after p h st).s = st.s ∧
    (FromString.after p h st).user = st.user := by
  simp only [FromString.after, FromString.depthError, FromString.negativeMap,
    FromString.negativeArray, FromString.stopError, FromString.setHead, ScanState.setError]
  split_ifs <;> exact ⟨rfl, rfl, rfl, rfl, rfl, rfl, rfl, rfl, rfl⟩

/-- The start of the loop body inside a quoted span. -/
theorem quoted_on (c : Char) (st : ScanState σ) (hq : st.quoted_processing = true) :
    FromString.quoted c st =
      if st.escape = true then { st with escape := false }
      else if c = BACKSLASH then { st with escape := true }
      else if c = DQUOTE then
        if st.str_start = -1 ∨ st.str_end ≠ -1 then
          if st.expect_value = true then st.setError ERR.ERR_BAD_VALUE
          else st.setError ERR.ERR_BAD_ATTRIBUTE
        else { st with str_end := wrapI16 st.i, quoted_processing := false }
      else st := by
  unfold FromString.quoted
  rw [if_pos hq]
  by_cases he : st.escape = true
  · rw [if_pos he, if_neg (by simp [he])]
  · have he2 : st.escape = false := by simpa using he
    rw [if_neg he, if_pos (by simp [he2])]
    by_cases hb : c = BACKSLASH
    · rw [if_pos hb, if_pos (by simp [he2, hb])]
    · rw [if_neg hb, if_neg (by simp [he2]; exact fun x => hb x.symm)]
      by_cases hd : c = DQUOTE
      · rw [if_pos hd, if_pos (by simp [hd])]
        by_cases h1 : st.str_start = -1 ∨ st.str_end ≠ -1
        · rw [if_pos h1, if_pos (by simpa using h1)]
        · rw [if_neg h1, if_neg (by simpa using h1)]
          have h2 : st.str_end = -1 := by
            by_contra hx; exact h1 (Or.inr hx)
          rw [if_pos (by simp [h2])]
      · rw [if_neg hd, if_neg (by simp; exact fun x => hd x.symm)]

/-- The case `'\"'` touches neither the depths nor the chain nor the escape flag. -/
theorem caseQuote_fields (st : ScanState σ) :
    (FromString.caseQuote st).ac = st.ac ∧ (FromString.caseQuote st).mc = st.mc ∧
    (FromString.caseQuote st).escape = st.escape ∧
    (FromString.caseQuote st).str_end = st.str_end := by
  simp only [FromString.caseQuote, ScanState.setError]
  split_ifs <;> exact ⟨rfl, rfl, rfl, rfl⟩

end PassSpan
section QuotedPass
variable {σ : Type}

theorem dispatch_quoted (p : JSONParse) (cb : JSONTokenizer σ) (h : Bool) (cc : Char)
    (st : ScanState σ) (hq : st.quoted_processing = true) :
    FromString.dispatch p cb h cc st = st := by
  unfold FromString.dispatch
  simp [hq]

theorem switch_quote (p : JSONParse) (cb : JSONTokenizer σ) (h : Bool) (st : ScanState σ) :
    FromString.switch p cb h DQUOTE st = FromString.caseQuote st := by
  unfold FromString.switch
  simp [DQUOTE]

/-- The case `'\"'` on a state with a span: the span and the flag of the quoted span
stay. -/
theorem caseQuote_pending (st : ScanState σ) (hs : st.str_start ≠ -1) :
    (FromString.caseQuote st).quoted_processing = st.quoted_processing ∧
    (FromString.caseQuote st).str_start = st.str_start := by
  simp only [FromString.caseQuote, ScanState.setError]
  have h1 : (st.str_start == -1) = false := by simpa using hs
  split_ifs
  · exact ⟨rfl, rfl⟩
  · exact ⟨rfl, rfl⟩
  · rename_i h2; rw [h1] at h2; exact (Bool.false_ne_true h2).elim
  · exact ⟨rfl, rfl⟩

/-- A pass that begins inside a quoted span: the span is closed exactly by a `"` read
while no escape is active; the depths, the chain, the binary size and the start of the
span stay. -/
theorem body_quoted (p : JSONParse) (cb : JSONTokenizer σ) (h : Bool) (st : ScanState σ)
    (hq : st.quoted_processing = true) (he : st.last_error_ = ERR.ERR_NONE)
    (hs : st.str_start ≠ -1) (hn : st.str_end = -1) :
    ((FromString.body p cb h st).quoted_processing = false ↔
      (charAt st.s st.i = DQUOTE ∧ st.escape = false)) ∧
    (st.escape = false → charAt st.s st.i = BACKSLASH →
      (FromString.body p cb h st).escape = true ∧
      (FromString.body p cb h st).quoted_processing = true) ∧
    (st.escape = true →
      (FromString.body p cb h st).escape = false ∧
      (FromString.body p cb h st).quoted_processing = true) ∧
    (FromString.body p cb h st).ac = st.ac ∧ (FromString.body p cb h st).mc = st.mc ∧
    (FromString.body p cb h st).chain = st.chain ∧
    (FromString.body p cb h st).binary_size_ = st.binary_size_ ∧
    (FromString.body p cb h st).str_start = st.str_start := by
  have hne : DQUOTE ≠ BACKSLASH := by decide
  have hA := after_i p h
    (FromString.dispatch p cb h (charAt st.s st.i) (FromString.quoted (charAt st.s st.i) st))
  have hF := after_frame p h
    (FromString.dispatch p cb h (charAt st.s st.i) (FromString.quoted (charAt st.s st.i) st))
  have hG := after_fields p h
    (FromString.dispatch p cb h (charAt st.s st.i) (FromString.quoted (charAt st.s st.i) st))
  unfold FromString.body
  rw [hA.2.1, hA.2.2, hF.1, hF.2, hG.1, hG.2.2.2.1, hG.2.2.2.2.1]
  have hQ := quoted_on (charAt st.s st.i) st hq
  by_cases hesc : st.escape = true
  · rw [if_pos hesc] at hQ
    rw [hQ, dispatch_quoted p cb h _ _ (by exact hq)]
    refine ⟨⟨fun hx => ?_, fun hx => ?_⟩, fun hx => ?_, fun _ => ⟨rfl, hq⟩, rfl, rfl, rfl, rfl, rfl⟩
    · exact absurd (hq.symm.trans hx) (by decide)
    · rw [hesc] at hx; exact absurd hx.2 (by decide)
    · rw [hesc] at hx; exact absurd hx (by decide)
  · have hesc2 : st.escape = false := by simpa using hesc
    rw [if_neg hesc] at hQ
    by_cases hb : charAt st.s st.i = BACKSLASH
    · rw [if_pos hb] at hQ
      rw [hQ, dispatch_quoted p cb h _ _ (by exact hq)]
      refine ⟨⟨fun hx => ?_, fun hx => ?_⟩, fun _ _ => ⟨rfl, hq⟩, fun hx => ?_,
        rfl, rfl, rfl, rfl, rfl⟩
      · exact absurd (hq.symm.trans hx) (by decide)
      · rw [hb] at hx; exact absurd hx.1.symm hne
      · exact absurd hx hesc
    · rw [if_neg hb] at hQ
      by_cases hd : charAt st.s st.i = DQUOTE
      · rw [if_pos hd, if_neg (by simp [hs, hn])] at hQ
        rw [hQ]
        have hdis : FromString.dispatch p cb h (charAt st.s st.i)
            { st with str_end := wrapI16 st.i, quoted_processing := false }
            = FromString.caseQuote
                { st with str_end := wrapI16 st.i, quoted_processing := false } := by
          unfold FromString.dispatch
          rw [if_pos (by simp [he]), hd, switch_quote]
        rw [hdis]
        have c1 := caseQuote_pending
          ({ st with str_end := wrapI16 st.i, quoted_processing := false } : ScanState σ) hs
        have c2 := caseQuote_fields
          ({ st with str_end := wrapI16 st.i, quoted_processing := false } : ScanState σ)
        have c3 := caseQuote_frame
          ({ st with str_end := wrapI16 st.i, quoted_processing := false } : ScanState σ)
        rw [c1.1, c1.2, c2.1, c2.2.1, c2.2.2.1, c3.1, c3.2]
        refine ⟨⟨fun _ => ⟨hd, hesc2⟩, fun _ => rfl⟩, fun _ hx => absurd hx hb,
          fun hx => absurd hx hesc, rfl, rfl, rfl, rfl, rfl⟩
      · rw [if_neg hd] at hQ
        rw [hQ, dispatch_quoted p cb h _ _ hq]
        refine ⟨⟨fun hx => ?_, fun hx => absurd hx.1 hd⟩, fun _ hx => absurd hx hb,
          fun hx => absurd hx hesc, rfl, rfl, rfl, rfl, rfl⟩
        exact absurd (hq.symm.trans hx) (by decide)

end QuotedPass
section Account
variable {σ : Type}

theorem caseOpen_over (p : JSONParse) (cb : JSONTokenizer σ) (isMap : Bool) (st : ScanState σ)
    (ho : p.limit_memory_ < st.binary_size_ + p.sizeofArray) :
    FromString.caseOpen p cb true isMap st = st.setError ERR.ERR_OBJECT_MEMORY_LIMIT := by
  unfold FromString.caseOpen
  rw [if_neg (by simp; omega)]

theorem caseOpen_fits (p : JSONParse) (cb : JSONTokenizer σ) (h isMap : Bool)
    (st : ScanState σ) (hf : st.binary_size_ + p.sizeofArray ≤ p.limit_memory_)
    (hl : p.limit_memory_ ≤ 65535) :
    (FromString.caseOpen p cb h isMap st).chain = st.chain ++ [FromString.marker isMap true] ∧
    (FromString.caseOpen p cb h isMap st).binary_size_ = st.binary_size_ + p.sizeofArray := by
  unfold FromString.caseOpen
  rw [if_pos (by simp; exact Or.inr hf)]
  simp only [addSize_chain, bump_chain, callOpen_chain, link_chain, addSize_binary_size,
    bump_binary_size, callOpen_binary_size, link_binary_size, true_and]
  exact wrapU16_add_of_le (by omega)

theorem closeValue_account (p : JSONParse) (cb : JSONTokenizer σ) (st : ScanState σ) :
    (FromString.closeValue p cb st).chain
      = st.chain ++ [JSONElement.STRING (FromString.valueNode p st).2] ∧
    (FromString.closeValue p cb st).binary_size_
      = wrapU16 ((st.binary_size_ : Int) + p.sizeofString) := by
  unfold FromString.closeValue
  simp only [addSize_chain, clearSpan_chain, callString_chain, link_chain, addSize_binary_size,
    clearSpan_binary_size, callString_binary_size, link_binary_size]
  constructor
  · split <;> rfl
  · split <;> rfl

theorem caseClose_over (p : JSONParse) (cb : JSONTokenizer σ) (isMap : Bool) (st : ScanState σ)
    (c : Char)
    (hc : FromString.eventCost p st c
      = if -1 < st.str_start then p.sizeofString + p.sizeofArray else p.sizeofArray)
    (ho : p.limit_memory_ < st.binary_size_ + FromString.eventCost p st c)
    (hw : st.binary_size_ + FromString.eventCost p st c ≤ 65535) :
    FromString.caseClose p cb true isMap st = st.setError ERR.ERR_OBJECT_MEMORY_LIMIT := by
  unfold FromString.caseClose
  simp only []
  by_cases hs : -1 < st.str_start
  · rw [if_pos hs] at hc
    rw [hc] at ho hw
    simp only [if_pos hs]
    have w : wrapU16 ((st.binary_size_ : Int) + ((p.sizeofString + p.sizeofArray : Nat) : Int))
        = st.binary_size_ + (p.sizeofString + p.sizeofArray) :=
      wrapU16_add_of_le (by omega)
    rw [w, if_neg (by simp; omega)]
  · rw [if_neg hs] at hc
    rw [hc] at ho hw
    simp only [if_neg hs]
    rw [wrapU16_add_of_le hw, if_neg (by simp; omega)]

theorem caseClose_fits (p : JSONParse) (cb : JSONTokenizer σ) (h isMap : Bool)
    (st : ScanState σ) (c : Char)
    (hc : FromString.eventCost p st c
      = if -1 < st.str_start then p.sizeofString + p.sizeofArray else p.sizeofArray)
    (hf : st.binary_size_ + FromString.eventCost p st c ≤ p.limit_memory_)
    (hl : p.limit_memory_ ≤ 65535) :
    chainSize p (FromString.caseClose p cb h isMap st).chain
      = chainSize p st.chain + FromString.eventCost p st c ∧
    (FromString.caseClose p cb h isMap st).binary_size_
      = st.binary_size_ + FromString.eventCost p st c := by
  unfold FromString.caseClose
  simp only []
  by_cases hs : -1 < st.str_start
  · rw [if_pos hs] at hc
    rw [hc] at hf ⊢
    simp only [if_pos hs]
    have w : wrapU16 ((st.binary_size_ : Int) + ((p.sizeofString + p.sizeofArray : Nat) : Int))
        = st.binary_size_ + (p.sizeofString + p.sizeofArray) :=
      wrapU16_add_of_le (by omega)
    rw [w, if_pos (by simp; exact Or.inr hf)]
    obtain ⟨v1, v2⟩ := closeValue_account p cb st
    simp only [addSize_chain, bump_chain, callClose_chain, link_chain, addSize_binary_size,
      bump_binary_size, callClose_binary_size, link_binary_size, v1, v2, chainSize_append,
      chainSize_cons, chainSize_nil, sizeof_string, sizeof_marker]
    constructor
    · omega
    · have w1 : wrapU16 ((st.binary_size_ : Int) + p.sizeofString)
          = st.binary_size_ + p.sizeofString := wrapU16_add_of_le (by omega)
      rw [w1, wrapU16_add_of_le (by omega)]; omega
  · rw [if_neg hs] at hc
    rw [hc] at hf ⊢
    simp only [if_neg hs]
    rw [wrapU16_add_of_le (by omega), if_pos (by simp; exact Or.inr hf)]
    simp only [addSize_chain, bump_chain, callClose_chain, link_chain, addSize_binary_size,
      bump_binary_size, callClose_binary_size, link_binary_size, chainSize_append,
      chainSize_cons, chainSize_nil, sizeof_marker]
    constructor
    · omega
    · exact wrapU16_add_of_le (by omega)

theorem caseColon_over (p : JSONParse) (cb : JSONTokenizer σ) (st : ScanState σ)
    (ho : p.limit_memory_ < st.binary_size_ + p.sizeofString) :
    FromString.caseColon p cb true st = st.setError ERR.ERR_OBJECT_MEMORY_LIMIT := by
  unfold FromString.caseColon
  rw [if_neg (by simp; omega)]

/-- The case `':'` within the budget: an error and no node, or one string node. -/
theorem caseColon_fits (p : JSONParse) (cb : JSONTokenizer σ) (h : Bool)
    (st : ScanState σ) (hf : st.binary_size_ + p.sizeofString ≤ p.limit_memory_)
    (hl : p.limit_memory_ ≤ 65535) :
    ((FromString.caseColon p cb h st).chain = st.chain ∧
      (FromString.caseColon p cb h st).binary_size_ = st.binary_size_) ∨
    ((FromString.caseColon p cb h st).chain
        = st.chain ++ [JSONElement.STRING (FromString.keyNode p st)] ∧
      (FromString.caseColon p cb h st).binary_size_ = st.binary_size_ + p.sizeofString) := by
  unfold FromString.caseColon
  rw [if_pos (by simp; exact Or.inr hf)]
  split
  · exact Or.inl ⟨rfl, rfl⟩
  · right
    simp only [addSize_chain, clearSpan_chain, keyTaken_chain, callString_chain, link_chain,
      addSize_binary_size, clearSpan_binary_size, keyTaken_binary_size, callString_binary_size,
      link_binary_size, true_and]
    exact wrapU16_add_of_le (by omega)

theorem caseComma_over (p : JSONParse) (cb : JSONTokenizer σ) (st : ScanState σ)
    (hs : -1 < st.str_start)
    (ho : p.limit_memory_ < st.binary_size_ + p.sizeofString) :
    FromString.caseComma p cb true st = st.setError ERR.ERR_OBJECT_MEMORY_LIMIT := by
  unfold FromString.caseComma
  rw [if_pos hs, if_neg (by simp; omega)]

/-- The case `','` within the budget: no node, or one string node. -/
theorem caseComma_fits (p : JSONParse) (cb : JSONTokenizer σ) (h : Bool)
    (st : ScanState σ)
    (hf : -1 < st.str_start → st.binary_size_ + p.sizeofString ≤ p.limit_memory_)
    (hl : p.limit_memory_ ≤ 65535) :
    ((FromString.caseComma p cb h st).chain = st.chain ∧
      (FromString.caseComma p cb h st).binary_size_ = st.binary_size_) ∨
    ((FromString.caseComma p cb h st).chain
        = st.chain ++ [JSONElement.STRING (FromString.valueNode p st).2] ∧
      (FromString.caseComma p cb h st).binary_size_ = st.binary_size_ + p.sizeofString) := by
  unfold FromString.caseComma
  by_cases hs : -1 < st.str_start
  · rw [if_pos hs, if_pos (by simp; exact Or.inr (hf hs))]
    split
    · exact Or.inl ⟨rfl, rfl⟩
    · right
      simp only [addSize_chain, clearSpan_chain, callStringComma_chain, link_chain,
        undetermined_chain, addSize_binary_size, clearSpan_binary_size,
        callStringComma_binary_size, link_binary_size, undetermined_binary_size]
      constructor
      · split <;> rfl
      · have : wrapU16 ((st.binary_size_ : Int) + p.sizeofString)
            = st.binary_size_ + p.sizeofString := wrapU16_add_of_le (by have := hf hs; omega)
        split <;> exact this
  · rw [if_neg hs]
    exact Or.inl ⟨rfl, rfl⟩

end Account
section Account2
variable {σ : Type}

theorem accounted_of_frame (p : JSONParse) (st x : ScanState σ)
    (hf : x.binary_size_ = st.binary_size_ ∧ x.chain = st.chain)
    (ha : ScanState.accounted p st) : ScanState.accounted p x := by
  unfold ScanState.accounted at ha ⊢
  rw [hf.1, hf.2]; exact ha

theorem eventCost_open (p : JSONParse) (st : ScanState σ) (c : Char)
    (hc : c = '[' ∨ c = '\x7b') : FromString.eventCost p st c = p.sizeofArray := by
  unfold FromString.eventCost
  rw [if_pos hc]

theorem eventCost_close (p : JSONParse) (st : ScanState σ) (c : Char)
    (hc : c = ']' ∨ c = '\x7d') :
    FromString.eventCost p st c
      = if -1 < st.str_start then p.sizeofString + p.sizeofArray else p.sizeofArray := by
  unfold FromString.eventCost
  rw [if_neg (by rcases hc with h | h <;> rw [h] <;> decide), if_pos hc]

theorem eventCost_colon (p : JSONParse) (st : ScanState σ) :
    FromString.eventCost p st ':' = p.sizeofString := by
  unfold FromString.eventCost
  rw [if_neg (by decide), if_neg (by decide), if_pos rfl]

theorem eventCost_comma (p : JSONParse) (st : ScanState σ) :
    FromString.eventCost p st ','
      = if -1 < st.str_start then p.sizeofString else 0 := by
  unfold FromString.eventCost
  rw [if_neg (by decide), if_neg (by decide), if_neg (by decide), if_pos rfl]

theorem eventCost_other (p : JSONParse) (st : ScanState σ) (c : Char)
    (h1 : c ≠ '[') (h2 : c ≠ ']') (h3 : c ≠ '\x7b') (h4 : c ≠ '\x7d') (h6 : c ≠ ':')
    (h7 : c ≠ ',') : FromString.eventCost p st c = 0 := by
  unfold FromString.eventCost
  rw [if_neg (by simp [h1, h3]), if_neg (by simp [h2, h4]), if_neg h6, if_neg h7]

theorem eventCost_le (p : JSONParse) (st : ScanState σ) (c : Char) :
    FromString.eventCost p st c ≤ p.sizeofString + p.sizeofArray := by
  unfold FromString.eventCost
  split_ifs <;> omega

/-- The memory test of the switch with a chain asked for: when the binary size plus the
cost of the event is over the limit, the case sets `ERR_OBJECT_MEMORY_LIMIT` and does
nothing else. -/
theorem switch_over (p : JSONParse) (cb : JSONTokenizer σ) (c : Char) (st : ScanState σ)
    (hb : st.binary_size_ ≤ p.limit_memory_)
    (ho : p.limit_memory_ < st.binary_size_ + FromString.eventCost p st c)
    (hw : st.binary_size_ + FromString.eventCost p st c ≤ 65535) :
    FromString.switch p cb true c st = st.setError ERR.ERR_OBJECT_MEMORY_LIMIT := by
  unfold FromString.switch
  by_cases h1 : c = '['
  · rw [if_pos (by simp [h1])]
    rw [eventCost_open p st c (Or.inl h1)] at ho
    exact caseOpen_over p cb false st ho
  rw [if_neg (by simp [h1])]
  by_cases h2 : c = ']'
  · rw [if_pos (by simp [h2])]
    exact caseClose_over p cb false st c (eventCost_close p st c (Or.inl h2)) ho hw
  rw [if_neg (by simp [h2])]
  by_cases h3 : c = '\x7b'
  · rw [if_pos (by simp [h3])]
    rw [eventCost_open p st c (Or.inr h3)] at ho
    exact caseOpen_over p cb true st ho
  rw [if_neg (by simp [h3])]
  by_cases h4 : c = '\x7d'
  · rw [if_pos (by simp [h4])]
    exact caseClose_over p cb true st c (eventCost_close p st c (Or.inr h4)) ho hw
  rw [if_neg (by simp [h4])]
  by_cases h6 : c = ':'
  · subst h6
    rw [if_neg (by decide), if_pos (by simp)]
    rw [eventCost_colon] at ho
    exact caseColon_over p cb st ho
  by_cases h7 : c = ','
  · subst h7
    rw [if_neg (by decide), if_neg (by decide), if_pos (by simp)]
    rw [eventCost_comma] at ho
    by_cases hs : -1 < st.str_start
    · rw [if_pos hs] at ho
      exact caseComma_over p cb st hs ho
    · rw [if_neg hs] at ho
      omega
  rw [eventCost_other p st c h1 h2 h3 h4 h6 h7] at ho
  omega

/-- The switch with a chain asked for keeps the account: the binary size is the size of
the chain and within the limit. -/
theorem switch_accounted (p : JSONParse) (cb : JSONTokenizer σ) (c : Char) (st : ScanState σ)
    (hfit : p.limit_memory_ + p.sizeofString + p.sizeofArray ≤ 65535)
    (ha : ScanState.accounted p st) :
    ScanState.accounted p (FromString.switch p cb true c st) := by
  have hcost := eventCost_le p st c
  by_cases ho : p.limit_memory_ < st.binary_size_ + FromString.eventCost p st c
  · rw [switch_over p cb c st ha.2 ho (by have := ha.2; omega)]
    exact accounted_of_frame p st _ ⟨rfl, rfl⟩ ha
  have hf : st.binary_size_ + FromString.eventCost p st c ≤ p.limit_memory_ := by omega
  have hl : p.limit_memory_ ≤ 65535 := by omega
  unfold FromString.switch
  by_cases h1 : c = '['
  · rw [if_pos (by simp [h1])]
    rw [eventCost_open p st c (Or.inl h1)] at hf
    obtain ⟨e1, e2⟩ := caseOpen_fits p cb true false st hf hl
    unfold ScanState.accounted at ha ⊢
    rw [e1, e2, chainSize_append, chainSize_cons, chainSize_nil, sizeof_marker]
    omega
  rw [if_neg (by simp [h1])]
  by_cases h2 : c = ']'
  · rw [if_pos (by simp [h2])]
    obtain ⟨e1, e2⟩ := caseClose_fits p cb true false st c
      (eventCost_close p st c (Or.inl h2)) hf hl
    unfold ScanState.accounted at ha ⊢
    rw [e1, e2]
    omega
  rw [if_neg (by simp [h2])]
  by_cases h3 : c = '\x7b'
  · rw [if_pos (by simp [h3])]
    rw [eventCost_open p st c (Or.inr h3)] at hf
    obtain ⟨e1, e2⟩ := caseOpen_fits p cb true true st hf hl
    unfold ScanState.accounted at ha ⊢
    rw [e1, e2, chainSize_append, chainSize_cons, chainSize_nil, sizeof_marker]
    omega
  rw [if_neg (by simp [h3])]
  by_cases h4 : c = '\x7d'
  · rw [if_pos (by simp [h4])]
    obtain ⟨e1, e2⟩ := caseClose_fits p cb true true st c
      (eventCost_close p st c (Or.inr h4)) hf hl
    unfold ScanState.accounted at ha ⊢
    rw [e1, e2]
    omega
  rw [if_neg (by simp [h4])]
  by_cases h5 : c = DQUOTE
  · rw [if_pos (by simp [h5])]
    exact accounted_of_frame p st _ (caseQuote_frame st) ha
  rw [if_neg (by simp [h5])]
  by_cases h6 : c = ':'
  · subst h6
    rw [if_pos (by simp)]
    rw [eventCost_colon] at hf
    unfold ScanState.accounted at ha ⊢
    rcases caseColon_fits p cb true st hf hl with ⟨e1, e2⟩ | ⟨e1, e2⟩
    · rw [e1, e2]; exact ha
    · rw [e1, e2, chainSize_append, chainSize_cons, chainSize_nil, sizeof_string]
      omega
  rw [if_neg (by simp [h6])]
  by_cases h7 : c = ','
  · subst h7
    rw [if_pos (by simp)]
    rw [eventCost_comma] at hf
    unfold ScanState.accounted at ha ⊢
    rcases caseComma_fits p cb true st (fun hs => by rw [if_pos hs] at hf; exact hf) hl
      with ⟨e1, e2⟩ | ⟨e1, e2⟩
    · rw [e1, e2]; exact ha
    · rw [e1, e2, chainSize_append, chainSize_cons, chainSize_nil, sizeof_string]
      have hs : -1 < st.str_start := by
        by_contra hs
        have := congrArg List.length e1
        rw [caseComma_skip p cb true st hs] at this
        simp at this
      rw [if_pos hs] at hf
      omega
  rw [if_neg (by simp [h7])]
  exact accounted_of_frame p st _ (caseDefault_frame c st) ha

theorem dispatch_accounted (p : JSONParse) (cb : JSONTokenizer σ) (c : Char)
    (st : ScanState σ) (hfit : p.limit_memory_ + p.sizeofString + p.sizeofArray ≤ 65535)
    (ha : ScanState.accounted p st) :
    ScanState.accounted p (FromString.dispatch p cb true c st) := by
  unfold FromString.dispatch
  split
  · exact switch_accounted p cb c st hfit ha
  · exact ha

/-- A pass with a chain asked for keeps the account. -/
theorem body_accounted (p : JSONParse) (cb : JSONTokenizer σ) (st : ScanState σ)
    (hfit : p.limit_memory_ + p.sizeofString + p.sizeofArray ≤ 65535)
    (ha : ScanState.accounted p st) :
    ScanState.accounted p (FromString.body p cb true st) := by
  unfold FromString.body
  apply accounted_of_frame p _ _ (after_frame p true _)
  apply dispatch_accounted p cb _ _ hfit
  exact accounted_of_frame p st _ (quoted_frame _ st) ha

/-- The account holds whenever a pass begins. -/
theorem passes_accounted (p : JSONParse) (cb : JSONTokenizer σ) (user : σ) (s : List Char)
    (psi : Nat) (st : ScanState σ)
    (hfit : p.limit_memory_ + p.sizeofString + p.sizeofArray ≤ 65535)
    (hst : st ∈ FromString.scanPasses p cb user s true psi) : ScanState.accounted p st := by
  refine passes_induction p cb true _ (fun st => ScanState.accounted p st) ?_ _ _ ?_ st hst
  · intro x hx _ _
    exact accounted_of_frame p _ _ ⟨rfl, rfl⟩ (body_accounted p cb x hfit hx)
  · exact ⟨rfl, Nat.zero_le _⟩

/-- The account holds when the loop ends. -/
theorem loop_accounted (p : JSONParse) (cb : JSONTokenizer σ) (l : Nat)
    (hfit : p.limit_memory_ + p.sizeofString + p.sizeofArray ≤ 65535) :
    ∀ (fuel : Nat) (st : ScanState σ), ScanState.accounted p st →
      ScanState.accounted p (FromString.loop p cb true l fuel st) := by
  intro fuel
  induction fuel with
  | zero => intro st ha; exact ha
  | succ n ih =>
    intro st ha
    by_cases hlt : st.i < l
    · rw [loop_succ_pos p cb true l n st hlt]
      have hb := body_accounted p cb st hfit ha
      split
      · exact hb
      · exact ih _ (accounted_of_frame p _ _ ⟨rfl, rfl⟩ hb)
    · rw [loop_succ_neg p cb true l n st hlt]; exact ha

theorem finish_frame (p : JSONParse) (st : ScanState σ) :
    (FromString.finish p st).binary_size_ = st.binary_size_ ∧
    (FromString.finish p st).chain = st.chain ∧ (FromString.finish p st).i = st.i := by
  simp only [FromString.finish, FromString.unbalanced, FromString.unterminated,
    FromString.openMap, FromString.openArray, ScanState.setError]
  split_ifs <;> exact ⟨rfl, rfl, rfl⟩

/-- A pass with a chain asked for on an event whose cost goes over the limit. -/
theorem body_over (p : JSONParse) (cb : JSONTokenizer σ) (st : ScanState σ)
    (he : st.last_error_ = ERR.ERR_NONE) (hq : st.quoted_processing = false)
    (hd : p.limit_node_level_ = true → 0 ≤ st.ac ∧ 0 ≤ st.mc)
    (hb : st.binary_size_ ≤ p.limit_memory_)
    (ho : p.limit_memory_ < st.binary_size_ + FromString.eventCost p st (charAt st.s st.i))
    (hw : st.binary_size_ + FromString.eventCost p st (charAt st.s st.i) ≤ 65535) :
    FromString.body p cb true st
      = FromString.setHead true (st.setError ERR.ERR_OBJECT_MEMORY_LIMIT) := by
  unfold FromString.body
  rw [dispatch_switch p cb true st he hq, switch_over p cb _ st hb ho hw]
  exact after_of_error p true _ (by simp [ScanState.setError]) hd

end Account2
section NoChain
variable {σ : Type}

theorem closeValue_error (p : JSONParse) (cb : JSONTokenizer σ) (st : ScanState σ) :
    (FromString.closeValue p cb st).last_error_
      = if (!(FromString.valueNode p st).1) = true then ERR.ERR_BAD_VALUE
        else st.last_error_ := by
  unfold FromString.closeValue
  simp only [addSize_last_error, clearSpan_last_error, callString_last_error, link_last_error]
  split <;> rfl

/-- Without a chain asked for, the switch does not set `ERR_OBJECT_MEMORY_LIMIT`. -/
theorem switch_no_chain (p : JSONParse) (cb : JSONTokenizer σ) (c : Char) (st : ScanState σ)
    (he : st.last_error_ ≠ ERR.ERR_OBJECT_MEMORY_LIMIT) :
    (FromString.switch p cb false c st).last_error_ ≠ ERR.ERR_OBJECT_MEMORY_LIMIT := by
  have hopen : ∀ isMap, (FromString.caseOpen p cb false isMap st).last_error_
      ≠ ERR.ERR_OBJECT_MEMORY_LIMIT := by
    intro isMap
    unfold FromString.caseOpen
    rw [if_pos (by simp)]
    simp only [addSize_last_error, bump_last_error, callOpen_last_error, link_last_error]
    exact he
  have hclose : ∀ isMap, (FromString.caseClose p cb false isMap st).last_error_
      ≠ ERR.ERR_OBJECT_MEMORY_LIMIT := by
    intro isMap
    unfold FromString.caseClose
    simp only []
    rw [if_pos (by simp)]
    simp only [addSize_last_error, bump_last_error, callClose_last_error, link_last_error]
    split
    · rw [closeValue_error]
      split
      · decide
      · exact he
    · exact he
  unfold FromString.switch
  split_ifs
  · exact hopen false
  · exact hclose false
  · exact hopen true
  · exact hclose true
  · simp only [FromString.caseQuote, ScanState.setError]
    split_ifs <;> first | exact he | simp
  · unfold FromString.caseColon
    rw [if_pos (by simp)]
    split
    · simp only [setError_last_error]; decide
    · simp only [addSize_last_error, clearSpan_last_error, keyTaken_last_error,
        callString_last_error, link_last_error]
      exact he
  · unfold FromString.caseComma
    split
    · rw [if_pos (by simp)]
      split
      · simp only [setError_last_error]; decide
      · simp only [addSize_last_error, clearSpan_last_error, callStringComma_last_error,
          link_last_error, undetermined_last_error]
        split
        · simp only [setError_last_error]; decide
        · exact he
    · exact he
  · simp only [FromString.caseDefault, ScanState.setError]
    split_ifs <;> first | exact he | simp

/-- Without a chain asked for, a pass does not set `ERR_OBJECT_MEMORY_LIMIT`. -/
theorem body_no_chain (p : JSONParse) (cb : JSONTokenizer σ) (st : ScanState σ)
    (he : st.last_error_ ≠ ERR.ERR_OBJECT_MEMORY_LIMIT) :
    (FromString.body p cb false st).last_error_ ≠ ERR.ERR_OBJECT_MEMORY_LIMIT := by
  have hq : (FromString.quoted (charAt st.s st.i) st).last_error_
      ≠ ERR.ERR_OBJECT_MEMORY_LIMIT := by
    simp only [FromString.quoted, ScanState.setError]
    split_ifs <;> first | exact he | simp
  have hd : (FromString.dispatch p cb false (charAt st.s st.i)
      (FromString.quoted (charAt st.s st.i) st)).last_error_
      ≠ ERR.ERR_OBJECT_MEMORY_LIMIT := by
    unfold FromString.dispatch
    split
    · exact switch_no_chain p cb _ _ hq
    · exact hq
  unfold FromString.body
  generalize FromString.dispatch p cb false (charAt st.s st.i)
    (FromString.quoted (charAt st.s st.i) st) = y at hd
  simp only [FromString.after, FromString.depthError, FromString.negativeMap,
    FromString.negativeArray, FromString.stopError, FromString.setHead, ScanState.setError]
  split_ifs <;> first | exact hd | simp

theorem loop_no_chain (p : JSONParse) (cb : JSONTokenizer σ) (l : Nat) :
    ∀ (fuel : Nat) (st : ScanState σ), st.last_error_ ≠ ERR.ERR_OBJECT_MEMORY_LIMIT →
      (FromString.loop p cb false l fuel st).last_error_ ≠ ERR.ERR_OBJECT_MEMORY_LIMIT := by
  intro fuel
  induction fuel with
  | zero => intro st he; exact he
  | succ n ih =>
    intro st he
    by_cases hlt : st.i < l
    · rw [loop_succ_pos p cb false l n st hlt]
      have hb := body_no_chain p cb st he
      split
      · exact hb
      · exact ih _ hb
    · rw [loop_succ_neg p cb false l n st hlt]; exact he

/-- Without a chain asked for, `FromString` does not end with
`ERR_OBJECT_MEMORY_LIMIT`. -/
theorem FromString_no_chain (p : JSONParse) (cb : JSONTokenizer σ) (user : σ)
    (s : List Char) (psi : Nat) :
    (FromString p cb user s false psi).parser.last_error_
      ≠ ERR.ERR_OBJECT_MEMORY_LIMIT := by
  have hl := loop_no_chain p cb (wrapU16 (strlen s)) (2 * wrapU16 (strlen s) + 1)
    (FromString.init user s psi) (by simp [FromString.init])
  rw [FromString_last_error]
  unfold FromString.scan
  generalize FromString.loop p cb false (wrapU16 (strlen s)) (2 * wrapU16 (strlen s) + 1)
    (FromString.init user s psi) = y at hl
  simp only [FromString.finish, FromString.unbalanced, FromString.unterminated,
    FromString.openMap, FromString.openArray, ScanState.setError]
  split_ifs <;> first | exact hl | simp

theorem chainSize_eq_zero (p : JSONParse) (c : List JSONElement)
    (hA : 0 < p.sizeofArray) (hS : 0 < p.sizeofString) (h0 : chainSize p c = 0) : c = [] := by
  cases c with
  | nil => rfl
  | cons e t =>
    rw [chainSize_cons] at h0
    cases e <;> simp [JSONElement.sizeof] at h0 <;> omega

end NoChain
section WithHead
variable {σ : Type}

/-! ### `*h` is read by no statement of the loop but the one that sets it -/

theorem ite_withHead (c : Prop) [Decidable c] (x : Option Nat) (a b : ScanState σ) :
    (if c then a.withHead x else b.withHead x) = (if c then a else b).withHead x := by
  split <;> rfl

theorem bump_withHead (isMap : Bool) (d : Int) (x : Option Nat) (st : ScanState σ) :
    (st.withHead x).bump isMap d = (st.bump isMap d).withHead x := by
  cases isMap <;> rfl

theorem callOpen_withHead (p : JSONParse) (cb : JSONTokenizer σ) (isMap : Bool)
    (x : Option Nat) (st : ScanState σ) :
    FromString.callOpen p cb isMap (st.withHead x)
      = (FromString.callOpen p cb isMap st).withHead x := by
  unfold FromString.callOpen
  cases p.callbacks_ <;> rfl

theorem callClose_withHead (p : JSONParse) (cb : JSONTokenizer σ) (isMap : Bool)
    (x : Option Nat) (st : ScanState σ) :
    FromString.callClose p cb isMap (st.withHead x)
      = (FromString.callClose p cb isMap st).withHead x := by
  unfold FromString.callClose
  show (if (!st.stop && p.callbacks_) = true then _ else _) = _
  split <;> rfl

theorem callString_withHead (p : JSONParse) (cb : JSONTokenizer σ) (a : JSONString)
    (x : Option Nat) (st : ScanState σ) :
    FromString.callString p cb a (st.withHead x)
      = (FromString.callString p cb a st).withHead x := by
  unfold FromString.callString
  cases p.callbacks_
  · rfl
  · simp only [if_true]
    show (if (cb.TokenString OP.OP_FROM_STRING st.user a st.s st.str_start st.str_end).1 = true
      then _ else _) = _
    split <;> rfl

theorem callStringComma_withHead (p : JSONParse) (cb : JSONTokenizer σ) (a : JSONString)
    (x : Option Nat) (st : ScanState σ) :
    FromString.callStringComma p cb a (st.withHead x)
      = (FromString.callStringComma p cb a st).withHead x := by
  unfold FromString.callStringComma
  cases p.callbacks_ <;> rfl

theorem quoted_withHead (c : Char) (x : Option Nat) (st : ScanState σ) :
    FromString.quoted c (st.withHead x) = (FromString.quoted c st).withHead x := by
  simp only [FromString.quoted, ScanState.withHead, ScanState.setError]
  split_ifs <;> with_reducible rfl

theorem caseQuote_withHead (x : Option Nat) (st : ScanState σ) :
    FromString.caseQuote (st.withHead x) = (FromString.caseQuote st).withHead x := by
  simp only [FromString.caseQuote, ScanState.withHead, ScanState.setError]
  split_ifs <;> with_reducible rfl

theorem caseDefault_withHead (c : Char) (x : Option Nat) (st : ScanState σ) :
    FromString.caseDefault c (st.withHead x) = (FromString.caseDefault c st).withHead x := by
  simp only [FromString.caseDefault, ScanState.withHead, ScanState.setError]
  split_ifs <;> with_reducible rfl

theorem caseOpen_withHead (p : JSONParse) (cb : JSONTokenizer σ) (h isMap : Bool)
    (x : Option Nat) (st : ScanState σ) :
    FromString.caseOpen p cb h isMap (st.withHead x)
      = (FromString.caseOpen p cb h isMap st).withHead x := by
  unfold FromString.caseOpen
  show (if (!h || decide (p.limit_memory_ ≥ st.binary_size_ + p.sizeofArray)) = true then
      ScanState.addSize p.sizeofArray (ScanState.bump isMap 1 (FromString.callOpen p cb isMap
        ((st.link (FromString.marker isMap true)).withHead x)))
    else (st.setError ERR.ERR_OBJECT_MEMORY_LIMIT).withHead x) = _
  rw [callOpen_withHead, bump_withHead]
  split <;> rfl

theorem closeValue_withHead (p : JSONParse) (cb : JSONTokenizer σ) (x : Option Nat)
    (st : ScanState σ) :
    FromString.closeValue p cb (st.withHead x) = (FromString.closeValue p cb st).withHead x := by
  unfold FromString.closeValue
  show ScanState.addSize p.sizeofString (ScanState.clearSpan
      (FromString.callString p cb (FromString.valueNode p st).2
        (ScanState.link (JSONElement.STRING (FromString.valueNode p st).2)
          (if (!(FromString.valueNode p st).1) = true then
            (st.setError ERR.ERR_BAD_VALUE).withHead x
           else (st.valueTaken).withHead x)))) = _
  rw [ite_withHead]
  show ScanState.addSize p.sizeofString (ScanState.clearSpan
      (FromString.callString p cb (FromString.valueNode p st).2
        ((ScanState.link (JSONElement.STRING (FromString.valueNode p st).2)
          (if (!(FromString.valueNode p st).1) = true then st.setError ERR.ERR_BAD_VALUE
           else st.valueTaken)).withHead x))) = _
  rw [callString_withHead]
  rfl

theorem caseClose_withHead (p : JSONParse) (cb : JSONTokenizer σ) (h isMap : Bool)
    (x : Option Nat) (st : ScanState σ) :
    FromString.caseClose p cb h isMap (st.withHead x)
      = (FromString.caseClose p cb h isMap st).withHead x := by
  unfold FromString.caseClose
  simp only []
  show (if (!h || decide (p.limit_memory_ ≥ wrapU16 (st.binary_size_ +
        (if -1 < st.str_start then p.sizeofString + p.sizeofArray else p.sizeofArray))))
          = true then
      ScanState.addSize p.sizeofArray (ScanState.bump isMap (-1) (FromString.callClose p cb isMap
        (ScanState.link (FromString.marker isMap false)
          (if -1 < st.str_start then FromString.closeValue p cb (st.withHead x)
           else st.withHead x))))
    else (st.setError ERR.ERR_OBJECT_MEMORY_LIMIT).withHead x) = _
  rw [closeValue_withHead, ite_withHead]
  show (if (!h || decide (p.limit_memory_ ≥ wrapU16 (st.binary_size_ +
        (if -1 < st.str_start then p.sizeofString + p.sizeofArray else p.sizeofArray))))
          = true then
      ScanState.addSize p.sizeofArray (ScanState.bump isMap (-1) (FromString.callClose p cb isMap
        ((ScanState.link (FromString.marker isMap false)
          (if -1 < st.str_start then FromString.closeValue p cb st else st)).withHead x)))
    else (st.setError ERR.ERR_OBJECT_MEMORY_LIMIT).withHead x) = _
  rw [callClose_withHead, bump_withHead]
  split_ifs <;> rfl

theorem caseColon_withHead (p : JSONParse) (cb : JSONTokenizer σ) (h : Bool)
    (x : Option Nat) (st : ScanState σ) :
    FromString.caseColon p cb h (st.withHead x)
      = (FromString.caseColon p cb h st).withHead x := by
  unfold FromString.caseColon
  show (if (!h || decide (p.limit_memory_ ≥ st.binary_size_ + p.sizeofString)) = true then
      (if (st.is_literal != 0 || st.str_start == -1 || st.str_end == -1) = true then
        (st.setError ERR.ERR_BAD_ATTRIBUTE).withHead x
      else
        ScanState.addSize p.sizeofString (ScanState.clearSpan (ScanState.keyTaken
          (FromString.callString p cb (FromString.keyNode p st)
            ((st.link (JSONElement.STRING (FromString.keyNode p st))).withHead x)))))
    else (st.setError ERR.ERR_OBJECT_MEMORY_LIMIT).withHead x) = _
  rw [callString_withHead]
  split
  · split <;> rfl
  · rfl

theorem caseComma_withHead (p : JSONParse) (cb : JSONTokenizer σ) (h : Bool)
    (x : Option Nat) (st : ScanState σ) :
    FromString.caseComma p cb h (st.withHead x)
      = (FromString.caseComma p cb h st).withHead x := by
  unfold FromString.caseComma
  show (if -1 < st.str_start then
      (if (!h || decide (p.limit_memory_ ≥ st.binary_size_ + p.sizeofString)) = true then
        (if (st.is_literal == 1 || st.str_start == -1 || st.str_end == -1) = true then
          (st.setError ERR.ERR_BAD_VALUE).withHead x
        else
          ScanState.addSize p.sizeofString (ScanState.clearSpan
            (FromString.callStringComma p cb (FromString.valueNode p st).2
              (ScanState.link (JSONElement.STRING (FromString.valueNode p st).2)
                (ScanState.undetermined
                  (if (!(FromString.valueNode p st).1) = true then
                    (st.setError ERR.ERR_BAD_VALUE).withHead x
                   else st.withHead x))))))
      else (st.setError ERR.ERR_OBJECT_MEMORY_LIMIT).withHead x)
    else st.withHead x) = _
  rw [ite_withHead]
  show (if -1 < st.str_start then
      (if (!h || decide (p.limit_memory_ ≥ st.binary_size_ + p.sizeofString)) = true then
        (if (st.is_literal == 1 || st.str_start == -1 || st.str_end == -1) = true then
          (st.setError ERR.ERR_BAD_VALUE).withHead x
        else
          ScanState.addSize p.sizeofString (ScanState.clearSpan
            (FromString.callStringComma p cb (FromString.valueNode p st).2
              ((ScanState.link (JSONElement.STRING (FromString.valueNode p st).2)
                (ScanState.undetermined
                  (if (!(FromString.valueNode p st).1) = true then
                    st.setError ERR.ERR_BAD_VALUE
                   else st))).withHead x))))
      else (st.setError ERR.ERR_OBJECT_MEMORY_LIMIT).withHead x)
    else st.withHead x) = _
  rw [callStringComma_withHead]
  split
  · split
    · split <;> rfl
    · rfl
  · rfl

/-- The switch does not read `*h`. -/
theorem switch_withHead (p : JSONParse) (cb : JSONTokenizer σ) (h : Bool) (c : Char)
    (x : Option Nat) (st : ScanState σ) :
    FromString.switch p cb h c (st.withHead x)
      = (FromString.switch p cb h c st).withHead x := by
  unfold FromString.switch
  rw [caseOpen_withHead, caseOpen_withHead, caseClose_withHead, caseClose_withHead,
    caseQuote_withHead, caseColon_withHead, caseComma_withHead, caseDefault_withHead]
  split_ifs <;> rfl

theorem dispatch_withHead (p : JSONParse) (cb : JSONTokenizer σ) (h : Bool) (c : Char)
    (x : Option Nat) (st : ScanState σ) :
    FromString.dispatch p cb h c (st.withHead x)
      = (FromString.dispatch p cb h c st).withHead x := by
  unfold FromString.dispatch
  rw [switch_withHead]
  show (if (st.last_error_ == ERR.ERR_NONE && !st.quoted_processing) = true then _ else _) = _
  split <;> rfl

theorem stopError_withHead (x : Option Nat) (st : ScanState σ) :
    FromString.stopError (st.withHead x) = (FromString.stopError st).withHead x := by
  simp only [FromString.stopError, ScanState.withHead, ScanState.setError]
  split_ifs <;> rfl

theorem depthError_withHead (p : JSONParse) (x : Option Nat) (st : ScanState σ) :
    FromString.depthError p (st.withHead x) = (FromString.depthError p st).withHead x := by
  simp only [FromString.depthError, FromString.negativeMap, FromString.negativeArray,
    ScanState.withHead, ScanState.setError]
  split_ifs <;> rfl

theorem setHead_erase (h : Bool) (st : ScanState σ) :
    (FromString.setHead h st).withHead none = st.withHead none := by
  unfold FromString.setHead
  split <;> rfl

theorem setHead_false (st : ScanState σ) : FromString.setHead false st = st := by
  unfold FromString.setHead
  simp

/-- The statements after the switch, with `*h` put aside. -/
theorem after_erase (p : JSONParse) (st : ScanState σ) :
    (FromString.after p true st).withHead none
      = FromString.after p false (st.withHead none) := by
  unfold FromString.after
  rw [setHead_false, ← depthError_withHead, ← stopError_withHead, setHead_erase]

theorem finish_withHead (p : JSONParse) (x : Option Nat) (st : ScanState σ) :
    FromString.finish p (st.withHead x) = (FromString.finish p st).withHead x := by
  simp only [FromString.finish, FromString.unbalanced, FromString.unterminated,
    FromString.openMap, FromString.openArray, ScanState.withHead, ScanState.setError]
  split_ifs <;> rfl

end WithHead
section Lockstep
variable {σ : Type}

theorem ite_asked {α : Type} (c : Bool) (a b : α) :
    (if (!true || c) = true then a else b) = (if (!false || c) = true then a else b) ∨
    (if (!true || c) = true then a else b) = b := by
  cases c <;> simp

theorem caseOpen_asked (p : JSONParse) (cb : JSONTokenizer σ) (isMap : Bool)
    (st : ScanState σ) :
    FromString.caseOpen p cb true isMap st = FromString.caseOpen p cb false isMap st ∨
    FromString.caseOpen p cb true isMap st = st.setError ERR.ERR_OBJECT_MEMORY_LIMIT := by
  unfold FromString.caseOpen
  exact ite_asked _ _ _

theorem caseClose_asked (p : JSONParse) (cb : JSONTokenizer σ) (isMap : Bool)
    (st : ScanState σ) :
    FromString.caseClose p cb true isMap st = FromString.caseClose p cb false isMap st ∨
    FromString.caseClose p cb true isMap st = st.setError ERR.ERR_OBJECT_MEMORY_LIMIT := by
  unfold FromString.caseClose
  exact ite_asked _ _ _

theorem caseColon_asked (p : JSONParse) (cb : JSONTokenizer σ) (st : ScanState σ) :
    FromString.caseColon p cb true st = FromString.caseColon p cb false st ∨
    FromString.caseColon p cb true st = st.setError ERR.ERR_OBJECT_MEMORY_LIMIT := by
  unfold FromString.caseColon
  exact ite_asked _ _ _

theorem caseComma_asked (p : JSONParse) (cb : JSONTokenizer σ) (st : ScanState σ) :
    FromString.caseComma p cb true st = FromString.caseComma p cb false st ∨
    FromString.caseComma p cb true st = st.setError ERR.ERR_OBJECT_MEMORY_LIMIT := by
  unfold FromString.caseComma
  by_cases hs : -1 < st.str_start
  · rw [if_pos hs, if_pos hs]
    exact ite_asked _ _ _
  · left; rw [if_neg hs, if_neg hs]

/-- The switch with a chain asked for does what it does without one, unless a memory
test fails: then it sets `ERR_OBJECT_MEMORY_LIMIT` and does nothing else. -/
theorem switch_asked (p : JSONParse) (cb : JSONTokenizer σ) (c : Char) (st : ScanState σ) :
    FromString.switch p cb true c st = FromString.switch p cb false c st ∨
    FromString.switch p cb true c st = st.setError ERR.ERR_OBJECT_MEMORY_LIMIT := by
  unfold FromString.switch
  split_ifs
  · exact caseOpen_asked p cb false st
  · exact caseClose_asked p cb false st
  · exact caseOpen_asked p cb true st
  · exact caseClose_asked p cb true st
  · exact Or.inl rfl
  · exact caseColon_asked p cb st
  · exact caseComma_asked p cb st
  · exact Or.inl rfl

theorem quoted_depth (c : Char) (st : ScanState σ) :
    (FromString.quoted c st).ac = st.ac ∧ (FromString.quoted c st).mc = st.mc := by
  simp only [FromString.quoted, ScanState.setError]
  split_ifs <;> exact ⟨rfl, rfl⟩

/-- A pass with a chain asked for ends with `ERR_OBJECT_MEMORY_LIMIT`, or it is, `*h`
aside, the pass without a chain asked for. -/
theorem body_lockstep (p : JSONParse) (cb : JSONTokenizer σ) (st : ScanState σ)
    (hd : p.limit_node_level_ = true → 0 ≤ st.ac ∧ 0 ≤ st.mc) :
    (FromString.body p cb true st).last_error_ = ERR.ERR_OBJECT_MEMORY_LIMIT ∨
    FromString.body p cb false (st.withHead none)
      = (FromString.body p cb true st).withHead none := by
  have hc : charAt (st.withHead none).s (st.withHead none).i = charAt st.s st.i := rfl
  unfold FromString.body
  rw [hc, quoted_withHead, dispatch_withHead, after_erase]
  generalize hz : FromString.quoted (charAt st.s st.i) st = z
  have hzd : p.limit_node_level_ = true → 0 ≤ z.ac ∧ 0 ≤ z.mc := by
    intro hl
    have := quoted_depth (charAt st.s st.i) st
    rw [hz] at this
    rw [this.1, this.2]; exact hd hl
  unfold FromString.dispatch
  by_cases hcond : (z.last_error_ == ERR.ERR_NONE && !z.quoted_processing) = true
  · rw [if_pos hcond, if_pos hcond]
    rcases switch_asked p cb (charAt st.s st.i) z with h1 | h1
    · right; rw [h1]
    · left
      rw [h1, after_of_error p true (z.setError ERR.ERR_OBJECT_MEMORY_LIMIT)
        (by simp [ScanState.setError]) (fun hl => hzd hl)]
      exact (setHead_fields true _).1
  · rw [if_neg hcond, if_neg hcond]
    exact Or.inr rfl

/-- The loop with a chain asked for ends with `ERR_OBJECT_MEMORY_LIMIT`, or it is, `*h`
aside, the loop without a chain asked for. -/
theorem loop_lockstep (p : JSONParse) (cb : JSONTokenizer σ) (l : Nat) :
    ∀ (fuel : Nat) (st : ScanState σ),
      (p.limit_node_level_ = true → 0 ≤ st.ac ∧ 0 ≤ st.mc) →
      (FromString.loop p cb true l fuel st).last_error_ = ERR.ERR_OBJECT_MEMORY_LIMIT ∨
      FromString.loop p cb false l fuel (st.withHead none)
        = (FromString.loop p cb true l fuel st).withHead none := by
  intro fuel
  induction fuel with
  | zero => intro st _; exact Or.inr rfl
  | succ n ih =>
    intro st hd
    by_cases hlt : st.i < l
    · have hlt2 : (st.withHead none).i < l := hlt
      rw [loop_succ_pos p cb true l n st hlt, loop_succ_pos p cb false l n _ hlt2]
      rcases body_lockstep p cb st hd with h1 | h1
      · left
        rw [if_pos (leaves_of_error p _ (by rw [h1]; decide))]
        exact h1
      · rw [h1]
        have hlv : FromString.leaves p ((FromString.body p cb true st).withHead none)
            = FromString.leaves p (FromString.body p cb true st) := rfl
        rw [hlv]
        by_cases hleave : FromString.leaves p (FromString.body p cb true st) = true
        · rw [if_pos hleave, if_pos hleave]
          exact Or.inr rfl
        · rw [if_neg hleave, if_neg hleave]
          have he := error_none_of_stays p _ (by simpa using hleave)
          have hnext : ((FromString.body p cb true st).withHead none).next
              = ((FromString.body p cb true st).next).withHead none := rfl
          rw [hnext]
          apply ih
          intro hl
          have hb := body_depth_error p cb true st hl
          show 0 ≤ (FromString.body p cb true st).ac ∧ 0 ≤ (FromString.body p cb true st).mc
          constructor
          · by_contra hneg
            by_cases hm : (FromString.body p cb true st).mc < 0
            · rw [hb.1 hm] at he; exact absurd he (by decide)
            · rw [hb.2 (by omega) hm] at he; exact absurd he (by decide)
          · by_contra hneg
            rw [hb.1 (by omega)] at he; exact absurd he (by decide)
    · have hlt2 : ¬ (st.withHead none).i < l := hlt
      rw [loop_succ_neg p cb true l n st hlt, loop_succ_neg p cb false l n _ hlt2]
      exact Or.inr rfl

/-- The parse with a chain asked for ends with `ERR_OBJECT_MEMORY_LIMIT`, or it ends in
the state, `*h` aside, in which the parse without a chain asked for ends. -/
theorem finish_lockstep (p : JSONParse) (cb : JSONTokenizer σ) (user : σ) (s : List Char)
    (psi : Nat)
    (hne : (FromString p cb user s true psi).parser.last_error_
      ≠ ERR.ERR_OBJECT_MEMORY_LIMIT) :
    FromString.finish p (FromString.scan p cb user s false psi)
      = (FromString.finish p (FromString.scan p cb user s true psi)).withHead none := by
  have hinit : (FromString.init user s psi : ScanState σ).withHead none
      = FromString.init user s psi := rfl
  rcases loop_lockstep p cb (wrapU16 (strlen s)) (2 * wrapU16 (strlen s) + 1)
    (FromString.init user s psi) (fun _ => ⟨le_refl _, le_refl _⟩) with h1 | h1
  · exfalso
    apply hne
    rw [FromString_last_error]
    unfold FromString.scan
    rw [finish_of_error p _ (by rw [h1]; decide)]
    exact h1
  · rw [hinit] at h1
    unfold FromString.scan
    rw [h1, finish_withHead]

end Lockstep

section StrNCmpFacts

theorem strncmp_scan_cases (s1 s2 : List Char) (cs : Bool) :
    ∀ (k i : Nat), StrNCmp.scan s1 s2 cs k i = 0 ∨ StrNCmp.scan s1 s2 cs k i = -1 := by
  intro k
  induction k with
  | zero => intro i; left; rfl
  | succ n ih =>
    intro i
    rw [StrNCmp.scan]
    split
    · right; rfl
    · exact ih (i + 1)

theorem strncmp_scan_iff (s1 s2 : List Char) (cs : Bool) :
    ∀ (k i : Nat), StrNCmp.scan s1 s2 cs k i = 0 ↔
      ∀ j, i ≤ j → j < i + k → StrNCmp.differs s1 s2 cs j = false := by
  intro k
  induction k with
  | zero => intro i; simp [StrNCmp.scan]; intro j h1 h2; omega
  | succ n ih =>
    intro i
    rw [StrNCmp.scan]
    by_cases hd : StrNCmp.differs s1 s2 cs i = true
    · rw [if_pos hd]
      constructor
      · intro h; exact absurd h (by decide)
      · intro h
        have := h i (le_refl _) (by omega)
        rw [hd] at this
        exact absurd this (by decide)
    · rw [if_neg hd, ih (i + 1)]
      constructor
      · intro h j h1 h2
        by_cases hji : j = i
        · rw [hji]; simpa using hd
        · exact h j (by omega) (by omega)
      · intro h j h1 h2
        exact h j (by omega) (by omega)

theorem strncmp_nonneg_iff (s1 s2 : List Char) (n : Nat) (cs : Bool) :
    0 ≤ StrNCmp s1 s2 n cs ↔ ∀ j, j < n → StrNCmp.differs s1 s2 cs j = false := by
  have hi := strncmp_scan_iff s1 s2 cs n 0
  simp only [Nat.zero_le, Nat.zero_add, true_implies] at hi
  rw [← hi]
  unfold StrNCmp
  rcases strncmp_scan_cases s1 s2 cs n 0 with h | h
  · simp only [h, beq_self_eq_true, if_true, iff_true]
    split <;> decide
  · have e : ((-1 : Int) == 0) = false := by decide
    simp only [h, e, Bool.false_eq_true, if_false]
    decide

theorem strncmp_eq_zero_iff (s1 s2 : List Char) (n : Nat) (cs : Bool) :
    StrNCmp s1 s2 n cs = 0 ↔
      (∀ j, j < n → StrNCmp.differs s1 s2 cs j = false) ∧ strlen s1 ≤ n := by
  have hi := strncmp_scan_iff s1 s2 cs n 0
  simp only [Nat.zero_le, Nat.zero_add, true_implies] at hi
  rw [← hi]
  unfold StrNCmp
  rcases strncmp_scan_cases s1 s2 cs n 0 with h | h
  · simp only [h, beq_self_eq_true, if_true, true_and]
    by_cases hl : strlen s1 > n
    · rw [if_pos hl]; constructor
      · intro h; exact absurd h (by decide)
      · intro h; omega
    · rw [if_neg hl]; constructor
      · intro _; omega
      · intro _; rfl
  · have e : ((-1 : Int) == 0) = false := by decide
    simp only [h, e, Bool.false_eq_true, if_false]
    constructor
    · intro h; exact absurd h (by decide)
    · intro h; exact absurd h.1 (by decide)

theorem differs_insensitive (s1 s2 : List Char) (i : Nat) :
    StrNCmp.differs s1 s2 false i = false ↔
      (charAt s1 i).toNat &&& 223 = (charAt s2 i).toNat &&& 223 := by
  simp [StrNCmp.differs]

theorem differs_sensitive (s1 s2 : List Char) (i : Nat) :
    StrNCmp.differs s1 s2 true i = false ↔ charAt s1 i = charAt s2 i := by
  simp [StrNCmp.differs]

set_option maxRecDepth 100000 in
theorem mask_arith : ∀ a : Fin 256, a.val &&& 223 = a.val - 32 * (a.val / 32 % 2) := by
  decide

set_option maxRecDepth 100000 in
theorem flip_arith : ∀ a : Fin 256,
    a.val ^^^ 32 = if a.val / 32 % 2 = 1 then a.val - 32 else a.val + 32 := by
  decide

/-- Two bytes are equal under the mask `& 223` exactly when they are the same or differ
in the bit `0x20` alone. -/
theorem mask_classes (a b : Nat) (ha : a < 256) (hb : b < 256) :
    (a &&& 223 = b &&& 223 ↔ a = b ∨ a = b ^^^ 32) := by
  have h1 := mask_arith ⟨a, ha⟩
  have h2 := mask_arith ⟨b, hb⟩
  have h3 := flip_arith ⟨b, hb⟩
  simp only at h1 h2 h3
  rw [h1, h2, h3]
  split_ifs <;> omega

end StrNCmpFacts

section ReplaceFacts

theorem writeAt_of_le (bs : List Char) : ∀ (m : List Char) (pos : Nat), m.length ≤ pos →
    writeAt m pos bs = m := by
  induction bs with
  | nil => intro m pos _; rfl
  | cons c cs ih =>
    intro m pos h
    rw [writeAt, List.set_eq_of_length_le h]
    exact ih m (pos + 1) (by omega)

/-- The memory after `writeAt`: stores behind the end of the list are dropped. -/
theorem writeAt_eq (bs : List Char) : ∀ (m : List Char) (pos : Nat), pos ≤ m.length →
    writeAt m pos bs = m.take pos ++ bs.take (m.length - pos) ++ m.drop (pos + bs.length) := by
  induction bs with
  | nil => intro m pos _; simp [writeAt]
  | cons c cs ih =>
    intro m pos h
    by_cases hp : pos < m.length
    · rw [writeAt, ih (m.set pos c) (pos + 1) (by simp; omega), take_set_succ m pos c hp]
      have e1 : ((m.set pos c).length - (pos + 1)) = m.length - pos - 1 := by simp; omega
      have e2 : (c :: cs).take (m.length - pos) = c :: cs.take (m.length - pos - 1) := by
        have : m.length - pos = (m.length - pos - 1) + 1 := by omega
        rw [this, List.take_succ_cons]; simp
      have e3 : (m.set pos c).drop (pos + 1 + cs.length) = m.drop (pos + (c :: cs).length) := by
        rw [List.drop_set_of_lt _ _ (by omega)]
        congr 1; simp; omega
      rw [e1, e2, e3]
      simp
    · have hl : m.length = pos := by omega
      rw [writeAt_of_le _ m pos (by omega)]
      have : m.drop (pos + (c :: cs).length) = [] := by
        apply List.drop_eq_nil_of_le; simp; omega
      rw [this]
      simp [hl]

theorem readAt_length : ∀ (n : Nat) (m : List Char) (src : Nat), (readAt m src n).length = n := by
  intro n
  induction n with
  | zero => intro m src; rfl
  | succ k ih => intro m src; simp [readAt, ih]

theorem readAt_take : ∀ (n : Nat) (m : List Char) (src k : Nat), src + k ≤ m.length → k ≤ n →
    (readAt m src n).take k = (m.drop src).take k := by
  intro n
  induction n with
  | zero => intro m src k _ hk; have : k = 0 := by omega
            subst this; simp
  | succ j ih =>
    intro m src k h hk
    cases k with
    | zero => simp
    | succ k =>
      have hlt : src < m.length := by omega
      rw [readAt, List.take_succ_cons, ih m (src + 1) k (by omega) (by omega)]
      unfold charAt
      rw [List.getD_eq_getElem _ _ hlt, List.drop_eq_getElem_cons hlt, List.take_succ_cons]

/-- The first bytes after the two stores of `JSONSupport::Replace`: the bytes moved to
`q` and the replacement stored at `sp`, where `q = sp + bs.length`. -/
theorem replace_stores (d bs : List Char) (sp q ep cnt k : Nat)
    (hq : q = sp + bs.length) (hk : q + k ≤ d.length) (hek : ep + k ≤ d.length)
    (hc : k ≤ cnt) :
    (writeAt (writeAt d q (readAt d ep cnt)) sp bs).take (q + k)
      = d.take sp ++ bs ++ (d.drop ep).take k := by
  have hl1 : (writeAt d q (readAt d ep cnt)).length = d.length := writeAt_length _ _ _
  rw [writeAt_eq bs _ sp (by rw [hl1]; omega)]
  have e1 : bs.take ((writeAt d q (readAt d ep cnt)).length - sp) = bs := by
    rw [hl1]; apply List.take_of_length_le; omega
  rw [e1, ← hq]
  have e2 : (writeAt d q (readAt d ep cnt)).take sp = d.take sp := by
    rw [writeAt_eq _ d q (by omega), List.append_assoc,
      List.take_append_of_le_length (by simp; omega), List.take_take]
    congr 1; omega
  have e3 : ((writeAt d q (readAt d ep cnt)).drop q).take k = (d.drop ep).take k := by
    rw [writeAt_eq _ d q (by omega), List.append_assoc, List.drop_left' (by simp; omega),
      List.take_append_of_le_length (by simp [readAt_length]; omega), List.take_take,
      Nat.min_eq_left (by omega)]
    exact readAt_take cnt d ep k hek hc
  rw [e2]
  have hlen : (d.take sp ++ bs).length = q := by simp; omega
  rw [List.take_append_eq_append_take, hlen]
  rw [List.take_of_length_le (by rw [hlen]; omega)]
  have : q + k - q = k := by omega
  rw [this, e3]

theorem memcpy_take (d s : List Char) (sp n : Nat) (hs : n ≤ s.length) :
    memcpy d sp s n = writeAt d sp (s.take n) := by
  unfold memcpy
  rw [readAt_drop n s 0 (by omega)]; simp


theorem replace_valid (L sp ep : Nat) (hep : ep ≤ L) (hspL : sp < L) :
    ((sp : Int) ≥ 0 ∧ (ep : Int) ≥ 0 ∧ (sp : Int) < (L : Int) ∧ (ep : Int) ≤ (L : Int)) := by
  omega

theorem replace_equal (d s : List Char) (L M sp ep n : Nat)
    (hsp : sp ≤ ep) (hep : ep ≤ L) (hspL : sp < L) (hL : L ≤ 65535) (hdl : ep - sp = n) :
    Replace d L M sp ep s n = (L, memcpy d sp s n) := by
  unfold Replace
  have w : wrapU16 ((ep : Int) - (sp : Int)) = n := by unfold wrapU16; omega
  simp only [w, if_pos (replace_valid L sp ep hep hspL), beq_self_eq_true, if_true,
    Int.toNat_ofNat]

theorem replace_shrink (d s : List Char) (L M sp ep n : Nat)
    (hsp : sp ≤ ep) (hep : ep ≤ L) (hspL : sp < L) (hL : L ≤ 65535) (hdl : n < ep - sp) :
    Replace d L M sp ep s n =
      (L - (ep - sp - n),
        memcpy (memmove d (sp + n) ep (L - ep + (ep - sp - n))) sp s n) := by
  unfold Replace
  have w : wrapU16 ((ep : Int) - (sp : Int)) = ep - sp := by unfold wrapU16; omega
  have w2 : wrapU16 (((ep - sp : Nat) : Int) - (n : Int)) = ep - sp - n := by
    unfold wrapU16; omega
  have hne : ((ep - sp) == n) = false := by simp; omega
  have w3 : wrapU16 ((L : Int) - ((ep - sp - n : Nat) : Int)) = L - (ep - sp - n) := by
    unfold wrapU16; omega
  have t1 : ((ep : Int) - ((ep - sp - n : Nat) : Int)).toNat = sp + n := by omega
  have t2 : ((L : Int) - ((ep : Int) - ((ep - sp - n : Nat) : Int))).toNat
      = L - ep + (ep - sp - n) := by omega
  simp only [w, w2, w3, t1, t2, if_pos (replace_valid L sp ep hep hspL), hne,
    Bool.false_eq_true, if_false, if_pos (show ep - sp > n from hdl), Int.toNat_ofNat]

theorem replace_grow (d s : List Char) (L M sp ep n : Nat)
    (hsp : sp ≤ ep) (hep : ep ≤ L) (hspL : sp < L) (hn : n ≤ 65535)
    (hdl : ep - sp < n) (hfit : L + (n - (ep - sp)) ≤ M) (hM : M ≤ 65535) :
    Replace d L M sp ep s n =
      (L + (n - (ep - sp)),
        memcpy (memmove d (ep + (n - (ep - sp))) ep (L - ep + (n - (ep - sp)))) sp s n) := by
  unfold Replace
  have w : wrapU16 ((ep : Int) - (sp : Int)) = ep - sp := by unfold wrapU16; omega
  have w2 : wrapU16 ((n : Int) - ((ep - sp : Nat) : Int)) = n - (ep - sp) := by
    unfold wrapU16; omega
  have hne : ((ep - sp) == n) = false := by simp; omega
  have w3 : wrapU16 ((L : Int) + ((n - (ep - sp) : Nat) : Int)) = L + (n - (ep - sp)) := by
    unfold wrapU16; omega
  have t1 : ((ep : Int) + ((n - (ep - sp) : Nat) : Int)).toNat = ep + (n - (ep - sp)) := by omega
  have t2 : ((L : Int) - ((ep : Int) - ((n - (ep - sp) : Nat) : Int))).toNat
      = L - ep + (n - (ep - sp)) := by omega
  simp only [w, w2, w3, t1, t2, if_pos (replace_valid L sp ep hep hspL), hne,
    Bool.false_eq_true, if_false, if_neg (show ¬ ep - sp > n by omega),
    if_pos (show M ≥ L + (n - (ep - sp)) from hfit), Int.toNat_ofNat]


end ReplaceFacts

section FindFacts

variable {σ : Type}

theorem prefixOver_iff (cs : Bool) (l s : List Char) (n : Nat) :
    Spec.prefixOver cs l s n = true ↔ ∀ i, i < n → StrNCmp.differs l s cs i = false := by
  unfold Spec.prefixOver
  rw [List.all_eq_true]
  constructor
  · intro h i hi
    have := h i (List.mem_range.2 hi)
    cases cs
    · exact (differs_insensitive l s i).2 (by simpa using this)
    · exact (differs_sensitive l s i).2 (by simpa using this)
  · intro h i hi
    have := h i (List.mem_range.1 hi)
    cases cs
    · simpa using (differs_insensitive l s i).1 this
    · simpa using (differs_sensitive l s i).1 this

theorem strncmp_prefixOver (cs : Bool) (l s : List Char) (n : Nat) :
    decide (StrNCmp l s n cs ≥ 0) = Spec.prefixOver cs l s n := by
  rw [Bool.eq_iff_iff, decide_eq_true_iff, prefixOver_iff]
  exact strncmp_nonneg_iff l s n cs

/-- With callbacks off the switch of `FindObject` decides the match as worded. -/
theorem find_switch_off (p : JSONParse) (cb : JSONTokenizer σ) (e : JSONElement) (u : σ)
    (hcb : p.callbacks_ = false) :
    FindObject.switch p cb e u = (Spec.likeMatch p.like_ p.case_sensitive_ e, u) := by
  unfold FindObject.switch
  cases e with
  | ARRAY o =>
    simp only [hcb, Bool.false_eq_true, if_false]
    unfold FindObject.likeMarker Spec.likeMatch
    cases p.like_ with
    | none => rfl
    | some l => cases l <;> simp
  | MAP o =>
    simp only [hcb, Bool.false_eq_true, if_false]
    unfold FindObject.likeMarker Spec.likeMatch
    cases p.like_ with
    | none => rfl
    | some l => cases l <;> simp
  | STRING s =>
    simp only [hcb, Bool.false_eq_true, if_false]
    unfold FindObject.likeString Spec.likeMatch
    cases p.like_ with
    | none => rfl
    | some l =>
      cases l with
      | ARRAY o => rfl
      | MAP o => rfl
      | STRING l =>
        simp only
        by_cases hv : (s.is_value_ == l.is_value_) = true
        · rw [if_pos hv, hv, Bool.true_and]
          by_cases h0 : (l.length_ == 0) = true
          · rw [if_pos h0, h0, Bool.true_or]
          · rw [if_neg h0]
            have h0f : (l.length_ == 0) = false := by simpa using h0
            rw [h0f, Bool.false_or]
            cases hc : p.case_sensitive_
            · simp only [Bool.false_eq_true, if_false]
              rw [strncmp_prefixOver]
            · simp only [if_true]
              rw [strncmp_prefixOver]
        · rw [if_neg hv]
          have hvf : (s.is_value_ == l.is_value_) = false := by simpa using hv
          rw [hvf, Bool.false_and]

theorem find_count_array (e : JSONElement) (ac : Int)
    (h0 : 0 ≤ Spec.arrayDepth ac e) (h1 : Spec.arrayDepth ac e ≤ 32767) :
    FindObject.count false e ac = Spec.arrayDepth ac e := by
  unfold FindObject.count
  cases e with
  | ARRAY o =>
    cases o
    · have : Spec.arrayDepth ac (JSONElement.ARRAY false) = ac - 1 := rfl
      rw [this] at h0 h1 ⊢
      simp only [Bool.false_eq_true, if_false]
      unfold wrapI16; omega
    · have : Spec.arrayDepth ac (JSONElement.ARRAY true) = ac + 1 := rfl
      rw [this] at h0 h1 ⊢
      simp only [Bool.false_eq_true, if_false, if_true]
      unfold wrapI16; omega
  | MAP o => rfl
  | STRING s => rfl

theorem find_count_map (e : JSONElement) (mc : Int)
    (h0 : 0 ≤ Spec.mapDepth mc e) (h1 : Spec.mapDepth mc e ≤ 32767) :
    FindObject.count true e mc = Spec.mapDepth mc e := by
  unfold FindObject.count
  cases e with
  | MAP o =>
    cases o
    · have : Spec.mapDepth mc (JSONElement.MAP false) = mc - 1 := rfl
      rw [this] at h0 h1 ⊢
      simp only [Bool.false_eq_true, if_false, if_true]
      unfold wrapI16; omega
    · have : Spec.mapDepth mc (JSONElement.MAP true) = mc + 1 := rfl
      rw [this] at h0 h1 ⊢
      simp only [if_true]
      unfold wrapI16; omega
  | ARRAY o => rfl
  | STRING s => rfl

/-- The level conditions on the first node of a chain that keeps the level. -/
theorem staysLevel_cons (ac mc : Int) (e : JSONElement) (rest : List JSONElement)
    (h : Spec.staysLevel ac mc (e :: rest) = true) :
    (0 ≤ Spec.arrayDepth ac e ∧ Spec.arrayDepth ac e ≤ 32767 ∧
      0 ≤ Spec.mapDepth mc e ∧ Spec.mapDepth mc e ≤ 32767) ∧
    Spec.staysLevel (Spec.arrayDepth ac e) (Spec.mapDepth mc e) rest = true := by
  rw [Spec.staysLevel] at h
  simp only [Bool.and_eq_true, decide_eq_true_eq] at h
  obtain ⟨⟨⟨⟨a0, a1⟩, m0⟩, m1⟩, hr⟩ := h
  exact ⟨⟨a0, a1, m0, m1⟩, hr⟩

/-- One step of the loop of `FindObject` over a node that does not match and keeps the
level. -/
theorem find_loop_step (p : JSONParse) (cb : JSONTokenizer σ) (u : σ) (e : JSONElement)
    (rest : List JSONElement) (ac mc : Int) (hcb : p.callbacks_ = false)
    (hm : Spec.likeMatch p.like_ p.case_sensitive_ e = false)
    (hl : p.limit_node_level_ = true →
      (0 ≤ Spec.arrayDepth ac e ∧ Spec.arrayDepth ac e ≤ 32767 ∧
        0 ≤ Spec.mapDepth mc e ∧ Spec.mapDepth mc e ≤ 32767)) :
    FindObject.loop p cb (e :: rest) u ac mc =
      FindObject.loop p cb rest u (FindObject.count false e ac) (FindObject.count true e mc) ∧
    (p.limit_node_level_ = true →
      FindObject.count false e ac = Spec.arrayDepth ac e ∧
      FindObject.count true e mc = Spec.mapDepth mc e) := by
  rw [FindObject.loop]
  simp only [find_switch_off p cb e u hcb, hm, Bool.false_eq_true, if_false]
  cases hlim : p.limit_node_level_
  · simp
  · obtain ⟨a0, a1, m0, m1⟩ := hl hlim
    rw [find_count_array e ac a0 a1, find_count_map e mc m0 m1]
    have n1 : ¬ Spec.arrayDepth ac e < 0 := by omega
    have n2 : ¬ Spec.mapDepth mc e < 0 := by omega
    simp [n1, n2]

/-- The loop of `FindObject` ends at the first node that matches when no node before it
drives a depth negative under balance enforcement. -/
theorem find_loop_found (p : JSONParse) (cb : JSONTokenizer σ) (u : σ) (n : JSONElement)
    (post : List JSONElement) (hcb : p.callbacks_ = false)
    (hn : Spec.likeMatch p.like_ p.case_sensitive_ n = true) :
    ∀ (pre : List JSONElement) (ac mc : Int),
      (∀ m ∈ pre, Spec.likeMatch p.like_ p.case_sensitive_ m = false) →
      (p.limit_node_level_ = true → Spec.staysLevel ac mc pre = true) →
      FindObject.loop p cb (pre ++ n :: post) u ac mc = (n :: post, ERR.ERR_NONE, u) := by
  intro pre
  induction pre with
  | nil =>
    intro ac mc _ _
    rw [List.nil_append, FindObject.loop]
    simp only [find_switch_off p cb n u hcb, hn, if_true]
  | cons e rest ih =>
    intro ac mc hpre hl
    have hs := find_loop_step p cb u e (rest ++ n :: post) ac mc hcb
      (hpre e (List.mem_cons_self _ _)) (fun h => (staysLevel_cons ac mc e rest (hl h)).1)
    rw [List.cons_append, hs.1]
    apply ih _ _ (fun m hm => hpre m (List.mem_cons_of_mem _ hm))
    intro h
    rw [(hs.2 h).1, (hs.2 h).2]
    exact (staysLevel_cons ac mc e rest (hl h)).2

/-- The loop of `FindObject` runs to the end of a chain without a match that keeps the
level. -/
theorem find_loop_none (p : JSONParse) (cb : JSONTokenizer σ) (u : σ)
    (hcb : p.callbacks_ = false) :
    ∀ (c : List JSONElement) (ac mc : Int),
      (∀ m ∈ c, Spec.likeMatch p.like_ p.case_sensitive_ m = false) →
      (p.limit_node_level_ = true → Spec.staysLevel ac mc c = true) →
      FindObject.loop p cb c u ac mc = ([], ERR.ERR_NONE, u) := by
  intro c
  induction c with
  | nil => intro ac mc _ _; rfl
  | cons e rest ih =>
    intro ac mc hpre hl
    have hs := find_loop_step p cb u e rest ac mc hcb
      (hpre e (List.mem_cons_self _ _)) (fun h => (staysLevel_cons ac mc e rest (hl h)).1)
    rw [hs.1]
    apply ih _ _ (fun m hm => hpre m (List.mem_cons_of_mem _ hm))
    intro h
    rw [(hs.2 h).1, (hs.2 h).2]
    exact (staysLevel_cons ac mc e rest (hl h)).2

/-- The loop of `FindObject` under balance enforcement ends with an error at a closing
marker that does not match and drives its depth negative, after nodes without a match
that keep the level. -/
theorem find_loop_level (p : JSONParse) (cb : JSONTokenizer σ) (u : σ) (isMap : Bool)
    (post : List JSONElement) (hcb : p.callbacks_ = false)
    (hlim : p.limit_node_level_ = true)
    (hn : Spec.likeMatch p.like_ p.case_sensitive_ (FromString.marker isMap false) = false) :
    ∀ (pre : List JSONElement) (ac mc : Int),
      (∀ m ∈ pre, Spec.likeMatch p.like_ p.case_sensitive_ m = false) →
      Spec.staysLevel ac mc pre = true →
      (pre.foldl Spec.arrayDepth ac = 0 ∧ pre.foldl Spec.mapDepth mc = 0) →
      FindObject.loop p cb (pre ++ FromString.marker isMap false :: post) u ac mc =
        ([], if isMap then ERR.ERR_UNEXPECTED_END_OF_MAP else ERR.ERR_UNEXPECTED_END_OF_ARRAY,
          u) := by
  intro pre
  induction pre with
  | nil =>
    intro ac mc _ _ h0
    simp only [List.foldl_nil] at h0
    rw [List.nil_append, FindObject.loop]
    simp only [find_switch_off p cb _ u hcb, hn, Bool.false_eq_true, if_false, hlim,
      Bool.true_and, h0.1, h0.2]
    cases isMap <;> simp [FromString.marker, FindObject.count, wrapI16]
  | cons e rest ih =>
    intro ac mc hpre hl h0
    have hs := find_loop_step p cb u e (rest ++ FromString.marker isMap false :: post) ac mc hcb
      (hpre e (List.mem_cons_self _ _)) (fun _ => (staysLevel_cons ac mc e rest hl).1)
    rw [List.cons_append, hs.1, (hs.2 hlim).1, (hs.2 hlim).2]
    exact ih _ _ (fun m hm => hpre m (List.mem_cons_of_mem _ hm))
      (staysLevel_cons ac mc e rest hl).2 (by simpa using h0)

/-- The case-sensitive compare over the length of a pattern without NUL is the prefix
relation of lists. -/
theorem prefixOver_prefix (l s : List Char) (hl : ∀ c ∈ l, c ≠ NUL) :
    Spec.prefixOver true l s l.length = true ↔ l <+: s := by
  rw [prefixOver_iff]
  constructor
  · intro h
    have hc : ∀ i, i < l.length → charAt l i = charAt s i :=
      fun i hi => (differs_sensitive l s i).1 (h i hi)
    have hlen : l.length ≤ s.length := by
      by_contra hlt
      have hs : s.length < l.length := by omega
      have e := hc s.length hs
      have e2 : charAt s s.length = NUL := by
        unfold charAt; rw [List.getD_eq_default _ _ (le_refl _)]
      rw [e2] at e
      have : charAt l s.length ∈ l := by
        unfold charAt; rw [List.getD_eq_getElem _ _ hs]; exact List.getElem_mem _
      exact hl _ this e
    rw [List.prefix_iff_eq_take]
    apply List.ext_getElem
    · simp; omega
    · intro i h1 h2
      have := hc i h1
      unfold charAt at this
      rw [List.getD_eq_getElem _ _ h1, List.getD_eq_getElem _ _ (by omega)] at this
      rw [this]; simp
  · intro h i hi
    rw [differs_sensitive]
    obtain ⟨t, rfl⟩ := h
    unfold charAt
    rw [List.getD_eq_getElem _ _ hi, List.getD_eq_getElem _ _ (by simp; omega),
      List.getElem_append_left hi]

end FindFacts
section FindFacts2

variable {σ : Type}

/-- The loop of `FindObject` reads four members of the parser only. -/
theorem find_loop_congr (p q : JSONParse) (cb : JSONTokenizer σ)
    (h1 : p.callbacks_ = q.callbacks_) (h2 : p.like_ = q.like_)
    (h3 : p.case_sensitive_ = q.case_sensitive_)
    (h4 : p.limit_node_level_ = q.limit_node_level_) :
    ∀ (c : List JSONElement) (u : σ) (ac mc : Int),
      FindObject.loop p cb c u ac mc = FindObject.loop q cb c u ac mc := by
  have hs : ∀ (e : JSONElement) (u : σ),
      FindObject.switch p cb e u = FindObject.switch q cb e u := by
    intro e u
    unfold FindObject.switch FindObject.likeMarker FindObject.likeString
    rw [h1, h2, h3]
  intro c
  induction c with
  | nil => intro u ac mc; rfl
  | cons e rest ih =>
    intro u ac mc
    rw [FindObject.loop, FindObject.loop, hs, h4]
    simp only [ih]

/-- `FindObject` overwrites `last_error_` and `operation_`: what the typed helpers store
there before the call is not seen afterwards. -/
theorem find_after_start (p : JSONParse) (cb : JSONTokenizer σ) (u : σ)
    (like : Option JSONElement) (cs : Bool) (c : List JSONElement) :
    FindObject (p.findStart.Like like cs) cb u c = FindObject (p.Like like cs) cb u c := by
  unfold FindObject
  rw [find_loop_congr (p.findStart.Like like cs) (p.Like like cs) cb rfl rfl rfl rfl]
  rfl

theorem likeMatch_empty (v cs : Bool) (m : JSONElement) :
    Spec.likeMatch (some (JSONElement.STRING (JSONString.mkEmpty v))) cs m
      = Spec.isString v m := by
  cases m <;> simp [Spec.likeMatch, Spec.isString, JSONString.mkEmpty]

theorem find_found (p : JSONParse) (cb : JSONTokenizer σ) (u : σ) (hcb : p.callbacks_ = false)
    (pre : List JSONElement) (n : JSONElement) (post : List JSONElement)
    (hpre : ∀ m ∈ pre, Spec.likeMatch p.like_ p.case_sensitive_ m = false)
    (hn : Spec.likeMatch p.like_ p.case_sensitive_ n = true)
    (hl : p.limit_node_level_ = true → Spec.staysLevel 0 0 pre = true) :
    (FindObject p cb u (pre ++ n :: post)).found = n :: post ∧
    (FindObject p cb u (pre ++ n :: post)).parser.last_error_ = ERR.ERR_NONE ∧
    (FindObject p cb u (pre ++ n :: post)).user = u := by
  unfold FindObject
  simp [find_loop_found p cb u n post hcb hn pre 0 0 hpre hl]

theorem find_none (p : JSONParse) (cb : JSONTokenizer σ) (u : σ) (hcb : p.callbacks_ = false)
    (c : List JSONElement)
    (hpre : ∀ m ∈ c, Spec.likeMatch p.like_ p.case_sensitive_ m = false)
    (hl : p.limit_node_level_ = true → Spec.staysLevel 0 0 c = true) :
    (FindObject p cb u c).found = [] ∧
    (FindObject p cb u c).parser.last_error_ = ERR.ERR_NOT_FOUND ∧
    (FindObject p cb u c).user = u := by
  unfold FindObject
  simp [find_loop_none p cb u hcb c 0 0 hpre hl]

theorem find_level (p : JSONParse) (cb : JSONTokenizer σ) (u : σ) (hcb : p.callbacks_ = false)
    (hlim : p.limit_node_level_ = true) (isMap : Bool)
    (pre post : List JSONElement)
    (hn : Spec.likeMatch p.like_ p.case_sensitive_ (FromString.marker isMap false) = false)
    (hpre : ∀ m ∈ pre, Spec.likeMatch p.like_ p.case_sensitive_ m = false)
    (hl : Spec.staysLevel 0 0 pre = true)
    (h0 : pre.foldl Spec.arrayDepth 0 = 0 ∧ pre.foldl Spec.mapDepth 0 = 0) :
    (FindObject p cb u (pre ++ FromString.marker isMap false :: post)).found = [] ∧
    (FindObject p cb u (pre ++ FromString.marker isMap false :: post)).parser.last_error_ =
      (if isMap then ERR.ERR_UNEXPECTED_END_OF_MAP else ERR.ERR_UNEXPECTED_END_OF_ARRAY) := by
  unfold FindObject
  simp only [find_loop_level p cb u isMap post hcb hlim hn pre 0 0 hpre hl h0]
  cases isMap <;> simp

end FindFacts2

section SearchCalls

variable {σ : Type} {good : σ → Prop} {hit : σ → JSONString → Bool}
  {next : σ → JSONElement → σ}

theorem quietOn_append (hit : σ → JSONString → Bool) (next : σ → JSONElement → σ)
    (n : JSONElement) : ∀ (c : List JSONElement) (u : σ),
    quietOn hit next u (c ++ [n]) =
      (quietOn hit next u c &&
        (match n with
         | JSONElement.STRING a => !hit (c.foldl next u) a
         | _ => true)) := by
  intro c
  induction c with
  | nil => intro u; cases n <;> simp [quietOn]
  | cons e r ih =>
    intro u
    have e1 : quietOn hit next u (e :: r ++ [n]) =
        ((match e with
          | JSONElement.STRING a => !hit u a
          | _ => true) && quietOn hit next (next u e) (r ++ [n])) := rfl
    rw [e1, ih]
    simp only [quietOn, List.foldl_cons, Bool.and_assoc]

/-- The state after a callback that is not a hit is quiet. -/
theorem quiet_link (hS : JSONTokenizer.Searching cb good hit next) (u0 : σ) (s0 : List Char)
    (st y : ScanState σ) (n : JSONElement) (hq : ScanState.Quiet good hit next u0 s0 st)
    (h1 : y.stop = false) (h2 : y.s = st.s) (h3 : y.user = next st.user n)
    (h4 : y.chain = st.chain ++ [n])
    (h5 : ∀ a, n = JSONElement.STRING a →
      hit st.user a = false ∧ ∀ c ∈ a.string_, c ≠ NUL) :
    ScanState.Quiet good hit next u0 s0 y := by
  obtain ⟨q1, q2, q3, q4, q5, q6⟩ := hq
  refine ⟨h1, by rw [h2, q2], by rw [h3]; exact hS.keeps _ _ q3, ?_, ?_, ?_⟩
  · rw [h3, h4, List.foldl_append, q4]; rfl
  · rw [h4, quietOn_append, q5, Bool.true_and]
    cases n with
    | ARRAY o => rfl
    | MAP o => rfl
    | STRING a =>
      have := (h5 a rfl).1
      rw [q4] at this
      simp [this]
  · intro a ha
    rw [h4] at ha
    rcases List.mem_append.1 ha with h | h
    · exact q6 a h
    · exact (h5 a (List.mem_singleton.1 h).symm).2

/-- A state that differs from a quiet state in other fields is quiet. -/
theorem quiet_frame (u0 : σ) (s0 : List Char) (st y : ScanState σ)
    (hq : ScanState.Quiet good hit next u0 s0 st)
    (h1 : y.stop = st.stop) (h2 : y.s = st.s) (h3 : y.user = st.user)
    (h4 : y.chain = st.chain) : ScanState.Quiet good hit next u0 s0 y := by
  unfold ScanState.Quiet at *
  rw [h1, h2, h3, h4]; exact hq

theorem callOpen_search (p : JSONParse) (hcb : p.callbacks_ = true)
    (hS : JSONTokenizer.Searching cb good hit next) (isMap : Bool) (st : ScanState σ)
    (hg : good st.user) :
    (FromString.callOpen p cb isMap st).stop = false ∧
    (FromString.callOpen p cb isMap st).user = next st.user (FromString.marker isMap true) ∧
    (FromString.callOpen p cb isMap st).s = st.s := by
  unfold FromString.callOpen FromString.tokenMarker FromString.marker
  rw [if_pos hcb]
  cases isMap
  · simp only [Bool.false_eq_true, if_false, hS.array _ _ _ _ hg]
    exact ⟨rfl, rfl, rfl⟩
  · simp only [if_true, hS.map _ _ _ _ hg]
    exact ⟨rfl, rfl, rfl⟩

theorem callClose_search (p : JSONParse) (hcb : p.callbacks_ = true)
    (hS : JSONTokenizer.Searching cb good hit next) (isMap : Bool) (st : ScanState σ)
    (hg : good st.user) (hs : st.stop = false) :
    (FromString.callClose p cb isMap st).stop = false ∧
    (FromString.callClose p cb isMap st).user = next st.user (FromString.marker isMap false) ∧
    (FromString.callClose p cb isMap st).s = st.s := by
  unfold FromString.callClose FromString.tokenMarker FromString.marker
  rw [if_pos (by simp [hs, hcb])]
  cases isMap
  · simp only [Bool.false_eq_true, if_false, hS.array _ _ _ _ hg]
    exact ⟨rfl, rfl, rfl⟩
  · simp only [if_true, hS.map _ _ _ _ hg]
    exact ⟨rfl, rfl, rfl⟩

theorem callClose_stopped (p : JSONParse) (cb : JSONTokenizer σ) (isMap : Bool)
    (st : ScanState σ) (hs : st.stop = true) : FromString.callClose p cb isMap st = st := by
  unfold FromString.callClose
  rw [if_neg (by simp [hs])]

theorem callString_miss (p : JSONParse) (hcb : p.callbacks_ = true)
    (hS : JSONTokenizer.Searching cb good hit next) (a : JSONString) (st : ScanState σ)
    (hg : good st.user) (hh : hit st.user a = false) :
    (FromString.callString p cb a st).stop = false ∧
    (FromString.callString p cb a st).user = next st.user (JSONElement.STRING a) ∧
    (FromString.callString p cb a st).s = st.s := by
  have h1 := hS.string_hit st.user a st.s st.str_start st.str_end hg
  have h2 := hS.string_miss st.user a st.s st.str_start st.str_end hg hh
  unfold FromString.callString
  rw [if_pos hcb]
  simp only [h1, hh, Bool.false_eq_true, if_false, called_stop, called_user, called_s, h2]
  exact ⟨trivial, trivial, trivial⟩

theorem callString_hit (p : JSONParse) (hcb : p.callbacks_ = true)
    (hS : JSONTokenizer.Searching cb good hit next) (a : JSONString) (st : ScanState σ)
    (hg : good st.user) (hh : hit st.user a = true) :
    (FromString.callString p cb a st).stop = true ∧
    (FromString.callString p cb a st).user =
      (cb.TokenString OP.OP_FROM_STRING st.user a st.s st.str_start st.str_end).2.1 ∧
    (FromString.callString p cb a st).s =
      (cb.TokenString OP.OP_FROM_STRING st.user a st.s st.str_start st.str_end).2.2 := by
  have h1 := hS.string_hit st.user a st.s st.str_start st.str_end hg
  unfold FromString.callString
  rw [if_pos hcb]
  simp only [h1, hh, if_true, setIndex_stop, setIndex_user, setIndex_s, called_stop,
    called_user, called_s]
  exact ⟨trivial, trivial, trivial⟩

theorem callStringComma_miss (p : JSONParse) (hcb : p.callbacks_ = true)
    (hS : JSONTokenizer.Searching cb good hit next) (a : JSONString) (st : ScanState σ)
    (hg : good st.user) (hh : hit st.user a = false) :
    (FromString.callStringComma p cb a st).stop = false ∧
    (FromString.callStringComma p cb a st).user = next st.user (JSONElement.STRING a) ∧
    (FromString.callStringComma p cb a st).s = st.s := by
  have h1 := hS.string_hit st.user a st.s st.str_start st.str_end hg
  have h2 := hS.string_miss st.user a st.s st.str_start st.str_end hg hh
  unfold FromString.callStringComma
  rw [if_pos hcb]
  simp only [setIndex_stop, setIndex_user, setIndex_s, called_stop, called_user, called_s, h1,
    hh, h2]
  exact ⟨trivial, trivial, trivial⟩

theorem callStringComma_hit (p : JSONParse) (hcb : p.callbacks_ = true)
    (hS : JSONTokenizer.Searching cb good hit next) (a : JSONString) (st : ScanState σ)
    (hg : good st.user) (hh : hit st.user a = true) :
    (FromString.callStringComma p cb a st).stop = true ∧
    (FromString.callStringComma p cb a st).user =
      (cb.TokenString OP.OP_FROM_STRING st.user a st.s st.str_start st.str_end).2.1 ∧
    (FromString.callStringComma p cb a st).s =
      (cb.TokenString OP.OP_FROM_STRING st.user a st.s st.str_start st.str_end).2.2 := by
  have h1 := hS.string_hit st.user a st.s st.str_start st.str_end hg
  unfold FromString.callStringComma
  rw [if_pos hcb]
  simp only [setIndex_stop, setIndex_user, setIndex_s, called_stop, called_user, called_s, h1,
    hh]
  exact ⟨trivial, trivial, trivial⟩

end SearchCalls

section DataFacts

theorem data_fields (LENGTH : Nat) (self : JSONString) (d : List Char) (pl ae : Bool) (n : Nat) :
    (JSONString.Data LENGTH self d pl n ae).2.length_ = JSONString.DataCount LENGTH d n ∧
    (JSONString.Data LENGTH self d pl n ae).2.string_ =
      (cstr d).take (JSONString.DataCount LENGTH d n) := by
  unfold JSONString.Data
  dsimp only
  split_ifs <;> exact ⟨rfl, rfl⟩

end DataFacts

section SearchCases

variable {σ : Type} {good : σ → Prop} {hit : σ → JSONString → Bool}
  {next : σ → JSONElement → σ} {cb : JSONTokenizer σ}

theorem ofSpan_clean (L : Nat) (s : List Char) (si ei : Int) (a : JSONString)
    (h : JSONString.ofSpan L s si ei a) : ∀ c ∈ a.string_, c ≠ NUL := by
  intro c hc
  rw [h.1] at hc
  have := List.mem_takeWhile_imp (List.mem_of_mem_take hc)
  simpa using this

theorem valueNode_ofSpan (p : JSONParse) (st : ScanState σ) :
    JSONString.ofSpan p.LENGTH st.s st.str_start st.str_end (FromString.valueNode p st).2 := by
  unfold FromString.valueNode JSONString.ofSpan
  have h := data_fields p.LENGTH (JSONString.mkEmpty true) (ptrAt st.s st.str_start)
    (st.is_literal == 2) true (wrapU8 (st.str_end - st.str_start))
  exact ⟨h.2, h.1⟩

theorem keyNode_ofSpan (p : JSONParse) (st : ScanState σ) :
    JSONString.ofSpan p.LENGTH st.s st.str_start st.str_end (FromString.keyNode p st) := by
  unfold FromString.keyNode JSONString.mkStrLen JSONString.ofSpan
  have h := data_fields p.LENGTH
    { string_ := [], length_ := 0, is_value_ := false, literal_ := false }
    (ptrAt st.s st.str_start) false true (wrapU8 (st.str_end - st.str_start))
  exact ⟨h.2, h.1⟩

theorem valueNode_fail (p : JSONParse) (st : ScanState σ)
    (h : (FromString.valueNode p st).1 = false) :
    (FromString.valueNode p st).2.is_value_ = true ∧
    IsLiteral (FromString.valueNode p st).2.string_ (FromString.valueNode p st).2.length_
      = false := by
  unfold FromString.valueNode JSONString.Data at h ⊢
  simp only [JSONString.mkEmpty, if_true] at h ⊢
  split_ifs at h ⊢
  simp_all

theorem valueBase_fields (r1 : Bool) (st : ScanState σ) :
    (if !r1 then st.setError ERR.ERR_BAD_VALUE else st.valueTaken).user = st.user ∧
    (if !r1 then st.setError ERR.ERR_BAD_VALUE else st.valueTaken).s = st.s ∧
    (if !r1 then st.setError ERR.ERR_BAD_VALUE else st.valueTaken).chain = st.chain ∧
    (if !r1 then st.setError ERR.ERR_BAD_VALUE else st.valueTaken).stop = st.stop ∧
    (if !r1 then st.setError ERR.ERR_BAD_VALUE else st.valueTaken).str_start = st.str_start ∧
    (if !r1 then st.setError ERR.ERR_BAD_VALUE else st.valueTaken).str_end = st.str_end ∧
    (if !r1 then st.setError ERR.ERR_BAD_VALUE else st.valueTaken).last_error_
      = (if r1 then st.last_error_ else ERR.ERR_BAD_VALUE) := by
  cases r1 <;> simp

theorem commaBase_fields (r1 : Bool) (st : ScanState σ) :
    ((if !r1 then st.setError ERR.ERR_BAD_VALUE else st).undetermined).user = st.user ∧
    ((if !r1 then st.setError ERR.ERR_BAD_VALUE else st).undetermined).s = st.s ∧
    ((if !r1 then st.setError ERR.ERR_BAD_VALUE else st).undetermined).chain = st.chain ∧
    ((if !r1 then st.setError ERR.ERR_BAD_VALUE else st).undetermined).stop = st.stop ∧
    ((if !r1 then st.setError ERR.ERR_BAD_VALUE else st).undetermined).str_start
      = st.str_start ∧
    ((if !r1 then st.setError ERR.ERR_BAD_VALUE else st).undetermined).str_end = st.str_end ∧
    ((if !r1 then st.setError ERR.ERR_BAD_VALUE else st).undetermined).last_error_
      = (if r1 then st.last_error_ else ERR.ERR_BAD_VALUE) := by
  cases r1 <;> simp

/-- The callback of the cases `']'`, `'\x7d'` and `':'` on the node `a` linked behind a
state `X` that has the members, the text and the span of `st`. -/
theorem linkCall_search (p : JSONParse) (hcb : p.callbacks_ = true)
    (hS : JSONTokenizer.Searching cb good hit next) (a : JSONString) (st X : ScanState σ)
    (hg : good st.user) (hu : X.user = st.user) (hs : X.s = st.s)
    (h1 : X.str_start = st.str_start) (h2 : X.str_end = st.str_end) :
    (hit st.user a = false →
      (FromString.callString p cb a (X.link (JSONElement.STRING a))).stop = false ∧
      (FromString.callString p cb a (X.link (JSONElement.STRING a))).user
        = next st.user (JSONElement.STRING a) ∧
      (FromString.callString p cb a (X.link (JSONElement.STRING a))).s = st.s) ∧
    (hit st.user a = true →
      (FromString.callString p cb a (X.link (JSONElement.STRING a))).stop = true ∧
      (FromString.callString p cb a (X.link (JSONElement.STRING a))).user
        = (cb.TokenString OP.OP_FROM_STRING st.user a st.s st.str_start st.str_end).2.1 ∧
      (FromString.callString p cb a (X.link (JSONElement.STRING a))).s
        = (cb.TokenString OP.OP_FROM_STRING st.user a st.s st.str_start st.str_end).2.2) := by
  have e1 : (X.link (JSONElement.STRING a)).user = st.user := by rw [link_user, hu]
  have e2 : (X.link (JSONElement.STRING a)).s = st.s := by rw [link_s, hs]
  have e3 : (X.link (JSONElement.STRING a)).str_start = st.str_start := by
    rw [link_str_start, h1]
  have e4 : (X.link (JSONElement.STRING a)).str_end = st.str_end := by rw [link_str_end, h2]
  constructor
  · intro hh
    have := callString_miss p hcb hS a (X.link (JSONElement.STRING a)) (by rw [e1]; exact hg)
      (by rw [e1]; exact hh)
    rw [e1, e2] at this
    exact this
  · intro hh
    have := callString_hit p hcb hS a (X.link (JSONElement.STRING a)) (by rw [e1]; exact hg)
      (by rw [e1]; exact hh)
    rw [e1, e2, e3, e4] at this
    exact this

/-- The callback of the case `','` on the node `a` linked behind a state `X` that has the
members, the text and the span of `st`. -/
theorem linkCallComma_search (p : JSONParse) (hcb : p.callbacks_ = true)
    (hS : JSONTokenizer.Searching cb good hit next) (a : JSONString) (st X : ScanState σ)
    (hg : good st.user) (hu : X.user = st.user) (hs : X.s = st.s)
    (h1 : X.str_start = st.str_start) (h2 : X.str_end = st.str_end) :
    (hit st.user a = false →
      (FromString.callStringComma p cb a (X.link (JSONElement.STRING a))).stop = false ∧
      (FromString.callStringComma p cb a (X.link (JSONElement.STRING a))).user
        = next st.user (JSONElement.STRING a) ∧
      (FromString.callStringComma p cb a (X.link (JSONElement.STRING a))).s = st.s) ∧
    (hit st.user a = true →
      (FromString.callStringComma p cb a (X.link (JSONElement.STRING a))).stop = true ∧
      (FromString.callStringComma p cb a (X.link (JSONElement.STRING a))).user
        = (cb.TokenString OP.OP_FROM_STRING st.user a st.s st.str_start st.str_end).2.1 ∧
      (FromString.callStringComma p cb a (X.link (JSONElement.STRING a))).s
        = (cb.TokenString OP.OP_FROM_STRING st.user a st.s st.str_start st.str_end).2.2) := by
  have e1 : (X.link (JSONElement.STRING a)).user = st.user := by rw [link_user, hu]
  have e2 : (X.link (JSONElement.STRING a)).s = st.s := by rw [link_s, hs]
  have e3 : (X.link (JSONElement.STRING a)).str_start = st.str_start := by
    rw [link_str_start, h1]
  have e4 : (X.link (JSONElement.STRING a)).str_end = st.str_end := by rw [link_str_end, h2]
  constructor
  · intro hh
    have := callStringComma_miss p hcb hS a (X.link (JSONElement.STRING a))
      (by rw [e1]; exact hg) (by rw [e1]; exact hh)
    rw [e1, e2] at this
    exact this
  · intro hh
    have := callStringComma_hit p hcb hS a (X.link (JSONElement.STRING a))
      (by rw [e1]; exact hg) (by rw [e1]; exact hh)
    rw [e1, e2, e3, e4] at this
    exact this

/-- The fields of the state after the block that makes a value node of the pending span
before a closing bracket. -/
theorem closeValue_search (p : JSONParse) (hcb : p.callbacks_ = true)
    (hS : JSONTokenizer.Searching cb good hit next) (st : ScanState σ) (hg : good st.user) :
    (FromString.closeValue p cb st).chain
      = st.chain ++ [JSONElement.STRING (FromString.valueNode p st).2] ∧
    (FromString.closeValue p cb st).last_error_
      = (if (FromString.valueNode p st).1 then st.last_error_ else ERR.ERR_BAD_VALUE) ∧
    (hit st.user (FromString.valueNode p st).2 = false →
      (FromString.closeValue p cb st).stop = false ∧
      (FromString.closeValue p cb st).user
        = next st.user (JSONElement.STRING (FromString.valueNode p st).2) ∧
      (FromString.closeValue p cb st).s = st.s) ∧
    (hit st.user (FromString.valueNode p st).2 = true →
      (FromString.closeValue p cb st).stop = true ∧
      (FromString.closeValue p cb st).user
        = (cb.TokenString OP.OP_FROM_STRING st.user (FromString.valueNode p st).2 st.s
            st.str_start st.str_end).2.1 ∧
      (FromString.closeValue p cb st).s
        = (cb.TokenString OP.OP_FROM_STRING st.user (FromString.valueNode p st).2 st.s
            st.str_start st.str_end).2.2) := by
  obtain ⟨b1, b2, b3, _, b5, b6, b7⟩ := valueBase_fields (FromString.valueNode p st).1 st
  have hc := linkCall_search p hcb hS (FromString.valueNode p st).2 st _ hg b1 b2 b5 b6
  unfold FromString.closeValue
  simp only [addSize_chain, clearSpan_chain, callString_chain, link_chain, addSize_last_error,
    clearSpan_last_error, callString_last_error, link_last_error, addSize_stop, clearSpan_stop,
    addSize_user, clearSpan_user, addSize_s, clearSpan_s]
  exact ⟨by rw [b3], b7, hc.1, hc.2⟩

end SearchCases

section SearchSwitch

variable {σ : Type} {good : σ → Prop} {hit : σ → JSONString → Bool}
  {next : σ → JSONElement → σ} {cb : JSONTokenizer σ}

theorem caseOpen_trace (p : JSONParse) (hcb : p.callbacks_ = true)
    (hS : JSONTokenizer.Searching cb good hit next) (u0 : σ) (s0 : List Char) (isMap : Bool)
    (st : ScanState σ) (hq : ScanState.Quiet good hit next u0 s0 st)
    (he : st.last_error_ = ERR.ERR_NONE) :
    ScanState.Outcome p cb good hit next u0 s0 st (FromString.caseOpen p cb false isMap st) := by
  left
  unfold FromString.caseOpen
  simp only [Bool.not_false, Bool.true_or, if_true]
  have hc := callOpen_search p hcb hS isMap (st.link (FromString.marker isMap true))
    (by simpa using hq.2.2.1)
  simp only [link_user, link_s] at hc
  constructor
  · apply quiet_link hS u0 s0 st _ (FromString.marker isMap true) hq
    · simp only [addSize_stop, bump_stop]; exact hc.1
    · simp only [addSize_s, bump_s]; exact hc.2.2
    · simp only [addSize_user, bump_user]; exact hc.2.1
    · simp
    · intro a ha; cases isMap <;> simp [FromString.marker] at ha
  · simp [he]

theorem caseClose_trace (p : JSONParse) (hcb : p.callbacks_ = true)
    (hS : JSONTokenizer.Searching cb good hit next) (u0 : σ) (s0 : List Char) (isMap : Bool)
    (st : ScanState σ) (hq : ScanState.Quiet good hit next u0 s0 st)
    (he : st.last_error_ = ERR.ERR_NONE) :
    ScanState.Outcome p cb good hit next u0 s0 st (FromString.caseClose p cb false isMap st) := by
  unfold FromString.caseClose
  simp only [Bool.not_false, Bool.true_or, if_true]
  by_cases hs : -1 < st.str_start
  · simp only [if_pos hs]
    obtain ⟨c1, c2, c3, c4⟩ := closeValue_search p hcb hS st hq.2.2.1
    cases hh : hit st.user (FromString.valueNode p st).2
    · -- the value is no hit: the marker is linked and its callback runs
      obtain ⟨m1, m2, m3⟩ := c3 hh
      have hqv : ScanState.Quiet good hit next u0 s0 (FromString.closeValue p cb st) :=
        quiet_link hS u0 s0 st _ (JSONElement.STRING (FromString.valueNode p st).2) hq m1 m3 m2 c1
          (fun a ha => by
            injection ha with ha; rw [← ha]
            exact ⟨hh, ofSpan_clean _ _ _ _ _ (valueNode_ofSpan p st)⟩)
      have hc := callClose_search p hcb hS isMap
        ((FromString.closeValue p cb st).link (FromString.marker isMap false))
        (by simpa using hqv.2.2.1) (by simpa using m1)
      simp only [link_user, link_s] at hc
      left
      constructor
      · apply quiet_link hS u0 s0 _ _ (FromString.marker isMap false) hqv
        · simp only [addSize_stop, bump_stop]; exact hc.1
        · simp only [addSize_s, bump_s]; exact hc.2.2
        · simp only [addSize_user, bump_user]; exact hc.2.1
        · simp
        · intro a ha; cases isMap <;> simp [FromString.marker] at ha
      · simp only [addSize_last_error, bump_last_error, callClose_last_error, link_last_error,
          c2, he]
        split_ifs <;> decide
    · -- the value is a hit
      obtain ⟨m1, m2, m3⟩ := c4 hh
      right
      refine ⟨(FromString.valueNode p st).2, ?_⟩
      rw [callClose_stopped p cb isMap _ (by simpa using m1)]
      refine ⟨by simpa using m1, ⟨[FromString.marker isMap false], ?_, by simp⟩, hh,
        by simpa using m2, by simpa using m3, valueNode_ofSpan p st, ?_, by omega⟩
      · simp [c1]
      · simp only [addSize_last_error, bump_last_error, link_last_error, c2, he]
        cases hr : (FromString.valueNode p st).1
        · right
          exact ⟨by simp, valueNode_fail p st hr⟩
        · left; simp
  · simp only [if_neg hs]
    have hc := callClose_search p hcb hS isMap (st.link (FromString.marker isMap false))
      (by simpa using hq.2.2.1) (by simpa using hq.1)
    simp only [link_user, link_s] at hc
    left
    constructor
    · apply quiet_link hS u0 s0 st _ (FromString.marker isMap false) hq
      · simp only [addSize_stop, bump_stop]; exact hc.1
      · simp only [addSize_s, bump_s]; exact hc.2.2
      · simp only [addSize_user, bump_user]; exact hc.2.1
      · simp
      · intro a ha; cases isMap <;> simp [FromString.marker] at ha
    · simp [he]

end SearchSwitch

section SearchSwitch2

variable {σ : Type} {good : σ → Prop} {hit : σ → JSONString → Bool}
  {next : σ → JSONElement → σ} {cb : JSONTokenizer σ}

theorem caseQuote_trace (p : JSONParse) (u0 : σ) (s0 : List Char)
    (st : ScanState σ) (hq : ScanState.Quiet good hit next u0 s0 st)
    (he : st.last_error_ = ERR.ERR_NONE) :
    ScanState.Outcome p cb good hit next u0 s0 st (FromString.caseQuote st) := by
  left
  unfold FromString.caseQuote
  split_ifs
  · exact ⟨quiet_frame u0 s0 st _ hq (by simp) (by simp) (by simp) (by simp), by simp⟩
  · exact ⟨quiet_frame u0 s0 st _ hq (by simp) (by simp) (by simp) (by simp), by simp⟩
  · exact ⟨quiet_frame u0 s0 st _ hq rfl rfl rfl rfl, by show st.last_error_ ≠ _; simp [he]⟩
  · exact ⟨hq, by simp [he]⟩

theorem caseDefault_trace (p : JSONParse) (u0 : σ) (s0 : List Char) (c : Char)
    (st : ScanState σ) (hq : ScanState.Quiet good hit next u0 s0 st)
    (he : st.last_error_ = ERR.ERR_NONE) :
    ScanState.Outcome p cb good hit next u0 s0 st (FromString.caseDefault c st) := by
  left
  have hn : st.last_error_ ≠ ERR.ERR_CALLBACK_STOP := by rw [he]; decide
  have hu : ∀ e : ERR, e ≠ ERR.ERR_CALLBACK_STOP →
      ScanState.Quiet good hit next u0 s0 (st.setError e) ∧
        (st.setError e).last_error_ ≠ ERR.ERR_CALLBACK_STOP :=
    fun e h => ⟨quiet_frame u0 s0 st _ hq rfl rfl rfl rfl, h⟩
  unfold FromString.caseDefault
  split
  · exact hu _ (by decide)
  · split
    · split
      · split
        · exact ⟨hq, hn⟩
        · split
          · exact ⟨quiet_frame u0 s0 st _ hq rfl rfl rfl rfl, hn⟩
          · exact hu _ (by decide)
      · split
        · exact ⟨hq, hn⟩
        · split
          · exact ⟨quiet_frame u0 s0 st _ hq rfl rfl rfl rfl, hn⟩
          · exact hu _ (by decide)
    · exact ⟨hq, hn⟩

theorem caseColon_trace (p : JSONParse) (hcb : p.callbacks_ = true)
    (hS : JSONTokenizer.Searching cb good hit next) (u0 : σ) (s0 : List Char)
    (st : ScanState σ) (hq : ScanState.Quiet good hit next u0 s0 st)
    (he : st.last_error_ = ERR.ERR_NONE) :
    ScanState.Outcome p cb good hit next u0 s0 st (FromString.caseColon p cb false st) := by
  unfold FromString.caseColon
  simp only [Bool.not_false, Bool.true_or, if_true]
  split_ifs
  · left
    exact ⟨quiet_frame u0 s0 st _ hq (by simp) (by simp) (by simp) (by simp), by simp⟩
  · rename_i hcond
    have hss : st.str_start ≠ -1 := by
      intro h
      apply hcond
      simp [h]
    obtain ⟨c3, c4⟩ := linkCall_search p hcb hS (FromString.keyNode p st) st st hq.2.2.1
      rfl rfl rfl rfl
    cases hh : hit st.user (FromString.keyNode p st)
    · obtain ⟨m1, m2, m3⟩ := c3 hh
      left
      constructor
      · apply quiet_link hS u0 s0 st _ (JSONElement.STRING (FromString.keyNode p st)) hq
        · simp only [addSize_stop, clearSpan_stop, keyTaken_stop]; exact m1
        · simp only [addSize_s, clearSpan_s, keyTaken_s]; exact m3
        · simp only [addSize_user, clearSpan_user, keyTaken_user]; exact m2
        · simp
        · intro a ha; injection ha with ha; rw [← ha]
          exact ⟨hh, ofSpan_clean _ _ _ _ _ (keyNode_ofSpan p st)⟩
      · simp [he]
    · obtain ⟨m1, m2, m3⟩ := c4 hh
      right
      refine ⟨FromString.keyNode p st, ?_⟩
      refine ⟨by simpa using m1, ⟨[], by simp, by simp⟩, hh, by simpa using m2,
        by simpa using m3, keyNode_ofSpan p st, ?_, hss⟩
      left; simp [he]

theorem caseComma_trace (p : JSONParse) (hcb : p.callbacks_ = true)
    (hS : JSONTokenizer.Searching cb good hit next) (u0 : σ) (s0 : List Char)
    (st : ScanState σ) (hq : ScanState.Quiet good hit next u0 s0 st)
    (he : st.last_error_ = ERR.ERR_NONE) :
    ScanState.Outcome p cb good hit next u0 s0 st (FromString.caseComma p cb false st) := by
  have hn : st.last_error_ ≠ ERR.ERR_CALLBACK_STOP := by rw [he]; decide
  unfold FromString.caseComma
  simp only [Bool.not_false, Bool.true_or, if_true]
  by_cases hs : -1 < st.str_start
  · rw [if_pos hs]
    by_cases h2 : (st.is_literal == 1 || st.str_start == -1 || st.str_end == -1) = true
    · rw [if_pos h2]
      left
      exact ⟨quiet_frame u0 s0 st _ hq rfl rfl rfl rfl, by
        show ERR.ERR_BAD_VALUE ≠ ERR.ERR_CALLBACK_STOP; decide⟩
    · rw [if_neg h2]
      obtain ⟨b1, b2, b3, _, b5, b6, b7⟩ := commaBase_fields (FromString.valueNode p st).1 st
      obtain ⟨c3, c4⟩ := linkCallComma_search p hcb hS (FromString.valueNode p st).2 st _
        hq.2.2.1 b1 b2 b5 b6
      cases hh : hit st.user (FromString.valueNode p st).2
      · obtain ⟨m1, m2, m3⟩ := c3 hh
        left
        constructor
        · apply quiet_link hS u0 s0 st _ (JSONElement.STRING (FromString.valueNode p st).2) hq
          · simp only [addSize_stop, clearSpan_stop]; exact m1
          · simp only [addSize_s, clearSpan_s]; exact m3
          · simp only [addSize_user, clearSpan_user]; exact m2
          · simp only [addSize_chain, clearSpan_chain, callStringComma_chain, link_chain, b3]
          · intro a ha; injection ha with ha; rw [← ha]
            exact ⟨hh, ofSpan_clean _ _ _ _ _ (valueNode_ofSpan p st)⟩
        · simp only [addSize_last_error, clearSpan_last_error, callStringComma_last_error,
            link_last_error, b7, he]
          cases (FromString.valueNode p st).1 <;> decide
      · obtain ⟨m1, m2, m3⟩ := c4 hh
        right
        refine ⟨(FromString.valueNode p st).2, ?_⟩
        refine ⟨?_, ⟨[], ?_, by simp⟩, hh, ?_, ?_, valueNode_ofSpan p st, ?_, by omega⟩
        · simp only [addSize_stop, clearSpan_stop]; exact m1
        · simp only [addSize_chain, clearSpan_chain, callStringComma_chain, link_chain, b3]
        · simp only [addSize_user, clearSpan_user]; exact m2
        · simp only [addSize_s, clearSpan_s]; exact m3
        · simp only [addSize_last_error, clearSpan_last_error, callStringComma_last_error,
            link_last_error, b7, he]
          cases hr : (FromString.valueNode p st).1
          · right
            exact ⟨by simp, valueNode_fail p st hr⟩
          · left; simp
  · rw [if_neg hs]
    left
    exact ⟨hq, hn⟩

theorem switch_trace (p : JSONParse) (hcb : p.callbacks_ = true)
    (hS : JSONTokenizer.Searching cb good hit next) (u0 : σ) (s0 : List Char) (cc : Char)
    (st : ScanState σ) (hq : ScanState.Quiet good hit next u0 s0 st)
    (he : st.last_error_ = ERR.ERR_NONE) :
    ScanState.Outcome p cb good hit next u0 s0 st (FromString.switch p cb false cc st) := by
  unfold FromString.switch
  split_ifs
  · exact caseOpen_trace p hcb hS u0 s0 false st hq he
  · exact caseClose_trace p hcb hS u0 s0 false st hq he
  · exact caseOpen_trace p hcb hS u0 s0 true st hq he
  · exact caseClose_trace p hcb hS u0 s0 true st hq he
  · exact caseQuote_trace p u0 s0 st hq he
  · exact caseColon_trace p hcb hS u0 s0 st hq he
  · exact caseComma_trace p hcb hS u0 s0 st hq he
  · exact caseDefault_trace p u0 s0 cc st hq he

end SearchSwitch2

section SearchBody

variable {σ : Type} {good : σ → Prop} {hit : σ → JSONString → Bool}
  {next : σ → JSONElement → σ} {cb : JSONTokenizer σ}

/-- The error after the statements behind the switch. -/
theorem after_error (p : JSONParse) (h : Bool) (st : ScanState σ) :
    ((FromString.after p h st).last_error_ = st.last_error_ ∧
      (st.stop = true → st.last_error_ ≠ ERR.ERR_NONE)) ∨
    ((FromString.after p h st).last_error_ = ERR.ERR_CALLBACK_STOP ∧ st.stop = true ∧
      st.last_error_ = ERR.ERR_NONE) ∨
    (p.limit_node_level_ = true ∧
      ((FromString.after p h st).last_error_ = ERR.ERR_UNEXPECTED_END_OF_ARRAY ∨
        (FromString.after p h st).last_error_ = ERR.ERR_UNEXPECTED_END_OF_MAP)) := by
  simp only [FromString.after, FromString.depthError, FromString.negativeMap,
    FromString.negativeArray, FromString.stopError, FromString.setHead, ScanState.setError]
  split_ifs <;> simp_all
  all_goals (left; intro hs hn; simp_all)

theorem after_quiet (p : JSONParse) (u0 : σ) (s0 : List Char) (x : ScanState σ)
    (hq : ScanState.Quiet good hit next u0 s0 x)
    (hn : x.last_error_ ≠ ERR.ERR_CALLBACK_STOP) :
    ScanState.Quiet good hit next u0 s0 (FromString.after p false x) ∧
    (FromString.after p false x).last_error_ ≠ ERR.ERR_CALLBACK_STOP := by
  obtain ⟨_, _, _, _, _, f6, _, f8, f9⟩ := after_fields p false x
  refine ⟨quiet_frame u0 s0 x _ hq f6 f8 f9 (after_frame p false x).2, ?_⟩
  rcases after_error p false x with h | h | h
  · rw [h.1]; exact hn
  · rw [hq.1] at h; exact absurd h.2.1 (by decide)
  · rcases h.2 with h | h <;> rw [h] <;> decide

theorem after_hit (p : JSONParse) (u0 : σ) (s0 : List Char) (st x : ScanState σ)
    (a : JSONString) (hq : ScanState.Quiet good hit next u0 s0 st)
    (hh : ScanState.HitBy p cb hit st a x) :
    ScanState.Stopped p cb hit next u0 s0 st.chain a st.str_start st.str_end
      (FromString.after p false x) := by
  obtain ⟨_, _, _, _, _, f6, _, f8, f9⟩ := after_fields p false x
  obtain ⟨h1, h2, h3, h4, h5, h6, h7, h8⟩ := hh
  obtain ⟨_, q2, _, q4, q5, q6⟩ := hq
  refine ⟨by rw [f6, h1], by rw [(after_frame p false x).2]; exact h2, q5,
    by rw [← q4]; exact h3, by rw [f9, h4, q4, q2], by rw [f8, h5, q4, q2],
    by rw [← q2]; exact h6, ?_, q6, h8⟩
  rcases after_error p false x with h | h | h
  · rcases h7 with e | e
    · exact absurd e (h.2 h1)
    · right; left; rw [h.1]; exact e
  · left; exact h.1
  · right; right; exact h

theorem quoted_keep (c : Char) (st : ScanState σ) (hq : st.quoted_processing = true)
    (he : st.last_error_ = ERR.ERR_NONE) :
    (FromString.quoted c st).stop = st.stop ∧ (FromString.quoted c st).s = st.s ∧
    (FromString.quoted c st).user = st.user ∧ (FromString.quoted c st).chain = st.chain ∧
    (FromString.quoted c st).last_error_ ≠ ERR.ERR_CALLBACK_STOP ∧
    ((FromString.quoted c st).quoted_processing = false → c = DQUOTE) := by
  have hn : st.last_error_ ≠ ERR.ERR_CALLBACK_STOP := by rw [he]; decide
  rw [quoted_on c st hq]
  split
  · exact ⟨rfl, rfl, rfl, rfl, hn, fun h => absurd (hq ▸ h) (by decide)⟩
  · split
    · exact ⟨rfl, rfl, rfl, rfl, hn, fun h => absurd (hq ▸ h) (by decide)⟩
    · split
      · rename_i hd
        split
        · split
          · exact ⟨rfl, rfl, rfl, rfl, by
              show ERR.ERR_BAD_VALUE ≠ ERR.ERR_CALLBACK_STOP; decide, fun _ => hd⟩
          · exact ⟨rfl, rfl, rfl, rfl, by
              show ERR.ERR_BAD_ATTRIBUTE ≠ ERR.ERR_CALLBACK_STOP; decide, fun _ => hd⟩
        · exact ⟨rfl, rfl, rfl, rfl, hn, fun _ => hd⟩
      · exact ⟨rfl, rfl, rfl, rfl, hn, fun h => absurd (hq ▸ h) (by decide)⟩

/-- One pass of a search that has not been stopped: it leaves a quiet state without a
callback stop, or the callback of a string node made of the pending span stops it. -/
theorem body_trace (p : JSONParse) (hcb : p.callbacks_ = true)
    (hS : JSONTokenizer.Searching cb good hit next) (u0 : σ) (s0 : List Char)
    (st : ScanState σ) (hq : ScanState.Quiet good hit next u0 s0 st)
    (he : st.last_error_ = ERR.ERR_NONE) :
    (ScanState.Quiet good hit next u0 s0 (FromString.body p cb false st) ∧
      (FromString.body p cb false st).last_error_ ≠ ERR.ERR_CALLBACK_STOP) ∨
    (st.quoted_processing = false ∧
      ∃ a, ScanState.Stopped p cb hit next u0 s0 st.chain a st.str_start st.str_end
        (FromString.body p cb false st)) := by
  unfold FromString.body
  by_cases hqp : st.quoted_processing = false
  · rw [dispatch_switch p cb false st he hqp]
    rcases switch_trace p hcb hS u0 s0 (charAt st.s st.i) st hq he with h | ⟨a, h⟩
    · exact Or.inl (after_quiet p u0 s0 _ h.1 h.2)
    · exact Or.inr ⟨hqp, a, after_hit p u0 s0 st _ a hq h⟩
  · have hqt : st.quoted_processing = true := by simpa using hqp
    obtain ⟨k1, k2, k3, k4, k5, k6⟩ := quoted_keep (charAt st.s st.i) st hqt he
    have hqq : ScanState.Quiet good hit next u0 s0 (FromString.quoted (charAt st.s st.i) st) :=
      quiet_frame u0 s0 st _ hq k1 k2 k3 k4
    left
    by_cases hd : (FromString.quoted (charAt st.s st.i) st).last_error_ = ERR.ERR_NONE ∧
        (FromString.quoted (charAt st.s st.i) st).quoted_processing = false
    · have hc := k6 hd.2
      rw [hc] at hd hqq ⊢
      have e : FromString.dispatch p cb false DQUOTE (FromString.quoted DQUOTE st)
          = FromString.caseQuote (FromString.quoted DQUOTE st) := by
        unfold FromString.dispatch
        rw [hd.1, hd.2, switch_quote]
        simp
      rw [e]
      rcases (caseQuote_trace p u0 s0 _ hqq hd.1 :
          ScanState.Outcome p cb good hit next u0 s0 _ _) with h | ⟨a, h⟩
      · exact after_quiet p u0 s0 _ h.1 h.2
      · -- the case of the quote calls no callback
        exfalso
        have h1 := h.1
        have : (FromString.caseQuote (FromString.quoted DQUOTE st)).stop = false := by
          have := hqq.1
          simp only [FromString.caseQuote, ScanState.setError]
          split_ifs <;> exact this
        rw [this] at h1
        exact absurd h1 (by decide)
    · have e : FromString.dispatch p cb false (charAt st.s st.i)
          (FromString.quoted (charAt st.s st.i) st)
          = FromString.quoted (charAt st.s st.i) st := by
        unfold FromString.dispatch
        rw [if_neg]
        simpa using hd
      rw [e]
      exact after_quiet p u0 s0 _ hqq k5

end SearchBody

section SpanBounds

variable {σ : Type}

end SpanBounds

section SpanBounds2

variable {σ : Type}

end SpanBounds2

section SearchScan

variable {σ : Type} {good : σ → Prop} {hit : σ → JSONString → Bool}
  {next : σ → JSONElement → σ} {cb : JSONTokenizer σ}

/-- The loop ends in a state with the property that every pass which stays in the loop
hands on, or with the pass that leaves it. -/
theorem loop_cases (p : JSONParse) (cb : JSONTokenizer σ) (h : Bool) (l : Nat)
    (P : ScanState σ → Prop)
    (hstep : ∀ st, P st → st.i < l → FromString.leaves p (FromString.body p cb h st) = false →
      P (FromString.body p cb h st).next) :
    ∀ (fuel : Nat) (st0 : ScanState σ), P st0 →
      P (FromString.loop p cb h l fuel st0) ∨
      ∃ st ∈ FromString.passes p cb h l fuel st0, P st ∧
        FromString.leaves p (FromString.body p cb h st) = true ∧
        FromString.loop p cb h l fuel st0 = FromString.body p cb h st := by
  intro fuel
  induction fuel with
  | zero => intro st0 h0; left; exact h0
  | succ n ih =>
    intro st0 h0
    by_cases hi : st0.i < l
    · rw [loop_succ_pos p cb h l n st0 hi]
      unfold FromString.passes
      rw [if_pos hi]
      by_cases hlv : FromString.leaves p (FromString.body p cb h st0) = true
      · rw [if_pos hlv, if_pos hlv]
        right
        exact ⟨st0, List.mem_cons_self _ _, h0, hlv, rfl⟩
      · rw [if_neg hlv, if_neg hlv]
        rcases ih _ (hstep st0 h0 hi (by simpa using hlv)) with h1 | ⟨st, hm, h1, h2, h3⟩
        · exact Or.inl h1
        · exact Or.inr ⟨st, List.mem_cons_of_mem _ hm, h1, h2, h3⟩
    · rw [loop_succ_neg p cb h l n st0 hi]
      exact Or.inl h0

theorem stopped_error (p : JSONParse) (u0 : σ) (s0 : List Char) (pre : List JSONElement)
    (a : JSONString) (si ei : Int) (x : ScanState σ)
    (h : ScanState.Stopped p cb hit next u0 s0 pre a si ei x) :
    x.last_error_ ≠ ERR.ERR_NONE := by
  rcases h.2.2.2.2.2.2.2.1 with e | e | e
  · rw [e]; decide
  · rw [e.1]; decide
  · rcases e.2 with e | e <;> rw [e] <;> decide

/-- The scan of a search ends in a quiet state without a callback stop, or in the pass in
which the callback of a string node made of the pending span stops it. -/
theorem scan_trace (p : JSONParse) (hcb : p.callbacks_ = true)
    (hS : JSONTokenizer.Searching cb good hit next) (u0 : σ) (s0 : List Char) (psi : Nat)
    (hg : good u0) :
    (ScanState.Quiet good hit next u0 s0 (FromString.scan p cb u0 s0 false psi) ∧
      (FromString.scan p cb u0 s0 false psi).last_error_ ≠ ERR.ERR_CALLBACK_STOP) ∨
    (∃ st ∈ FromString.scanPasses p cb u0 s0 false psi,
      st.quoted_processing = false ∧
      ∃ a, ScanState.Stopped p cb hit next u0 s0 st.chain a st.str_start st.str_end
        (FromString.scan p cb u0 s0 false psi)) := by
  have h0 : ScanState.Quiet good hit next u0 s0 (FromString.init u0 s0 psi) ∧
      (FromString.init u0 s0 psi).last_error_ = ERR.ERR_NONE :=
    ⟨⟨rfl, rfl, hg, rfl, rfl, fun a ha => absurd ha (List.not_mem_nil _)⟩, rfl⟩
  have hc := loop_cases p cb false (wrapU16 (strlen s0))
    (fun st => ScanState.Quiet good hit next u0 s0 st ∧ st.last_error_ = ERR.ERR_NONE) ?_
    (2 * wrapU16 (strlen s0) + 1) _ h0
  · rcases hc with h1 | ⟨st, hm, h1, _, h3⟩
    · left
      refine ⟨h1.1, ?_⟩
      show (FromString.loop p cb false _ _ _).last_error_ ≠ _
      rw [h1.2]; decide
    · rcases body_trace p hcb hS u0 s0 st h1.1 h1.2 with h4 | ⟨h4, a, h5⟩
      · left
        unfold FromString.scan
        rw [h3]; exact h4
      · right
        refine ⟨st, hm, h4, a, ?_⟩
        unfold FromString.scan
        rw [h3]; exact h5
  · intro st hP _ hlv
    have he := error_none_of_stays p _ hlv
    rcases body_trace p hcb hS u0 s0 st hP.1 hP.2 with h4 | ⟨_, a, h5⟩
    · exact ⟨quiet_frame u0 s0 _ _ h4.1 (by simp) (by simp) (by simp) (by simp), by
        rw [next_last_error]; exact he⟩
    · exact absurd he (stopped_error p u0 s0 _ a _ _ _ h5)

/-- The statements after the loop change `last_error_` alone, and set no callback
stop. -/
theorem finish_search (p : JSONParse) (st : ScanState σ) :
    (FromString.finish p st).s = st.s ∧ (FromString.finish p st).user = st.user ∧
    (FromString.finish p st).i = st.i ∧
    (st.last_error_ ≠ ERR.ERR_NONE → (FromString.finish p st).last_error_ = st.last_error_) ∧
    (st.last_error_ ≠ ERR.ERR_CALLBACK_STOP →
      (FromString.finish p st).last_error_ ≠ ERR.ERR_CALLBACK_STOP) := by
  simp only [FromString.finish, FromString.unbalanced, FromString.unterminated,
    FromString.openMap, FromString.openArray, ScanState.setError]
  split_ifs <;> simp_all

end SearchScan

section SimpleSearch

open JSONSimpleStringParse in
/-- The callbacks of `JSONSimpleStringParse` are those of a search: the members stay, and
a string node stops the scan exactly when the test `found` holds. -/
theorem simple_searching :
    JSONTokenizer.Searching JSONSimpleStringParse.tokenizer (fun _ => True)
      JSONSimpleStringParse.hit (fun u _ => u) where
  array := fun _ _ _ _ _ => rfl
  map := fun _ _ _ _ _ => rfl
  string_hit := by
    intro u a s si ei _
    show (JSONSimpleStringParse.TokenString OP.OP_FROM_STRING u a s si ei).1 = _
    unfold JSONSimpleStringParse.TokenString JSONSimpleStringParse.hit
    simp only [beq_self_eq_true, if_true]
    cases hc : u.base.case_sensitive_ <;> split_ifs <;> simp_all
  string_miss := by
    intro u a s si ei _ hh
    show (JSONSimpleStringParse.TokenString OP.OP_FROM_STRING u a s si ei).2 = _
    unfold JSONSimpleStringParse.TokenString
    unfold JSONSimpleStringParse.hit at hh
    simp only [beq_self_eq_true, if_true]
    cases hc : u.base.case_sensitive_ <;> split_ifs <;> simp_all
  keeps := fun _ _ h => h

/-- With members that stay, a chain is quiet exactly when no string node of it is a
hit. -/
theorem quietOn_const {σ : Type} (hit : σ → JSONString → Bool) (u : σ) :
    ∀ c : List JSONElement, quietOn hit (fun u _ => u) u c = true ↔
      ∀ a, JSONElement.STRING a ∈ c → hit u a = false := by
  intro c
  induction c with
  | nil => simp [quietOn]
  | cons n r ih =>
    cases n with
    | ARRAY o =>
      show (true && quietOn hit (fun u _ => u) u r) = true ↔ _
      rw [Bool.true_and, ih]
      simp
    | MAP o =>
      show (true && quietOn hit (fun u _ => u) u r) = true ↔ _
      rw [Bool.true_and, ih]
      simp
    | STRING b =>
      show ((!hit u b) && quietOn hit (fun u _ => u) u r) = true ↔ _
      rw [Bool.and_eq_true, ih]
      constructor
      · rintro ⟨h1, h2⟩ a ha
        rcases List.mem_cons.1 ha with h | h
        · injection h with h; rw [h]; simpa using h1
        · exact h2 a h
      · intro h
        exact ⟨by simp [h b (List.mem_cons_self _ _)],
          fun a ha => h a (List.mem_cons_of_mem _ ha)⟩

theorem foldl_const {σ : Type} (u : σ) (c : List JSONElement) :
    c.foldl (fun (u : σ) (_ : JSONElement) => u) u = u := by
  induction c with
  | nil => rfl
  | cons n r ih => exact ih

theorem charAt_lt {m : List Char} {i : Nat} (h : i < m.length) : charAt m i = m[i] := by
  unfold charAt; exact List.getD_eq_getElem _ _ h

theorem charAt_ge {m : List Char} {i : Nat} (h : m.length ≤ i) : charAt m i = NUL := by
  unfold charAt; exact List.getD_eq_default _ _ h

/-- The case-sensitive compare over the length of a text without NUL is `0` exactly for
the content that is this text. -/
theorem strncmp_exact (a s : List Char) (ha : ∀ c ∈ a, c ≠ NUL) (hs : ∀ c ∈ s, c ≠ NUL) :
    StrNCmp a s s.length true = 0 ↔ a = s := by
  rw [strncmp_eq_zero_iff, strlen_of_nul_free a ha]
  constructor
  · rintro ⟨h1, h2⟩
    have hc : ∀ j, j < s.length → charAt a j = charAt s j :=
      fun j hj => (differs_sensitive a s j).1 (h1 j hj)
    have hlen : s.length ≤ a.length := by
      by_contra hlt
      have hlt : a.length < s.length := by omega
      have e := hc a.length hlt
      rw [charAt_ge (le_refl _), charAt_lt hlt] at e
      exact hs _ (List.getElem_mem _) e.symm
    apply List.ext_getElem (by omega)
    intro i h3 h4
    have := hc i h4
    rw [charAt_lt h3, charAt_lt h4] at this
    exact this
  · intro h
    subst h
    exact ⟨fun j _ => (differs_sensitive a a j).2 rfl, le_refl _⟩

theorem cutLength_short (L : Nat) (s : List Char) (hs : ∀ c ∈ s, c ≠ NUL) (hl : s.length < L)
    (hL : L ≤ 255) : JSONSimpleStringParse.cutLength L s = s.length := by
  unfold JSONSimpleStringParse.cutLength
  rw [strlen_of_nul_free s hs]
  have : wrapU16 (s.length : Int) = s.length := wrapU16_of_le (by omega)
  simp only [this]
  rw [if_neg (by omega)]

/-- The test `found` of a case-sensitive search for a text `s` that is not empty, has no
NUL and is shorter than `LENGTH`: the content is `s`. -/
theorem simple_hit_iff (self : JSONSimpleStringParse) (s : List Char) (a : JSONString)
    (hs0 : s ≠ []) (hsn : ∀ c ∈ s, c ≠ NUL) (hsl : s.length < self.base.LENGTH)
    (hL : self.base.LENGTH ≤ 255) (ha : ∀ c ∈ a.string_, c ≠ NUL) :
    (self.searchStart s true).hit a = true ↔ a.string_ = s := by
  unfold JSONSimpleStringParse.hit JSONSimpleStringParse.searchStart
  simp only [JSONParse.CaseSensitive]
  rw [cutLength_short _ s hsn hsl hL]
  have h0 : (s.length != 0) = true := by
    cases s with
    | nil => exact absurd rfl hs0
    | cons c r => simp
  rw [h0, Bool.true_and, beq_iff_eq]
  exact strncmp_exact a.string_ s ha hsn

theorem searchError_cases (e : ERR) :
    (e = ERR.ERR_NONE ∧ searchError e = ERR.ERR_NOT_FOUND) ∨
    (e = ERR.ERR_CALLBACK_STOP ∧ searchError e = ERR.ERR_NONE) ∨
    (e ≠ ERR.ERR_NONE ∧ e ≠ ERR.ERR_CALLBACK_STOP ∧ searchError e = e) := by
  cases e <;> simp [searchError]

/-- The last error of `FromStringSearch` on a buffer that is not empty, from an index
inside it: that of the scan, after the statements behind the loop, mapped. -/
theorem simple_search_error (self : JSONSimpleStringParse) (psi : Nat) (s : List Char)
    (cs : Bool) (hrun : self.io_.GetLength ≠ 0 ∧ psi < self.io_.GetLength) :
    (self.FromStringSearch psi s cs).2.GetLastError =
      searchError (FromString.finish (self.searchStart s cs).base
        (FromString.scan (self.searchStart s cs).base JSONSimpleStringParse.tokenizer
          (self.searchStart s cs) (self.searchStart s cs).io_.Get false psi)).last_error_ := by
  have e : self.FromStringSearch psi s cs =
      (((self.searchStart s cs).FromStringPsi psi).1,
        JSONSimpleStringParse.mapError ((self.searchStart s cs).FromStringPsi psi).2) := rfl
  rw [e]
  have hio : (self.searchStart s cs).io_ = self.io_ := rfl
  unfold JSONSimpleStringParse.FromStringPsi
  rw [hio, if_pos (by simpa using hrun)]
  unfold JSONSimpleStringParse.GetLastError JSONSimpleStringParse.mapError FromString
    searchError
  simp only
  split_ifs <;> simp_all

theorem simple_mapError (x : JSONSimpleStringParse) :
    (JSONSimpleStringParse.mapError x).GetLastError = searchError x.GetLastError := by
  unfold JSONSimpleStringParse.mapError JSONSimpleStringParse.GetLastError searchError
  split_ifs <;> simp_all

end SimpleSearch

section AttrSearch

open JSONSimpleStringParseAttr in
/-- The callbacks of `JSONSimpleStringParseAttr` without rename are those of a search. -/
theorem attr_searching :
    JSONTokenizer.Searching JSONSimpleStringParseAttr.tokenizer
      (fun u => u.rename_ = false) JSONSimpleStringParseAttr.hit
      JSONSimpleStringParseAttr.next where
  array := by
    intro u o s i _
    show JSONSimpleStringParseAttr.TokenArray OP.OP_FROM_STRING u o s i = _
    unfold JSONSimpleStringParseAttr.TokenArray JSONSimpleStringParseAttr.next
    simp only [beq_self_eq_true, if_true]
    split_ifs <;> rfl
  map := by
    intro u o s i _
    show JSONSimpleStringParseAttr.TokenArray OP.OP_FROM_STRING u o s i = _
    unfold JSONSimpleStringParseAttr.TokenArray JSONSimpleStringParseAttr.next
    simp only [beq_self_eq_true, if_true]
    split_ifs <;> rfl
  string_hit := by
    intro u a s si ei hg
    show (JSONSimpleStringParseAttr.TokenString OP.OP_FROM_STRING u a s si ei).1 = _
    unfold JSONSimpleStringParseAttr.TokenString JSONSimpleStringParseAttr.hit
    simp only [beq_self_eq_true, if_true]
    cases hv : a.is_value_
    · simp only [Bool.false_eq_true, if_false, Bool.false_and]
      split_ifs <;> simp_all
    · simp only [if_true, Bool.true_and]
      cases ht : u.take_next_ <;> simp
  string_miss := by
    intro u a s si ei hg hh
    show (JSONSimpleStringParseAttr.TokenString OP.OP_FROM_STRING u a s si ei).2 = _
    unfold JSONSimpleStringParseAttr.hit at hh
    unfold JSONSimpleStringParseAttr.TokenString JSONSimpleStringParseAttr.next
      JSONSimpleStringParseAttr.keyMatch
    simp only [beq_self_eq_true, if_true]
    cases hv : a.is_value_
    · simp only [Bool.false_eq_true, if_false]
      split_ifs <;> simp_all
    · rw [hv] at hh
      have ht : u.take_next_ = false := by simpa using hh
      simp [ht]
  keeps := by
    intro u n hg
    unfold JSONSimpleStringParseAttr.next
    cases n with
    | ARRAY o => simp only; split_ifs <;> exact hg
    | MAP o => simp only; split_ifs <;> exact hg
    | STRING a => simp only; split_ifs <;> exact hg

end AttrSearch

section AttrMachine

open JSONSimpleStringParseAttr

theorem keyMatch_setTake (u : JSONSimpleStringParseAttr) (t : Bool) (k : JSONString) :
    (u.setTake t).keyMatch k = u.keyMatch k := rfl

theorem setTake_setTake (u : JSONSimpleStringParseAttr) (t t2 : Bool) :
    (u.setTake t).setTake t2 = u.setTake t2 := rfl

theorem next_setTake (u : JSONSimpleStringParseAttr) (t : Bool) (n : JSONElement)
    (hlen : u.attr_length_ ≠ 0) :
    (u.setTake t).next n = u.setTake (u.takeAfter t n) := by
  unfold JSONSimpleStringParseAttr.next JSONSimpleStringParseAttr.takeAfter
  have hl : ((u.setTake t).attr_length_ != 0) = true := by
    show (u.attr_length_ != 0) = true
    simpa using hlen
  have ht : (u.setTake t).take_next_ = t := rfl
  cases n with
  | ARRAY o => cases t <;> rfl
  | MAP o => cases t <;> rfl
  | STRING x =>
    simp only [hl, ht, keyMatch_setTake, Bool.and_true]
    cases hv : x.is_value_
    · cases t
      · by_cases hk : u.keyMatch x = true
        · simp [hk, JSONSimpleStringParseAttr.setTake]
        · have hk2 : u.keyMatch x = false := by simpa using hk
          simp [hk2]
      · simp
    · simp

theorem foldl_setTake (u : JSONSimpleStringParseAttr) (hlen : u.attr_length_ ≠ 0) :
    ∀ (c : List JSONElement) (t : Bool),
      ∃ t2, c.foldl JSONSimpleStringParseAttr.next (u.setTake t) = u.setTake t2 := by
  intro c
  induction c with
  | nil => intro t; exact ⟨t, rfl⟩
  | cons n r ih =>
    intro t
    rw [List.foldl_cons, next_setTake u t n hlen]
    exact ih _

theorem hit_setTake (u : JSONSimpleStringParseAttr) (t : Bool) (x : JSONString) :
    (u.setTake t).hit x = (x.is_value_ && t) := rfl

theorem quietOn_cons {σ : Type} (hit : σ → JSONString → Bool) (next : σ → JSONElement → σ)
    (u : σ) (n : JSONElement) (r : List JSONElement) :
    quietOn hit next u (n :: r) = true ↔
      (∀ x, n = JSONElement.STRING x → hit u x = false) ∧ quietOn hit next (next u n) r = true := by
  show ((match n with
      | JSONElement.STRING a => !hit u a
      | _ => true) && quietOn hit next (next u n) r) = true ↔ _
  rw [Bool.and_eq_true]
  cases n with
  | ARRAY o => simp
  | MAP o => simp
  | STRING b => simp

/-- One node that does not stop the scan, in a chain in which no key directly follows a
key: the callback and the search for the value behind the key agree on what is
pending. -/
theorem attr_step (u : JSONSimpleStringParseAttr) (a : List Char)
    (hlen : u.attr_length_ ≠ 0)
    (hkm : ∀ k : JSONString, (∀ c ∈ k.string_, c ≠ NUL) → u.keyMatch k = (k.string_ == a))
    (n : JSONElement) (rest : List JSONElement) (pend prev : Bool)
    (hpp : pend = true → prev = true)
    (hcl : ∀ x, n = JSONElement.STRING x → ∀ ch ∈ x.string_, ch ≠ NUL)
    (hka : Spec.keysApartFrom prev (n :: rest) = true)
    (hnh : ∀ x, n = JSONElement.STRING x → (u.setTake pend).hit x = false) :
    ∃ pend2 prev2, (u.setTake pend).next n = u.setTake pend2 ∧
      Spec.attrAfter a pend (n :: rest) = Spec.attrAfter a pend2 rest ∧
      Spec.keysApartFrom prev2 rest = true ∧ (pend2 = true → prev2 = true) := by
  rw [next_setTake u pend n hlen]
  cases n with
  | ARRAY o => exact ⟨false, false, rfl, rfl, hka, fun h => h⟩
  | MAP o => exact ⟨false, false, rfl, rfl, hka, fun h => h⟩
  | STRING x =>
    have h1 := hnh x rfl
    rw [hit_setTake] at h1
    have hk0 : Spec.keysApartFrom prev (JSONElement.STRING x :: rest)
        = (if x.is_value_ then Spec.keysApartFrom false rest
           else !prev && Spec.keysApartFrom true rest) := rfl
    have ha0 : Spec.attrAfter a pend (JSONElement.STRING x :: rest)
        = (if x.is_value_ then (if pend then some x else Spec.attrAfter a false rest)
           else Spec.attrAfter a (x.string_ == a) rest) := rfl
    have ht0 : u.takeAfter pend (JSONElement.STRING x)
        = (if x.is_value_ then pend else pend || u.keyMatch x) := rfl
    rw [hk0] at hka
    rw [ha0, ht0]
    cases hv : x.is_value_
    · -- a key
      rw [hv] at hka
      have hka1 : (!prev && Spec.keysApartFrom true rest) = true := by simpa using hka
      rw [Bool.and_eq_true] at hka1
      have hprev : prev = false := by simpa using hka1.1
      have hpend : pend = false := by
        cases pend
        · rfl
        · have := hpp rfl; rw [hprev] at this; exact absurd this (by decide)
      refine ⟨x.string_ == a, true, ?_, by simp, hka1.2, fun _ => rfl⟩
      rw [hpend, hkm x (hcl x rfl)]
      simp
    · -- a value
      rw [hv] at h1 hka
      have hpend : pend = false := by simpa using h1
      refine ⟨false, false, by simp [hpend], by simp [hpend], by simpa using hka, fun h => h⟩

/-- A quiet chain in which no key directly follows a key has no value string directly
behind a key with the content `a`. -/
theorem attr_quiet (u : JSONSimpleStringParseAttr) (a : List Char)
    (hlen : u.attr_length_ ≠ 0)
    (hkm : ∀ k : JSONString, (∀ c ∈ k.string_, c ≠ NUL) → u.keyMatch k = (k.string_ == a)) :
    ∀ (c : List JSONElement) (pend prev : Bool), (pend = true → prev = true) →
      (∀ b, JSONElement.STRING b ∈ c → ∀ ch ∈ b.string_, ch ≠ NUL) →
      Spec.keysApartFrom prev c = true →
      quietOn JSONSimpleStringParseAttr.hit JSONSimpleStringParseAttr.next (u.setTake pend) c
        = true →
      Spec.attrAfter a pend c = none := by
  intro c
  induction c with
  | nil => intro _ _ _ _ _ _; rfl
  | cons n r ih =>
    intro pend prev hpp hcl hka hq
    rw [quietOn_cons] at hq
    obtain ⟨p2, v2, e1, e2, e3, e4⟩ := attr_step u a hlen hkm n r pend prev hpp
      (fun x hx => hcl x (by rw [hx]; exact List.mem_cons_self _ _)) hka hq.1
    rw [e2]
    rw [e1] at hq
    exact ih p2 v2 e4 (fun b hb => hcl b (List.mem_cons_of_mem _ hb)) e3 hq.2

/-- The value string that stops the scan behind a quiet chain, in a chain in which no key
directly follows a key, is the first value string directly behind a key with the content
`a`. -/
theorem attr_found (u : JSONSimpleStringParseAttr) (a : List Char)
    (hlen : u.attr_length_ ≠ 0)
    (hkm : ∀ k : JSONString, (∀ c ∈ k.string_, c ≠ NUL) → u.keyMatch k = (k.string_ == a))
    (v : JSONString) (tail : List JSONElement) :
    ∀ (pre : List JSONElement) (pend prev : Bool), (pend = true → prev = true) →
      (∀ b, JSONElement.STRING b ∈ pre → ∀ ch ∈ b.string_, ch ≠ NUL) →
      Spec.keysApartFrom prev (pre ++ JSONElement.STRING v :: tail) = true →
      quietOn JSONSimpleStringParseAttr.hit JSONSimpleStringParseAttr.next (u.setTake pend) pre
        = true →
      (pre.foldl JSONSimpleStringParseAttr.next (u.setTake pend)).hit v = true →
      Spec.attrAfter a pend (pre ++ JSONElement.STRING v :: tail) = some v ∧
      pre.foldl JSONSimpleStringParseAttr.next (u.setTake pend) = u.setTake true := by
  intro pre
  induction pre with
  | nil =>
    intro pend prev _ _ _ _ hh
    rw [List.foldl_nil, hit_setTake, Bool.and_eq_true] at hh
    rw [List.nil_append, List.foldl_nil, hh.2]
    refine ⟨?_, rfl⟩
    show (if v.is_value_ then (if true then some v else Spec.attrAfter a false tail)
      else Spec.attrAfter a (v.string_ == a) tail) = _
    rw [hh.1]; rfl
  | cons n r ih =>
    intro pend prev hpp hcl hka hq hh
    rw [quietOn_cons] at hq
    rw [List.cons_append] at hka ⊢
    obtain ⟨p2, v2, e1, e2, e3, e4⟩ := attr_step u a hlen hkm n
      (r ++ JSONElement.STRING v :: tail) pend prev hpp
      (fun x hx => hcl x (by rw [hx]; exact List.mem_cons_self _ _)) hka hq.1
    rw [e2, List.foldl_cons, e1]
    rw [List.foldl_cons, e1] at hh
    rw [e1] at hq
    exact ih p2 v2 e4 (fun b hb => hcl b (List.mem_cons_of_mem _ hb)) e3 hq.2 hh

end AttrMachine

section AttrRun

open JSONSimpleStringParseAttr

theorem attr_cutLength_short (L : Nat) (s : List Char) (hs : ∀ c ∈ s, c ≠ NUL)
    (hl : s.length < L) (hL : L ≤ 255) : JSONSimpleStringParseAttr.cutLength L s = s.length := by
  unfold JSONSimpleStringParseAttr.cutLength
  rw [strlen_of_nul_free s hs]
  have : wrapU16 (s.length : Int) = s.length := wrapU16_of_le (by omega)
  simp only [this]
  rw [if_neg (by omega)]

/-- The key test of a case-sensitive search for an attribute `a` that is not empty, has
no NUL and is shorter than `LENGTH`: the content of the key is `a`. -/
theorem attr_keyMatch (u : JSONSimpleStringParseAttr) (a : List Char)
    (h1 : u.attr_ = a) (h2 : u.attr_length_ = a.length) (h3 : u.base.case_sensitive_ = true)
    (han : ∀ c ∈ a, c ≠ NUL) (k : JSONString) (hk : ∀ c ∈ k.string_, c ≠ NUL) :
    u.keyMatch k = (k.string_ == a) := by
  unfold JSONSimpleStringParseAttr.keyMatch
  rw [h1, h2, h3, Bool.eq_iff_iff, beq_iff_eq, beq_iff_eq]
  exact strncmp_exact k.string_ a hk han

theorem attr_mapError (x : JSONSimpleStringParseAttr) :
    (JSONSimpleStringParseAttr.mapError x).GetLastError = searchError x.GetLastError ∧
    (JSONSimpleStringParseAttr.mapError x).value_ = x.value_ ∧
    (JSONSimpleStringParseAttr.mapError x).io_ = x.io_ := by
  unfold JSONSimpleStringParseAttr.mapError JSONSimpleStringParseAttr.GetLastError searchError
  split_ifs <;> simp_all

/-- What `FromString(psi)` and the mapping of the error leave, on a buffer that is not
empty, from an index inside it, in terms of the scan. -/
theorem attr_run (u : JSONSimpleStringParseAttr) (psi : Nat)
    (hrun : u.io_.GetLength ≠ 0 ∧ psi < u.io_.GetLength) :
    (JSONSimpleStringParseAttr.mapError (u.FromStringPsi psi).2).GetLastError =
      searchError (FromString.finish u.base
        (FromString.scan u.base JSONSimpleStringParseAttr.tokenizer u u.io_.Get false
          psi)).last_error_ ∧
    (u.FromStringPsi psi).2.GetLastError =
      (FromString.finish u.base
        (FromString.scan u.base JSONSimpleStringParseAttr.tokenizer u u.io_.Get false
          psi)).last_error_ ∧
    (JSONSimpleStringParseAttr.mapError (u.FromStringPsi psi).2).GetAttrValue =
      (FromString.scan u.base JSONSimpleStringParseAttr.tokenizer u u.io_.Get false
        psi).user.value_ ∧
    (JSONSimpleStringParseAttr.mapError (u.FromStringPsi psi).2).io_.Get =
      (FromString.scan u.base JSONSimpleStringParseAttr.tokenizer u u.io_.Get false psi).s := by
  have hf := finish_search u.base
    (FromString.scan u.base JSONSimpleStringParseAttr.tokenizer u u.io_.Get false psi)
  obtain ⟨m1, m2, m3⟩ := attr_mapError (u.FromStringPsi psi).2
  have e : u.FromStringPsi psi =
      ((FromString u.base JSONSimpleStringParseAttr.tokenizer u u.io_.Get false psi).index,
        { (FromString u.base JSONSimpleStringParseAttr.tokenizer u u.io_.Get false psi).user with
          base := (FromString u.base JSONSimpleStringParseAttr.tokenizer u u.io_.Get false
            psi).parser
          io_ := { (FromString u.base JSONSimpleStringParseAttr.tokenizer u u.io_.Get false
              psi).user.io_ with
            buffer_ := (FromString u.base JSONSimpleStringParseAttr.tokenizer u u.io_.Get false
              psi).s } }) := by
    unfold JSONSimpleStringParseAttr.FromStringPsi
    rw [if_pos (by simpa using hrun)]
  refine ⟨?_, ?_, ?_, ?_⟩
  · rw [m1, e]; rfl
  · rw [e]; rfl
  · show (JSONSimpleStringParseAttr.mapError (u.FromStringPsi psi).2).value_ = _
    rw [m2, e]
    show (FromString.finish u.base
      (FromString.scan u.base JSONSimpleStringParseAttr.tokenizer u u.io_.Get false
        psi)).user.value_ = _
    rw [hf.2.1]
  · show (JSONSimpleStringParseAttr.mapError (u.FromStringPsi psi).2).io_.buffer_ = _
    rw [m3, e]
    exact hf.1

/-- The callback of a value string in a search (no replace) with `take_next_` set: the
value is taken. -/
theorem attr_take_value (u : JSONSimpleStringParseAttr) (x : JSONString) (s : List Char)
    (si ei : Int) (hr : u.replace_ = false) (hx : x.is_value_ = true) :
    (JSONSimpleStringParseAttr.tokenizer.TokenString OP.OP_FROM_STRING (u.setTake true) x s si
      ei).2.1.value_ = x.string_ ∧
    (JSONSimpleStringParseAttr.tokenizer.TokenString OP.OP_FROM_STRING (u.setTake true) x s si
      ei).2.2 = s := by
  show (JSONSimpleStringParseAttr.TokenString OP.OP_FROM_STRING (u.setTake true) x s si
      ei).2.1.value_ = x.string_ ∧
    (JSONSimpleStringParseAttr.TokenString OP.OP_FROM_STRING (u.setTake true) x s si ei).2.2 = s
  unfold JSONSimpleStringParseAttr.TokenString
  have h1 : (u.setTake true).take_next_ = true := rfl
  have h2 : (u.setTake true).replace_ = false := hr
  simp [hx, h1, h2]

end AttrRun
section ReplaceText

/-- The first bytes after `JSONSupport::Replace`, with `e` bytes behind the new length
(`e` is 0 or 1): the old bytes before `sp`, the replacement, and the old bytes from `ep`
to `L + e`. -/
theorem replace_take_ext (d s : List Char) (L M sp ep n e : Nat)
    (hsp : sp ≤ ep) (hep : ep ≤ L) (hspL : sp < L) (hfit : L - (ep - sp) + n ≤ M)
    (hLM : L ≤ M) (hM : M ≤ 65535) (hd : M ≤ d.length) (hn : n ≤ s.length)
    (he : e ≤ 1) (hLe : L + e ≤ d.length) (hfe : L - (ep - sp) + n + e ≤ d.length) :
    (Replace d L M sp ep s n).1 = L - (ep - sp) + n ∧
    (Replace d L M sp ep s n).2.take (L - (ep - sp) + n + e)
      = d.take sp ++ s.take n ++ (d.drop ep).take (L - ep + e) := by
  have hbl : (s.take n).length = n := by simp; omega
  rcases Nat.lt_trichotomy (ep - sp) n with h | h | h
  · -- the replacement is longer
    rw [replace_grow d s L M sp ep n hsp hep hspL (by omega) h (by omega) hM]
    refine ⟨by show L + (n - (ep - sp)) = _; omega, ?_⟩
    show (memcpy (memmove d _ _ _) sp s n).take _ = _
    rw [memcpy_take _ s sp n hn]
    unfold memmove
    have e1 : L - (ep - sp) + n + e = (ep + (n - (ep - sp))) + (L - ep + e) := by omega
    rw [e1]
    exact replace_stores d (s.take n) sp (ep + (n - (ep - sp))) ep _ (L - ep + e)
      (by rw [hbl]; omega) (by omega) (by omega) (by omega)
  · -- the same length
    rw [replace_equal d s L M sp ep n hsp hep hspL (by omega) h]
    refine ⟨by show L = _; omega, ?_⟩
    show (memcpy d sp s n).take _ = _
    rw [memcpy_take _ s sp n hn, writeAt_eq _ d sp (by omega)]
    have e1 : (s.take n).take (d.length - sp) = s.take n := by
      apply List.take_of_length_le; rw [hbl]; omega
    have hlen : (d.take sp ++ s.take n).length = ep := by simp; omega
    have e0 : L - (ep - sp) + n + e = ep + (L - ep + e) := by omega
    have e2 : sp + n = ep := by omega
    have e3 : ep + (L - ep + e) - ep = L - ep + e := by omega
    rw [e1, hbl, e0, e2, List.take_append_eq_append_take, hlen,
      List.take_of_length_le (by rw [hlen]; omega), e3]
  · -- the replacement is shorter
    rw [replace_shrink d s L M sp ep n hsp hep hspL (by omega) h]
    refine ⟨by show L - (ep - sp - n) = _; omega, ?_⟩
    show (memcpy (memmove d _ _ _) sp s n).take _ = _
    rw [memcpy_take _ s sp n hn]
    unfold memmove
    have e1 : L - (ep - sp) + n + e = (sp + n) + (L - ep + e) := by omega
    rw [e1]
    exact replace_stores d (s.take n) sp (sp + n) ep _ (L - ep + e)
      (by rw [hbl]) (by omega) (by omega) (by omega)

end ReplaceText
section AttrReplace

open JSONSimpleStringParseAttr

end AttrReplace

section Classifiers

/-- The loop of `IsInt` without leading zeros returns true only over digits, the first of
which is no `0` when more bytes follow. -/
theorem isInt_scan_true (s : List Char) (l st : Nat) :
    ∀ (k i : Nat), IsInt.scan s l st false k i = true →
      ∀ j, i ≤ j → j < i + k →
        isDigit (charAt s j) = true ∧ ¬ (j = st ∧ charAt s j = '0' ∧ l > 1 + st) := by
  intro k
  induction k with
  | zero => intro i _ j h1 h2; omega
  | succ n ih =>
    intro i h j h1 h2
    unfold IsInt.scan at h
    by_cases hd : isDigit (charAt s i) = true
    · rw [if_pos hd] at h
      by_cases hz : (!false && i == st && '0' == charAt s i && decide (l > 1 + st)) = true
      · rw [if_pos hz] at h; exact absurd h (by simp)
      · rw [if_neg hz] at h
        rcases Nat.eq_or_lt_of_le h1 with e | e
        · subst e
          refine ⟨hd, ?_⟩
          rintro ⟨e1, e2, e3⟩
          apply hz
          subst e1
          simp [e2, e3]
        · exact ih (i + 1) h j (by omega) (by omega)
    · rw [if_neg hd] at h; exact absurd h (by simp)

/-- The loop of `IsDecimal` over digits before any decimal point or exponent, none of them
behind a leading `0`: no `break`, and no exponent. -/
theorem isDecimal_scan_digits (s : List Char) (st : Nat) :
    ∀ (k i : Nat) (d : DecimalState), d.e = 0 → d.dp = 0 → d.f = true →
      (∀ j, i ≤ j → j < i + k →
        isDigit (charAt s j) = true ∧ (j > st → charAt s st ≠ '0')) →
      (IsDecimal.scan s st k i d).f = true ∧ (IsDecimal.scan s st k i d).e = 0 := by
  intro k
  induction k with
  | zero => intro i d he _ hf _; exact ⟨hf, he⟩
  | succ n ih =>
    intro i d he hdp hf h
    obtain ⟨h1, h2⟩ := h i (le_refl _) (by omega)
    unfold IsDecimal.scan
    have hz : (decide (i > st) && '0' == charAt s st) = false := by
      by_cases hi : i > st
      · have := h2 hi
        have e : ('0' == charAt s st) = false := by
          simp only [beq_eq_false_iff_ne, ne_eq]
          exact fun e => this e.symm
        simp [e]
      · simp [hi]
    simp only [he, hdp, beq_self_eq_true, if_true, h1, Bool.true_and, hz, Bool.false_eq_true,
      if_false]
    apply ih (i + 1)
    · rfl
    · rfl
    · exact hf
    · exact fun j hj1 hj2 => h j (by omega) (by omega)

/-- What `IsInt(s, l, false)` accepts, `IsDecimal(s, l, allow_exponent)` accepts. -/
theorem isInt_isDecimal (s : List Char) (l : Nat) (ae : Bool)
    (h : IsInt s l false = true) : IsDecimal s l ae = true := by
  unfold IsInt at h
  have hal : (if (decide (l > 1) && charAt s 0 == '-') = true then false else false) = false := by
    split <;> rfl
  simp only [hal] at h
  have hA := isInt_scan_true s l _ _ _ h
  have hB := isDecimal_scan_digits s
    (if (decide (l > 1) && charAt s 0 == '-') = true then 1 else 0)
    (l - (if (decide (l > 1) && charAt s 0 == '-') = true then 1 else 0))
    (if (decide (l > 1) && charAt s 0 == '-') = true then 1 else 0)
    { f := true, en := false, dpnl := false, dpnr := false, e := 0, dp := 0 } rfl rfl rfl
    (by
      intro j hj1 hj2
      refine ⟨(hA j hj1 hj2).1, ?_⟩
      intro hgt hz
      exact (hA _ (le_refl _) (by omega)).2 ⟨rfl, hz, by omega⟩)
  unfold IsDecimal
  simp only [hB.1, hB.2]
  cases ae <;> simp

/-- What `IsDecimal(s, l, false)` accepts, `IsDecimal(s, l, true)` accepts. -/
theorem isDecimal_exponent_mono (s : List Char) (l : Nat)
    (h : IsDecimal s l false = true) : IsDecimal s l true = true := by
  have key : ∀ r : DecimalState, (if r.e != 0 then false else r.f) = true →
      (if r.e != 0 && !r.en then false else r.f) = true := by
    intro r h
    by_cases he : r.e = 0 <;> simp_all
  exact key _ h

end Classifiers

section MemoryBytes

/-- The byte at `t` after `writeAt`: a stored byte inside the stored range when `t` is an
index of the list, the old byte otherwise. -/
theorem charAt_writeAt (bs : List Char) : ∀ (m : List Char) (pos t : Nat),
    charAt (writeAt m pos bs) t =
      if pos ≤ t ∧ t < pos + bs.length ∧ t < m.length then bs.getD (t - pos) NUL
      else charAt m t := by
  induction bs with
  | nil =>
    intro m pos t
    rw [writeAt, if_neg (by simp; omega)]
  | cons c cs ih =>
    intro m pos t
    rw [writeAt, ih (m.set pos c) (pos + 1) t]
    simp only [List.length_set, List.length_cons]
    by_cases h1 : pos + 1 ≤ t ∧ t < pos + 1 + cs.length ∧ t < m.length
    · rw [if_pos h1, if_pos ⟨by omega, by omega, h1.2.2⟩]
      have : t - pos = (t - (pos + 1)) + 1 := by omega
      rw [this, List.getD_cons_succ]
    · rw [if_neg h1]
      by_cases h2 : t = pos ∧ t < m.length
      · obtain ⟨e, hl⟩ := h2
        subst e
        rw [if_pos ⟨le_refl _, by omega, hl⟩]
        simp [charAt, List.getD_eq_getElem?_getD, List.getElem?_set, hl]
      · rw [if_neg (by omega)]
        unfold charAt
        by_cases e : t = pos
        · subst e
          have : m.length ≤ t := by omega
          rw [List.getD_eq_default _ _ (by simpa using this), List.getD_eq_default _ _ this]
        · simp [List.getD_eq_getElem?_getD, List.getElem?_set, Ne.symm e]

/-- The byte `j` of what `readAt` reads. -/
theorem getD_readAt : ∀ (n : Nat) (m : List Char) (src j : Nat), j < n →
    (readAt m src n).getD j NUL = charAt m (src + j) := by
  intro n
  induction n with
  | zero => intro m src j h; omega
  | succ k ih =>
    intro m src j h
    cases j with
    | zero => simp [readAt]
    | succ i =>
      rw [readAt, List.getD_cons_succ, ih m (src + 1) i (by omega)]
      congr 1; omega

/-- The byte at `t` after `memmove`. -/
theorem charAt_memmove (m : List Char) (dst src n t : Nat) :
    charAt (memmove m dst src n) t =
      if dst ≤ t ∧ t < dst + n ∧ t < m.length then charAt m (src + (t - dst))
      else charAt m t := by
  unfold memmove
  rw [charAt_writeAt, readAt_length]
  split
  · rename_i h
    rw [getD_readAt _ _ _ _ (by omega)]
  · rfl

/-- The bytes outside the stored range stay after `memcpy`. -/
theorem charAt_memcpy_out (m s : List Char) (dst n t : Nat) (h : t < dst ∨ dst + n ≤ t) :
    charAt (memcpy m dst s n) t = charAt m t := by
  unfold memcpy
  rw [charAt_writeAt, readAt_length, if_neg (by omega)]

end MemoryBytes

section KeepsScan

variable {σ : Type} {cb : JSONTokenizer σ} {P : σ → Prop}

theorem quoted_user (c : Char) (st : ScanState σ) : (FromString.quoted c st).user = st.user := by
  unfold FromString.quoted
  split_ifs <;> rfl

theorem tokenMarker_keeps (hK : cb.Keeps P) (isMap o : Bool) (st : ScanState σ)
    (h : P st.user) : P (FromString.tokenMarker cb isMap o st).2.1 := by
  unfold FromString.tokenMarker
  split
  · exact hK.map _ _ _ _ h
  · exact hK.array _ _ _ _ h

theorem callOpen_keeps (hK : cb.Keeps P) (p : JSONParse) (isMap : Bool) (st : ScanState σ)
    (h : P st.user) : P (FromString.callOpen p cb isMap st).user := by
  unfold FromString.callOpen
  split
  · rw [called_user]; exact tokenMarker_keeps hK isMap true st h
  · exact h

theorem callClose_keeps (hK : cb.Keeps P) (p : JSONParse) (isMap : Bool) (st : ScanState σ)
    (h : P st.user) : P (FromString.callClose p cb isMap st).user := by
  unfold FromString.callClose
  split
  · rw [called_user]; exact tokenMarker_keeps hK isMap false st h
  · exact h

theorem callString_keeps (hK : cb.Keeps P) (p : JSONParse) (a : JSONString)
    (st : ScanState σ) (h : P st.user) : P (FromString.callString p cb a st).user := by
  unfold FromString.callString
  split
  · simp only
    split
    · rw [setIndex_user, called_user]; exact hK.string _ _ _ _ _ h
    · rw [called_user]; exact hK.string _ _ _ _ _ h
  · exact h

theorem callStringComma_keeps (hK : cb.Keeps P) (p : JSONParse) (a : JSONString)
    (st : ScanState σ) (h : P st.user) : P (FromString.callStringComma p cb a st).user := by
  unfold FromString.callStringComma
  split
  · simp only
    rw [setIndex_user, called_user]; exact hK.string _ _ _ _ _ h
  · exact h

theorem closeValue_keeps (hK : cb.Keeps P) (p : JSONParse) (st : ScanState σ)
    (h : P st.user) : P (FromString.closeValue p cb st).user := by
  unfold FromString.closeValue
  simp only [addSize_user, clearSpan_user]
  apply callString_keeps hK
  rw [link_user]
  split
  · rw [setError_user]; exact h
  · rw [valueTaken_user]; exact h

theorem caseOpen_keeps (hK : cb.Keeps P) (p : JSONParse) (hh isMap : Bool)
    (st : ScanState σ) (h : P st.user) : P (FromString.caseOpen p cb hh isMap st).user := by
  unfold FromString.caseOpen
  split
  · rw [addSize_user, bump_user]
    apply callOpen_keeps hK
    rw [link_user]; exact h
  · rw [setError_user]; exact h

theorem caseClose_keeps (hK : cb.Keeps P) (p : JSONParse) (hh isMap : Bool)
    (st : ScanState σ) (h : P st.user) : P (FromString.caseClose p cb hh isMap st).user := by
  unfold FromString.caseClose
  simp only
  split
  · split
    · rw [addSize_user, bump_user]
      apply callClose_keeps hK
      rw [link_user]
      exact closeValue_keeps hK p st h
    · rw [setError_user]; exact h
  · split
    · rw [addSize_user, bump_user]
      apply callClose_keeps hK
      rw [link_user]
      exact h
    · rw [setError_user]; exact h

theorem caseColon_keeps (hK : cb.Keeps P) (p : JSONParse) (hh : Bool)
    (st : ScanState σ) (h : P st.user) : P (FromString.caseColon p cb hh st).user := by
  unfold FromString.caseColon
  split
  · split
    · rw [setError_user]; exact h
    · rw [addSize_user, clearSpan_user, keyTaken_user]
      apply callString_keeps hK
      rw [link_user]; exact h
  · rw [setError_user]; exact h

theorem caseComma_keeps (hK : cb.Keeps P) (p : JSONParse) (hh : Bool)
    (st : ScanState σ) (h : P st.user) : P (FromString.caseComma p cb hh st).user := by
  unfold FromString.caseComma
  split
  · split
    · split
      · rw [setError_user]; exact h
      · simp only [addSize_user, clearSpan_user]
        apply callStringComma_keeps hK
        rw [link_user, undetermined_user]
        split
        · rw [setError_user]; exact h
        · exact h
    · rw [setError_user]; exact h
  · exact h

theorem caseQuote_user (st : ScanState σ) : (FromString.caseQuote st).user = st.user := by
  unfold FromString.caseQuote
  split_ifs <;> rfl

theorem caseDefault_user (c : Char) (st : ScanState σ) :
    (FromString.caseDefault c st).user = st.user := by
  unfold FromString.caseDefault
  split_ifs <;> rfl

theorem switch_keeps (hK : cb.Keeps P) (p : JSONParse) (hh : Bool) (cc : Char)
    (st : ScanState σ) (h : P st.user) : P (FromString.switch p cb hh cc st).user := by
  unfold FromString.switch
  split_ifs
  · exact caseOpen_keeps hK p hh false st h
  · exact caseClose_keeps hK p hh false st h
  · exact caseOpen_keeps hK p hh true st h
  · exact caseClose_keeps hK p hh true st h
  · rw [caseQuote_user]; exact h
  · exact caseColon_keeps hK p hh st h
  · exact caseComma_keeps hK p hh st h
  · rw [caseDefault_user]; exact h

/-- One pass keeps a property of the members that the callbacks keep. -/
theorem body_keeps (hK : cb.Keeps P) (p : JSONParse) (hh : Bool) (st : ScanState σ)
    (h : P st.user) : P (FromString.body p cb hh st).user := by
  unfold FromString.body
  rw [(after_fields p hh _).2.2.2.2.2.2.2.2]
  unfold FromString.dispatch
  split
  · apply switch_keeps hK
    rw [quoted_user]; exact h
  · rw [quoted_user]; exact h

theorem loop_keeps (hK : cb.Keeps P) (p : JSONParse) (hh : Bool) (l : Nat) :
    ∀ (fuel : Nat) (st : ScanState σ), P st.user → P (FromString.loop p cb hh l fuel st).user := by
  intro fuel
  induction fuel with
  | zero => intro st h; exact h
  | succ n ih =>
    intro st h
    unfold FromString.loop
    split
    · split
      · exact body_keeps hK p hh st h
      · apply ih
        rw [next_user]; exact body_keeps hK p hh st h
    · exact h

/-- The scan keeps a property of the members that the callbacks keep. -/
theorem scan_keeps (hK : cb.Keeps P) (p : JSONParse) (u : σ) (s : List Char) (hh : Bool)
    (psi : Nat) (h : P u) : P (FromString.scan p cb u s hh psi).user :=
  loop_keeps hK p hh _ _ _ h

end KeepsScan

section StaleLength

/-- The recorded length after the replace block of `JSONSimpleStringParseAttr`: it is
stored only when the new length is `0`. -/
theorem attr_replaceToken_length (u : JSONSimpleStringParseAttr) (e : JSONString)
    (s : List Char) (si ei : Int) :
    (JSONSimpleStringParseAttr.replaceToken u e s si ei).1.io_.GetLength =
      if (Replace s u.io_.GetLength (u.io_.GetLength true) si ei u.value_
          (wrapU16 (strlen u.value_))).1 = 0 then 0
      else u.io_.GetLength := by
  unfold JSONSimpleStringParseAttr.replaceToken
  simp only
  split
  · rename_i h
    rw [if_pos (by simpa using h)]
    have := beq_iff_eq.1 h
    show (u.io_.Length _).length_ = 0
    exact this
  · rename_i h
    rw [if_neg (by simpa using h)]

/-- The recorded length after the replace block of `JSONSimpleStringParse`. -/
theorem simple_replaceToken_length (u : JSONSimpleStringParse) (e : JSONString)
    (s : List Char) (si ei : Int) :
    (JSONSimpleStringParse.replaceToken u e s si ei).1.io_.GetLength =
      if (Replace s u.io_.GetLength (u.io_.GetLength true) si ei u.value_
          (wrapU16 (strlen u.value_))).1 = 0 then 0
      else u.io_.GetLength := by
  unfold JSONSimpleStringParse.replaceToken
  simp only
  split
  · rename_i h
    rw [if_pos (by simpa using h)]
    have := beq_iff_eq.1 h
    show (u.io_.Length _).length_ = 0
    exact this
  · rename_i h
    rw [if_neg (by simpa using h)]

/-- The callbacks of `JSONSimpleStringParseAttr` leave the recorded length as it was, or
`0`. -/
theorem attr_keeps_length (L : Nat) :
    JSONSimpleStringParseAttr.tokenizer.Keeps
      (fun u => u.io_.GetLength = L ∨ u.io_.GetLength = 0) where
  array := by
    intro u o s i h
    show (fun u : JSONSimpleStringParseAttr => u.io_.GetLength = L ∨ u.io_.GetLength = 0)
      (JSONSimpleStringParseAttr.TokenArray OP.OP_FROM_STRING u o s i).2.1
    unfold JSONSimpleStringParseAttr.TokenArray
    split_ifs <;> exact h
  map := by
    intro u o s i h
    show (fun u : JSONSimpleStringParseAttr => u.io_.GetLength = L ∨ u.io_.GetLength = 0)
      (JSONSimpleStringParseAttr.TokenArray OP.OP_FROM_STRING u o s i).2.1
    unfold JSONSimpleStringParseAttr.TokenArray
    split_ifs <;> exact h
  string := by
    intro u a s si ei h
    show (fun u : JSONSimpleStringParseAttr => u.io_.GetLength = L ∨ u.io_.GetLength = 0)
      (JSONSimpleStringParseAttr.TokenString OP.OP_FROM_STRING u a s si ei).2.1
    have hr : ∀ w : JSONSimpleStringParseAttr, w.io_ = u.io_ →
        ((JSONSimpleStringParseAttr.replaceToken w a s si ei).1.io_.GetLength = L ∨
          (JSONSimpleStringParseAttr.replaceToken w a s si ei).1.io_.GetLength = 0) := by
      intro w hw
      rw [attr_replaceToken_length]
      split
      · right; rfl
      · rw [hw]; exact h
    unfold JSONSimpleStringParseAttr.TokenString
    simp only
    split_ifs
    all_goals first
      | exact h
      | exact hr _ rfl

/-- The callbacks of `JSONSimpleStringParse` leave the recorded length as it was, or
`0`. -/
theorem simple_keeps_length (L : Nat) :
    JSONSimpleStringParse.tokenizer.Keeps
      (fun u => u.io_.GetLength = L ∨ u.io_.GetLength = 0) where
  array := by
    intro u o s i h
    exact h
  map := by
    intro u o s i h
    exact h
  string := by
    intro u a s si ei h
    show (fun u : JSONSimpleStringParse => u.io_.GetLength = L ∨ u.io_.GetLength = 0)
      (JSONSimpleStringParse.TokenString OP.OP_FROM_STRING u a s si ei).2.1
    have hr : (JSONSimpleStringParse.replaceToken u a s si ei).1.io_.GetLength = L ∨
        (JSONSimpleStringParse.replaceToken u a s si ei).1.io_.GetLength = 0 := by
      rw [simple_replaceToken_length]
      split
      · right; rfl
      · exact h
    unfold JSONSimpleStringParse.TokenString
    simp only
    split_ifs
    all_goals first
      | exact h
      | exact hr

/-- The recorded length after `FromString(psi)` of `JSONSimpleStringParseAttr`, whatever
the flags: as it was, or `0`. -/
theorem attr_run_length (u : JSONSimpleStringParseAttr) (psi : Nat) :
    (JSONSimpleStringParseAttr.mapError (u.FromStringPsi psi).2).io_.GetLength = u.io_.GetLength ∨
    (JSONSimpleStringParseAttr.mapError (u.FromStringPsi psi).2).io_.GetLength = 0 := by
  rw [(attr_mapError _).2.2]
  unfold JSONSimpleStringParseAttr.FromStringPsi
  simp only
  split
  · have := scan_keeps (attr_keeps_length u.io_.GetLength) u.base u u.io_.Get false psi
      (Or.inl rfl)
    have hf := finish_search u.base
      (FromString.scan u.base JSONSimpleStringParseAttr.tokenizer u u.io_.Get false psi)
    show (FromString.finish u.base
        (FromString.scan u.base JSONSimpleStringParseAttr.tokenizer u u.io_.Get false
          psi)).user.io_.GetLength = _ ∨
      (FromString.finish u.base
        (FromString.scan u.base JSONSimpleStringParseAttr.tokenizer u u.io_.Get false
          psi)).user.io_.GetLength = 0
    rw [hf.2.1]
    exact this
  · left; rfl

theorem simple_mapError_io (x : JSONSimpleStringParse) :
    (JSONSimpleStringParse.mapError x).io_ = x.io_ := by
  unfold JSONSimpleStringParse.mapError
  split_ifs <;> rfl

/-- The recorded length after `FromString(psi)` of `JSONSimpleStringParse`: as it was, or
`0`. -/
theorem simple_run_length (u : JSONSimpleStringParse) (psi : Nat) :
    (JSONSimpleStringParse.mapError (u.FromStringPsi psi).2).io_.GetLength = u.io_.GetLength ∨
    (JSONSimpleStringParse.mapError (u.FromStringPsi psi).2).io_.GetLength = 0 := by
  rw [simple_mapError_io]
  unfold JSONSimpleStringParse.FromStringPsi
  simp only
  split
  · have := scan_keeps (simple_keeps_length u.io_.GetLength) u.base u u.io_.Get false psi
      (Or.inl rfl)
    have hf := finish_search u.base
      (FromString.scan u.base JSONSimpleStringParse.tokenizer u u.io_.Get false psi)
    show (FromString.finish u.base
        (FromString.scan u.base JSONSimpleStringParse.tokenizer u u.io_.Get false
          psi)).user.io_.GetLength = _ ∨
      (FromString.finish u.base
        (FromString.scan u.base JSONSimpleStringParse.tokenizer u u.io_.Get false
          psi)).user.io_.GetLength = 0
    rw [hf.2.1]
    exact this
  · left; rfl

end StaleLength

section Brackets

variable {σ : Type}

theorem bracketDepth_succ (s : List Char) (k : Nat) (hk : k < s.length) :
    Spec.bracketDepth (s.take (k + 1)) = Spec.bracketStep (Spec.bracketDepth (s.take k)) s[k] := by
  unfold Spec.bracketDepth
  rw [List.take_succ, List.foldl_append, List.getElem?_eq_getElem hk]
  rfl

theorem bracketDepth_bound (s : List Char) : ∀ k, k ≤ s.length →
    (Spec.bracketDepth (s.take k)).1 ≤ k ∧ (Spec.bracketDepth (s.take k)).2 ≤ k := by
  intro k
  induction k with
  | zero => intro _; simp [Spec.bracketDepth]
  | succ n ih =>
    intro h
    have := ih (by omega)
    rw [bracketDepth_succ s n (by omega)]
    unfold Spec.bracketStep
    split_ifs <;> simp <;> omega

/-- A pass on a bracket from a state with nothing pending, without callbacks and without
chain, that leaves no depth negative. -/
theorem body_bare_bracket (p : JSONParse) (cb : JSONTokenizer σ) (s : List Char) (user : σ)
    (i : Nat) (ac mc : Int) (ch : List JSONElement) (b : Nat)
    (hcb : p.callbacks_ = false)
    (hc : charAt s i = '[' ∨ charAt s i = ']' ∨ charAt s i = '\x7b' ∨ charAt s i = '\x7d')
    (hac : 0 ≤ ac) (hac2 : ac < 32767) (hmc : 0 ≤ mc) (hmc2 : mc < 32767)
    (h1 : 0 ≤ (Spec.bracketStep (ac, mc) (charAt s i)).1)
    (h2 : 0 ≤ (Spec.bracketStep (ac, mc) (charAt s i)).2) :
    ∃ ch2 b2, FromString.body p cb false (ScanState.bare s user i ac mc ch b)
      = ScanState.bare s user i (Spec.bracketStep (ac, mc) (charAt s i)).1
          (Spec.bracketStep (ac, mc) (charAt s i)).2 ch2 b2 := by
  have w1 : wrapI16 (ac + 1) = ac + 1 := by unfold wrapI16; omega
  have w2 : wrapI16 (mc + 1) = mc + 1 := by unfold wrapI16; omega
  have w3 : wrapI16 (ac + -1) = ac - 1 := by unfold wrapI16; omega
  have w4 : wrapI16 (mc + -1) = mc - 1 := by unfold wrapI16; omega
  rcases hc with hc | hc | hc | hc
  · rw [hc] at h1 h2 ⊢
    have n1 : ¬ ac + 1 < 0 := by omega
    have n2 : ¬ mc < 0 := by omega
    refine ⟨ch ++ [JSONElement.ARRAY true], wrapU16 (b + p.sizeofArray), ?_⟩
    simp [FromString.body, FromString.quoted, FromString.dispatch, FromString.switch,
      FromString.caseOpen, FromString.callOpen, ScanState.bare, hc, hcb,
      ScanState.link, ScanState.bump, ScanState.addSize, w1, FromString.marker,
      FromString.after, FromString.setHead, FromString.stopError, FromString.depthError,
      FromString.negativeArray, FromString.negativeMap, Spec.bracketStep, n1, n2]
  · rw [hc] at h1 h2 ⊢
    have e1 : (Spec.bracketStep (ac, mc) ']').1 = ac - 1 := by simp [Spec.bracketStep]
    rw [e1] at h1
    have n1 : ¬ ac - 1 < 0 := by omega
    have n2 : ¬ mc < 0 := by omega
    refine ⟨ch ++ [JSONElement.ARRAY false], wrapU16 (b + p.sizeofArray), ?_⟩
    simp [FromString.body, FromString.quoted, FromString.dispatch, FromString.switch,
      FromString.caseClose, FromString.callClose, ScanState.bare, hc, hcb,
      ScanState.link, ScanState.bump, ScanState.addSize, w3, FromString.marker,
      FromString.after, FromString.setHead, FromString.stopError, FromString.depthError,
      FromString.negativeArray, FromString.negativeMap, Spec.bracketStep, n1, n2]
  · rw [hc] at h1 h2 ⊢
    have n1 : ¬ ac < 0 := by omega
    have n2 : ¬ mc + 1 < 0 := by omega
    refine ⟨ch ++ [JSONElement.MAP true], wrapU16 (b + p.sizeofArray), ?_⟩
    simp [FromString.body, FromString.quoted, FromString.dispatch, FromString.switch,
      FromString.caseOpen, FromString.callOpen, ScanState.bare, hc, hcb,
      ScanState.link, ScanState.bump, ScanState.addSize, w2, FromString.marker,
      FromString.after, FromString.setHead, FromString.stopError, FromString.depthError,
      FromString.negativeArray, FromString.negativeMap, Spec.bracketStep, n1, n2]
  · rw [hc] at h1 h2 ⊢
    have e1 : (Spec.bracketStep (ac, mc) '\x7d').2 = mc - 1 := by simp [Spec.bracketStep]
    rw [e1] at h2
    have n1 : ¬ ac < 0 := by omega
    have n2 : ¬ mc - 1 < 0 := by omega
    refine ⟨ch ++ [JSONElement.MAP false], wrapU16 (b + p.sizeofArray), ?_⟩
    simp [FromString.body, FromString.quoted, FromString.dispatch, FromString.switch,
      FromString.caseClose, FromString.callClose, ScanState.bare, hc, hcb,
      ScanState.link, ScanState.bump, ScanState.addSize, w4, FromString.marker,
      FromString.after, FromString.setHead, FromString.stopError, FromString.depthError,
      FromString.negativeArray, FromString.negativeMap, Spec.bracketStep, n1, n2]

end Brackets

section Brackets2

variable {σ : Type}

theorem finish_bare_zero (p : JSONParse) (s : List Char) (user : σ) (i : Nat)
    (ch : List JSONElement) (b : Nat) :
    (FromString.finish p (ScanState.bare s user i 0 0 ch b)).last_error_ = ERR.ERR_NONE := by
  simp [FromString.finish, FromString.unbalanced, FromString.unterminated, FromString.openMap,
    FromString.openArray, ScanState.bare]

theorem leaves_bare (p : JSONParse) (s : List Char) (user : σ) (i : Nat) (ac mc : Int)
    (ch : List JSONElement) (b : Nat) (hl : p.limit_node_level_ = true) :
    FromString.leaves p (ScanState.bare s user i ac mc ch b) = true ↔ (mc = 0 ∧ ac = 0) := by
  simp [FromString.leaves, ScanState.bare, hl]

theorem next_bare (s : List Char) (user : σ) (i : Nat) (ac mc : Int)
    (ch : List JSONElement) (b : Nat) (hi : i < 65535) :
    (ScanState.bare s user i ac mc ch b).next = ScanState.bare s user (i + 1) ac mc ch b := by
  have hw : wrapU16 ((i : Int) + 1) = i + 1 := by unfold wrapU16; omega
  simp [ScanState.next, ScanState.bare, hw]

/-- The loop over a text of brackets that are balanced per kind, from a state with nothing
pending at the depths of the prefix: the statements after the loop find no error. -/
theorem loop_brackets (p : JSONParse) (cb : JSONTokenizer σ) (s : List Char) (user : σ)
    (hcb : p.callbacks_ = false) (hl : p.limit_node_level_ = true)
    (hlen : s.length ≤ 32767)
    (hs : ∀ c ∈ s, c = '[' ∨ c = ']' ∨ c = '\x7b' ∨ c = '\x7d')
    (hnn : ∀ k, k ≤ s.length →
      0 ≤ (Spec.bracketDepth (s.take k)).1 ∧ 0 ≤ (Spec.bracketDepth (s.take k)).2)
    (hz : Spec.bracketDepth s = (0, 0)) :
    ∀ (fuel k : Nat) (ch : List JSONElement) (b : Nat), k ≤ s.length → s.length - k ≤ fuel →
      (FromString.finish p (FromString.loop p cb false s.length fuel
        (ScanState.bare s user k (Spec.bracketDepth (s.take k)).1
          (Spec.bracketDepth (s.take k)).2 ch b))).last_error_ = ERR.ERR_NONE := by
  have hend : ∀ (ch : List JSONElement) (b : Nat),
      (FromString.finish p (ScanState.bare s user s.length
        (Spec.bracketDepth (s.take s.length)).1
        (Spec.bracketDepth (s.take s.length)).2 ch b)).last_error_ = ERR.ERR_NONE := by
    intro ch b
    rw [List.take_length, hz]
    exact finish_bare_zero p s user _ ch b
  intro fuel
  induction fuel with
  | zero =>
    intro k ch b hk hf
    have : k = s.length := by omega
    subst this
    exact hend ch b
  | succ n ih =>
    intro k ch b hk hf
    by_cases hi : k < s.length
    · rw [loop_succ_pos p cb false s.length n _ (by show k < s.length; exact hi)]
      have hc : charAt s k = s[k] := charAt_lt hi
      have hd := bracketDepth_succ s k hi
      obtain ⟨b1, b2⟩ := bracketDepth_bound s k hk
      obtain ⟨n1, n2⟩ := hnn k hk
      obtain ⟨m1, m2⟩ := hnn (k + 1) (by omega)
      rw [hd, ← hc] at m1 m2
      have hbr := hs s[k] (List.getElem_mem _)
      rw [← hc] at hbr
      obtain ⟨ch2, b2', hb⟩ := body_bare_bracket p cb s user k
        (Spec.bracketDepth (s.take k)).1 (Spec.bracketDepth (s.take k)).2 ch b hcb hbr
        n1 (by omega) n2 (by omega) m1 m2
      have hsame : (Spec.bracketStep ((Spec.bracketDepth (s.take k)).1,
          (Spec.bracketDepth (s.take k)).2) (charAt s k)) = Spec.bracketDepth (s.take (k + 1)) := by
        rw [hd, hc]
      rw [hsame] at hb
      show (FromString.finish p
        (if FromString.leaves p (FromString.body p cb false _) = true then
          FromString.body p cb false _
        else FromString.loop p cb false s.length n (FromString.body p cb false _).next)).last_error_ = _
      rw [hb]
      by_cases hlv : FromString.leaves p (ScanState.bare s user k
          (Spec.bracketDepth (s.take (k + 1))).1 (Spec.bracketDepth (s.take (k + 1))).2 ch2 b2') = true
      · rw [if_pos hlv]
        obtain ⟨z1, z2⟩ := (leaves_bare p s user k _ _ ch2 b2' hl).1 hlv
        rw [z1, z2]
        exact finish_bare_zero p s user k ch2 b2'
      · rw [if_neg hlv, next_bare _ _ _ _ _ _ _ (by omega)]
        exact ih (k + 1) ch2 b2' (by omega) (by omega)
    · have : k = s.length := by omega
      subst this
      rw [loop_succ_neg p cb false s.length n _ (by show ¬ s.length < s.length; omega)]
      exact hend ch b

end Brackets2

section CalmPass

variable {σ : Type}

theorem stopError_of_no_stop (st : ScanState σ) (hs : st.stop = false) :
    FromString.stopError st = st := by
  unfold FromString.stopError
  simp [hs]

/-- The statements after the switch on a state without stop and without negative depth:
only `*h` can change. -/
theorem after_calm (p : JSONParse) (h : Bool) (st : ScanState σ) (hs : st.stop = false)
    (hd : p.limit_node_level_ = true → 0 ≤ st.ac ∧ 0 ≤ st.mc) :
    FromString.after p h st = FromString.setHead h st := by
  have e1 := setHead_fields h st
  have e2 := setHead_frame2 h st
  unfold FromString.after
  rw [stopError_of_no_stop _ (by rw [e2.2.2.2.2.2.2.2]; exact hs), depthError_id]
  rw [e1.2.1, e1.2.2.1]; exact hd

/-- No pass begins after a callback has stopped the scan. -/
theorem passes_stop (p : JSONParse) (cb : JSONTokenizer σ) (user : σ) (s : List Char)
    (h : Bool) (psi : Nat) (st : ScanState σ)
    (hst : st ∈ FromString.scanPasses p cb user s h psi) : st.stop = false := by
  refine passes_induction p cb h _ (fun st => st.stop = false) ?_ _ _ ?_ st hst
  · intro x _ _ hlv
    have he := error_none_of_stays p _ hlv
    show (FromString.body p cb h x).stop = false
    unfold FromString.body at he ⊢
    rw [(after_fields p h _).2.2.2.2.2.1]
    rcases after_error p h (FromString.dispatch p cb h (charAt x.s x.i)
      (FromString.quoted (charAt x.s x.i) x)) with e | e | e
    · rw [e.1] at he
      by_contra hc
      exact e.2 (by simpa using hc) he
    · rw [e.1] at he; exact absurd he (by decide)
    · rcases e.2 with e | e <;> rw [e] at he <;> exact absurd he (by decide)
  · rfl

/-- The fields that the statement on `*h` leaves as they are. -/
theorem setHead_same (h : Bool) (st : ScanState σ) :
    (FromString.setHead h st).last_error_ = st.last_error_ ∧
    (FromString.setHead h st).chain = st.chain ∧
    (FromString.setHead h st).str_start = st.str_start ∧
    (FromString.setHead h st).str_end = st.str_end ∧
    (FromString.setHead h st).is_literal = st.is_literal ∧
    (FromString.setHead h st).quoted_processing = st.quoted_processing ∧
    (FromString.setHead h st).ac = st.ac ∧ (FromString.setHead h st).mc = st.mc ∧
    (FromString.setHead h st).i = st.i ∧ (FromString.setHead h st).s = st.s ∧
    (FromString.setHead h st).binary_size_ = st.binary_size_ ∧
    (FromString.setHead h st).expect_value = st.expect_value := by
  unfold FromString.setHead
  split <;> exact ⟨rfl, rfl, rfl, rfl, rfl, rfl, rfl, rfl, rfl, rfl, rfl, rfl⟩

/-- A pass outside a quoted span, behind a closed quoted token, on a byte that is no
bracket, colon or comma: inside a bracket, or on a quote, the switch changes nothing. -/
theorem body_ignored (p : JSONParse) (cb : JSONTokenizer σ) (h : Bool) (st : ScanState σ)
    (he : st.last_error_ = ERR.ERR_NONE) (hq : st.quoted_processing = false)
    (hs : st.stop = false)
    (hd : p.limit_node_level_ = true → 0 ≤ st.ac ∧ 0 ≤ st.mc)
    (hk : st.is_literal = 0 ∧ st.str_start ≠ -1)
    (hc : charAt st.s st.i ∉ ['[', ']', '\x7b', '\x7d', ':', ','])
    (hin : charAt st.s st.i = DQUOTE ∨ ¬ (st.mc = 0 ∧ st.ac = 0)) :
    FromString.body p cb h st = FromString.setHead h st := by
  simp only [List.mem_cons, List.mem_singleton, List.not_mem_nil, or_false, not_or] at hc
  obtain ⟨c1, c2, c3, c4, c6, c7⟩ := hc
  have hsw : FromString.switch p cb h (charAt st.s st.i) st = st := by
    unfold FromString.switch
    simp only [beq_iff_eq, c1, c2, c3, c4, c6, c7, if_false]
    by_cases c5 : charAt st.s st.i = DQUOTE
    · rw [if_pos c5]
      unfold FromString.caseQuote
      simp [hk.1, hk.2]
    · rw [if_neg c5]
      have h0 : ¬ (st.mc = 0 ∧ st.ac = 0) := hin.resolve_left c5
      unfold FromString.caseDefault
      simp [h0, hk.1]
  unfold FromString.body
  rw [dispatch_switch p cb h st he hq, hsw]
  exact after_calm p h st hs hd

/-- A pass outside a quoted span, inside a bracket, on a space or a tab: the switch
changes nothing. -/
theorem body_blank (p : JSONParse) (cb : JSONTokenizer σ) (h : Bool) (st : ScanState σ)
    (he : st.last_error_ = ERR.ERR_NONE) (hq : st.quoted_processing = false)
    (hs : st.stop = false)
    (hd : p.limit_node_level_ = true → 0 ≤ st.ac ∧ 0 ≤ st.mc)
    (hc : charAt st.s st.i = ' ' ∨ charAt st.s st.i = TAB)
    (hin : ¬ (st.mc = 0 ∧ st.ac = 0)) :
    FromString.body p cb h st = FromString.setHead h st := by
  have hsw : FromString.switch p cb h (charAt st.s st.i) st = st := by
    unfold FromString.switch
    have hne : charAt st.s st.i ≠ '[' ∧ charAt st.s st.i ≠ ']' ∧ charAt st.s st.i ≠ '\x7b' ∧
        charAt st.s st.i ≠ '\x7d' ∧ charAt st.s st.i ≠ DQUOTE ∧ charAt st.s st.i ≠ ':' ∧
        charAt st.s st.i ≠ ',' := by
      rcases hc with e | e <;> rw [e] <;> decide
    obtain ⟨c1, c2, c3, c4, c5, c6, c7⟩ := hne
    simp only [beq_iff_eq, c1, c2, c3, c4, c5, c6, c7, if_false]
    unfold FromString.caseDefault
    have hw : (charAt st.s st.i == TAB || charAt st.s st.i == ' ') = true := by
      rcases hc with e | e <;> simp [e]
    by_cases h1 : 1 ≤ st.is_literal
    · by_cases h2 : st.str_start = -1
      · simp [hin, h1, h2, hw]
      · simp [hin, h1, h2, hw]
    · simp [hin, h1]
  unfold FromString.body
  rw [dispatch_switch p cb h st he hq, hsw]
  exact after_calm p h st hs hd

end CalmPass

section Termination

variable {σ : Type}

theorem quoted_index (c : Char) (st : ScanState σ) :
    (FromString.quoted c st).i = st.i ∧ (FromString.quoted c st).str_start = st.str_start ∧
    (FromString.quoted c st).stop = st.stop := by
  simp only [FromString.quoted, ScanState.setError]
  split_ifs <;> exact ⟨rfl, rfl, rfl⟩

theorem callString_step (p : JSONParse) (cb : JSONTokenizer σ) (a : JSONString)
    (st : ScanState σ) (hs : (FromString.callString p cb a st).stop = false) :
    (FromString.callString p cb a st).i = st.i := by
  unfold FromString.callString at hs ⊢
  by_cases hc : p.callbacks_ = true
  · rw [if_pos hc] at hs ⊢
    simp only at hs ⊢
    by_cases ht : (cb.TokenString OP.OP_FROM_STRING st.user a st.s st.str_start st.str_end).1
        = true
    · rw [if_pos ht, setIndex_stop, called_stop, ht] at hs
      exact absurd hs (by simp)
    · rw [if_neg ht, called_i]
  · rw [if_neg hc]

theorem callClose_stop (p : JSONParse) (cb : JSONTokenizer σ) (isMap : Bool)
    (st : ScanState σ) (hs : (FromString.callClose p cb isMap st).stop = false) :
    st.stop = false := by
  unfold FromString.callClose at hs
  by_cases h : st.stop = true
  · rw [if_neg (by simp [h])] at hs
    exact hs
  · simpa using h

theorem closeValue_step (p : JSONParse) (cb : JSONTokenizer σ) (st : ScanState σ)
    (hs : (FromString.closeValue p cb st).stop = false) :
    (FromString.closeValue p cb st).i = st.i := by
  unfold FromString.closeValue at hs ⊢
  simp only [addSize_stop, clearSpan_stop, addSize_i, clearSpan_i] at hs ⊢
  rw [callString_step p cb _ _ hs, link_i]
  split
  · rw [setError_i]
  · rw [valueTaken_i]

theorem caseClose_step (p : JSONParse) (cb : JSONTokenizer σ) (h isMap : Bool)
    (st : ScanState σ) (hs : (FromString.caseClose p cb h isMap st).stop = false) :
    (FromString.caseClose p cb h isMap st).i = st.i := by
  unfold FromString.caseClose at hs ⊢
  simp only at hs ⊢
  by_cases hp : -1 < st.str_start
  · simp only [if_pos hp] at hs ⊢
    by_cases hm : (!h || decide (p.limit_memory_ ≥ wrapU16 ((st.binary_size_ : Int) +
        ((p.sizeofString + p.sizeofArray : Nat) : Int)))) = true
    · rw [if_pos hm] at hs ⊢
      rw [addSize_stop, bump_stop] at hs
      have h2 := callClose_stop p cb isMap _ hs
      rw [link_stop] at h2
      rw [addSize_i, bump_i, callClose_i, link_i]
      exact closeValue_step p cb st h2
    · rw [if_neg hm, setError_i]
  · simp only [if_neg hp] at hs ⊢
    by_cases hm : (!h || decide (p.limit_memory_ ≥ wrapU16 ((st.binary_size_ : Int) +
        ((p.sizeofArray : Nat) : Int)))) = true
    · rw [if_pos hm, addSize_i, bump_i, callClose_i, link_i]
    · rw [if_neg hm, setError_i]

theorem caseColon_step (p : JSONParse) (cb : JSONTokenizer σ) (h : Bool)
    (st : ScanState σ) (hs : (FromString.caseColon p cb h st).stop = false) :
    (FromString.caseColon p cb h st).i = st.i := by
  unfold FromString.caseColon at hs ⊢
  by_cases hm : (!h || decide (p.limit_memory_ ≥ st.binary_size_ + p.sizeofString)) = true
  · rw [if_pos hm] at hs ⊢
    by_cases hk : (st.is_literal != 0 || st.str_start == -1 || st.str_end == -1) = true
    · rw [if_pos hk, setError_i]
    · rw [if_neg hk] at hs ⊢
      rw [addSize_stop, clearSpan_stop, keyTaken_stop] at hs
      rw [addSize_i, clearSpan_i, keyTaken_i, callString_step p cb _ _ hs, link_i]
  · rw [if_neg hm, setError_i]

theorem callStringComma_step (p : JSONParse) (cb : JSONTokenizer σ) (a : JSONString)
    (st : ScanState σ) (hs : (FromString.callStringComma p cb a st).stop = false) :
    (FromString.callStringComma p cb a st).i = st.i ∨
    (FromString.callStringComma p cb a st).i = wrapU16 ((st.i : Int) - 1) := by
  unfold FromString.callStringComma at hs ⊢
  by_cases hc : p.callbacks_ = true
  · rw [if_pos hc] at hs ⊢
    simp only at hs ⊢
    rw [setIndex_stop, called_stop] at hs
    rw [setIndex_i, hs]
    simp only [Bool.false_eq_true, if_false]
    by_cases hl : (!a.literal_) = true
    · right; rw [if_pos hl]
    · left; rw [if_neg hl]
  · rw [if_neg hc]; left; rfl

theorem caseComma_step (p : JSONParse) (cb : JSONTokenizer σ) (h : Bool)
    (st : ScanState σ) (hs : (FromString.caseComma p cb h st).stop = false) :
    (FromString.caseComma p cb h st).i = st.i ∨
    ((FromString.caseComma p cb h st).i = wrapU16 ((st.i : Int) - 1) ∧ st.str_start ≠ -1 ∧
      (FromString.caseComma p cb h st).str_start = -1) := by
  unfold FromString.caseComma at hs ⊢
  by_cases hp : -1 < st.str_start
  · rw [if_pos hp] at hs ⊢
    by_cases hm : (!h || decide (p.limit_memory_ ≥ st.binary_size_ + p.sizeofString)) = true
    · rw [if_pos hm] at hs ⊢
      by_cases hk : (st.is_literal == 1 || st.str_start == -1 || st.str_end == -1) = true
      · rw [if_pos hk]; left; rw [setError_i]
      · rw [if_neg hk] at hs ⊢
        simp only [addSize_stop, clearSpan_stop, addSize_i, clearSpan_i, addSize_str_start,
          clearSpan_str_start] at hs ⊢
        have hy : ∀ y : ScanState σ, y.i = st.i →
            ((FromString.callStringComma p cb (FromString.valueNode p st).2
              (ScanState.link (JSONElement.STRING (FromString.valueNode p st).2)
                (ScanState.undetermined y))).stop = false) →
            (FromString.callStringComma p cb (FromString.valueNode p st).2
              (ScanState.link (JSONElement.STRING (FromString.valueNode p st).2)
                (ScanState.undetermined y))).i = st.i ∨
            ((FromString.callStringComma p cb (FromString.valueNode p st).2
              (ScanState.link (JSONElement.STRING (FromString.valueNode p st).2)
                (ScanState.undetermined y))).i = wrapU16 ((st.i : Int) - 1) ∧
              st.str_start ≠ -1 ∧ True) := by
          intro y hy hs2
          rcases callStringComma_step p cb _ _ hs2 with e | e
          · left; rw [e, link_i, undetermined_i, hy]
          · right
            refine ⟨?_, by omega, trivial⟩
            rw [e, link_i, undetermined_i, hy]
        exact hy _ (by split <;> simp) hs
    · rw [if_neg hm]; left; rw [setError_i]
  · rw [if_neg hp]; left; rfl

theorem caseQuote_index (st : ScanState σ) : (FromString.caseQuote st).i = st.i := by
  simp only [FromString.caseQuote, ScanState.setError]
  split_ifs <;> rfl

theorem caseDefault_index (c : Char) (st : ScanState σ) :
    (FromString.caseDefault c st).i = st.i := by
  simp only [FromString.caseDefault, ScanState.setError]
  split_ifs <;> rfl

theorem caseOpen_index (p : JSONParse) (cb : JSONTokenizer σ) (h isMap : Bool)
    (st : ScanState σ) : (FromString.caseOpen p cb h isMap st).i = st.i := by
  unfold FromString.caseOpen
  split
  · rw [addSize_i, bump_i, callOpen_i, link_i]
  · rw [setError_i]

/-- The index after the switch of a pass that no callback has stopped: the index of the
pass, or, in the case `','` with a pending token, the index before it. -/
theorem switch_step (p : JSONParse) (cb : JSONTokenizer σ) (h : Bool) (c : Char)
    (st : ScanState σ) (hs : (FromString.switch p cb h c st).stop = false) :
    (FromString.switch p cb h c st).i = st.i ∨
    ((FromString.switch p cb h c st).i = wrapU16 ((st.i : Int) - 1) ∧ st.str_start ≠ -1 ∧
      (FromString.switch p cb h c st).str_start = -1) := by
  unfold FromString.switch at hs ⊢
  split_ifs at hs ⊢
  · left; exact caseOpen_index p cb h false st
  · left; exact caseClose_step p cb h false st hs
  · left; exact caseOpen_index p cb h true st
  · left; exact caseClose_step p cb h true st hs
  · left; exact caseQuote_index st
  · left; exact caseColon_step p cb h st hs
  · exact caseComma_step p cb h st hs
  · left; exact caseDefault_index c st

/-- A pass that stays in the loop was not stopped by a callback. -/
theorem stays_stop (p : JSONParse) (cb : JSONTokenizer σ) (h : Bool) (st : ScanState σ)
    (hlv : FromString.leaves p (FromString.body p cb h st) = false) :
    (FromString.dispatch p cb h (charAt st.s st.i)
      (FromString.quoted (charAt st.s st.i) st)).stop = false := by
  have he := error_none_of_stays p _ hlv
  unfold FromString.body at he
  rcases after_error p h (FromString.dispatch p cb h (charAt st.s st.i)
    (FromString.quoted (charAt st.s st.i) st)) with e | e | e
  · rw [e.1] at he
    by_contra hc
    exact e.2 (by simpa using hc) he
  · rw [e.1] at he; exact absurd he (by decide)
  · rcases e.2 with e | e <;> rw [e] at he <;> exact absurd he (by decide)

/-- The index after a pass that stays in the loop. -/
theorem body_step (p : JSONParse) (cb : JSONTokenizer σ) (h : Bool) (st : ScanState σ)
    (hlv : FromString.leaves p (FromString.body p cb h st) = false) :
    (FromString.body p cb h st).i = st.i ∨
    ((FromString.body p cb h st).i = wrapU16 ((st.i : Int) - 1) ∧ st.str_start ≠ -1 ∧
      (FromString.body p cb h st).str_start = -1) := by
  have hs := stays_stop p cb h st hlv
  obtain ⟨q1, q2, _⟩ := quoted_index (charAt st.s st.i) st
  have a1 := (after_i p h (FromString.dispatch p cb h (charAt st.s st.i)
    (FromString.quoted (charAt st.s st.i) st))).1
  have a2 := (after_fields p h (FromString.dispatch p cb h (charAt st.s st.i)
    (FromString.quoted (charAt st.s st.i) st))).1
  show (FromString.after p h _).i = st.i ∨ ((FromString.after p h _).i = _ ∧ _ ∧
    (FromString.after p h _).str_start = -1)
  rw [a1, a2]
  unfold FromString.dispatch at hs ⊢
  split
  · rename_i hc
    rw [if_pos hc] at hs
    rcases switch_step p cb h _ _ hs with e | e
    · left; rw [e, q1]
    · right
      rw [q1, q2] at e
      exact e
  · left; exact q1

/-- Every pass that stays in the loop lowers the measure. -/
theorem body_measure (p : JSONParse) (cb : JSONTokenizer σ) (h : Bool) (l : Nat)
    (st : ScanState σ) (hl : l ≤ 65535) (hi : st.i < l)
    (hlv : FromString.leaves p (FromString.body p cb h st) = false) :
    (FromString.body p cb h st).next.measure l < st.measure l := by
  unfold ScanState.measure
  rw [next_i, next_str_start]
  rcases body_step p cb h st hlv with e | ⟨e1, e2, e3⟩
  · rw [e]
    have hw : wrapU16 ((st.i : Int) + 1) = st.i + 1 := by unfold wrapU16; omega
    rw [hw]
    split <;> split <;> omega
  · rw [e1, e3, if_pos rfl, if_neg e2]
    have hw : wrapU16 (((wrapU16 ((st.i : Int) - 1) : Nat) : Int) + 1) = st.i := by
      unfold wrapU16; omega
    rw [hw]
    omega

/-- Passes in the number of the measure end the loop: more of them change nothing. -/
theorem loop_fuel_enough (p : JSONParse) (cb : JSONTokenizer σ) (h : Bool) (l : Nat)
    (hl : l ≤ 65535) :
    ∀ (fuel : Nat) (st : ScanState σ), st.measure l ≤ fuel →
      ∀ k, FromString.loop p cb h l (fuel + k) st = FromString.loop p cb h l fuel st := by
  intro fuel
  induction fuel with
  | zero =>
    intro st hm k
    have hi : ¬ st.i < l := by unfold ScanState.measure at hm; omega
    cases k with
    | zero => rfl
    | succ j => rw [Nat.zero_add, loop_succ_neg p cb h l j st hi]; rfl
  | succ n ih =>
    intro st hm k
    by_cases hi : st.i < l
    · have e : n + 1 + k = (n + k) + 1 := by omega
      rw [e, loop_succ_pos p cb h l (n + k) st hi, loop_succ_pos p cb h l n st hi]
      by_cases hlv : FromString.leaves p (FromString.body p cb h st) = true
      · rw [if_pos hlv, if_pos hlv]
      · rw [if_neg hlv, if_neg hlv]
        have := body_measure p cb h l st hl hi (by simpa using hlv)
        exact ih _ (by omega) k
    · have e : n + 1 + k = (n + k) + 1 := by omega
      rw [e, loop_succ_neg p cb h l (n + k) st hi, loop_succ_neg p cb h l n st hi]

/-- The number of passes is at most the measure. -/
theorem passes_length (p : JSONParse) (cb : JSONTokenizer σ) (h : Bool) (l : Nat)
    (hl : l ≤ 65535) :
    ∀ (fuel : Nat) (st : ScanState σ),
      (FromString.passes p cb h l fuel st).length ≤ st.measure l := by
  intro fuel
  induction fuel with
  | zero => intro st; simp [FromString.passes]
  | succ n ih =>
    intro st
    unfold FromString.passes
    by_cases hi : st.i < l
    · rw [if_pos hi]
      by_cases hlv : FromString.leaves p (FromString.body p cb h st) = true
      · rw [if_pos hlv]
        unfold ScanState.measure
        simp only [List.length_cons, List.length_nil]
        omega
      · rw [if_neg hlv]
        have := body_measure p cb h l st hl hi (by simpa using hlv)
        have := ih (FromString.body p cb h st).next
        simp only [List.length_cons]
        omega
    · rw [if_neg hi]; simp

/-- With passes in the number of the measure the loop ends by one of its own tests: the
index has reached `l`, or the last pass has left the loop. -/
theorem loop_exit (p : JSONParse) (cb : JSONTokenizer σ) (h : Bool) (l : Nat)
    (hl : l ≤ 65535) :
    ∀ (fuel : Nat) (st : ScanState σ), st.measure l ≤ fuel →
      ¬ (FromString.loop p cb h l fuel st).i < l ∨
      ∃ x ∈ FromString.passes p cb h l fuel st,
        FromString.leaves p (FromString.body p cb h x) = true ∧
        FromString.loop p cb h l fuel st = FromString.body p cb h x := by
  intro fuel
  induction fuel with
  | zero =>
    intro st hm
    left
    unfold ScanState.measure at hm
    show ¬ st.i < l
    omega
  | succ n ih =>
    intro st hm
    by_cases hi : st.i < l
    · rw [loop_succ_pos p cb h l n st hi]
      unfold FromString.passes
      rw [if_pos hi]
      by_cases hlv : FromString.leaves p (FromString.body p cb h st) = true
      · rw [if_pos hlv, if_pos hlv]
        right
        exact ⟨st, List.mem_cons_self _ _, hlv, rfl⟩
      · rw [if_neg hlv, if_neg hlv]
        have := body_measure p cb h l st hl hi (by simpa using hlv)
        rcases ih (FromString.body p cb h st).next (by omega) with e | ⟨x, hx, e1, e2⟩
        · left; exact e
        · right
          exact ⟨x, List.mem_cons_of_mem _ hx, e1, e2⟩
    · left
      rw [loop_succ_neg p cb h l n st hi]
      exact hi

end Termination

section LiteralFlags

variable {σ : Type}

/-- The flags of the value node made of the pending token: it is a value; it is a literal
exactly when the token was sampled as an unquoted literal and its content is a literal for
`IsLiteral`; and `Data` fails exactly when the token was sampled as an unquoted literal and
its content is none. -/
theorem valueNode_flags (p : JSONParse) (st : ScanState σ) :
    (FromString.valueNode p st).2.is_value_ = true ∧
    ((FromString.valueNode p st).2.literal_ = true ↔
      (st.is_literal = 2 ∧
        IsLiteral (FromString.valueNode p st).2.string_ (FromString.valueNode p st).2.length_
          = true)) ∧
    ((FromString.valueNode p st).1 = false ↔
      (st.is_literal = 2 ∧
        IsLiteral (FromString.valueNode p st).2.string_ (FromString.valueNode p st).2.length_
          = false)) := by
  unfold FromString.valueNode JSONString.Data JSONString.mkEmpty
  simp only [if_true]
  by_cases h2 : st.is_literal = 2
  · have e : (st.is_literal == 2) = true := by simp [h2]
    simp only [e, if_true]
    split
    · rename_i hl
      simp [h2, hl]
    · rename_i hl
      simp [h2, hl]
  · have e : (st.is_literal == 2) = false := by simp [h2]
    simp [e, h2]

/-- The string nodes of the chain after the switch: those before it, the value node or the
key node made of the pending token. -/
theorem switch_nodes (p : JSONParse) (cb : JSONTokenizer σ) (h : Bool) (c : Char)
    (st : ScanState σ) (a : JSONString)
    (ha : JSONElement.STRING a ∈ (FromString.switch p cb h c st).chain) :
    JSONElement.STRING a ∈ st.chain ∨ a = (FromString.valueNode p st).2 ∨
      a = FromString.keyNode p st := by
  have hm : ∀ isMap o, JSONElement.STRING a ≠ FromString.marker isMap o := by
    intro isMap o
    cases isMap <;> simp [FromString.marker]
  have hopen : ∀ isMap, JSONElement.STRING a ∈ (FromString.caseOpen p cb h isMap st).chain →
      JSONElement.STRING a ∈ st.chain := by
    intro isMap hx
    unfold FromString.caseOpen at hx
    split at hx
    · rw [addSize_chain, bump_chain, callOpen_chain, link_chain, List.mem_append] at hx
      rcases hx with hx | hx
      · exact hx
      · exact absurd (List.mem_singleton.1 hx) (hm _ _)
    · exact hx
  have hclose : ∀ isMap, JSONElement.STRING a ∈ (FromString.caseClose p cb h isMap st).chain →
      JSONElement.STRING a ∈ st.chain ∨ a = (FromString.valueNode p st).2 := by
    intro isMap hx
    unfold FromString.caseClose at hx
    simp only at hx
    by_cases hp : -1 < st.str_start
    · simp only [if_pos hp] at hx
      split at hx
      · rw [addSize_chain, bump_chain, callClose_chain, link_chain, closeValue_chain,
          List.mem_append, List.mem_append] at hx
        rcases hx with (hx | hx) | hx
        · left; exact hx
        · right
          have := List.mem_singleton.1 hx
          injection this
        · exact absurd (List.mem_singleton.1 hx) (hm _ _)
      · left; exact hx
    · simp only [if_neg hp] at hx
      split at hx
      · rw [addSize_chain, bump_chain, callClose_chain, link_chain, List.mem_append] at hx
        rcases hx with hx | hx
        · left; exact hx
        · exact absurd (List.mem_singleton.1 hx) (hm _ _)
      · left; exact hx
  unfold FromString.switch at ha
  split_ifs at ha
  · left; exact hopen _ ha
  · rcases hclose _ ha with e | e
    · left; exact e
    · right; left; exact e
  · left; exact hopen _ ha
  · rcases hclose _ ha with e | e
    · left; exact e
    · right; left; exact e
  · left
    rw [(caseQuote_frame st).2] at ha
    exact ha
  · unfold FromString.caseColon at ha
    split at ha
    · split at ha
      · left; exact ha
      · rw [addSize_chain, clearSpan_chain, keyTaken_chain, callString_chain, link_chain,
          List.mem_append] at ha
        rcases ha with ha | ha
        · left; exact ha
        · right; right
          have := List.mem_singleton.1 ha
          injection this
    · left; exact ha
  · unfold FromString.caseComma at ha
    split at ha
    · split at ha
      · split at ha
        · left; exact ha
        · simp only [addSize_chain, clearSpan_chain, callStringComma_chain, link_chain,
            undetermined_chain, List.mem_append] at ha
          rcases ha with ha | ha
          · left
            split at ha
            · exact ha
            · exact ha
          · right; left
            have := List.mem_singleton.1 ha
            injection this
      · left; exact ha
    · left; exact ha
  · left
    rw [(caseDefault_frame c st).2] at ha
    exact ha

/-- The string nodes of the chain after a pass. -/
theorem body_nodes (p : JSONParse) (cb : JSONTokenizer σ) (h : Bool) (st : ScanState σ)
    (a : JSONString) (ha : JSONElement.STRING a ∈ (FromString.body p cb h st).chain) :
    JSONElement.STRING a ∈ st.chain ∨
      a = (FromString.valueNode p (FromString.quoted (charAt st.s st.i) st)).2 ∨
      a = FromString.keyNode p (FromString.quoted (charAt st.s st.i) st) := by
  unfold FromString.body at ha
  rw [(after_frame p h _).2] at ha
  unfold FromString.dispatch at ha
  split at ha
  · rcases switch_nodes p cb h _ _ a ha with e | e | e
    · left; rw [(quoted_frame _ st).2] at e; exact e
    · right; left; exact e
    · right; right; exact e
  · left; rw [(quoted_frame _ st).2] at ha; exact ha

/-- The flags of the string nodes of a chain that `FromString` makes: a key is no literal,
and the content of a literal is a literal for `IsLiteral`. -/
theorem loop_flags (p : JSONParse) (cb : JSONTokenizer σ) (h : Bool) (l : Nat) :
    ∀ (fuel : Nat) (st : ScanState σ),
      (∀ a, JSONElement.STRING a ∈ st.chain →
        (a.is_value_ = false → a.literal_ = false) ∧
        (a.literal_ = true → a.is_value_ = true ∧ IsLiteral a.string_ a.length_ = true)) →
      ∀ a, JSONElement.STRING a ∈ (FromString.loop p cb h l fuel st).chain →
        (a.is_value_ = false → a.literal_ = false) ∧
        (a.literal_ = true → a.is_value_ = true ∧ IsLiteral a.string_ a.length_ = true) := by
  have hbody : ∀ st : ScanState σ,
      (∀ a, JSONElement.STRING a ∈ st.chain →
        (a.is_value_ = false → a.literal_ = false) ∧
        (a.literal_ = true → a.is_value_ = true ∧ IsLiteral a.string_ a.length_ = true)) →
      ∀ a, JSONElement.STRING a ∈ (FromString.body p cb h st).chain →
        (a.is_value_ = false → a.literal_ = false) ∧
        (a.literal_ = true → a.is_value_ = true ∧ IsLiteral a.string_ a.length_ = true) := by
    intro st hst a ha
    rcases body_nodes p cb h st a ha with e | e | e
    · exact hst a e
    · obtain ⟨f1, f2, _⟩ := valueNode_flags p (FromString.quoted (charAt st.s st.i) st)
      rw [e]
      refine ⟨fun hv => ?_, fun hl => ⟨f1, (f2.1 hl).2⟩⟩
      rw [f1] at hv
      exact absurd hv (by decide)
    · obtain ⟨f1, f2⟩ := keyNode_flags p (FromString.quoted (charAt st.s st.i) st)
      rw [e]
      refine ⟨fun _ => f2, fun hl => ?_⟩
      rw [f2] at hl
      exact absurd hl (by decide)
  intro fuel
  induction fuel with
  | zero => intro st hst; exact hst
  | succ n ih =>
    intro st hst
    unfold FromString.loop
    split
    · split
      · exact hbody st hst
      · apply ih
        rw [next_chain]
        exact hbody st hst
    · exact hst

/-- The error after the switch of a pass on a closing bracket that makes a value node of
the pending token, within the memory budget, when `Data` fails. -/
theorem caseClose_bad (p : JSONParse) (cb : JSONTokenizer σ) (h isMap : Bool)
    (st : ScanState σ) (hp : -1 < st.str_start)
    (hm : h = false ∨
      wrapU16 ((st.binary_size_ : Int) + ((p.sizeofString + p.sizeofArray : Nat) : Int))
        ≤ p.limit_memory_)
    (hf : (FromString.valueNode p st).1 = false) :
    (FromString.caseClose p cb h isMap st).last_error_ = ERR.ERR_BAD_VALUE ∧
    (FromString.caseClose p cb h isMap st).chain
      = st.chain ++ [JSONElement.STRING (FromString.valueNode p st).2,
          FromString.marker isMap false] := by
  unfold FromString.caseClose
  simp only [if_pos hp]
  have hc : (!h || decide (p.limit_memory_ ≥ wrapU16 ((st.binary_size_ : Int) +
      ((p.sizeofString + p.sizeofArray : Nat) : Int)))) = true := by
    rcases hm with e | e
    · rw [e]; rfl
    · have hd : decide (p.limit_memory_ ≥ wrapU16 ((st.binary_size_ : Int) +
          ((p.sizeofString + p.sizeofArray : Nat) : Int))) = true := decide_eq_true e
      rw [hd, Bool.or_true]
  rw [if_pos hc]
  constructor
  · rw [addSize_last_error, bump_last_error, callClose_last_error, link_last_error]
    unfold FromString.closeValue
    simp only [addSize_last_error, clearSpan_last_error, callString_last_error, link_last_error,
      hf, Bool.not_false, if_true, setError_last_error]
  · rw [addSize_chain, bump_chain, callClose_chain, link_chain, closeValue_chain]
    simp

/-- The error after the switch of a pass on a comma that makes a value node of the pending
token, within the memory budget, when `Data` fails. -/
theorem caseComma_bad (p : JSONParse) (cb : JSONTokenizer σ) (h : Bool)
    (st : ScanState σ) (hp : -1 < st.str_start)
    (hm : h = false ∨ st.binary_size_ + p.sizeofString ≤ p.limit_memory_)
    (hf : (FromString.valueNode p st).1 = false) :
    (FromString.caseComma p cb h st).last_error_ = ERR.ERR_BAD_VALUE := by
  unfold FromString.caseComma
  simp only [if_pos hp]
  have hc : (!h || decide (p.limit_memory_ ≥ st.binary_size_ + p.sizeofString)) = true := by
    rcases hm with e | e
    · rw [e]; rfl
    · have hd : decide (p.limit_memory_ ≥ st.binary_size_ + p.sizeofString) = true :=
        decide_eq_true e
      rw [hd, Bool.or_true]
  rw [if_pos hc]
  split
  · rw [setError_last_error]
  · simp only [addSize_last_error, clearSpan_last_error, callStringComma_last_error,
      link_last_error, undetermined_last_error, hf, Bool.not_false, if_true,
      setError_last_error]

end LiteralFlags

section LiteralFlags2

variable {σ : Type}

theorem caseComma_depth (p : JSONParse) (cb : JSONTokenizer σ) (h : Bool)
    (st : ScanState σ) :
    (FromString.caseComma p cb h st).ac = st.ac ∧ (FromString.caseComma p cb h st).mc = st.mc := by
  unfold FromString.caseComma
  split
  · split
    · split
      · exact ⟨rfl, rfl⟩
      · simp only [addSize_ac, clearSpan_ac, callStringComma_ac, link_ac, undetermined_ac,
          addSize_mc, clearSpan_mc, callStringComma_mc, link_mc, undetermined_mc]
        split <;> exact ⟨rfl, rfl⟩
    · exact ⟨rfl, rfl⟩
  · exact ⟨rfl, rfl⟩

end LiteralFlags2

section DecimalFormat

/-- The bytes from an index inside the text on: the byte there, then the rest. -/
theorem drop_charAt (s : List Char) (i : Nat) (h : i < s.length) :
    s.drop i = charAt s i :: s.drop (i + 1) := by
  rw [List.drop_eq_getElem_cons h]
  simp [charAt, h]

/-- The loop of `IsDecimal` from index `i` to the end of the text decides what
`IsDecimal.mantissa` and `IsDecimal.exponent` decide over the bytes from `i` on. -/
theorem isDecimal_scan_mirror (s : List Char) (st : Nat) :
    ∀ (k i : Nat) (d : DecimalState), i + k = s.length → st ≤ i → d.f = true →
      ((d.dpnl = true ∨ d.dpnr = true) → 0 < i) → (d.e = 0 → d.en = false) →
      (d.e ≠ 0 → d.e < i) →
      (if (IsDecimal.scan s st k i d).e != 0 && !(IsDecimal.scan s st k i d).en then false
        else (IsDecimal.scan s st k i d).f) =
      if d.e = 0 then
        IsDecimal.mantissa (st != 0) ('0' == charAt s st) (s.drop i) (i == st) (d.dp != 0)
          d.dpnl d.dpnr
      else IsDecimal.exponent (s.drop i) d.en (i == d.e + 1) := by
  intro k
  induction k with
  | zero =>
    intro i d hk _ hf _ _ _
    have e : s.drop i = [] := List.drop_eq_nil_of_le (by omega)
    rw [e]
    simp only [IsDecimal.scan, IsDecimal.mantissa, IsDecimal.exponent, hf]
    by_cases he : d.e = 0
    · simp [he]
    · simp [he]
  | succ n ih =>
    intro i d hk hst hf hpos hen hlt
    obtain ⟨f, en, dpnl, dpnr, e, dp⟩ := d
    dsimp only at hf hpos hen hlt ⊢
    subst hf
    rw [drop_charAt s i (by omega)]
    unfold IsDecimal.scan
    dsimp only
    have e3 : (i + 1 == st) = false := by
      simp only [beq_eq_false_iff_ne, ne_eq]; omega
    by_cases he : e = 0
    · subst he
      have hen2 := hen rfl
      subst hen2
      simp only [beq_self_eq_true, if_true]
      unfold IsDecimal.mantissa
      by_cases hd : isDigit (charAt s i) = true
      · simp only [hd, if_true]
        by_cases hdp : dp = 0
        · subst hdp
          have e2 : ((0 : Nat) != 0) = false := rfl
          rw [e2]
          by_cases hi : i = st
          · have e4 : decide (i > st) = false := by simp [hi]
            have e5 : (i == st) = true := by simp [hi]
            rw [e4, e5]
            simp only [beq_self_eq_true, Bool.true_and, Bool.false_and, Bool.and_false,
              Bool.not_true, Bool.not_false, Bool.false_eq_true, if_false, if_true]
            rw [ih (i + 1) ⟨true, false, true, dpnr, 0, 0⟩ (by omega) (by omega) rfl
              (fun _ => by omega) (fun _ => rfl) (fun h => absurd rfl h)]
            simp only [if_true, e3, e2]
          · have e4 : decide (i > st) = true := by simp; omega
            have e5 : (i == st) = false := by simp [hi]
            rw [e4, e5]
            simp only [beq_self_eq_true, Bool.true_and, Bool.not_false]
            by_cases hz : ('0' == charAt s st) = true
            · rw [if_pos hz, if_pos hz]
              rfl
            · rw [if_neg hz, if_neg hz]
              simp only [if_true]
              rw [ih (i + 1) ⟨true, false, true, dpnr, 0, 0⟩ (by omega) (by omega) rfl
                (fun _ => by omega) (fun _ => rfl) (fun h => absurd rfl h)]
              simp only [if_true, e3, e2]
        · have e1 : (dp == 0) = false := by simp [hdp]
          have e2 : (dp != 0) = true := by simp [hdp]
          rw [e1, e2]
          simp only [Bool.false_and, Bool.not_true, Bool.false_eq_true, if_false]
          rw [ih (i + 1) ⟨true, false, dpnl, true, 0, dp⟩ (by omega) (by omega) rfl
            (fun _ => by omega) (fun _ => rfl) (fun h => absurd rfl h)]
          simp only [if_true, e3, e2]
      · simp only [hd, Bool.false_eq_true, if_false]
        by_cases hdp : dp = 0
        · subst hdp
          have e2 : ((0 : Nat) != 0) = false := rfl
          have e6 : decide ((0 : Nat) > 0) = false := rfl
          rw [e2, e6]
          simp only [beq_self_eq_true, Bool.and_true, Bool.not_false, Bool.true_and,
            Bool.false_and, Bool.or_false]
          by_cases hp : ('.' == charAt s i) = true
          · rw [if_pos hp, if_pos hp]
            rw [ih (i + 1) ⟨true, false, dpnl, dpnr, 0, i⟩ (by omega) (by omega) rfl
              (fun _ => by omega) (fun _ => rfl) (fun h => absurd rfl h)]
            have e4 : (i != 0) = !((i == st) && !(st != 0)) := by
              by_cases h0 : i = 0
              · have : st = 0 := by omega
                simp [h0, this]
              · have : (i != 0) = true := by simp [h0]
                rw [this]
                by_cases h1 : i = st
                · have : st ≠ 0 := by omega
                  simp [h1, this]
                · simp [h1]
            simp only [if_true, e3, e4]
          · rw [if_neg hp, if_neg hp]
            by_cases hx : ('E'.toNat == (charAt s i).toNat &&& 223 && dpnl) = true
            · rw [if_pos hx, if_pos hx]
              have hi : 0 < i := by
                rw [Bool.and_eq_true] at hx
                exact hpos (Or.inl hx.2)
              rw [ih (i + 1) ⟨true, false, dpnl, dpnr, i, 0⟩ (by omega) (by omega) rfl
                (fun _ => by omega) (fun h => by
                  have h2 : i = 0 := h
                  omega) (fun _ => by
                  show i < i + 1
                  omega)]
              have e7 : ¬ i = 0 := by omega
              simp only [e7, if_false, beq_self_eq_true]
            · rw [if_neg hx, if_neg hx]
              rfl
        · have e1 : (dp == 0) = false := by simp [hdp]
          have e2 : (dp != 0) = true := by simp [hdp]
          have e6 : decide (dp > 0) = true := by simp; omega
          rw [e1, e2, e6]
          simp only [Bool.and_false, Bool.not_true, Bool.true_and, Bool.false_and,
            Bool.false_or, Bool.false_eq_true, if_false]
          by_cases hx : ('E'.toNat == (charAt s i).toNat &&& 223 && dpnr) = true
          · rw [if_pos hx, if_pos hx]
            have hi : 0 < i := by
              rw [Bool.and_eq_true] at hx
              exact hpos (Or.inr hx.2)
            rw [ih (i + 1) ⟨true, false, dpnl, dpnr, i, dp⟩ (by omega) (by omega) rfl
              (fun _ => by omega) (fun h => by
                  have h2 : i = 0 := h
                  omega) (fun _ => by
                show i < i + 1
                omega)]
            have e7 : ¬ i = 0 := by omega
            simp only [e7, if_false, beq_self_eq_true]
          · rw [if_neg hx, if_neg hx]
            rfl
    · have e0 : (e == 0) = false := by simp [he]
      have hlt2 := hlt he
      have e8 : (i + 1 == e + 1) = false := by
        simp only [beq_eq_false_iff_ne, ne_eq]; omega
      simp only [e0, Bool.false_eq_true, if_false, he]
      unfold IsDecimal.exponent
      by_cases hd : isDigit (charAt s i) = true
      · rw [if_pos hd, if_pos hd]
        rw [ih (i + 1) ⟨true, true, dpnl, dpnr, e, dp⟩ (by omega) (by omega) rfl
          (fun _ => by omega) (fun h => absurd h he) (fun _ => by
            show e < i + 1
            omega)]
        simp only [he, if_false, e8]
      · rw [if_neg hd, if_neg hd]
        by_cases hm : ('-' == charAt s i && i == e + 1) = true
        · rw [if_pos hm, if_pos hm]
          rw [ih (i + 1) ⟨true, en, dpnl, dpnr, e, dp⟩ (by omega) (by omega) rfl
            (fun _ => by omega) (fun h => absurd h he) (fun _ => by
              show e < i + 1
              omega)]
          simp only [he, if_false, e8]
        · rw [if_neg hm, if_neg hm]
          by_cases hq : ('+' == charAt s i && i == e + 1) = true
          · rw [if_pos hq, if_pos hq]
            rw [ih (i + 1) ⟨true, en, dpnl, dpnr, e, dp⟩ (by omega) (by omega) rfl
              (fun _ => by omega) (fun h => absurd h he) (fun _ => by
                show e < i + 1
                omega)]
            simp only [he, if_false, e8]
          · rw [if_neg hq, if_neg hq]
            simp [he]

/-- The function `IsDecimal` with exponents allowed, over a text and its length, decides
what `IsDecimal.mantissa` decides over the bytes behind the sign. -/
theorem isDecimal_mirror (s : List Char) :
    IsDecimal s s.length true =
      IsDecimal.mantissa (decide (s.length > 1) && charAt s 0 == '-')
        ('0' == charAt s (if decide (s.length > 1) && charAt s 0 == '-' then 1 else 0))
        (s.drop (if decide (s.length > 1) && charAt s 0 == '-' then 1 else 0))
        true false false false := by
  unfold IsDecimal
  simp only [if_true]
  by_cases h : (decide (s.length > 1) && charAt s 0 == '-') = true
  · rw [if_pos h]
    have hl : 1 < s.length := by
      rw [Bool.and_eq_true, decide_eq_true_eq] at h
      exact h.1
    rw [isDecimal_scan_mirror s 1 (s.length - 1) 1 _ (by omega) (le_refl _) rfl
      (fun h => by simp at h) (fun _ => rfl) (fun h => absurd rfl h)]
    rw [h]
    rfl
  · rw [if_neg h]
    rw [isDecimal_scan_mirror s 0 (s.length - 0) 0 _ (by omega) (le_refl _) rfl
      (fun h => by simp at h) (fun _ => rfl) (fun h => absurd rfl h)]
    rw [Bool.not_eq_true] at h
    rw [h]
    rfl

end DecimalFormat

section DecimalFormat

/-- Behind the digits a text starts with, there is nothing or a byte that is no digit. -/
theorem dropWhile_isDigit (r : List Char) :
    r.dropWhile isDigit = [] ∨
      ∃ c t, r.dropWhile isDigit = c :: t ∧ isDigit c = false := by
  induction r with
  | nil => exact Or.inl rfl
  | cons a r ih =>
    by_cases h : isDigit a = true
    · rw [List.dropWhile_cons_of_pos h]; exact ih
    · rw [List.dropWhile_cons_of_neg h]
      exact Or.inr ⟨a, r, rfl, by simpa using h⟩

/-- The digits a text starts with are digits. -/
theorem takeWhile_isDigit (r : List Char) : (r.takeWhile isDigit).all isDigit = true := by
  induction r with
  | nil => rfl
  | cons a r ih =>
    by_cases h : isDigit a = true
    · rw [List.takeWhile_cons_of_pos h, List.all_cons, h, ih]; rfl
    · rw [List.takeWhile_cons_of_neg h]; rfl

/-- The text behind an optional sign, for a text that is not empty. -/
theorem dropSign_cons (c : Char) (u : List Char) :
    Spec.dropSign (c :: u) = if (c == '+' || c == '-') = true then u else c :: u := rfl

set_option maxRecDepth 100000 in
/-- Among bytes, the test `'E' == (c & 223)` holds of `e` and `E` only. -/
theorem exponent_mark (c : Char) (hb : c.toNat < 256)
    (h : ('E'.toNat == c.toNat &&& 223) = true) : c = 'e' ∨ c = 'E' := by
  have key : ∀ n : Fin 256, 69 = n.val &&& 223 → n.val = 101 ∨ n.val = 69 := by decide
  have h2 : 69 = c.toNat &&& 223 := by
    rw [beq_iff_eq] at h
    exact h
  rcases key ⟨c.toNat, hb⟩ h2 with e | e
  · left
    have e2 : c.toNat = 101 := e
    rw [← Char.ofNat_toNat c, e2]
  · right
    have e2 : c.toNat = 69 := e
    rw [← Char.ofNat_toNat c, e2]

/-- The loop of `IsDecimal` behind the exponent mark accepts digits. -/
theorem exponent_digits : ∀ (D : List Char) (en a : Bool), D.all isDigit = true →
    IsDecimal.exponent D en a = (en || !D.isEmpty) := by
  intro D
  induction D with
  | nil => intro en a _; simp [IsDecimal.exponent]
  | cons c D ih =>
    intro en a h
    rw [List.all_cons, Bool.and_eq_true] at h
    unfold IsDecimal.exponent
    rw [if_pos h.1, ih true false h.2]
    simp

/-- The loop of `IsDecimal` behind the exponent mark and its optional sign accepts digits
only, and at least one when it has seen none. -/
theorem exponent_unsigned : ∀ (D : List Char) (en : Bool),
    IsDecimal.exponent D en false = true →
      D.all isDigit = true ∧ (en = true ∨ D.isEmpty = false) := by
  intro D
  induction D with
  | nil =>
    intro en h
    simp only [IsDecimal.exponent] at h
    exact ⟨rfl, Or.inl h⟩
  | cons c D ih =>
    intro en h
    unfold IsDecimal.exponent at h
    by_cases hd : isDigit c = true
    · rw [if_pos hd] at h
      refine ⟨?_, Or.inr rfl⟩
      rw [List.all_cons, hd, (ih true h).1]
      rfl
    · rw [if_neg hd] at h
      simp at h

/-- The loop of `IsDecimal` behind the exponent mark accepts the exponent of the format. -/
theorem exponent_signed (t : List Char)
    (h1 : (Spec.dropSign t).isEmpty = false) (h2 : (Spec.dropSign t).all isDigit = true) :
    IsDecimal.exponent t false true = true := by
  cases t with
  | nil => simp [Spec.dropSign] at h1
  | cons c u =>
    rw [dropSign_cons] at h1 h2
    by_cases hs : (c == '+' || c == '-') = true
    · rw [if_pos hs] at h1 h2
      have hu := exponent_digits u false false h2
      rw [h1] at hu
      rw [Bool.or_eq_true, beq_iff_eq, beq_iff_eq] at hs
      rcases hs with e | e
      · subst e
        unfold IsDecimal.exponent
        rw [if_neg (by decide), if_neg (by decide), if_pos (by decide), hu]
        rfl
      · subst e
        unfold IsDecimal.exponent
        rw [if_neg (by decide), if_pos (by decide), hu]
        rfl
    · rw [if_neg hs] at h1 h2
      rw [exponent_digits _ false true h2, h1]
      rfl

/-- What the loop of `IsDecimal` accepts behind the exponent mark is the exponent of the
format. -/
theorem exponent_format (t : List Char) (h : IsDecimal.exponent t false true = true) :
    (Spec.dropSign t).isEmpty = false ∧ (Spec.dropSign t).all isDigit = true := by
  cases t with
  | nil => simp [IsDecimal.exponent] at h
  | cons c u =>
    unfold IsDecimal.exponent at h
    rw [dropSign_cons]
    by_cases hd : isDigit c = true
    · have hs : ¬ (c == '+' || c == '-') = true := by
        intro hs
        rw [Bool.or_eq_true, beq_iff_eq, beq_iff_eq] at hs
        rcases hs with e | e
        · subst e; exact absurd hd (by decide)
        · subst e; exact absurd hd (by decide)
      rw [if_neg hs]
      rw [if_pos hd] at h
      refine ⟨rfl, ?_⟩
      rw [List.all_cons, hd, (exponent_unsigned u true h).1]
      rfl
    · rw [if_neg hd] at h
      by_cases hm : ('-' == c && true) = true
      · rw [if_pos hm] at h
        have e : c = '-' := by
          rw [Bool.and_true, beq_iff_eq] at hm
          exact hm.symm
        subst e
        rw [if_pos (by decide)]
        have := exponent_unsigned u false h
        rcases this.2 with e | e
        · exact absurd e (by decide)
        · exact ⟨e, this.1⟩
      · rw [if_neg hm] at h
        by_cases hq : ('+' == c && true) = true
        · rw [if_pos hq] at h
          have e : c = '+' := by
            rw [Bool.and_true, beq_iff_eq] at hq
            exact hq.symm
          subst e
          rw [if_pos (by decide)]
          have := exponent_unsigned u false h
          rcases this.2 with e | e
          · exact absurd e (by decide)
          · exact ⟨e, this.1⟩
        · rw [if_neg hq] at h
          exact absurd h (by decide)

/-- One pass of the loop of `IsDecimal` before an exponent mark. -/
theorem mantissa_cons (neg zero : Bool) (c : Char) (r : List Char)
    (first dot dpnl dpnr : Bool) :
    IsDecimal.mantissa neg zero (c :: r) first dot dpnl dpnr =
      if isDigit c then
        if !dot && !first && zero then false
        else if !dot then IsDecimal.mantissa neg zero r false dot true dpnr
        else IsDecimal.mantissa neg zero r false dot dpnl true
      else
        if '.' == c && !dot then
          IsDecimal.mantissa neg zero r false (!(first && !neg)) dpnl dpnr
        else if 'E'.toNat == c.toNat &&& 223 && ((!dot && dpnl) || (dot && dpnr)) then
          IsDecimal.exponent r false true
        else false := by
  rw [IsDecimal.mantissa]

/-- The loop of `IsDecimal` over digits behind the decimal point. -/
theorem mantissa_fraction_digits (neg zero : Bool) : ∀ (D rest : List Char)
    (first dpnl dpnr : Bool), D.all isDigit = true →
    IsDecimal.mantissa neg zero (D ++ rest) first true dpnl dpnr =
      IsDecimal.mantissa neg zero rest (first && D.isEmpty) true dpnl (dpnr || !D.isEmpty) := by
  intro D
  induction D with
  | nil => intro rest first dpnl dpnr _; simp
  | cons c D ih =>
    intro rest first dpnl dpnr h
    rw [List.all_cons, Bool.and_eq_true] at h
    rw [List.cons_append]
    rw [mantissa_cons]
    rw [if_pos h.1]
    simp only [Bool.not_true, Bool.false_and, Bool.false_eq_true, if_false]
    rw [ih rest false dpnl true h.2]
    simp

/-- The loop of `IsDecimal` over digits before the decimal point, the first byte behind
the sign being no `0`. -/
theorem mantissa_integer_digits (neg : Bool) : ∀ (D rest : List Char)
    (first dpnl dpnr : Bool), D.all isDigit = true →
    IsDecimal.mantissa neg false (D ++ rest) first false dpnl dpnr =
      IsDecimal.mantissa neg false rest (first && D.isEmpty) false (dpnl || !D.isEmpty)
        dpnr := by
  intro D
  induction D with
  | nil => intro rest first dpnl dpnr _; simp
  | cons c D ih =>
    intro rest first dpnl dpnr h
    rw [List.all_cons, Bool.and_eq_true] at h
    rw [List.cons_append]
    rw [mantissa_cons]
    rw [if_pos h.1]
    simp only [Bool.and_false, Bool.not_false, Bool.false_eq_true, if_false, if_true]
    rw [ih rest false true dpnr h.2]
    simp

end DecimalFormat

section DecimalFormat

/-- The fraction part of the format, for a text that is not empty. -/
theorem fractionPart_cons (c : Char) (t : List Char) :
    Spec.fractionPart (c :: t) =
      if (c == '.') = true then
        !(t.takeWhile isDigit).isEmpty && Spec.exponentPart (t.dropWhile isDigit)
      else Spec.exponentPart (c :: t) := rfl

/-- The exponent part of the format, for a text that is not empty. -/
theorem exponentPart_cons (c : Char) (t : List Char) :
    Spec.exponentPart (c :: t) =
      ((c == 'e' || c == 'E') && !(Spec.dropSign t).isEmpty && (Spec.dropSign t).all isDigit) :=
  rfl

/-- The format, for a text that is not empty. -/
theorem decimalFormat_cons (c : Char) (r : List Char) :
    Spec.decimalFormat (c :: r) =
      if (c == '-') = true then Spec.integerPart r else Spec.integerPart (c :: r) := rfl

/-- The check of the dots, for a text that is not empty. -/
theorem dotsFrom_cons (prev : Option Char) (c : Char) (r : List Char) :
    Spec.dotsFrom prev (c :: r) =
      ((c != '.' || (prev.any isDigit && r.head?.any isDigit)) &&
        Spec.dotsFrom (some c) r) := rfl

/-- A checked dot is followed by a digit. -/
theorem dotsFrom_next (prev : Option Char) (u : List Char)
    (h : Spec.dotsFrom prev ('.' :: u) = true) : ∃ d v, u = d :: v ∧ isDigit d = true := by
  rw [dotsFrom_cons, Bool.and_eq_true, Bool.or_eq_true, Bool.and_eq_true] at h
  rcases h.1 with e | e
  · exact absurd e (by decide)
  · cases u with
    | nil => exact absurd e.2 (by decide)
    | cons d v => exact ⟨d, v, rfl, by simpa using e.2⟩

/-- A checked dot is preceded by a digit. -/
theorem dotsFrom_prev (prev : Option Char) (u : List Char) (hp : prev.any isDigit = false)
    (h : Spec.dotsFrom prev ('.' :: u) = true) : False := by
  rw [dotsFrom_cons, Bool.and_eq_true, Bool.or_eq_true, Bool.and_eq_true] at h
  rcases h.1 with e | e
  · exact absurd e (by decide)
  · rw [hp] at e
    exact absurd e.1 (by decide)

/-- The check of the dots holds of the end of a checked text. -/
theorem dotsFrom_append : ∀ (A B : List Char) (prev : Option Char),
    Spec.dotsFrom prev (A ++ B) = true → ∃ p, Spec.dotsFrom p B = true := by
  intro A
  induction A with
  | nil => intro B prev h; exact ⟨prev, h⟩
  | cons a A ih =>
    intro B prev h
    rw [List.cons_append, dotsFrom_cons, Bool.and_eq_true] at h
    exact ih B _ h.2

/-- The loop of `IsDecimal` accepts the exponent part of the format behind a mantissa with
digits. -/
theorem exponentPart_accepted (neg zero : Bool) (R : List Char) (first dot dpnl dpnr : Bool)
    (hc : ((!dot && dpnl) || (dot && dpnr)) = true) (h : Spec.exponentPart R = true) :
    IsDecimal.mantissa neg zero R first dot dpnl dpnr = true := by
  cases R with
  | nil => rw [IsDecimal.mantissa]
  | cons c t =>
    rw [exponentPart_cons, Bool.and_eq_true, Bool.and_eq_true, Bool.or_eq_true, beq_iff_eq,
      beq_iff_eq] at h
    obtain ⟨⟨h1, h2⟩, h3⟩ := h
    have h2b : (Spec.dropSign t).isEmpty = false := by simpa using h2
    have hx := exponent_signed t h2b h3
    rw [mantissa_cons]
    rcases h1 with e | e
    · subst e
      rw [if_neg (by decide), if_neg (by simp), if_pos (by rw [hc]; decide)]
      exact hx
    · subst e
      rw [if_neg (by decide), if_neg (by simp), if_pos (by rw [hc]; decide)]
      exact hx

/-- The loop of `IsDecimal` accepts the fraction part of the format behind the integer
part. -/
theorem fractionPart_accepted (neg zero : Bool) (R : List Char)
    (h : Spec.fractionPart R = true) :
    IsDecimal.mantissa neg zero R false false true false = true := by
  cases R with
  | nil => rw [IsDecimal.mantissa]
  | cons c t =>
    rw [fractionPart_cons] at h
    by_cases hc : (c == '.') = true
    · rw [if_pos hc, Bool.and_eq_true] at h
      rw [beq_iff_eq] at hc
      subst hc
      rw [mantissa_cons, if_neg (by decide), if_pos (by decide)]
      have e := List.takeWhile_append_dropWhile isDigit t
      have key := mantissa_fraction_digits neg zero (t.takeWhile isDigit)
        (t.dropWhile isDigit) false true false (takeWhile_isDigit t)
      rw [e] at key
      have e2 : (!(false && !neg)) = true := rfl
      rw [e2, key]
      exact exponentPart_accepted neg zero _ _ true true _ (by simp [h.1]) h.2
    · rw [if_neg hc] at h
      exact exponentPart_accepted neg zero _ false false true false rfl h

/-- The loop of `IsDecimal` accepts the integer part of the format and what follows it. -/
theorem integerPart_accepted (neg : Bool) (r : List Char) (h : Spec.integerPart r = true) :
    IsDecimal.mantissa neg ('0' == r.headD NUL) r true false false false = true := by
  unfold Spec.integerPart at h
  rw [Bool.and_eq_true, Bool.or_eq_true] at h
  obtain ⟨h1, h2⟩ := h
  cases r with
  | nil =>
    rcases h1 with e | e
    · exact absurd e (by decide)
    · exact absurd e (by decide)
  | cons c t =>
    by_cases hd : isDigit c = true
    · rw [List.takeWhile_cons_of_pos hd] at h1
      rw [List.dropWhile_cons_of_pos hd] at h2
      by_cases hz : c = '0'
      · subst hz
        have e0 : (('0' :: List.takeWhile isDigit t) == ['0']) = true := by
          rcases h1 with e | e
          · exact e
          · rw [Bool.and_eq_true] at e
            exact absurd e.2 (by simp)
        have e1 : List.takeWhile isDigit t = [] := by
          have := eq_of_beq e0
          exact (List.cons.inj this).2
        have e2 : List.dropWhile isDigit t = t := by
          have := List.takeWhile_append_dropWhile isDigit t
          rw [e1] at this
          exact this
        rw [e2] at h2
        rw [mantissa_cons, if_pos hd, if_neg (by simp), if_pos (by decide)]
        exact fractionPart_accepted neg _ t h2
      · have e0 : ('0' == (c :: t).headD NUL) = false := by
          simp only [List.headD_cons, beq_eq_false_iff_ne, ne_eq]
          exact fun e => hz e.symm
        rw [e0]
        have e := List.takeWhile_append_dropWhile isDigit (c :: t)
        have key := mantissa_integer_digits neg ((c :: t).takeWhile isDigit)
          ((c :: t).dropWhile isDigit) true false false (takeWhile_isDigit (c :: t))
        rw [e] at key
        rw [key, List.takeWhile_cons_of_pos hd, List.dropWhile_cons_of_pos hd]
        exact fractionPart_accepted neg false _ h2
    · rw [List.takeWhile_cons_of_neg hd] at h1
      rcases h1 with e | e
      · exact absurd e (by decide)
      · exact absurd e (by decide)

/-- The byte at the index behind the first byte. -/
theorem charAt_one (c : Char) (t : List Char) : charAt (c :: t) 1 = t.headD NUL := by
  cases t <;> rfl

/-- What matches the documented format, `IsDecimal` accepts. -/
theorem decimalFormat_accepted (s : List Char) (h : Spec.decimalFormat s = true) :
    IsDecimal s s.length true = true := by
  rw [isDecimal_mirror]
  cases s with
  | nil => exact absurd h (by decide)
  | cons c t =>
    rw [decimalFormat_cons] at h
    by_cases hc : (c == '-') = true
    · rw [if_pos hc] at h
      rw [beq_iff_eq] at hc
      subst hc
      cases t with
      | nil => exact absurd h (by decide)
      | cons a u =>
        have e : (decide (('-' :: a :: u).length > 1) && charAt ('-' :: a :: u) 0 == '-')
            = true := by
          simp [charAt]
        rw [e]
        simp only [if_true]
        rw [charAt_one]
        exact integerPart_accepted true _ h
    · rw [if_neg hc] at h
      have e : (decide ((c :: t).length > 1) && charAt (c :: t) 0 == '-') = false := by
        have : charAt (c :: t) 0 = c := rfl
        rw [this]
        rw [Bool.not_eq_true] at hc
        rw [hc, Bool.and_false]
      rw [e]
      simp only [Bool.false_eq_true, if_false, List.drop_zero]
      exact integerPart_accepted false _ h

end DecimalFormat

section DecimalFormat

/-- What the loop of `IsDecimal` accepts behind the mantissa, from a byte on that is no
digit and no first decimal point, is the exponent part of the format. -/
theorem accepted_exponentPart (neg zero : Bool) (R : List Char) (dot dpnl dpnr : Bool)
    (hb : ∀ c ∈ R, c.toNat < 256)
    (hR : ∀ c t, R = c :: t → isDigit c = false ∧ ('.' == c && !dot) = false)
    (h : IsDecimal.mantissa neg zero R false dot dpnl dpnr = true) :
    Spec.exponentPart R = true := by
  cases R with
  | nil => rfl
  | cons c t =>
    obtain ⟨h1, h2⟩ := hR c t rfl
    rw [mantissa_cons, if_neg (by rw [h1]; decide), if_neg (by rw [h2]; decide)] at h
    by_cases hx : ('E'.toNat == c.toNat &&& 223 && ((!dot && dpnl) || (dot && dpnr))) = true
    · rw [if_pos hx] at h
      rw [Bool.and_eq_true] at hx
      have hc := exponent_mark c (hb c (List.mem_cons_self _ _)) hx.1
      have hf := exponent_format t h
      rw [exponentPart_cons, hf.1, hf.2]
      rcases hc with e | e
      · subst e; rfl
      · subst e; rfl
    · rw [if_neg hx] at h
      exact absurd h (by decide)

/-- What the loop of `IsDecimal` accepts behind the integer part, every `.` being
followed by a digit, is the fraction part of the format. -/
theorem accepted_fractionPart (neg zero : Bool) (R : List Char)
    (hb : ∀ c ∈ R, c.toNat < 256)
    (hR : ∀ c t, R = c :: t → isDigit c = false)
    (hdots : ∀ u, R = '.' :: u → ∃ d v, u = d :: v ∧ isDigit d = true)
    (h : IsDecimal.mantissa neg zero R false false true false = true) :
    Spec.fractionPart R = true := by
  cases R with
  | nil => rfl
  | cons c t =>
    have h1 := hR c t rfl
    rw [fractionPart_cons]
    by_cases hc : (c == '.') = true
    · rw [if_pos hc]
      rw [beq_iff_eq] at hc
      subst hc
      obtain ⟨d, v, e, hd⟩ := hdots t rfl
      rw [mantissa_cons, if_neg (by decide), if_pos (by decide)] at h
      have e2 : (!(false && !neg)) = true := rfl
      rw [e2] at h
      have e3 := List.takeWhile_append_dropWhile isDigit t
      have key := mantissa_fraction_digits neg zero (t.takeWhile isDigit)
        (t.dropWhile isDigit) false true false (takeWhile_isDigit t)
      rw [e3] at key
      rw [key] at h
      have hne : (List.takeWhile isDigit t).isEmpty = false := by
        rw [e, List.takeWhile_cons_of_pos hd]
        rfl
      rw [hne]
      have hx := accepted_exponentPart neg zero (t.dropWhile isDigit) true true _
        (fun a ha => hb a (List.mem_cons_of_mem _
          ((List.dropWhile_sublist isDigit).subset ha)))
        (by
          intro a u ea
          rcases dropWhile_isDigit t with e4 | ⟨a2, u2, e4, e5⟩
          · rw [e4] at ea; exact absurd ea (by simp)
          · rw [e4] at ea
            have := (List.cons.inj ea).1
            subst this
            exact ⟨e5, by simp⟩)
        h
      rw [hx]
      rfl
    · rw [if_neg hc]
      exact accepted_exponentPart neg zero (c :: t) false true false hb
        (by
          intro a u ea
          have := (List.cons.inj ea).1
          subst this
          refine ⟨h1, ?_⟩
          have : ('.' == c) = false := by
            simp only [beq_eq_false_iff_ne, ne_eq]
            intro e
            apply hc
            rw [← e]
            rfl
          rw [this]
          rfl)
        h

/-- What the loop of `IsDecimal` accepts from the first byte behind the sign on, every `.`
standing between two digits, is the integer part of the format and what follows it. -/
theorem accepted_integerPart (neg : Bool) (prev : Option Char) (r : List Char)
    (hne : r ≠ []) (hprev : prev.any isDigit = false) (hb : ∀ c ∈ r, c.toNat < 256)
    (hd : Spec.dotsFrom prev r = true)
    (h : IsDecimal.mantissa neg ('0' == r.headD NUL) r true false false false = true) :
    Spec.integerPart r = true := by
  cases r with
  | nil => exact absurd rfl hne
  | cons c t =>
    unfold Spec.integerPart
    by_cases hdg : isDigit c = true
    · rw [List.takeWhile_cons_of_pos hdg, List.dropWhile_cons_of_pos hdg]
      by_cases hz : c = '0'
      · subst hz
        rw [mantissa_cons, if_pos hdg, if_neg (by simp), if_pos (by decide)] at h
        have e0 : ('0' == ('0' :: t).headD NUL) = true := rfl
        rw [e0] at h
        have hR : ∀ a u, t = a :: u → isDigit a = false := by
          intro a u e
          subst e
          by_cases ha : isDigit a = true
          · rw [mantissa_cons, if_pos ha, if_pos (by decide)] at h
            exact absurd h (by decide)
          · simpa using ha
        have e1 : List.takeWhile isDigit t = [] := by
          cases t with
          | nil => rfl
          | cons a u =>
            have := hR a u rfl
            rw [List.takeWhile_cons_of_neg (by rw [this]; decide)]
        have e2 : List.dropWhile isDigit t = t := by
          have := List.takeWhile_append_dropWhile isDigit t
          rw [e1] at this
          exact this
        rw [e1, e2]
        rw [dotsFrom_cons, Bool.and_eq_true] at hd
        have hf := accepted_fractionPart neg true t
          (fun a ha => hb a (List.mem_cons_of_mem _ ha)) hR
          (fun u e => dotsFrom_next (some '0') u (by rw [← e]; exact hd.2)) h
        rw [hf]
        rfl
      · have e0 : ('0' == (c :: t).headD NUL) = false := by
          simp only [List.headD_cons, beq_eq_false_iff_ne, ne_eq]
          exact fun e => hz e.symm
        rw [e0] at h
        have e := List.takeWhile_append_dropWhile isDigit (c :: t)
        have key := mantissa_integer_digits neg ((c :: t).takeWhile isDigit)
          ((c :: t).dropWhile isDigit) true false false (takeWhile_isDigit (c :: t))
        rw [e] at key
        rw [key, List.takeWhile_cons_of_pos hdg, List.dropWhile_cons_of_pos hdg] at h
        have hd2 : Spec.dotsFrom prev (List.takeWhile isDigit (c :: t) ++
            List.dropWhile isDigit (c :: t)) = true := by
          rw [e]; exact hd
        obtain ⟨p, hp⟩ := dotsFrom_append _ _ _ hd2
        rw [List.dropWhile_cons_of_pos hdg] at hp
        have hf := accepted_fractionPart neg false (t.dropWhile isDigit)
          (fun a ha => hb a (List.mem_cons_of_mem _
            ((List.dropWhile_sublist isDigit).subset ha)))
          (by
            intro a u ea
            rcases dropWhile_isDigit t with e4 | ⟨a2, u2, e4, e5⟩
            · rw [e4] at ea; exact absurd ea (by simp)
            · rw [e4] at ea
              have := (List.cons.inj ea).1
              subst this
              exact e5)
          (fun u e => dotsFrom_next p u (by rw [← e]; exact hp)) h
        rw [hf]
        have : (some c != some '0') = true := by
          simp only [bne_iff_ne, ne_eq, Option.some.injEq]
          exact hz
        simp [this]
    · rw [mantissa_cons, if_neg hdg] at h
      by_cases hc : c = '.'
      · subst hc
        exact (dotsFrom_prev prev t hprev hd).elim
      · have : ('.' == c) = false := by
          simp only [beq_eq_false_iff_ne, ne_eq]
          exact fun e => hc e.symm
        rw [this] at h
        simp at h

/-- What `IsDecimal` accepts, of the texts of bytes that are not empty and have every `.`
between two digits, matches the documented format. -/
theorem accepted_decimalFormat (s : List Char) (hb : ∀ c ∈ s, c.toNat < 256) (hne : s ≠ [])
    (hd : Spec.dotsBetweenDigits s = true) (h : IsDecimal s s.length true = true) :
    Spec.decimalFormat s = true := by
  rw [isDecimal_mirror] at h
  cases s with
  | nil => exact absurd rfl hne
  | cons c t =>
    rw [decimalFormat_cons]
    unfold Spec.dotsBetweenDigits at hd
    by_cases hc : (c == '-') = true
    · rw [if_pos hc]
      rw [beq_iff_eq] at hc
      subst hc
      cases t with
      | nil => exact absurd h (by decide)
      | cons a u =>
        have e : (decide (('-' :: a :: u).length > 1) && charAt ('-' :: a :: u) 0 == '-')
            = true := by
          simp [charAt]
        rw [e] at h
        simp only [if_true] at h
        rw [charAt_one] at h
        rw [dotsFrom_cons, Bool.and_eq_true] at hd
        exact accepted_integerPart true (some '-') (a :: u) (by simp) (by decide)
          (fun x hx => hb x (List.mem_cons_of_mem _ hx)) hd.2 h
    · rw [if_neg hc]
      have e : (decide ((c :: t).length > 1) && charAt (c :: t) 0 == '-') = false := by
        have : charAt (c :: t) 0 = c := rfl
        rw [this]
        rw [Bool.not_eq_true] at hc
        rw [hc, Bool.and_false]
      rw [e] at h
      simp only [Bool.false_eq_true, if_false, List.drop_zero] at h
      exact accepted_integerPart false none (c :: t) (by simp) rfl hb hd h

end DecimalFormat

/-! ## The claims -/

section Claims

set_option maxRecDepth 1000000 in
/-- C8: with balance enforcement on, the scan of `[""]` stops at index 3, the closing
bracket that brings both depths back to 0, without error; but the text after that
index is read and does change the chain: the empty value takes the bytes from its
closing quote up to the end of the text, which are `"]` for the text `[""]` and
`"]xyz` for the text `[""]xyz`. -/
theorem stop_level_text_after_changes_chain :
    (FromString testParser JSONParse.tokenizer () "[\"\"]".toList true).index = 3 ∧
    (FromString testParser JSONParse.tokenizer () "[\"\"]".toList true).parser.last_error_
      = ERR.ERR_NONE ∧
    (FromString testParser JSONParse.tokenizer () "[\"\"]".toList true).head
      = [JSONElement.ARRAY true,
         JSONElement.STRING
           { string_ := "\"]".toList, length_ := 2, is_value_ := true, literal_ := false },
         JSONElement.ARRAY false] ∧
    (FromString testParser JSONParse.tokenizer () "[\"\"]xyz".toList true).index = 3 ∧
    (FromString testParser JSONParse.tokenizer () "[\"\"]xyz".toList true).parser.last_error_
      = ERR.ERR_NONE ∧
    (FromString testParser JSONParse.tokenizer () "[\"\"]xyz".toList true).head
      = [JSONElement.ARRAY true,
         JSONElement.STRING
           { string_ := "\"]xyz".toList, length_ := 5, is_value_ := true, literal_ := false },
         JSONElement.ARRAY false] := by
  decide

set_option maxRecDepth 1000000 in
/-- C9: on the text of the test "String parsing containing code characters",
`FromStringSearch("time")` returns index 43 with `ERR_NONE` and the value `12:45,34`;
with balance enforcement turned off, `FromStringReplace(43, "date", "26Oct19")` then
ends at index 54, the space after the comma that follows the value, with
`ERR_UNEXPECTED_DATA`, and the text is unchanged: `29Oct19` is not replaced. -/
theorem fragment_replace_unexpected_data :
    ((JSONSimpleStringParseAttr.new 15 16 32 codeCharactersBuffer).FromStringSearch 0
      "time".toList).1 = 43 ∧
    ((JSONSimpleStringParseAttr.new 15 16 32 codeCharactersBuffer).FromStringSearch 0
      "time".toList).2.GetLastError = ERR.ERR_NONE ∧
    ((JSONSimpleStringParseAttr.new 15 16 32 codeCharactersBuffer).FromStringSearch 0
      "time".toList).2.GetAttrValue = "12:45,34".toList ∧
    ((((JSONSimpleStringParseAttr.new 15 16 32 codeCharactersBuffer).FromStringSearch 0
      "time".toList).2.LimitNodeLevel false).FromStringReplace 43 "date".toList
        "26Oct19".toList).1 = 54 ∧
    ((((JSONSimpleStringParseAttr.new 15 16 32 codeCharactersBuffer).FromStringSearch 0
      "time".toList).2.LimitNodeLevel false).FromStringReplace 43 "date".toList
        "26Oct19".toList).2.GetLastError = ERR.ERR_UNEXPECTED_DATA ∧
    cstr ((((JSONSimpleStringParseAttr.new 15 16 32 codeCharactersBuffer).FromStringSearch 0
      "time".toList).2.LimitNodeLevel false).FromStringReplace 43 "date".toList
        "26Oct19".toList).2.io_.Get = codeCharacters := by
  decide

end Claims

section Claims2
variable {σ : Type}

/-- C10: at every pass of the loop of `FromString` that begins outside a quoted span
with array depth and map depth both 0 on a byte that is none of `[ ] { } " : ,` (a
space and a tab are such bytes), `FromString` ends with `ERR_UNEXPECTED_DATA` and
returns the index of that byte; this holds for every parser, with balance enforcement
on or off. -/
theorem unexpected_data_at_depth_zero (p : JSONParse) (cb : JSONTokenizer σ) (user : σ)
    (s : List Char) (h : Bool) (psi : Nat) (st : ScanState σ)
    (hst : st ∈ FromString.scanPasses p cb user s h psi)
    (hq : st.quoted_processing = false) (hac : st.ac = 0) (hmc : st.mc = 0)
    (hc : charAt st.s st.i ∉ ['[', ']', '\x7b', '\x7d', DQUOTE, ':', ',']) :
    (FromString p cb user s h psi).parser.last_error_ = ERR.ERR_UNEXPECTED_DATA ∧
    (FromString p cb user s h psi).index = st.i := by
  have hb := body_unexpected p cb h st (scanPasses_error_none p cb user s h psi st hst)
    hq hac hmc hc
  have hf := FromString_of_pass_error p cb user s h psi st hst (by rw [hb.1]; decide)
  exact ⟨hf.1.trans hb.1, hf.2.trans hb.2⟩

/-- The text `[]` followed by a tab, scanned with balance enforcement off: the third
pass begins at depth 0 on the tab, and the scan ends there with
`ERR_UNEXPECTED_DATA`. -/
theorem unexpected_data_at_depth_zero_witness :
    (FromString fragmentParser JSONParse.tokenizer () "[]\t".toList).parser.last_error_
      = ERR.ERR_UNEXPECTED_DATA ∧
    (FromString fragmentParser JSONParse.tokenizer () "[]\t".toList).index = 2 :=
  unexpected_data_at_depth_zero fragmentParser JSONParse.tokenizer () "[]\t".toList false 0
    { s := "[]\t".toList, user := (), i := 2, is_literal := 1, ac := 0, mc := 0,
      str_start := -1, str_end := -1, chain := [JSONElement.ARRAY true, JSONElement.ARRAY false],
      head := none, expect_value := false, stop := false, quoted_processing := false,
      escape := false, last_error_ := ERR.ERR_NONE, binary_size_ := 32 }
    (by decide) rfl rfl rfl (by decide)

/-- C7: with balance enforcement on, (1) if `FromString` ends with `ERR_NONE` then
after every pass of the loop the array depth and the map depth are not negative, and
at the end of the scan both are 0; (2) if the scan ends with a non-zero map depth and
no other error (the unterminated-string test included) then `FromString` ends with
`ERR_UNEXPECTED_END_OF_MAP`, and if it ends with map depth 0 and a non-zero array depth
and no other error, with `ERR_UNEXPECTED_END_OF_ARRAY`; (3) a pass after which a depth
is negative ends the scan at once: `FromString` returns the index that this pass leaves
in `i`, with `ERR_UNEXPECTED_END_OF_MAP` if the map depth is negative and otherwise with
`ERR_UNEXPECTED_END_OF_ARRAY`. -/
theorem balance_invariant (p : JSONParse) (cb : JSONTokenizer σ) (user : σ)
    (s : List Char) (h : Bool) (psi : Nat) (hl : p.limit_node_level_ = true) :
    ((FromString p cb user s h psi).parser.last_error_ = ERR.ERR_NONE →
      (∀ st ∈ FromString.scanPasses p cb user s h psi,
        0 ≤ (FromString.body p cb h st).ac ∧ 0 ≤ (FromString.body p cb h st).mc) ∧
      (FromString.scan p cb user s h psi).ac = 0 ∧
      (FromString.scan p cb user s h psi).mc = 0) ∧
    ((FromString.unterminated (FromString.scan p cb user s h psi)).last_error_ = ERR.ERR_NONE →
      (FromString.scan p cb user s h psi).mc ≠ 0 →
      (FromString p cb user s h psi).parser.last_error_ = ERR.ERR_UNEXPECTED_END_OF_MAP) ∧
    ((FromString.unterminated (FromString.scan p cb user s h psi)).last_error_ = ERR.ERR_NONE →
      (FromString.scan p cb user s h psi).mc = 0 →
      (FromString.scan p cb user s h psi).ac ≠ 0 →
      (FromString p cb user s h psi).parser.last_error_ = ERR.ERR_UNEXPECTED_END_OF_ARRAY) ∧
    (∀ st ∈ FromString.scanPasses p cb user s h psi,
      (FromString.body p cb h st).mc < 0 →
      (FromString p cb user s h psi).parser.last_error_ = ERR.ERR_UNEXPECTED_END_OF_MAP ∧
      (FromString p cb user s h psi).index = (FromString.body p cb h st).i) ∧
    (∀ st ∈ FromString.scanPasses p cb user s h psi,
      (FromString.body p cb h st).ac < 0 → ¬ (FromString.body p cb h st).mc < 0 →
      (FromString p cb user s h psi).parser.last_error_ = ERR.ERR_UNEXPECTED_END_OF_ARRAY ∧
      (FromString p cb user s h psi).index = (FromString.body p cb h st).i) := by
  have hfin : (FromString p cb user s h psi).parser.last_error_
      = (FromString.unbalanced p
          (FromString.unterminated (FromString.scan p cb user s h psi))).last_error_ := rfl
  have hd := unterminated_depth (FromString.scan p cb user s h psi)
  refine ⟨fun he => ⟨fun st hst => ?_, ?_, ?_⟩, fun he hm => ?_, fun he hm ha => ?_,
    fun st hst hm => ?_, fun st hst ha hm => ?_⟩
  · by_contra hneg
    have hb := body_depth_error p cb h st hl
    have hne : (FromString.body p cb h st).last_error_ ≠ ERR.ERR_NONE := by
      by_cases hm : (FromString.body p cb h st).mc < 0
      · rw [hb.1 hm]; decide
      · have ha : (FromString.body p cb h st).ac < 0 := by
          by_contra hc
          exact hneg ⟨by omega, by omega⟩
        rw [hb.2 ha hm]; decide
    have hf := FromString_of_pass_error p cb user s h psi st hst hne
    exact hne (hf.1.symm.trans he)
  · by_contra hne
    rw [hfin] at he
    have hu := unbalanced_error_none p _ he
    have hb := unbalanced_on p _ hl hu
    by_cases hm : (FromString.scan p cb user s h psi).mc = 0
    · have := hb.2.1 (hd.2.1.trans hm) (by rw [hd.1]; exact hne)
      rw [this] at he; exact absurd he (by decide)
    · have := hb.1 (by rw [hd.2.1]; exact hm)
      rw [this] at he; exact absurd he (by decide)
  · by_contra hne
    rw [hfin] at he
    have hu := unbalanced_error_none p _ he
    have hb := unbalanced_on p _ hl hu
    have := hb.1 (by rw [hd.2.1]; exact hne)
    rw [this] at he; exact absurd he (by decide)
  · rw [hfin]
    exact (unbalanced_on p _ hl he).1 (by rw [hd.2.1]; exact hm)
  · rw [hfin]
    exact (unbalanced_on p _ hl he).2.1 (hd.2.1.trans hm) (by rw [hd.1]; exact ha)
  · have hb := (body_depth_error p cb h st hl).1 hm
    have hf := FromString_of_pass_error p cb user s h psi st hst (by rw [hb]; decide)
    exact ⟨hf.1.trans hb, hf.2⟩
  · have hb := (body_depth_error p cb h st hl).2 ha hm
    have hf := FromString_of_pass_error p cb user s h psi st hst (by rw [hb]; decide)
    exact ⟨hf.1.trans hb, hf.2⟩

set_option maxRecDepth 1000000 in
/-- The texts of the tests "no ending array" and "bad array" end with array depth 1,
map depth 0 and no other error, so `FromString` ends with
`ERR_UNEXPECTED_END_OF_ARRAY`; on the text `]` the first pass makes the array depth
negative, and `FromString` ends at index 0 with the same error. -/
theorem balance_invariant_witness :
    (FromString testParser JSONParse.tokenizer () "[ \"brown\", \"blue\"".toList
      true).parser.last_error_ = ERR.ERR_UNEXPECTED_END_OF_ARRAY ∧
    (FromString testParser JSONParse.tokenizer ()
      "[ \"orange4\", \x7b \"yellow4\" : 0 \x7d".toList
      true).parser.last_error_ = ERR.ERR_UNEXPECTED_END_OF_ARRAY ∧
    ((FromString testParser JSONParse.tokenizer () "]".toList true).parser.last_error_
        = ERR.ERR_UNEXPECTED_END_OF_ARRAY ∧
      (FromString testParser JSONParse.tokenizer () "]".toList true).index = 0) :=
  ⟨(balance_invariant testParser JSONParse.tokenizer () "[ \"brown\", \"blue\"".toList
      true 0 rfl).2.2.1 (by decide) (by decide) (by decide),
   (balance_invariant testParser JSONParse.tokenizer ()
      "[ \"orange4\", \x7b \"yellow4\" : 0 \x7d".toList
      true 0 rfl).2.2.1 (by decide) (by decide) (by decide),
   (balance_invariant testParser JSONParse.tokenizer () "]".toList true 0 rfl).2.2.2.2
      (FromString.init () "]".toList 0) (by decide) (by decide) (by decide)⟩

end Claims2
section Claims3
variable {σ : Type}

/-- C6 (amended): for every text whose length as `uint16_t` is less than 65535, if the
scan ends inside a quoted span (an opening `"` with no later unescaped `"`) and with no
error recorded, then `FromString` ends with `ERR_UNTERMINATED_STRING`. -/
theorem unterminated_string (p : JSONParse) (cb : JSONTokenizer σ) (user : σ)
    (s : List Char) (h : Bool) (psi : Nat) (hl : wrapU16 (strlen s) < 65535)
    (hq : (FromString.scan p cb user s h psi).quoted_processing = true)
    (he : (FromString.scan p cb user s h psi).last_error_ = ERR.ERR_NONE) :
    (FromString p cb user s h psi).parser.last_error_ = ERR.ERR_UNTERMINATED_STRING :=
  finish_unterminated p _ (scan_span p cb user s h psi hl) hq he

set_option maxRecDepth 1000000 in
/-- The text `[ "red", "green` of the test "unterminated value string" ends with
`ERR_UNTERMINATED_STRING`. -/
theorem unterminated_string_witness :
    (FromString testParser JSONParse.tokenizer () "[ \"red\", \"green".toList
      true).parser.last_error_ = ERR.ERR_UNTERMINATED_STRING :=
  unterminated_string testParser JSONParse.tokenizer () "[ \"red\", \"green".toList true 0
    (by decide) (by decide) (by decide)

end Claims3
section Claims4

/-- C6 (as stated), refuted: the scan of the 65535-byte text `[`, 65533 spaces, `"`
reaches the end of the text (`i` is the length) inside the quoted span opened by the
last byte, with no error recorded, but `FromString` ends with
`ERR_UNEXPECTED_END_OF_ARRAY`, not `ERR_UNTERMINATED_STRING`: `str_start` is the index
65535 stored in an `int16_t`, which is `-1`, the value for "no span". -/
theorem unterminated_string_long_text :
    wrapU16 (strlen longOpenQuote) = 65535 ∧
    (FromString.scan testParser JSONParse.tokenizer () longOpenQuote false 0).i = 65535 ∧
    (FromString.scan testParser JSONParse.tokenizer () longOpenQuote false
      0).quoted_processing = true ∧
    (FromString.scan testParser JSONParse.tokenizer () longOpenQuote false
      0).last_error_ = ERR.ERR_NONE ∧
    (FromString testParser JSONParse.tokenizer () longOpenQuote false 0).parser.last_error_
      = ERR.ERR_UNEXPECTED_END_OF_ARRAY := by
  obtain ⟨h1, h2, h3, h4, h5, h6, h7⟩ :=
    scan_openQuoteText testParser JSONParse.tokenizer () 65533 rfl (by decide)
  have hl : wrapU16 (strlen (openQuoteText 65533)) = 65535 := by
    rw [openQuoteText_strlen]; decide
  unfold longOpenQuote
  refine ⟨hl, h3, h1, h2, ?_⟩
  rw [FromString_last_error]
  generalize FromString.scan testParser JSONParse.tokenizer () (openQuoteText 65533) false 0
    = st at h1 h2 h3 h4 h5 h6 h7
  have h4b : st.str_start = -1 := by rw [h4]; decide
  have e1 : FromString.unterminated st = st := by
    unfold FromString.unterminated
    simp [h4b]
  unfold FromString.finish
  rw [e1]
  exact (unbalanced_on testParser st rfl h2).2.1 h7 (by rw [h6]; decide)

end Claims4

section Claims5
variable {σ : Type}

set_option maxRecDepth 100000 in
/-- C4 (as stated), refuted: with balance enforcement off, `FromObject` serializes two
empty arrays in a row as `[  ], [  ]`, all four nodes, while the concatenation up to the
node where both depths return to 0 is `[  ], `. -/
theorem punctuation_balance_off :
    fragmentParser.callbacks_ = false ∧
    (FromObject fragmentParser JSONParse.tokenizer () jio twoArrays).ok = true ∧
    (FromObject fragmentParser JSONParse.tokenizer () jio twoArrays).text
      = "[  ], [  ]".toList ∧
    Spec.serializeToLevel twoArrays = "[  ], ".toList := by
  decide

/-- C4 (amended): for every chain that `FromObject` serializes with callbacks off and
with the result `true` (no overflow of the buffer, which has room for at least one
byte), the output is the concatenation, node by node, of: (a) `, ` before a string node
or an opening marker when the node visited before is a string with `is_value = true`;
(b) `[ ` or `{ ` for an opening marker; (c) ` ]` or ` }` for a closing marker, followed
by `, ` when the next node exists and is an open marker or any string node; and the
text of each string node.  With balance enforcement on the concatenation ends with the
first node after which both depths are 0; with balance enforcement off it runs over the
whole chain. -/
theorem serializer_punctuation (p : JSONParse) (cb : JSONTokenizer σ) (user : σ)
    (buf : UserBuffer) (e : List JSONElement) (hcb : p.callbacks_ = false)
    (h1 : 0 < buf.max_length_) (h2 : buf.max_length_ ≤ buf.buffer_.length)
    (h3 : buf.max_length_ ≤ 65535) (hall : e.all JSONElement.isCString = true)
    (hok : (FromObject p cb user buf e).ok = true) :
    (FromObject p cb user buf e).text = Spec.serialize p.limit_node_level_ none 0 0 e :=
  (FromObject_text p cb user buf e hcb h1 h2 h3 hall hok).1

set_option maxRecDepth 100000 in
/-- The chain of the test `[ { "a":[ [ [ "b", { "c":"d" } ] ] ] } ]` is serialized to
that text. -/
theorem serializer_punctuation_witness :
    (FromObject parser5 JSONParse.tokenizer () jio nestedChain).text
      = "[ \x7b \"a\":[ [ [ \"b\", \x7b \"c\":\"d\" \x7d ] ] ] \x7d ]".toList :=
  (serializer_punctuation parser5 JSONParse.tokenizer () jio nestedChain rfl (by decide)
    (by decide) (by decide) (by decide) (by decide)).trans (by decide)

set_option maxRecDepth 100000 in
/-- C5 (as stated), refuted for the empty string: the case `STRING` of `FromObject`
writes nothing for a value node with the empty content, where the quoting rule gives
`""`; the chain `[`, empty value, `]` is serialized to `[  ]`. -/
theorem quoting_empty_string :
    (FromObject.caseString parser5 JSONParse.tokenizer (JSONString.mkStr 5 []) none
      (FromObject.init () jio)).wr_err = false ∧
    (FromObject.caseString parser5 JSONParse.tokenizer (JSONString.mkStr 5 []) none
      (FromObject.init () jio)).buf.written = [] ∧
    Spec.quoting (JSONString.mkStr 5 []) = [DQUOTE, DQUOTE] ∧
    (FromObject parser5 JSONParse.tokenizer () jio emptyValueChain).ok = true ∧
    (FromObject parser5 JSONParse.tokenizer () jio emptyValueChain).text = "[  ]".toList := by
  decide

/-- C5 (amended): for every string node visited by `FromObject` with callbacks off, if
no write fails, the case `STRING` appends to the buffer the separator (`, ` after a
value string) and then: for a node with `Length() > 0`, the quoting text, which is
`"` + content + `":` for a key, the bare content for a value with the literal flag, and
`"` + content + `"` for any other value; for a node with `Length() = 0`, nothing. -/
theorem serializer_quoting (p : JSONParse) (cb : JSONTokenizer σ) (s : JSONString)
    (prev : Option JSONElement) (st : ObjectState σ) (hcb : p.callbacks_ = false)
    (hb : st.buf.inBounds = true) (hs : s.isCString = true)
    (hok : (FromObject.caseString p cb s prev st).wr_err = false) :
    (FromObject.caseString p cb s prev st).buf.written
      = st.buf.written ++ Spec.separator prev ++
          (if 0 < s.length_ then Spec.quoting s else []) := by
  have h := (caseString_wrote p cb s prev st hcb hb hs hok).1
  rw [h, List.append_assoc]
  rfl

set_option maxRecDepth 100000 in
/-- The key `name`, visited first, is written as `"name":`. -/
theorem serializer_quoting_witness :
    (FromObject.caseString parser5 JSONParse.tokenizer (JSONString.mkStr 5 "name".toList false)
      none (FromObject.init () jio)).buf.written = "\"name\":".toList :=
  (serializer_quoting parser5 JSONParse.tokenizer (JSONString.mkStr 5 "name".toList false)
    none (FromObject.init () jio) rfl (by decide) (by decide) (by decide)).trans (by decide)

end Claims5

section Claims6

set_option maxRecDepth 1000000 in
/-- C3: on every platform (node sizes `sA`, `sS`) and for every memory limit that the six
nodes fit in, `FromString` on `{"name":"dave","id":345}` with the chain retained and
balance enforcement on ends with `ERR_NONE`, and the chain is: map open, key `name`,
non-literal value `dave`, key `id`, literal value `345`, map close; this is the chain
that the builder objects of the test make, and `FromObject` writes
`{ "name":"dave", "id":345 }` for it. -/
theorem scenario_one (sA sS limit : Nat) (hfit : 2 * sA + 4 * sS ≤ limit)
    (hlim : limit ≤ 65535) :
    (FromString (parser16 sA sS limit) JSONParse.tokenizer () scenario1Text
      true).parser.last_error_ = ERR.ERR_NONE ∧
    (FromString (parser16 sA sS limit) JSONParse.tokenizer () scenario1Text true).head
      = [JSONElement.MAP true,
         JSONElement.STRING
           { string_ := "name".toList, length_ := 4, is_value_ := false, literal_ := false },
         JSONElement.STRING
           { string_ := "dave".toList, length_ := 4, is_value_ := true, literal_ := false },
         JSONElement.STRING
           { string_ := "id".toList, length_ := 2, is_value_ := false, literal_ := false },
         JSONElement.STRING
           { string_ := "345".toList, length_ := 3, is_value_ := true, literal_ := true },
         JSONElement.MAP false] ∧
    (FromString (parser16 sA sS limit) JSONParse.tokenizer () scenario1Text true).head
      = scenario1Built ∧
    (FromObject (parser16 sA sS limit) JSONParse.tokenizer () jio scenario1Built).ok = true ∧
    (FromObject (parser16 sA sS limit) JSONParse.tokenizer () jio scenario1Built).text
      = scenario1Output := by
  have hfree : (parser16 sA sS limit).free = parser16 0 0 0 := rfl
  have hchain : (FromString.scan (parser16 0 0 0) JSONParse.tokenizer () scenario1Text true
      0).chain = scenario1Built := by decide
  have hb := FromString_budget (parser16 sA sS limit) JSONParse.tokenizer () scenario1Text
    true 0 hlim
    (by
      rw [hfree, hchain]
      simp only [chainSize, scenario1Built, JSONMap, JSONMapTuple, List.cons_append,
        List.nil_append, List.map_cons, List.map_nil, JSONElement.sizeof, List.sum_cons,
        List.sum_nil, parser16]
      omega)
    (by rw [hfree]; decide)
  obtain ⟨_, b2, _, _, b5, _⟩ := hb
  rw [hfree] at b2
  have hhead : (FromString (parser16 0 0 0) JSONParse.tokenizer () scenario1Text true 0).head
      = scenario1Built := by decide
  obtain ⟨o1, o2, _⟩ := FromObject_of_flags (parser16 sA sS limit) (parser16 0 0 0)
    JSONParse.tokenizer () jio scenario1Built rfl rfl
  refine ⟨b5, ?_, b2.trans hhead, ?_, ?_⟩
  · rw [b2, hhead]; decide
  · rw [o1]; decide
  · rw [o2]; decide

set_option maxRecDepth 1000000 in
/-- Scenario 1 on a platform where a marker takes 16 bytes and a string node 32, with
the default limit of 256 bytes. -/
theorem scenario_one_witness :
    (FromString (parser16 16 32 256) JSONParse.tokenizer () scenario1Text true).head
      = scenario1Built ∧
    (FromObject (parser16 16 32 256) JSONParse.tokenizer () jio scenario1Built).text
      = scenario1Output :=
  ⟨(scenario_one 16 32 256 (by decide) (by decide)).2.2.1,
   (scenario_one 16 32 256 (by decide) (by decide)).2.2.2.2⟩

end Claims6

section Claims7
variable {σ : Type}

set_option maxRecDepth 1000000 in
/-- C1 (as stated), refuted: the builder chain `[`, empty value string, `]` is
serialized successfully, to `[  ]`; parsing that text ends with `ERR_NONE`, but the
chain has two nodes, the markers: the string node is lost. -/
theorem round_trip_empty_string :
    (FromObject parser5 JSONParse.tokenizer () jio emptyValueChain).ok = true ∧
    (FromObject parser5 JSONParse.tokenizer () jio emptyValueChain).text = "[  ]".toList ∧
    (FromString parser5 JSONParse.tokenizer ()
      (FromObject parser5 JSONParse.tokenizer () jio emptyValueChain).buf.Get
      true).parser.last_error_ = ERR.ERR_NONE ∧
    (FromString parser5 JSONParse.tokenizer ()
      (FromObject parser5 JSONParse.tokenizer () jio emptyValueChain).buf.Get true).head
      = [JSONElement.ARRAY true, JSONElement.ARRAY false] ∧
    (FromString parser5 JSONParse.tokenizer ()
      (FromObject parser5 JSONParse.tokenizer () jio emptyValueChain).buf.Get true).head
      ≠ emptyValueChain := by
  decide

/-- C1 (amended): for every well-formed chain (it begins with an opening marker; both
depths return to 0 with its last node and not before; every string node has a non-empty
content of bytes without NUL, shorter than `LENGTH`, with `length_` its length; a key
has no literal flag; the content of a string with the literal flag is a literal; the
content of a string without it has no `"` outside an escape and does not end in an
escape) that `FromObject` serializes successfully, with callbacks off and balance
enforcement on, to a text of at most 32767 bytes, parsing the produced text with
`FromString` (chain retained, a memory budget that the chain fits in) ends with
`ERR_NONE` and yields the original chain, node for node. -/
theorem round_trip (p : JSONParse) (cb : JSONTokenizer σ) (user : σ) (buf : UserBuffer)
    (c : List JSONElement)
    (hcb : p.callbacks_ = false) (hlim : p.limit_node_level_ = true)
    (h1 : 0 < buf.max_length_) (h2 : buf.max_length_ ≤ buf.buffer_.length)
    (h3 : buf.max_length_ ≤ 65535)
    (hwf : Spec.wellFormed p.LENGTH c = true)
    (hok : (FromObject p cb user buf c).ok = true)
    (hlen : (FromObject p cb user buf c).text.length ≤ 32767)
    (hmem : chainSize p c ≤ p.limit_memory_) (hmax : p.limit_memory_ ≤ 65535) :
    (FromString p cb user (FromObject p cb user buf c).buf.Get true).parser.last_error_
      = ERR.ERR_NONE ∧
    (FromString p cb user (FromObject p cb user buf c).buf.Get true).head = c :=
  parse_serialized p cb user buf c hcb hlim h1 h2 h3 hwf hok hlen hmem hmax

set_option maxRecDepth 1000000 in
/-- The chain of scenario 1, serialized into the buffer of the tests and parsed back. -/
theorem round_trip_witness :
    (FromString (parser16 16 32 256) JSONParse.tokenizer ()
      (FromObject (parser16 16 32 256) JSONParse.tokenizer () jio scenario1Built).buf.Get
      true).parser.last_error_ = ERR.ERR_NONE ∧
    (FromString (parser16 16 32 256) JSONParse.tokenizer ()
      (FromObject (parser16 16 32 256) JSONParse.tokenizer () jio scenario1Built).buf.Get
      true).head = scenario1Built :=
  round_trip (parser16 16 32 256) JSONParse.tokenizer () jio scenario1Built rfl rfl
    (by decide) (by decide) (by decide) (by decide) (by decide) (by decide) (by decide)
    (by decide)

set_option maxRecDepth 1000000 in
/-- C2 (as stated), refuted: the chain `[`, value `a`, empty value string, `]` is
serialized successfully, to `[ "a",  ]`; parsing that text and serializing the parsed
chain gives `[ "a" ]`. -/
theorem idempotence_empty_string :
    (FromObject parser5 JSONParse.tokenizer () jio danglingComma).ok = true ∧
    (FromObject parser5 JSONParse.tokenizer () jio danglingComma).text
      = "[ \"a\",  ]".toList ∧
    (FromString parser5 JSONParse.tokenizer ()
      (FromObject parser5 JSONParse.tokenizer () jio danglingComma).buf.Get
      true).parser.last_error_ = ERR.ERR_NONE ∧
    (FromObject parser5 JSONParse.tokenizer () jio
      (FromString parser5 JSONParse.tokenizer ()
        (FromObject parser5 JSONParse.tokenizer () jio danglingComma).buf.Get
        true).head).ok = true ∧
    (FromObject parser5 JSONParse.tokenizer () jio
      (FromString parser5 JSONParse.tokenizer ()
        (FromObject parser5 JSONParse.tokenizer () jio danglingComma).buf.Get
        true).head).text = "[ \"a\" ]".toList := by
  decide

end Claims7

section Claims8
variable {σ : Type}

set_option maxRecDepth 1000000 in
/-- C2 (amended): for every well-formed chain `c` (in the sense of C1: it begins with an
opening marker, both depths return to 0 with its last node and not before, and every
string node is readable, so no string is empty) that `FromObject` serializes
successfully, with callbacks off and balance enforcement on, to a text `t` of at most
32767 bytes, under a memory budget that the chain fits in: `FromString` on `t` followed
by `FromObject` into a buffer of the same capacity produces exactly `t` again. And the
text of the test, `[ { "a":{ "b":-1.458e-20, "d":"e" }, ... }, { "ff":"g" } ]`, is
parsed by `FromString` of a `JSONParse<12>` without error and written back by
`FromObject` byte for byte, on every platform where its 12 markers and 14 strings fit
the memory limit. -/
theorem serialize_parse_idempotent (p : JSONParse) (cb : JSONTokenizer σ) (user : σ)
    (buf buf2 : UserBuffer) (c : List JSONElement)
    (hcb : p.callbacks_ = false) (hlim : p.limit_node_level_ = true)
    (h1 : 0 < buf.max_length_) (h2 : buf.max_length_ ≤ buf.buffer_.length)
    (h3 : buf.max_length_ ≤ 65535)
    (hm : buf2.max_length_ = buf.max_length_)
    (hl : buf2.buffer_.length = buf.buffer_.length)
    (hwf : Spec.wellFormed p.LENGTH c = true)
    (hok : (FromObject p cb user buf c).ok = true)
    (hlen : (FromObject p cb user buf c).text.length ≤ 32767)
    (hmem : chainSize p c ≤ p.limit_memory_) (hmax : p.limit_memory_ ≤ 65535) :
    ((FromObject p cb user buf2
        (FromString p cb user (FromObject p cb user buf c).buf.Get true).head).ok = true ∧
     (FromObject p cb user buf2
        (FromString p cb user (FromObject p cb user buf c).buf.Get true).head).text
       = (FromObject p cb user buf c).text) ∧
    (∀ sA sS limit : Nat, 12 * sA + 14 * sS ≤ limit → limit ≤ 65535 →
      (FromString (parser12 sA sS limit) JSONParse.tokenizer () roundTripText
        true).parser.last_error_ = ERR.ERR_NONE ∧
      (FromObject (parser12 sA sS limit) JSONParse.tokenizer () jio
        (FromString (parser12 sA sS limit) JSONParse.tokenizer () roundTripText
          true).head).ok = true ∧
      (FromObject (parser12 sA sS limit) JSONParse.tokenizer () jio
        (FromString (parser12 sA sS limit) JSONParse.tokenizer () roundTripText
          true).head).text = roundTripText) := by
  constructor
  · have hps := parse_serialized p cb user buf c hcb hlim h1 h2 h3 hwf hok hlen hmem hmax
    rw [hps.2]
    have hall : c.all (JSONElement.readable p.LENGTH) = true := by
      unfold Spec.wellFormed at hwf
      simp only [Bool.and_eq_true] at hwf
      exact hwf.1.2
    have hc := isCString_of_readable _ c hall
    have hok2 : (FromObject p cb user buf2 c).ok = true := by
      rw [FromObject_ok_of_shape p cb user buf buf2 c hcb hm hl]; exact hok
    obtain ⟨t1, _⟩ := FromObject_text p cb user buf c hcb h1 h2 h3 hc hok
    obtain ⟨t2, _⟩ := FromObject_text p cb user buf2 c hcb (by omega) (by omega) (by omega)
      hc hok2
    exact ⟨hok2, t2.trans t1.symm⟩
  · intro sA sS limit hfit hmax2
    have hfree : (parser12 sA sS limit).free = parser12 0 0 0 := rfl
    have hA : chainSize (parser12 1 0 0)
        (FromString.scan (parser12 0 0 0) JSONParse.tokenizer () roundTripText true
          0).chain = 12 := by decide
    have hS : chainSize (parser12 0 1 0)
        (FromString.scan (parser12 0 0 0) JSONParse.tokenizer () roundTripText true
          0).chain = 14 := by decide
    have hb := FromString_budget (parser12 sA sS limit) JSONParse.tokenizer () roundTripText
      true 0 hmax2
      (by
        rw [hfree, chainSize_linear, hA, hS]
        show 12 * sA + 14 * sS ≤ limit
        exact hfit)
      (by rw [hfree]; decide)
    obtain ⟨_, b2, _, _, b5, _⟩ := hb
    rw [hfree] at b2
    obtain ⟨o1, o2, _⟩ := FromObject_of_flags (parser12 sA sS limit) (parser12 0 0 0)
      JSONParse.tokenizer () jio
      (FromString (parser12 0 0 0) JSONParse.tokenizer () roundTripText true 0).head rfl rfl
    refine ⟨b5, ?_, ?_⟩
    · rw [b2, o1]; decide
    · rw [b2, o2]; decide

set_option maxRecDepth 1000000 in
/-- The chain of scenario 1, serialized into the buffer of the tests, parsed, and
serialized again into that buffer. -/
theorem serialize_parse_idempotent_witness :
    (FromObject (parser16 16 32 256) JSONParse.tokenizer () jio
        (FromString (parser16 16 32 256) JSONParse.tokenizer ()
          (FromObject (parser16 16 32 256) JSONParse.tokenizer () jio scenario1Built).buf.Get
          true).head).text
      = (FromObject (parser16 16 32 256) JSONParse.tokenizer () jio scenario1Built).text ∧
    (FromObject (parser12 16 32 640) JSONParse.tokenizer () jio
        (FromString (parser12 16 32 640) JSONParse.tokenizer () roundTripText
          true).head).text = roundTripText :=
  ⟨(serialize_parse_idempotent (parser16 16 32 256) JSONParse.tokenizer () jio jio
      scenario1Built rfl rfl (by decide) (by decide) (by decide) rfl rfl (by decide)
      (by decide) (by decide) (by decide) (by decide)).1.2,
   ((serialize_parse_idempotent (parser16 16 32 256) JSONParse.tokenizer () jio jio
      scenario1Built rfl rfl (by decide) (by decide) (by decide) rfl rfl (by decide)
      (by decide) (by decide) (by decide) (by decide)).2 16 32 640 (by decide)
      (by decide)).2.2⟩

end Claims8

section Claims11
variable {σ : Type}

/-- C11, the helper: `IsLiteralCharater` is true for the NUL byte, which is none of the
23 bytes of the alphabet `0123456789.-+eEnultrfas`: its loop runs over
`sizeof(literals)` bytes, the terminating NUL of the array included. -/
theorem literal_alphabet_nul :
    literalAlphabet.length = 23 ∧ NUL ∉ literalAlphabet ∧ IsLiteralCharater NUL = true := by
  decide

/-- C11: at every pass of the loop of `FromString` that begins outside a quoted span and
inside a bracket (a depth is not 0), with a token undetermined or a literal sampled
(`is_literal` is 1 or 2), on a byte that is none of `[ ] { } " : ,`, no space, no tab,
not NUL and not in the alphabet `0123456789.-+eEnultrfas`, `FromString` ends with
`ERR_BAD_VALUE` and returns the index of that byte; and `IsLiteralCharater(c)` is true
exactly for the 23 bytes of the alphabet and for NUL. -/
theorem literal_alphabet (p : JSONParse) (cb : JSONTokenizer σ) (user : σ)
    (s : List Char) (h : Bool) (psi : Nat) (st : ScanState σ)
    (hst : st ∈ FromString.scanPasses p cb user s h psi)
    (hq : st.quoted_processing = false) (hin : ¬ (st.mc = 0 ∧ st.ac = 0))
    (hl : 1 ≤ st.is_literal)
    (hc : charAt st.s st.i ∉ ['[', ']', '\x7b', '\x7d', DQUOTE, ':', ','])
    (hws : charAt st.s st.i ∉ [' ', TAB])
    (ha : charAt st.s st.i ∉ literalAlphabet) (hn : charAt st.s st.i ≠ NUL) :
    ((FromString p cb user s h psi).parser.last_error_ = ERR.ERR_BAD_VALUE ∧
      (FromString p cb user s h psi).index = st.i) ∧
    (∀ c : Char, IsLiteralCharater c = true ↔ c ∈ literalAlphabet ∨ c = NUL) := by
  refine ⟨?_, isLiteralCharater_iff⟩
  have hlc : IsLiteralCharater (charAt st.s st.i) = false := by
    cases hx : IsLiteralCharater (charAt st.s st.i)
    · rfl
    · rcases (isLiteralCharater_iff _).1 hx with h1 | h1
      · exact absurd h1 ha
      · exact absurd h1 hn
  simp only [List.mem_cons, List.mem_singleton, List.not_mem_nil, or_false, not_or] at hws
  have hb := body_bad_value p cb h st (scanPasses_error_none p cb user s h psi st hst) hq hin hl
    (fun hlim => passes_depth p cb user s h psi st hst hlim) hc hws.1 hws.2 hlc
  have e1 := setHead_fields h (st.setError ERR.ERR_BAD_VALUE)
  have hf := FromString_of_pass_error p cb user s h psi st hst
    (by rw [hb, e1.1]; simp [ScanState.setError])
  rw [hb] at hf
  exact ⟨hf.1.trans e1.1, hf.2.trans e1.2.2.2⟩

set_option maxRecDepth 1000000 in
/-- The text `[ 1x ]`: the fourth pass begins on `x` while the literal `1` is sampled,
and `FromString` ends there with `ERR_BAD_VALUE`. -/
theorem literal_alphabet_witness :
    (FromString testParser JSONParse.tokenizer () "[ 1x ]".toList).parser.last_error_
      = ERR.ERR_BAD_VALUE ∧
    (FromString testParser JSONParse.tokenizer () "[ 1x ]".toList).index = 3 :=
  (literal_alphabet testParser JSONParse.tokenizer () "[ 1x ]".toList false 0
    { s := "[ 1x ]".toList, user := (), i := 3, is_literal := 2, ac := 1, mc := 0,
      str_start := 2, str_end := 3, chain := [JSONElement.ARRAY true],
      head := none, expect_value := false, stop := false, quoted_processing := false,
      escape := false, last_error_ := ERR.ERR_NONE, binary_size_ := 16 }
    (by decide) rfl (by decide) (by decide) (by decide) (by decide) (by decide)
    (by decide)).1

end Claims11

section Claims12
variable {σ : Type}

/-- C12: at every pass of the loop of `FromString` that begins outside a quoted span on
a `:`, within the memory budget (no chain is asked for, or the binary size plus the size
of a string node is within the limit): if no closed quoted span is pending (the pending
token is an unquoted literal span, or there is no token, or the span is not closed),
`FromString` ends with `ERR_BAD_ATTRIBUTE` at the index of the `:` and the scan ends
with the chain with which the pass began, so no key node is created; if a closed quoted
span is pending, the pass links exactly one string node behind the chain, with
`is_value = false` and `literal = false`. -/
theorem unquoted_key (p : JSONParse) (cb : JSONTokenizer σ) (user : σ)
    (s : List Char) (h : Bool) (psi : Nat) (st : ScanState σ)
    (hst : st ∈ FromString.scanPasses p cb user s h psi)
    (hq : st.quoted_processing = false) (hc : charAt st.s st.i = ':')
    (hm : h = false ∨ st.binary_size_ + p.sizeofString ≤ p.limit_memory_) :
    (¬ (st.is_literal = 0 ∧ st.str_start ≠ -1 ∧ st.str_end ≠ -1) →
      (FromString p cb user s h psi).parser.last_error_ = ERR.ERR_BAD_ATTRIBUTE ∧
      (FromString p cb user s h psi).index = st.i ∧
      (FromString.scan p cb user s h psi).chain = st.chain) ∧
    (st.is_literal = 0 ∧ st.str_start ≠ -1 ∧ st.str_end ≠ -1 →
      ∃ k : JSONString,
        (FromString.body p cb h st).chain = st.chain ++ [JSONElement.STRING k] ∧
        k.is_value_ = false ∧ k.literal_ = false) := by
  have he := scanPasses_error_none p cb user s h psi st hst
  constructor
  · intro hk
    have hb := body_colon_bad p cb h st he hq hc hm
      (fun hlim => passes_depth p cb user s h psi st hst hlim) hk
    have e1 := setHead_fields h (st.setError ERR.ERR_BAD_ATTRIBUTE)
    have e2 := setHead_frame2 h (st.setError ERR.ERR_BAD_ATTRIBUTE)
    have hne : (FromString.body p cb h st).last_error_ ≠ ERR.ERR_NONE := by
      rw [hb, e1.1]; simp [ScanState.setError]
    have hf := FromString_of_pass_error p cb user s h psi st hst hne
    have hs := scan_of_pass_leaves p cb user s h psi st hst (leaves_of_error p _ hne)
    rw [hb] at hf
    refine ⟨hf.1.trans e1.1, hf.2.trans e1.2.2.2, ?_⟩
    rw [hs, hb, e2.1]
    rfl
  · intro hk
    exact ⟨FromString.keyNode p st, body_colon_key p cb h st he hq hc hm hk,
      (keyNode_flags p st).1, (keyNode_flags p st).2⟩

set_option maxRecDepth 1000000 in
/-- The texts `{1:2}` and `{:1}` end with `ERR_BAD_ATTRIBUTE` at the `:`, with the chain
of the opening brace only; in `{"a":1}` the `:` links the key node `a`. -/
theorem unquoted_key_witness :
    ((FromString testParser JSONParse.tokenizer () "\x7b1:2\x7d".toList true).parser.last_error_
        = ERR.ERR_BAD_ATTRIBUTE ∧
      (FromString testParser JSONParse.tokenizer () "\x7b1:2\x7d".toList true).index = 2 ∧
      (FromString.scan testParser JSONParse.tokenizer () "\x7b1:2\x7d".toList true 0).chain
        = [JSONElement.MAP true]) ∧
    ((FromString testParser JSONParse.tokenizer () "\x7b:1\x7d".toList true).parser.last_error_
        = ERR.ERR_BAD_ATTRIBUTE ∧
      (FromString testParser JSONParse.tokenizer () "\x7b:1\x7d".toList true).index = 1 ∧
      (FromString.scan testParser JSONParse.tokenizer () "\x7b:1\x7d".toList true 0).chain
        = [JSONElement.MAP true]) ∧
    (∃ k : JSONString,
      (FromString.body testParser JSONParse.tokenizer true
        { s := "\x7b\"a\":1\x7d".toList, user := (), i := 4, is_literal := 0, ac := 0, mc := 1,
          str_start := 2, str_end := 3, chain := [JSONElement.MAP true],
          head := some 0, expect_value := false, stop := false, quoted_processing := false,
          escape := false, last_error_ := ERR.ERR_NONE, binary_size_ := 16 }).chain
        = [JSONElement.MAP true] ++ [JSONElement.STRING k] ∧
      k.is_value_ = false ∧ k.literal_ = false) :=
  ⟨(unquoted_key testParser JSONParse.tokenizer () "\x7b1:2\x7d".toList true 0
      { s := "\x7b1:2\x7d".toList, user := (), i := 2, is_literal := 2, ac := 0, mc := 1,
        str_start := 1, str_end := 2, chain := [JSONElement.MAP true],
        head := some 0, expect_value := false, stop := false, quoted_processing := false,
        escape := false, last_error_ := ERR.ERR_NONE, binary_size_ := 16 }
      (by decide) rfl (by decide) (Or.inr (by decide))).1 (by decide),
   (unquoted_key testParser JSONParse.tokenizer () "\x7b:1\x7d".toList true 0
      { s := "\x7b:1\x7d".toList, user := (), i := 1, is_literal := 1, ac := 0, mc := 1,
        str_start := -1, str_end := -1, chain := [JSONElement.MAP true],
        head := some 0, expect_value := false, stop := false, quoted_processing := false,
        escape := false, last_error_ := ERR.ERR_NONE, binary_size_ := 16 }
      (by decide) rfl (by decide) (Or.inr (by decide))).1 (by decide),
   (unquoted_key testParser JSONParse.tokenizer () "\x7b\"a\":1\x7d".toList true 0
      { s := "\x7b\"a\":1\x7d".toList, user := (), i := 4, is_literal := 0, ac := 0, mc := 1,
        str_start := 2, str_end := 3, chain := [JSONElement.MAP true],
        head := some 0, expect_value := false, stop := false, quoted_processing := false,
        escape := false, last_error_ := ERR.ERR_NONE, binary_size_ := 16 }
      (by decide) rfl (by decide) (Or.inr (by decide))).2 (by decide)⟩

end Claims12

section Claims13
variable {σ : Type}

/-- C13: at every pass of the loop of `FromString` that begins inside a quoted span, (1)
the pass closes the span exactly when it reads a `"` while no escape is active; (2) a
`\` read while no escape is active starts an escape and the span stays open, and a pass
that begins with an active escape ends the escape and leaves the span open whatever
byte it reads, `"` and `\` included; (3) whatever byte the pass reads, `[ ] { } : ,`
included, the array depth, the map depth, the chain of nodes, the binary size and the
start of the span stay as they were, so no depth changes and no token is committed. -/
theorem quoted_span_closing (p : JSONParse) (cb : JSONTokenizer σ) (user : σ)
    (s : List Char) (h : Bool) (psi : Nat) (st : ScanState σ)
    (hst : st ∈ FromString.scanPasses p cb user s h psi)
    (hq : st.quoted_processing = true) :
    ((FromString.body p cb h st).quoted_processing = false ↔
      (charAt st.s st.i = DQUOTE ∧ st.escape = false)) ∧
    (st.escape = false → charAt st.s st.i = BACKSLASH →
      (FromString.body p cb h st).escape = true ∧
      (FromString.body p cb h st).quoted_processing = true) ∧
    (st.escape = true →
      (FromString.body p cb h st).escape = false ∧
      (FromString.body p cb h st).quoted_processing = true) ∧
    (FromString.body p cb h st).ac = st.ac ∧ (FromString.body p cb h st).mc = st.mc ∧
    (FromString.body p cb h st).chain = st.chain ∧
    (FromString.body p cb h st).binary_size_ = st.binary_size_ ∧
    (FromString.body p cb h st).str_start = st.str_start :=
  body_quoted p cb h st hq (scanPasses_error_none p cb user s h psi st hst)
    ((passes_span p cb user s h psi st hst).2 hq).1
    ((passes_span p cb user s h psi st hst).2 hq).2

set_option maxRecDepth 1000000 in
/-- The text of the test "String parsing containing code characters": the pass on the
brace inside the key `{test}` leaves the map depth at 1, the chain at the opening brace
and the span open; the parse of the whole text has the key `{test}`, the value
`12:45,34` and the key `c[o]de` as nodes. -/
theorem quoted_span_closing_witness :
    ((FromString.body testParser JSONParse.tokenizer false
        { s := codeCharacters, user := (), i := 3, is_literal := 0, ac := 0, mc := 1,
          str_start := 3, str_end := -1, chain := [JSONElement.MAP true],
          head := none, expect_value := false, stop := false, quoted_processing := true,
          escape := false, last_error_ := ERR.ERR_NONE, binary_size_ := 16 }).mc = 1 ∧
      (FromString.body testParser JSONParse.tokenizer false
        { s := codeCharacters, user := (), i := 3, is_literal := 0, ac := 0, mc := 1,
          str_start := 3, str_end := -1, chain := [JSONElement.MAP true],
          head := none, expect_value := false, stop := false, quoted_processing := true,
          escape := false, last_error_ := ERR.ERR_NONE, binary_size_ := 16 }).chain
        = [JSONElement.MAP true]) ∧
    (FromString testParser JSONParse.tokenizer () codeCharacters true).parser.last_error_
      = ERR.ERR_NONE ∧
    ((FromString testParser JSONParse.tokenizer () codeCharacters true).head.filterMap
        (fun e => match e with
          | JSONElement.STRING v => some (String.mk v.string_, v.is_value_)
          | _ => none))
      = [("\x7btest\x7d", false), ("date", false), ("25Oct19", true), ("time", false),
         ("12:45,34", true), ("date", false), ("29Oct19", true), ("c[o]de", false),
         ("1.3E-24", true)] :=
  ⟨⟨(quoted_span_closing testParser JSONParse.tokenizer () codeCharacters false 0
        { s := codeCharacters, user := (), i := 3, is_literal := 0, ac := 0, mc := 1,
          str_start := 3, str_end := -1, chain := [JSONElement.MAP true],
          head := none, expect_value := false, stop := false, quoted_processing := true,
          escape := false, last_error_ := ERR.ERR_NONE, binary_size_ := 16 }
        (by decide) rfl).2.2.2.2.1,
      (quoted_span_closing testParser JSONParse.tokenizer () codeCharacters false 0
        { s := codeCharacters, user := (), i := 3, is_literal := 0, ac := 0, mc := 1,
          str_start := 3, str_end := -1, chain := [JSONElement.MAP true],
          head := none, expect_value := false, stop := false, quoted_processing := true,
          escape := false, last_error_ := ERR.ERR_NONE, binary_size_ := 16 }
        (by decide) rfl).2.2.2.2.2.1⟩,
    by decide, by decide⟩

end Claims13

section Claims14

set_option maxRecDepth 1000000 in
/-- C14, refuted on the text `{ "":0 }` of the test "Simple string parse, empty
attribute": `FromString` ends with `ERR_NONE`, and the key node made of the empty span
has the 5 bytes `":0 }` as content, not length 0: the span length 0 reaches `Data` as
"use `strlen`", so the bytes from the closing quote to the end of the text are copied.
A span of exactly `LENGTH` bytes is not truncated to `LENGTH - 1` bytes either: the key
of 12 bytes in `{"abcdefghijkl":0}` gives a node of length 12 in a `JSONString<12>`. -/
theorem token_content_empty_key :
    (FromString (JSONParse.new 12 16 32 512) JSONParse.tokenizer () "\x7b \"\":0 \x7d".toList
      true).parser.last_error_ = ERR.ERR_NONE ∧
    (FromString (JSONParse.new 12 16 32 512) JSONParse.tokenizer () "\x7b \"\":0 \x7d".toList
      true).head
      = [JSONElement.MAP true,
         JSONElement.STRING
           { string_ := "\":0 \x7d".toList, length_ := 5, is_value_ := false,
             literal_ := false },
         JSONElement.STRING
           { string_ := "0".toList, length_ := 1, is_value_ := true, literal_ := true },
         JSONElement.MAP false] ∧
    (FromString (JSONParse.new 12 16 32 512) JSONParse.tokenizer ()
      "\x7b\"abcdefghijkl\":0\x7d".toList true).head
      = [JSONElement.MAP true,
         JSONElement.STRING
           { string_ := "abcdefghijkl".toList, length_ := 12, is_value_ := false,
             literal_ := false },
         JSONElement.STRING
           { string_ := "0".toList, length_ := 1, is_value_ := true, literal_ := true },
         JSONElement.MAP false] := by
  decide

end Claims14

section Claims15

set_option maxRecDepth 10000000 in
/-- C15, failing case: with the memory limit 65535, a marker of 16 bytes and a
string node of 280 bytes, the text `[1,1,` ... `,1]` with 234 values is parsed with a
retained chain without error; the chain has 236 nodes of 65552 bytes together, which is
over the limit, and the binary size is 16: at the closing bracket the sum
`binary_size_ + sizeof(JSONString) + sizeof(JSONArray)` is 65552, which the `uint16_t`
`bsz` holds as 16, so the test against the limit passes. -/
theorem memory_budget_wraps :
    overflowText.length = 469 ∧
    (FromString overflowParser JSONParse.tokenizer () overflowText true).parser.last_error_
      = ERR.ERR_NONE ∧
    (FromString overflowParser JSONParse.tokenizer () overflowText true).head.length = 236 ∧
    chainSize overflowParser
      (FromString overflowParser JSONParse.tokenizer () overflowText true).head = 65552 ∧
    overflowParser.limit_memory_ = 65535 ∧
    (FromString overflowParser JSONParse.tokenizer () overflowText true).parser.GetBinarySize
      = 16 := by
  decide!

end Claims15

section Claims15b
variable {σ : Type}

/-- C15 (the code as it is): for a parser whose memory limit plus the sizes of a string
node and of a marker is at most 65535, so that the sum which the cases `]` and `\x7d` keep
in the `uint16_t` `bsz` cannot wrap, in a parse that retains a chain: (1) at every pass that
begins outside a quoted span on an event whose cost (the sizes of the nodes it creates:
a marker for `[` and `{`; a marker, and a string node before it when a value is
pending, for `]` and `}`; a string node for `:`; a string node for `,` when a value is
pending) would take the binary size over the limit, `FromString` ends with
`ERR_OBJECT_MEMORY_LIMIT` at the index of that byte, with the chain and the binary size
as they were when the pass began, so no node is created for the event; (2) when a pass
begins and when it ends, the binary size is the sum of the sizes of the nodes created
so far and at most the limit; (3) so is the binary size that `FromString` leaves. -/
theorem memory_budget (p : JSONParse) (cb : JSONTokenizer σ) (user : σ) (s : List Char)
    (psi : Nat) (hfit : p.limit_memory_ + p.sizeofString + p.sizeofArray ≤ 65535) :
    (∀ st ∈ FromString.scanPasses p cb user s true psi, st.quoted_processing = false →
      p.limit_memory_ < st.binary_size_ + FromString.eventCost p st (charAt st.s st.i) →
      (FromString p cb user s true psi).parser.last_error_ = ERR.ERR_OBJECT_MEMORY_LIMIT ∧
      (FromString p cb user s true psi).index = st.i ∧
      (FromString.scan p cb user s true psi).chain = st.chain ∧
      (FromString p cb user s true psi).parser.binary_size_ = st.binary_size_) ∧
    (∀ st ∈ FromString.scanPasses p cb user s true psi,
      (st.binary_size_ = chainSize p st.chain ∧ st.binary_size_ ≤ p.limit_memory_) ∧
      ((FromString.body p cb true st).binary_size_
          = chainSize p (FromString.body p cb true st).chain ∧
        (FromString.body p cb true st).binary_size_ ≤ p.limit_memory_)) ∧
    ((FromString p cb user s true psi).parser.binary_size_
        = chainSize p (FromString.scan p cb user s true psi).chain ∧
      (FromString p cb user s true psi).parser.binary_size_ ≤ p.limit_memory_) := by
  refine ⟨fun st hst hq ho => ?_, fun st hst => ?_, ?_⟩
  · have ha := passes_accounted p cb user s psi st hfit hst
    have hcost := eventCost_le p st (charAt st.s st.i)
    have hb := body_over p cb st (scanPasses_error_none p cb user s true psi st hst) hq
      (fun hlim => passes_depth p cb user s true psi st hst hlim) ha.2 ho
      (by have := ha.2; omega)
    have e1 := setHead_fields true (st.setError ERR.ERR_OBJECT_MEMORY_LIMIT)
    have e2 := setHead_frame2 true (st.setError ERR.ERR_OBJECT_MEMORY_LIMIT)
    have hne : (FromString.body p cb true st).last_error_ ≠ ERR.ERR_NONE := by
      rw [hb, e1.1]; simp [ScanState.setError]
    have hf := FromString_of_pass_error p cb user s true psi st hst hne
    have hs := scan_of_pass_leaves p cb user s true psi st hst (leaves_of_error p _ hne)
    have hbin : (FromString p cb user s true psi).parser.binary_size_
        = (FromString.finish p (FromString.scan p cb user s true psi)).binary_size_ := rfl
    rw [hb] at hf
    refine ⟨hf.1.trans e1.1, hf.2.trans e1.2.2.2, ?_, ?_⟩
    · rw [hs, hb, e2.1]; rfl
    · rw [hbin, (finish_frame p _).1, hs, hb, e2.2.1]; rfl
  · have ha := passes_accounted p cb user s psi st hfit hst
    exact ⟨ha, body_accounted p cb st hfit ha⟩
  · have hl := loop_accounted p cb (wrapU16 (strlen s)) hfit (2 * wrapU16 (strlen s) + 1)
      (FromString.init user s psi) ⟨rfl, Nat.zero_le _⟩
    have hbin : (FromString p cb user s true psi).parser.binary_size_
        = (FromString.finish p (FromString.scan p cb user s true psi)).binary_size_ := rfl
    rw [hbin, (finish_frame p _).1]
    exact hl

set_option maxRecDepth 1000000 in
/-- The text `[ "a" ]` with a limit of 40 bytes, a marker of 16 bytes and a string node
of 32: the closing bracket with the pending value `a` costs 48 bytes on top of the 16 of
the opening bracket, so `FromString` ends there with `ERR_OBJECT_MEMORY_LIMIT`, and
neither the value node nor the closing marker is created. -/
theorem memory_budget_witness :
    (FromString (JSONParse.new 12 16 32 40) JSONParse.tokenizer () "[ \"a\" ]".toList
      true).parser.last_error_ = ERR.ERR_OBJECT_MEMORY_LIMIT ∧
    (FromString (JSONParse.new 12 16 32 40) JSONParse.tokenizer () "[ \"a\" ]".toList
      true).index = 6 ∧
    (FromString.scan (JSONParse.new 12 16 32 40) JSONParse.tokenizer () "[ \"a\" ]".toList
      true 0).chain = [JSONElement.ARRAY true] ∧
    (FromString (JSONParse.new 12 16 32 40) JSONParse.tokenizer () "[ \"a\" ]".toList
      true).parser.binary_size_ = 16 :=
  (memory_budget (JSONParse.new 12 16 32 40) JSONParse.tokenizer () "[ \"a\" ]".toList 0
    (by decide)).1
    { s := "[ \"a\" ]".toList, user := (), i := 6, is_literal := 0, ac := 1, mc := 0,
      str_start := 3, str_end := 4, chain := [JSONElement.ARRAY true],
      head := some 0, expect_value := false, stop := false, quoted_processing := false,
      escape := false, last_error_ := ERR.ERR_NONE, binary_size_ := 16 }
    (by decide) rfl (by decide)

end Claims15b

section Claims16
variable {σ : Type}

/-- C16: for every text, when `FromString` with a retained chain does not end with
`ERR_OBJECT_MEMORY_LIMIT`, `FromString` on the same text without a chain (`h = NULL`)
leaves the same binary size for `GetBinarySize`, the same last error and returns the
same index. -/
theorem memory_accounting (p : JSONParse) (cb : JSONTokenizer σ) (user : σ) (s : List Char)
    (psi : Nat)
    (hne : (FromString p cb user s true psi).parser.last_error_
      ≠ ERR.ERR_OBJECT_MEMORY_LIMIT) :
    (FromString p cb user s false psi).parser.GetBinarySize
      = (FromString p cb user s true psi).parser.GetBinarySize ∧
    (FromString p cb user s false psi).parser.last_error_
      = (FromString p cb user s true psi).parser.last_error_ ∧
    (FromString p cb user s false psi).index = (FromString p cb user s true psi).index := by
  have hf := finish_lockstep p cb user s psi hne
  unfold JSONParse.GetBinarySize FromString
  simp only []
  rw [hf]
  exact ⟨rfl, rfl, rfl⟩

set_option maxRecDepth 1000000 in
/-- The text of the test "String parsing containing code characters", parsed by a
`JSONParse<12>` with the limit 512 without a chain and with one: the binary size is 352
both times. -/
theorem memory_accounting_witness :
    ((FromString testParser JSONParse.tokenizer () codeCharacters false).parser.GetBinarySize
        = (FromString testParser JSONParse.tokenizer () codeCharacters true).parser.GetBinarySize ∧
      (FromString testParser JSONParse.tokenizer () codeCharacters false).parser.last_error_
        = (FromString testParser JSONParse.tokenizer () codeCharacters true).parser.last_error_ ∧
      (FromString testParser JSONParse.tokenizer () codeCharacters false).index
        = (FromString testParser JSONParse.tokenizer () codeCharacters true).index) ∧
    (FromString testParser JSONParse.tokenizer () codeCharacters true).parser.GetBinarySize
      = 352 :=
  ⟨memory_accounting testParser JSONParse.tokenizer () codeCharacters 0 (by decide),
   by decide⟩

end Claims16

section Claims17
variable {σ : Type}

set_option maxRecDepth 1000000 in
/-- C17 (as stated), refuted: a parser constructed with `memory_limit = 0` parses the
text `[]` with a retained chain and ends with `ERR_OBJECT_MEMORY_LIMIT` at index 0,
without a node: the test `limit_memory_ >= binary_size_ + sizeof(JSONArray)` is made
and fails. -/
theorem zero_budget_refuses :
    (JSONParse.new 12 16 32 0).limit_memory_ = 0 ∧
    (FromString (JSONParse.new 12 16 32 0) JSONParse.tokenizer () "[]".toList
      true).parser.last_error_ = ERR.ERR_OBJECT_MEMORY_LIMIT ∧
    (FromString (JSONParse.new 12 16 32 0) JSONParse.tokenizer () "[]".toList true).index = 0 ∧
    (FromString (JSONParse.new 12 16 32 0) JSONParse.tokenizer () "[]".toList true).head
      = [] := by
  decide

/-- C17 (amended): a memory limit of 0 does not disable the test.  For a parser whose
memory limit is 0 (node sizes positive, their sum at most 65535), in a parse that
retains a chain, every pass that begins outside a quoted span on one of `[ ] { } :`
ends `FromString` with `ERR_OBJECT_MEMORY_LIMIT` at the index of that byte, and no node
is ever created: the chain is empty and the binary size is 0.  The test is skipped only
when no chain is retained: then `FromString` never ends with `ERR_OBJECT_MEMORY_LIMIT`,
whatever the limit.  `MemoryLimit(0)` returns the limit and leaves the parser as it is;
`MemoryLimit(n)` with `n > 0` sets the limit to `n` and returns `n`. -/
theorem zero_budget (p : JSONParse) (cb : JSONTokenizer σ) (user : σ) (s : List Char)
    (psi : Nat) (h0 : p.limit_memory_ = 0) (hA : 0 < p.sizeofArray)
    (hS : 0 < p.sizeofString) (hsum : p.sizeofString + p.sizeofArray ≤ 65535) :
    (∀ st ∈ FromString.scanPasses p cb user s true psi, st.quoted_processing = false →
      charAt st.s st.i ∈ ['[', ']', '\x7b', '\x7d', ':'] →
      (FromString p cb user s true psi).parser.last_error_ = ERR.ERR_OBJECT_MEMORY_LIMIT ∧
      (FromString p cb user s true psi).index = st.i) ∧
    ((FromString.scan p cb user s true psi).chain = [] ∧
      (FromString p cb user s true psi).head = [] ∧
      (FromString p cb user s true psi).parser.binary_size_ = 0) ∧
    (∀ (q : JSONParse) (t : List Char) (k : Nat),
      (FromString q cb user t false k).parser.last_error_ ≠ ERR.ERR_OBJECT_MEMORY_LIMIT) ∧
    (∀ q : JSONParse, q.MemoryLimit 0 = (q.limit_memory_, q)) ∧
    (∀ (q : JSONParse) (n : Nat), 0 < n →
      q.MemoryLimit n = (n, { q with limit_memory_ := n })) := by
  have hfit : p.limit_memory_ + p.sizeofString + p.sizeofArray ≤ 65535 := by omega
  refine ⟨fun st hst hq hc => ?_, ?_, fun q t k => FromString_no_chain q cb user t k,
    fun q => rfl, fun q n hn => ?_⟩
  · have ha := passes_accounted p cb user s psi st hfit hst
    have hb0 : st.binary_size_ = 0 := by have := ha.2; omega
    have hcost := eventCost_le p st (charAt st.s st.i)
    have hpos : 0 < FromString.eventCost p st (charAt st.s st.i) := by
      simp only [List.mem_cons, List.mem_singleton, List.not_mem_nil, or_false] at hc
      rcases hc with h1 | h1 | h1 | h1 | h1
      · rw [eventCost_open p st _ (Or.inl h1)]; exact hA
      · rw [eventCost_close p st _ (Or.inl h1)]; split <;> omega
      · rw [eventCost_open p st _ (Or.inr h1)]; exact hA
      · rw [eventCost_close p st _ (Or.inr h1)]; split <;> omega
      · rw [h1, eventCost_colon]; exact hS
    have hb := body_over p cb st (scanPasses_error_none p cb user s true psi st hst) hq
      (fun hlim => passes_depth p cb user s true psi st hst hlim) ha.2 (by omega) (by omega)
    have e1 := setHead_fields true (st.setError ERR.ERR_OBJECT_MEMORY_LIMIT)
    have hne : (FromString.body p cb true st).last_error_ ≠ ERR.ERR_NONE := by
      rw [hb, e1.1]; simp [ScanState.setError]
    have hf := FromString_of_pass_error p cb user s true psi st hst hne
    rw [hb] at hf
    exact ⟨hf.1.trans e1.1, hf.2.trans e1.2.2.2⟩
  · have hl := loop_accounted p cb (wrapU16 (strlen s)) hfit (2 * wrapU16 (strlen s) + 1)
      (FromString.init user s psi) ⟨rfl, Nat.zero_le _⟩
    have hb0 : (FromString.scan p cb user s true psi).binary_size_ = 0 := by
      have := hl.2; unfold FromString.scan; omega
    have hc0 : (FromString.scan p cb user s true psi).chain = [] :=
      chainSize_eq_zero p _ hA hS (by
        have h1 := hl.1; have h2 := hl.2; unfold FromString.scan; omega)
    have hbin : (FromString p cb user s true psi).parser.binary_size_
        = (FromString.finish p (FromString.scan p cb user s true psi)).binary_size_ := rfl
    have hhead : (FromString p cb user s true psi).head
        = (FromString.finish p (FromString.scan p cb user s true psi)).headChain := rfl
    refine ⟨hc0, ?_, ?_⟩
    · rw [hhead]
      unfold ScanState.headChain
      rw [(finish_frame p _).2.1, hc0]
      split <;> simp
    · rw [hbin, (finish_frame p _).1]; exact hb0
  · unfold JSONParse.MemoryLimit
    rw [if_pos (by simp; omega)]

set_option maxRecDepth 1000000 in
/-- The text `[]` on a parser constructed with `memory_limit = 0`: the first pass, on
`[`, ends the parse with `ERR_OBJECT_MEMORY_LIMIT`; `MemoryLimit(0)` reads 0. -/
theorem zero_budget_witness :
    ((FromString (JSONParse.new 12 16 32 0) JSONParse.tokenizer () "[]".toList
        true).parser.last_error_ = ERR.ERR_OBJECT_MEMORY_LIMIT ∧
      (FromString (JSONParse.new 12 16 32 0) JSONParse.tokenizer () "[]".toList
        true).index = 0) ∧
    (JSONParse.new 12 16 32 0).MemoryLimit 0 = (0, JSONParse.new 12 16 32 0) :=
  ⟨(zero_budget (JSONParse.new 12 16 32 0) JSONParse.tokenizer () "[]".toList 0 rfl
      (by decide) (by decide) (by decide)).1 (FromString.init () "[]".toList 0) (by decide)
      rfl (by decide),
   (zero_budget (JSONParse.new 12 16 32 0) JSONParse.tokenizer () "[]".toList 0 rfl
      (by decide) (by decide) (by decide)).2.2.2.1 (JSONParse.new 12 16 32 0)⟩

end Claims17

section Claims9

set_option maxRecDepth 1000000 in
/-- C18: `JSONSupport::IsInt` returns, for each of the 23 strings of its documentation
table and for both values of `allow_leading`, the documented result; `0`, `-0`,
`100000`, `-12000009` are integers in both modes, `00`, `000455`, `000001` only when
leading zeros are allowed, and `-00`, `-012`, `-00.12`, `0.0`, `-1.2` in neither. -/
theorem IsInt_table :
    IsIntTable.length = 23 ∧
    IsIntTable.results IsIntTable = IsIntTable ∧
    (IsInt "0".toList 1 false = true ∧ IsInt "0".toList 1 true = true) ∧
    (IsInt "-0".toList 2 false = true ∧ IsInt "-0".toList 2 true = true) ∧
    (IsInt "100000".toList 6 false = true ∧ IsInt "100000".toList 6 true = true) ∧
    (IsInt "-12000009".toList 9 false = true ∧ IsInt "-12000009".toList 9 true = true) ∧
    (IsInt "00".toList 2 false = false ∧ IsInt "00".toList 2 true = true) ∧
    (IsInt "000455".toList 6 false = false ∧ IsInt "000455".toList 6 true = true) ∧
    (IsInt "000001".toList 6 false = false ∧ IsInt "000001".toList 6 true = true) ∧
    (IsInt "-00".toList 3 false = false ∧ IsInt "-00".toList 3 true = false) ∧
    (IsInt "-012".toList 4 false = false ∧ IsInt "-012".toList 4 true = false) ∧
    (IsInt "-00.12".toList 6 false = false ∧ IsInt "-00.12".toList 6 true = false) ∧
    (IsInt "0.0".toList 3 false = false ∧ IsInt "0.0".toList 3 true = false) ∧
    (IsInt "-1.2".toList 4 false = false ∧ IsInt "-1.2".toList 4 true = false) := by
  decide

set_option maxRecDepth 1000000 in
/-- C19: `JSONSupport::IsDecimal` returns, for each of the 36 strings of its
documentation table and for both values of `allow_exponent`, the documented result;
`1.0e-10`, `1e10`, `-0.000000` are decimals, `1.e-10`, `01.0e-10`, `0.000000e`, `1.0e-`,
`1.0e+` are not, and with `allow_exponent = false` every string of the table that
carries an exponent is rejected while `0`, `-0.0`, `3455.455` are accepted. -/
theorem IsDecimal_table :
    IsDecimalTable.length = 36 ∧
    IsDecimalTable.results IsDecimalTable = IsDecimalTable ∧
    IsDecimal "1.0e-10".toList 7 true = true ∧
    IsDecimal "1e10".toList 4 true = true ∧
    IsDecimal "-0.000000".toList 9 true = true ∧
    IsDecimal "1.e-10".toList 6 true = false ∧
    IsDecimal "01.0e-10".toList 8 true = false ∧
    IsDecimal "0.000000e".toList 9 true = false ∧
    IsDecimal "1.0e-".toList 5 true = false ∧
    IsDecimal "1.0e+".toList 5 true = false ∧
    ((IsDecimalTable.filter (fun r => r.1.toList.any (fun c => c == 'e' || c == 'E'))).all
      (fun r => !IsDecimal r.1.toList r.1.length false)) = true ∧
    IsDecimal "0".toList 1 false = true ∧
    IsDecimal "-0.0".toList 4 false = true ∧
    IsDecimal "3455.455".toList 8 false = true := by
  decide

end Claims9

section Claims20

set_option maxRecDepth 1000000 in
/-- C20, refuted: `Null()` and `Boolean(v)` on a key node (`is_value = false`) leave a
node with `literal = true` and `is_value = false`, because both end with
`literal_ = true` whatever the node is; `Value(false)` on a literal value node does the
same, because it changes `is_value_` only.  The constructors, `Data` and `Length(l)`
keep `literal ⇒ is_value`: a constructed node and the node after `Data` satisfy it, and
`Length(l)` changes neither flag. -/
theorem literal_flag_on_key :
    (((JSONString.mkStr 8 "id".toList false).Null 8).literal_ = true ∧
      ((JSONString.mkStr 8 "id".toList false).Null 8).is_value_ = false) ∧
    (((JSONString.mkStr 8 "id".toList false).Boolean 8 true).literal_ = true ∧
      ((JSONString.mkStr 8 "id".toList false).Boolean 8 true).is_value_ = false) ∧
    (((JSONString.mkStr 8 "345".toList true true).Value false).2.literal_ = true ∧
      ((JSONString.mkStr 8 "345".toList true true).Value false).2.is_value_ = false) ∧
    (∀ (L : Nat) (self : JSONString),
      (self.Null L).literal_ = true ∧ (self.Null L).is_value_ = self.is_value_) ∧
    (∀ (L : Nat) (self : JSONString) (v : Bool),
      (self.Boolean L v).literal_ = true ∧ (self.Boolean L v).is_value_ = self.is_value_) ∧
    (∀ (self : JSONString) (v : Bool),
      (self.Value v).2.literal_ = self.literal_ ∧ (self.Value v).2.is_value_ = v) ∧
    (∀ (L : Nat) (self : JSONString) (d : List Char) (prefer : Bool) (n : Nat) (ae : Bool),
      (!(JSONString.Data L self d prefer n ae).2.literal_
        || (JSONString.Data L self d prefer n ae).2.is_value_) = true) ∧
    (∀ v : Bool, (!(JSONString.mkEmpty v).literal_ || (JSONString.mkEmpty v).is_value_) = true) ∧
    (∀ (L : Nat) (s : List Char) (v lit : Bool),
      (!(JSONString.mkStr L s v lit).literal_ || (JSONString.mkStr L s v lit).is_value_)
        = true) ∧
    (∀ (L : Nat) (s : List Char) (l : Nat) (v lit : Bool),
      (!(JSONString.mkStrLen L s l v lit).literal_
        || (JSONString.mkStrLen L s l v lit).is_value_) = true) ∧
    (∀ (L : Nat) (self : JSONString) (l : Nat),
      (self.Length L l).2.literal_ = self.literal_ ∧
      (self.Length L l).2.is_value_ = self.is_value_) := by
  have hData : ∀ (L : Nat) (self : JSONString) (d : List Char) (prefer : Bool) (n : Nat)
      (ae : Bool), (!(JSONString.Data L self d prefer n ae).2.literal_
        || (JSONString.Data L self d prefer n ae).2.is_value_) = true := by
    intro L self d prefer n ae
    unfold JSONString.Data
    simp only []
    split_ifs <;> simp_all
  refine ⟨by decide, by decide, by decide, ?_, ?_, ?_, hData, ?_, ?_, ?_, ?_⟩
  · intro L self
    refine ⟨rfl, ?_⟩
    unfold JSONString.Null JSONString.Data
    simp only []
    split_ifs <;> rfl
  · intro L self v
    refine ⟨rfl, ?_⟩
    unfold JSONString.Boolean JSONString.Data
    simp only []
    split_ifs <;> rfl
  · intro self v
    exact ⟨rfl, rfl⟩
  · intro v
    cases v <;> rfl
  · intro L s v lit
    exact hData L _ s lit 0 true
  · intro L s l v lit
    exact hData L _ s lit l true
  · intro L self l
    unfold JSONString.Length
    split_ifs <;> exact ⟨rfl, rfl⟩

end Claims20

section Claims21

theorem dataCount_of_ne (LENGTH n : Nat) (d : List Char) (hL : 0 < LENGTH) (hL2 : LENGTH ≤ 255)
    (hn : 0 < n) (hne : n ≠ LENGTH) :
    JSONString.DataCount LENGTH d n = min n (LENGTH - 1) := by
  unfold JSONString.DataCount
  have h1 : (n == 0) = false := by simp; omega
  simp only [h1, Bool.false_eq_true, if_false]
  by_cases h : LENGTH < n
  · rw [if_pos h]
    have e : ((LENGTH : Int) - 1) = ((LENGTH - 1 : Nat) : Int) := by omega
    rw [e, wrapU8_of_lt (by omega)]
    omega
  · rw [if_neg h, wrapU8_of_lt (by omega)]
    omega

theorem cstr_take_le (d : List Char) (k : Nat) (h : k ≤ strlen d) : (cstr d).take k = d.take k := by
  unfold strlen cstr at *
  have e : d = d.takeWhile (fun c => c != NUL) ++ d.dropWhile (fun c => c != NUL) :=
    (List.takeWhile_append_dropWhile _ d).symm
  conv_rhs => rw [e]
  rw [List.take_append_of_le_length h]

/-- C21: `JSONString::Data(d, prefer_literal, n)` with `0 < n` and `n` other than `LENGTH`
leaves the length `min(n, LENGTH-1)`, the content is the first bytes of `d` (up to its
NUL) in that number, and the NUL is stored at an index of at most `LENGTH-1`; and
`Length(l)` leaves `l` when `l` is below the old length and below `LENGTH-1`, the old
length otherwise, and never a greater length. -/
theorem data_bounded_copy (LENGTH n : Nat) (self : JSONString) (d : List Char) (pl ae : Bool)
    (hL : 0 < LENGTH) (hL2 : LENGTH ≤ 255) (hn : 0 < n) (hne : n ≠ LENGTH) :
    (JSONString.Data LENGTH self d pl n ae).2.length_ = min n (LENGTH - 1) ∧
    (JSONString.Data LENGTH self d pl n ae).2.string_ = (cstr d).take (min n (LENGTH - 1)) ∧
    (min n (LENGTH - 1) ≤ strlen d →
      (JSONString.Data LENGTH self d pl n ae).2.string_ = d.take (min n (LENGTH - 1))) ∧
    JSONString.DataCount LENGTH d n ≤ LENGTH - 1 ∧
    (∀ (old : JSONString) (l : Nat),
      (JSONString.Length LENGTH old l).2.length_ =
        (if l < old.length_ ∧ l < LENGTH - 1 then l else old.length_) ∧
      (JSONString.Length LENGTH old l).1 = (JSONString.Length LENGTH old l).2.length_ ∧
      (JSONString.Length LENGTH old l).2.length_ ≤ old.length_) := by
  have hc := dataCount_of_ne LENGTH n d hL hL2 hn hne
  have hf := data_fields LENGTH self d pl ae n
  rw [hc] at hf
  refine ⟨hf.1, hf.2, ?_, ?_, ?_⟩
  · intro h
    rw [hf.2, cstr_take_le d _ h]
  · rw [hc]; omega
  · intro old l
    unfold JSONString.Length
    by_cases h1 : (l : Int) < (LENGTH : Int) - 1
    · rw [if_pos h1]
      by_cases h2 : old.length_ > l
      · rw [if_pos h2, if_pos ⟨h2, by omega⟩]
        exact ⟨rfl, rfl, by show l ≤ old.length_; omega⟩
      · rw [if_neg h2, if_neg (fun h => h2 h.1)]
        exact ⟨rfl, rfl, le_refl _⟩
    · rw [if_neg h1, if_neg (fun h => h1 (by omega))]
      exact ⟨rfl, rfl, le_refl _⟩

/-- C21, witness: sixteen bytes requested of a sixteen-byte text by a node of capacity 12
leave the first eleven. -/
theorem data_bounded_copy_witness :
    (JSONString.Data 12 (JSONString.mkEmpty true) "abcdefghijklmnop".toList false 16 true).2.length_
      = 11 ∧
    (JSONString.Data 12 (JSONString.mkEmpty true) "abcdefghijklmnop".toList false 16 true).2.string_
      = "abcdefghijk".toList :=
  have h := data_bounded_copy 12 16 (JSONString.mkEmpty true) "abcdefghijklmnop".toList false true
    (by decide) (by decide) (by decide) (by decide)
  ⟨h.1, h.2.1⟩

/-- C21, failing case: with `n = LENGTH` the test `sizeof(string_) < length` is false, the
count is `LENGTH` itself, so `Length()` is `LENGTH` and not `LENGTH-1`, and the NUL goes
to the index `LENGTH`, behind the buffer. -/
theorem data_length_capacity :
    (JSONString.Data 12 (JSONString.mkEmpty true) "abcdefghijklmnop".toList false 12 true).2.length_
      = 12 ∧
    JSONString.DataCount 12 "abcdefghijklmnop".toList 12 = 12 ∧
    min 12 (12 - 1) = 11 ∧
    (JSONString.Data 12 (JSONString.mkEmpty true) "abcdefghijklmnop".toList false 12 true).2.string_
      = "abcdefghijkl".toList := by
  decide

end Claims21

section Claims22

variable {σ : Type}

/-- C22: with callbacks off and a pattern installed, `FindObject(start)` returns the first
node that matches the pattern (its type and, for markers, its `is_open`, or, for
strings, its `is_value` and, when the pattern string is not empty, the pattern's content
as a prefix compared over the pattern's length), provided no node before it drives a
depth negative when balance enforcement is on, and the last error is `ERR_NONE`; when no
node matches before the chain ends it returns `NULL` with `ERR_NOT_FOUND`.  The compare
over the length of a pattern in case-sensitive mode is the prefix relation. -/
theorem FindObject_first (p : JSONParse) (cb : JSONTokenizer σ) (u : σ)
    (hcb : p.callbacks_ = false) :
    (∀ (pre : List JSONElement) (n : JSONElement) (post : List JSONElement),
      (∀ m ∈ pre, Spec.likeMatch p.like_ p.case_sensitive_ m = false) →
      Spec.likeMatch p.like_ p.case_sensitive_ n = true →
      (p.limit_node_level_ = true → Spec.staysLevel 0 0 pre = true) →
      (FindObject p cb u (pre ++ n :: post)).found = n :: post ∧
      (FindObject p cb u (pre ++ n :: post)).parser.last_error_ = ERR.ERR_NONE) ∧
    (∀ (c : List JSONElement),
      (∀ m ∈ c, Spec.likeMatch p.like_ p.case_sensitive_ m = false) →
      (p.limit_node_level_ = true → Spec.staysLevel 0 0 c = true) →
      (FindObject p cb u c).found = [] ∧
      (FindObject p cb u c).parser.last_error_ = ERR.ERR_NOT_FOUND) ∧
    (∀ (l s : List Char), (∀ c ∈ l, c ≠ NUL) →
      (Spec.prefixOver true l s l.length = true ↔ l <+: s)) := by
  refine ⟨?_, ?_, ?_⟩
  · intro pre n post hpre hn hl
    have h := find_found p cb u hcb pre n post hpre hn hl
    exact ⟨h.1, h.2.1⟩
  · intro c hpre hl
    have h := find_none p cb u hcb c hpre hl
    exact ⟨h.1, h.2.1⟩
  · intro l s hl
    exact prefixOver_prefix l s hl

/-- C22, witness: with the pattern "ora" installed case-sensitively, `FindObject` on the
chain of `["apple","orange","pineapple","pear"]` returns the node "orange". -/
theorem FindObject_first_witness :
    (FindObject (findParser.Like (some (JSONElement.STRING (JSONString.mkStr 12 "ora".toList))))
      JSONParse.tokenizer ()
      (fruitChain.take 2 ++ JSONElement.STRING (JSONString.mkStr 12 "orange".toList) ::
        fruitChain.drop 3)).found
      = JSONElement.STRING (JSONString.mkStr 12 "orange".toList) :: fruitChain.drop 3 ∧
    fruitChain.take 2 ++ JSONElement.STRING (JSONString.mkStr 12 "orange".toList) ::
        fruitChain.drop 3 = fruitChain :=
  ⟨((FindObject_first
      (findParser.Like (some (JSONElement.STRING (JSONString.mkStr 12 "ora".toList))))
      JSONParse.tokenizer () rfl).1 (fruitChain.take 2)
      (JSONElement.STRING (JSONString.mkStr 12 "orange".toList)) (fruitChain.drop 3)
      (by decide) (by decide) (by decide)).1, by decide⟩

end Claims22

section Claims23

variable {σ : Type}

/-- C23 (amended): with callbacks off, `NextString(e, v)` returns the first string node
with `is_value = v` strictly after `e`, with `ERR_NONE`, when balance enforcement is off
or no node between them drives a depth, counted from behind `e`, negative; it returns
`NULL` with `ERR_NOT_FOUND` when no such node follows `e` and balance enforcement is off
or no node behind `e` drives a depth negative; and under balance enforcement it returns
`NULL` with `ERR_UNEXPECTED_END_OF_ARRAY` (`ERR_UNEXPECTED_END_OF_MAP`) when a closing
marker that returns below the level of `e` comes before such a node. -/
theorem next_string_first (p : JSONParse) (cb : JSONTokenizer σ) (u : σ) (e : JSONElement)
    (v : Bool) (hcb : p.callbacks_ = false) :
    (∀ (pre : List JSONElement) (n : JSONElement) (post : List JSONElement),
      (∀ m ∈ pre, Spec.isString v m = false) → Spec.isString v n = true →
      (p.limit_node_level_ = true → Spec.staysLevel 0 0 pre = true) →
      (NextString p cb u (e :: (pre ++ n :: post)) v).found = n :: post ∧
      (NextString p cb u (e :: (pre ++ n :: post)) v).parser.last_error_ = ERR.ERR_NONE) ∧
    (∀ (c : List JSONElement),
      (∀ m ∈ c, Spec.isString v m = false) →
      (p.limit_node_level_ = true → Spec.staysLevel 0 0 c = true) →
      (NextString p cb u (e :: c) v).found = [] ∧
      (NextString p cb u (e :: c) v).parser.last_error_ = ERR.ERR_NOT_FOUND) ∧
    (∀ (pre post : List JSONElement) (isMap : Bool),
      p.limit_node_level_ = true →
      (∀ m ∈ pre, Spec.isString v m = false) → Spec.staysLevel 0 0 pre = true →
      (pre.foldl Spec.arrayDepth 0 = 0 ∧ pre.foldl Spec.mapDepth 0 = 0) →
      (NextString p cb u (e :: (pre ++ FromString.marker isMap false :: post)) v).found = [] ∧
      (NextString p cb u (e :: (pre ++ FromString.marker isMap false :: post)) v).parser.last_error_
        = (if isMap then ERR.ERR_UNEXPECTED_END_OF_MAP
           else ERR.ERR_UNEXPECTED_END_OF_ARRAY)) := by
  have hs : ∀ c, NextString p cb u (e :: c) v
      = FindObject (p.Like (some (JSONElement.STRING (JSONString.mkEmpty v))) true) cb u c :=
    fun c => find_after_start p cb u _ true c
  have hm : ∀ m, Spec.likeMatch
      (p.Like (some (JSONElement.STRING (JSONString.mkEmpty v))) true).like_
      (p.Like (some (JSONElement.STRING (JSONString.mkEmpty v))) true).case_sensitive_ m
        = Spec.isString v m := fun m => likeMatch_empty v true m
  refine ⟨?_, ?_, ?_⟩
  · intro pre n post hpre hn hl
    rw [hs]
    have h := find_found (p.Like (some (JSONElement.STRING (JSONString.mkEmpty v))) true) cb u
      hcb pre n post (fun m hmem => by rw [hm]; exact hpre m hmem) (by rw [hm]; exact hn) hl
    exact ⟨h.1, h.2.1⟩
  · intro c hpre hl
    rw [hs]
    have h := find_none (p.Like (some (JSONElement.STRING (JSONString.mkEmpty v))) true) cb u
      hcb c (fun m hmem => by rw [hm]; exact hpre m hmem) hl
    exact ⟨h.1, h.2.1⟩
  · intro pre post isMap hlim hpre hl h0
    rw [hs]
    exact find_level (p.Like (some (JSONElement.STRING (JSONString.mkEmpty v))) true) cb u
      hcb hlim isMap pre post (by rw [hm]; cases isMap <;> rfl)
      (fun m hmem => by rw [hm]; exact hpre m hmem) hl h0

/-- C23, witness: the scenario on the chain of `["apple","orange","pineapple","pear"]`
with a parser as constructed: `FindString` returns "orange", `NextString` on it returns
"pineapple", `NextString` on that returns "pear", and `NextString` on "pear" returns
`NULL`, the last error being `ERR_UNEXPECTED_END_OF_ARRAY`; with balance enforcement
off it is `ERR_NOT_FOUND`. -/
theorem next_string_first_witness :
    (FindString findParser JSONParse.tokenizer () fruitChain "orange".toList true).found
      = fruitChain.drop 2 ∧
    (NextString findParser JSONParse.tokenizer () (fruitChain.drop 2)).found
      = fruitChain.drop 3 ∧
    (NextString findParser JSONParse.tokenizer () (fruitChain.drop 3)).found
      = fruitChain.drop 4 ∧
    fruitChain.drop 4 = JSONStringNode 12 "pear".toList ++ JSONArray false ∧
    ((NextString findParser JSONParse.tokenizer ()
        (JSONElement.STRING (JSONString.mkStr 12 "pear".toList) ::
          ([] ++ FromString.marker false false :: [])) true).found = [] ∧
      (NextString findParser JSONParse.tokenizer ()
        (JSONElement.STRING (JSONString.mkStr 12 "pear".toList) ::
          ([] ++ FromString.marker false false :: [])) true).parser.last_error_
        = (if false then ERR.ERR_UNEXPECTED_END_OF_MAP
           else ERR.ERR_UNEXPECTED_END_OF_ARRAY)) ∧
    (NextString { findParser with limit_node_level_ := false } JSONParse.tokenizer ()
      (fruitChain.drop 4)).parser.last_error_ = ERR.ERR_NOT_FOUND :=
  ⟨by decide, by decide, by decide, by decide,
    (next_string_first findParser JSONParse.tokenizer ()
      (JSONElement.STRING (JSONString.mkStr 12 "pear".toList)) true rfl).2.2 [] [] false
      rfl (by decide) (by decide) (by decide), by decide⟩

/-- C23, counterexample: with a parser as constructed, `NextString` on the node "pear" of
the scenario returns `NULL` and the last error is `ERR_UNEXPECTED_END_OF_ARRAY`, not
`ERR_NOT_FOUND`: the closing marker of the array comes first. -/
theorem next_string_end_of_array :
    (NextString findParser JSONParse.tokenizer () (fruitChain.drop 4)).found = [] ∧
    (NextString findParser JSONParse.tokenizer () (fruitChain.drop 4)).parser.last_error_
      = ERR.ERR_UNEXPECTED_END_OF_ARRAY ∧
    (NextString findParser JSONParse.tokenizer () (fruitChain.drop 4)).parser.last_error_
      ≠ ERR.ERR_NOT_FOUND ∧
    findParser.limit_node_level_ = true ∧ findParser.callbacks_ = false := by
  decide

/-- The test "Attribute find, iterate over values": behind the key "marmalade" the loop
over `NextString` sees three value strings and then `NULL`. -/
theorem iterate_values_test :
    (FindString findParser JSONParse.tokenizer () jamChain "marmalade".toList false).found
      = jamChain.drop 6 ∧
    (NextString findParser JSONParse.tokenizer () (jamChain.drop 6)).found = jamChain.drop 8 ∧
    (NextString findParser JSONParse.tokenizer () (jamChain.drop 8)).found = jamChain.drop 9 ∧
    (NextString findParser JSONParse.tokenizer () (jamChain.drop 9)).found = jamChain.drop 10 ∧
    (NextString findParser JSONParse.tokenizer () (jamChain.drop 10)).found = [] ∧
    jamChain.drop 10 = JSONStringNode 12 "lime".toList ++ JSONArray false ++ JSONMap false := by
  decide

end Claims23

section Claims24

variable {σ : Type}

/-- C24: for a node `e`, `NextArray(e, o)`, `NextMap(e, o)` and `NextString(e, v)` return
what `FindObject(e->Next())` returns, and leave the parser that it leaves, after
`Like` has installed, case-sensitively, an array marker with `is_open = o`, a map marker
with `is_open = o`, or an empty string node with `is_value = v`; for `e = NULL` they
return `NULL` with the last error `ERR_NOT_FOUND`. -/
theorem typed_helpers_sugar (p : JSONParse) (cb : JSONTokenizer σ) (u : σ) (e : JSONElement)
    (next : List JSONElement) (o v : Bool) :
    NextArray p cb u (e :: next) o
      = FindObject (p.Like (some (JSONElement.ARRAY o)) true) cb u next ∧
    NextMap p cb u (e :: next) o
      = FindObject (p.Like (some (JSONElement.MAP o)) true) cb u next ∧
    NextString p cb u (e :: next) v
      = FindObject (p.Like (some (JSONElement.STRING (JSONString.mkEmpty v))) true) cb u next ∧
    ((NextArray p cb u [] o).found = [] ∧
      (NextArray p cb u [] o).parser.last_error_ = ERR.ERR_NOT_FOUND) ∧
    ((NextMap p cb u [] o).found = [] ∧
      (NextMap p cb u [] o).parser.last_error_ = ERR.ERR_NOT_FOUND) ∧
    ((NextString p cb u [] v).found = [] ∧
      (NextString p cb u [] v).parser.last_error_ = ERR.ERR_NOT_FOUND) :=
  ⟨find_after_start p cb u _ true next, find_after_start p cb u _ true next,
    find_after_start p cb u _ true next, ⟨rfl, rfl⟩, ⟨rfl, rfl⟩, ⟨rfl, rfl⟩⟩

/-- The test "Object find, twice": after the two searches, `NextArray(dd->Next(), false)`
returns the closing marker behind "ORAnge". -/
theorem next_array_test :
    (NextArray findParser JSONParse.tokenizer () (findTwiceChain.drop 3) false).found
      = findTwiceChain.drop 7 ∧
    findTwiceChain.get? 7 = some (JSONElement.ARRAY false) := by
  decide

end Claims24

section Claims25

/-- C25 (amended): in case-insensitive mode `StrNCmp` treats two bytes as equal exactly
when they are equal after the mask `& 223`, that is, for bytes below 256, when they are
the same byte or differ in the bit `0x20` alone, letters or not; the result is not
negative exactly when the first `n` bytes are pairwise equal in this sense, and `0` when
in addition `s1` has at most `n` bytes. -/
theorem case_insensitive_mask (s1 s2 : List Char) (n : Nat) :
    (0 ≤ StrNCmp s1 s2 n false ↔
      ∀ i, i < n → (charAt s1 i).toNat &&& 223 = (charAt s2 i).toNat &&& 223) ∧
    (StrNCmp s1 s2 n false = 0 ↔
      (∀ i, i < n → (charAt s1 i).toNat &&& 223 = (charAt s2 i).toNat &&& 223) ∧
        strlen s1 ≤ n) ∧
    (∀ i, (charAt s1 i).toNat < 256 → (charAt s2 i).toNat < 256 →
      (StrNCmp.differs s1 s2 false i = false ↔
        ((charAt s1 i).toNat = (charAt s2 i).toNat ∨
          (charAt s1 i).toNat = (charAt s2 i).toNat ^^^ 32))) := by
  refine ⟨?_, ?_, ?_⟩
  · rw [strncmp_nonneg_iff]
    constructor
    · intro h i hi; exact (differs_insensitive s1 s2 i).1 (h i hi)
    · intro h i hi; exact (differs_insensitive s1 s2 i).2 (h i hi)
  · rw [strncmp_eq_zero_iff]
    constructor
    · intro h; exact ⟨fun i hi => (differs_insensitive s1 s2 i).1 (h.1 i hi), h.2⟩
    · intro h; exact ⟨fun i hi => (differs_insensitive s1 s2 i).2 (h.1 i hi), h.2⟩
  · intro i h1 h2
    rw [differs_insensitive, mask_classes _ _ h1 h2]

/-- C25, witness: the pattern "orange" compares equal with "ORAnge", and the second
`FindString` of the test "Object find, twice" returns the node "ORAnge". -/
theorem case_insensitive_mask_witness :
    0 ≤ StrNCmp "orange".toList "ORAnge".toList 6 false ∧
    (FindString findParser JSONParse.tokenizer ()
      (FindString findParser JSONParse.tokenizer () findTwiceChain "orange".toList true
        false).found.tail "orange".toList true false).found
      = findTwiceChain.drop 6 ∧
    findTwiceChain.get? 6 = some (JSONElement.STRING (JSONString.mkStr 12 "ORAnge".toList)) :=
  ⟨((case_insensitive_mask "orange".toList "ORAnge".toList 6).1).2 (by decide),
    by decide, by decide⟩

/-- C25, counterexample: the bytes `[` and `\x7b` are no letters and differ, and the
case-insensitive compare treats them as equal: a search for `[a` finds the node
`\x7bA`. -/
theorem case_insensitive_brackets :
    StrNCmp "[a".toList "\x7bA".toList 2 false = 0 ∧
    ('[' : Char) ≠ '\x7b' ∧
    (FindString findParser JSONParse.tokenizer () (JSONStringNode 12 "\x7bA".toList)
      "[a".toList true false).found = JSONStringNode 12 "\x7bA".toList ∧
    (FindString findParser JSONParse.tokenizer () (JSONStringNode 12 "\x7bA".toList)
      "[a".toList true false).parser.last_error_ = ERR.ERR_NONE := by
  decide

end Claims25

section Claims26

/-- C26: for a buffer of length `L` and capacity `M`, a span `sp ≤ ep ≤ L` with `sp < L`
and a replacement of `n` bytes with `L - (ep - sp) + n ≤ M`, `JSONSupport::Replace`
returns `L - (ep - sp) + n`, and the first bytes of the buffer in that number are the
old bytes before `sp`, the replacement, and the old bytes from `ep` to `L`. -/
theorem replace_result (d s : List Char) (L M sp ep n : Nat)
    (hsp : sp ≤ ep) (hep : ep ≤ L) (hspL : sp < L) (hfit : L - (ep - sp) + n ≤ M)
    (hLM : L ≤ M) (hM : M ≤ 65535) (hd : M ≤ d.length) (hn : n ≤ s.length) :
    (Replace d L M sp ep s n).1 = L - (ep - sp) + n ∧
    (Replace d L M sp ep s n).2.take (L - (ep - sp) + n)
      = d.take sp ++ s.take n ++ (d.drop ep).take (L - ep) := by
  have h := replace_take_ext d s L M sp ep n 0 hsp hep hspL hfit hLM hM hd hn (Nat.zero_le 1)
    (by omega) (by omega)
  simpa using h

end Claims26
section Claims26w

set_option maxRecDepth 100000 in
/-- C26, witness: the test "IO string replace" replaces the ten bytes `[0x0e, 0x18)` of
its text of 92 bytes by `"cool foo bar"`, and the length grows by 4. -/
theorem replace_result_witness :
    (Replace putBuffer.buffer_ 92 256 (14 : Nat) (24 : Nat) coolFooBar 14).1 = 92 - (24 - 14) + 14 ∧
    (Replace putBuffer.buffer_ 92 256 (14 : Nat) (24 : Nat) coolFooBar 14).2.take (92 - (24 - 14) + 14)
      = putBuffer.buffer_.take 14 ++ coolFooBar.take 14 ++ (putBuffer.buffer_.drop 24).take (92 - 24) :=
  replace_result putBuffer.buffer_ coolFooBar 92 256 14 24 14 (by decide) (by decide) (by decide)
    (by decide) (by decide) (by decide) (by decide) (by decide)

set_option maxRecDepth 100000 in
/-- The test "IO string replace" on the buffer object: `jio.Replace` reports no error and
leaves the length 96. -/
theorem io_replace_test :
    (putBuffer.Replace coolFooBar 0xe 0x18).1 = false ∧
    (putBuffer.Replace coolFooBar 0xe 0x18).2.length_ = 96 ∧
    cstr (putBuffer.Replace coolFooBar 0xe 0x18).2.Get =
      ("[ \x7b \"a\":\x7b \"b\":\"cool foo bar\", \"d\":\"e\" \x7d, \"f\":\"g\", \"h\":\x7b \"i\":\"j\" \x7d, " ++
        "\"k\":[ \"l\" ] \x7d, \x7b \"ff\":\"g\" \x7d ]").toList := by
  decide

end Claims26w

section Claims27

/-- C27: when the span is invalid (`sp < 0`, `ep < 0`, `sp >= d_length` or
`ep > d_length`), or when the replacement is longer than the removed span `sp ≤ ep` and
`d_max < d_length + (sl - (ep - sp))`, `JSONSupport::Replace` returns `d_length` and
leaves the memory as it was. -/
theorem replace_atomic (d s : List Char) (d_length d_max : Nat) (sp ep : Int) (sl : Nat)
    (h : (sp < 0 ∨ ep < 0 ∨ sp ≥ d_length ∨ ep > d_length) ∨
      (sp ≤ ep ∧ ep - sp < sl ∧ sl ≤ 65535 ∧ (d_max : Int) < d_length + (sl - (ep - sp)))) :
    Replace d d_length d_max sp ep s sl = (d_length, d) := by
  unfold Replace
  by_cases hv : sp ≥ 0 ∧ ep ≥ 0 ∧ sp < (d_length : Int) ∧ ep ≤ (d_length : Int)
  · rcases h with h | ⟨h1, h2, h3, h4⟩
    · omega
    · have w : wrapU16 (ep - sp) = (ep - sp).toNat := by unfold wrapU16; omega
      have hlt : (ep - sp).toNat < sl := by omega
      have w2 : wrapU16 ((sl : Int) - ((ep - sp).toNat : Int)) = sl - (ep - sp).toNat := by
        unfold wrapU16; omega
      have hne : ((ep - sp).toNat == sl) = false := by simp; omega
      simp only [w, w2, if_pos hv, hne, Bool.false_eq_true, if_false,
        if_neg (show ¬ (ep - sp).toNat > sl by omega),
        if_neg (show ¬ d_max ≥ d_length + (sl - (ep - sp).toNat) by omega)]
  · rw [if_neg hv]

/-- C27, witness: fourteen bytes do not fit in place of ten in a buffer of capacity 94
that holds 92. -/
theorem replace_atomic_witness :
    ((14 : Int) ≤ 24 ∧ (24 : Int) - 14 < (14 : Nat) ∧ ((94 : Nat) : Int) < (92 : Nat) + ((14 : Nat) - (24 - 14))) ∧
    Replace putBuffer.buffer_ 92 94 14 24 coolFooBar 14 = (92, putBuffer.buffer_) :=
  ⟨by decide, replace_atomic putBuffer.buffer_ coolFooBar 92 94 14 24 14
    (Or.inr (by decide))⟩

end Claims27

section Claims28

end Claims28

section Claims28w

set_option maxRecDepth 1000000 in
/-- The test "Replace both value and attribute", its two replacements: after `fall` to
`hello` and, from the returned index with the balance of the levels not enforced and
without case, `fall2` to `hello2`, both calls have ended with `ERR_NONE` and the text has
92 + 1 + 3 bytes, the length that the test expects after its rename of the same length;
the recorded length of the buffer is still 92. -/
theorem replace_values_test :
    (replaceParse.FromStringReplace 0 "fall".toList "hello".toList true).2.GetLastError
      = ERR.ERR_NONE ∧
    ((((replaceParse.FromStringReplace 0 "fall".toList "hello".toList true).2.LimitNodeLevel
      false).FromStringReplace
        (replaceParse.FromStringReplace 0 "fall".toList "hello".toList true).1
        "fall2".toList "hello2".toList false).2.GetLastError = ERR.ERR_NONE) ∧
    strlen (((replaceParse.FromStringReplace 0 "fall".toList "hello".toList true).2.LimitNodeLevel
      false).FromStringReplace
        (replaceParse.FromStringReplace 0 "fall".toList "hello".toList true).1
        "fall2".toList "hello2".toList false).2.io_.Get = 96 ∧
    (((replaceParse.FromStringReplace 0 "fall".toList "hello".toList true).2.LimitNodeLevel
      false).FromStringReplace
        (replaceParse.FromStringReplace 0 "fall".toList "hello".toList true).1
        "fall2".toList "hello2".toList false).2.io_.GetLength = 92 := by
  decide

end Claims28w

section Claims29

/-- C29 (the code as it is): `JSONSimpleStringParseAttr::FromStringSearch(psi, a)` in
case-sensitive mode, for a key `a` that is not empty, has no NUL and is shorter than
`LENGTH`, on a buffer that is not empty, when no key node that the parse creates directly
follows a key node (as in every well-formed text).  If a value string node directly
follows a key node with the content `a`, the parse is stopped at the first such value
node, `GetAttrValue()` is the content of this node, and the last error is `ERR_NONE`,
unless the pass that creates the node sets an error itself; a key that a marker follows is
passed over.  Otherwise the last error is not `ERR_NONE` (it is `ERR_NOT_FOUND` when the
parse itself ends without error) and `GetAttrValue()` is empty; a string that is only a
value is not found.  The content of a node is what `JSONString::Data` copies of the span
of its token. -/
theorem attribute_search (self : JSONSimpleStringParseAttr) (psi : Nat) (a : List Char)
    (hcb : self.base.callbacks_ = true)
    (hrun : self.io_.GetLength ≠ 0 ∧ psi < self.io_.GetLength)
    (ha0 : a ≠ []) (han : ∀ c ∈ a, c ≠ NUL) (hal : a.length < self.base.LENGTH)
    (hL : self.base.LENGTH ≤ 255)
    (hka : Spec.keysApart ((self.searchStart a true).nodes psi) = true) :
    (Spec.attrValue a ((self.searchStart a true).nodes psi) = none →
      (self.FromStringSearch psi a true).2.GetLastError ≠ ERR.ERR_NONE ∧
      (((self.searchStart a true).FromStringPsi psi).2.GetLastError = ERR.ERR_NONE →
        (self.FromStringSearch psi a true).2.GetLastError = ERR.ERR_NOT_FOUND) ∧
      (self.FromStringSearch psi a true).2.GetAttrValue = []) ∧
    (∀ v, Spec.attrValue a ((self.searchStart a true).nodes psi) = some v →
      (self.FromStringSearch psi a true).2.GetAttrValue = v.string_ ∧
      (∃ pre tail, (self.searchStart a true).nodes psi = pre ++ JSONElement.STRING v :: tail ∧
        tail.length ≤ 1) ∧
      (∃ si ei : Int, JSONString.ofSpan self.base.LENGTH self.io_.Get si ei v) ∧
      ((self.FromStringSearch psi a true).2.GetLastError = ERR.ERR_NONE ∨
        ((self.FromStringSearch psi a true).2.GetLastError = ERR.ERR_BAD_VALUE ∧
          IsLiteral v.string_ v.length_ = false) ∨
        (self.base.limit_node_level_ = true ∧
          ((self.FromStringSearch psi a true).2.GetLastError
              = ERR.ERR_UNEXPECTED_END_OF_ARRAY ∨
            (self.FromStringSearch psi a true).2.GetLastError
              = ERR.ERR_UNEXPECTED_END_OF_MAP)))) := by
  have hlen : (self.searchStart a true).attr_length_ = a.length :=
    attr_cutLength_short _ a han hal hL
  have hlen0 : (self.searchStart a true).attr_length_ ≠ 0 := by
    rw [hlen]; intro h; exact ha0 (List.length_eq_zero.1 h)
  have hkm := attr_keyMatch (self.searchStart a true) a rfl hlen rfl han
  obtain ⟨r1, r2, r3, _⟩ := attr_run (self.searchStart a true) psi hrun
  have hE : (self.FromStringSearch psi a true).2 =
      JSONSimpleStringParseAttr.mapError ((self.searchStart a true).FromStringPsi psi).2 := rfl
  have hst := scan_trace (self.searchStart a true).base
    hcb attr_searching (self.searchStart a true)
    (self.searchStart a true).io_.Get psi rfl
  have hfin := finish_search (self.searchStart a true).base
    (FromString.scan (self.searchStart a true).base JSONSimpleStringParseAttr.tokenizer
      (self.searchStart a true) (self.searchStart a true).io_.Get false psi)
  have hu : self.searchStart a true = (self.searchStart a true).setTake false := rfl
  rcases hst with ⟨hq, hne⟩ | ⟨st, _, _, x, hS⟩
  · -- the scan was not stopped
    have hnone : Spec.attrValue a ((self.searchStart a true).nodes psi) = none := by
      have h5 := hq.2.2.2.2.1
      rw [hu] at h5
      exact attr_quiet (self.searchStart a true) a hlen0 hkm _ false false (fun h => h)
        hq.2.2.2.2.2 hka h5
    constructor
    · intro _
      refine ⟨?_, ?_, ?_⟩
      · rw [hE, r1]
        have := hfin.2.2.2.2 hne
        rcases searchError_cases (FromString.finish (self.searchStart a true).base
          (FromString.scan (self.searchStart a true).base JSONSimpleStringParseAttr.tokenizer
            (self.searchStart a true) (self.searchStart a true).io_.Get false psi)).last_error_
          with h | h | h
        · rw [h.2]; decide
        · exact absurd h.1 this
        · rw [h.2.2]; exact h.1
      · intro h
        rw [hE, (attr_mapError _).1, h]; rfl
      · rw [hE, r3, hq.2.2.2.1]
        obtain ⟨t2, ht2⟩ := foldl_setTake (self.searchStart a true) hlen0
          (FromString.scan (self.searchStart a true).base JSONSimpleStringParseAttr.tokenizer
            (self.searchStart a true) (self.searchStart a true).io_.Get false psi).chain false
        rw [← hu] at ht2
        rw [ht2]; rfl
    · intro v hv
      rw [hnone] at hv
      exact absurd hv (by simp)
  · -- the scan was stopped by the callback of the node `x`
    obtain ⟨_, ⟨tail, hc, ht⟩, h3, h4, h5, _, h7, h8, h9, _⟩ := hS
    have hka2 : Spec.keysApartFrom false (st.chain ++ JSONElement.STRING x :: tail) = true := by
      have := hka
      unfold Spec.keysApart JSONSimpleStringParseAttr.nodes at this
      rw [hc] at this
      exact this
    rw [hu] at h3 h4
    obtain ⟨f1, f2⟩ := attr_found (self.searchStart a true) a hlen0 hkm x tail st.chain false
      false (fun h => h) h9 hka2 h3 h4
    have hsome : Spec.attrValue a ((self.searchStart a true).nodes psi) = some x := by
      unfold Spec.attrValue JSONSimpleStringParseAttr.nodes
      rw [hc]; exact f1
    have hxv : x.is_value_ = true := by
      rw [f2, hit_setTake, Bool.and_eq_true] at h4
      exact h4.1
    constructor
    · intro hn
      rw [hsome] at hn
      exact absurd hn (by simp)
    · intro v hv
      rw [hsome] at hv
      have hvx : x = v := by injection hv
      subst hvx
      refine ⟨?_, ⟨st.chain, tail, hc, ht⟩, ⟨_, _, h7⟩, ?_⟩
      · have f3 : st.chain.foldl JSONSimpleStringParseAttr.next (self.searchStart a true)
            = (self.searchStart a true).setTake true := f2
        rw [hE, r3, h5, f3]
        exact (attr_take_value (self.searchStart a true) x _ _ _ rfl hxv).1
      · rw [hE, r1]
        rcases h8 with e | e | e
        · left
          rw [hfin.2.2.2.1 (by rw [e]; decide), e]; rfl
        · right; left
          rw [hfin.2.2.2.1 (by rw [e.1]; decide), e.1]
          exact ⟨rfl, e.2.2⟩
        · right; right
          refine ⟨e.1, ?_⟩
          rcases e.2 with e2 | e2
          · left; rw [hfin.2.2.2.1 (by rw [e2]; decide), e2]; rfl
          · right; rw [hfin.2.2.2.1 (by rw [e2]; decide), e2]; rfl

set_option maxRecDepth 1000000 in
/-- C29, witness: in the text of the test "Attribute parse" the search for `test` yields
the value `e`, the search for `number` the value `0`, and `something`, which occurs only
as a value, is not found. -/
theorem attribute_search_witness :
    ((attrParse.FromStringSearch 0 "test".toList true).2.GetAttrValue = "e".toList ∧
      (∃ pre tail, (attrParse.searchStart "test".toList true).nodes 0
        = pre ++ JSONElement.STRING
            { string_ := "e".toList, length_ := 1, is_value_ := true, literal_ := false } ::
            tail ∧ tail.length ≤ 1)) ∧
    (attrParse.FromStringSearch 0 "test".toList true).2.GetLastError = ERR.ERR_NONE ∧
    (attrParse.FromStringSearch 0 "number".toList true).2.GetAttrValue = "0".toList ∧
    (attrParse.FromStringSearch 0 "number".toList true).2.GetLastError = ERR.ERR_NONE ∧
    (attrParse.FromStringSearch 0 "something".toList true).2.GetLastError
      = ERR.ERR_NOT_FOUND :=
  have h := (attribute_search attrParse 0 "test".toList rfl (by decide) (by decide)
    (by decide) (by decide) (by decide) (by decide)).2
    { string_ := "e".toList, length_ := 1, is_value_ := true, literal_ := false } (by decide)
  ⟨⟨h.1, h.2.1⟩, by decide, by decide, by decide, by decide⟩

/-- C29, failing case: on the text `\x7b"a":""\x7d` the search for `a` ends with
`ERR_NONE`, and `GetAttrValue()` is `"\x7d`, the text from the closing quote on, not the
empty content of the value: the value node is made by `JSONString::Data` with the length
0, which stands for "up to the NUL". -/
theorem attribute_search_empty_value :
    (emptyValueParse.FromStringSearch 0 "a".toList true).2.GetLastError = ERR.ERR_NONE ∧
    (emptyValueParse.FromStringSearch 0 "a".toList true).2.GetAttrValue = "\"\x7d".toList ∧
    (emptyValueParse.FromStringSearch 0 "a".toList true).2.GetAttrValue ≠ [] ∧
    cstr emptyValueParse.io_.Get = "\x7b\"a\":\"\"\x7d".toList := by
  decide

end Claims29

section Claims30

/-- C30 (amended): `JSONSimpleStringParse::FromStringSearch(psi, s)` in case-sensitive
mode, for a search string `s` that is not empty, has no NUL and is shorter than `LENGTH`,
on a buffer that is not empty.  A string node, key or value, quoted or literal, is a hit
exactly when its content equals `s` (a content of which `s` is only a proper prefix is
none).  If no node that the parse creates has the content `s`, the last error is not
`ERR_NONE`, and it is `ERR_NOT_FOUND` when the parse itself ends without error.  If a node
that the parse creates has the content `s`, the parse is stopped at the first such node:
it is the last string node created, at most a closing marker follows it, and the last
error is `ERR_NONE`, unless the pass that creates the node sets an error itself
(`ERR_BAD_VALUE` for a value that is no literal, or a negative depth under balance
enforcement).  The content of a node is its token cut by `JSONString::Data`. -/
theorem string_search_exact (self : JSONSimpleStringParse) (psi : Nat) (s : List Char)
    (hcb : self.base.callbacks_ = true)
    (hrun : self.io_.GetLength ≠ 0 ∧ psi < self.io_.GetLength)
    (hs0 : s ≠ []) (hsn : ∀ c ∈ s, c ≠ NUL) (hsl : s.length < self.base.LENGTH)
    (hL : self.base.LENGTH ≤ 255) :
    (∀ a : JSONString, (∀ c ∈ a.string_, c ≠ NUL) →
      ((self.searchStart s true).hit a = true ↔ a.string_ = s)) ∧
    ((∀ a, JSONElement.STRING a ∈ (self.searchStart s true).nodes psi → a.string_ ≠ s) →
      (self.FromStringSearch psi s true).2.GetLastError ≠ ERR.ERR_NONE ∧
      (((self.searchStart s true).FromStringPsi psi).2.GetLastError = ERR.ERR_NONE →
        (self.FromStringSearch psi s true).2.GetLastError = ERR.ERR_NOT_FOUND)) ∧
    ((∃ a, JSONElement.STRING a ∈ (self.searchStart s true).nodes psi ∧ a.string_ = s) →
      ∃ pre a tail, (self.searchStart s true).nodes psi = pre ++ JSONElement.STRING a :: tail ∧
        a.string_ = s ∧ (∀ b, JSONElement.STRING b ∈ pre → b.string_ ≠ s) ∧ tail.length ≤ 1 ∧
        ((self.FromStringSearch psi s true).2.GetLastError = ERR.ERR_NONE ∨
          ((self.FromStringSearch psi s true).2.GetLastError = ERR.ERR_BAD_VALUE ∧
            a.is_value_ = true ∧ IsLiteral a.string_ a.length_ = false) ∨
          (self.base.limit_node_level_ = true ∧
            ((self.FromStringSearch psi s true).2.GetLastError
                = ERR.ERR_UNEXPECTED_END_OF_ARRAY ∨
              (self.FromStringSearch psi s true).2.GetLastError
                = ERR.ERR_UNEXPECTED_END_OF_MAP)))) := by
  have hhit := fun a ha => simple_hit_iff self s a hs0 hsn hsl hL ha
  have herr := simple_search_error self psi s true hrun
  have hmap : (self.FromStringSearch psi s true).2.GetLastError =
      searchError ((self.searchStart s true).FromStringPsi psi).2.GetLastError :=
    simple_mapError _
  have hst := scan_trace (self.searchStart s true).base
    hcb simple_searching (self.searchStart s true) (self.searchStart s true).io_.Get psi trivial
  have hfin := finish_search (self.searchStart s true).base
    (FromString.scan (self.searchStart s true).base JSONSimpleStringParse.tokenizer
      (self.searchStart s true) (self.searchStart s true).io_.Get false psi)
  refine ⟨hhit, ?_, ?_⟩
  · intro hno
    rcases hst with ⟨hq, hne⟩ | ⟨st, _, _, a, hS⟩
    · constructor
      · rw [herr]
        have := hfin.2.2.2.2 hne
        rcases searchError_cases (FromString.finish (self.searchStart s true).base
          (FromString.scan (self.searchStart s true).base JSONSimpleStringParse.tokenizer
            (self.searchStart s true) (self.searchStart s true).io_.Get false psi)).last_error_
          with h | h | h
        · rw [h.2]; decide
        · exact absurd h.1 this
        · rw [h.2.2]; exact h.1
      · intro h
        rw [hmap, h]; rfl
    · exfalso
      obtain ⟨_, ⟨tail, hc, _⟩, _, h4, _, _, h7, _, _, _⟩ := hS
      rw [foldl_const] at h4
      have hmem : JSONElement.STRING a ∈ (self.searchStart s true).nodes psi := by
        unfold JSONSimpleStringParse.nodes
        rw [hc]; simp
      exact hno a hmem ((hhit a (ofSpan_clean _ _ _ _ _ h7)).1 h4)
  · rintro ⟨a0, hmem, ha0⟩
    rcases hst with ⟨hq, hne⟩ | ⟨st, _, _, a, hS⟩
    · exfalso
      have h1 := (quietOn_const _ _ _).1 hq.2.2.2.2.1 a0 hmem
      have h2 := (hhit a0 (hq.2.2.2.2.2 a0 hmem)).2 ha0
      rw [h1] at h2
      exact absurd h2 (by decide)
    · obtain ⟨_, ⟨tail, hc, ht⟩, h3, h4, _, _, h7, h8, h9, _⟩ := hS
      rw [foldl_const] at h4
      refine ⟨st.chain, a, tail, hc, (hhit a (ofSpan_clean _ _ _ _ _ h7)).1 h4, ?_, ht, ?_⟩
      · intro b hb hbs
        have h1 := (quietOn_const _ _ _).1 h3 b hb
        have h2 := (hhit b (h9 b hb)).2 hbs
        rw [h1] at h2
        exact absurd h2 (by decide)
      · rw [herr]
        rcases h8 with e | e | e
        · left
          rw [hfin.2.2.2.1 (by rw [e]; decide), e]; rfl
        · right; left
          rw [hfin.2.2.2.1 (by rw [e.1]; decide), e.1]
          exact ⟨rfl, e.2⟩
        · right; right
          refine ⟨e.1, ?_⟩
          rcases e.2 with e2 | e2
          · left; rw [hfin.2.2.2.1 (by rw [e2]; decide), e2]; rfl
          · right; rw [hfin.2.2.2.1 (by rw [e2]; decide), e2]; rfl

set_option maxRecDepth 1000000 in
/-- C30, witness: in the text of the test "Searching for strings" the search for `10`
ends with `ERR_NONE` at the token `10`, the last node created, behind the nodes `100` and
`1000`. -/
theorem string_search_exact_witness :
    (∃ pre a tail, (searchParse.searchStart "10".toList true).nodes 0
        = pre ++ JSONElement.STRING a :: tail ∧
      a.string_ = "10".toList ∧ (∀ b, JSONElement.STRING b ∈ pre → b.string_ ≠ "10".toList) ∧
      tail.length ≤ 1 ∧
      ((searchParse.FromStringSearch 0 "10".toList true).2.GetLastError = ERR.ERR_NONE ∨
        ((searchParse.FromStringSearch 0 "10".toList true).2.GetLastError = ERR.ERR_BAD_VALUE ∧
          a.is_value_ = true ∧ IsLiteral a.string_ a.length_ = false) ∨
        (searchParse.base.limit_node_level_ = true ∧
          ((searchParse.FromStringSearch 0 "10".toList true).2.GetLastError
              = ERR.ERR_UNEXPECTED_END_OF_ARRAY ∨
            (searchParse.FromStringSearch 0 "10".toList true).2.GetLastError
              = ERR.ERR_UNEXPECTED_END_OF_MAP)))) ∧
    (searchParse.FromStringSearch 0 "10".toList true).2.GetLastError = ERR.ERR_NONE ∧
    (searchParse.FromStringSearch 0 "10".toList true).1 = 39 ∧
    (searchParse.FromStringSearch 0 "200".toList true).1 = 5 :=
  ⟨(string_search_exact searchParse 0 "10".toList rfl (by decide) (by decide) (by decide)
      (by decide) (by decide)).2.2
      ⟨{ string_ := "10".toList, length_ := 2, is_value_ := true, literal_ := true },
        by decide, rfl⟩,
    by decide, by decide, by decide⟩

set_option maxRecDepth 1000000 in
/-- C30, counterexample: for `JSONSimpleStringParse<8>` on the text `[100000000]` the
search for `1000000` ends with `ERR_NONE`, though the search string is only a proper
prefix of the one token: the node holds the first 7 bytes of the token. -/
theorem string_search_long_token :
    (longTokenParse.FromStringSearch 0 "1000000".toList true).2.GetLastError = ERR.ERR_NONE ∧
    cstr longTokenParse.io_.Get = "[100000000]".toList ∧
    "1000000".toList.length < longTokenParse.base.LENGTH ∧
    "1000000".toList <+: "100000000".toList ∧ "1000000".toList ≠ "100000000".toList := by
  decide

end Claims30

section Claims31

/-- C31 (the code as it is): what matches the documented format
`[s]<n>[[dp]<N>][[e|E][S]<n>]` (an optional `-`, an integer part that is `0` or digits
without a leading zero, optionally `.` and at least one digit, optionally `e` or `E`, an
optional `+` or `-` and at least one digit), `IsDecimal(s, strlen(s), true)` accepts; and
of the texts of bytes that are not empty and in which every `.` stands between two
digits, it accepts those that match the format and no others. -/
theorem decimal_format (s : List Char) :
    (Spec.decimalFormat s = true → IsDecimal s s.length true = true) ∧
    ((∀ c ∈ s, c.toNat < 256) → s ≠ [] → Spec.dotsBetweenDigits s = true →
      (IsDecimal s s.length true = true ↔ Spec.decimalFormat s = true)) :=
  ⟨decimalFormat_accepted s,
    fun hb hne hd => ⟨accepted_decimalFormat s hb hne hd, decimalFormat_accepted s⟩⟩

set_option maxRecDepth 100000 in
/-- C31, witness: `-1.5e+10` matches the format and is accepted; `1e+`, `01` and `-` have
no `.`, are not accepted and do not match. -/
theorem decimal_format_witness :
    IsDecimal "-1.5e+10".toList 8 true = true ∧
    (IsDecimal "1e+".toList 3 true = true ↔ Spec.decimalFormat "1e+".toList = true) ∧
    IsDecimal "1e+".toList 3 true = false ∧
    (IsDecimal "01".toList 2 true = true ↔ Spec.decimalFormat "01".toList = true) ∧
    IsDecimal "01".toList 2 true = false ∧
    (IsDecimal "-".toList 1 true = true ↔ Spec.decimalFormat "-".toList = true) ∧
    IsDecimal "-".toList 1 true = false :=
  ⟨(decimal_format "-1.5e+10".toList).1 (by decide),
    (decimal_format "1e+".toList).2 (by decide) (by decide) (by decide), by decide,
    (decimal_format "01".toList).2 (by decide) (by decide) (by decide), by decide,
    (decimal_format "-".toList).2 (by decide) (by decide) (by decide), by decide⟩

set_option maxRecDepth 100000 in
/-- C31, failing cases: `IsDecimal` accepts the empty text and the texts `.5`, `1.`,
`-.5`, `.` and `.5.5`, none of which matches the documented format; `IsLiteral` accepts
them with it.  A `.` at index 0 is stored as `dp = 0`, which the loop reads as "no decimal
point", and digits behind a `.` are demanded only before an exponent (`1.e5` is not
accepted). -/
theorem decimal_format_dot :
    (IsDecimal [] 0 true = true ∧ Spec.decimalFormat [] = false) ∧
    (IsDecimal ".5".toList 2 true = true ∧ Spec.decimalFormat ".5".toList = false) ∧
    (IsDecimal "1.".toList 2 true = true ∧ Spec.decimalFormat "1.".toList = false) ∧
    (IsDecimal "-.5".toList 3 true = true ∧ Spec.decimalFormat "-.5".toList = false) ∧
    (IsDecimal ".".toList 1 true = true ∧ Spec.decimalFormat ".".toList = false) ∧
    (IsDecimal ".5.5".toList 4 true = true ∧ Spec.decimalFormat ".5.5".toList = false) ∧
    IsLiteral ".5".toList 2 true = true ∧ IsLiteral "1.".toList 2 true = true ∧
    IsLiteral [] 0 true = true ∧
    IsDecimal "1.e5".toList 4 true = false := by
  decide

end Claims31

section Claims32

/-- C32 (the code as it is): when a handler replaces the span `[si, ei)` of a token,
`si < ei`, by the replacement kept in `value_`, of `n` bytes, the index correction that it
records is `adj_i_ = n - e->Length()`, the length of the replacement minus the length of
the node `e` of the token: in `JSONSimpleStringParseAttr::TokenString` for the value
behind the attribute (replace) and for the attribute (rename), in
`JSONSimpleStringParse::TokenString` for the string found.  The node is made of the span
by `Data`, which gets the length of the span as a `uint8_t`, `d = (uint8_t)(ei - si)`: so
the correction is `n - (ei - si)` when the span has at most `LENGTH` bytes, and
`n - (LENGTH - 1)` when it has more than `LENGTH` and fewer than 256 bytes; for every
span the node has `d` bytes when `0 < d <= LENGTH`, `LENGTH - 1` bytes when `LENGTH < d`,
and with `d = 0` the bytes up to the NUL, `LENGTH - 1` at most. -/
theorem index_correction (u : JSONSimpleStringParseAttr) (w : JSONSimpleStringParse)
    (e : JSONString) (s : List Char) (si ei : Int) (LENGTH : Nat)
    (hL0 : 0 < LENGTH) (hL : LENGTH ≤ 255)
    (hspan : JSONString.ofSpan LENGTH s si ei e) (hlt : si < ei)
    (hu : strlen u.value_ ≤ 32767) (hw : strlen w.value_ ≤ 32767) :
    (u.replace_ = true → u.take_next_ = true → e.is_value_ = true →
      (JSONSimpleStringParseAttr.TokenString OP.OP_FROM_STRING u e s si ei).2.1.adj_i_
        = (strlen u.value_ : Int) - e.length_) ∧
    (u.rename_ = true → u.take_next_ = false → u.attr_length_ ≠ 0 → e.is_value_ = false →
      u.keyMatch e = true →
      (JSONSimpleStringParseAttr.TokenString OP.OP_FROM_STRING u e s si ei).2.1.adj_i_
        = (strlen u.value_ : Int) - e.length_) ∧
    (w.replace_ = true →
      (JSONSimpleStringParse.TokenString OP.OP_FROM_STRING w e s si ei).1 = true →
      (JSONSimpleStringParse.TokenString OP.OP_FROM_STRING w e s si ei).2.1.adj_i_
        = (strlen w.value_ : Int) - e.length_) ∧
    (ei - si ≤ LENGTH → (e.length_ : Int) = ei - si) ∧
    ((LENGTH : Int) < ei - si → ei - si < 256 → e.length_ = LENGTH - 1) ∧
    (wrapU8 (ei - si) ≠ 0 →
      e.length_ = if LENGTH < wrapU8 (ei - si) then LENGTH - 1 else wrapU8 (ei - si)) ∧
    (wrapU8 (ei - si) = 0 →
      e.length_ = if wrapU8 (strlen (ptrAt s si)) < LENGTH then wrapU8 (strlen (ptrAt s si))
        else LENGTH - 1) := by
  have hne : (si != ei) = true := by simp; omega
  have hlen : e.length_ = JSONString.DataCount LENGTH (ptrAt s si) (wrapU8 (ei - si)) := hspan.2
  have hd : wrapU8 (ei - si) < 256 := by unfold wrapU8; omega
  have hpos : wrapU8 (ei - si) ≠ 0 →
      e.length_ = if LENGTH < wrapU8 (ei - si) then LENGTH - 1 else wrapU8 (ei - si) := by
    intro h0
    rw [hlen]
    unfold JSONString.DataCount
    have h1 : (wrapU8 (ei - si) == 0) = false := by simpa using h0
    simp only [h1, Bool.false_eq_true, if_false]
    split
    · have e1 : ((LENGTH : Int) - 1) = ((LENGTH - 1 : Nat) : Int) := by omega
      rw [e1, wrapU8_of_lt (by omega)]
    · exact wrapU8_of_lt (by omega)
  have hzero : wrapU8 (ei - si) = 0 →
      e.length_ = if wrapU8 (strlen (ptrAt s si)) < LENGTH then wrapU8 (strlen (ptrAt s si))
        else LENGTH - 1 := by
    intro h0
    rw [hlen, h0]
    rfl
  have hs8 : wrapU8 (strlen (ptrAt s si)) < 256 := by unfold wrapU8; omega
  have hle : e.length_ ≤ 255 := by
    by_cases h0 : wrapU8 (ei - si) = 0
    · rw [hzero h0]; split <;> omega
    · rw [hpos h0]; split <;> omega
  have wu : wrapI16 (((wrapU16 (strlen u.value_) : Nat) : Int) - e.length_)
      = (strlen u.value_ : Int) - e.length_ := by
    rw [wrapU16_of_le (by omega)]
    unfold wrapI16; omega
  have ww : wrapI16 (((wrapU16 (strlen w.value_) : Nat) : Int) - e.length_)
      = (strlen w.value_ : Int) - e.length_ := by
    rw [wrapU16_of_le (by omega)]
    unfold wrapI16; omega
  refine ⟨?_, ?_, ?_, ?_, ?_, hpos, hzero⟩
  · intro h1 h2 h3
    unfold JSONSimpleStringParseAttr.TokenString
    simp only [beq_self_eq_true, if_true, h1, h2, h3, hne, Bool.true_and, decide_eq_true_eq,
      if_pos hlt]
    exact wu
  · intro h1 h2 h3 h4 h5
    unfold JSONSimpleStringParseAttr.keyMatch at h5
    have h6 : (u.attr_length_ != 0) = true := by simpa using h3
    unfold JSONSimpleStringParseAttr.TokenString
    simp only [beq_self_eq_true, if_true, h1, h2, h4, h5, h6, hne, Bool.true_and,
      decide_eq_true_eq, if_pos hlt, Bool.false_eq_true, if_false, Bool.not_false]
    exact wu
  · intro h1 h2
    have key : ∀ found : Bool,
        (if found then
          if (w.replace_ && si != ei && decide (si < ei)) = true then
            (true, (w.replaceToken e s si ei).1, (w.replaceToken e s si ei).2)
          else (true, w, s)
        else (false, w, s)).1 = true →
        (if found then
          if (w.replace_ && si != ei && decide (si < ei)) = true then
            (true, (w.replaceToken e s si ei).1, (w.replaceToken e s si ei).2)
          else (true, w, s)
        else (false, w, s)).2.1.adj_i_ = (strlen w.value_ : Int) - e.length_ := by
      intro found hf
      cases found with
      | false => exact absurd hf (by simp)
      | true =>
        simp only [if_true, h1, hne, Bool.true_and, decide_eq_true_eq, if_pos hlt]
        exact ww
    unfold JSONSimpleStringParse.TokenString at h2 ⊢
    simp only [beq_self_eq_true, if_true] at h2 ⊢
    by_cases hs : (w.str_length_ != 0) = true
    · rw [if_pos hs] at h2 ⊢
      exact key _ h2
    · rw [if_neg hs] at h2
      exact absurd h2 (by simp)
  · intro h
    have hw8 : wrapU8 (ei - si) = (ei - si).toNat := by unfold wrapU8; omega
    rw [hpos (by rw [hw8]; omega), hw8, if_neg (by omega)]
    omega
  · intro h h256
    have hw8 : wrapU8 (ei - si) = (ei - si).toNat := by unfold wrapU8; omega
    rw [hpos (by rw [hw8]; omega), hw8, if_pos (by omega)]

end Claims32
section Claims32w

/-- C32, witness: the replace block on the value `x` of the text
`\x7b"a":"x","b":"y"\x7d`, span `[6, 7)`, with the replacement `0123456789` records the
correction `10 - 1 = 9`. -/
theorem index_correction_witness :
    (JSONSimpleStringParseAttr.TokenString OP.OP_FROM_STRING
      ((staleParse.replaceStart "a".toList "0123456789".toList true).setTake true)
      (JSONString.mkStr 12 "x".toList) staleParse.io_.Get 6 7).2.1.adj_i_
      = (strlen ((staleParse.replaceStart "a".toList "0123456789".toList
          true).setTake true).value_ : Int) - (JSONString.mkStr 12 "x".toList).length_ ∧
    (strlen ((staleParse.replaceStart "a".toList "0123456789".toList
      true).setTake true).value_ : Int) - (JSONString.mkStr 12 "x".toList).length_ = 10 - (7 - 6) :=
  ⟨(index_correction
      ((staleParse.replaceStart "a".toList "0123456789".toList true).setTake true)
      searchParse (JSONString.mkStr 12 "x".toList) staleParse.io_.Get 6 7 12 (by decide)
      (by decide) (by unfold JSONString.ofSpan; decide) (by decide) (by decide)
      (by decide)).1 rfl rfl rfl,
   by decide⟩

/-- C32, failing case: for `JSONSimpleStringParseAttr<12>` on the text
`\x7b"a":"0123456789abcdef"\x7d` the replacement of the value of 16 bytes by `x` makes the
text 15 bytes shorter, `1 - 16`, and records the correction `1 - 11 = -10`: the node of
the token holds its first 11 bytes.  The rename of the key of 16 bytes of
`\x7b"0123456789abcdef":"v"\x7d` to `x` is done, and `FromStringRename` returns the index
`(uint16_t)(1 - 10) = 65527`, which lies outside the text.  And of a span of 258 bytes
`Data` gets the length `(uint8_t)258 = 2`, so that the node has 2 bytes. -/
theorem index_correction_long_token :
    (longValueParse.FromStringReplace 0 "a".toList "x".toList true).2.GetLastError
      = ERR.ERR_NONE ∧
    strlen longValueParse.io_.Get = 24 ∧
    cstr (longValueParse.FromStringReplace 0 "a".toList "x".toList true).2.io_.Get
      = "\x7b\"a\":\"x\"\x7d".toList ∧
    strlen (longValueParse.FromStringReplace 0 "a".toList "x".toList true).2.io_.Get = 9 ∧
    (longValueParse.FromStringReplace 0 "a".toList "x".toList true).2.adj_i_ = -10 ∧
    (longValueParse.FromStringReplace 0 "a".toList "x".toList true).2.adj_i_
      ≠ (1 : Int) - 16 ∧
    (longKeyParse.FromStringRename 0 "0123456789a".toList "x".toList true).2.GetLastError
      = ERR.ERR_NONE ∧
    cstr (longKeyParse.FromStringRename 0 "0123456789a".toList "x".toList true).2.io_.Get
      = "\x7b\"x\":\"v\"\x7d".toList ∧
    (longKeyParse.FromStringRename 0 "0123456789a".toList "x".toList true).2.adj_i_ = -10 ∧
    (longKeyParse.FromStringRename 0 "0123456789a".toList "x".toList true).1 = 65527 ∧
    JSONString.DataCount 12 (List.replicate 258 '1') (wrapU8 ((259 : Int) - 1)) = 2 := by
  decide

end Claims32w

section Claims33

variable {σ : Type}

/-- C33 (amended): in every chain that `FromString` makes, a key node has `literal = false`
and the content of a string node with `literal = true` is a literal for `IsLiteral`.  At
every pass of the loop that begins outside a quoted span, the value node made of the
pending token is a value, and when `Data` accepts the token its flag `literal` is true
exactly when the token was sampled unquoted (`is_literal = 2`); `Data` refuses the token
exactly when it was sampled unquoted and its content, cut by `Data`, is no literal.
Then, within the memory budget, the pass on `]` or `\x7d` links the node and the marker and
`FromString` ends with `ERR_BAD_VALUE`, or, under balance enforcement, with
`ERR_UNEXPECTED_END_OF_ARRAY` or `ERR_UNEXPECTED_END_OF_MAP`; and the pass on `,` ends
`FromString` with `ERR_BAD_VALUE`: never with `ERR_NONE`. -/
theorem literal_flags (p : JSONParse) (cb : JSONTokenizer σ) (user : σ)
    (s : List Char) (h : Bool) (psi : Nat) (st : ScanState σ)
    (hst : st ∈ FromString.scanPasses p cb user s h psi)
    (hq : st.quoted_processing = false) :
    (∀ a, JSONElement.STRING a ∈ (FromString.scan p cb user s h psi).chain →
      (a.is_value_ = false → a.literal_ = false) ∧
      (a.literal_ = true → a.is_value_ = true ∧ IsLiteral a.string_ a.length_ = true)) ∧
    ((FromString.valueNode p st).2.is_value_ = true ∧
      ((FromString.valueNode p st).1 = true →
        ((FromString.valueNode p st).2.literal_ = true ↔ st.is_literal = 2)) ∧
      ((FromString.valueNode p st).1 = false ↔
        (st.is_literal = 2 ∧
          IsLiteral (FromString.valueNode p st).2.string_ (FromString.valueNode p st).2.length_
            = false))) ∧
    ((charAt st.s st.i = ']' ∨ charAt st.s st.i = '\x7d') → -1 < st.str_start →
      (h = false ∨
        wrapU16 ((st.binary_size_ : Int) + ((p.sizeofString + p.sizeofArray : Nat) : Int))
          ≤ p.limit_memory_) →
      (FromString.valueNode p st).1 = false →
      (∃ m, (FromString.body p cb h st).chain
        = st.chain ++ [JSONElement.STRING (FromString.valueNode p st).2, m]) ∧
      (FromString p cb user s h psi).parser.last_error_ ≠ ERR.ERR_NONE ∧
      ((FromString p cb user s h psi).parser.last_error_ = ERR.ERR_BAD_VALUE ∨
        (p.limit_node_level_ = true ∧
          ((FromString p cb user s h psi).parser.last_error_ = ERR.ERR_UNEXPECTED_END_OF_ARRAY ∨
            (FromString p cb user s h psi).parser.last_error_
              = ERR.ERR_UNEXPECTED_END_OF_MAP)))) ∧
    (charAt st.s st.i = ',' → -1 < st.str_start →
      (h = false ∨ st.binary_size_ + p.sizeofString ≤ p.limit_memory_) →
      (FromString.valueNode p st).1 = false →
      (FromString p cb user s h psi).parser.last_error_ = ERR.ERR_BAD_VALUE) := by
  have he := scanPasses_error_none p cb user s h psi st hst
  obtain ⟨v1, v2, v3⟩ := valueNode_flags p st
  refine ⟨?_, ⟨v1, ?_, v3⟩, ?_, ?_⟩
  · exact loop_flags p cb h _ _ _ (by intro a ha; simp [FromString.init] at ha)
  · intro hok
    constructor
    · intro hl; exact (v2.1 hl).1
    · intro h2
      refine v2.2 ⟨h2, ?_⟩
      by_contra hn
      have := v3.2 ⟨h2, by simpa using hn⟩
      rw [this] at hok
      exact absurd hok (by decide)
  · intro hc hp hm hf
    have hsw : ∃ isMap, FromString.switch p cb h (charAt st.s st.i) st
        = FromString.caseClose p cb h isMap st := by
      rcases hc with e | e
      · refine ⟨false, ?_⟩
        unfold FromString.switch
        rw [e]; rfl
      · refine ⟨true, ?_⟩
        unfold FromString.switch
        rw [e]; rfl
    obtain ⟨isMap, hsw⟩ := hsw
    obtain ⟨b1, b2⟩ := caseClose_bad p cb h isMap st hp hm hf
    have hbody : FromString.body p cb h st
        = FromString.after p h (FromString.caseClose p cb h isMap st) := by
      unfold FromString.body
      rw [dispatch_switch p cb h st he hq, hsw]
    have herr : (FromString.body p cb h st).last_error_ = ERR.ERR_BAD_VALUE ∨
        (p.limit_node_level_ = true ∧
          ((FromString.body p cb h st).last_error_ = ERR.ERR_UNEXPECTED_END_OF_ARRAY ∨
            (FromString.body p cb h st).last_error_ = ERR.ERR_UNEXPECTED_END_OF_MAP)) := by
      rw [hbody]
      rcases after_error p h (FromString.caseClose p cb h isMap st) with e | e | e
      · left; rw [e.1, b1]
      · rw [b1] at e; exact absurd e.2.2 (by decide)
      · right; exact e
    have hne : (FromString.body p cb h st).last_error_ ≠ ERR.ERR_NONE := by
      rcases herr with e | ⟨_, e | e⟩ <;> rw [e] <;> decide
    have hf2 := (FromString_of_pass_error p cb user s h psi st hst hne).1
    refine ⟨⟨FromString.marker isMap false, ?_⟩, ?_, ?_⟩
    · rw [hbody, (after_frame p h _).2, b2]
    · rw [hf2]; exact hne
    · rw [hf2]; exact herr
  · intro hc hp hm hf
    have hsw : FromString.switch p cb h (charAt st.s st.i) st = FromString.caseComma p cb h st := by
      unfold FromString.switch
      rw [hc]; rfl
    have b1 := caseComma_bad p cb h st hp hm hf
    obtain ⟨d1, d2⟩ := caseComma_depth p cb h st
    have hbody : FromString.body p cb h st
        = FromString.setHead h (FromString.caseComma p cb h st) := by
      unfold FromString.body
      rw [dispatch_switch p cb h st he hq, hsw]
      exact after_of_error p h _ (by rw [b1]; decide)
        (fun hl => by rw [d1, d2]; exact passes_depth p cb user s h psi st hst hl)
    have herr : (FromString.body p cb h st).last_error_ = ERR.ERR_BAD_VALUE := by
      rw [hbody, (setHead_fields h _).1, b1]
    rw [(FromString_of_pass_error p cb user s h psi st hst (by rw [herr]; decide)).1, herr]

set_option maxRecDepth 1000000 in
/-- C33, witness: in `[1,"1",true,"true"]` the unquoted tokens give literal nodes and the
quoted tokens nodes that are no literals; in `[a]` the pass on `]` finds the unquoted
token `a`, which is no literal, and `FromString` ends with `ERR_BAD_VALUE`. -/
theorem literal_flags_witness :
    ((FromString testParser JSONParse.tokenizer () "[a]".toList true 0).parser.last_error_
        ≠ ERR.ERR_NONE ∧
      (FromString testParser JSONParse.tokenizer () "[a]".toList true 0).parser.last_error_
        = ERR.ERR_BAD_VALUE) ∧
    (FromString testParser JSONParse.tokenizer () "[1,\"1\",true,\"true\"]".toList
      true).parser.last_error_ = ERR.ERR_NONE ∧
    (FromString testParser JSONParse.tokenizer () "[1,\"1\",true,\"true\"]".toList true).head
      = [JSONElement.ARRAY true,
          JSONElement.STRING
            { string_ := "1".toList, length_ := 1, is_value_ := true, literal_ := true },
          JSONElement.STRING
            { string_ := "1".toList, length_ := 1, is_value_ := true, literal_ := false },
          JSONElement.STRING
            { string_ := "true".toList, length_ := 4, is_value_ := true, literal_ := true },
          JSONElement.STRING
            { string_ := "true".toList, length_ := 4, is_value_ := true, literal_ := false },
          JSONElement.ARRAY false] :=
  ⟨⟨((literal_flags testParser JSONParse.tokenizer () "[a]".toList true 0
      { s := "[a]".toList, user := (), i := 2, is_literal := 2, ac := 1, mc := 0,
        str_start := 1, str_end := 2, chain := [JSONElement.ARRAY true],
        head := some 0, expect_value := false, stop := false, quoted_processing := false,
        escape := false, last_error_ := ERR.ERR_NONE, binary_size_ := 16 }
      (by decide) rfl).2.2.1 (Or.inl (by decide)) (by decide) (Or.inr (by decide))
      (by decide)).2.1, by decide⟩,
   by decide, by decide⟩

/-- C33, counterexample: in `\x7ba]` the unquoted token `a` is no literal, its node has
`literal = false`, and `FromString` ends with `ERR_UNEXPECTED_END_OF_ARRAY`, not with
`ERR_BAD_VALUE`: the bracket that ends the token drives the array depth negative. -/
theorem literal_flags_end_of_array :
    (FromString testParser JSONParse.tokenizer () "\x7ba]".toList true).parser.last_error_
      = ERR.ERR_UNEXPECTED_END_OF_ARRAY ∧
    (FromString testParser JSONParse.tokenizer () "\x7ba]".toList true).parser.last_error_
      ≠ ERR.ERR_BAD_VALUE ∧
    (FromString testParser JSONParse.tokenizer () "\x7ba]".toList true).head
      = [JSONElement.MAP true,
          JSONElement.STRING
            { string_ := "a".toList, length_ := 1, is_value_ := true, literal_ := false },
          JSONElement.ARRAY false] ∧
    IsLiteral "a".toList 1 = false := by
  decide

end Claims33

section Claims34

variable {σ : Type}

/-- C34: the loop of `FromString` terminates, for every text, every start index and every
behaviour of the three callbacks.  The measure `2 * (l - i) + (1 while a token is
pending)` falls with every pass that stays in the loop, also with the pass of the case
`','` that steps the index back; so the loop makes at most `2 * l` passes, `l` the length
of the text, the scan is the same with every greater number of passes allowed, and it ends
by one of the tests of the loop: the index has reached `l`, or the last pass has left the
loop.  In the scan of `\x7b"a":"x","b":"y"\x7d` (17 bytes) with the callbacks of an
attribute search the comma behind `"x"` is scanned twice: 18 passes. -/
theorem scan_terminates (p : JSONParse) (cb : JSONTokenizer σ) (user : σ) (s : List Char)
    (h : Bool) (psi : Nat) :
    (∀ st ∈ FromString.scanPasses p cb user s h psi,
      FromString.leaves p (FromString.body p cb h st) = false →
      (FromString.body p cb h st).next.measure (wrapU16 (strlen s))
        < st.measure (wrapU16 (strlen s))) ∧
    (FromString.scanPasses p cb user s h psi).length ≤ 2 * wrapU16 (strlen s) ∧
    (∀ k, FromString.loop p cb h (wrapU16 (strlen s)) (2 * wrapU16 (strlen s) + 1 + k)
        (FromString.init user s psi) = FromString.scan p cb user s h psi) ∧
    (¬ (FromString.scan p cb user s h psi).i < wrapU16 (strlen s) ∨
      ∃ x ∈ FromString.scanPasses p cb user s h psi,
        FromString.leaves p (FromString.body p cb h x) = true ∧
        FromString.scan p cb user s h psi = FromString.body p cb h x) ∧
    ((FromString.scanPasses (staleParse.searchStart "zz".toList true).base
        JSONSimpleStringParseAttr.tokenizer (staleParse.searchStart "zz".toList true)
        staleParse.io_.Get false 0).map (fun st => st.i)
      = [0, 1, 2, 3, 4, 5, 6, 7, 8, 8, 9, 10, 11, 12, 13, 14, 15, 16]) := by
  have hl : wrapU16 (strlen s) ≤ 65535 := wrapU16_le _
  have hm : (FromString.init user s psi).measure (wrapU16 (strlen s))
      ≤ 2 * wrapU16 (strlen s) := by
    show 2 * (wrapU16 (strlen s) - psi) + (if (-1 : Int) = -1 then 0 else 1) ≤ _
    rw [if_pos rfl]
    omega
  refine ⟨?_, ?_, ?_, ?_, by decide⟩
  · intro st hst hlv
    exact body_measure p cb h _ st hl (passes_index p cb h _ _ _ _ hst) hlv
  · exact le_trans (passes_length p cb h _ hl _ _) hm
  · intro k
    exact loop_fuel_enough p cb h _ hl _ _ (by omega) k
  · exact loop_exit p cb h _ hl _ _ (by omega)

end Claims34
section Claims34w

/-- C34, witness: the first pass of the scan of `[1]` stays in the loop and lowers the
measure from 6 to 4. -/
theorem scan_terminates_witness :
    (FromString.body testParser JSONParse.tokenizer true
      (FromString.init () "[1]".toList 0)).next.measure (wrapU16 (strlen "[1]".toList))
      < (FromString.init () "[1]".toList 0).measure (wrapU16 (strlen "[1]".toList)) ∧
    (FromString.init () "[1]".toList 0).measure (wrapU16 (strlen "[1]".toList)) = 6 ∧
    (FromString.body testParser JSONParse.tokenizer true
      (FromString.init () "[1]".toList 0)).next.measure (wrapU16 (strlen "[1]".toList)) = 4 :=
  ⟨(scan_terminates testParser JSONParse.tokenizer () "[1]".toList true 0).1
      (FromString.init () "[1]".toList 0) (by decide) (by decide),
   by decide, by decide⟩

end Claims34w

section Claims35

/-- C35: for a valid span `sp ≤ ep ≤ L`, `sp < L`, `JSONSupport::Replace` moves
`L - ep + diff` bytes, `diff` more than the tail behind the span.  With a longer
replacement that passes the fit check `d_max >= d_length + diff`, the bytes at the
indices from `L + diff` to `L + 2*diff - 1` are overwritten by the old bytes `diff` below
them (the highest index written is `L + 2*diff - 1`, and the index `d_max` is among them
when the fit is tight), and no byte above is changed; with a shorter replacement the bytes
at the indices from `L - diff` to `L - 1` become the old bytes at the indices from `L` to
`L + diff - 1`, read behind the current length. -/
theorem replace_moves_past (d s : List Char) (L M sp ep n : Nat)
    (hsp : sp ≤ ep) (hep : ep ≤ L) (hspL : sp < L) (hL : L ≤ 65535) (hn : n ≤ 65535)
    (hM : M ≤ 65535) :
    (ep - sp < n → L + (n - (ep - sp)) ≤ M →
      (∀ t, L + (n - (ep - sp)) ≤ t → t < L + 2 * (n - (ep - sp)) → t < d.length →
        charAt (Replace d L M sp ep s n).2 t = charAt d (t - (n - (ep - sp)))) ∧
      (M < L + 2 * (n - (ep - sp)) → M < d.length →
        charAt (Replace d L M sp ep s n).2 M = charAt d (M - (n - (ep - sp)))) ∧
      (∀ t, L + 2 * (n - (ep - sp)) ≤ t →
        charAt (Replace d L M sp ep s n).2 t = charAt d t)) ∧
    (n < ep - sp →
      ∀ t, L - (ep - sp - n) ≤ t → t < L → t < d.length →
        charAt (Replace d L M sp ep s n).2 t = charAt d (t + (ep - sp - n))) := by
  constructor
  · intro hg hfit
    rw [replace_grow d s L M sp ep n hsp hep hspL hn hg hfit hM]
    have key : ∀ t, L + (n - (ep - sp)) ≤ t → t < L + 2 * (n - (ep - sp)) → t < d.length →
        charAt (memcpy (memmove d (ep + (n - (ep - sp))) ep (L - ep + (n - (ep - sp)))) sp s n) t
          = charAt d (t - (n - (ep - sp))) := by
      intro t h1 h2 h3
      rw [charAt_memcpy_out _ _ _ _ _ (Or.inr (by omega)), charAt_memmove,
        if_pos ⟨by omega, by omega, h3⟩]
      congr 1; omega
    refine ⟨key, fun h1 h2 => key M hfit h1 h2, ?_⟩
    intro t h1
    show charAt (memcpy (memmove d _ _ _) sp s n) t = _
    rw [charAt_memcpy_out _ _ _ _ _ (Or.inr (by omega)), charAt_memmove, if_neg (by omega)]
  · intro hs t h1 h2 h3
    rw [replace_shrink d s L M sp ep n hsp hep hspL hL hs]
    show charAt (memcpy (memmove d _ _ _) sp s n) t = _
    rw [charAt_memcpy_out _ _ _ _ _ (Or.inr (by omega)), charAt_memmove,
      if_pos ⟨by omega, by omega, h3⟩]
    congr 1; omega

/-- C35, witness: in an array of 16 bytes that holds a text of 6 bytes in a buffer of
capacity 8, the replacement of the byte `[2, 3)` by three bytes passes the fit check
`8 >= 6 + 2` and overwrites the bytes at the indices 8 and 9, behind the capacity; and the
replacement of `[1, 4)` by one byte copies the two bytes behind the text into it. -/
theorem replace_moves_past_witness :
    (charAt (Replace "abcdefXYZWVUTSRQ".toList 6 8 (2 : Nat) (3 : Nat) "123".toList 3).2 8
        = charAt "abcdefXYZWVUTSRQ".toList 6 ∧
      (Replace "abcdefXYZWVUTSRQ".toList 6 8 (2 : Nat) (3 : Nat) "123".toList 3)
        = (8, "ab123defXYVUTSRQ".toList)) ∧
    (charAt (Replace "abcdefXYZWVUTSRQ".toList 6 8 (1 : Nat) (4 : Nat) "1".toList 1).2 5
        = charAt "abcdefXYZWVUTSRQ".toList (5 + (4 - 1 - 1)) ∧
      (Replace "abcdefXYZWVUTSRQ".toList 6 8 (1 : Nat) (4 : Nat) "1".toList 1)
        = (4, "a1efXYXYZWVUTSRQ".toList)) :=
  ⟨⟨((replace_moves_past "abcdefXYZWVUTSRQ".toList "123".toList 6 8 2 3 3 (by decide)
      (by decide) (by decide) (by decide) (by decide) (by decide)).1 (by decide)
      (by decide)).2.1 (by decide) (by decide), by decide⟩,
   ⟨(replace_moves_past "abcdefXYZWVUTSRQ".toList "1".toList 6 8 1 4 1 (by decide)
      (by decide) (by decide) (by decide) (by decide) (by decide)).2 (by decide) 5 (by decide)
      (by decide) (by decide), by decide⟩⟩

end Claims35

section Claims36

/-- C36: the replace handlers store the new length of the text in the IO object only when
it is `0`.  After `JSONSimpleStringParseAttr::FromStringReplace`, `FromStringRename` and
`JSONSimpleStringParse::FromStringReplace` the recorded length `GetLength()` is the one
before the call (or `0`), whatever the text has become; the replace block itself leaves
the recorded length as it was whenever `JSONSupport::Replace` returns a length that is not
`0`.  A following replace runs with the stale length: on the text
`\x7b"a":"x","b":"y"\x7d` of 17 bytes the replacement of the value of `a` by
`0123456789` gives a text of 26 bytes with the recorded length 17, and the replacement of
the value of `b` by `z` then ends with `ERR_NONE`, the token found, and leaves the text as
it was, the span being behind the recorded length. -/
theorem recorded_length_stale (self : JSONSimpleStringParseAttr)
    (simple : JSONSimpleStringParse) (psi : Nat) (a v : List Char) (cs : Bool) :
    ((self.FromStringReplace psi a v cs).2.io_.GetLength = self.io_.GetLength ∨
      (self.FromStringReplace psi a v cs).2.io_.GetLength = 0) ∧
    ((self.FromStringRename psi a v cs).2.io_.GetLength = self.io_.GetLength ∨
      (self.FromStringRename psi a v cs).2.io_.GetLength = 0) ∧
    ((simple.FromStringReplace psi a v cs).2.io_.GetLength = simple.io_.GetLength ∨
      (simple.FromStringReplace psi a v cs).2.io_.GetLength = 0) ∧
    (∀ (e : JSONString) (s : List Char) (si ei : Int),
      (Replace s self.io_.GetLength (self.io_.GetLength true) si ei self.value_
        (wrapU16 (strlen self.value_))).1 ≠ 0 →
      (JSONSimpleStringParseAttr.replaceToken self e s si ei).1.io_.GetLength
        = self.io_.GetLength) ∧
    (∀ (e : JSONString) (s : List Char) (si ei : Int),
      (Replace s simple.io_.GetLength (simple.io_.GetLength true) si ei simple.value_
        (wrapU16 (strlen simple.value_))).1 ≠ 0 →
      (JSONSimpleStringParse.replaceToken simple e s si ei).1.io_.GetLength
        = simple.io_.GetLength) ∧
    ((staleParse.FromStringReplace 0 "a".toList "0123456789".toList true).2.GetLastError
        = ERR.ERR_NONE ∧
      cstr (staleParse.FromStringReplace 0 "a".toList "0123456789".toList true).2.io_.Get
        = "\x7b\"a\":\"0123456789\",\"b\":\"y\"\x7d".toList ∧
      (staleParse.FromStringReplace 0 "a".toList "0123456789".toList true).2.io_.GetLength
        = 17 ∧
      ((staleParse.FromStringReplace 0 "a".toList "0123456789".toList true).2.FromStringReplace
        0 "b".toList "z".toList true).2.GetLastError = ERR.ERR_NONE ∧
      cstr ((staleParse.FromStringReplace 0 "a".toList
        "0123456789".toList true).2.FromStringReplace 0 "b".toList "z".toList true).2.io_.Get
        = "\x7b\"a\":\"0123456789\",\"b\":\"y\"\x7d".toList) := by
  refine ⟨?_, ?_, ?_, ?_, ?_, by decide⟩
  · exact attr_run_length (self.replaceStart a v cs) psi
  · have e : (self.FromStringRename psi a v cs).2 =
        JSONSimpleStringParseAttr.mapError ((self.renameStart a v cs).FromStringPsi psi).2 := by
      unfold JSONSimpleStringParseAttr.FromStringRename
      simp only
      split <;> rfl
    rw [e]
    exact attr_run_length (self.renameStart a v cs) psi
  · exact simple_run_length (simple.replaceStart a v cs) psi
  · intro e s si ei h
    rw [attr_replaceToken_length, if_neg h]
  · intro e s si ei h
    rw [simple_replaceToken_length, if_neg h]

end Claims36
section Claims36w

/-- C36, witness: the replace block on the value `x` of the text
`\x7b"a":"x","b":"y"\x7d`, span `[6, 7)`, with the replacement `0123456789`:
`JSONSupport::Replace` returns 26, and the recorded length stays 17. -/
theorem recorded_length_stale_witness :
    (Replace staleParse.io_.Get 17 64 6 7 "0123456789".toList 10).1 = 26 ∧
    (JSONSimpleStringParseAttr.replaceToken
      (staleParse.replaceStart "a".toList "0123456789".toList true)
      (JSONString.mkStr 12 "x".toList) staleParse.io_.Get 6 7).1.io_.GetLength
      = (staleParse.replaceStart "a".toList "0123456789".toList true).io_.GetLength ∧
    (staleParse.replaceStart "a".toList "0123456789".toList true).io_.GetLength = 17 :=
  ⟨by decide,
   (recorded_length_stale (staleParse.replaceStart "a".toList "0123456789".toList true)
      searchParse 0 [] [] true).2.2.2.1 (JSONString.mkStr 12 "x".toList) staleParse.io_.Get 6 7
      (by decide),
   by decide⟩

end Claims36w

section Claims37

variable {σ : Type}

/-- C37: `FromString` counts the array depth and the map depth each for itself and never
compares a closing bracket with the kind of the bracket opened last.  With balance
enforcement on and callbacks off, every text of brackets that are balanced per kind (after
no prefix is the count of `]` above that of `[` or the count of `\x7d` above that of
`\x7b`, and the counts agree at the end), interleaved or not, is parsed with `ERR_NONE`;
so is `[\x7b]\x7d`, with the chain of its four markers; and a `"key":` pair inside an
array is accepted: `["key":1]` is parsed with `ERR_NONE` and a key node in the array. -/
theorem brackets_per_kind (p : JSONParse) (cb : JSONTokenizer σ) (user : σ) (s : List Char)
    (hcb : p.callbacks_ = false) (hl : p.limit_node_level_ = true)
    (hlen : s.length ≤ 32767)
    (hs : ∀ c ∈ s, c = '[' ∨ c = ']' ∨ c = '\x7b' ∨ c = '\x7d')
    (hb : Spec.balancedPerKind s = true) :
    (FromString p cb user s false 0).parser.last_error_ = ERR.ERR_NONE ∧
    ((FromString testParser JSONParse.tokenizer () "[\x7b]\x7d".toList true).parser.last_error_
        = ERR.ERR_NONE ∧
      (FromString testParser JSONParse.tokenizer () "[\x7b]\x7d".toList true).head
        = [JSONElement.ARRAY true, JSONElement.MAP true, JSONElement.ARRAY false,
            JSONElement.MAP false]) ∧
    ((FromString testParser JSONParse.tokenizer () "[\"key\":1]".toList true).parser.last_error_
        = ERR.ERR_NONE ∧
      (FromString testParser JSONParse.tokenizer () "[\"key\":1]".toList true).head
        = [JSONElement.ARRAY true,
            JSONElement.STRING
              { string_ := "key".toList, length_ := 3, is_value_ := false, literal_ := false },
            JSONElement.STRING
              { string_ := "1".toList, length_ := 1, is_value_ := true, literal_ := true },
            JSONElement.ARRAY false]) := by
  refine ⟨?_, by decide, by decide⟩
  unfold Spec.balancedPerKind at hb
  rw [Bool.and_eq_true, List.all_eq_true] at hb
  obtain ⟨hb1, hb2⟩ := hb
  have hnn : ∀ k, k ≤ s.length →
      0 ≤ (Spec.bracketDepth (s.take k)).1 ∧ 0 ≤ (Spec.bracketDepth (s.take k)).2 := by
    intro k hk
    have := hb1 k (List.mem_range.2 (by omega))
    simpa using this
  have hz : Spec.bracketDepth s = (0, 0) := by simpa using hb2
  have hnul : ∀ c ∈ s, c ≠ NUL := by
    intro c hc
    rcases hs c hc with h | h | h | h <;> rw [h] <;> decide
  have hw : wrapU16 (strlen s) = s.length := by
    rw [strlen_of_nul_free s hnul]
    exact wrapU16_of_le (by omega)
  show (FromString.finish p (FromString.loop p cb false (wrapU16 (strlen s))
    (2 * wrapU16 (strlen s) + 1) (FromString.init user s 0))).last_error_ = ERR.ERR_NONE
  rw [hw]
  exact loop_brackets p cb s user hcb hl hlen hs hnn hz (2 * s.length + 1) 0 [] 0
    (Nat.zero_le _) (by omega)

/-- C37, witness: the interleaved texts `[\x7b]\x7d` and `\x7b[[\x7d]]` are balanced per
kind and are parsed with `ERR_NONE`. -/
theorem brackets_per_kind_witness :
    (FromString testParser JSONParse.tokenizer () "[\x7b]\x7d".toList false 0).parser.last_error_
      = ERR.ERR_NONE ∧
    (FromString testParser JSONParse.tokenizer () "\x7b[[\x7d]]".toList false
      0).parser.last_error_ = ERR.ERR_NONE :=
  ⟨(brackets_per_kind testParser JSONParse.tokenizer () "[\x7b]\x7d".toList rfl rfl
      (by decide) (by decide) (by decide)).1,
   (brackets_per_kind testParser JSONParse.tokenizer () "\x7b[[\x7d]]".toList rfl rfl
      (by decide) (by decide) (by decide)).1⟩

end Claims37

section Claims38

variable {σ : Type}

/-- C38 (amended): only the space and the tab are white space.  At every pass of the loop
of `FromString` that begins outside a quoted span, inside a bracket, where a new token may
start or a literal is being sampled (`is_literal >= 1`), on a carriage return or a line
feed, `FromString` ends with `ERR_BAD_VALUE` at the index of that byte; at every pass that
begins outside a quoted span, inside a bracket, on a space or a tab, the pass sets no error
and leaves the pending token, the chain and the depths as they were.  So `[\n1]` ends with
`ERR_BAD_VALUE` at index 1 and `[ 1]` with `ERR_NONE`. -/
theorem newline_bad_value (p : JSONParse) (cb : JSONTokenizer σ) (user : σ)
    (s : List Char) (h : Bool) (psi : Nat) (st : ScanState σ)
    (hst : st ∈ FromString.scanPasses p cb user s h psi)
    (hq : st.quoted_processing = false) (hin : ¬ (st.mc = 0 ∧ st.ac = 0)) :
    (1 ≤ st.is_literal → (charAt st.s st.i = '\n' ∨ charAt st.s st.i = '\r') →
      (FromString p cb user s h psi).parser.last_error_ = ERR.ERR_BAD_VALUE ∧
      (FromString p cb user s h psi).index = st.i) ∧
    ((charAt st.s st.i = ' ' ∨ charAt st.s st.i = TAB) →
      (FromString.body p cb h st).last_error_ = ERR.ERR_NONE ∧
      (FromString.body p cb h st).chain = st.chain ∧
      (FromString.body p cb h st).str_start = st.str_start ∧
      (FromString.body p cb h st).str_end = st.str_end ∧
      (FromString.body p cb h st).is_literal = st.is_literal ∧
      (FromString.body p cb h st).ac = st.ac ∧ (FromString.body p cb h st).mc = st.mc) ∧
    ((FromString testParser JSONParse.tokenizer () "[\n1]".toList true).parser.last_error_
        = ERR.ERR_BAD_VALUE ∧
      (FromString testParser JSONParse.tokenizer () "[\n1]".toList true).index = 1 ∧
      (FromString testParser JSONParse.tokenizer () "[ 1]".toList true).parser.last_error_
        = ERR.ERR_NONE) := by
  have he := scanPasses_error_none p cb user s h psi st hst
  have hd := fun hl => passes_depth p cb user s h psi st hst hl
  refine ⟨?_, ?_, by decide⟩
  · intro hl hc
    have hb := body_bad_value p cb h st he hq hin hl hd
      (by rcases hc with e | e <;> rw [e] <;> decide)
      (by rcases hc with e | e <;> rw [e] <;> decide)
      (by rcases hc with e | e <;> rw [e] <;> decide)
      (by rcases hc with e | e <;> rw [e] <;> decide)
    have e1 := setHead_fields h (st.setError ERR.ERR_BAD_VALUE)
    have hne : (FromString.body p cb h st).last_error_ ≠ ERR.ERR_NONE := by
      rw [hb, e1.1]; simp [ScanState.setError]
    have hf := FromString_of_pass_error p cb user s h psi st hst hne
    rw [hb] at hf
    exact ⟨hf.1.trans e1.1, hf.2.trans e1.2.2.2⟩
  · intro hc
    have hb := body_blank p cb h st he hq (passes_stop p cb user s h psi st hst) hd hc hin
    obtain ⟨f1, f2, f3, f4, f5, _, f7, f8, _⟩ := setHead_same h st
    rw [hb]
    exact ⟨f1.trans he, f2, f3, f4, f5, f7, f8⟩

set_option maxRecDepth 1000000 in
/-- C38, witness: in the scan of `[\n1]` the pass on the line feed begins inside the array
where a token may start, and `FromString` ends there with `ERR_BAD_VALUE`; in the scan of
`[ 1]` the pass on the space sets no error. -/
theorem newline_bad_value_witness :
    ((FromString testParser JSONParse.tokenizer () "[\n1]".toList true 0).parser.last_error_
        = ERR.ERR_BAD_VALUE ∧
      (FromString testParser JSONParse.tokenizer () "[\n1]".toList true 0).index = 1) ∧
    (FromString.body testParser JSONParse.tokenizer true
      { s := "[ 1]".toList, user := (), i := 1, is_literal := 1, ac := 1, mc := 0,
        str_start := -1, str_end := -1, chain := [JSONElement.ARRAY true],
        head := some 0, expect_value := false, stop := false, quoted_processing := false,
        escape := false, last_error_ := ERR.ERR_NONE, binary_size_ := 16 }).last_error_
      = ERR.ERR_NONE :=
  ⟨(newline_bad_value testParser JSONParse.tokenizer () "[\n1]".toList true 0
      { s := "[\n1]".toList, user := (), i := 1, is_literal := 1, ac := 1, mc := 0,
        str_start := -1, str_end := -1, chain := [JSONElement.ARRAY true],
        head := some 0, expect_value := false, stop := false, quoted_processing := false,
        escape := false, last_error_ := ERR.ERR_NONE, binary_size_ := 16 }
      (by decide) rfl (by decide)).1 (by decide) (Or.inl (by decide)),
   ((newline_bad_value testParser JSONParse.tokenizer () "[ 1]".toList true 0
      { s := "[ 1]".toList, user := (), i := 1, is_literal := 1, ac := 1, mc := 0,
        str_start := -1, str_end := -1, chain := [JSONElement.ARRAY true],
        head := some 0, expect_value := false, stop := false, quoted_processing := false,
        escape := false, last_error_ := ERR.ERR_NONE, binary_size_ := 16 }
      (by decide) rfl (by decide)).2.1 (Or.inl (by decide))).1⟩

/-- C38, counterexample: in `[1\n2]` the line feed is read while a literal is sampled, and
the parse ends with `ERR_BAD_VALUE`; the same text with a space in the place of the line
feed does not parse with `ERR_NONE`: the span of the literal becomes `1 2`, and the parse
ends with `ERR_BAD_VALUE` at the closing bracket. -/
theorem newline_replaced_by_space :
    (FromString testParser JSONParse.tokenizer () "[1\n2]".toList true).parser.last_error_
      = ERR.ERR_BAD_VALUE ∧
    (FromString testParser JSONParse.tokenizer () "[1\n2]".toList true).index = 2 ∧
    (FromString testParser JSONParse.tokenizer () "[1 2]".toList true).parser.last_error_
      = ERR.ERR_BAD_VALUE ∧
    (FromString testParser JSONParse.tokenizer () "[1 2]".toList true).index = 4 ∧
    (FromString testParser JSONParse.tokenizer () "[1 2]".toList true).parser.last_error_
      ≠ ERR.ERR_NONE := by
  decide

end Claims38

section Claims39

variable {σ : Type}

/-- C39: at every pass of the loop of `FromString` that begins outside a quoted span with
a closed quoted token pending, on a byte that is none of `[ ] { } : ,`, inside a bracket or
on a `"`: the pass sets no error and leaves the pending token, the chain, the depths, the
index, the text and the binary size as they were.  So `["a"xyz]` and `["a""b"]` are parsed
with `ERR_NONE` to the chain of `["a"]`: the opening marker, the value node `a` and the
closing marker. -/
theorem after_quoted_ignored (p : JSONParse) (cb : JSONTokenizer σ) (user : σ)
    (s : List Char) (h : Bool) (psi : Nat) (st : ScanState σ)
    (hst : st ∈ FromString.scanPasses p cb user s h psi)
    (hq : st.quoted_processing = false)
    (hk : st.is_literal = 0 ∧ st.str_start ≠ -1 ∧ st.str_end ≠ -1)
    (hc : charAt st.s st.i ∉ ['[', ']', '\x7b', '\x7d', ':', ','])
    (hin : charAt st.s st.i = DQUOTE ∨ ¬ (st.mc = 0 ∧ st.ac = 0)) :
    ((FromString.body p cb h st).last_error_ = ERR.ERR_NONE ∧
      (FromString.body p cb h st).chain = st.chain ∧
      (FromString.body p cb h st).str_start = st.str_start ∧
      (FromString.body p cb h st).str_end = st.str_end ∧
      (FromString.body p cb h st).is_literal = 0 ∧
      (FromString.body p cb h st).quoted_processing = false ∧
      (FromString.body p cb h st).ac = st.ac ∧ (FromString.body p cb h st).mc = st.mc ∧
      (FromString.body p cb h st).i = st.i ∧ (FromString.body p cb h st).s = st.s ∧
      (FromString.body p cb h st).binary_size_ = st.binary_size_) ∧
    ((FromString testParser JSONParse.tokenizer () "[\"a\"xyz]".toList true).parser.last_error_
        = ERR.ERR_NONE ∧
      (FromString testParser JSONParse.tokenizer () "[\"a\"xyz]".toList true).head
        = [JSONElement.ARRAY true,
            JSONElement.STRING
              { string_ := "a".toList, length_ := 1, is_value_ := true, literal_ := false },
            JSONElement.ARRAY false]) ∧
    ((FromString testParser JSONParse.tokenizer () "[\"a\"\"b\"]".toList
        true).parser.last_error_ = ERR.ERR_NONE ∧
      (FromString testParser JSONParse.tokenizer () "[\"a\"\"b\"]".toList true).head
        = [JSONElement.ARRAY true,
            JSONElement.STRING
              { string_ := "a".toList, length_ := 1, is_value_ := true, literal_ := false },
            JSONElement.ARRAY false]) ∧
    ((FromString testParser JSONParse.tokenizer () "[\"a\"]".toList true).parser.last_error_
        = ERR.ERR_NONE ∧
      (FromString testParser JSONParse.tokenizer () "[\"a\"]".toList true).head
        = [JSONElement.ARRAY true,
            JSONElement.STRING
              { string_ := "a".toList, length_ := 1, is_value_ := true, literal_ := false },
            JSONElement.ARRAY false]) := by
  refine ⟨?_, by decide, by decide, by decide⟩
  have hb := body_ignored p cb h st (scanPasses_error_none p cb user s h psi st hst) hq
    (passes_stop p cb user s h psi st hst)
    (fun hl => passes_depth p cb user s h psi st hst hl) ⟨hk.1, hk.2.1⟩ hc hin
  obtain ⟨f1, f2, f3, f4, f5, f6, f7, f8, f9, f10, f11, _⟩ := setHead_same h st
  rw [hb]
  exact ⟨f1.trans (scanPasses_error_none p cb user s h psi st hst), f2, f3, f4,
    f5.trans hk.1, f6.trans hq, f7, f8, f9, f10, f11⟩

set_option maxRecDepth 1000000 in
/-- C39, witness: in the scan of `["a"xyz]` the pass on `x` begins behind the closed quoted
token `a` and changes nothing. -/
theorem after_quoted_ignored_witness :
    (FromString.body testParser JSONParse.tokenizer true
      { s := "[\"a\"xyz]".toList, user := (), i := 4, is_literal := 0, ac := 1, mc := 0,
        str_start := 2, str_end := 3, chain := [JSONElement.ARRAY true],
        head := some 0, expect_value := false, stop := false, quoted_processing := false,
        escape := false, last_error_ := ERR.ERR_NONE, binary_size_ := 16 }).last_error_
      = ERR.ERR_NONE ∧
    (FromString.body testParser JSONParse.tokenizer true
      { s := "[\"a\"xyz]".toList, user := (), i := 4, is_literal := 0, ac := 1, mc := 0,
        str_start := 2, str_end := 3, chain := [JSONElement.ARRAY true],
        head := some 0, expect_value := false, stop := false, quoted_processing := false,
        escape := false, last_error_ := ERR.ERR_NONE, binary_size_ := 16 }).chain
      = [JSONElement.ARRAY true] :=
  have h := (after_quoted_ignored testParser JSONParse.tokenizer () "[\"a\"xyz]".toList true 0
    { s := "[\"a\"xyz]".toList, user := (), i := 4, is_literal := 0, ac := 1, mc := 0,
      str_start := 2, str_end := 3, chain := [JSONElement.ARRAY true],
      head := some 0, expect_value := false, stop := false, quoted_processing := false,
      escape := false, last_error_ := ERR.ERR_NONE, binary_size_ := 16 }
    (by decide) rfl (by decide) (by decide) (by decide)).1
  ⟨h.1, h.2.1⟩

end Claims39

section Claims40

/-- C40: every string that `IsInt(s, l, false)` accepts is accepted by
`IsDecimal(s, l, allow_exponent)` for both values of `allow_exponent`, and every string
that `IsDecimal(s, l, false)` accepts is accepted by `IsDecimal(s, l, true)`; hence each
of them is a literal for `IsLiteral`.  With leading zeros allowed the inclusion fails:
`IsInt("00", true)` is true and `IsDecimal("00")` is false in both modes. -/
theorem classifier_inclusion (s : List Char) (l : Nat) :
    (IsInt s l false = true →
      ∀ ae, IsDecimal s l ae = true ∧ IsLiteral s l ae = true) ∧
    (IsDecimal s l false = true →
      IsDecimal s l true = true ∧ IsLiteral s l false = true ∧ IsLiteral s l true = true) ∧
    (IsInt "00".toList 2 true = true ∧ IsDecimal "00".toList 2 true = false ∧
      IsDecimal "00".toList 2 false = false ∧ IsLiteral "00".toList 2 true = false) := by
  refine ⟨?_, ?_, by decide⟩
  · intro h ae
    have hd := isInt_isDecimal s l ae h
    refine ⟨hd, ?_⟩
    unfold IsLiteral
    rw [hd]; simp
  · intro h
    have hd := isDecimal_exponent_mono s l h
    refine ⟨hd, ?_, ?_⟩
    · unfold IsLiteral; rw [h]; simp
    · unfold IsLiteral; rw [hd]; simp

/-- C40, witness: `-12000009` is accepted by `IsInt` without leading zeros, so it is a
decimal with and without exponents and a literal; `1.5` is a decimal without exponents,
so it is one with exponents. -/
theorem classifier_inclusion_witness :
    (IsInt "-12000009".toList 9 false = true ∧
      IsDecimal "-12000009".toList 9 false = true ∧ IsDecimal "-12000009".toList 9 true = true ∧
      IsLiteral "-12000009".toList 9 true = true) ∧
    (IsDecimal "1.5".toList 3 false = true ∧ IsDecimal "1.5".toList 3 true = true) :=
  ⟨⟨by decide,
    ((classifier_inclusion "-12000009".toList 9).1 (by decide) false).1,
    ((classifier_inclusion "-12000009".toList 9).1 (by decide) true).1,
    ((classifier_inclusion "-12000009".toList 9).1 (by decide) true).2⟩,
   by decide, ((classifier_inclusion "1.5".toList 3).2.1 (by decide)).1⟩

end Claims40

end GJSON
